import Mathlib

/-!
# RSAENH (dlls/rsaenh/rsaenh.c): a shallow embedding and its verified properties

Bytes and DWORDs are natural numbers; DWORD arithmetic that can wrap is written
with an explicit reduction modulo 2^32.  Memory buffers are lists of bytes; a
write that falls outside a buffer is dropped, so buffers keep their length.

Part I holds the definitions (translated from the C source), Part II the lemmas
and the theorems.
-/

namespace Rsaenh

/-! ## Part I. Definitions -/

/-! ### Machine types -/

/-! The C types BYTE, DWORD, BOOL, ALG_ID and the handle types HCRYPTPROV, HCRYPTKEY,
HCRYPTHASH are all embedded as `Nat` (BOOL also as `Bool` where a function
returns it). -/

/-- The last-error codes that rsaenh.c passes to SetLastError. -/
inductive WINERROR where
  | ERROR_SUCCESS
  | ERROR_MORE_DATA
  | ERROR_NO_MORE_ITEMS
  | ERROR_INVALID_PARAMETER
  | NTE_BAD_UID
  | NTE_BAD_HASH
  | NTE_BAD_KEY
  | NTE_BAD_LEN
  | NTE_BAD_DATA
  | NTE_BAD_SIGNATURE
  | NTE_BAD_ALGID
  | NTE_BAD_FLAGS
  | NTE_BAD_TYPE
  | NTE_BAD_KEY_STATE
  | NTE_BAD_HASH_STATE
  | NTE_NO_KEY
  | NTE_NO_MEMORY
  | NTE_EXISTS
  | NTE_BAD_KEYSET
  | NTE_BAD_KEYSET_PARAM
  | NTE_BAD_PUBLIC_KEY
  | NTE_FAIL
  deriving DecidableEq, Repr

deriving instance DecidableEq for Except

/-- DWORD subtraction `a - b` of two 32-bit unsigned values: wraps modulo 2^32 when
`a < b`. -/
def dwSub (a b : Nat) : Nat := if b ≤ a then a - b else a + 4294967296 - b

/-- DWORD multiplication (wraps modulo 2^32). -/
def dwMul (a b : Nat) : Nat := (a * b) % 4294967296

/-- DWORD addition (wraps modulo 2^32). -/
def dwAdd (a b : Nat) : Nat := (a + b) % 4294967296

/-- The C idiom `memcpy(dst + off, src, src.length)` / `memmove` on a buffer `dst`:
the bytes of `src` overwrite `dst` from offset `off`; bytes that would fall
outside `dst` are dropped. -/
def memmove (dst : List Nat) (off : Nat) (src : List Nat) : List Nat :=
  dst.take off ++ (src ++ dst.drop (off + src.length)).take (dst.length - off)

/-- The `n` bytes of `buf` that start at offset `off` (`buf + off`, length `n`). -/
def bytesAt (buf : List Nat) (off n : Nat) : List Nat := (buf.drop off).take n

/-! ### Constants of rsaenh.c -/

def RSAENH_MAX_HASH_SIZE : Nat := 104
def RSAENH_MAX_KEY_SIZE : Nat := 48
def RSAENH_MAX_BLOCK_SIZE : Nat := 24
def RSAENH_KEYSTATE_IDLE : Nat := 0
def RSAENH_KEYSTATE_ENCRYPTING : Nat := 1
def RSAENH_KEYSTATE_DECRYPTING : Nat := 2
def RSAENH_KEYSTATE_MASTERKEY : Nat := 3
def RSAENH_HASHSTATE_IDLE : Nat := 0
def RSAENH_HASHSTATE_HASHING : Nat := 1
def RSAENH_HASHSTATE_FINISHED : Nat := 2
def RSAENH_ENCRYPT : Nat := 1
def RSAENH_DECRYPT : Nat := 0
def RSAENH_HMAC_DEF_IPAD_CHAR : Nat := 0x36
def RSAENH_HMAC_DEF_OPAD_CHAR : Nat := 0x5c
def RSAENH_HMAC_DEF_PAD_LEN : Nat := 64
def RSAENH_PKC_BLOCKTYPE : Nat := 0x02

/-! ### Flag bits (wincrypt.h) -/

def CRYPT_SSL2_FALLBACK : Nat := 0x00000002
def CRYPT_NOHASHOID : Nat := 0x00000001
def CRYPT_X931_FORMAT : Nat := 0x00000004
def CRYPT_SERVER : Nat := 0x00000400
def CRYPT_CREATE_SALT : Nat := 0x00000004
def CRYPT_NO_SALT : Nat := 0x00000010

/-! ### PKCS#1 padding: pad_data and unpad_data -/

/-- The statement `do gen_rand_impl(&abBuffer[i], 1); while (!abBuffer[i]);` of
pad_data.  The random source is the list of the bytes that successive calls of
gen_rand_impl deliver; the loop returns the first non-zero byte and the rest of
the source.  `none`: the source never delivers a non-zero byte, the loop does
not end. -/
def draw_nonzero : List Nat → Option (Nat × List Nat)
  | [] => none
  | b :: rest => if b % 256 = 0 then draw_nonzero rest else some (b % 256, rest)

/-- The loop `for (i=2; i < dwBufferLen - dwDataLen - 1; i++) do ... while (...)` of
pad_data, for `n` remaining iterations starting at index `i`. -/
def pad_fill : Nat → List Nat → List Nat → Nat → Option (List Nat × List Nat)
  | 0, rand, buf, _ => some (buf, rand)
  | n + 1, rand, buf, i =>
    match draw_nonzero rand with
    | none => none
    | some (b, rand') => pad_fill n rand' (buf.set i b) (i + 1)

/-- The loop `for (...; i < bound; i++) abBuffer[i] = 0x03;` of pad_data, for `n`
remaining iterations starting at index `i`. -/
def pad_fallback : Nat → List Nat → Nat → List Nat
  | 0, buf, _ => buf
  | n + 1, buf, i => pad_fallback n (buf.set i 0x03) (i + 1)

/-- The function pad_data.  `rand` is the random source, `abData` the data to be padded
(`dwDataLen` is its length), `abBuffer` the memory at the output pointer.
Result: `none` if the call does not return; otherwise the outcome (`.error e`:
FALSE with last error `e`, buffer untouched; `.ok buf`: TRUE and the buffer
contents) and the rest of the random source. -/
def pad_data (rand : List Nat) (abData : List Nat) (abBuffer : List Nat)
    (dwBufferLen dwFlags : Nat) : Option (Except WINERROR (List Nat) × List Nat) :=
  let dwDataLen := abData.length
  if dwDataLen > dwSub dwBufferLen 11 then
    some (.error WINERROR.NTE_BAD_LEN, rand)
  else
    let buf0 := memmove abBuffer (dwSub dwBufferLen dwDataLen) abData
    let buf1 := (buf0.set 0 0x00).set 1 RSAENH_PKC_BLOCKTYPE
    let bound := dwSub (dwSub dwBufferLen dwDataLen) 1
    match pad_fill (bound - 2) rand buf1 2 with
    | none => none
    | some (buf2, rand') =>
      let i := if 2 < bound then bound else 2
      if dwFlags &&& CRYPT_SSL2_FALLBACK ≠ 0 then
        let i0 := dwSub i 8
        let buf3 := pad_fallback (bound - i0) buf2 i0
        let i1 := if i0 < bound then bound else i0
        some (.ok (buf3.set i1 0x00), rand')
      else
        some (.ok (buf2.set i 0x00), rand')

/-- The loop `for (i=2; i<dwDataLen; i++) if (!abData[i]) break;` of unpad_data: the
value of `i` after the loop, started at `i` with `fuel` iterations left. -/
def unpad_scan (abData : List Nat) (dwDataLen : Nat) : Nat → Nat → Nat
  | 0, i => i
  | fuel + 1, i =>
    if i < dwDataLen then
      if abData.getD i 0 = 0 then i else unpad_scan abData dwDataLen fuel (i + 1)
    else i

/-- The function unpad_data.  `abData` is the padded data of length `dwDataLen`, `abBuffer` the
memory at the output pointer, `dwBufferLen` the value of `*dwBufferLen` on entry.
`.error e`: FALSE with last error `e`, nothing written; `.ok (buf, n)`: TRUE,
the output buffer and the value of `*dwBufferLen` on return. -/
def unpad_data (abData : List Nat) (dwDataLen : Nat) (abBuffer : List Nat)
    (dwBufferLen _dwFlags : Nat) : Except WINERROR (List Nat × Nat) :=
  let i := unpad_scan abData dwDataLen dwDataLen 2
  if i = dwDataLen ∨ dwBufferLen < dwSub (dwSub dwDataLen i) 1 ∨
      abData.getD 0 0 ≠ 0x00 ∨ abData.getD 1 0 ≠ RSAENH_PKC_BLOCKTYPE then
    .error WINERROR.NTE_BAD_DATA
  else
    let n := dwSub (dwSub dwDataLen i) 1
    .ok (memmove abBuffer 0 (bytesAt abData (i + 1) n), n)

/-! ### Algorithm identifiers and parameter numbers (wincrypt.h)

The header wincrypt.h is not part of the translated sources; the values below
are the ones it declares. -/

def ALG_CLASS_SIGNATURE : Nat := 0x2000
def ALG_CLASS_MSG_ENCRYPT : Nat := 0x4000
def ALG_CLASS_DATA_ENCRYPT : Nat := 0x6000
def ALG_CLASS_HASH : Nat := 0x8000
def ALG_CLASS_KEY_EXCHANGE : Nat := 0xa000
def ALG_TYPE_RSA : Nat := 0x0400
def ALG_TYPE_BLOCK : Nat := 0x0600
def ALG_TYPE_STREAM : Nat := 0x0800
def ALG_TYPE_SECURECHANNEL : Nat := 0x0c00

/-- The macro GET_ALG_CLASS: `x & (7 << 13)`. -/
def GET_ALG_CLASS (x : Nat) : Nat := x &&& 0xe000
/-- The macro GET_ALG_TYPE: `x & (15 << 9)`. -/
def GET_ALG_TYPE (x : Nat) : Nat := x &&& 0x1e00

def CALG_MD2 : Nat := 0x8001
def CALG_MD4 : Nat := 0x8002
def CALG_MD5 : Nat := 0x8003
def CALG_SHA : Nat := 0x8004
def CALG_MAC : Nat := 0x8005
def CALG_SSL3_SHAMD5 : Nat := 0x8008
def CALG_HMAC : Nat := 0x8009
def CALG_TLS1PRF : Nat := 0x800a
def CALG_RSA_SIGN : Nat := 0x2400
def CALG_RSA_KEYX : Nat := 0xa400
def CALG_DES : Nat := 0x6601
def CALG_RC2 : Nat := 0x6602
def CALG_3DES : Nat := 0x6603
def CALG_3DES_112 : Nat := 0x6609
def CALG_RC4 : Nat := 0x6801
def CALG_SSL3_MASTER : Nat := 0x4c01
def CALG_SCHANNEL_MASTER_HASH : Nat := 0x4c02
def CALG_SCHANNEL_MAC_KEY : Nat := 0x4c03
def CALG_PCT1_MASTER : Nat := 0x4c04
def CALG_SSL2_MASTER : Nat := 0x4c05
def CALG_TLS1_MASTER : Nat := 0x4c06
def CALG_SCHANNEL_ENC_KEY : Nat := 0x4c07

def AT_KEYEXCHANGE : Nat := 1
def AT_SIGNATURE : Nat := 2

def HP_ALGID : Nat := 0x0001
def HP_HASHVAL : Nat := 0x0002
def HP_HASHSIZE : Nat := 0x0004
def HP_HMAC_INFO : Nat := 0x0005
def HP_TLS1PRF_LABEL : Nat := 0x0006
def HP_TLS1PRF_SEED : Nat := 0x0007

def KP_IV : Nat := 1
def KP_SALT : Nat := 2
def KP_MODE : Nat := 4
def KP_MODE_BITS : Nat := 5
def KP_PERMISSIONS : Nat := 6
def KP_ALGID : Nat := 7
def KP_BLOCKLEN : Nat := 8
def KP_KEYLEN : Nat := 9
def KP_SCHANNEL_ALG : Nat := 20
def KP_CLIENT_RANDOM : Nat := 21
def KP_SERVER_RANDOM : Nat := 22

def CRYPT_MODE_CBC : Nat := 1
def CRYPT_MODE_ECB : Nat := 2
def CRYPT_MODE_OFB : Nat := 3
def CRYPT_MODE_CFB : Nat := 4

def CRYPT_ENCRYPT : Nat := 0x0001
def CRYPT_DECRYPT : Nat := 0x0002
def CRYPT_EXPORT : Nat := 0x0004
def CRYPT_READ : Nat := 0x0008
def CRYPT_WRITE : Nat := 0x0010
def CRYPT_MAC : Nat := 0x0020

def SCHANNEL_MAC_KEY : Nat := 0
def SCHANNEL_ENC_KEY : Nat := 1

def CRYPT_FLAG_PCT1 : Nat := 0x0001
def CRYPT_FLAG_SSL2 : Nat := 0x0002
def CRYPT_FLAG_SSL3 : Nat := 0x0004
def CRYPT_FLAG_TLS1 : Nat := 0x0008
def CRYPT_FLAG_IPSEC : Nat := 0x0010
def CRYPT_FLAG_SIGNING : Nat := 0x0020

def INVALID_HANDLE_VALUE : Nat := 0xffffffff

/-- The macro HIWORD. -/
def HIWORD (x : Nat) : Nat := x / 65536 % 65536
/-- The macro LOWORD. -/
def LOWORD (x : Nat) : Nat := x % 65536
/-- The macro MAKELONG(low, high). -/
def MAKELONG (low high : Nat) : Nat := low % 65536 + high % 65536 * 65536

/-! ### The capability table aProvEnumAlgsEx -/

/-- The struct PROV_ENUMALGS_EX (wincrypt.h), in field order. -/
structure PROV_ENUMALGS_EX where
  aiAlgid : Nat
  dwDefaultLen : Nat
  dwMinLen : Nat
  dwMaxLen : Nat
  dwProtocols : Nat
  dwNameLen : Nat
  szName : String
  dwLongNameLen : Nat
  szLongName : String
  deriving DecidableEq, Repr

def RSAENH_PERSONALITY_BASE : Nat := 0
def RSAENH_PERSONALITY_STRONG : Nat := 1
def RSAENH_PERSONALITY_ENHANCED : Nat := 2
def RSAENH_PERSONALITY_SCHANNEL : Nat := 3
def RSAENH_MAX_ENUMALGS : Nat := 20
def RSAENH_PCT1_SSL2_SSL3_TLS1 : Nat :=
  CRYPT_FLAG_PCT1 ||| CRYPT_FLAG_SSL2 ||| CRYPT_FLAG_SSL3 ||| CRYPT_FLAG_TLS1

/-- The closing record `{0, 0, 0, 0, 0, 1, "", 1, ""}` of each table row. -/
def enumalgs_end : PROV_ENUMALGS_EX := ⟨0, 0, 0, 0, 0, 1, "", 1, ""⟩

/-- The table aProvEnumAlgsEx, one row per personality; `-1` in an unsigned field is 0xffffffff. -/
def aProvEnumAlgsEx : List (List PROV_ENUMALGS_EX) :=
  [ [ ⟨CALG_RC2, 40, 40, 56, 0, 4, "RC2", 24, "RSA Data Security\x27s RC2"⟩,
      ⟨CALG_RC4, 40, 40, 56, 0, 4, "RC4", 24, "RSA Data Security\x27s RC4"⟩,
      ⟨CALG_DES, 56, 56, 56, 0, 4, "DES", 31, "Data Encryption Standard (DES)"⟩,
      ⟨CALG_SHA, 160, 160, 160, CRYPT_FLAG_SIGNING, 6, "SHA-1", 30, "Secure Hash Algorithm (SHA-1)"⟩,
      ⟨CALG_MD2, 128, 128, 128, CRYPT_FLAG_SIGNING, 4, "MD2", 23, "Message Digest 2 (MD2)"⟩,
      ⟨CALG_MD4, 128, 128, 128, CRYPT_FLAG_SIGNING, 4, "MD4", 23, "Message Digest 4 (MD4)"⟩,
      ⟨CALG_MD5, 128, 128, 128, CRYPT_FLAG_SIGNING, 4, "MD5", 23, "Message Digest 5 (MD5)"⟩,
      ⟨CALG_SSL3_SHAMD5, 288, 288, 288, 0, 12, "SSL3 SHAMD5", 12, "SSL3 SHAMD5"⟩,
      ⟨CALG_MAC, 0, 0, 0, 0, 4, "MAC", 28, "Message Authentication Code"⟩,
      ⟨CALG_RSA_SIGN, 512, 384, 16384, CRYPT_FLAG_SIGNING ||| CRYPT_FLAG_IPSEC, 9, "RSA_SIGN", 14,
        "RSA Signature"⟩,
      ⟨CALG_RSA_KEYX, 512, 384, 1024, CRYPT_FLAG_SIGNING ||| CRYPT_FLAG_IPSEC, 9, "RSA_KEYX", 17,
        "RSA Key Exchange"⟩,
      ⟨CALG_HMAC, 0, 0, 0, 0, 5, "HMAC", 18, "Hugo\x27s MAC (HMAC)"⟩,
      enumalgs_end ],
    [ ⟨CALG_RC2, 128, 40, 128, 0, 4, "RC2", 24, "RSA Data Security\x27s RC2"⟩,
      ⟨CALG_RC4, 128, 40, 128, 0, 4, "RC4", 24, "RSA Data Security\x27s RC4"⟩,
      ⟨CALG_DES, 56, 56, 56, 0, 4, "DES", 31, "Data Encryption Standard (DES)"⟩,
      ⟨CALG_3DES_112, 112, 112, 112, 0, 13, "3DES TWO KEY", 19, "Two Key Triple DES"⟩,
      ⟨CALG_3DES, 168, 168, 168, 0, 5, "3DES", 21, "Three Key Triple DES"⟩,
      ⟨CALG_SHA, 160, 160, 160, CRYPT_FLAG_SIGNING, 6, "SHA-1", 30, "Secure Hash Algorithm (SHA-1)"⟩,
      ⟨CALG_MD2, 128, 128, 128, CRYPT_FLAG_SIGNING, 4, "MD2", 23, "Message Digest 2 (MD2)"⟩,
      ⟨CALG_MD4, 128, 128, 128, CRYPT_FLAG_SIGNING, 4, "MD4", 23, "Message Digest 4 (MD4)"⟩,
      ⟨CALG_MD5, 128, 128, 128, CRYPT_FLAG_SIGNING, 4, "MD5", 23, "Message Digest 5 (MD5)"⟩,
      ⟨CALG_SSL3_SHAMD5, 288, 288, 288, 0, 12, "SSL3 SHAMD5", 12, "SSL3 SHAMD5"⟩,
      ⟨CALG_MAC, 0, 0, 0, 0, 4, "MAC", 28, "Message Authentication Code"⟩,
      ⟨CALG_RSA_SIGN, 1024, 384, 16384, CRYPT_FLAG_SIGNING ||| CRYPT_FLAG_IPSEC, 9, "RSA_SIGN", 14,
        "RSA Signature"⟩,
      ⟨CALG_RSA_KEYX, 1024, 384, 16384, CRYPT_FLAG_SIGNING ||| CRYPT_FLAG_IPSEC, 9, "RSA_KEYX", 17,
        "RSA Key Exchange"⟩,
      ⟨CALG_HMAC, 0, 0, 0, 0, 5, "HMAC", 18, "Hugo\x27s MAC (HMAC)"⟩,
      enumalgs_end ],
    [ ⟨CALG_RC2, 128, 40, 128, 0, 4, "RC2", 24, "RSA Data Security\x27s RC2"⟩,
      ⟨CALG_RC4, 128, 40, 128, 0, 4, "RC4", 24, "RSA Data Security\x27s RC4"⟩,
      ⟨CALG_DES, 56, 56, 56, 0, 4, "DES", 31, "Data Encryption Standard (DES)"⟩,
      ⟨CALG_3DES_112, 112, 112, 112, 0, 13, "3DES TWO KEY", 19, "Two Key Triple DES"⟩,
      ⟨CALG_3DES, 168, 168, 168, 0, 5, "3DES", 21, "Three Key Triple DES"⟩,
      ⟨CALG_SHA, 160, 160, 160, CRYPT_FLAG_SIGNING, 6, "SHA-1", 30, "Secure Hash Algorithm (SHA-1)"⟩,
      ⟨CALG_MD2, 128, 128, 128, CRYPT_FLAG_SIGNING, 4, "MD2", 23, "Message Digest 2 (MD2)"⟩,
      ⟨CALG_MD4, 128, 128, 128, CRYPT_FLAG_SIGNING, 4, "MD4", 23, "Message Digest 4 (MD4)"⟩,
      ⟨CALG_MD5, 128, 128, 128, CRYPT_FLAG_SIGNING, 4, "MD5", 23, "Message Digest 5 (MD5)"⟩,
      ⟨CALG_SSL3_SHAMD5, 288, 288, 288, 0, 12, "SSL3 SHAMD5", 12, "SSL3 SHAMD5"⟩,
      ⟨CALG_MAC, 0, 0, 0, 0, 4, "MAC", 28, "Message Authentication Code"⟩,
      ⟨CALG_RSA_SIGN, 1024, 384, 16384, CRYPT_FLAG_SIGNING ||| CRYPT_FLAG_IPSEC, 9, "RSA_SIGN", 14,
        "RSA Signature"⟩,
      ⟨CALG_RSA_KEYX, 1024, 384, 16384, CRYPT_FLAG_SIGNING ||| CRYPT_FLAG_IPSEC, 9, "RSA_KEYX", 17,
        "RSA Key Exchange"⟩,
      ⟨CALG_HMAC, 0, 0, 0, 0, 5, "HMAC", 18, "Hugo\x27s MAC (HMAC)"⟩,
      enumalgs_end ],
    [ ⟨CALG_RC2, 128, 40, 128, RSAENH_PCT1_SSL2_SSL3_TLS1, 4, "RC2", 24,
        "RSA Data Security\x27s RC2"⟩,
      ⟨CALG_RC4, 128, 40, 128, RSAENH_PCT1_SSL2_SSL3_TLS1, 4, "RC4", 24,
        "RSA Data Security\x27s RC4"⟩,
      ⟨CALG_DES, 56, 56, 56, RSAENH_PCT1_SSL2_SSL3_TLS1, 4, "DES", 31,
        "Data Encryption Standard (DES)"⟩,
      ⟨CALG_3DES_112, 112, 112, 112, RSAENH_PCT1_SSL2_SSL3_TLS1, 13, "3DES TWO KEY", 19,
        "Two Key Triple DES"⟩,
      ⟨CALG_3DES, 168, 168, 168, RSAENH_PCT1_SSL2_SSL3_TLS1, 5, "3DES", 21, "Three Key Triple DES"⟩,
      ⟨CALG_SHA, 160, 160, 160, CRYPT_FLAG_SIGNING ||| RSAENH_PCT1_SSL2_SSL3_TLS1, 6, "SHA-1", 30,
        "Secure Hash Algorithm (SHA-1)"⟩,
      ⟨CALG_MD5, 128, 128, 128, CRYPT_FLAG_SIGNING ||| RSAENH_PCT1_SSL2_SSL3_TLS1, 4, "MD5", 23,
        "Message Digest 5 (MD5)"⟩,
      ⟨CALG_SSL3_SHAMD5, 288, 288, 288, 0, 12, "SSL3 SHAMD5", 12, "SSL3 SHAMD5"⟩,
      ⟨CALG_MAC, 0, 0, 0, 0, 4, "MAC", 28, "Message Authentication Code"⟩,
      ⟨CALG_RSA_SIGN, 1024, 384, 16384, CRYPT_FLAG_SIGNING ||| RSAENH_PCT1_SSL2_SSL3_TLS1, 9,
        "RSA_SIGN", 14, "RSA Signature"⟩,
      ⟨CALG_RSA_KEYX, 1024, 384, 16384, CRYPT_FLAG_SIGNING ||| RSAENH_PCT1_SSL2_SSL3_TLS1, 9,
        "RSA_KEYX", 17, "RSA Key Exchange"⟩,
      ⟨CALG_HMAC, 0, 0, 0, 0, 5, "HMAC", 18, "Hugo\x27s MAC (HMAC)"⟩,
      ⟨CALG_PCT1_MASTER, 128, 128, 128, CRYPT_FLAG_PCT1, 12, "PCT1 MASTER", 12, "PCT1 Master"⟩,
      ⟨CALG_SSL2_MASTER, 40, 40, 192, CRYPT_FLAG_SSL2, 12, "SSL2 MASTER", 12, "SSL2 Master"⟩,
      ⟨CALG_SSL3_MASTER, 384, 384, 384, CRYPT_FLAG_SSL3, 12, "SSL3 MASTER", 12, "SSL3 Master"⟩,
      ⟨CALG_TLS1_MASTER, 384, 384, 384, CRYPT_FLAG_TLS1, 12, "TLS1 MASTER", 12, "TLS1 Master"⟩,
      ⟨CALG_SCHANNEL_MASTER_HASH, 0, 0, 0xffffffff, 0, 16, "SCH MASTER HASH", 21,
        "SChannel Master Hash"⟩,
      ⟨CALG_SCHANNEL_MAC_KEY, 0, 0, 0xffffffff, 0, 12, "SCH MAC KEY", 17, "SChannel MAC Key"⟩,
      ⟨CALG_SCHANNEL_ENC_KEY, 0, 0, 0xffffffff, 0, 12, "SCH ENC KEY", 24,
        "SChannel Encryption Key"⟩,
      ⟨CALG_TLS1PRF, 0, 0, 0xffffffff, 0, 9, "TLS1 PRF", 28, "TLS1 Pseudo Random Function"⟩,
      enumalgs_end ] ]

/-! ### Objects: hashes, keys, key containers -/

/-- The struct HMAC_INFO (wincrypt.h); a NULL string pointer is the empty list. -/
structure HMAC_INFO where
  HashAlgid : Nat
  pbInnerString : List Nat
  cbInnerString : Nat
  pbOuterString : List Nat
  cbOuterString : Nat
  deriving DecidableEq, Repr

/-- The struct RSAENH_TLS1PRF_PARAMS; a CRYPT_DATA_BLOB is the list of its `cbData` bytes. -/
structure RSAENH_TLS1PRF_PARAMS where
  blobLabel : List Nat
  blobSeed : List Nat
  deriving DecidableEq, Repr

/-- The struct CRYPTHASH; `η` is the type HASH_CONTEXT of the primitive engine,
`pHMACInfo = none` is the NULL pointer. -/
structure CRYPTHASH (η : Type) where
  aiAlgid : Nat
  hKey : Nat
  hProv : Nat
  dwHashSize : Nat
  dwState : Nat
  context : η
  abHashValue : List Nat
  pHMACInfo : Option HMAC_INFO
  tpPRFParams : RSAENH_TLS1PRF_PARAMS
  deriving DecidableEq, Repr

/-- The struct SCHANNEL_ALG (wincrypt.h). -/
structure SCHANNEL_ALG where
  dwUse : Nat
  Algid : Nat
  cBits : Nat
  dwFlags : Nat
  dwReserved : Nat
  deriving DecidableEq, Repr

/-- The struct RSAENH_SCHANNEL_INFO. -/
structure RSAENH_SCHANNEL_INFO where
  saEncAlg : SCHANNEL_ALG
  saMACAlg : SCHANNEL_ALG
  blobClientRandom : List Nat
  blobServerRandom : List Nat
  deriving DecidableEq, Repr

/-- The struct CRYPTKEY; `κ` is the type KEY_CONTEXT of the primitive engine. -/
structure CRYPTKEY (κ : Type) where
  aiAlgid : Nat
  hProv : Nat
  dwMode : Nat
  dwModeBits : Nat
  dwPermissions : Nat
  dwKeyLen : Nat
  dwSaltLen : Nat
  dwBlockLen : Nat
  dwState : Nat
  context : κ
  abKeyValue : List Nat
  abInitVector : List Nat
  abChainVector : List Nat
  siSChannelInfo : RSAENH_SCHANNEL_INFO
  deriving DecidableEq, Repr

/-- The struct KEYCONTAINER. -/
structure KEYCONTAINER where
  dwFlags : Nat
  dwPersonality : Nat
  dwEnumAlgsCtr : Nat
  dwEnumContainersCtr : Nat
  szName : String
  szProvName : String
  hKeyExchangeKeyPair : Nat
  hSignatureKeyPair : Nat
  deriving DecidableEq, Repr

/-! ### The handle table (handle.c is not part of the translated sources) -/

/-- An object of the handle table, tagged by its kind (the magic value of its header). -/
inductive OBJECT (κ η : Type) where
  | container (c : KEYCONTAINER)
  | key (k : CRYPTKEY κ)
  | hash (h : CRYPTHASH η)
  deriving DecidableEq, Repr

/-- Modelled from the spec: the Handle Registry, "generic opaque-handle store mapping an
integer handle to a reference-counted, typed object; supports
create/lookup/duplicate-reference/release/destroy-on-zero-refcount".  Handle
`h ≥ 1` names slot `h - 1`; a slot holds a reference count and the object, or
is free.  The handle 0 (NULL) and INVALID_HANDLE_VALUE name no object. -/
structure HANDLETABLE (κ η : Type) where
  entries : List (Option (Nat × OBJECT κ η))
  deriving DecidableEq, Repr

/-- Modelled from the spec: `lookup(handle, typeTag) -> object|fail` of the Handle Registry,
before the type tag is compared. -/
def lookup_object {κ η : Type} (t : HANDLETABLE κ η) (h : Nat) : Option (OBJECT κ η) :=
  if h = 0 then none
  else match t.entries.getD (h - 1) none with
    | some (_, o) => some o
    | none => none

/-- Modelled from the spec: `lookup_handle(&handle_table, h, RSAENH_MAGIC_CONTAINER, ...)`. -/
def lookup_container {κ η : Type} (t : HANDLETABLE κ η) (h : Nat) : Option KEYCONTAINER :=
  match lookup_object t h with
  | some (.container c) => some c
  | _ => none

/-- Modelled from the spec: `lookup_handle(&handle_table, h, RSAENH_MAGIC_KEY, ...)`. -/
def lookup_key {κ η : Type} (t : HANDLETABLE κ η) (h : Nat) : Option (CRYPTKEY κ) :=
  match lookup_object t h with
  | some (.key k) => some k
  | _ => none

/-- Modelled from the spec: `lookup_handle(&handle_table, h, RSAENH_MAGIC_HASH, ...)`. -/
def lookup_hash {κ η : Type} (t : HANDLETABLE κ η) (h : Nat) : Option (CRYPTHASH η) :=
  match lookup_object t h with
  | some (.hash x) => some x
  | _ => none

/-- A store through a pointer that lookup_handle returned: the object in the slot of `h` is
replaced, its reference count kept.  No effect on a free slot. -/
def store_object {κ η : Type} (t : HANDLETABLE κ η) (h : Nat) (o : OBJECT κ η) :
    HANDLETABLE κ η :=
  if h = 0 then t
  else match t.entries.getD (h - 1) none with
    | some (rc, _) => ⟨t.entries.set (h - 1) (some (rc, o))⟩
    | none => t

/-- Modelled from the spec: `create(size, typeTag, destructor) -> handle,object`: the object gets
a fresh slot with reference count 1.  Memory exhaustion is outside the model, so
creation always succeeds. -/
def new_object {κ η : Type} (t : HANDLETABLE κ η) (o : OBJECT κ η) : HANDLETABLE κ η × Nat :=
  (⟨t.entries ++ [some (1, o)]⟩, t.entries.length + 1)

/-- Modelled from the spec: `release(handle, typeTag)`: FALSE for a handle that names no
object of kind `tag`; otherwise the reference count drops by one and at zero
the slot is freed. `tag` tells the kind from an object. -/
def release_handle {κ η : Type} (t : HANDLETABLE κ η) (h : Nat)
    (tag : OBJECT κ η → Bool) : Bool × HANDLETABLE κ η :=
  if h = 0 then (false, t)
  else match t.entries.getD (h - 1) none with
    | some (rc, o) =>
      if tag o then
        (true, ⟨t.entries.set (h - 1) (if rc ≤ 1 then none else some (rc - 1, o))⟩)
      else (false, t)
    | none => (false, t)

/-- Modelled from the spec: `copyReference(srcHandle, typeTag, outHandle)`: a further
reference to the object of `h`; the copy is INVALID_HANDLE_VALUE when `h` names
no object of kind `tag`. -/
def copy_handle {κ η : Type} (t : HANDLETABLE κ η) (h : Nat)
    (tag : OBJECT κ η → Bool) : HANDLETABLE κ η × Nat :=
  if h = 0 then (t, INVALID_HANDLE_VALUE)
  else match t.entries.getD (h - 1) none with
    | some (rc, o) =>
      if tag o then (⟨t.entries.set (h - 1) (some (rc + 1, o))⟩, h)
      else (t, INVALID_HANDLE_VALUE)
    | none => (t, INVALID_HANDLE_VALUE)

/-- The kind tag RSAENH_MAGIC_CONTAINER. -/
def is_container {κ η : Type} : OBJECT κ η → Bool
  | .container _ => true
  | _ => false

/-- The kind tag RSAENH_MAGIC_KEY. -/
def is_key {κ η : Type} : OBJECT κ η → Bool
  | .key _ => true
  | _ => false

/-- The kind tag RSAENH_MAGIC_HASH. -/
def is_hash {κ η : Type} : OBJECT κ η → Bool
  | .hash _ => true
  | _ => false

/-- Modelled from the spec: `isValid(handle, typeTag) -> bool`. -/
def is_valid_handle {κ η : Type} (t : HANDLETABLE κ η) (h : Nat)
    (tag : OBJECT κ η → Bool) : Bool :=
  match lookup_object t h with
  | some o => tag o
  | none => false

/-! ### The state of the provider and the primitive engine -/

/-- The mutable state that the functions of rsaenh.c share: the static handle table, the
thread's last-error value, and the bytes the random source is still to deliver. -/
structure CSP (κ η : Type) where
  handle_table : HANDLETABLE κ η
  last_error : WINERROR
  rand : List Nat
  deriving DecidableEq, Repr

/-- The call `SetLastError(e)`. -/
def SetLastError {κ η : Type} (s : CSP κ η) (e : WINERROR) : CSP κ η :=
  { s with last_error := e }

/-- The state with another handle table. -/
def CSP.withTable {κ η : Type} (s : CSP κ η) (t : HANDLETABLE κ η) : CSP κ η :=
  { s with handle_table := t }

/-- The primitive engine (implglue.c, not part of the translated sources), as a
parameter.  A context that C passes by pointer is passed in and returned.
`encrypt_block_impl alg ctx in enc` returns the output block, or `none` when
the primitive returns FALSE (the output buffer then keeps its bytes);
`finalize_hash_impl` returns the digest it writes to the front of its output
buffer. -/
structure IMPL (κ η : Type) where
  init_hash_impl : Nat → η → Bool × η
  update_hash_impl : Nat → η → List Nat → Bool × η
  finalize_hash_impl : Nat → η → Bool × η × List Nat
  setup_key_impl : Nat → κ → Nat → Nat → List Nat → Bool × κ
  encrypt_block_impl : Nat → κ → List Nat → Nat → Option (List Nat)
  encrypt_stream_impl : Nat → κ → List Nat → Bool × κ × List Nat
  fresh_key_context : κ
  fresh_hash_context : η

/-! ### get_algid_info, setup_key, new_key -/

/-- The loop of get_algid_info over one row of aProvEnumAlgsEx. -/
def get_algid_info_loop (algid : Nat) : List PROV_ENUMALGS_EX → Option PROV_ENUMALGS_EX
  | [] => none
  | e :: rest =>
    if e.aiAlgid = 0 then none
    else if e.aiAlgid = algid then some e
    else get_algid_info_loop algid rest

/-- The function get_algid_info: `.ok e` is the record found, `.error x` the NULL result with
last error `x`. -/
def get_algid_info {κ η : Type} (t : HANDLETABLE κ η) (hProv algid : Nat) :
    Except WINERROR PROV_ENUMALGS_EX :=
  match lookup_container t hProv with
  | none => .error WINERROR.NTE_BAD_UID
  | some pKeyContainer =>
    match get_algid_info_loop algid (aProvEnumAlgsEx.getD pKeyContainer.dwPersonality []) with
    | some e => .ok e
    | none => .error WINERROR.NTE_BAD_ALGID

/-- The function setup_key, on the key object. -/
def setup_key {κ η : Type} (impl : IMPL κ η) (pCryptKey : CRYPTKEY κ) : CRYPTKEY κ :=
  { pCryptKey with
    dwState := RSAENH_KEYSTATE_IDLE
    abChainVector := pCryptKey.abInitVector
    context := (impl.setup_key_impl pCryptKey.aiAlgid pCryptKey.context pCryptKey.dwKeyLen
      pCryptKey.dwSaltLen pCryptKey.abKeyValue).2 }

/-- The switch of new_key that checks and adjusts the requested key length (in bits):
`none` is the exit with NTE_BAD_FLAGS. -/
def new_key_length (aiAlgid : Nat) (peaAlgidInfo : PROV_ENUMALGS_EX) (dwKeyLen : Nat) :
    Option Nat :=
  if aiAlgid = CALG_DES then
    let k := if dwKeyLen = 56 then 64 else dwKeyLen
    if k ≠ 64 then none else some k
  else if aiAlgid = CALG_3DES_112 then
    let k := if dwKeyLen = 112 then 128 else dwKeyLen
    if k ≠ 128 then none else some k
  else if aiAlgid = CALG_3DES then
    let k := if dwKeyLen = 168 then 192 else dwKeyLen
    if k ≠ 192 then none else some k
  else if dwKeyLen % 8 ≠ 0 ∨ dwKeyLen > peaAlgidInfo.dwMaxLen ∨ dwKeyLen < peaAlgidInfo.dwMinLen then
    none
  else some dwKeyLen

/-- The second switch of new_key: the pair (dwBlockLen, dwMode).  For an algorithm outside
the switch C leaves both fields of the fresh object unset; the model has 0. -/
def new_key_block_mode (aiAlgid dwKeyLen : Nat) : Nat × Nat :=
  if aiAlgid = CALG_PCT1_MASTER ∨ aiAlgid = CALG_SSL2_MASTER ∨ aiAlgid = CALG_SSL3_MASTER ∨
      aiAlgid = CALG_TLS1_MASTER ∨ aiAlgid = CALG_RC4 then (0, 0)
  else if aiAlgid = CALG_RC2 ∨ aiAlgid = CALG_DES ∨ aiAlgid = CALG_3DES_112 ∨
      aiAlgid = CALG_3DES then (8, CRYPT_MODE_CBC)
  else if aiAlgid = CALG_RSA_KEYX ∨ aiAlgid = CALG_RSA_SIGN then (dwKeyLen / 8, 0)
  else (0, 0)

/-- The function new_key.  Result: the new state and, unless the result is INVALID_HANDLE_VALUE,
the handle with the key object it names.  Fields that C leaves unset in the
fresh object (dwState, abChainVector, context, the SCHANNEL_ALG records) are
zero in the model. -/
def new_key {κ η : Type} (impl : IMPL κ η) (s : CSP κ η) (hProv aiAlgid dwFlags : Nat) :
    CSP κ η × Option (Nat × CRYPTKEY κ) :=
  match get_algid_info s.handle_table hProv aiAlgid with
  | .error e => (SetLastError s e, none)
  | .ok peaAlgidInfo =>
    let dwKeyLen0 := if HIWORD dwFlags = 0 then peaAlgidInfo.dwDefaultLen else HIWORD dwFlags
    match new_key_length aiAlgid peaAlgidInfo dwKeyLen0 with
    | none => (SetLastError s WINERROR.NTE_BAD_FLAGS, none)
    | some dwKeyLen =>
      let pCryptKey : CRYPTKEY κ :=
        { aiAlgid := aiAlgid
          hProv := hProv
          dwMode := (new_key_block_mode aiAlgid dwKeyLen).2
          dwModeBits := 0
          dwPermissions := CRYPT_ENCRYPT ||| CRYPT_DECRYPT ||| CRYPT_READ ||| CRYPT_WRITE |||
            CRYPT_MAC
          dwKeyLen := dwKeyLen / 8
          dwSaltLen :=
            if dwFlags &&& CRYPT_CREATE_SALT ≠ 0 ∨
                (dwKeyLen = 40 ∧ ¬ (dwFlags &&& CRYPT_NO_SALT ≠ 0)) then
              dwSub 16 (dwKeyLen / 8)
            else 0
          dwBlockLen := (new_key_block_mode aiAlgid dwKeyLen).1
          dwState := 0
          context := impl.fresh_key_context
          abKeyValue := List.replicate RSAENH_MAX_KEY_SIZE 0
          abInitVector := List.replicate RSAENH_MAX_BLOCK_SIZE 0
          abChainVector := List.replicate RSAENH_MAX_BLOCK_SIZE 0
          siSChannelInfo := ⟨⟨0, 0, 0, 0, 0⟩, ⟨0, 0, 0, 0, 0⟩, [], []⟩ }
      let r := new_object s.handle_table (.key pCryptKey)
      (s.withTable r.1, some (r.2, pCryptKey))

/-! ### Block transforms -/

/-- The loop `for (j=0; j<n; j++) dst[j] ^= src[j];`. -/
def xor_bytes : Nat → List Nat → List Nat → List Nat
  | 0, dst, _ => dst
  | _ + 1, [], _ => []
  | n + 1, d :: dst, src => (d ^^^ src.headD 0) :: xor_bytes n dst src.tail

/-- The loop `for (...; i < bound; i++) pbData[i] = v;` for `n` remaining iterations
starting at index `i`. -/
def fill_loop (v : Nat) : Nat → List Nat → Nat → List Nat
  | 0, buf, _ => buf
  | n + 1, buf, i => fill_loop v n (buf.set i v) (i + 1)

/-- A call `encrypt_block_impl(alg, ctx, in, out, enc)` with the bytes that `out` holds
afterwards: the output block at the front of `out`, or `out` as it was when the
primitive fails. -/
def call_encrypt_block {κ η : Type} (impl : IMPL κ η) (alg : Nat) (ctx : κ) (inp out : List Nat)
    (enc : Nat) : List Nat :=
  match impl.encrypt_block_impl alg ctx inp enc with
  | some c => memmove out 0 c
  | none => out

/-- The shift of the chaining vector in CFB mode:
`for (k=0; k<bl-1; k++) chain[k] = chain[k+1]; chain[k] = x;`. -/
def cfb_shift (chain : List Nat) (bl x : Nat) : List Nat :=
  memmove chain 0 (bytesAt chain 1 (bl - 1) ++ [x])

/-- The CFB loop over the bytes `j, j+1, ...` of one block (`n` iterations left), shared by
CPEncrypt (`dec = false`: the output byte is shifted into the chaining vector)
and CPDecrypt (`dec = true`: the input byte is).  State: chaining vector, `out`, `o`. -/
def cfb_loop {κ η : Type} (impl : IMPL κ η) (alg : Nat) (ctx : κ) (bl : Nat) (dec : Bool)
    (inp : List Nat) : Nat → Nat → List Nat → List Nat → List Nat →
    List Nat × List Nat × List Nat
  | 0, _, chain, out, o => (chain, out, o)
  | n + 1, j, chain, out, o =>
    let o1 := call_encrypt_block impl alg ctx (bytesAt chain 0 bl) o RSAENH_ENCRYPT
    let x := inp.getD j 0 ^^^ o1.getD 0 0
    let out1 := out.set j x
    cfb_loop impl alg ctx bl dec inp n (j + 1)
      (cfb_shift chain bl (if dec then inp.getD j 0 else x)) out1 o1

/-- The body of the block loop of CPEncrypt (the `switch (pCryptKey->dwMode)`) for the block
`inp`: the key object, `out` and `o` afterwards; `none` is the default case
(NTE_BAD_ALGID). -/
def encrypt_block_step {κ η : Type} (impl : IMPL κ η) (k : CRYPTKEY κ) (inp out o : List Nat) :
    Option (CRYPTKEY κ × List Nat × List Nat) :=
  if k.dwMode = CRYPT_MODE_ECB then
    some (k, call_encrypt_block impl k.aiAlgid k.context inp out RSAENH_ENCRYPT, o)
  else if k.dwMode = CRYPT_MODE_CBC then
    let out1 := call_encrypt_block impl k.aiAlgid k.context
      (xor_bytes k.dwBlockLen inp k.abChainVector) out RSAENH_ENCRYPT
    some ({ k with abChainVector := memmove k.abChainVector 0 (bytesAt out1 0 k.dwBlockLen) },
      out1, o)
  else if k.dwMode = CRYPT_MODE_CFB then
    let r := cfb_loop impl k.aiAlgid k.context k.dwBlockLen false inp k.dwBlockLen 0
      k.abChainVector out o
    some ({ k with abChainVector := r.1 }, r.2.1, r.2.2)
  else none

/-- The body of the block loop of CPDecrypt for the block `inp`. -/
def decrypt_block_step {κ η : Type} (impl : IMPL κ η) (k : CRYPTKEY κ) (inp out o : List Nat) :
    Option (CRYPTKEY κ × List Nat × List Nat) :=
  if k.dwMode = CRYPT_MODE_ECB then
    some (k, call_encrypt_block impl k.aiAlgid k.context inp out RSAENH_DECRYPT, o)
  else if k.dwMode = CRYPT_MODE_CBC then
    let out1 := call_encrypt_block impl k.aiAlgid k.context inp out RSAENH_DECRYPT
    let out2 := xor_bytes k.dwBlockLen out1 k.abChainVector
    some ({ k with abChainVector := memmove k.abChainVector 0 (bytesAt inp 0 k.dwBlockLen) },
      out2, o)
  else if k.dwMode = CRYPT_MODE_CFB then
    let r := cfb_loop impl k.aiAlgid k.context k.dwBlockLen true inp k.dwBlockLen 0
      k.abChainVector out o
    some ({ k with abChainVector := r.1 }, r.2.1, r.2.2)
  else none

/-- The block loop `for (i=0, in=pbData; i<*pdwDataLen; i+=dwBlockLen, in+=dwBlockLen)` of
CPEncrypt (`dec = false`) and CPDecrypt (`dec = true`), with `fuel` iterations
left.  Result: TRUE/FALSE (FALSE: the default case of the switch was hit), the
key object and the buffer; `none` when the fuel runs out, which with
`fuel = *pdwDataLen` happens only for block length 0, where the C loop does not end. -/
def block_loop {κ η : Type} (impl : IMPL κ η) (dec : Bool) (len : Nat) :
    Nat → CRYPTKEY κ → List Nat → Nat → List Nat → List Nat →
    Option (Bool × CRYPTKEY κ × List Nat)
  | 0, k, buf, i, _, _ => if i < len then none else some (true, k, buf)
  | fuel + 1, k, buf, i, out, o =>
    if i < len then
      match (if dec then decrypt_block_step impl k (bytesAt buf i k.dwBlockLen) out o
             else encrypt_block_step impl k (bytesAt buf i k.dwBlockLen) out o) with
      | none => some (false, k, buf)
      | some (k1, out1, o1) =>
        block_loop impl dec len fuel k1 (memmove buf i (bytesAt out1 0 k1.dwBlockLen))
          (i + k1.dwBlockLen) out1 o1
    else some (true, k, buf)

/-! ### CPEncrypt, the hash object functions, CPHashData, CPDecrypt

CPEncrypt calls CPHashData, whose MAC branch (update_hash, finalize_hash) calls
CPEncrypt again with a NULL hash handle.  The embedding cuts this recursion:
`CPEncrypt_enter` is the part of CPEncrypt before the hash step,
`CPEncrypt_transform` the part after it, `CPEncrypt_nohash` the two in a row
(CPEncrypt for a hash handle that names no hash object, such as NULL).

The stateful functions return `none` when the call does not return; otherwise
the BOOL result, the state afterwards and the contents of the output
parameters. -/

/-- The contents of the locals `out` and `o` of CPEncrypt/CPDecrypt on entry.  C leaves them
uninitialised; they are read before they are written only after a failing
encrypt_block_impl. -/
def local_block : List Nat := List.replicate RSAENH_MAX_BLOCK_SIZE 0

/-- The part of CPEncrypt (`newState = RSAENH_KEYSTATE_ENCRYPTING`) and CPDecrypt (`newState =
RSAENH_KEYSTATE_DECRYPTING`) that comes before any data is touched: the checks of
the provider handle, the flags and the key handle, and the state transition.
`.error s`: return FALSE in state `s`; `.ok s`: go on in state `s`. -/
def transform_enter {κ η : Type} (s : CSP κ η) (hProv hKey dwFlags newState : Nat) :
    Except (CSP κ η) (CSP κ η) :=
  if ¬ is_valid_handle s.handle_table hProv is_container then
    .error (SetLastError s WINERROR.NTE_BAD_UID)
  else if dwFlags ≠ 0 then
    .error (SetLastError s WINERROR.NTE_BAD_FLAGS)
  else
    match lookup_key s.handle_table hKey with
    | none => .error (SetLastError s WINERROR.NTE_BAD_KEY)
    | some pCryptKey =>
      let k1 := if pCryptKey.dwState = RSAENH_KEYSTATE_IDLE then
        { pCryptKey with dwState := newState } else pCryptKey
      let s1 := s.withTable (store_object s.handle_table hKey (.key k1))
      if k1.dwState ≠ newState then .error (SetLastError s1 WINERROR.NTE_BAD_DATA)
      else .ok s1

/-- The part of CPEncrypt after the hash step, for the key object `pCryptKey` that `hKey`
names.  Result: BOOL, state, the buffer `pbData` and `*pdwDataLen`. -/
def CPEncrypt_transform {κ η : Type} (impl : IMPL κ η) (s : CSP κ η) (hKey : Nat)
    (pCryptKey : CRYPTKEY κ) (Final : Bool) (dwFlags : Nat) (pbData : List Nat)
    (dwDataLen dwBufLen : Nat) : Option (Bool × CSP κ η × List Nat × Nat) :=
  if GET_ALG_TYPE pCryptKey.aiAlgid = ALG_TYPE_BLOCK then
    if ¬ Final ∧ dwDataLen % pCryptKey.dwBlockLen ≠ 0 then
      some (false, SetLastError s WINERROR.NTE_BAD_DATA, pbData, dwDataLen)
    else
      let dwEncryptedLen :=
        dwMul (dwAdd (dwDataLen / pCryptKey.dwBlockLen) (if Final then 1 else 0))
          pCryptKey.dwBlockLen
      let pbData1 := fill_loop (dwSub dwEncryptedLen dwDataLen % 256)
        (min dwEncryptedLen dwBufLen - dwDataLen) pbData dwDataLen
      if dwEncryptedLen > dwBufLen then
        some (false, SetLastError s WINERROR.ERROR_MORE_DATA, pbData1, dwEncryptedLen)
      else
        match block_loop impl false dwEncryptedLen dwEncryptedLen pCryptKey pbData1 0
            local_block local_block with
        | none => none
        | some (ok, k, buf) =>
          if ok then
            some (true,
              s.withTable (store_object s.handle_table hKey
                (.key (if Final then setup_key impl k else k))),
              buf, dwEncryptedLen)
          else
            some (false,
              SetLastError (s.withTable (store_object s.handle_table hKey (.key k)))
                WINERROR.NTE_BAD_ALGID,
              buf, dwEncryptedLen)
  else if GET_ALG_TYPE pCryptKey.aiAlgid = ALG_TYPE_STREAM then
    let r := impl.encrypt_stream_impl pCryptKey.aiAlgid pCryptKey.context
      (bytesAt pbData 0 dwDataLen)
    let k := { pCryptKey with context := r.2.1 }
    some (true,
      s.withTable (store_object s.handle_table hKey
        (.key (if Final then setup_key impl k else k))),
      memmove pbData 0 r.2.2, dwDataLen)
  else if GET_ALG_TYPE pCryptKey.aiAlgid = ALG_TYPE_RSA then
    if pCryptKey.aiAlgid = CALG_RSA_SIGN then
      some (false, SetLastError s WINERROR.NTE_BAD_KEY, pbData, dwDataLen)
    else if dwBufLen < pCryptKey.dwBlockLen then
      some (false, SetLastError s WINERROR.ERROR_MORE_DATA, pbData, dwDataLen)
    else
      match pad_data s.rand (bytesAt pbData 0 dwDataLen) pbData pCryptKey.dwBlockLen dwFlags with
      | none => none
      | some (.error e, rand1) =>
        some (false, SetLastError { s with rand := rand1 } e, pbData, dwDataLen)
      | some (.ok buf, rand1) =>
        some (true,
          { s with
            rand := rand1
            handle_table := store_object s.handle_table hKey (.key (setup_key impl pCryptKey)) },
          call_encrypt_block impl pCryptKey.aiAlgid pCryptKey.context
            (bytesAt buf 0 pCryptKey.dwBlockLen) buf RSAENH_ENCRYPT,
          pCryptKey.dwBlockLen)
  else
    some (false, SetLastError s WINERROR.NTE_BAD_TYPE, pbData, dwDataLen)

/-- CPEncrypt for a hash handle that names no hash object (for instance NULL): this
is the call that update_hash and finalize_hash make for a MAC. -/
def CPEncrypt_nohash {κ η : Type} (impl : IMPL κ η) (s : CSP κ η) (hProv hKey : Nat)
    (Final : Bool) (dwFlags : Nat) (pbData : List Nat) (dwDataLen dwBufLen : Nat) :
    Option (Bool × CSP κ η × List Nat × Nat) :=
  match transform_enter s hProv hKey dwFlags RSAENH_KEYSTATE_ENCRYPTING with
  | .error s1 => some (false, s1, pbData, dwDataLen)
  | .ok s1 =>
    match lookup_key s1.handle_table hKey with
    | none => none
    | some k => CPEncrypt_transform impl s1 hKey k Final dwFlags pbData dwDataLen dwBufLen

/-- The function init_hash on the hash object `h`: BOOL result, state and hash object afterwards.
In the CALG_MAC case the call of CPGetKeyParam(KP_BLOCKLEN) is folded in: it
stores `dwBlockLen << 3` when the provider and key handles are valid and leaves
dwHashSize alone otherwise. -/
def init_hash {κ η : Type} (impl : IMPL κ η) (s : CSP κ η) (h : CRYPTHASH η) :
    Bool × CSP κ η × CRYPTHASH η :=
  if h.aiAlgid = CALG_HMAC then
    match h.pHMACInfo with
    | some info =>
      match get_algid_info s.handle_table h.hProv info.HashAlgid with
      | .error e => (false, SetLastError s e, h)
      | .ok pAlgInfo =>
        let c1 := (impl.init_hash_impl info.HashAlgid h.context).2
        let c2 := (impl.update_hash_impl info.HashAlgid c1
          (bytesAt info.pbInnerString 0 info.cbInnerString)).2
        (true, s, { h with dwHashSize := pAlgInfo.dwDefaultLen / 8, context := c2 })
    | none => (true, s, h)
  else if h.aiAlgid = CALG_MAC then
    if ¬ is_valid_handle s.handle_table h.hProv is_container then
      (true, SetLastError s WINERROR.NTE_BAD_UID, { h with dwHashSize := h.dwHashSize / 8 })
    else
      match lookup_key s.handle_table h.hKey with
      | none =>
        (true, SetLastError s WINERROR.NTE_BAD_KEY, { h with dwHashSize := h.dwHashSize / 8 })
      | some k => (true, s, { h with dwHashSize := dwMul k.dwBlockLen 8 / 8 })
  else
    let r := impl.init_hash_impl h.aiAlgid h.context
    (r.1, s, { h with context := r.2 })

/-- The function update_hash on the hash object `h` with the data bytes `pbData`.  Memory
exhaustion (the HeapAlloc of the MAC branch) is outside the model. -/
def update_hash {κ η : Type} (impl : IMPL κ η) (s : CSP κ η) (h : CRYPTHASH η)
    (pbData : List Nat) : Option (CSP κ η × CRYPTHASH η) :=
  if h.aiAlgid = CALG_HMAC then
    match h.pHMACInfo with
    | some info =>
      some (s, { h with context := (impl.update_hash_impl info.HashAlgid h.context pbData).2 })
    | none => some (s, h)
  else if h.aiAlgid = CALG_MAC then
    match CPEncrypt_nohash impl s h.hProv h.hKey false 0 pbData pbData.length pbData.length with
    | none => none
    | some r => some (r.2.1, h)
  else
    some (s, { h with context := (impl.update_hash_impl h.aiAlgid h.context pbData).2 })

/-- The function finalize_hash on the hash object `h`. -/
def finalize_hash {κ η : Type} (impl : IMPL κ η) (s : CSP κ η) (h : CRYPTHASH η) :
    Option (CSP κ η × CRYPTHASH η) :=
  if h.aiAlgid = CALG_HMAC then
    match h.pHMACInfo with
    | some info =>
      let f1 := impl.finalize_hash_impl info.HashAlgid h.context
      let v1 := memmove h.abHashValue 0 f1.2.2
      let abHashValue := bytesAt v1 0 h.dwHashSize
      let c2 := (impl.init_hash_impl info.HashAlgid f1.2.1).2
      let c3 := (impl.update_hash_impl info.HashAlgid c2
        (bytesAt info.pbOuterString 0 info.cbOuterString)).2
      let c4 := (impl.update_hash_impl info.HashAlgid c3 abHashValue).2
      let f2 := impl.finalize_hash_impl info.HashAlgid c4
      some (s, { h with context := f2.2.1, abHashValue := memmove v1 0 f2.2.2 })
    | none => some (s, h)
  else if h.aiAlgid = CALG_MAC then
    match CPEncrypt_nohash impl s h.hProv h.hKey true 0 h.abHashValue 0 h.dwHashSize with
    | none => none
    | some r => some (r.2.1, { h with abHashValue := r.2.2.1 })
  else
    let f := impl.finalize_hash_impl h.aiAlgid h.context
    some (s, { h with context := f.2.1, abHashValue := memmove h.abHashValue 0 f.2.2 })

/-- The function RSAENH_CPHashData; `pbData` holds the `dwDataLen` data bytes. -/
def RSAENH_CPHashData {κ η : Type} (impl : IMPL κ η) (s : CSP κ η) (hProv hHash : Nat)
    (pbData : List Nat) (dwFlags : Nat) : Option (Bool × CSP κ η) :=
  if dwFlags ≠ 0 then some (false, SetLastError s WINERROR.NTE_BAD_FLAGS)
  else
    match lookup_hash s.handle_table hHash with
    | none => some (false, SetLastError s WINERROR.NTE_BAD_HASH)
    | some pCryptHash =>
      if (get_algid_info s.handle_table hProv pCryptHash.aiAlgid).toBool = false ∨
          pCryptHash.aiAlgid = CALG_SSL3_SHAMD5 then
        some (false, SetLastError s WINERROR.NTE_BAD_ALGID)
      else
        let h1 := if pCryptHash.dwState = RSAENH_HASHSTATE_IDLE then
          { pCryptHash with dwState := RSAENH_HASHSTATE_HASHING } else pCryptHash
        let s1 := s.withTable (store_object s.handle_table hHash (.hash h1))
        if h1.dwState ≠ RSAENH_HASHSTATE_HASHING then
          some (false, SetLastError s1 WINERROR.NTE_BAD_HASH_STATE)
        else
          match update_hash impl s1 h1 pbData with
          | none => none
          | some (s2, h2) =>
            some (true, s2.withTable (store_object s2.handle_table hHash (.hash h2)))

/-- The function RSAENH_CPEncrypt.  `pbData` is the memory at the data pointer, `dwDataLen` the
value of `*pdwDataLen` on entry.  Result: BOOL, state, the buffer and
`*pdwDataLen` on return. -/
def RSAENH_CPEncrypt {κ η : Type} (impl : IMPL κ η) (s : CSP κ η) (hProv hKey hHash : Nat)
    (Final : Bool) (dwFlags : Nat) (pbData : List Nat) (dwDataLen dwBufLen : Nat) :
    Option (Bool × CSP κ η × List Nat × Nat) :=
  match transform_enter s hProv hKey dwFlags RSAENH_KEYSTATE_ENCRYPTING with
  | .error s1 => some (false, s1, pbData, dwDataLen)
  | .ok s1 =>
    match (if is_valid_handle s1.handle_table hHash is_hash then
        RSAENH_CPHashData impl s1 hProv hHash (bytesAt pbData 0 dwDataLen) 0
      else some (true, s1)) with
    | none => none
    | some (false, s2) => some (false, s2, pbData, dwDataLen)
    | some (true, s2) =>
      match lookup_key s2.handle_table hKey with
      | none => none
      | some k => CPEncrypt_transform impl s2 hKey k Final dwFlags pbData dwDataLen dwBufLen

/-- The part of CPDecrypt between the state check and the hash step, for the key object
`pCryptKey` that `hKey` names.  Result: BOOL (FALSE: return FALSE at once),
state, buffer, `*pdwDataLen`. -/
def CPDecrypt_transform {κ η : Type} (impl : IMPL κ η) (s : CSP κ η) (hKey : Nat)
    (pCryptKey : CRYPTKEY κ) (Final : Bool) (dwFlags : Nat) (pbData : List Nat)
    (dwDataLen : Nat) : Option (Bool × CSP κ η × List Nat × Nat) :=
  if GET_ALG_TYPE pCryptKey.aiAlgid = ALG_TYPE_BLOCK then
    match block_loop impl true dwDataLen dwDataLen pCryptKey pbData 0 local_block local_block with
    | none => none
    | some (ok, k, buf) =>
      if ok then
        some (true,
          s.withTable (store_object s.handle_table hKey
            (.key (if Final then setup_key impl k else k))),
          buf,
          if Final then dwSub dwDataLen (buf.getD (dwSub dwDataLen 1) 0) else dwDataLen)
      else
        some (false,
          SetLastError (s.withTable (store_object s.handle_table hKey (.key k)))
            WINERROR.NTE_BAD_ALGID,
          buf, dwDataLen)
  else if GET_ALG_TYPE pCryptKey.aiAlgid = ALG_TYPE_STREAM then
    let r := impl.encrypt_stream_impl pCryptKey.aiAlgid pCryptKey.context
      (bytesAt pbData 0 dwDataLen)
    let k := { pCryptKey with context := r.2.1 }
    some (true,
      s.withTable (store_object s.handle_table hKey
        (.key (if Final then setup_key impl k else k))),
      memmove pbData 0 r.2.2, dwDataLen)
  else if GET_ALG_TYPE pCryptKey.aiAlgid = ALG_TYPE_RSA then
    if pCryptKey.aiAlgid = CALG_RSA_SIGN then
      some (false, SetLastError s WINERROR.NTE_BAD_KEY, pbData, dwDataLen)
    else
      let buf := call_encrypt_block impl pCryptKey.aiAlgid pCryptKey.context
        (bytesAt pbData 0 pCryptKey.dwBlockLen) pbData RSAENH_DECRYPT
      match unpad_data buf pCryptKey.dwBlockLen buf dwDataLen dwFlags with
      | .error e => some (false, SetLastError s e, buf, dwDataLen)
      | .ok (buf1, n) =>
        some (true,
          s.withTable (store_object s.handle_table hKey (.key (setup_key impl pCryptKey))),
          buf1, n)
  else
    some (false, SetLastError s WINERROR.NTE_BAD_TYPE, pbData, dwDataLen)

/-- The function RSAENH_CPDecrypt.  Result: BOOL, state, the buffer and `*pdwDataLen` on return. -/
def RSAENH_CPDecrypt {κ η : Type} (impl : IMPL κ η) (s : CSP κ η) (hProv hKey hHash : Nat)
    (Final : Bool) (dwFlags : Nat) (pbData : List Nat) (dwDataLen : Nat) :
    Option (Bool × CSP κ η × List Nat × Nat) :=
  match transform_enter s hProv hKey dwFlags RSAENH_KEYSTATE_DECRYPTING with
  | .error s1 => some (false, s1, pbData, dwDataLen)
  | .ok s1 =>
    match lookup_key s1.handle_table hKey with
    | none => none
    | some k =>
      match CPDecrypt_transform impl s1 hKey k Final dwFlags pbData dwDataLen with
      | none => none
      | some (false, s2, buf, n) => some (false, s2, buf, n)
      | some (true, s2, buf, n) =>
        if is_valid_handle s2.handle_table hHash is_hash then
          if n > dwDataLen then some (false, s2, buf, n)
          else
            match RSAENH_CPHashData impl s2 hProv hHash (bytesAt buf 0 n) 0 with
            | none => none
            | some (ok, s3) => some (ok, s3, buf, n)
        else some (true, s2, buf, n)

/-! ### Notions used in the statements, and a small primitive engine to run the functions -/

/-- Every element of the list is a byte value. -/
def isBytes (l : List Nat) : Prop := ∀ b ∈ l, b < 256

instance (l : List Nat) : Decidable (isBytes l) := by
  unfold isBytes
  exact inferInstance

/-- A primitive engine for running the embedding on concrete inputs.  A key context is one
byte derived from the key material, block encryption adds it (plus one) to
every byte and reverses the block, block decryption undoes that; a hash
context is the message absorbed so far, the digest has 20 bytes for CALG_SHA
and 16 bytes otherwise. -/
def toyImpl : IMPL Nat (List Nat) where
  init_hash_impl := fun _ _ => (true, [])
  update_hash_impl := fun _ c d => (true, c ++ d)
  finalize_hash_impl := fun alg c =>
    (true, c, (List.range (if alg = CALG_SHA then 20 else 16)).map
      (fun i => (c.sum + 7 * i + c.length) % 256))
  setup_key_impl := fun _ _ dwKeyLen dwSaltLen key =>
    (true, (key.take (dwKeyLen + dwSaltLen)).sum % 256)
  encrypt_block_impl := fun _ ctx inp enc =>
    if enc = RSAENH_ENCRYPT then some ((inp.map (fun b => (b + ctx % 256 + 1) % 256)).reverse)
    else some (inp.reverse.map (fun b => (b + 255 - ctx % 256) % 256))
  encrypt_stream_impl := fun _ ctx d => (true, ctx, d.map (fun b => b ^^^ (ctx % 256)))
  fresh_key_context := 0
  fresh_hash_context := []

/-- A key container of the given personality, for concrete runs. -/
def toyContainer (personality : Nat) : KEYCONTAINER :=
  ⟨0, personality, 0, 0, "", "", INVALID_HANDLE_VALUE, INVALID_HANDLE_VALUE⟩

/-- A DES key object in the given state and mode, with key context 5 and the init and
chaining vector `iv`, for concrete runs. -/
def toyDesKey (dwState dwMode : Nat) (iv : List Nat) : CRYPTKEY Nat :=
  { aiAlgid := CALG_DES, hProv := 1, dwMode := dwMode, dwModeBits := 0, dwPermissions := 59,
    dwKeyLen := 8, dwSaltLen := 0, dwBlockLen := 8, dwState := dwState, context := 5,
    abKeyValue := List.replicate 48 0, abInitVector := iv, abChainVector := iv,
    siSChannelInfo := ⟨⟨0, 0, 0, 0, 0⟩, ⟨0, 0, 0, 0, 0⟩, [], []⟩ }

/-- A provider state for concrete runs: handle 1 names a container of the given
personality, the following handles name the given objects. -/
def toyState (personality : Nat) (objs : List (OBJECT Nat (List Nat))) : CSP Nat (List Nat) :=
  ⟨⟨some (1, .container (toyContainer personality)) :: objs.map (fun o => some (1, o))⟩,
    WINERROR.ERROR_SUCCESS, []⟩

/-- The block primitive of key context `ctx` under algorithm `alg` maps every block of `bl`
bytes to a block of `bl` bytes in the encrypt direction, and its decrypt
direction takes that block back. -/
def BlockInverse {κ η : Type} (impl : IMPL κ η) (alg : Nat) (ctx : κ) (bl : Nat) : Prop :=
  ∀ x : List Nat, x.length = bl → isBytes x →
    ∃ c, impl.encrypt_block_impl alg ctx x RSAENH_ENCRYPT = some c ∧ c.length = bl ∧
      isBytes c ∧ impl.encrypt_block_impl alg ctx c RSAENH_DECRYPT = some x

/-- Two key objects hold the same cipher state: algorithm, key context (the key schedule that
setup_key derives from the key material), mode, block length and chaining vector. -/
def SameCipher {κ : Type} (a b : CRYPTKEY κ) : Prop :=
  a.aiAlgid = b.aiAlgid ∧ a.context = b.context ∧ a.dwMode = b.dwMode ∧
    a.dwBlockLen = b.dwBlockLen ∧ a.abChainVector = b.abChainVector

/-- The key object is a block-cipher key as new_key and setup_key leave it: block length `bl`,
one of the modes ECB, CBC and CFB, and a chaining vector of
RSAENH_MAX_BLOCK_SIZE bytes. -/
def BlockKey {κ : Type} (k : CRYPTKEY κ) (bl : Nat) : Prop :=
  k.dwBlockLen = bl ∧
    (k.dwMode = CRYPT_MODE_ECB ∨ k.dwMode = CRYPT_MODE_CBC ∨ k.dwMode = CRYPT_MODE_CFB) ∧
    k.abChainVector.length = RSAENH_MAX_BLOCK_SIZE ∧ isBytes k.abChainVector

/-! ### Parameter queries, HMAC parameters, the TLS1 pseudo random function

CPCreateHash calls tls1_prf for CALG_SCHANNEL_MASTER_HASH, and tls1_prf calls
CPCreateHash for CALG_HMAC.  The embedding cuts this recursion: `CPCreateHash_with`
is CPCreateHash with the pseudo random function as a parameter; tls1_prf uses it
with `no_prf` (CALG_HMAC never reaches the call), and RSAENH_CPCreateHash is
`CPCreateHash_with` at tls1_prf. -/

/-- The four bytes of a DWORD in memory (little endian). -/
def dword_bytes (x : Nat) : List Nat :=
  [x % 256, x / 256 % 256, x / 65536 % 256, x / 16777216 % 256]

/-- The DWORD that four bytes in memory hold (little endian). -/
def bytes_dword (b : List Nat) : Nat :=
  b.getD 0 0 + 256 * b.getD 1 0 + 65536 * b.getD 2 0 + 16777216 * b.getD 3 0

/-- Fresh memory from HeapAlloc, and a local array: `n` bytes.  C leaves them indeterminate; the
model has zero bytes. -/
def heap_block (n : Nat) : List Nat := List.replicate n 0

/-- The function copy_param; `pbBuffer = none` is the NULL pointer.  Result: BOOL, state, the
buffer and `*pdwBufferSize` on return. -/
def copy_param {κ η : Type} (s : CSP κ η) (pbBuffer : Option (List Nat)) (dwBufferSize : Nat)
    (pbParam : List Nat) (dwParamSize : Nat) : Bool × CSP κ η × Option (List Nat) × Nat :=
  match pbBuffer with
  | some buf =>
    if dwParamSize > dwBufferSize then
      (false, SetLastError s WINERROR.ERROR_MORE_DATA, some buf, dwParamSize)
    else (true, s, some (memmove buf 0 (bytesAt pbParam 0 dwParamSize)), dwParamSize)
  | none => (true, s, none, dwParamSize)

/-- The function copy_hmac_info: the copy, or `none` for the result FALSE (`src` is NULL).
Memory exhaustion is outside the model. -/
def copy_hmac_info (src : Option HMAC_INFO) : Option HMAC_INFO :=
  match src with
  | none => none
  | some src =>
    let cbInner := if src.cbInnerString = 0 then RSAENH_HMAC_DEF_PAD_LEN else src.cbInnerString
    let cbOuter := if src.cbOuterString = 0 then RSAENH_HMAC_DEF_PAD_LEN else src.cbOuterString
    some
      { HashAlgid := src.HashAlgid
        pbInnerString :=
          if src.cbInnerString ≠ 0 then
            memmove (heap_block cbInner) 0 (bytesAt src.pbInnerString 0 src.cbInnerString)
          else
            memmove (heap_block cbInner) 0
              (List.replicate RSAENH_HMAC_DEF_PAD_LEN RSAENH_HMAC_DEF_IPAD_CHAR)
        cbInnerString := cbInner
        pbOuterString :=
          if src.cbOuterString ≠ 0 then
            memmove (heap_block cbOuter) 0 (bytesAt src.pbOuterString 0 src.cbOuterString)
          else
            memmove (heap_block cbOuter) 0
              (List.replicate RSAENH_HMAC_DEF_PAD_LEN RSAENH_HMAC_DEF_OPAD_CHAR)
        cbOuterString := cbOuter }

/-- What the pointer `pbData` of CPSetHashParam points to: an HMAC_INFO struct (`none` for the
NULL pointer), plain bytes, or a CRYPT_DATA_BLOB (the list of its bytes). -/
inductive HASHPARAM where
  | hmac_info (p : Option HMAC_INFO)
  | bytes (b : List Nat)
  | blob (b : List Nat)
  deriving DecidableEq, Repr

/-- The function RSAENH_CPSetHashParam.  The result is `none` when `pbData` does not point to a
value of the kind that `dwParam` asks for. -/
def RSAENH_CPSetHashParam {κ η : Type} (impl : IMPL κ η) (s : CSP κ η) (hProv hHash : Nat)
    (dwParam : Nat) (pbData : HASHPARAM) (dwFlags : Nat) : Option (Bool × CSP κ η) :=
  if ¬ is_valid_handle s.handle_table hProv is_container then
    some (false, SetLastError s WINERROR.NTE_BAD_UID)
  else if dwFlags ≠ 0 then some (false, SetLastError s WINERROR.NTE_BAD_FLAGS)
  else
    match lookup_hash s.handle_table hHash with
    | none => some (false, SetLastError s WINERROR.NTE_BAD_HASH)
    | some pCryptHash =>
      if dwParam = HP_HMAC_INFO then
        match pbData with
        | .hmac_info src =>
          match copy_hmac_info src with
          | none => some (false, s)
          | some info =>
            match lookup_key s.handle_table pCryptHash.hKey with
            | none =>
              some (false, SetLastError
                (s.withTable (store_object s.handle_table hHash
                  (.hash { pCryptHash with pHMACInfo := some info })))
                WINERROR.NTE_FAIL)
            | some pCryptKey =>
              let info1 : HMAC_INFO :=
                { info with
                  pbInnerString := xor_bytes (min pCryptKey.dwKeyLen info.cbInnerString)
                    info.pbInnerString pCryptKey.abKeyValue
                  pbOuterString := xor_bytes (min pCryptKey.dwKeyLen info.cbOuterString)
                    info.pbOuterString pCryptKey.abKeyValue }
              let r := init_hash impl s { pCryptHash with pHMACInfo := some info1 }
              some (true, r.2.1.withTable (store_object r.2.1.handle_table hHash (.hash r.2.2)))
        | _ => none
      else if dwParam = HP_HASHVAL then
        match pbData with
        | .bytes b =>
          some (true, s.withTable (store_object s.handle_table hHash
            (.hash { pCryptHash with
              abHashValue := memmove pCryptHash.abHashValue 0 (bytesAt b 0 pCryptHash.dwHashSize)
              dwState := RSAENH_HASHSTATE_FINISHED })))
        | _ => none
      else if dwParam = HP_TLS1PRF_SEED then
        match pbData with
        | .blob b =>
          some (true, s.withTable (store_object s.handle_table hHash
            (.hash { pCryptHash with
              tpPRFParams := { pCryptHash.tpPRFParams with blobSeed := b } })))
        | _ => none
      else if dwParam = HP_TLS1PRF_LABEL then
        match pbData with
        | .blob b =>
          some (true, s.withTable (store_object s.handle_table hHash
            (.hash { pCryptHash with
              tpPRFParams := { pCryptHash.tpPRFParams with blobLabel := b } })))
        | _ => none
      else some (false, SetLastError s WINERROR.NTE_BAD_TYPE)

/-- The function RSAENH_CPDestroyHash. -/
def RSAENH_CPDestroyHash {κ η : Type} (s : CSP κ η) (hProv hHash : Nat) : Bool × CSP κ η :=
  if ¬ is_valid_handle s.handle_table hProv is_container then
    (false, SetLastError s WINERROR.NTE_BAD_UID)
  else
    let r := release_handle s.handle_table hHash is_hash
    if ¬ r.1 then (false, SetLastError s WINERROR.NTE_BAD_HASH)
    else (true, s.withTable r.2)

/-- The label of the master secret: the 13 characters of "master secret". -/
def master_secret : List Nat := [109, 97, 115, 116, 101, 114, 32, 115, 101, 99, 114, 101, 116]

/-- The label of the key block: the 13 characters of "key expansion". -/
def key_expansion : List Nat := [107, 101, 121, 32, 101, 120, 112, 97, 110, 115, 105, 111, 110]

/-- The part of RSAENH_CPCreateHash from the call of new_object on, with the pseudo random
function `prf` in the place of tls1_prf; `key` is the key object that `hKey`
names, if the algorithm is a keyed one.  The fields that C leaves unset in the
fresh hash object (context, abHashValue) are the fresh context of the engine
and zero bytes.  The key object of `hKey` is not written by the pseudo random
function, so the store through `pCryptKey` uses the value looked up before. -/
def CPCreateHash_new {κ η : Type}
    (prf : CSP κ η → Nat → Nat → List Nat → List Nat → List Nat → Nat →
      Option (Bool × CSP κ η × List Nat))
    (impl : IMPL κ η) (s : CSP κ η) (hProv Algid hKey : Nat) (peaAlgidInfo : PROV_ENUMALGS_EX)
    (key : Option (CRYPTKEY κ)) : Option (Bool × CSP κ η × Option Nat) :=
  let pCryptHash : CRYPTHASH η :=
    { aiAlgid := Algid
      hKey := hKey
      hProv := hProv
      dwHashSize := peaAlgidInfo.dwDefaultLen / 8
      dwState := RSAENH_HASHSTATE_IDLE
      context := impl.fresh_hash_context
      abHashValue := heap_block RSAENH_MAX_HASH_SIZE
      pHMACInfo := none
      tpPRFParams := ⟨[], []⟩ }
  let r := new_object s.handle_table (.hash pCryptHash)
  let s1 := s.withTable r.1
  let hHash := r.2
  let finish := fun (s2 : CSP κ η) (h : CRYPTHASH η) =>
    let i := init_hash impl s2 h
    (i.1, i.2.1.withTable (store_object i.2.1.handle_table hHash (.hash i.2.2)), some hHash)
  match key with
  | some pCryptKey =>
    if Algid = CALG_SCHANNEL_MASTER_HASH then
      let master :=
        if pCryptKey.dwState ≠ RSAENH_KEYSTATE_MASTERKEY then
          match prf s1 hProv hKey master_secret
              (pCryptKey.siSChannelInfo.blobClientRandom ++
                pCryptKey.siSChannelInfo.blobServerRandom)
              (heap_block 48) 48 with
          | none => none
          | some (_, s2, abKeyValue) =>
            let k1 : CRYPTKEY κ :=
              { pCryptKey with
                dwState := RSAENH_KEYSTATE_MASTERKEY
                abKeyValue := memmove pCryptKey.abKeyValue 0 (bytesAt abKeyValue 0 48) }
            some (s2.withTable (store_object s2.handle_table hKey (.key k1)))
        else some s1
      match master with
      | none => none
      | some s3 =>
        match prf s3 hProv hKey key_expansion
            (pCryptKey.siSChannelInfo.blobServerRandom ++
              pCryptKey.siSChannelInfo.blobClientRandom)
            pCryptHash.abHashValue RSAENH_MAX_HASH_SIZE with
        | none => none
        | some (_, s4, abHashValue) =>
          some (finish s4 { pCryptHash with abHashValue := abHashValue })
    else some (finish s1 pCryptHash)
  | none => some (finish s1 pCryptHash)

/-- The function RSAENH_CPCreateHash, with the pseudo random function `prf` in the place of
tls1_prf.  Result: BOOL, state, and `*phHash` when it has been written. -/
def CPCreateHash_with {κ η : Type}
    (prf : CSP κ η → Nat → Nat → List Nat → List Nat → List Nat → Nat →
      Option (Bool × CSP κ η × List Nat))
    (impl : IMPL κ η) (s : CSP κ η) (hProv Algid hKey dwFlags : Nat) :
    Option (Bool × CSP κ η × Option Nat) :=
  match get_algid_info s.handle_table hProv Algid with
  | .error e => some (false, SetLastError s e, none)
  | .ok peaAlgidInfo =>
    if dwFlags ≠ 0 then some (false, SetLastError s WINERROR.NTE_BAD_FLAGS, none)
    else if Algid = CALG_MAC ∨ Algid = CALG_HMAC ∨ Algid = CALG_SCHANNEL_MASTER_HASH ∨
        Algid = CALG_TLS1PRF then
      match lookup_key s.handle_table hKey with
      | none => some (false, SetLastError s WINERROR.NTE_BAD_KEY, none)
      | some pCryptKey =>
        if Algid = CALG_MAC ∧ GET_ALG_TYPE pCryptKey.aiAlgid ≠ ALG_TYPE_BLOCK then
          some (false, SetLastError s WINERROR.NTE_BAD_KEY, none)
        else if (Algid = CALG_SCHANNEL_MASTER_HASH ∨ Algid = CALG_TLS1PRF) ∧
            pCryptKey.aiAlgid ≠ CALG_TLS1_MASTER then
          some (false, SetLastError s WINERROR.NTE_BAD_KEY, none)
        else if Algid = CALG_TLS1PRF ∧ pCryptKey.dwState ≠ RSAENH_KEYSTATE_MASTERKEY then
          some (false, SetLastError s WINERROR.NTE_BAD_KEY_STATE, none)
        else CPCreateHash_new prf impl s hProv Algid hKey peaAlgidInfo (some pCryptKey)
    else CPCreateHash_new prf impl s hProv Algid hKey peaAlgidInfo none

/-- The pseudo random function that is never called. -/
def no_prf {κ η : Type} : CSP κ η → Nat → Nat → List Nat → List Nat → List Nat → Nat →
    Option (Bool × CSP κ η × List Nat) :=
  fun _ _ _ _ _ _ _ => none

/-- The inner loop of tls1_p,
`do { if (i >= dwBufferLen) break; pbBuffer[i] ^= abHashValue[i % dwHashSize]; i++; } while (i % dwHashSize);`
with the index and the buffer afterwards; the first argument bounds the number
of iterations.  `none`: a division by zero. -/
def tls1_p_xor (abHashValue : List Nat) (dwHashSize dwBufferLen : Nat) :
    Nat → Nat → List Nat → Option (Nat × List Nat)
  | 0, _, _ => none
  | n + 1, i, pbBuffer =>
    if i ≥ dwBufferLen then some (i, pbBuffer)
    else if dwHashSize = 0 then none
    else
      let buf1 := pbBuffer.set i (pbBuffer.getD i 0 ^^^ abHashValue.getD (i % dwHashSize) 0)
      if (i + 1) % dwHashSize ≠ 0 then tls1_p_xor abHashValue dwHashSize dwBufferLen n (i + 1) buf1
      else some (i + 1, buf1)

/-- The outer loop of tls1_p on the hash object `h`, with the local array `abAi`, the index `i`
and the buffer; the first argument bounds the number of iterations. -/
def tls1_p_loop {κ η : Type} (impl : IMPL κ η) (seed : List Nat) (dwBufferLen : Nat) :
    Nat → CSP κ η → CRYPTHASH η → List Nat → Nat → List Nat →
    Option (CSP κ η × CRYPTHASH η × List Nat)
  | 0, _, _, _, _, _ => none
  | n + 1, s, h, abAi, i, pbBuffer =>
    let r1 := init_hash impl s h
    match update_hash impl r1.2.1 r1.2.2 (bytesAt abAi 0 r1.2.2.dwHashSize) with
    | none => none
    | some (s2, h2) =>
      match update_hash impl s2 h2 seed with
      | none => none
      | some (s3, h3) =>
        match finalize_hash impl s3 h3 with
        | none => none
        | some (s4, h4) =>
          match tls1_p_xor h4.abHashValue h4.dwHashSize dwBufferLen (h4.dwHashSize + 1) i
              pbBuffer with
          | none => none
          | some (i1, buf1) =>
            let r5 := init_hash impl s4 h4
            match update_hash impl r5.2.1 r5.2.2 (bytesAt abAi 0 r5.2.2.dwHashSize) with
            | none => none
            | some (s6, h6) =>
              match finalize_hash impl s6 h6 with
              | none => none
              | some (s7, h7) =>
                let abAi1 := memmove abAi 0 (bytesAt h7.abHashValue 0 h7.dwHashSize)
                if i1 < dwBufferLen then tls1_p_loop impl seed dwBufferLen n s7 h7 abAi1 i1 buf1
                else some (s7, h7, buf1)

/-- The function tls1_p; `seed` holds the bytes of `pblobSeed`.  Result: BOOL, state, buffer. -/
def tls1_p {κ η : Type} (impl : IMPL κ η) (s : CSP κ η) (hHMAC : Nat) (seed : List Nat)
    (pbBuffer : List Nat) (dwBufferLen : Nat) : Option (Bool × CSP κ η × List Nat) :=
  match lookup_hash s.handle_table hHMAC with
  | none => some (false, SetLastError s WINERROR.NTE_BAD_HASH, pbBuffer)
  | some pHMAC =>
    let r1 := init_hash impl s pHMAC
    match update_hash impl r1.2.1 r1.2.2 seed with
    | none => none
    | some (s2, h2) =>
      match finalize_hash impl s2 h2 with
      | none => none
      | some (s3, h3) =>
        let abAi := memmove (heap_block RSAENH_MAX_HASH_SIZE) 0
          (bytesAt h3.abHashValue 0 h3.dwHashSize)
        match tls1_p_loop impl seed dwBufferLen (dwBufferLen + 1) s3 h3 abAi 0 pbBuffer with
        | none => none
        | some (s4, h4, buf) =>
          some (true, s4.withTable (store_object s4.handle_table hHMAC (.hash h4)), buf)

/-- The exit path of tls1_prf: the half secret and the HMAC object are released. -/
def tls1_prf_exit {κ η : Type} (s : CSP κ η) (hProv hHalfSecret hHMAC : Nat) : CSP κ η :=
  let s1 := s.withTable (release_handle s.handle_table hHalfSecret is_key).2
  if hHMAC ≠ INVALID_HANDLE_VALUE then (RSAENH_CPDestroyHash s1 hProv hHMAC).2 else s1

/-- The function tls1_prf; `blobLabel` and `blobSeed` hold the bytes of the two blobs.  Result:
BOOL, state, buffer.  The objects of `hSecret` and `hHalfSecret` are not written
by the calls in between, so the reads through `pSecret` and the stores through
`pHalfSecret` use the values at hand. -/
def tls1_prf {κ η : Type} (impl : IMPL κ η) (s : CSP κ η) (hProv hSecret : Nat)
    (blobLabel blobSeed : List Nat) (pbBuffer : List Nat) (dwBufferLen : Nat) :
    Option (Bool × CSP κ η × List Nat) :=
  match lookup_key s.handle_table hSecret with
  | none => some (false, SetLastError s WINERROR.NTE_FAIL, pbBuffer)
  | some pSecret =>
    let dwHalfSecretLen := dwAdd pSecret.dwKeyLen 1 / 2
    let blobLabelSeed := blobLabel ++ blobSeed
    let buf0 := memmove pbBuffer 0 (List.replicate dwBufferLen 0)
    match new_key impl s hProv CALG_SSL2_MASTER (MAKELONG 0 (dwMul dwHalfSecretLen 8)) with
    | (s1, none) => some (false, tls1_prf_exit s1 hProv INVALID_HANDLE_VALUE INVALID_HANDLE_VALUE, buf0)
    | (s1, some (hHalfSecret, pHalfSecret)) =>
      let half1 : CRYPTKEY κ :=
        { pHalfSecret with
          abKeyValue := memmove pHalfSecret.abKeyValue 0
            (bytesAt pSecret.abKeyValue 0 dwHalfSecretLen) }
      let s2 := s1.withTable (store_object s1.handle_table hHalfSecret (.key half1))
      match CPCreateHash_with no_prf impl s2 hProv CALG_HMAC hHalfSecret 0 with
      | none => none
      | some (false, s3, ph) =>
        some (false, tls1_prf_exit s3 hProv hHalfSecret (ph.getD INVALID_HANDLE_VALUE), buf0)
      | some (true, s3, ph) =>
        let hHMAC := ph.getD INVALID_HANDLE_VALUE
        match RSAENH_CPSetHashParam impl s3 hProv hHMAC HP_HMAC_INFO
            (.hmac_info (some ⟨CALG_MD5, [], 0, [], 0⟩)) 0 with
        | none => none
        | some (false, s4) => some (false, tls1_prf_exit s4 hProv hHalfSecret hHMAC, buf0)
        | some (true, s4) =>
          match tls1_p impl s4 hHMAC blobLabelSeed buf0 dwBufferLen with
          | none => none
          | some (false, s5, buf1) =>
            some (false, tls1_prf_exit s5 hProv hHalfSecret hHMAC, buf1)
          | some (true, s5, buf1) =>
            let half2 : CRYPTKEY κ :=
              { half1 with
                abKeyValue := memmove half1.abKeyValue 0
                  (bytesAt pSecret.abKeyValue (pSecret.dwKeyLen / 2) dwHalfSecretLen) }
            let s6 := s5.withTable (store_object s5.handle_table hHalfSecret (.key half2))
            match RSAENH_CPSetHashParam impl s6 hProv hHMAC HP_HMAC_INFO
                (.hmac_info (some ⟨CALG_SHA, [], 0, [], 0⟩)) 0 with
            | none => none
            | some (false, s7) => some (false, tls1_prf_exit s7 hProv hHalfSecret hHMAC, buf1)
            | some (true, s7) =>
              match tls1_p impl s7 hHMAC blobLabelSeed buf1 dwBufferLen with
              | none => none
              | some (ok, s8, buf2) =>
                some (ok, tls1_prf_exit s8 hProv hHalfSecret hHMAC, buf2)

/-- The function RSAENH_CPCreateHash.  Result: BOOL, state, and `*phHash` when written. -/
def RSAENH_CPCreateHash {κ η : Type} (impl : IMPL κ η) (s : CSP κ η)
    (hProv Algid hKey dwFlags : Nat) : Option (Bool × CSP κ η × Option Nat) :=
  CPCreateHash_with (tls1_prf impl) impl s hProv Algid hKey dwFlags

/-- The function RSAENH_CPGetHashParam.  `pbData = none` and `pdwDataLen = none` are NULL
pointers.  Result: BOOL, state, the buffer and `*pdwDataLen` on return.  In
the CALG_TLS1PRF case a NULL buffer is outside the model. -/
def RSAENH_CPGetHashParam {κ η : Type} (impl : IMPL κ η) (s : CSP κ η) (hProv hHash : Nat)
    (dwParam : Nat) (pbData : Option (List Nat)) (pdwDataLen : Option Nat) (dwFlags : Nat) :
    Option (Bool × CSP κ η × Option (List Nat) × Option Nat) :=
  if ¬ is_valid_handle s.handle_table hProv is_container then
    some (false, SetLastError s WINERROR.NTE_BAD_UID, pbData, pdwDataLen)
  else if dwFlags ≠ 0 then some (false, SetLastError s WINERROR.NTE_BAD_FLAGS, pbData, pdwDataLen)
  else
    match lookup_hash s.handle_table hHash with
    | none => some (false, SetLastError s WINERROR.NTE_BAD_HASH, pbData, pdwDataLen)
    | some pCryptHash =>
      match pdwDataLen with
      | none => some (false, SetLastError s WINERROR.ERROR_INVALID_PARAMETER, pbData, none)
      | some dwDataLen =>
        if dwParam = HP_ALGID then
          let r := copy_param s pbData dwDataLen (dword_bytes pCryptHash.aiAlgid) 4
          some (r.1, r.2.1, r.2.2.1, some r.2.2.2)
        else if dwParam = HP_HASHSIZE then
          let r := copy_param s pbData dwDataLen (dword_bytes pCryptHash.dwHashSize) 4
          some (r.1, r.2.1, r.2.2.1, some r.2.2.2)
        else if dwParam = HP_HASHVAL then
          if pCryptHash.aiAlgid = CALG_TLS1PRF then
            match pbData with
            | none => none
            | some buf =>
              match tls1_prf impl s hProv pCryptHash.hKey pCryptHash.tpPRFParams.blobLabel
                  pCryptHash.tpPRFParams.blobSeed buf dwDataLen with
              | none => none
              | some (ok, s1, buf1) => some (ok, s1, some buf1, some dwDataLen)
          else if pCryptHash.dwState = RSAENH_HASHSTATE_IDLE then
            some (false, SetLastError s WINERROR.NTE_BAD_HASH_STATE, pbData, some dwDataLen)
          else
            let fin :=
              if pbData.isSome ∧ pCryptHash.dwState ≠ RSAENH_HASHSTATE_FINISHED then
                match finalize_hash impl s pCryptHash with
                | none => none
                | some (s1, h1) => some (s1, { h1 with dwState := RSAENH_HASHSTATE_FINISHED })
              else some (s, pCryptHash)
            match fin with
            | none => none
            | some (s1, h1) =>
              let s2 := s1.withTable (store_object s1.handle_table hHash (.hash h1))
              let r := copy_param s2 pbData dwDataLen h1.abHashValue h1.dwHashSize
              some (r.1, r.2.1, r.2.2.1, some r.2.2.2)
        else some (false, SetLastError s WINERROR.NTE_BAD_TYPE, pbData, some dwDataLen)

/-! ### Signatures: build_hash_signature, CPGetUserKey, CPSignHash, CPVerifySignature

A write past the end of a buffer is undefined in C; the model drops it.  The
statements about these functions are for buffer sizes where every write is
inside the buffer. -/

/-- The table aOIDDescriptor of build_hash_signature: aiAlgid, dwLen, abOID. -/
def aOIDDescriptor : List (Nat × Nat × List Nat) :=
  [ (CALG_MD2, 18, [0x30, 0x20, 0x30, 0x0c, 0x06, 0x08, 0x2a, 0x86, 0x48,
                    0x86, 0xf7, 0x0d, 0x02, 0x02, 0x05, 0x00, 0x04, 0x10]),
    (CALG_MD4, 18, [0x30, 0x20, 0x30, 0x0c, 0x06, 0x08, 0x2a, 0x86, 0x48,
                    0x86, 0xf7, 0x0d, 0x02, 0x04, 0x05, 0x00, 0x04, 0x10]),
    (CALG_MD5, 18, [0x30, 0x20, 0x30, 0x0c, 0x06, 0x08, 0x2a, 0x86, 0x48,
                    0x86, 0xf7, 0x0d, 0x02, 0x05, 0x05, 0x00, 0x04, 0x10]),
    (CALG_SHA, 15, [0x30, 0x21, 0x30, 0x09, 0x06, 0x05, 0x2b, 0x0e, 0x03,
                    0x02, 0x1a, 0x05, 0x00, 0x04, 0x14]),
    (0, 0, []) ]

/-- The search loop of build_hash_signature over aOIDDescriptor: the entry of `aiAlgid`, or
`none` when the loop stops at the entry with aiAlgid 0. -/
def find_oid (aiAlgid : Nat) : List (Nat × Nat × List Nat) → Option (Nat × Nat × List Nat)
  | [] => none
  | e :: rest =>
    if e.1 = 0 then none
    else if e.1 = aiAlgid then some e
    else find_oid aiAlgid rest

/-- The function build_hash_signature: the buffer `pbSignature` afterwards, or the last error
of the result FALSE. -/
def build_hash_signature (pbSignature : List Nat) (dwLen aiAlgid : Nat) (abHashValue : List Nat)
    (dwHashLen dwFlags : Nat) : Except WINERROR (List Nat) :=
  match find_oid aiAlgid aOIDDescriptor with
  | none => .error WINERROR.NTE_BAD_ALGID
  | some oid =>
    if dwFlags &&& CRYPT_X931_FORMAT ≠ 0 then
      let bound := dwSub (dwSub dwLen dwHashLen) 3
      let b1 := fill_loop 0xbb (bound - 1) (pbSignature.set 0 0x6b) 1
      let i := max 1 bound
      let b2 := memmove (b1.set i 0xba) (i + 1) (bytesAt abHashValue 0 dwHashLen)
      .ok ((b2.set (i + 1 + dwHashLen) 0x33).set (i + 1 + dwHashLen + 1) 0xcc)
    else
      let b0 := (pbSignature.set 0 0x00).set 1 0x01
      if dwFlags &&& CRYPT_NOHASHOID ≠ 0 then
        let bound := dwSub (dwSub dwLen 1) dwHashLen
        let b1 := fill_loop 0xff (bound - 2) b0 2
        let i := max 2 bound
        .ok (memmove (b1.set i 0x00) (i + 1) (bytesAt abHashValue 0 dwHashLen))
      else
        let bound := dwSub (dwSub (dwSub dwLen 1) oid.2.1) dwHashLen
        let b1 := fill_loop 0xff (bound - 2) b0 2
        let i := max 2 bound
        let b2 := memmove (b1.set i 0x00) (i + 1) (bytesAt oid.2.2 0 oid.2.1)
        .ok (memmove b2 (i + 1 + oid.2.1) (bytesAt abHashValue 0 dwHashLen))

/-- The function RSAENH_CPGetUserKey.  Result: BOOL, state, `*phUserKey`. -/
def RSAENH_CPGetUserKey {κ η : Type} (s : CSP κ η) (hProv dwKeySpec : Nat) :
    Bool × CSP κ η × Nat :=
  match lookup_container s.handle_table hProv with
  | none => (false, SetLastError s WINERROR.NTE_BAD_UID, INVALID_HANDLE_VALUE)
  | some pKeyContainer =>
    let r : HANDLETABLE κ η × Nat :=
      if dwKeySpec = AT_KEYEXCHANGE then
        copy_handle s.handle_table pKeyContainer.hKeyExchangeKeyPair is_key
      else if dwKeySpec = AT_SIGNATURE then
        copy_handle s.handle_table pKeyContainer.hSignatureKeyPair is_key
      else (s.handle_table, INVALID_HANDLE_VALUE)
    if r.2 = INVALID_HANDLE_VALUE then
      (false, SetLastError (s.withTable r.1) WINERROR.NTE_NO_KEY, INVALID_HANDLE_VALUE)
    else (true, s.withTable r.1, r.2)

/-- The two CPGetHashParam calls of CPSignHash and CPVerifySignature: HP_ALGID into the local
`aiAlgid`, HP_HASHVAL into the local array `abHashValue` with
`dwHashLen`.  `.error s1`: a call returned FALSE. -/
def get_hash_for_signature {κ η : Type} (impl : IMPL κ η) (s : CSP κ η) (hProv hHash : Nat) :
    Option (Except (CSP κ η) (CSP κ η × Nat × List Nat × Nat)) :=
  match RSAENH_CPGetHashParam impl s hProv hHash HP_ALGID (some (heap_block 4)) (some 4) 0 with
  | none => none
  | some (false, s1, _, _) => some (.error s1)
  | some (true, s1, aiAlgid, _) =>
    match RSAENH_CPGetHashParam impl s1 hProv hHash HP_HASHVAL
        (some (heap_block RSAENH_MAX_HASH_SIZE)) (some RSAENH_MAX_HASH_SIZE) 0 with
    | none => none
    | some (false, s2, _, _) => some (.error s2)
    | some (true, s2, abHashValue, dwHashLen) =>
      some (.ok (s2, bytes_dword (aiAlgid.getD []), abHashValue.getD [], dwHashLen.getD 0))

/-- The function RSAENH_CPSignHash.  `sDescription` holds the bytes of the description string
that would be hashed (`none`: NULL), `pbSignature = none` is the NULL pointer,
`dwSigLen` the value of `*pdwSigLen` on entry.  The RSA primitive reads one
block of the key's byte length.  Result: BOOL, state, the buffer and
`*pdwSigLen` on return. -/
def RSAENH_CPSignHash {κ η : Type} (impl : IMPL κ η) (s : CSP κ η) (hProv hHash dwKeySpec : Nat)
    (sDescription : Option (List Nat)) (dwFlags : Nat) (pbSignature : Option (List Nat))
    (dwSigLen : Nat) : Option (Bool × CSP κ η × Option (List Nat) × Nat) :=
  if dwFlags &&& (0xffffffff ^^^ (CRYPT_NOHASHOID ||| CRYPT_X931_FORMAT)) ≠ 0 then
    some (false, SetLastError s WINERROR.NTE_BAD_FLAGS, pbSignature, dwSigLen)
  else
    let u := RSAENH_CPGetUserKey s hProv dwKeySpec
    if ¬ u.1 then some (false, u.2.1, pbSignature, dwSigLen)
    else
      match lookup_key u.2.1.handle_table u.2.2 with
      | none => some (false, SetLastError u.2.1 WINERROR.NTE_NO_KEY, pbSignature, dwSigLen)
      | some pCryptKey =>
        match pbSignature with
        | none => some (true, u.2.1, none, pCryptKey.dwKeyLen)
        | some sig =>
          if pCryptKey.dwKeyLen > dwSigLen then
            some (false, SetLastError u.2.1 WINERROR.ERROR_MORE_DATA, some sig,
              pCryptKey.dwKeyLen)
          else
            match (match sDescription with
                | some d => RSAENH_CPHashData impl u.2.1 hProv hHash d 0
                | none => some (true, u.2.1)) with
            | none => none
            | some (false, s1) => some (false, s1, some sig, pCryptKey.dwKeyLen)
            | some (true, s1) =>
              match get_hash_for_signature impl s1 hProv hHash with
              | none => none
              | some (.error s2) => some (false, s2, some sig, pCryptKey.dwKeyLen)
              | some (.ok (s2, aiAlgid, abHashValue, dwHashLen)) =>
                match build_hash_signature sig pCryptKey.dwKeyLen aiAlgid abHashValue dwHashLen
                    dwFlags with
                | .error e => some (false, SetLastError s2 e, some sig, pCryptKey.dwKeyLen)
                | .ok built =>
                  match impl.encrypt_block_impl pCryptKey.aiAlgid pCryptKey.context
                      (bytesAt built 0 pCryptKey.dwKeyLen) RSAENH_ENCRYPT with
                  | none => some (false, s2, some built, pCryptKey.dwKeyLen)
                  | some c => some (true, s2, some (memmove built 0 c), pCryptKey.dwKeyLen)

/-- The function RSAENH_CPVerifySignature.  `pbSignature` is the memory at the signature
pointer, `sDescription` as in RSAENH_CPSignHash.  The RSA primitive reads one
block of the key's byte length.  Memory exhaustion is outside the model.
Result: BOOL, state. -/
def RSAENH_CPVerifySignature {κ η : Type} (impl : IMPL κ η) (s : CSP κ η) (hProv hHash : Nat)
    (pbSignature : List Nat) (dwSigLen hPubKey : Nat) (sDescription : Option (List Nat))
    (dwFlags : Nat) : Option (Bool × CSP κ η) :=
  if dwFlags &&& (0xffffffff ^^^ (CRYPT_NOHASHOID ||| CRYPT_X931_FORMAT)) ≠ 0 then
    some (false, SetLastError s WINERROR.NTE_BAD_FLAGS)
  else if ¬ is_valid_handle s.handle_table hProv is_container then
    some (false, SetLastError s WINERROR.NTE_BAD_UID)
  else
    match lookup_key s.handle_table hPubKey with
    | none => some (false, SetLastError s WINERROR.NTE_BAD_KEY)
    | some pCryptKey =>
      match (match sDescription with
          | some d => RSAENH_CPHashData impl s hProv hHash d 0
          | none => some (true, s)) with
      | none => none
      | some (false, s1) => some (false, s1)
      | some (true, s1) =>
        match get_hash_for_signature impl s1 hProv hHash with
        | none => none
        | some (.error s2) => some (false, s2)
        | some (.ok (s2, aiAlgid, abHashValue, dwHashLen)) =>
          match impl.encrypt_block_impl pCryptKey.aiAlgid pCryptKey.context
              (bytesAt pbSignature 0 pCryptKey.dwKeyLen) RSAENH_DECRYPT with
          | none => some (false, s2)
          | some d =>
            let pbDecrypted := memmove (heap_block dwSigLen) 0 d
            match build_hash_signature (heap_block dwSigLen) dwSigLen aiAlgid abHashValue
                dwHashLen dwFlags with
            | .error e => some (false, SetLastError s2 e)
            | .ok pbConstructed =>
              if bytesAt pbDecrypted 0 dwSigLen ≠ bytesAt pbConstructed 0 dwSigLen then
                some (false, SetLastError s2 WINERROR.NTE_BAD_SIGNATURE)
              else some (true, s2)

/-! ### Notions used in the statements about signatures, and objects for concrete runs -/

/-- The byte string `S` with bit `bit` flipped; bit `8 * j + i` is bit `i` (from the least
significant one) of byte `j`. -/
def flip_bit (S : List Nat) (bit : Nat) : List Nat :=
  S.set (bit / 8) (S.getD (bit / 8) 0 ^^^ 2 ^ (bit % 8))

/-- The block primitive of key context `ctx` under algorithm `alg` is, in the decrypt direction,
defined and injective on the blocks of `n` bytes, with blocks of `n` bytes as
values. -/
def BlockInjective {κ η : Type} (impl : IMPL κ η) (alg : Nat) (ctx : κ) (n : Nat) : Prop :=
  ∀ x : List Nat, x.length = n → isBytes x →
    ∃ d, impl.encrypt_block_impl alg ctx x RSAENH_DECRYPT = some d ∧ d.length = n ∧
      ∀ y : List Nat, y.length = n → isBytes y →
        impl.encrypt_block_impl alg ctx y RSAENH_DECRYPT = some d → y = x

/-- An RSA signature key object of 48 bytes with key context 5, for concrete runs. -/
def toyRsaKey : CRYPTKEY Nat :=
  { aiAlgid := CALG_RSA_SIGN, hProv := 1, dwMode := 0, dwModeBits := 0, dwPermissions := 59,
    dwKeyLen := 48, dwSaltLen := 0, dwBlockLen := 48, dwState := RSAENH_KEYSTATE_IDLE,
    context := 5, abKeyValue := List.replicate 48 0,
    abInitVector := List.replicate 24 0, abChainVector := List.replicate 24 0,
    siSChannelInfo := ⟨⟨0, 0, 0, 0, 0⟩, ⟨0, 0, 0, 0, 0⟩, [], []⟩ }

/-- A hash object of the given algorithm, digest size and state that has absorbed the bytes
`ctx`, for concrete runs. -/
def toyHash (aiAlgid dwHashSize dwState : Nat) (ctx : List Nat) : CRYPTHASH (List Nat) :=
  { aiAlgid := aiAlgid, hKey := 0, hProv := 1, dwHashSize := dwHashSize, dwState := dwState,
    context := ctx, abHashValue := List.replicate 104 0, pHMACInfo := none,
    tpPRFParams := ⟨[], []⟩ }

/-- A provider state for concrete runs of the signature functions: handle 1 names a container
whose signature key pair is handle 2, the RSA key `toyRsaKey`; handle 3 names the
hash object `h`. -/
def toySignState (h : CRYPTHASH (List Nat)) : CSP Nat (List Nat) :=
  ⟨⟨[some (1, .container { toyContainer 0 with hSignatureKeyPair := 2 }),
      some (1, .key toyRsaKey), some (1, .hash h)]⟩,
    WINERROR.ERROR_SUCCESS, []⟩

/-! ### Notions used in the statements about hashes -/

/-- A sequence of CPHashData calls on one hash object, one call per message; it stops at the
first call that does not return TRUE. -/
def hash_data_seq {κ η : Type} (impl : IMPL κ η) (hProv hHash : Nat) :
    List (List Nat) → CSP κ η → Option (Bool × CSP κ η)
  | [], s => some (true, s)
  | m :: ms, s =>
    match RSAENH_CPHashData impl s hProv hHash m 0 with
    | none => none
    | some (false, s1) => some (false, s1)
    | some (true, s1) => hash_data_seq impl hProv hHash ms s1

/-- The hash primitive of algorithm `alg` computes the function `H` over the concatenation of
the updates: `msg` tells from a context the bytes absorbed since the
initialisation. -/
def HashComputes {κ η : Type} (impl : IMPL κ η) (alg : Nat) (H : List Nat → List Nat)
    (msg : η → List Nat) : Prop :=
  (∀ c, msg (impl.init_hash_impl alg c).2 = []) ∧
  (∀ c d, msg (impl.update_hash_impl alg c d).2 = msg c ++ d) ∧
  (∀ c, (impl.finalize_hash_impl alg c).2.2 = H (msg c))

/-- The key `K` zero-extended to 64 bytes and combined with 64 bytes `pad` by exclusive or. -/
def hmac_pad (pad : Nat) (K : List Nat) : List Nat :=
  List.zipWith (fun a b => a ^^^ b) (List.replicate 64 pad) (K ++ List.replicate (64 - K.length) 0)

/-- Following the claim (RFC 2104): HMAC-H of the message `m` under the key `K`,
`H((opad xor K) || H((ipad xor K) || m))`, with ipad and opad 64 bytes of 0x36
and 0x5c. -/
def hmac_rfc2104 (H : List Nat → List Nat) (K m : List Nat) : List Nat :=
  H (hmac_pad 0x5c K ++ H (hmac_pad 0x36 K ++ m))

/-- The digest function of the small engine for algorithm `alg`. -/
def toyDigest (alg : Nat) (c : List Nat) : List Nat :=
  (List.range (if alg = CALG_SHA then 20 else 16)).map (fun i => (c.sum + 7 * i + c.length) % 256)

/-- A key object of `dwKeyLen` bytes with the key material `key` (padded with zero bytes to the
48 bytes of the array), for concrete runs. -/
def toySecretKey (aiAlgid dwKeyLen dwState : Nat) (key : List Nat) : CRYPTKEY Nat :=
  { aiAlgid := aiAlgid, hProv := 1, dwMode := 0, dwModeBits := 0, dwPermissions := 59,
    dwKeyLen := dwKeyLen, dwSaltLen := 0, dwBlockLen := 0, dwState := dwState,
    context := 0, abKeyValue := memmove (List.replicate 48 0) 0 key,
    abInitVector := List.replicate 24 0, abChainVector := List.replicate 24 0,
    siSChannelInfo := ⟨⟨0, 0, 0, 0, 0⟩, ⟨0, 0, 0, 0, 0⟩, [], []⟩ }

/-! ### CPDeriveKey -/

/-- The local arrays `pad1` and `pad2` of CPDeriveKey:
`pad[i] = c ^ (i < dwLen ? abHashValue[i] : 0)` for `i < RSAENH_HMAC_DEF_PAD_LEN`. -/
def derive_pad (c : Nat) (abHashValue : List Nat) (dwLen : Nat) : List Nat :=
  (List.range RSAENH_HMAC_DEF_PAD_LEN).map
    (fun i => c ^^^ (if i < dwLen then abHashValue.getD i 0 else 0))

/-- The branch of CPDeriveKey (class ALG_CLASS_DATA_ENCRYPT) that builds a longer value from
the hash when the digest of `dwLen` bytes is shorter than the key: the array
`abHashValue` afterwards; the digest array of the hash object is restored at the
end.  Result: state, hash object, `abHashValue`. -/
def derive_extend {κ η : Type} (impl : IMPL κ η) (s : CSP κ η) (pCryptHash : CRYPTHASH η)
    (abHashValue : List Nat) (dwLen : Nat) :
    Option (CSP κ η × CRYPTHASH η × List Nat) :=
  let old_hashval := bytesAt pCryptHash.abHashValue 0 RSAENH_MAX_HASH_SIZE
  let i1 := init_hash impl s pCryptHash
  match update_hash impl i1.2.1 i1.2.2 (derive_pad RSAENH_HMAC_DEF_IPAD_CHAR abHashValue dwLen) with
  | none => none
  | some (s2, h2) =>
    match finalize_hash impl s2 h2 with
    | none => none
    | some (s3, h3) =>
      let v1 := memmove abHashValue 0 (bytesAt h3.abHashValue 0 h3.dwHashSize)
      let i4 := init_hash impl s3 h3
      match update_hash impl i4.2.1 i4.2.2
          (derive_pad RSAENH_HMAC_DEF_OPAD_CHAR abHashValue dwLen) with
      | none => none
      | some (s5, h5) =>
        match finalize_hash impl s5 h5 with
        | none => none
        | some (s6, h6) =>
          let v2 := memmove v1 h6.dwHashSize (bytesAt h6.abHashValue 0 h6.dwHashSize)
          some (s6, { h6 with abHashValue := memmove h6.abHashValue 0 old_hashval }, v2)

/-- The function RSAENH_CPDeriveKey; `phKey = none` is the NULL pointer.  Result: BOOL, state,
and `*phKey` when it has been written.  The hash object is not written by
new_key, so the reads through `pCryptHash` after it use the value looked up at
the start. -/
def RSAENH_CPDeriveKey {κ η : Type} (impl : IMPL κ η) (s : CSP κ η)
    (hProv Algid hBaseData dwFlags : Nat) (phKey : Option Nat) :
    Option (Bool × CSP κ η × Option Nat) :=
  if ¬ is_valid_handle s.handle_table hProv is_container then
    some (false, SetLastError s WINERROR.NTE_BAD_UID, phKey)
  else
    match lookup_hash s.handle_table hBaseData with
    | none => some (false, SetLastError s WINERROR.NTE_BAD_HASH, phKey)
    | some pCryptHash =>
      if phKey.isNone then some (false, SetLastError s WINERROR.ERROR_INVALID_PARAMETER, phKey)
      else if GET_ALG_CLASS Algid = ALG_CLASS_DATA_ENCRYPT then
        match new_key impl s hProv Algid dwFlags with
        | (s1, none) => some (false, s1, some INVALID_HANDLE_VALUE)
        | (s1, some (hKey, pCryptKey)) =>
          match RSAENH_CPGetHashParam impl s1 pCryptHash.hProv hBaseData HP_HASHVAL
              (some (heap_block (RSAENH_MAX_HASH_SIZE * 2))) (some RSAENH_MAX_HASH_SIZE) 0 with
          | none => none
          | some (_, s2, abHashValue, dwLen) =>
            match lookup_hash s2.handle_table hBaseData with
            | none => none
            | some pCryptHash1 =>
              match (if dwLen.getD 0 < pCryptKey.dwKeyLen then
                  derive_extend impl s2 pCryptHash1 (abHashValue.getD []) (dwLen.getD 0)
                else some (s2, pCryptHash1, abHashValue.getD [])) with
              | none => none
              | some (s3, h3, v) =>
                let k1 : CRYPTKEY κ :=
                  { pCryptKey with
                    abKeyValue := memmove pCryptKey.abKeyValue 0
                      (bytesAt v 0 (min pCryptKey.dwKeyLen RSAENH_MAX_KEY_SIZE)) }
                let t4 := store_object s3.handle_table hBaseData (.hash h3)
                some (true, s3.withTable (store_object t4 hKey (.key (setup_key impl k1))),
                  some hKey)
      else if GET_ALG_CLASS Algid = ALG_CLASS_MSG_ENCRYPT then
        match lookup_key s.handle_table pCryptHash.hKey with
        | none => some (false, SetLastError s WINERROR.NTE_FAIL, phKey)
        | some pMasterKey =>
          let mac := pMasterKey.siSChannelInfo.saMACAlg.cBits / 8
          let enc := pMasterKey.siSChannelInfo.saEncAlg.cBits / 8
          if Algid = CALG_SCHANNEL_ENC_KEY then
            match new_key impl s hProv pMasterKey.siSChannelInfo.saEncAlg.Algid
                (MAKELONG (LOWORD dwFlags) pMasterKey.siSChannelInfo.saEncAlg.cBits) with
            | (s1, none) => some (false, s1, some INVALID_HANDLE_VALUE)
            | (s1, some (hKey, pCryptKey)) =>
              let k1 : CRYPTKEY κ :=
                { pCryptKey with
                  abKeyValue := memmove pCryptKey.abKeyValue 0
                    (bytesAt pCryptHash.abHashValue
                      (dwAdd (dwMul 2 mac) (if dwFlags &&& CRYPT_SERVER ≠ 0 then enc else 0))
                      enc)
                  abInitVector := memmove pCryptKey.abInitVector 0
                    (bytesAt pCryptHash.abHashValue
                      (dwAdd (dwAdd (dwMul 2 mac) (dwMul 2 enc))
                        (if dwFlags &&& CRYPT_SERVER ≠ 0 then pCryptKey.dwBlockLen else 0))
                      pCryptKey.dwBlockLen) }
              some (true, s1.withTable (store_object s1.handle_table hKey
                (.key (setup_key impl k1))), some hKey)
          else if Algid = CALG_SCHANNEL_MAC_KEY then
            match new_key impl s hProv Algid
                (MAKELONG (LOWORD dwFlags) pMasterKey.siSChannelInfo.saMACAlg.cBits) with
            | (s1, none) => some (false, s1, some INVALID_HANDLE_VALUE)
            | (s1, some (hKey, pCryptKey)) =>
              let k1 : CRYPTKEY κ :=
                { pCryptKey with
                  abKeyValue := memmove pCryptKey.abKeyValue 0
                    (bytesAt pCryptHash.abHashValue
                      (if dwFlags &&& CRYPT_SERVER ≠ 0 then mac else 0) mac) }
              some (true, s1.withTable (store_object s1.handle_table hKey
                (.key (setup_key impl k1))), some hKey)
          else some (false, SetLastError s WINERROR.NTE_BAD_ALGID, phKey)
      else some (false, SetLastError s WINERROR.NTE_BAD_ALGID, phKey)

/-- A TLS1 master key object with the given SChannel algorithms (bit lengths `macBits` and
`encBits`, encryption algorithm `encAlg`), for concrete runs. -/
def toyMasterKey (dwState encAlg encBits macBits : Nat) (key : List Nat) : CRYPTKEY Nat :=
  { toySecretKey CALG_TLS1_MASTER 48 dwState key with
    siSChannelInfo := ⟨⟨SCHANNEL_ENC_KEY, encAlg, encBits, 0, 0⟩,
      ⟨SCHANNEL_MAC_KEY, CALG_SHA, macBits, 0, 0⟩, [], []⟩ }

/-- A provider state of the SChannel personality for concrete runs: handle 1 names the
container, handle 2 a master key with DES (64 bits) as encryption algorithm and
a MAC key of 128 bits, handle 3 a master hash object whose digest array holds
the bytes 0, 1, ..., 103. -/
def toyDeriveState : CSP Nat (List Nat) :=
  toyState RSAENH_PERSONALITY_SCHANNEL
    [.key (toyMasterKey RSAENH_KEYSTATE_MASTERKEY CALG_DES 64 128 []),
     .hash { toyHash CALG_SCHANNEL_MASTER_HASH 0 RSAENH_HASHSTATE_IDLE [] with
       hKey := 2, abHashValue := List.range 104 }]

/-! ### CPSetKeyParam -/

/-- What the pointer `pbData` of CPSetKeyParam points to: a DWORD, plain bytes, a SCHANNEL_ALG
struct, or a CRYPT_DATA_BLOB (the list of its bytes). -/
inductive KEYPARAM where
  | dword (v : Nat)
  | bytes (b : List Nat)
  | schannel_alg (a : SCHANNEL_ALG)
  | blob (b : List Nat)
  deriving DecidableEq, Repr

/-- The function RSAENH_CPSetKeyParam.  The result is `none` when `pbData` does not point to a
value of the kind that `dwParam` asks for. -/
def RSAENH_CPSetKeyParam {κ η : Type} (s : CSP κ η) (hProv hKey dwParam : Nat)
    (pbData : KEYPARAM) (dwFlags : Nat) : Option (Bool × CSP κ η) :=
  if ¬ is_valid_handle s.handle_table hProv is_container then
    some (false, SetLastError s WINERROR.NTE_BAD_UID)
  else if dwFlags ≠ 0 then some (false, SetLastError s WINERROR.NTE_BAD_FLAGS)
  else
    match lookup_key s.handle_table hKey with
    | none => some (false, SetLastError s WINERROR.NTE_BAD_KEY)
    | some pCryptKey =>
      let store := fun (k : CRYPTKEY κ) =>
        some (true, s.withTable (store_object s.handle_table hKey (.key k)))
      if dwParam = KP_MODE then
        match pbData with
        | .dword v => store { pCryptKey with dwMode := v }
        | _ => none
      else if dwParam = KP_MODE_BITS then
        match pbData with
        | .dword v => store { pCryptKey with dwModeBits := v }
        | _ => none
      else if dwParam = KP_PERMISSIONS then
        match pbData with
        | .dword v => store { pCryptKey with dwPermissions := v }
        | _ => none
      else if dwParam = KP_IV then
        match pbData with
        | .bytes b =>
          store { pCryptKey with
            abInitVector := memmove pCryptKey.abInitVector 0 (bytesAt b 0 pCryptKey.dwBlockLen) }
        | _ => none
      else if dwParam = KP_SCHANNEL_ALG then
        match pbData with
        | .schannel_alg a =>
          if a.dwUse = SCHANNEL_ENC_KEY then
            store { pCryptKey with
              siSChannelInfo := { pCryptKey.siSChannelInfo with saEncAlg := a } }
          else if a.dwUse = SCHANNEL_MAC_KEY then
            store { pCryptKey with
              siSChannelInfo := { pCryptKey.siSChannelInfo with saMACAlg := a } }
          else some (false, SetLastError s WINERROR.NTE_FAIL)
        | _ => none
      else if dwParam = KP_CLIENT_RANDOM then
        match pbData with
        | .blob b =>
          store { pCryptKey with
            siSChannelInfo := { pCryptKey.siSChannelInfo with blobClientRandom := b } }
        | _ => none
      else if dwParam = KP_SERVER_RANDOM then
        match pbData with
        | .blob b =>
          store { pCryptKey with
            siSChannelInfo := { pCryptKey.siSChannelInfo with blobServerRandom := b } }
        | _ => none
      else some (false, SetLastError s WINERROR.NTE_BAD_TYPE)

/-! ### Notions used in the statement about the TLS1 pseudo random function -/

/-- Following the claim (RFC 2246, chapter 5): `A(0) = seed` and
`A(i) = HMAC_H(secret, A(i-1))`. -/
def p_hash_A (H : List Nat → List Nat) (secret seed : List Nat) : Nat → List Nat
  | 0 => seed
  | i + 1 => hmac_rfc2104 H secret (p_hash_A H secret seed i)

/-- Following the claim: the first `k` blocks of P_hash,
`HMAC_H(secret, A(1) || seed) || ... || HMAC_H(secret, A(k) || seed)`. -/
def p_hash_blocks (H : List Nat → List Nat) (secret seed : List Nat) : Nat → List Nat
  | 0 => []
  | k + 1 =>
    p_hash_blocks H secret seed k ++
      hmac_rfc2104 H secret (p_hash_A H secret seed (k + 1) ++ seed)

/-- Following the claim: the stream P_hash truncated to `n` bytes (`n` blocks hold `n` bytes or
more when a digest is not empty). -/
def p_hash (H : List Nat → List Nat) (secret seed : List Nat) (n : Nat) : List Nat :=
  (p_hash_blocks H secret seed n).take n

/-- Following the claim: the TLS1 pseudo random function of a secret of length `L`,
`P_hash[HMAC-MD5 keyed with secret[0 .. ceil(L/2))](label || seed) xor
P_hash[HMAC-SHA1 keyed with secret[floor(L/2) .. L)](label || seed)`, each
stream truncated to `n` bytes; `Hmd5` and `Hsha` are the two digest functions. -/
def tls1_prf_rfc2246 (Hmd5 Hsha : List Nat → List Nat) (secret label seed : List Nat)
    (n : Nat) : List Nat :=
  List.zipWith (fun a b => a ^^^ b)
    (p_hash Hmd5 (secret.take ((secret.length + 1) / 2)) (label ++ seed) n)
    (p_hash Hsha (secret.drop (secret.length / 2)) (label ++ seed) n)

/-- The invariant of the HMAC object that tls1_p works on: an HMAC hash object of the provider
`hp` and the key handle `hk` whose HMAC info holds the inner hash `alg` and the
two pads of the key `K`, with a digest array of full size. -/
def HmacObject {η : Type} (x : CRYPTHASH η) (hp hk alg : Nat) (K : List Nat) : Prop :=
  x.aiAlgid = CALG_HMAC ∧
  x.pHMACInfo = some ⟨alg, hmac_pad 0x36 K, 64, hmac_pad 0x5c K, 64⟩ ∧
  x.hProv = hp ∧ x.abHashValue.length = RSAENH_MAX_HASH_SIZE ∧ x.hKey = hk

/-! ### Key blobs: CPExportKey and CPImportKey

The blob layout is that of wincrypt.h on a little-endian machine: BLOBHEADER is
BYTE bType, BYTE bVersion, WORD reserved, ALG_ID aiKeyAlg (8 bytes); RSAPUBKEY is
DWORD magic, DWORD bitlen, DWORD pubexp (12 bytes). -/

def SIMPLEBLOB : Nat := 0x1
def PUBLICKEYBLOB : Nat := 0x6
def PRIVATEKEYBLOB : Nat := 0x7
def CUR_BLOB_VERSION : Nat := 2
def RSAENH_MAGIC_RSA2 : Nat := 0x32415352
def RSAENH_MAGIC_RSA1 : Nat := 0x31415352
def sizeof_BLOBHEADER : Nat := 8
def sizeof_RSAPUBKEY : Nat := 12
def sizeof_ALG_ID : Nat := 4

/-- The DWORD in memory at offset `off` of `b`. -/
def read_dword (b : List Nat) (off : Nat) : Nat := bytes_dword (bytesAt b off 4)

/-- The WORD in memory at offset `off` of `b`. -/
def read_word (b : List Nat) (off : Nat) : Nat := b.getD off 0 + 256 * b.getD (off + 1) 0

/-- The bytes of a BLOBHEADER with the given bType and aiKeyAlg, bVersion = CUR_BLOB_VERSION and
reserved = 0, as CPExportKey writes it. -/
def blob_header (bType aiKeyAlg : Nat) : List Nat :=
  [bType % 256, CUR_BLOB_VERSION, 0, 0] ++ dword_bytes aiKeyAlg

/-- The RSA key primitives of the primitive engine (implglue.c, not part of the translated
sources), as a parameter.  `export_public_key_impl ctx dwKeyLen` and
`export_private_key_impl ctx dwKeyLen` return the BOOL, the bytes written at
`pbDest` and the value stored at `*pdwPubExp`; `import_public_key_impl src ctx
dwKeyLen dwPubExp` and `import_private_key_impl src ctx dwKeyLen dwPubExp`
get the memory at `pbSrc` and return the BOOL and the key context. -/
structure RSA_IMPL (κ : Type) where
  export_public_key_impl : κ → Nat → Bool × List Nat × Nat
  export_private_key_impl : κ → Nat → Bool × List Nat × Nat
  import_public_key_impl : List Nat → κ → Nat → Nat → Bool × κ
  import_private_key_impl : List Nat → κ → Nat → Nat → Bool × κ

/-- The value `sizeof(BLOBHEADER) + sizeof(RSAPUBKEY) + 2 * dwKeyLen + 5 * ((dwKeyLen + 1) >> 1)`
that the case PRIVATEKEYBLOB of CPExportKey assigns to the DWORD dwDataLen. -/
def private_blob_len (dwKeyLen : Nat) : Nat :=
  dwAdd (dwAdd (sizeof_BLOBHEADER + sizeof_RSAPUBKEY) (dwMul 2 dwKeyLen))
    (dwMul 5 (dwAdd dwKeyLen 1 / 2))

/-- The value `sizeof(BLOBHEADER) + sizeof(RSAPUBKEY) + (2 * bitlen >> 3) + (5 * ((bitlen+8)>>4))`
that the case PRIVATEKEYBLOB of CPImportKey compares dwDataLen with.  The products
and `bitlen+8` are DWORD operations; the sum stays below 2^32. -/
def private_blob_min_len (bitlen : Nat) : Nat :=
  sizeof_BLOBHEADER + sizeof_RSAPUBKEY + dwMul 2 bitlen / 8 + dwMul 5 (dwAdd bitlen 8 / 16)

/-- The value `sizeof(BLOBHEADER) + sizeof(RSAPUBKEY) + (bitlen >> 3)` that the case
PUBLICKEYBLOB of CPImportKey compares dwDataLen with. -/
def public_blob_min_len (bitlen : Nat) : Nat :=
  sizeof_BLOBHEADER + sizeof_RSAPUBKEY + bitlen / 8

/-- The function RSAENH_CPExportKey; `pbData = none` is the NULL pointer, `dwDataLen` the
value of `*pdwDataLen` on entry.  Result: `none` if the call does not return
(pad_data); otherwise BOOL, state, the buffer and `*pdwDataLen` on return. -/
def RSAENH_CPExportKey {κ η : Type} (impl : IMPL κ η) (rsa : RSA_IMPL κ) (s : CSP κ η)
    (hProv hKey hPubKey dwBlobType dwFlags : Nat) (pbData : Option (List Nat))
    (dwDataLen : Nat) : Option (Bool × CSP κ η × Option (List Nat) × Nat) :=
  if ¬ is_valid_handle s.handle_table hProv is_container then
    some (false, SetLastError s WINERROR.NTE_BAD_UID, pbData, dwDataLen)
  else
    match lookup_key s.handle_table hKey with
    | none => some (false, SetLastError s WINERROR.NTE_BAD_KEY, pbData, dwDataLen)
    | some pCryptKey =>
      if dwFlags &&& CRYPT_SSL2_FALLBACK ≠ 0 ∧ pCryptKey.aiAlgid ≠ CALG_SSL2_MASTER then
        some (false, SetLastError s WINERROR.NTE_BAD_KEY, pbData, dwDataLen)
      else if dwBlobType % 256 = SIMPLEBLOB then
        match lookup_key s.handle_table hPubKey with
        | none => some (false, SetLastError s WINERROR.NTE_BAD_PUBLIC_KEY, pbData, dwDataLen)
        | some pPubKey =>
          if GET_ALG_CLASS pCryptKey.aiAlgid &&&
              (ALG_CLASS_DATA_ENCRYPT ||| ALG_CLASS_MSG_ENCRYPT) = 0 then
            some (false, SetLastError s WINERROR.NTE_BAD_KEY, pbData, dwDataLen)
          else
            let len := dwAdd (sizeof_BLOBHEADER + sizeof_ALG_ID) pPubKey.dwBlockLen
            match pbData with
            | none => some (true, s, none, len)
            | some buf =>
              if dwDataLen < len then
                some (false, SetLastError s WINERROR.ERROR_MORE_DATA, some buf, len)
              else
                let b1 := memmove buf 0
                  (blob_header SIMPLEBLOB pCryptKey.aiAlgid ++ dword_bytes pPubKey.aiAlgid)
                match pad_data s.rand (bytesAt pCryptKey.abKeyValue 0 pCryptKey.dwKeyLen)
                    (b1.drop 12) pPubKey.dwBlockLen dwFlags with
                | none => none
                | some (.error e, rand1) =>
                  some (false, SetLastError { s with rand := rand1 } e, some b1, dwDataLen)
                | some (.ok padded, rand1) =>
                  some (true, { s with rand := rand1 },
                    some (b1.take 12 ++ call_encrypt_block impl pPubKey.aiAlgid pPubKey.context
                      (bytesAt padded 0 pPubKey.dwBlockLen) padded RSAENH_ENCRYPT),
                    len)
      else if dwBlobType % 256 = PUBLICKEYBLOB then
        if is_valid_handle s.handle_table hPubKey is_key then
          some (false, SetLastError s WINERROR.NTE_BAD_KEY, pbData, dwDataLen)
        else if pCryptKey.aiAlgid ≠ CALG_RSA_KEYX ∧ pCryptKey.aiAlgid ≠ CALG_RSA_SIGN then
          some (false, SetLastError s WINERROR.NTE_BAD_KEY, pbData, dwDataLen)
        else
          let len := dwAdd (sizeof_BLOBHEADER + sizeof_RSAPUBKEY) pCryptKey.dwKeyLen
          match pbData with
          | none => some (true, s, none, len)
          | some buf =>
            if dwDataLen < len then
              some (false, SetLastError s WINERROR.ERROR_MORE_DATA, some buf, len)
            else
              let b1 := memmove buf 0
                (blob_header PUBLICKEYBLOB pCryptKey.aiAlgid ++ dword_bytes RSAENH_MAGIC_RSA1 ++
                  dword_bytes (dwMul pCryptKey.dwKeyLen 8))
              let r := rsa.export_public_key_impl pCryptKey.context pCryptKey.dwKeyLen
              some (true, s,
                some (memmove (memmove b1 20 r.2.1) 16 (dword_bytes r.2.2)), len)
      else if dwBlobType % 256 = PRIVATEKEYBLOB then
        if pCryptKey.aiAlgid ≠ CALG_RSA_KEYX ∧ pCryptKey.aiAlgid ≠ CALG_RSA_SIGN then
          some (false, SetLastError s WINERROR.NTE_BAD_KEY, pbData, dwDataLen)
        else
          let len := private_blob_len pCryptKey.dwKeyLen
          match pbData with
          | none => some (true, s, none, len)
          | some buf =>
            if dwDataLen < len then
              some (false, SetLastError s WINERROR.ERROR_MORE_DATA, some buf, len)
            else
              let b1 := memmove buf 0
                (blob_header PRIVATEKEYBLOB pCryptKey.aiAlgid ++ dword_bytes RSAENH_MAGIC_RSA2 ++
                  dword_bytes (dwMul pCryptKey.dwKeyLen 8))
              let r := rsa.export_private_key_impl pCryptKey.context pCryptKey.dwKeyLen
              some (true, s,
                some (memmove (memmove b1 20 r.2.1) 16 (dword_bytes r.2.2)), len)
      else some (false, SetLastError s WINERROR.NTE_BAD_TYPE, pbData, dwDataLen)

/-- The function RSAENH_CPImportKey; `pbData` is the memory at the blob pointer, `phKey`
the value of `*phKey` on entry.  Result: BOOL, state, `*phKey` on return.  The
last error that a failing import primitive of the engine sets is not part of
the model. -/
def RSAENH_CPImportKey {κ η : Type} (impl : IMPL κ η) (rsa : RSA_IMPL κ) (s : CSP κ η)
    (hProv : Nat) (pbData : List Nat) (dwDataLen hPubKey dwFlags phKey : Nat) :
    Bool × CSP κ η × Nat :=
  if ¬ is_valid_handle s.handle_table hProv is_container then
    (false, SetLastError s WINERROR.NTE_BAD_UID, phKey)
  else if dwDataLen < sizeof_BLOBHEADER ∨ pbData.getD 1 0 ≠ CUR_BLOB_VERSION ∨
      read_word pbData 2 ≠ 0 then
    (false, SetLastError s WINERROR.NTE_BAD_DATA, phKey)
  else
    let bType := pbData.getD 0 0
    let aiKeyAlg := read_dword pbData 4
    let magic := read_dword pbData 8
    let bitlen := read_dword pbData 12
    let pubexp := read_dword pbData 16
    if bType = PRIVATEKEYBLOB then
      if dwDataLen < sizeof_BLOBHEADER + sizeof_RSAPUBKEY ∨ magic ≠ RSAENH_MAGIC_RSA2 ∨
          dwDataLen < private_blob_min_len bitlen then
        (false, SetLastError s WINERROR.NTE_BAD_DATA, phKey)
      else
        match new_key impl s hProv aiKeyAlg (MAKELONG 0 bitlen) with
        | (s1, none) => (false, s1, INVALID_HANDLE_VALUE)
        | (s1, some (hKey, pCryptKey)) =>
          let k1 := setup_key impl pCryptKey
          let r := rsa.import_private_key_impl (pbData.drop 20) k1.context (bitlen / 8) pubexp
          (r.1, s1.withTable (store_object s1.handle_table hKey
            (.key { k1 with context := r.2 })), hKey)
    else if bType = PUBLICKEYBLOB then
      if dwDataLen < sizeof_BLOBHEADER + sizeof_RSAPUBKEY ∨ magic ≠ RSAENH_MAGIC_RSA1 ∨
          dwDataLen < public_blob_min_len bitlen then
        (false, SetLastError s WINERROR.NTE_BAD_DATA, phKey)
      else
        let algID := if aiKeyAlg = CALG_RSA_KEYX then CALG_RSA_SIGN else aiKeyAlg
        match new_key impl s hProv algID (MAKELONG 0 bitlen) with
        | (s1, none) => (false, s1, INVALID_HANDLE_VALUE)
        | (s1, some (hKey, pCryptKey)) =>
          let k1 := setup_key impl pCryptKey
          let r := rsa.import_public_key_impl (pbData.drop 20) k1.context (bitlen / 8) pubexp
          (r.1, s1.withTable (store_object s1.handle_table hKey
            (.key { k1 with context := r.2 })), hKey)
    else if bType = SIMPLEBLOB then
      match lookup_key s.handle_table hPubKey with
      | none => (false, SetLastError s WINERROR.NTE_BAD_PUBLIC_KEY, phKey)
      | some pPubKey =>
        if pPubKey.aiAlgid ≠ CALG_RSA_KEYX then
          (false, SetLastError s WINERROR.NTE_BAD_PUBLIC_KEY, phKey)
        else if dwDataLen < sizeof_BLOBHEADER + sizeof_ALG_ID + pPubKey.dwBlockLen then
          (false, SetLastError s WINERROR.NTE_BAD_DATA, phKey)
        else
          let pbDecrypted := call_encrypt_block impl pPubKey.aiAlgid pPubKey.context
            (bytesAt pbData 12 pPubKey.dwBlockLen) (heap_block pPubKey.dwBlockLen) RSAENH_DECRYPT
          match unpad_data pbDecrypted pPubKey.dwBlockLen pbDecrypted RSAENH_MAX_KEY_SIZE
              dwFlags with
          | .error e => (false, SetLastError s e, phKey)
          | .ok (buf, dwKeyLen) =>
            match new_key impl s hProv aiKeyAlg (dwMul dwKeyLen 524288) with
            | (s1, none) => (false, s1, INVALID_HANDLE_VALUE)
            | (s1, some (hKey, pCryptKey)) =>
              let k1 : CRYPTKEY κ :=
                { pCryptKey with
                  abKeyValue := memmove pCryptKey.abKeyValue 0 (bytesAt buf 0 dwKeyLen) }
              (true, s1.withTable (store_object s1.handle_table hKey
                (.key (setup_key impl k1))), hKey)
    else (false, SetLastError s WINERROR.NTE_BAD_TYPE, phKey)

/-! ### CPGetProvParam and CPReleaseContext -/

def PP_ENUMALGS : Nat := 1
def PP_ENUMCONTAINERS : Nat := 2
def PP_IMPTYPE : Nat := 3
def PP_NAME : Nat := 4
def PP_VERSION : Nat := 5
def PP_CONTAINER : Nat := 6
def PP_ENUMALGS_EX : Nat := 22
def PP_SIG_KEYSIZE_INC : Nat := 34
def PP_KEYX_KEYSIZE_INC : Nat := 35
def CRYPT_FIRST : Nat := 1
def CRYPT_IMPL_SOFTWARE : Nat := 2
def sizeof_PROV_ENUMALGS : Nat := 32
def sizeof_PROV_ENUMALGS_EX : Nat := 88

/-- The bytes of a CHAR array of `n` elements that was initialised with the string `str`. -/
def char_array (n : Nat) (str : String) : List Nat :=
  ((str.toList.map Char.toNat) ++ List.replicate n 0).take n

/-- The bytes of a string with its closing NUL. -/
def c_string (str : String) : List Nat := str.toList.map Char.toNat ++ [0]

/-- The bytes of a PROV_ENUMALGS_EX record in memory. -/
def enumalgs_ex_bytes (e : PROV_ENUMALGS_EX) : List Nat :=
  dword_bytes e.aiAlgid ++ dword_bytes e.dwDefaultLen ++ dword_bytes e.dwMinLen ++
    dword_bytes e.dwMaxLen ++ dword_bytes e.dwProtocols ++ dword_bytes e.dwNameLen ++
    char_array 20 e.szName ++ dword_bytes e.dwLongNameLen ++ char_array 40 e.szLongName

/-- The bytes of the PROV_ENUMALGS record that the case PP_ENUMALGS fills from a
PROV_ENUMALGS_EX record: aiAlgid, dwBitLen (the default length), dwNameLen, szName. -/
def enumalgs_bytes (e : PROV_ENUMALGS_EX) : List Nat :=
  dword_bytes e.aiAlgid ++ dword_bytes e.dwDefaultLen ++ dword_bytes e.dwNameLen ++
    char_array 20 e.szName

/-- The array element `aProvEnumAlgsEx[p][i]`.  A row has RSAENH_MAX_ENUMALGS+1 elements; those
behind its closing record are zero-initialised. -/
def enumalgs_at (p i : Nat) : PROV_ENUMALGS_EX :=
  (aProvEnumAlgsEx.getD p []).getD i ⟨0, 0, 0, 0, 0, 0, "", 0, ""⟩

/-- The undocumented value that CPGetProvParam returns for dwParam 41. -/
def abWTF : List Nat :=
  [ 0xb0, 0x25, 0x63, 0x86, 0x9c, 0xab, 0xb6, 0x37,
    0xe8, 0x82, 0x00, 0x72, 0x06, 0xb2, 0x00, 0x3b,
    0x60, 0x35, 0x00, 0x3b, 0x88, 0xce, 0x00, 0x82,
    0xbc, 0x7a, 0x00, 0xb7, 0x4f, 0x7e, 0x00, 0xde,
    0x92, 0xf1, 0x00, 0x83, 0xea, 0x5e, 0x00, 0xc8,
    0x12, 0x1e, 0xd4, 0x06, 0xf7, 0x66, 0x00, 0x01,
    0x29, 0xa4, 0x00, 0xf8, 0x24, 0x0c, 0x00, 0x33,
    0x06, 0x80, 0x00, 0x02, 0x46, 0x0b, 0x00, 0x6d,
    0x5b, 0xca, 0x00, 0x9a, 0x10, 0xf0, 0x00, 0x05,
    0x19, 0xd0, 0x00, 0x2c, 0xf6, 0x27, 0x00, 0xaa,
    0x7c, 0x6f, 0x00, 0xb9, 0xd8, 0x72, 0x00, 0x03,
    0xf3, 0x81, 0x00, 0xfa, 0xe8, 0x26, 0x00, 0xca ]

/-- The function RSAENH_CPGetProvParam; `pbData = none` and `pdwDataLen = none` are NULL
pointers.  Result: BOOL, state, the buffer and `*pdwDataLen` on return.  The case
PP_ENUMCONTAINERS enumerates the registry, which is outside the model: the
result is `none` there. -/
def RSAENH_CPGetProvParam {κ η : Type} (s : CSP κ η) (hProv dwParam : Nat)
    (pbData : Option (List Nat)) (pdwDataLen : Option Nat) (dwFlags : Nat) :
    Option (Bool × CSP κ η × Option (List Nat) × Option Nat) :=
  match pdwDataLen with
  | none => some (false, SetLastError s WINERROR.ERROR_INVALID_PARAMETER, pbData, none)
  | some dwDataLen =>
    match lookup_container s.handle_table hProv with
    | none => some (false, SetLastError s WINERROR.NTE_BAD_UID, pbData, some dwDataLen)
    | some pKeyContainer =>
      if dwParam = PP_CONTAINER then
        let r := copy_param s pbData dwDataLen (c_string pKeyContainer.szName)
          (c_string pKeyContainer.szName).length
        some (r.1, r.2.1, r.2.2.1, some r.2.2.2)
      else if dwParam = PP_NAME then
        let r := copy_param s pbData dwDataLen (c_string pKeyContainer.szProvName)
          (c_string pKeyContainer.szProvName).length
        some (r.1, r.2.1, r.2.2.1, some r.2.2.2)
      else if dwParam = PP_SIG_KEYSIZE_INC ∨ dwParam = PP_KEYX_KEYSIZE_INC then
        let r := copy_param s pbData dwDataLen (dword_bytes 8) 4
        some (r.1, r.2.1, r.2.2.1, some r.2.2.2)
      else if dwParam = PP_IMPTYPE then
        let r := copy_param s pbData dwDataLen (dword_bytes CRYPT_IMPL_SOFTWARE) 4
        some (r.1, r.2.1, r.2.2.1, some r.2.2.2)
      else if dwParam = PP_VERSION then
        let r := copy_param s pbData dwDataLen (dword_bytes 0x00000200) 4
        some (r.1, r.2.1, r.2.2.1, some r.2.2.2)
      else if dwParam = PP_ENUMCONTAINERS then none
      else if dwParam = PP_ENUMALGS ∨ dwParam = PP_ENUMALGS_EX then
        if (pKeyContainer.dwEnumAlgsCtr ≥ RSAENH_MAX_ENUMALGS - 1 ∨
            (enumalgs_at pKeyContainer.dwPersonality
              (dwAdd pKeyContainer.dwEnumAlgsCtr 1)).aiAlgid = 0) ∧
            dwFlags &&& CRYPT_FIRST ≠ CRYPT_FIRST then
          some (false, SetLastError s WINERROR.ERROR_NO_MORE_ITEMS, pbData, some dwDataLen)
        else
          let size := if dwParam = PP_ENUMALGS then sizeof_PROV_ENUMALGS
            else sizeof_PROV_ENUMALGS_EX
          let ctr :=
            if pbData.isSome ∧ dwDataLen ≥ size then
              (if dwFlags &&& CRYPT_FIRST = CRYPT_FIRST then 0
               else dwAdd pKeyContainer.dwEnumAlgsCtr 1)
            else pKeyContainer.dwEnumAlgsCtr
          let s1 := s.withTable (store_object s.handle_table hProv
            (.container { pKeyContainer with dwEnumAlgsCtr := ctr }))
          let e := enumalgs_at pKeyContainer.dwPersonality ctr
          let r := copy_param s1 pbData dwDataLen
            (if dwParam = PP_ENUMALGS then enumalgs_bytes e else enumalgs_ex_bytes e) size
          some (r.1, r.2.1, r.2.2.1, some r.2.2.2)
      else if dwParam = 41 then
        let r := copy_param s pbData dwDataLen abWTF 96
        some (r.1, r.2.1, r.2.2.1, some r.2.2.2)
      else some (false, SetLastError s WINERROR.NTE_BAD_TYPE, pbData, some dwDataLen)

/-- The function RSAENH_CPReleaseContext.  The destructor destroy_key_container, which runs
when the last reference goes (it writes the key pairs to the registry and
releases their handles), is not part of the model. -/
def RSAENH_CPReleaseContext {κ η : Type} (s : CSP κ η) (hProv dwFlags : Nat) : Bool × CSP κ η :=
  let r := release_handle s.handle_table hProv is_container
  if ¬ r.1 then (false, SetLastError s WINERROR.NTE_BAD_UID)
  else if dwFlags ≠ 0 then (false, SetLastError (s.withTable r.2) WINERROR.NTE_BAD_FLAGS)
  else (true, s.withTable r.2)

/-- RSA key primitives for running the embedding on concrete inputs: export writes zero bytes
(dwKeyLen for the public key, 2 * dwKeyLen + 5 * ((dwKeyLen + 1) / 2) for the
private key) and the public exponent 65537; import keeps the key context. -/
def toyRsaImpl : RSA_IMPL Nat where
  export_public_key_impl := fun _ n => (true, List.replicate n 0, 65537)
  export_private_key_impl := fun _ n => (true, List.replicate (2 * n + 5 * ((n + 1) / 2)) 0, 65537)
  import_public_key_impl := fun _ ctx _ _ => (true, ctx)
  import_private_key_impl := fun _ ctx _ _ => (true, ctx)

/-! ### Notions used in the statement about the enumeration of the capability table -/

/-- Following the claim: the records of the capability table of personality `p`, the
elements of its row in front of the closing record. -/
def capability_records (p : Nat) : List PROV_ENUMALGS_EX :=
  (aProvEnumAlgsEx.getD p []).takeWhile (fun e => e.aiAlgid ≠ 0)

/-- Following the claim: call number `n` (from 0) of an enumeration with PP_ENUMALGS_EX on the
container `hProv`, started in state `s`.  Call 0 has the flag CRYPT_FIRST, the
following calls have no flag and run in the state that the call before them
left; call `i` gets the buffer `bufs i` with `*pdwDataLen = lens i`. -/
def enum_algs_ex_call {κ η : Type} (s : CSP κ η) (hProv : Nat) (bufs : Nat → List Nat)
    (lens : Nat → Nat) : Nat → Option (Bool × CSP κ η × Option (List Nat) × Option Nat)
  | 0 => RSAENH_CPGetProvParam s hProv PP_ENUMALGS_EX (some (bufs 0)) (some (lens 0)) CRYPT_FIRST
  | n + 1 =>
    match enum_algs_ex_call s hProv bufs lens n with
    | none => none
    | some r =>
      RSAENH_CPGetProvParam r.2.1 hProv PP_ENUMALGS_EX (some (bufs (n + 1)))
        (some (lens (n + 1))) 0

/-- A TLS1 master key object that still holds the pre-master secret 1, 2, 3, 0, ..., 0 (state
idle), with the client random 4, 5 and the server random 6, 7, for concrete runs. -/
def toyPremasterKey : CRYPTKEY Nat :=
  { toySecretKey CALG_TLS1_MASTER 48 RSAENH_KEYSTATE_IDLE [1, 2, 3] with
    siSChannelInfo := ⟨⟨SCHANNEL_ENC_KEY, CALG_DES, 64, 0, 0⟩,
      ⟨SCHANNEL_MAC_KEY, CALG_SHA, 128, 0, 0⟩, [4, 5], [6, 7]⟩ }

/-- A provider state of the SChannel personality for concrete runs: handle 1 names the
container, handle 2 the key `toyPremasterKey`. -/
def toyPremasterState : CSP Nat (List Nat) :=
  toyState RSAENH_PERSONALITY_SCHANNEL [.key toyPremasterKey]

/-- The inner loop of tls1_p as in tls1_p_xor, with a counter that the source does not have:
it is incremented at every execution of the statement
`pbBuffer[i] ^= abHashValue[i % dwHashSize];`.  Result: index, buffer, counter. -/
def tls1_p_xor_count (abHashValue : List Nat) (dwHashSize dwBufferLen : Nat) :
    Nat → Nat → List Nat → Nat → Option (Nat × List Nat × Nat)
  | 0, _, _, _ => none
  | n + 1, i, pbBuffer, xors =>
    if i ≥ dwBufferLen then some (i, pbBuffer, xors)
    else if dwHashSize = 0 then none
    else
      let buf1 := pbBuffer.set i (pbBuffer.getD i 0 ^^^ abHashValue.getD (i % dwHashSize) 0)
      if (i + 1) % dwHashSize ≠ 0 then
        tls1_p_xor_count abHashValue dwHashSize dwBufferLen n (i + 1) buf1 (xors + 1)
      else some (i + 1, buf1, xors + 1)

/-- The outer loop of tls1_p as in tls1_p_loop, with two counters that the source does not
have: `iters` counts the passes through the body of the outer loop, `xors` is the counter of
tls1_p_xor_count, the executions of the statement `pbBuffer[i] ^= ...`. -/
def tls1_p_loop_count {κ η : Type} (impl : IMPL κ η) (seed : List Nat) (dwBufferLen : Nat) :
    Nat → CSP κ η → CRYPTHASH η → List Nat → Nat → List Nat → Nat → Nat →
    Option (CSP κ η × CRYPTHASH η × List Nat × Nat × Nat)
  | 0, _, _, _, _, _, _, _ => none
  | n + 1, s, h, abAi, i, pbBuffer, iters, xors =>
    let r1 := init_hash impl s h
    match update_hash impl r1.2.1 r1.2.2 (bytesAt abAi 0 r1.2.2.dwHashSize) with
    | none => none
    | some (s2, h2) =>
      match update_hash impl s2 h2 seed with
      | none => none
      | some (s3, h3) =>
        match finalize_hash impl s3 h3 with
        | none => none
        | some (s4, h4) =>
          match tls1_p_xor_count h4.abHashValue h4.dwHashSize dwBufferLen (h4.dwHashSize + 1) i
              pbBuffer xors with
          | none => none
          | some (i1, buf1, xors1) =>
            let r5 := init_hash impl s4 h4
            match update_hash impl r5.2.1 r5.2.2 (bytesAt abAi 0 r5.2.2.dwHashSize) with
            | none => none
            | some (s6, h6) =>
              match finalize_hash impl s6 h6 with
              | none => none
              | some (s7, h7) =>
                let abAi1 := memmove abAi 0 (bytesAt h7.abHashValue 0 h7.dwHashSize)
                if i1 < dwBufferLen then
                  tls1_p_loop_count impl seed dwBufferLen n s7 h7 abAi1 i1 buf1 (iters + 1)
                    xors1
                else some (s7, h7, buf1, iters + 1, xors1)

/-- The function tls1_p as in tls1_p, with the two counters of tls1_p_loop_count behind the
result: the passes through the outer loop and the executions of the statement that combines
a buffer byte with a digest byte. -/
def tls1_p_count {κ η : Type} (impl : IMPL κ η) (s : CSP κ η) (hHMAC : Nat) (seed : List Nat)
    (pbBuffer : List Nat) (dwBufferLen : Nat) : Option (Bool × CSP κ η × List Nat × Nat × Nat) :=
  match lookup_hash s.handle_table hHMAC with
  | none => some (false, SetLastError s WINERROR.NTE_BAD_HASH, pbBuffer, 0, 0)
  | some pHMAC =>
    let r1 := init_hash impl s pHMAC
    match update_hash impl r1.2.1 r1.2.2 seed with
    | none => none
    | some (s2, h2) =>
      match finalize_hash impl s2 h2 with
      | none => none
      | some (s3, h3) =>
        let abAi := memmove (heap_block RSAENH_MAX_HASH_SIZE) 0
          (bytesAt h3.abHashValue 0 h3.dwHashSize)
        match tls1_p_loop_count impl seed dwBufferLen (dwBufferLen + 1) s3 h3 abAi 0 pbBuffer
            0 0 with
        | none => none
        | some (s4, h4, buf, iters, xors) =>
          some (true, s4.withTable (store_object s4.handle_table hHMAC (.hash h4)), buf,
            iters, xors)

/-- The memcpy calls of the ALG_CLASS_MSG_ENCRYPT branch of CPDeriveKey on the master key
`pMasterKey` and the new key `pCryptKey`: for each call the offset of the source in
`pCryptHash->abHashValue`, the number of bytes copied, and the size of the destination array
(`abKeyValue` or `abInitVector`). -/
def derive_schannel_copies {κ : Type} (Algid dwFlags : Nat) (pMasterKey pCryptKey : CRYPTKEY κ) :
    List (Nat × Nat × Nat) :=
  let mac := pMasterKey.siSChannelInfo.saMACAlg.cBits / 8
  let enc := pMasterKey.siSChannelInfo.saEncAlg.cBits / 8
  if Algid = CALG_SCHANNEL_ENC_KEY then
    [ (dwAdd (dwMul 2 mac) (if dwFlags &&& CRYPT_SERVER ≠ 0 then enc else 0), enc,
        RSAENH_MAX_KEY_SIZE),
      (dwAdd (dwAdd (dwMul 2 mac) (dwMul 2 enc))
          (if dwFlags &&& CRYPT_SERVER ≠ 0 then pCryptKey.dwBlockLen else 0),
        pCryptKey.dwBlockLen, RSAENH_MAX_BLOCK_SIZE) ]
  else if Algid = CALG_SCHANNEL_MAC_KEY then
    [ (if dwFlags &&& CRYPT_SERVER ≠ 0 then mac else 0, mac, RSAENH_MAX_KEY_SIZE) ]
  else []

/-- The block primitive of key context `ctx` under algorithm `alg` encrypts every block of `bl`
bytes to a block of `bl` bytes. -/
def BlockTotal {κ η : Type} (impl : IMPL κ η) (alg : Nat) (ctx : κ) (bl : Nat) : Prop :=
  ∀ x : List Nat, x.length = bl →
    ∃ c, impl.encrypt_block_impl alg ctx x RSAENH_ENCRYPT = some c ∧ c.length = bl

/-- The key object is a block-cipher key with block length `bl`, one of the modes ECB, CBC and
CFB, and a chaining vector of RSAENH_MAX_BLOCK_SIZE bytes. -/
def BlockShape {κ : Type} (k : CRYPTKEY κ) (bl : Nat) : Prop :=
  k.dwBlockLen = bl ∧
    (k.dwMode = CRYPT_MODE_ECB ∨ k.dwMode = CRYPT_MODE_CBC ∨ k.dwMode = CRYPT_MODE_CFB) ∧
    k.abChainVector.length = RSAENH_MAX_BLOCK_SIZE

/-- A provider state for concrete runs of the simple-blob functions: handle 1 names a container
of the enhanced personality, handle 2 the session key `K`, handle 3 an RSA key-exchange key of
48 bytes; the random source delivers the bytes 1, 2, ..., 60. -/
def toyBlobState (K : CRYPTKEY Nat) : CSP Nat (List Nat) :=
  { toyState RSAENH_PERSONALITY_ENHANCED
      [.key K, .key { toyRsaKey with aiAlgid := CALG_RSA_KEYX }] with
    rand := (List.range 60).map (fun i => i + 1) }

/-- The key object that CPImportKey creates from the SIMPLEBLOB that CPExportKey writes for
the key of handle 2 of `toyBlobState K` into a buffer of 60 bytes (both calls without flags,
with the exchange key of handle 3); `none` when one of the calls fails. -/
def toyBlobRoundTrip (K : CRYPTKEY Nat) : Option (CRYPTKEY Nat) :=
  match RSAENH_CPExportKey toyImpl toyRsaImpl (toyBlobState K) 1 2 3 SIMPLEBLOB 0
      (some (List.replicate 60 0)) 60 with
  | some (true, s1, some blob, len) =>
    let r := RSAENH_CPImportKey toyImpl toyRsaImpl s1 1 blob len 3 0 0
    if r.1 then lookup_key r.2.1.handle_table r.2.2 else none
  | _ => none

/-- The handle table `t'` names the key objects that `t` names, except that the key object of
the handle `hKey` may have changed; it is still a key object of the same algorithm. -/
def KeyFrame {κ η : Type} (t t' : HANDLETABLE κ η) (hKey : Nat) : Prop :=
  (∀ h, h ≠ hKey → lookup_key t' h = lookup_key t h) ∧
  ∀ k, lookup_key t hKey = some k →
    ∃ k', lookup_key t' hKey = some k' ∧ k'.aiAlgid = k.aiAlgid

/-! ## Part II. Lemmas and theorems -/

theorem dwSub_eq (a b : Nat) (hb : b ≤ a) : dwSub a b = a - b := by
  unfold dwSub
  rw [if_pos hb]

theorem memmove_length (dst : List Nat) (off : Nat) (src : List Nat) :
    (memmove dst off src).length = dst.length := by
  unfold memmove
  simp only [List.length_append, List.length_take, List.length_drop]
  omega

theorem memmove_inbounds (dst : List Nat) (off : Nat) (src : List Nat)
    (h : off + src.length ≤ dst.length) :
    memmove dst off src = dst.take off ++ (src ++ dst.drop (off + src.length)) := by
  unfold memmove
  congr 1
  apply List.take_of_length_le
  simp only [List.length_append, List.length_drop]
  omega

theorem set_eq_take_cons_drop' (buf : List Nat) (i : Nat) (b : Nat) (h : i < buf.length) :
    buf.set i b = buf.take i ++ b :: buf.drop (i + 1) := by
  rw [List.set_eq_take_append_cons_drop, if_pos h]

theorem draw_nonzero_ne_zero : ∀ (rand : List Nat) (b : Nat) (rest : List Nat),
    draw_nonzero rand = some (b, rest) → b ≠ 0 ∧ b < 256
  | [], b, rest, h => by simp [draw_nonzero] at h
  | x :: xs, b, rest, h => by
    unfold draw_nonzero at h
    split at h
    · exact draw_nonzero_ne_zero xs b rest h
    · simp only [Option.some.injEq, Prod.mk.injEq] at h
      obtain ⟨h1, _⟩ := h
      subst h1
      constructor
      · assumption
      · exact Nat.mod_lt _ (by decide)

theorem pad_fill_spec : ∀ (n : Nat) (rand buf : List Nat) (i : Nat) (buf' rand' : List Nat),
    i + n ≤ buf.length → pad_fill n rand buf i = some (buf', rand') →
    ∃ F : List Nat, F.length = n ∧ (∀ b ∈ F, b ≠ 0 ∧ b < 256) ∧
      buf' = buf.take i ++ (F ++ buf.drop (i + n))
  | 0, rand, buf, i, buf', rand', _, h => by
    simp only [pad_fill, Option.some.injEq, Prod.mk.injEq] at h
    refine ⟨[], rfl, by simp, ?_⟩
    simp [← h.1]
  | n + 1, rand, buf, i, buf', rand', hlen, h => by
    unfold pad_fill at h
    split at h
    · simp at h
    · rename_i b rand1 hdraw
      have hb := draw_nonzero_ne_zero _ _ _ hdraw
      have hlen' : i + 1 + n ≤ (buf.set i b).length := by simp; omega
      obtain ⟨F, hF, hnz, hbuf⟩ := pad_fill_spec n rand1 (buf.set i b) (i + 1) buf' rand' hlen' h
      refine ⟨b :: F, by simp [hF], ?_, ?_⟩
      · intro x hx
        rcases List.mem_cons.mp hx with hx | hx
        · subst hx; exact hb
        · exact hnz x hx
      · rw [hbuf, set_eq_take_cons_drop' buf i b (by omega)]
        have hi : (buf.take i).length = i := by simp; omega
        have h1 : (buf.take i ++ b :: buf.drop (i + 1)).take (i + 1) = buf.take i ++ [b] := by
          rw [List.take_append_eq_append_take, hi]
          simp
        have h2 : (buf.take i ++ b :: buf.drop (i + 1)).drop (i + 1 + n) = buf.drop (i + (n + 1)) := by
          rw [List.drop_append_eq_append_drop, hi]
          have e1 : i + 1 + n - i = (n + 1) := by omega
          rw [e1, List.drop_succ_cons, List.drop_drop]
          have e2 : (buf.take i).drop (i + 1 + n) = [] := by
            apply List.drop_of_length_le; omega
          rw [e2]
          simp
          congr 1; omega
        rw [h1, h2]
        simp


theorem pad_fallback_spec : ∀ (n : Nat) (buf : List Nat) (i : Nat),
    i + n ≤ buf.length →
    pad_fallback n buf i = buf.take i ++ (List.replicate n 3 ++ buf.drop (i + n))
  | 0, buf, i, _ => by simp [pad_fallback]
  | n + 1, buf, i, hlen => by
    unfold pad_fallback
    have hlen' : i + 1 + n ≤ (buf.set i 3).length := by simp; omega
    rw [pad_fallback_spec n (buf.set i 3) (i + 1) hlen', set_eq_take_cons_drop' buf i 3 (by omega)]
    have hi : (buf.take i).length = i := by simp; omega
    have h1 : (buf.take i ++ 3 :: buf.drop (i + 1)).take (i + 1) = buf.take i ++ [3] := by
      rw [List.take_append_eq_append_take, hi]
      simp
    have h2 : (buf.take i ++ 3 :: buf.drop (i + 1)).drop (i + 1 + n) = buf.drop (i + (n + 1)) := by
      rw [List.drop_append_eq_append_drop, hi]
      have e1 : i + 1 + n - i = (n + 1) := by omega
      rw [e1, List.drop_succ_cons, List.drop_drop]
      have e2 : (buf.take i).drop (i + 1 + n) = [] := by
        apply List.drop_of_length_le; omega
      rw [e2]
      simp
      congr 1; omega
    rw [h1, h2]
    simp [List.replicate_succ]

theorem set_append_cons (A : List Nat) (x y : Nat) (B : List Nat) (i : Nat) (hi : i = A.length) :
    (A ++ x :: B).set i y = A ++ y :: B := by
  subst hi
  induction A with
  | nil => rfl
  | cons a A ih => simp [List.set, ih]

/-- The layout of the buffer that a successful pad_data call leaves behind. -/
theorem pad_data_layout (rand abData abBuffer : List Nat) (dwBufferLen dwFlags : Nat)
    (r : Except WINERROR (List Nat)) (rand' : List Nat)
    (hlen : abData.length + 11 ≤ dwBufferLen) (hbuf : dwBufferLen ≤ abBuffer.length)
    (h : pad_data rand abData abBuffer dwBufferLen dwFlags = some (r, rand')) :
    ∃ F : List Nat, F.length = dwBufferLen - abData.length - 3 ∧ (∀ b ∈ F, b ≠ 0 ∧ b < 256) ∧
      (dwFlags &&& CRYPT_SSL2_FALLBACK ≠ 0 → ∀ b ∈ F.drop (F.length - 8), b = 3) ∧
      r = .ok (0 :: 2 :: (F ++ 0 :: (abData ++ abBuffer.drop dwBufferLen))) := by
  unfold pad_data at h
  simp only [] at h
  have e11 : dwSub dwBufferLen 11 = dwBufferLen - 11 := dwSub_eq _ _ (by omega)
  have ed : dwSub dwBufferLen abData.length = dwBufferLen - abData.length :=
    dwSub_eq _ _ (by omega)
  have eb : dwSub (dwBufferLen - abData.length) 1 = dwBufferLen - abData.length - 1 :=
    dwSub_eq _ _ (by omega)
  rw [e11, ed, eb, if_neg (by omega)] at h
  rw [memmove_inbounds _ _ _ (by omega)] at h
  have e0 : dwBufferLen - abData.length + abData.length = dwBufferLen := by omega
  rw [e0] at h
  generalize hT : abBuffer.drop dwBufferLen = T at h ⊢
  obtain ⟨a, b, P', hP⟩ : ∃ a b P', abBuffer.take (dwBufferLen - abData.length) = a :: b :: P' := by
    have hPlen : (abBuffer.take (dwBufferLen - abData.length)).length
        = dwBufferLen - abData.length := by
      rw [List.length_take]; omega
    clear h
    rcases hq : abBuffer.take (dwBufferLen - abData.length) with _ | ⟨a, _ | ⟨b, P'⟩⟩
    · rw [hq] at hPlen; simp only [List.length_nil] at hPlen; omega
    · rw [hq] at hPlen; simp only [List.length_cons, List.length_nil] at hPlen; omega
    · exact ⟨a, b, P', rfl⟩
  have hPlen : (a :: b :: P').length = dwBufferLen - abData.length := by
    rw [← hP, List.length_take]; omega
  rw [hP] at h
  · simp only [List.length_cons] at hPlen
    simp only [List.cons_append, List.set_cons_zero, List.set_cons_succ, RSAENH_PKC_BLOCKTYPE] at h
    split at h
    · simp at h
    · rename_i buf2 rand2 hfill
      have hn : 2 + (dwBufferLen - abData.length - 1 - 2) ≤ (0 :: 2 :: (P' ++ (abData ++ T))).length := by
        simp; omega
      obtain ⟨F, hF, hnz, hbuf2⟩ := pad_fill_spec _ _ _ _ _ _ hn hfill
      simp only [List.take_succ_cons, List.take_zero, List.drop_succ_cons] at hbuf2
      have e2 : (2 + (dwBufferLen - abData.length - 1 - 2)) = (dwBufferLen - abData.length - 3) + 2 := by
        omega
      rw [e2] at hbuf2
      simp only [List.drop_succ_cons] at hbuf2
      rw [List.drop_append_eq_append_drop] at hbuf2
      have e3 : dwBufferLen - abData.length - 3 - P'.length = 0 := by omega
      rw [e3, List.drop_zero] at hbuf2
      have hg : ∃ g, P'.drop (dwBufferLen - abData.length - 3) = [g] := by
        have hl : (P'.drop (dwBufferLen - abData.length - 3)).length = 1 := by
          rw [List.length_drop]; omega
        rcases hq : P'.drop (dwBufferLen - abData.length - 3) with _ | ⟨g, _ | ⟨g2, tl⟩⟩
        · rw [hq] at hl; simp at hl
        · exact ⟨g, rfl⟩
        · rw [hq] at hl; simp at hl
      obtain ⟨g, hg⟩ := hg
      rw [hg] at hbuf2
      have hbuf2' : buf2 = (0 :: 2 :: F) ++ g :: (abData ++ T) := by
        rw [hbuf2]; simp
      have hbound : (if 2 < dwBufferLen - abData.length - 1 then dwBufferLen - abData.length - 1 else 2)
          = dwBufferLen - abData.length - 1 := by
        rw [if_pos (by omega)]
      rw [hbound] at h
      by_cases hfl : dwFlags &&& CRYPT_SSL2_FALLBACK ≠ 0
      · rw [if_pos hfl] at h
        have e8 : dwSub (dwBufferLen - abData.length - 1) 8 = dwBufferLen - abData.length - 1 - 8 :=
          dwSub_eq _ _ (by omega)
        rw [e8, if_pos (by omega)] at h
        have e9 : dwBufferLen - abData.length - 1 - (dwBufferLen - abData.length - 1 - 8) = 8 := by
          omega
        rw [e9, pad_fallback_spec 8 buf2 _ (by rw [hbuf2']; simp; omega)] at h
        have e10 : dwBufferLen - abData.length - 1 - 8 + 8 = (0 :: 2 :: F).length := by
          simp; omega
        have e11' : dwBufferLen - abData.length - 1 - 8 = (F.length - 8) + 2 := by omega
        rw [e10] at h
        nth_rewrite 2 [hbuf2'] at h
        rw [List.drop_left, hbuf2', e11'] at h
        simp only [List.cons_append, List.take_succ_cons] at h
        rw [List.take_append_of_le_length (by omega)] at h
        have hset : ((0 :: 2 :: (F.take (F.length - 8) ++ (List.replicate 8 3 ++ g :: (abData ++ T)))).set
            (dwBufferLen - abData.length - 1) 0)
            = 0 :: 2 :: ((F.take (F.length - 8) ++ List.replicate 8 3) ++ 0 :: (abData ++ T)) := by
          have := set_append_cons (0 :: 2 :: (F.take (F.length - 8) ++ List.replicate 8 3)) g 0
            (abData ++ T) (dwBufferLen - abData.length - 1) (by simp; omega)
          simpa using this
        simp only [List.cons_append, List.append_assoc] at hset h
        rw [hset] at h
        simp only [Option.some.injEq, Prod.mk.injEq] at h
        refine ⟨F.take (F.length - 8) ++ List.replicate 8 3, by simp; omega, ?_, ?_, ?_⟩
        · intro x hx
          rcases List.mem_append.mp hx with hx | hx
          · exact hnz x (List.mem_of_mem_take hx)
          · rw [List.eq_of_mem_replicate hx]; decide
        · intro _ x hx
          have : (F.take (F.length - 8) ++ List.replicate 8 3).drop
              ((F.take (F.length - 8) ++ List.replicate 8 3).length - 8) = List.replicate 8 3 := by
            have hl : (F.take (F.length - 8) ++ List.replicate 8 3).length - 8
                = (F.take (F.length - 8)).length := by simp
            rw [hl, List.drop_left]
          rw [this] at hx
          exact List.eq_of_mem_replicate hx
        · rw [← h.1]; simp
      · rw [if_neg hfl] at h
        rw [hbuf2', set_append_cons (0 :: 2 :: F) g 0 (abData ++ T) _ (by simp; omega)] at h
        simp only [Option.some.injEq, Prod.mk.injEq] at h
        exact ⟨F, hF, hnz, fun hc => absurd hc hfl, by rw [← h.1]; simp⟩


theorem getD_append_cons (pre : List Nat) (x : Nat) (rest : List Nat) :
    (pre ++ x :: rest).getD pre.length 0 = x := by
  induction pre with
  | nil => rfl
  | cons a pre ih => simpa using ih

theorem unpad_scan_spec : ∀ (F pre rest : List Nat) (fuel len : Nat),
    (∀ b ∈ F, b ≠ 0) → F.length < fuel → pre.length + F.length < len →
    unpad_scan (pre ++ (F ++ 0 :: rest)) len fuel pre.length = pre.length + F.length
  | [], pre, rest, fuel + 1, len, _, _, hlen => by
    simp only [List.length_nil, Nat.add_zero] at hlen
    unfold unpad_scan
    rw [if_pos hlen, List.nil_append, getD_append_cons, if_pos rfl]
    rfl
  | b :: F, pre, rest, fuel + 1, len, hnz, hfuel, hlen => by
    simp only [List.length_cons] at hlen hfuel
    have hb : b ≠ 0 := hnz b (List.mem_cons_self _ _)
    have ih := unpad_scan_spec F (pre ++ [b]) rest fuel len
      (fun x hx => hnz x (List.mem_cons_of_mem _ hx)) (by omega) (by simp; omega)
    simp only [List.append_assoc, List.singleton_append, List.length_append, List.length_singleton]
      at ih
    unfold unpad_scan
    rw [if_pos (by omega)]
    have hget : (pre ++ (b :: F ++ 0 :: rest)).getD pre.length 0 = b :=
      getD_append_cons pre b (F ++ 0 :: rest)
    rw [hget, if_neg hb]
    simp only [List.cons_append]
    rw [ih, List.length_cons]
    omega

/-- unpad_data on a buffer of the layout that pad_data produces. -/
theorem unpad_data_layout (F abData T out : List Nat) (len cap dwFlags : Nat)
    (hnz : ∀ b ∈ F, b ≠ 0) (hlen : len = 3 + F.length + abData.length)
    (hcap : abData.length ≤ cap) (hout : cap ≤ out.length) :
    unpad_data (0 :: 2 :: (F ++ 0 :: (abData ++ T))) len out cap dwFlags
      = .ok (abData ++ out.drop abData.length, abData.length) := by
  have hscan : unpad_scan (0 :: 2 :: (F ++ 0 :: (abData ++ T))) len len 2 = 2 + F.length := by
    have := unpad_scan_spec F [0, 2] (abData ++ T) len len hnz (by omega) (by simp; omega)
    simpa using this
  unfold unpad_data
  simp only [hscan]
  have e1 : dwSub len (2 + F.length) = len - (2 + F.length) := dwSub_eq _ _ (by omega)
  have e2 : dwSub (len - (2 + F.length)) 1 = abData.length := by
    rw [dwSub_eq _ _ (by omega)]; omega
  rw [e1, e2]
  have hc : ¬ (2 + F.length = len ∨ cap < abData.length ∨
      (0 :: 2 :: (F ++ 0 :: (abData ++ T))).getD 0 0 ≠ 0 ∨
      (0 :: 2 :: (F ++ 0 :: (abData ++ T))).getD 1 0 ≠ RSAENH_PKC_BLOCKTYPE) := by
    simp [RSAENH_PKC_BLOCKTYPE]; omega
  rw [if_neg hc]
  have hb : bytesAt (0 :: 2 :: (F ++ 0 :: (abData ++ T))) (2 + F.length + 1) abData.length
      = abData := by
    unfold bytesAt
    have : (0 :: 2 :: (F ++ 0 :: (abData ++ T))) = (0 :: 2 :: (F ++ [0])) ++ (abData ++ T) := by
      simp
    rw [this, List.drop_left' (by simp; omega)]
    simp
  rw [hb, memmove_inbounds _ _ _ (by simp; omega)]
  simp

theorem draw_nonzero_some : ∀ (rand : List Nat),
    0 < (rand.filter (fun b => b % 256 != 0)).length →
    ∃ b rest, draw_nonzero rand = some (b, rest) ∧
      (rest.filter (fun b => b % 256 != 0)).length + 1
        = (rand.filter (fun b => b % 256 != 0)).length
  | [], h => by simp at h
  | x :: xs, h => by
    unfold draw_nonzero
    by_cases hx : x % 256 = 0
    · rw [if_pos hx]
      have hf : (x :: xs).filter (fun b => b % 256 != 0) = xs.filter (fun b => b % 256 != 0) := by
        simp [List.filter_cons, hx]
      rw [hf] at h ⊢
      exact draw_nonzero_some xs h
    · rw [if_neg hx]
      refine ⟨x % 256, xs, rfl, ?_⟩
      simp [List.filter_cons, hx]

theorem pad_fill_terminates : ∀ (n : Nat) (rand buf : List Nat) (i : Nat),
    n ≤ (rand.filter (fun b => b % 256 != 0)).length →
    ∃ r, pad_fill n rand buf i = some r
  | 0, rand, buf, i, _ => ⟨_, rfl⟩
  | n + 1, rand, buf, i, h => by
    obtain ⟨b, rest, hd, hc⟩ := draw_nonzero_some rand (by omega)
    unfold pad_fill
    rw [hd]
    exact pad_fill_terminates n rest (buf.set i b) (i + 1) (by omega)

/-- C1. PKCS#1 pad/unpad round trip: whenever `dataLen + 11 ≤ bufferLen`, for every random source,
every flag word and every initial buffer content, (1) if pad_data returns, it
returns TRUE and unpad_data on the `bufferLen` padded bytes, with a destination
capacity `cap ≥ dataLen`, succeeds, reports the length `dataLen` and writes
exactly `abData`; (2) pad_data does return as soon as the random source holds
`bufferLen - dataLen - 3` non-zero bytes. -/
theorem pad_unpad_round_trip (rand abData abBuffer out : List Nat)
    (dwBufferLen dwFlags cap dwFlags' : Nat)
    (hlen : abData.length + 11 ≤ dwBufferLen)
    (hbuf : dwBufferLen ≤ abBuffer.length) (hcap : abData.length ≤ cap)
    (hout : cap ≤ out.length) :
    (∀ r rand', pad_data rand abData abBuffer dwBufferLen dwFlags = some (r, rand') →
      ∃ padded out', r = .ok padded ∧
        unpad_data padded dwBufferLen out cap dwFlags' = .ok (out', abData.length) ∧
        out'.take abData.length = abData) ∧
    (dwBufferLen - abData.length - 3 ≤ (rand.filter (fun b => b % 256 != 0)).length →
      ∃ r, pad_data rand abData abBuffer dwBufferLen dwFlags = some r) := by
  constructor
  · intro r rand' h
    obtain ⟨F, hF, hnz, _, hr⟩ := pad_data_layout _ _ _ _ _ _ _ hlen hbuf h
    refine ⟨_, _, hr, unpad_data_layout F abData _ out dwBufferLen cap dwFlags'
      (fun b hb => (hnz b hb).1) (by omega) hcap hout, ?_⟩
    simp
  · intro hr
    unfold pad_data
    simp only []
    have e11 : dwSub dwBufferLen 11 = dwBufferLen - 11 := dwSub_eq _ _ (by omega)
    have ed : dwSub dwBufferLen abData.length = dwBufferLen - abData.length :=
      dwSub_eq _ _ (by omega)
    have eb : dwSub (dwBufferLen - abData.length) 1 = dwBufferLen - abData.length - 1 :=
      dwSub_eq _ _ (by omega)
    rw [e11, ed, eb, if_neg (by omega)]
    obtain ⟨⟨b2, r2⟩, hfill⟩ := pad_fill_terminates (dwBufferLen - abData.length - 1 - 2) rand
      (((memmove abBuffer (dwBufferLen - abData.length) abData).set 0 0).set 1
        RSAENH_PKC_BLOCKTYPE) 2 (by omega)
    rw [hfill]
    simp only []
    split <;> exact ⟨_, rfl⟩

/-- Witness for C1: 2 data bytes padded into a 13-byte buffer. -/
theorem pad_unpad_round_trip_witness :
    ([0xaa, 0] : List Nat).length + 11 ≤ 13 ∧
    (∀ r rand', pad_data [0, 7, 0, 0, 9, 1, 2, 3, 4, 5, 6, 99] [0xaa, 0]
        (List.replicate 13 0xee) 13 CRYPT_SSL2_FALLBACK = some (r, rand') →
      ∃ padded out', r = .ok padded ∧
        unpad_data padded 13 [1, 1, 1] 3 0 = .ok (out', ([0xaa, 0] : List Nat).length) ∧
        out'.take ([0xaa, 0] : List Nat).length = [0xaa, 0]) ∧
    (13 - ([0xaa, 0] : List Nat).length - 3
        ≤ (([0, 7, 0, 0, 9, 1, 2, 3, 4, 5, 6, 99] : List Nat).filter
            (fun b => b % 256 != 0)).length →
      ∃ r, pad_data [0, 7, 0, 0, 9, 1, 2, 3, 4, 5, 6, 99] [0xaa, 0]
        (List.replicate 13 0xee) 13 CRYPT_SSL2_FALLBACK = some r) :=
  ⟨by decide, pad_unpad_round_trip [0, 7, 0, 0, 9, 1, 2, 3, 4, 5, 6, 99] [0xaa, 0]
    (List.replicate 13 0xee) [1, 1, 1] 13 CRYPT_SSL2_FALLBACK 3 0
    (by decide) (by decide) (by decide) (by decide)⟩

/-! ### The handle table -/

theorem getD_set_same {α : Type} (l : List α) (i : Nat) (a d : α) (h : i < l.length) :
    (l.set i a).getD i d = a := by
  simp [List.getD_eq_getElem?_getD, List.getElem?_set, h]

theorem getD_set_other {α : Type} (l : List α) (i j : Nat) (a d : α) (h : i ≠ j) :
    (l.set i a).getD j d = l.getD j d := by
  simp [List.getD_eq_getElem?_getD, List.getElem?_set, h]

theorem getD_some_lt {α : Type} (l : List (Option α)) (i : Nat) (a : α)
    (h : l.getD i none = some a) : i < l.length := by
  by_contra hc
  rw [List.getD_eq_default _ _ (by omega)] at h
  exact Option.noConfusion h

theorem lookup_object_some {κ η : Type} (t : HANDLETABLE κ η) (h : Nat) (o : OBJECT κ η)
    (hl : lookup_object t h = some o) :
    h ≠ 0 ∧ ∃ rc, t.entries.getD (h - 1) none = some (rc, o) := by
  unfold lookup_object at hl
  by_cases h0 : h = 0
  · rw [if_pos h0] at hl; exact Option.noConfusion hl
  · rw [if_neg h0] at hl
    refine ⟨h0, ?_⟩
    rcases he : t.entries.getD (h - 1) none with _ | ⟨rc, o'⟩
    · rw [he] at hl; exact Option.noConfusion hl
    · rw [he] at hl
      simp only [Option.some.injEq] at hl
      exact ⟨rc, by rw [hl]⟩

theorem lookup_object_store_same {κ η : Type} (t : HANDLETABLE κ η) (h : Nat)
    (o o' : OBJECT κ η) (hl : lookup_object t h = some o) :
    lookup_object (store_object t h o') h = some o' := by
  obtain ⟨h0, rc, he⟩ := lookup_object_some t h o hl
  have hlt := getD_some_lt _ _ _ he
  unfold store_object lookup_object
  rw [if_neg h0, if_neg h0, he]
  simp only []
  rw [getD_set_same _ _ _ _ hlt]

theorem lookup_object_store_other {κ η : Type} (t : HANDLETABLE κ η) (h h' : Nat)
    (o' : OBJECT κ η) (hne : h ≠ h') :
    lookup_object (store_object t h o') h' = lookup_object t h' := by
  unfold store_object
  by_cases h0 : h = 0
  · rw [if_pos h0]
  · rw [if_neg h0]
    rcases he : t.entries.getD (h - 1) none with _ | ⟨rc, o⟩
    · rfl
    · simp only []
      unfold lookup_object
      by_cases h0' : h' = 0
      · rw [if_pos h0', if_pos h0']
      · rw [if_neg h0', if_neg h0', getD_set_other _ _ _ _ _ (by omega)]

theorem lookup_key_of_object {κ η : Type} (t : HANDLETABLE κ η) (h : Nat) (k : CRYPTKEY κ) :
    lookup_key t h = some k ↔ lookup_object t h = some (.key k) := by
  unfold lookup_key
  rcases lookup_object t h with _ | o
  · simp
  · cases o <;> simp

theorem lookup_hash_of_object {κ η : Type} (t : HANDLETABLE κ η) (h : Nat) (x : CRYPTHASH η) :
    lookup_hash t h = some x ↔ lookup_object t h = some (.hash x) := by
  unfold lookup_hash
  rcases lookup_object t h with _ | o
  · simp
  · cases o <;> simp

theorem lookup_container_of_object {κ η : Type} (t : HANDLETABLE κ η) (h : Nat)
    (c : KEYCONTAINER) :
    lookup_container t h = some c ↔ lookup_object t h = some (.container c) := by
  unfold lookup_container
  rcases lookup_object t h with _ | o
  · simp
  · cases o <;> simp

theorem lookup_key_store_same {κ η : Type} (t : HANDLETABLE κ η) (h : Nat)
    (k k' : CRYPTKEY κ) (hl : lookup_key t h = some k) :
    lookup_key (store_object t h (.key k')) h = some k' := by
  rw [lookup_key_of_object] at hl ⊢
  exact lookup_object_store_same t h _ _ hl

/-- Replacing an object by one of the same kind changes the validity of no handle. -/
theorem is_valid_handle_store {κ η : Type} (t : HANDLETABLE κ η) (h h' : Nat)
    (o o' : OBJECT κ η) (tag : OBJECT κ η → Bool) (hl : lookup_object t h = some o)
    (htag : tag o' = tag o) :
    is_valid_handle (store_object t h o') h' tag = is_valid_handle t h' tag := by
  unfold is_valid_handle
  by_cases hh : h = h'
  · subst hh
    rw [lookup_object_store_same t h o o' hl, hl]
    exact htag
  · rw [lookup_object_store_other t h h' o' hh]

theorem store_object_same {κ η : Type} (t : HANDLETABLE κ η) (h : Nat) (o : OBJECT κ η)
    (hl : lookup_object t h = some o) : store_object t h o = t := by
  obtain ⟨h0, rc, he⟩ := lookup_object_some t h o hl
  unfold store_object
  rw [if_neg h0, he]
  simp only []
  have hlt := getD_some_lt _ _ _ he
  have : t.entries.set (h - 1) (some (rc, o)) = t.entries := by
    apply List.ext_getElem?
    intro i
    by_cases hi : h - 1 = i
    · subst hi
      rw [List.getD_eq_getElem?_getD] at he
      rcases hq : t.entries[h - 1]? with _ | v
      · rw [List.getElem?_eq_none_iff] at hq; omega
      · rw [hq] at he
        simp only [Option.getD_some] at he
        simp [List.getElem?_set, hlt, hq, he]
    · rw [List.getElem?_set_ne hi]
  rw [this]

/-! ### The entry of CPEncrypt and CPDecrypt -/

theorem transform_enter_ok {κ η : Type} (s : CSP κ η) (hProv hKey newState : Nat)
    (k : CRYPTKEY κ) (hprov : is_valid_handle s.handle_table hProv is_container = true)
    (hkey : lookup_key s.handle_table hKey = some k)
    (hst : k.dwState = RSAENH_KEYSTATE_IDLE ∨ k.dwState = newState) :
    transform_enter s hProv hKey 0 newState
      = .ok (s.withTable (store_object s.handle_table hKey
          (.key { k with dwState := newState }))) := by
  unfold transform_enter
  rw [hprov, hkey]
  simp only [Bool.not_eq_true, ne_eq, not_true_eq_false, if_false, Bool.true_eq_false]
  rcases hst with hst | hst
  · simp [hst]
  · by_cases hi : k.dwState = RSAENH_KEYSTATE_IDLE
    · simp [hi]
    · have : ({ k with dwState := newState } : CRYPTKEY κ) = k := by
        cases k; simp only [CRYPTKEY.mk.injEq, true_and, and_true] at *; exact hst.symm
      simp [hi, hst, this]

theorem transform_enter_conflict {κ η : Type} (s : CSP κ η) (hProv hKey newState : Nat)
    (k : CRYPTKEY κ) (hprov : is_valid_handle s.handle_table hProv is_container = true)
    (hkey : lookup_key s.handle_table hKey = some k)
    (h1 : k.dwState ≠ RSAENH_KEYSTATE_IDLE) (h2 : k.dwState ≠ newState) :
    transform_enter s hProv hKey 0 newState = .error (SetLastError s WINERROR.NTE_BAD_DATA) := by
  unfold transform_enter
  rw [hprov, hkey]
  simp only [Bool.not_eq_true, ne_eq, not_true_eq_false, if_false, Bool.true_eq_false, h1, h2,
    not_false_eq_true, if_true]
  rw [store_object_same _ _ _ ((lookup_key_of_object _ _ _).mp hkey)]
  rfl

/-- C10 (counterexample). A DES key in state Encrypting (handle 2): CPDecrypt fails, but the last
error is NTE_BAD_DATA, not NTE_BAD_KEY_STATE; likewise CPEncrypt on a key in
state Decrypting. -/
theorem key_direction_conflict_counterexample :
    (RSAENH_CPDecrypt toyImpl
        (toyState 0 [.key (toyDesKey RSAENH_KEYSTATE_ENCRYPTING CRYPT_MODE_CBC
          (List.replicate 24 0))])
        1 2 0 true 0 (List.replicate 8 0) 8).map (fun r => (r.1, r.2.1.last_error))
      = some (false, WINERROR.NTE_BAD_DATA) ∧
    (RSAENH_CPEncrypt toyImpl
        (toyState 0 [.key (toyDesKey RSAENH_KEYSTATE_DECRYPTING CRYPT_MODE_CBC
          (List.replicate 24 0))])
        1 2 0 true 0 (List.replicate 16 0) 8 16).map (fun r => (r.1, r.2.1.last_error))
      = some (false, WINERROR.NTE_BAD_DATA) ∧
    WINERROR.NTE_BAD_DATA ≠ WINERROR.NTE_BAD_KEY_STATE := by
  decide

/-- C10 (amended). Key direction conflict: with a valid provider handle and no flags, a CPDecrypt
call on a key object in state Encrypting, and a CPEncrypt call on a key object
in state Decrypting, returns FALSE with last error NTE_BAD_DATA; the data
buffer, the length and the handle table (so the key's state too) are as before. -/
theorem key_direction_conflict {κ η : Type} (impl : IMPL κ η) (s : CSP κ η)
    (hProv hKey hHash : Nat) (Final : Bool) (pbData : List Nat) (dwDataLen dwBufLen : Nat)
    (k : CRYPTKEY κ) (hprov : is_valid_handle s.handle_table hProv is_container = true)
    (hkey : lookup_key s.handle_table hKey = some k) :
    (k.dwState = RSAENH_KEYSTATE_ENCRYPTING →
      RSAENH_CPDecrypt impl s hProv hKey hHash Final 0 pbData dwDataLen
        = some (false, SetLastError s WINERROR.NTE_BAD_DATA, pbData, dwDataLen)) ∧
    (k.dwState = RSAENH_KEYSTATE_DECRYPTING →
      RSAENH_CPEncrypt impl s hProv hKey hHash Final 0 pbData dwDataLen dwBufLen
        = some (false, SetLastError s WINERROR.NTE_BAD_DATA, pbData, dwDataLen)) := by
  constructor
  · intro hst
    unfold RSAENH_CPDecrypt
    rw [transform_enter_conflict s hProv hKey _ k hprov hkey (by rw [hst]; decide)
      (by rw [hst]; decide)]
  · intro hst
    unfold RSAENH_CPEncrypt
    rw [transform_enter_conflict s hProv hKey _ k hprov hkey (by rw [hst]; decide)
      (by rw [hst]; decide)]

/-- Witness for C10: the amended theorem at a DES key in state Encrypting. -/
theorem key_direction_conflict_witness :
    RSAENH_CPDecrypt toyImpl
        (toyState 0 [.key (toyDesKey RSAENH_KEYSTATE_ENCRYPTING CRYPT_MODE_CBC
          (List.replicate 24 0))])
        1 2 0 true 0 (List.replicate 8 0) 8
      = some (false,
          SetLastError (toyState 0 [.key (toyDesKey RSAENH_KEYSTATE_ENCRYPTING CRYPT_MODE_CBC
            (List.replicate 24 0))]) WINERROR.NTE_BAD_DATA,
          List.replicate 8 0, 8) :=
  (key_direction_conflict toyImpl
    (toyState 0 [.key (toyDesKey RSAENH_KEYSTATE_ENCRYPTING CRYPT_MODE_CBC
      (List.replicate 24 0))])
    1 2 0 true (List.replicate 8 0) 8 0
    (toyDesKey RSAENH_KEYSTATE_ENCRYPTING CRYPT_MODE_CBC (List.replicate 24 0))
    (by decide) (by decide)).1 (by decide)

/-! ### Buffers -/

theorem bytesAt_zero (l : List Nat) (n : Nat) : bytesAt l 0 n = l.take n := by
  unfold bytesAt; rw [List.drop_zero]

theorem bytesAt_length (l : List Nat) (off n : Nat) (h : off + n ≤ l.length) :
    (bytesAt l off n).length = n := by
  unfold bytesAt
  rw [List.length_take, List.length_drop]; omega

theorem bytesAt_append_mid (pre blk rest : List Nat) (i n : Nat) (hi : i = pre.length)
    (hn : n = blk.length) : bytesAt (pre ++ (blk ++ rest)) i n = blk := by
  subst hi hn
  unfold bytesAt
  rw [List.drop_left, List.take_left]

theorem memmove_mid (pre blk rest c : List Nat) (i : Nat) (hi : i = pre.length)
    (hc : c.length = blk.length) :
    memmove (pre ++ (blk ++ rest)) i c = pre ++ (c ++ rest) := by
  subst hi
  rw [memmove_inbounds _ _ _ (by simp; omega), List.take_left, hc]
  have : (pre ++ (blk ++ rest)).drop (pre.length + blk.length) = rest := by
    rw [← List.length_append, ← List.append_assoc, List.drop_left]
  rw [this]

theorem memmove_zero (out c : List Nat) (h : c.length ≤ out.length) :
    memmove out 0 c = c ++ out.drop c.length := by
  rw [memmove_inbounds _ _ _ (by omega)]
  simp

theorem isBytes_nil : isBytes [] := by
  intro b hb; cases hb

theorem isBytes_append {a b : List Nat} (ha : isBytes a) (hb : isBytes b) : isBytes (a ++ b) := by
  intro x hx
  rcases List.mem_append.mp hx with h | h
  · exact ha x h
  · exact hb x h

theorem isBytes_append_left {a b : List Nat} (h : isBytes (a ++ b)) : isBytes a :=
  fun x hx => h x (List.mem_append_left _ hx)

theorem isBytes_append_right {a b : List Nat} (h : isBytes (a ++ b)) : isBytes b :=
  fun x hx => h x (List.mem_append_right _ hx)

theorem isBytes_take {a : List Nat} (n : Nat) (ha : isBytes a) : isBytes (a.take n) :=
  fun x hx => ha x (List.mem_of_mem_take hx)

theorem isBytes_drop {a : List Nat} (n : Nat) (ha : isBytes a) : isBytes (a.drop n) :=
  fun x hx => ha x (List.mem_of_mem_drop hx)

theorem isBytes_replicate (n v : Nat) (hv : v < 256) : isBytes (List.replicate n v) := by
  intro x hx
  rw [List.eq_of_mem_replicate hx]; exact hv

theorem isBytes_cons {a : Nat} {l : List Nat} (ha : a < 256) (hl : isBytes l) :
    isBytes (a :: l) := by
  intro x hx
  rcases List.mem_cons.mp hx with h | h
  · rw [h]; exact ha
  · exact hl x h

theorem isBytes_bytesAt {a : List Nat} (off n : Nat) (ha : isBytes a) :
    isBytes (bytesAt a off n) :=
  isBytes_take n (isBytes_drop off ha)

theorem isBytes_memmove {dst src : List Nat} (off : Nat) (hd : isBytes dst) (hs : isBytes src) :
    isBytes (memmove dst off src) := by
  unfold memmove
  exact isBytes_append (isBytes_take _ hd)
    (isBytes_take _ (isBytes_append hs (isBytes_drop _ hd)))

theorem isBytes_getD {a : List Nat} (i : Nat) (ha : isBytes a) : a.getD i 0 < 256 := by
  rw [List.getD_eq_getElem?_getD]
  rcases h : a[i]? with _ | v
  · simp
  · simp only [Option.getD_some]
    exact ha v (List.getElem?_mem h)

theorem xor_byte_lt {a b : Nat} (ha : a < 256) (hb : b < 256) : a ^^^ b < 256 :=
  Nat.xor_lt_two_pow (n := 8) ha hb

theorem xor_bytes_length : ∀ (n : Nat) (dst src : List Nat),
    (xor_bytes n dst src).length = dst.length
  | 0, _, _ => rfl
  | _ + 1, [], _ => rfl
  | n + 1, d :: dst, src => by
    simp only [xor_bytes, List.length_cons, xor_bytes_length n dst src.tail]

theorem xor_bytes_cancel : ∀ (n : Nat) (dst src : List Nat),
    xor_bytes n (xor_bytes n dst src) src = dst
  | 0, _, _ => rfl
  | _ + 1, [], _ => rfl
  | n + 1, d :: dst, src => by
    simp only [xor_bytes, Nat.xor_cancel_right, xor_bytes_cancel n dst src.tail]

theorem isBytes_tail {a : List Nat} (ha : isBytes a) : isBytes a.tail :=
  fun x hx => ha x (List.mem_of_mem_tail hx)

theorem isBytes_headD {a : List Nat} (ha : isBytes a) : a.headD 0 < 256 := by
  cases a with
  | nil => simp
  | cons x l => exact ha x (List.mem_cons_self _ _)

theorem isBytes_xor_bytes : ∀ (n : Nat) (dst src : List Nat), isBytes dst → isBytes src →
    isBytes (xor_bytes n dst src)
  | 0, _, _, hd, _ => hd
  | _ + 1, [], _, _, _ => isBytes_nil
  | n + 1, d :: dst, src, hd, hs => by
    simp only [xor_bytes]
    exact isBytes_cons (xor_byte_lt (hd d (List.mem_cons_self _ _)) (isBytes_headD hs))
      (isBytes_xor_bytes n dst src.tail (fun x hx => hd x (List.mem_cons_of_mem _ hx))
        (isBytes_tail hs))

theorem xor_bytes_append : ∀ (n : Nat) (a rest src : List Nat), a.length = n →
    xor_bytes n (a ++ rest) src = xor_bytes n a src ++ rest
  | 0, a, rest, src, h => by
    have : a = [] := List.length_eq_zero.mp h
    subst this; rfl
  | n + 1, [], _, _, h => by simp at h
  | n + 1, d :: a, rest, src, h => by
    simp only [List.length_cons] at h
    show (d ^^^ src.headD 0) :: xor_bytes n (a ++ rest) src.tail
      = (d ^^^ src.headD 0) :: (xor_bytes n a src.tail ++ rest)
    rw [xor_bytes_append n a rest src.tail (by omega)]

theorem fill_loop_spec (v : Nat) : ∀ (n : Nat) (buf : List Nat) (i : Nat),
    i + n ≤ buf.length →
    fill_loop v n buf i = buf.take i ++ (List.replicate n v ++ buf.drop (i + n))
  | 0, buf, i, _ => by simp [fill_loop]
  | n + 1, buf, i, hlen => by
    unfold fill_loop
    have hlen' : i + 1 + n ≤ (buf.set i v).length := by simp; omega
    rw [fill_loop_spec v n (buf.set i v) (i + 1) hlen', set_eq_take_cons_drop' buf i v (by omega)]
    have hi : (buf.take i).length = i := by simp; omega
    have h1 : (buf.take i ++ v :: buf.drop (i + 1)).take (i + 1) = buf.take i ++ [v] := by
      rw [List.take_append_eq_append_take, hi]
      simp
    have h2 : (buf.take i ++ v :: buf.drop (i + 1)).drop (i + 1 + n) = buf.drop (i + (n + 1)) := by
      rw [List.drop_append_eq_append_drop, hi]
      have e1 : i + 1 + n - i = (n + 1) := by omega
      rw [e1, List.drop_succ_cons, List.drop_drop]
      have e2 : (buf.take i).drop (i + 1 + n) = [] := by
        apply List.drop_of_length_le; omega
      rw [e2]
      simp
      congr 1; omega
    rw [h1, h2]
    simp [List.replicate_succ]

theorem call_encrypt_block_some {κ η : Type} (impl : IMPL κ η) (alg : Nat) (ctx : κ)
    (inp out c : List Nat) (enc : Nat) (h : impl.encrypt_block_impl alg ctx inp enc = some c)
    (hc : c.length ≤ out.length) :
    call_encrypt_block impl alg ctx inp out enc = c ++ out.drop c.length := by
  unfold call_encrypt_block
  rw [h]
  exact memmove_zero out c hc

/-! ### CFB mode -/

theorem cfb_shift_length (chain : List Nat) (bl x : Nat) :
    (cfb_shift chain bl x).length = chain.length := memmove_length _ _ _

theorem isBytes_cfb_shift {chain : List Nat} (bl : Nat) {x : Nat} (hc : isBytes chain)
    (hx : x < 256) : isBytes (cfb_shift chain bl x) :=
  isBytes_memmove 0 hc (isBytes_append (isBytes_bytesAt 1 _ hc) (isBytes_cons hx isBytes_nil))

theorem cfb_loop_out_length {κ η : Type} (impl : IMPL κ η) (alg : Nat) (ctx : κ) (bl : Nat)
    (dec : Bool) (inp : List Nat) : ∀ (n j : Nat) (chain out o : List Nat),
    (cfb_loop impl alg ctx bl dec inp n j chain out o).2.1.length = out.length
  | 0, _, _, _, _ => rfl
  | n + 1, j, chain, out, o => by
    simp only [cfb_loop]
    rw [cfb_loop_out_length impl alg ctx bl dec inp n (j + 1)]
    simp

theorem cfb_loop_out_frame {κ η : Type} (impl : IMPL κ η) (alg : Nat) (ctx : κ) (bl : Nat)
    (dec : Bool) (inp : List Nat) : ∀ (n j : Nat) (chain out o : List Nat) (j' : Nat), j' < j →
    (cfb_loop impl alg ctx bl dec inp n j chain out o).2.1.getD j' 0 = out.getD j' 0
  | 0, _, _, _, _, _, _ => rfl
  | n + 1, j, chain, out, o, j', hj => by
    simp only [cfb_loop]
    rw [cfb_loop_out_frame impl alg ctx bl dec inp n (j + 1) _ _ _ j' (by omega)]
    exact getD_set_other _ _ _ _ _ (by omega)

theorem getD_zero_append (c rest : List Nat) (h : 0 < c.length) :
    (c ++ rest).getD 0 0 = c.getD 0 0 := by
  cases c with
  | nil => simp at h
  | cons a l => rfl

/-- One block in CFB mode: the decrypting loop, fed with the bytes the encrypting loop produced
from the same chaining vector, gives back the input bytes and ends with the
same chaining vector. -/
theorem cfb_loop_round_trip {κ η : Type} (impl : IMPL κ η) (alg : Nat) (ctx : κ) (bl : Nat)
    (inp inpD : List Nat) (hprim : BlockInverse impl alg ctx bl) (hbl : 0 < bl)
    (hinp : isBytes inp) :
    ∀ (n j : Nat) (chain outE oE outD oD : List Nat),
    j + n ≤ bl → bl ≤ outE.length → bl ≤ outD.length → bl ≤ oE.length → bl ≤ oD.length →
    bl ≤ chain.length → isBytes chain →
    (∀ j', j ≤ j' → j' < j + n →
      inpD.getD j' 0 = (cfb_loop impl alg ctx bl false inp n j chain outE oE).2.1.getD j' 0) →
    (cfb_loop impl alg ctx bl true inpD n j chain outD oD).1
        = (cfb_loop impl alg ctx bl false inp n j chain outE oE).1 ∧
      (∀ j', j ≤ j' → j' < j + n →
        (cfb_loop impl alg ctx bl true inpD n j chain outD oD).2.1.getD j' 0 = inp.getD j' 0) ∧
      isBytes (cfb_loop impl alg ctx bl false inp n j chain outE oE).1 ∧
      (cfb_loop impl alg ctx bl false inp n j chain outE oE).1.length = chain.length
  | 0, j, chain, outE, oE, outD, oD, _, _, _, _, _, _, hcb, _ => by
    refine ⟨rfl, ?_, hcb, rfl⟩
    intro j' h1 h2; omega
  | n + 1, j, chain, outE, oE, outD, oD, hj, hoE, hoD, hooE, hooD, hcl, hcb, hD => by
    obtain ⟨c, hE, hclen, hcbytes, _⟩ := hprim (bytesAt chain 0 bl)
      (bytesAt_length _ _ _ (by omega)) (isBytes_bytesAt _ _ hcb)
    have ho1E : call_encrypt_block impl alg ctx (bytesAt chain 0 bl) oE RSAENH_ENCRYPT
        = c ++ oE.drop c.length := call_encrypt_block_some _ _ _ _ _ _ _ hE (by omega)
    have ho1D : call_encrypt_block impl alg ctx (bytesAt chain 0 bl) oD RSAENH_ENCRYPT
        = c ++ oD.drop c.length := call_encrypt_block_some _ _ _ _ _ _ _ hE (by omega)
    have hks : c.getD 0 0 < 256 := isBytes_getD 0 hcbytes
    have hxE : inp.getD j 0 ^^^ c.getD 0 0 < 256 := xor_byte_lt (isBytes_getD j hinp) hks
    simp only [cfb_loop] at hD ⊢
    rw [ho1E] at hD ⊢
    rw [ho1D]
    rw [getD_zero_append _ _ (by omega)] at hD ⊢
    rw [getD_zero_append _ _ (by omega)]
    simp only [Bool.false_eq_true, if_false, if_true] at hD ⊢
    have hDj : inpD.getD j 0 = inp.getD j 0 ^^^ c.getD 0 0 := by
      rw [hD j (by omega) (by omega), cfb_loop_out_frame _ _ _ _ _ _ _ _ _ _ _ j (by omega)]
      exact getD_set_same _ _ _ _ (by omega)
    rw [hDj, Nat.xor_cancel_right]
    have ih := cfb_loop_round_trip impl alg ctx bl inp inpD hprim hbl hinp n (j + 1)
      (cfb_shift chain bl (inp.getD j 0 ^^^ c.getD 0 0))
      (outE.set j (inp.getD j 0 ^^^ c.getD 0 0)) (c ++ oE.drop c.length)
      (outD.set j (inp.getD j 0)) (c ++ oD.drop c.length)
      (by omega) (by simp; omega) (by simp; omega) (by simp; omega) (by simp; omega)
      (by rw [cfb_shift_length]; omega) (isBytes_cfb_shift bl hcb hxE)
      (fun j' h1 h2 => hD j' (by omega) (by omega))
    obtain ⟨ih1, ih2, ih3, ih4⟩ := ih
    refine ⟨ih1, ?_, ih3, by rw [ih4, cfb_shift_length]⟩
    intro j' h1 h2
    by_cases hjj : j' = j
    · subst hjj
      rw [cfb_loop_out_frame _ _ _ _ _ _ _ _ _ _ _ j' (by omega)]
      exact getD_set_same _ _ _ _ (by omega)
    · exact ih2 j' (by omega) (by omega)

/-! ### One block: decryption undoes encryption -/

theorem call_encrypt_block_length {κ η : Type} (impl : IMPL κ η) (alg : Nat) (ctx : κ)
    (inp out : List Nat) (enc : Nat) :
    (call_encrypt_block impl alg ctx inp out enc).length = out.length := by
  unfold call_encrypt_block
  rcases impl.encrypt_block_impl alg ctx inp enc with _ | c
  · rfl
  · exact memmove_length _ _ _

theorem cfb_loop_o_length {κ η : Type} (impl : IMPL κ η) (alg : Nat) (ctx : κ) (bl : Nat)
    (dec : Bool) (inp : List Nat) : ∀ (n j : Nat) (chain out o : List Nat),
    (cfb_loop impl alg ctx bl dec inp n j chain out o).2.2.length = o.length
  | 0, _, _, _, _ => rfl
  | n + 1, j, chain, out, o => by
    simp only [cfb_loop]
    rw [cfb_loop_o_length impl alg ctx bl dec inp n (j + 1), call_encrypt_block_length]

theorem list_eq_of_getD (a b : List Nat) (hlen : a.length = b.length)
    (h : ∀ i, i < a.length → a.getD i 0 = b.getD i 0) : a = b := by
  apply List.ext_getElem hlen
  intro i h1 h2
  have := h i h1
  rw [List.getD_eq_getElem _ _ h1, List.getD_eq_getElem _ _ h2] at this
  exact this

theorem getD_take (l : List Nat) (n i : Nat) (h : i < n) : (l.take n).getD i 0 = l.getD i 0 := by
  simp [List.getD_eq_getElem?_getD, List.getElem?_take, h]

theorem take_append_drop_self (c out : List Nat) (n : Nat) (h : c.length = n) :
    bytesAt (c ++ out.drop n) 0 n = c := by
  rw [bytesAt_zero, ← h, List.take_left]

/-- One pass of the block loop: the body of CPDecrypt, run on the block the body of CPEncrypt
produced from a key object in the same cipher state, gives back the input
block and leaves the two key objects in the same cipher state again. -/
theorem block_step_round_trip {κ η : Type} (impl : IMPL κ η) (kE kD : CRYPTKEY κ) (bl : Nat)
    (inp outE oE outD oD : List Nat) (hkey : BlockKey kE bl) (hsame : SameCipher kE kD)
    (hprim : BlockInverse impl kE.aiAlgid kE.context bl) (hbl : 0 < bl)
    (hbl24 : bl ≤ RSAENH_MAX_BLOCK_SIZE) (hinp : inp.length = bl) (hinpb : isBytes inp)
    (hoE : outE.length = RSAENH_MAX_BLOCK_SIZE) (hooE : oE.length = RSAENH_MAX_BLOCK_SIZE)
    (hoD : outD.length = RSAENH_MAX_BLOCK_SIZE) (hooD : oD.length = RSAENH_MAX_BLOCK_SIZE) :
    ∃ kE' outE' oE', encrypt_block_step impl kE inp outE oE = some (kE', outE', oE') ∧
      BlockKey kE' bl ∧ kE'.aiAlgid = kE.aiAlgid ∧ kE'.context = kE.context ∧
      outE'.length = RSAENH_MAX_BLOCK_SIZE ∧ oE'.length = RSAENH_MAX_BLOCK_SIZE ∧
      ∃ kD' outD' oD',
        decrypt_block_step impl kD (bytesAt outE' 0 bl) outD oD = some (kD', outD', oD') ∧
        SameCipher kE' kD' ∧ outD'.length = RSAENH_MAX_BLOCK_SIZE ∧
        oD'.length = RSAENH_MAX_BLOCK_SIZE ∧ bytesAt outD' 0 bl = inp := by
  obtain ⟨hkbl, hmode, hclen, hcb⟩ := hkey
  obtain ⟨hsa, hsc, hsm, hsb, hsv⟩ := hsame
  have hDbl : kD.dwBlockLen = bl := by rw [← hsb, hkbl]
  rcases hmode with hm | hm | hm
  · -- ECB
    have hmD : kD.dwMode = CRYPT_MODE_ECB := by rw [← hsm, hm]
    obtain ⟨c, hE, hcl, hcby, hD⟩ := hprim inp hinp hinpb
    have e1 := call_encrypt_block_some impl kE.aiAlgid kE.context inp outE c RSAENH_ENCRYPT hE
      (by omega)
    have e2 := call_encrypt_block_some impl kD.aiAlgid kD.context c outD inp RSAENH_DECRYPT
      (by rw [← hsa, ← hsc]; exact hD) (by omega)
    refine ⟨kE, c ++ outE.drop c.length, oE, ?_, ⟨hkbl, Or.inl hm, hclen, hcb⟩, rfl, rfl,
      by simp; omega, hooE, kD, inp ++ outD.drop inp.length, oD, ?_,
      ⟨hsa, hsc, hsm, hsb, hsv⟩, by simp; omega, hooD, ?_⟩
    · unfold encrypt_block_step
      rw [if_pos hm, e1]
    · unfold decrypt_block_step
      rw [if_pos hmD, hcl, take_append_drop_self c outE bl hcl, e2]
    · rw [hinp]; exact take_append_drop_self inp outD bl hinp
  · -- CBC
    have hmD : kD.dwMode = CRYPT_MODE_CBC := by rw [← hsm, hm]
    have hne : kE.dwMode ≠ CRYPT_MODE_ECB := by rw [hm]; decide
    have hneD : kD.dwMode ≠ CRYPT_MODE_ECB := by rw [hmD]; decide
    have hxl : (xor_bytes bl inp kE.abChainVector).length = bl := by
      rw [xor_bytes_length, hinp]
    obtain ⟨c, hE, hcl, hcby, hD⟩ := hprim (xor_bytes bl inp kE.abChainVector) hxl
      (isBytes_xor_bytes _ _ _ hinpb hcb)
    have e1 := call_encrypt_block_some impl kE.aiAlgid kE.context _ outE c RSAENH_ENCRYPT hE
      (by omega)
    have e2 := call_encrypt_block_some impl kD.aiAlgid kD.context c outD _ RSAENH_DECRYPT
      (by rw [← hsa, ← hsc]; exact hD) (by omega)
    have hcc : bytesAt c 0 bl = c := by
      rw [bytesAt_zero]; exact List.take_of_length_le (by omega)
    refine ⟨{ kE with abChainVector := memmove kE.abChainVector 0 c },
      c ++ outE.drop c.length, oE, ?_, ⟨hkbl, Or.inr (Or.inl hm), ?_, ?_⟩, rfl, rfl,
      by simp; omega, hooE,
      { kD with abChainVector := memmove kD.abChainVector 0 c },
      inp ++ outD.drop bl, oD, ?_, ⟨hsa, hsc, hsm, hsb, ?_⟩, by simp; omega, hooD, ?_⟩
    · unfold encrypt_block_step
      rw [if_neg hne, if_pos hm]
      simp only [hkbl]
      rw [e1, hcl, take_append_drop_self c outE bl hcl]
    · show (memmove kE.abChainVector 0 c).length = _
      rw [memmove_length]; exact hclen
    · exact isBytes_memmove 0 hcb hcby
    · unfold decrypt_block_step
      rw [if_neg hneD, if_pos hmD]
      simp only [hDbl]
      rw [hcl, take_append_drop_self c outE bl hcl, e2, hcc, hxl,
        xor_bytes_append bl _ _ _ hxl, ← hsv, xor_bytes_cancel]
    · show memmove kE.abChainVector 0 c = memmove kD.abChainVector 0 c
      rw [hsv]
    · exact take_append_drop_self inp outD bl hinp
  · -- CFB
    have hmD : kD.dwMode = CRYPT_MODE_CFB := by rw [← hsm, hm]
    have hne1 : kE.dwMode ≠ CRYPT_MODE_ECB := by rw [hm]; decide
    have hne2 : kE.dwMode ≠ CRYPT_MODE_CBC := by rw [hm]; decide
    have hneD1 : kD.dwMode ≠ CRYPT_MODE_ECB := by rw [hmD]; decide
    have hneD2 : kD.dwMode ≠ CRYPT_MODE_CBC := by rw [hmD]; decide
    obtain ⟨rE, hrE⟩ : ∃ r, cfb_loop impl kE.aiAlgid kE.context bl false inp bl 0
        kE.abChainVector outE oE = r := ⟨_, rfl⟩
    obtain ⟨rD, hrD⟩ : ∃ r, cfb_loop impl kE.aiAlgid kE.context bl true (bytesAt rE.2.1 0 bl)
        bl 0 kE.abChainVector outD oD = r := ⟨_, rfl⟩
    have hrt := cfb_loop_round_trip impl kE.aiAlgid kE.context bl inp
      (bytesAt rE.2.1 0 bl) hprim hbl hinpb bl 0 kE.abChainVector outE oE outD oD
      (by omega) (by omega) (by omega) (by omega) (by omega) (by omega) hcb
      (fun j' _ h2 => by rw [hrE, bytesAt_zero]; exact getD_take _ _ _ (by omega))
    rw [hrE, hrD] at hrt
    obtain ⟨h1, h2, h3, h4⟩ := hrt
    have hlE : rE.2.1.length = RSAENH_MAX_BLOCK_SIZE := by
      rw [← hrE, cfb_loop_out_length]; exact hoE
    have hlD : rD.2.1.length = RSAENH_MAX_BLOCK_SIZE := by
      rw [← hrD, cfb_loop_out_length]; exact hoD
    refine ⟨{ kE with abChainVector := rE.1 }, rE.2.1, rE.2.2, ?_,
      ⟨hkbl, Or.inr (Or.inr hm), by rw [← hclen]; exact h4, h3⟩, rfl, rfl, hlE,
      by rw [← hrE, cfb_loop_o_length]; exact hooE,
      { kD with abChainVector := rD.1 }, rD.2.1, rD.2.2, ?_,
      ⟨hsa, hsc, hsm, hsb, h1.symm⟩, hlD,
      by rw [← hrD, cfb_loop_o_length]; exact hooD, ?_⟩
    · unfold encrypt_block_step
      rw [if_neg hne1, if_neg hne2, if_pos hm, hkbl, hrE]
    · unfold decrypt_block_step
      rw [if_neg hneD1, if_neg hneD2, if_pos hmD, hDbl, ← hsa, ← hsc, ← hsv, hrD]
    · apply list_eq_of_getD
      · rw [bytesAt_length _ _ _ (by omega), hinp]
      · intro i hi
        rw [bytesAt_length _ _ _ (by omega)] at hi
        rw [bytesAt_zero, getD_take _ _ _ hi]
        exact h2 i (by omega) (by omega)

/-! ### The block loop: decryption undoes encryption -/

/-- The block loop of CPDecrypt, run over the `m` blocks that the block loop of CPEncrypt
produced from a key object in the same cipher state, gives back the input. -/
theorem block_loop_round_trip {κ η : Type} (impl : IMPL κ η) (bl : Nat) (hbl : 0 < bl)
    (hbl24 : bl ≤ RSAENH_MAX_BLOCK_SIZE) :
    ∀ (m : Nat) (X pre restE preD restD : List Nat) (kE kD : CRYPTKEY κ)
      (outE oE outD oD : List Nat) (fuelE fuelD : Nat),
    X.length = m * bl → isBytes X → BlockKey kE bl → SameCipher kE kD →
    BlockInverse impl kE.aiAlgid kE.context bl →
    outE.length = RSAENH_MAX_BLOCK_SIZE → oE.length = RSAENH_MAX_BLOCK_SIZE →
    outD.length = RSAENH_MAX_BLOCK_SIZE → oD.length = RSAENH_MAX_BLOCK_SIZE →
    m ≤ fuelE → m ≤ fuelD →
    ∃ C kE', block_loop impl false (pre.length + m * bl) fuelE kE (pre ++ (X ++ restE))
          pre.length outE oE = some (true, kE', pre ++ (C ++ restE)) ∧
      C.length = m * bl ∧
      ∃ kD', block_loop impl true (preD.length + m * bl) fuelD kD (preD ++ (C ++ restD))
          preD.length outD oD = some (true, kD', preD ++ (X ++ restD))
  | 0, X, pre, restE, preD, restD, kE, kD, outE, oE, outD, oD, fuelE, fuelD,
      hX, _, _, _, _, _, _, _, _, _, _ => by
    have hX0 : X = [] := List.length_eq_zero.mp (by rw [hX]; simp)
    subst hX0
    refine ⟨[], kE, ?_, by simp, kD, ?_⟩
    · cases fuelE <;> simp [block_loop]
    · cases fuelD <;> simp [block_loop]
  | m + 1, X, pre, restE, preD, restD, kE, kD, outE, oE, outD, oD, fuelE, fuelD,
      hX, hXb, hkey, hsame, hprim, hoE, hooE, hoD, hooD, hfE, hfD => by
    obtain ⟨fE, rfl⟩ : ∃ f, fuelE = f + 1 := ⟨fuelE - 1, by omega⟩
    obtain ⟨fD, rfl⟩ : ∃ f, fuelD = f + 1 := ⟨fuelD - 1, by omega⟩
    have hmul : (m + 1) * bl = bl + m * bl := by rw [Nat.succ_mul]; omega
    -- split off the first block
    obtain ⟨blk, X', rfl, hblk, hX'⟩ : ∃ blk X', X = blk ++ X' ∧ blk.length = bl ∧
        X'.length = m * bl := by
      refine ⟨X.take bl, X.drop bl, (List.take_append_drop bl X).symm, ?_, ?_⟩
      · rw [List.length_take, hX, hmul]; omega
      · rw [List.length_drop, hX, hmul]; omega
    have hblkb : isBytes blk := isBytes_append_left hXb
    have hX'b : isBytes X' := isBytes_append_right hXb
    obtain ⟨kE', outE', oE', hstepE, hkey', ha', hc', hoE', hooE', kD', outD', oD', hstepD,
      hsame', hoD', hooD', hback⟩ := block_step_round_trip impl kE kD bl blk outE oE outD oD
        hkey hsame hprim hbl hbl24 hblk hblkb hoE hooE hoD hooD
    have hcl : (bytesAt outE' 0 bl).length = bl := bytesAt_length _ _ _ (by omega)
    have hprim' : BlockInverse impl kE'.aiAlgid kE'.context bl := by rw [ha', hc']; exact hprim
    obtain ⟨C', kE'', hloopE, hC', kD'', hloopD⟩ := block_loop_round_trip impl bl hbl hbl24 m X'
      (pre ++ bytesAt outE' 0 bl) restE (preD ++ blk) restD kE' kD' outE' oE' outD' oD' fE fD
      hX' hX'b hkey' hsame' hprim' hoE' hooE' hoD' hooD' (by omega) (by omega)
    have hEbl : kE.dwBlockLen = bl := hkey.1
    have hE'bl : kE'.dwBlockLen = bl := hkey'.1
    have hDbl : kD.dwBlockLen = bl := by rw [← hsame.2.2.2.1]; exact hEbl
    have hD'bl : kD'.dwBlockLen = bl := by rw [← hsame'.2.2.2.1]; exact hE'bl
    refine ⟨bytesAt outE' 0 bl ++ C', kE'', ?_, by rw [List.length_append, hcl, hC', hmul],
      kD'', ?_⟩
    · rw [block_loop, if_pos (by rw [hmul]; omega)]
      simp only [Bool.false_eq_true, if_false]
      rw [hEbl, List.append_assoc, bytesAt_append_mid pre blk (X' ++ restE) _ _ rfl hblk.symm,
        hstepE]
      simp only []
      rw [hE'bl, memmove_mid pre blk (X' ++ restE) _ _ rfl (by rw [hcl, hblk])]
      have e1 : pre.length + bl = (pre ++ bytesAt outE' 0 bl).length := by
        rw [List.length_append, hcl]
      have e2 : pre.length + (m + 1) * bl = (pre ++ bytesAt outE' 0 bl).length + m * bl := by
        rw [List.length_append, hcl, hmul]; omega
      rw [e1, e2]
      have e3 : pre ++ (bytesAt outE' 0 bl ++ (X' ++ restE))
          = (pre ++ bytesAt outE' 0 bl) ++ (X' ++ restE) := by simp
      have e4 : pre ++ ((bytesAt outE' 0 bl ++ C') ++ restE)
          = (pre ++ bytesAt outE' 0 bl) ++ (C' ++ restE) := by simp
      rw [e3, e4]
      exact hloopE
    · rw [block_loop, if_pos (by rw [hmul]; omega)]
      simp only [if_true]
      rw [hDbl, List.append_assoc,
        bytesAt_append_mid preD (bytesAt outE' 0 bl) (C' ++ restD) _ _ rfl hcl.symm, hstepD]
      simp only []
      rw [hD'bl, hback,
        memmove_mid preD (bytesAt outE' 0 bl) (C' ++ restD) _ _ rfl (by rw [hcl, hblk])]
      have e1 : preD.length + bl = (preD ++ blk).length := by
        rw [List.length_append, hblk]
      have e2 : preD.length + (m + 1) * bl = (preD ++ blk).length + m * bl := by
        rw [List.length_append, hblk, hmul]; omega
      rw [e1, e2]
      have e3 : preD ++ (blk ++ (C' ++ restD)) = (preD ++ blk) ++ (C' ++ restD) := by simp
      have e4 : preD ++ ((blk ++ X') ++ restD) = (preD ++ blk) ++ (X' ++ restD) := by simp
      rw [e3, e4]
      exact hloopD

/-! ### CPEncrypt and CPDecrypt on a block-cipher key with Final = TRUE -/

theorem padded_len_facts (n bl : Nat) (hbl : 0 < bl) :
    n < (n / bl + 1) * bl ∧ (n / bl + 1) * bl ≤ n + bl ∧ n / bl + 1 ≤ (n / bl + 1) * bl := by
  have h1 := Nat.div_add_mod n bl
  have h2 := Nat.mod_lt n hbl
  have h3 : (n / bl + 1) * bl = bl * (n / bl) + bl := by
    rw [Nat.add_mul, Nat.one_mul, Nat.mul_comm]
  have h4 : n / bl + 1 ≤ (n / bl + 1) * bl := Nat.le_mul_of_pos_right _ hbl
  refine ⟨by omega, by omega, h4⟩

theorem dwAdd_eq (a b : Nat) (h : a + b < 4294967296) : dwAdd a b = a + b := by
  unfold dwAdd; exact Nat.mod_eq_of_lt h

theorem dwMul_eq (a b : Nat) (h : a * b < 4294967296) : dwMul a b = a * b := by
  unfold dwMul; exact Nat.mod_eq_of_lt h

/-- The padded plaintext that CPEncrypt encrypts with Final = TRUE: the data followed by
`p` bytes of value `p`, up to the next multiple of the block length. -/
theorem CPEncrypt_transform_block_final {κ η : Type} (impl : IMPL κ η) (s : CSP κ η)
    (hKey : Nat) (k : CRYPTKEY κ) (P tail : List Nat) (dwBufLen bl : Nat)
    (htype : GET_ALG_TYPE k.aiAlgid = ALG_TYPE_BLOCK) (hkbl : k.dwBlockLen = bl) (hbl : 0 < bl)
    (hbl256 : bl < 256)
    (hbuf : (P.length / bl + 1) * bl ≤ dwBufLen) (hbuf32 : dwBufLen < 4294967296)
    (hmem : dwBufLen ≤ (P ++ tail).length) :
    CPEncrypt_transform impl s hKey k true 0 (P ++ tail) P.length dwBufLen =
      match block_loop impl false ((P.length / bl + 1) * bl) ((P.length / bl + 1) * bl) k
          (P ++ (List.replicate ((P.length / bl + 1) * bl - P.length)
              ((P.length / bl + 1) * bl - P.length)
            ++ tail.drop ((P.length / bl + 1) * bl - P.length))) 0 local_block local_block with
      | none => none
      | some (ok, k', buf) =>
        if ok then
          some (true,
            s.withTable (store_object s.handle_table hKey (.key (setup_key impl k'))),
            buf, (P.length / bl + 1) * bl)
        else
          some (false,
            SetLastError (s.withTable (store_object s.handle_table hKey (.key k')))
              WINERROR.NTE_BAD_ALGID,
            buf, (P.length / bl + 1) * bl) := by
  obtain ⟨hf1, hf2, hf3⟩ := padded_len_facts P.length bl hbl
  have eA : dwAdd (P.length / bl) 1 = P.length / bl + 1 := dwAdd_eq _ _ (by omega)
  have eM : dwMul (P.length / bl + 1) bl = (P.length / bl + 1) * bl := dwMul_eq _ _ (by omega)
  have eS : dwSub ((P.length / bl + 1) * bl) P.length = (P.length / bl + 1) * bl - P.length :=
    dwSub_eq _ _ (by omega)
  have hlen : (P ++ tail).length = P.length + tail.length := List.length_append _ _
  have eF : fill_loop (((P.length / bl + 1) * bl - P.length) % 256)
      (min ((P.length / bl + 1) * bl) dwBufLen - P.length) (P ++ tail) P.length
      = P ++ (List.replicate ((P.length / bl + 1) * bl - P.length)
          (((P.length / bl + 1) * bl - P.length) % 256)
        ++ tail.drop ((P.length / bl + 1) * bl - P.length)) := by
    rw [Nat.min_eq_left hbuf, fill_loop_spec _ _ _ _ (by omega), List.take_left]
    have : P.length + ((P.length / bl + 1) * bl - P.length)
        = P.length + ((P.length / bl + 1) * bl - P.length) := rfl
    rw [List.drop_append_eq_append_drop]
    have e1 : (P.drop (P.length + ((P.length / bl + 1) * bl - P.length))) = [] :=
      List.drop_of_length_le (by omega)
    have e2 : P.length + ((P.length / bl + 1) * bl - P.length) - P.length
        = (P.length / bl + 1) * bl - P.length := by omega
    rw [e1, e2, List.nil_append]
  unfold CPEncrypt_transform
  rw [if_pos htype, hkbl]
  simp only [Bool.not_true, false_and, if_false, if_true, not_true_eq_false]
  rw [eA, eM, eS, eF, if_neg (by omega), Nat.mod_eq_of_lt (by omega)]

theorem last_pad_byte (P tail : List Nat) (p L : Nat) (hp : 0 < p) (hL : L = P.length + p) :
    (P ++ (List.replicate p p ++ tail)).getD (L - 1) 0 = p := by
  subst hL
  obtain ⟨q, rfl⟩ : ∃ q, p = q + 1 := ⟨p - 1, by omega⟩
  have e : P ++ (List.replicate (q + 1) (q + 1) ++ tail)
      = (P ++ List.replicate q (q + 1)) ++ (q + 1) :: tail := by
    rw [List.replicate_succ']; simp
  have e2 : P.length + (q + 1) - 1 = (P ++ List.replicate q (q + 1)).length := by
    simp
  rw [e, e2, getD_append_cons]

/-- The block primitive of the small engine is inverted by its decrypt direction. -/
theorem toyImpl_BlockInverse (alg ctx bl : Nat) : BlockInverse toyImpl alg ctx bl := by
  intro x hx hb
  refine ⟨(x.map (fun b => (b + ctx % 256 + 1) % 256)).reverse, ?_, ?_, ?_, ?_⟩
  · rfl
  · rw [List.length_reverse, List.length_map, hx]
  · intro b hmem
    rw [List.mem_reverse, List.mem_map] at hmem
    obtain ⟨a, _, rfl⟩ := hmem
    exact Nat.mod_lt _ (by decide)
  · show some (List.map _ (List.reverse (List.reverse _))) = _
    rw [List.reverse_reverse, List.map_map]
    congr 1
    conv_rhs => rw [← List.map_id x]
    apply List.map_congr_left
    intro b hmem
    have := hb b hmem
    simp only [Function.comp, id]
    omega

/-- C2. Block-cipher round trip in each of the modes ECB, CBC and CFB, for a block length
`bl` between 1 and RSAENH_MAX_BLOCK_SIZE (new_key gives block keys `bl = 8`)
and a plaintext `P` of any length: if the block primitive's decrypt direction
inverts its encrypt direction on blocks of bytes, the encrypting key `kE` and
the decrypting key `kD` are Idle and in the same cipher state, and no hash
object is passed, then CPEncrypt with Final = TRUE and a buffer of at least
`(|P|/bl + 1) * bl` bytes returns TRUE with that many ciphertext bytes `C`, and
CPDecrypt with Final = TRUE on `C` returns TRUE with exactly `P` and length `|P|`. -/
theorem block_cipher_round_trip {κ η : Type} (impl : IMPL κ η) (sE sD : CSP κ η)
    (hProvE hKeyE hHashE hProvD hKeyD hHashD : Nat) (kE kD : CRYPTKEY κ) (bl : Nat)
    (P tailE tailD : List Nat) (dwBufLen : Nat)
    (hbl : 0 < bl) (hbl24 : bl ≤ RSAENH_MAX_BLOCK_SIZE)
    (hprovE : is_valid_handle sE.handle_table hProvE is_container = true)
    (hprovD : is_valid_handle sD.handle_table hProvD is_container = true)
    (hkeyE : lookup_key sE.handle_table hKeyE = some kE)
    (hkeyD : lookup_key sD.handle_table hKeyD = some kD)
    (hnohashE : is_valid_handle sE.handle_table hHashE is_hash = false)
    (hnohashD : is_valid_handle sD.handle_table hHashD is_hash = false)
    (htype : GET_ALG_TYPE kE.aiAlgid = ALG_TYPE_BLOCK)
    (hblock : BlockKey kE bl) (hsame : SameCipher kE kD)
    (hidleE : kE.dwState = RSAENH_KEYSTATE_IDLE) (hidleD : kD.dwState = RSAENH_KEYSTATE_IDLE)
    (hprim : BlockInverse impl kE.aiAlgid kE.context bl) (hP : isBytes P)
    (hbuf : (P.length / bl + 1) * bl ≤ dwBufLen) (hbuf32 : dwBufLen < 4294967296)
    (hmem : dwBufLen ≤ (P ++ tailE).length) :
    ∃ sE' C restE,
      RSAENH_CPEncrypt impl sE hProvE hKeyE hHashE true 0 (P ++ tailE) P.length dwBufLen
        = some (true, sE', C ++ restE, (P.length / bl + 1) * bl) ∧
      C.length = (P.length / bl + 1) * bl ∧
      ∃ sD' restP,
        RSAENH_CPDecrypt impl sD hProvD hKeyD hHashD true 0 (C ++ tailD) C.length
          = some (true, sD', P ++ restP, P.length) := by
  have h24 : RSAENH_MAX_BLOCK_SIZE = 24 := rfl
  obtain ⟨hf1, hf2, hf3⟩ := padded_len_facts P.length bl hbl
  -- the key objects after the state transition
  obtain ⟨kE1, hkE1⟩ : ∃ k1, ({ kE with dwState := RSAENH_KEYSTATE_ENCRYPTING } : CRYPTKEY κ)
      = k1 := ⟨_, rfl⟩
  obtain ⟨kD1, hkD1⟩ : ∃ k1, ({ kD with dwState := RSAENH_KEYSTATE_DECRYPTING } : CRYPTKEY κ)
      = k1 := ⟨_, rfl⟩
  have hblock1 : BlockKey kE1 bl := by rw [← hkE1]; exact hblock
  have hsame1 : SameCipher kE1 kD1 := by rw [← hkE1, ← hkD1]; exact hsame
  have hprim1 : BlockInverse impl kE1.aiAlgid kE1.context bl := by rw [← hkE1]; exact hprim
  have htypeE1 : GET_ALG_TYPE kE1.aiAlgid = ALG_TYPE_BLOCK := by rw [← hkE1]; exact htype
  have htypeD1 : GET_ALG_TYPE kD1.aiAlgid = ALG_TYPE_BLOCK := by
    rw [← hsame1.1]; exact htypeE1
  -- the padded plaintext
  obtain ⟨p, hp⟩ : ∃ p, (P.length / bl + 1) * bl - P.length = p := ⟨_, rfl⟩
  have hX : (P ++ List.replicate p p).length = (P.length / bl + 1) * bl := by
    rw [List.length_append, List.length_replicate]; omega
  have hXb : isBytes (P ++ List.replicate p p) :=
    isBytes_append hP (isBytes_replicate _ _ (by omega))
  obtain ⟨C, kE', hloopE, hC, kD', hloopD⟩ := block_loop_round_trip impl bl hbl hbl24
    (P.length / bl + 1) (P ++ List.replicate p p) [] (tailE.drop p) [] tailD kE1 kD1
    local_block local_block local_block local_block ((P.length / bl + 1) * bl)
    ((P.length / bl + 1) * bl) hX hXb hblock1 hsame1 hprim1 rfl rfl rfl rfl hf3 hf3
  simp only [List.length_nil, Nat.zero_add, List.nil_append, List.append_assoc] at hloopE hloopD
  have hobjE := (lookup_key_of_object _ _ _).mp hkeyE
  have hobjD := (lookup_key_of_object _ _ _).mp hkeyD
  have hE : ∃ sE', RSAENH_CPEncrypt impl sE hProvE hKeyE hHashE true 0 (P ++ tailE) P.length
      dwBufLen = some (true, sE', C ++ tailE.drop p, (P.length / bl + 1) * bl) := by
    apply Exists.intro
    unfold RSAENH_CPEncrypt
    rw [transform_enter_ok sE hProvE hKeyE _ kE hprovE hkeyE (Or.inl hidleE), hkE1]
    simp only [CSP.withTable]
    rw [is_valid_handle_store _ hKeyE hHashE (.key kE) (.key kE1) is_hash hobjE rfl, hnohashE]
    simp only [Bool.false_eq_true, if_false]
    rw [lookup_key_store_same _ _ _ _ hkeyE]
    simp only []
    rw [CPEncrypt_transform_block_final impl _ hKeyE kE1 P tailE dwBufLen bl htypeE1 hblock1.1
      hbl (by omega) hbuf hbuf32 hmem, hp, hloopE]
    simp only [if_true]
    rfl
  have hD : ∃ sD', RSAENH_CPDecrypt impl sD hProvD hKeyD hHashD true 0 (C ++ tailD) C.length
      = some (true, sD', P ++ (List.replicate p p ++ tailD), P.length) := by
    apply Exists.intro
    unfold RSAENH_CPDecrypt
    rw [transform_enter_ok sD hProvD hKeyD _ kD hprovD hkeyD (Or.inl hidleD), hkD1]
    simp only [CSP.withTable]
    rw [lookup_key_store_same _ _ _ _ hkeyD]
    simp only []
    unfold CPDecrypt_transform
    rw [if_pos htypeD1, hC, hloopD]
    simp only [if_true, CSP.withTable]
    rw [is_valid_handle_store _ hKeyD hHashD (.key kD1) (.key (setup_key impl kD')) is_hash
      (lookup_object_store_same _ _ _ _ hobjD) rfl,
      is_valid_handle_store _ hKeyD hHashD (.key kD) (.key kD1) is_hash hobjD rfl, hnohashD]
    simp only [Bool.false_eq_true, if_false]
    rw [dwSub_eq _ 1 (by omega),
      last_pad_byte P tailD p ((P.length / bl + 1) * bl) (by omega) (by omega),
      dwSub_eq _ _ (by omega)]
    have : (P.length / bl + 1) * bl - p = P.length := by omega
    rw [this]
  obtain ⟨sE', hE⟩ := hE
  obtain ⟨sD', hD⟩ := hD
  exact ⟨sE', C, tailE.drop p, hE, hC, sD', List.replicate p p ++ tailD, hD⟩

/-- The round trip of C2 on a DES key in CBC mode and the plaintext 1, 2, 3. -/
theorem block_cipher_round_trip_witness :
    ∃ sE' C restE,
      RSAENH_CPEncrypt toyImpl
          (toyState 0 [.key (toyDesKey RSAENH_KEYSTATE_IDLE CRYPT_MODE_CBC (List.replicate 24 0))])
          1 2 0 true 0 ([1, 2, 3] ++ List.replicate 13 0) [1, 2, 3].length 16
        = some (true, sE', C ++ restE, ([1, 2, 3].length / 8 + 1) * 8) ∧
      C.length = ([1, 2, 3].length / 8 + 1) * 8 ∧
      ∃ sD' restP,
        RSAENH_CPDecrypt toyImpl
            (toyState 0 [.key (toyDesKey RSAENH_KEYSTATE_IDLE CRYPT_MODE_CBC (List.replicate 24 0))])
            1 2 0 true 0 (C ++ []) C.length
          = some (true, sD', [1, 2, 3] ++ restP, [1, 2, 3].length) :=
  block_cipher_round_trip toyImpl
    (toyState 0 [.key (toyDesKey RSAENH_KEYSTATE_IDLE CRYPT_MODE_CBC (List.replicate 24 0))])
    (toyState 0 [.key (toyDesKey RSAENH_KEYSTATE_IDLE CRYPT_MODE_CBC (List.replicate 24 0))])
    1 2 0 1 2 0
    (toyDesKey RSAENH_KEYSTATE_IDLE CRYPT_MODE_CBC (List.replicate 24 0))
    (toyDesKey RSAENH_KEYSTATE_IDLE CRYPT_MODE_CBC (List.replicate 24 0))
    8 [1, 2, 3] (List.replicate 13 0) [] 16
    (by decide) (by decide) (by decide) (by decide) (by decide) (by decide) (by decide)
    (by decide) (by decide) ⟨rfl, Or.inr (Or.inl rfl), rfl, by decide⟩
    ⟨rfl, rfl, rfl, rfl, rfl⟩ rfl rfl (toyImpl_BlockInverse _ _ _) (by decide) (by decide)
    (by decide) (by decide)

/-! ### Signatures -/

theorem set_prefix (pre buf : List Nat) (k d v : Nat) (hk : pre.length = k) (hd : d = k)
    (hlt : k < buf.length) :
    (pre ++ buf.drop d).set k v = (pre ++ [v]) ++ buf.drop (k + 1) := by
  subst hd
  rw [List.drop_eq_getElem_cons hlt, set_append_cons _ _ _ _ _ hk.symm, List.append_assoc]
  rfl

theorem fill_prefix (pre buf : List Nat) (k d n v : Nat) (hk : pre.length = k) (hd : d = k)
    (hle : k + n ≤ buf.length) :
    fill_loop v n (pre ++ buf.drop d) k = (pre ++ List.replicate n v) ++ buf.drop (k + n) := by
  subst hd
  rw [fill_loop_spec _ _ _ _ (by rw [List.length_append, List.length_drop]; omega),
    List.take_left' hk, List.drop_append_eq_append_drop, List.drop_of_length_le (by omega),
    List.nil_append, List.drop_drop, List.append_assoc]
  congr 3
  omega

theorem memmove_prefix (pre buf src : List Nat) (k d : Nat) (hk : pre.length = k) (hd : d = k)
    (hle : k + src.length ≤ buf.length) :
    memmove (pre ++ buf.drop d) k src = (pre ++ src) ++ buf.drop (k + src.length) := by
  subst hd
  rw [memmove_inbounds _ _ _ (by rw [List.length_append, List.length_drop]; omega),
    List.take_left' hk, List.drop_append_eq_append_drop, List.drop_of_length_le (by omega),
    List.nil_append, List.drop_drop, List.append_assoc]
  congr 3
  omega

theorem set_zero_prefix (buf : List Nat) (v : Nat) (h : 0 < buf.length) :
    buf.set 0 v = [v] ++ buf.drop 1 := by
  have := set_prefix [] buf 0 0 v rfl rfl h
  simpa using this

/-- The block that build_hash_signature writes: for sizes where every write is inside the
buffer, the first `dwLen` bytes afterwards are a block that does not depend on
what the buffer held, and the bytes behind them are kept. -/
theorem build_hash_signature_block (dwLen aiAlgid : Nat) (abHashValue : List Nat)
    (dwHashLen dwFlags : Nat) (oid : Nat × Nat × List Nat)
    (hoid : find_oid aiAlgid aOIDDescriptor = some oid) (hol : oid.2.2.length = oid.2.1)
    (hh : dwHashLen ≤ abHashValue.length) (h1 : dwHashLen + oid.2.1 + 3 ≤ dwLen)
    (h2 : dwHashLen + 4 ≤ dwLen) :
    ∃ block : List Nat, block.length = dwLen ∧
      (isBytes abHashValue → isBytes oid.2.2 → isBytes block) ∧
      ∀ buf : List Nat, dwLen ≤ buf.length →
        build_hash_signature buf dwLen aiAlgid abHashValue dwHashLen dwFlags
          = .ok (block ++ buf.drop dwLen) := by
  obtain ⟨hash, hhash⟩ : ∃ x, bytesAt abHashValue 0 dwHashLen = x := ⟨_, rfl⟩
  have hhl : hash.length = dwHashLen := by
    rw [← hhash]; exact bytesAt_length _ _ _ (by omega)
  have hoidb : bytesAt oid.2.2 0 oid.2.1 = oid.2.2 := by
    rw [bytesAt_zero, ← hol, List.take_length]
  by_cases hx : dwFlags &&& CRYPT_X931_FORMAT ≠ 0
  · obtain ⟨i, hi⟩ : ∃ i, dwLen - dwHashLen - 3 = i := ⟨_, rfl⟩
    refine ⟨((((([0x6b] ++ List.replicate (i - 1) 0xbb) ++ [0xba]) ++ hash) ++ [0x33]) ++ [0xcc]),
      ?_, ?_, ?_⟩
    · simp only [List.length_append, List.length_replicate, List.length_singleton, hhl]
      omega
    · intro hb _
      have hhb : isBytes hash := by rw [← hhash]; exact isBytes_bytesAt _ _ hb
      exact isBytes_append (isBytes_append (isBytes_append (isBytes_append (isBytes_append
        (isBytes_cons (by decide) isBytes_nil) (isBytes_replicate _ _ (by decide)))
        (isBytes_cons (by decide) isBytes_nil)) hhb) (isBytes_cons (by decide) isBytes_nil))
        (isBytes_cons (by decide) isBytes_nil)
    · intro buf hbuf
      unfold build_hash_signature
      rw [hoid]
      simp only []
      rw [if_pos hx, dwSub_eq dwLen dwHashLen (by omega),
        dwSub_eq (dwLen - dwHashLen) 3 (by omega), hi,
        Nat.max_eq_right (by omega), hhash, set_zero_prefix _ _ (by omega),
        fill_prefix [0x6b] buf 1 1 (i - 1) _ rfl rfl (by omega)]
      have e1 : 1 + (i - 1) = i := by omega
      rw [e1, set_prefix _ buf i i _ (by simp; omega) rfl (by omega),
        memmove_prefix _ buf hash (i + 1) (i + 1) (by simp; omega) rfl (by omega), hhl,
        set_prefix _ buf (i + 1 + dwHashLen) (i + 1 + dwHashLen) _ (by simp [hhl]; omega) rfl
          (by omega),
        set_prefix _ buf (i + 1 + dwHashLen + 1) (i + 1 + dwHashLen + 1) _
          (by simp [hhl]; omega) rfl (by omega)]
      have e2 : i + 1 + dwHashLen + 1 + 1 = dwLen := by omega
      rw [e2]
  · by_cases hn : dwFlags &&& CRYPT_NOHASHOID ≠ 0
    · obtain ⟨i, hi⟩ : ∃ i, dwLen - 1 - dwHashLen = i := ⟨_, rfl⟩
      refine ⟨(((([0x00] ++ [0x01]) ++ List.replicate (i - 2) 0xff) ++ [0x00]) ++ hash),
        ?_, ?_, ?_⟩
      · simp only [List.length_append, List.length_replicate, List.length_singleton, hhl]
        omega
      · intro hb _
        have hhb : isBytes hash := by rw [← hhash]; exact isBytes_bytesAt _ _ hb
        exact isBytes_append (isBytes_append (isBytes_append (isBytes_append
          (isBytes_cons (by decide) isBytes_nil) (isBytes_cons (by decide) isBytes_nil))
          (isBytes_replicate _ _ (by decide))) (isBytes_cons (by decide) isBytes_nil)) hhb
      · intro buf hbuf
        unfold build_hash_signature
        rw [hoid]
        simp only []
        rw [if_neg hx, if_pos hn, dwSub_eq dwLen 1 (by omega),
          dwSub_eq (dwLen - 1) dwHashLen (by omega), hi,
          Nat.max_eq_right (by omega), hhash, set_zero_prefix _ _ (by omega),
          set_prefix [0x00] buf 1 1 _ rfl rfl (by omega),
          fill_prefix ([0x00] ++ [0x01]) buf 2 2 (i - 2) _ (by decide) rfl (by omega)]
        have e1 : 2 + (i - 2) = i := by omega
        rw [e1, set_prefix _ buf i i _ (by simp; omega) rfl (by omega),
          memmove_prefix _ buf hash (i + 1) (i + 1) (by simp; omega) rfl (by omega), hhl]
        have e2 : i + 1 + dwHashLen = dwLen := by omega
        rw [e2]
    · obtain ⟨i, hi⟩ : ∃ i, dwLen - 1 - oid.2.1 - dwHashLen = i := ⟨_, rfl⟩
      refine ⟨((((([0x00] ++ [0x01]) ++ List.replicate (i - 2) 0xff) ++ [0x00]) ++ oid.2.2)
        ++ hash), ?_, ?_, ?_⟩
      · simp only [List.length_append, List.length_replicate, List.length_singleton, hhl, hol]
        omega
      · intro hb hob
        have hhb : isBytes hash := by rw [← hhash]; exact isBytes_bytesAt _ _ hb
        exact isBytes_append (isBytes_append (isBytes_append (isBytes_append (isBytes_append
          (isBytes_cons (by decide) isBytes_nil) (isBytes_cons (by decide) isBytes_nil))
          (isBytes_replicate _ _ (by decide))) (isBytes_cons (by decide) isBytes_nil)) hob) hhb
      · intro buf hbuf
        unfold build_hash_signature
        rw [hoid]
        simp only []
        rw [if_neg hx, if_neg hn, dwSub_eq dwLen 1 (by omega),
          dwSub_eq (dwLen - 1) oid.2.1 (by omega),
          dwSub_eq (dwLen - 1 - oid.2.1) dwHashLen (by omega), hi,
          Nat.max_eq_right (by omega), hhash, hoidb, set_zero_prefix _ _ (by omega),
          set_prefix [0x00] buf 1 1 _ rfl rfl (by omega),
          fill_prefix ([0x00] ++ [0x01]) buf 2 2 (i - 2) _ (by decide) rfl (by omega)]
        have e1 : 2 + (i - 2) = i := by omega
        rw [e1, set_prefix _ buf i i _ (by simp; omega) rfl (by omega),
          memmove_prefix _ buf oid.2.2 (i + 1) (i + 1) (by simp; omega) rfl (by omega), hol,
          memmove_prefix _ buf hash (i + 1 + oid.2.1) (i + 1 + oid.2.1) (by simp [hol]; omega)
            rfl (by omega), hhl]
        have e2 : i + 1 + oid.2.1 + dwHashLen = dwLen := by omega
        rw [e2]

theorem fill_loop_length (v : Nat) : ∀ (n : Nat) (buf : List Nat) (i : Nat),
    (fill_loop v n buf i).length = buf.length
  | 0, _, _ => rfl
  | n + 1, buf, i => by
    unfold fill_loop
    rw [fill_loop_length v n, List.length_set]

theorem build_hash_signature_length (buf : List Nat) (dwLen aiAlgid : Nat)
    (abHashValue : List Nat) (dwHashLen dwFlags : Nat) (B : List Nat)
    (h : build_hash_signature buf dwLen aiAlgid abHashValue dwHashLen dwFlags = .ok B) :
    B.length = buf.length := by
  unfold build_hash_signature at h
  rcases hq : find_oid aiAlgid aOIDDescriptor with _ | oid
  · rw [hq] at h; cases h
  · rw [hq] at h
    simp only [] at h
    by_cases hx : dwFlags &&& CRYPT_X931_FORMAT ≠ 0
    · rw [if_pos hx] at h
      injection h with h
      rw [← h]
      simp only [List.length_set, memmove_length, fill_loop_length]
    · rw [if_neg hx] at h
      by_cases hn : dwFlags &&& CRYPT_NOHASHOID ≠ 0
      · rw [if_pos hn] at h
        injection h with h
        rw [← h]
        simp only [List.length_set, memmove_length, fill_loop_length]
      · rw [if_neg hn] at h
        injection h with h
        rw [← h]
        simp only [List.length_set, memmove_length, fill_loop_length]

theorem find_oid_known (aiAlgid : Nat)
    (halg : aiAlgid = CALG_MD2 ∨ aiAlgid = CALG_MD4 ∨ aiAlgid = CALG_MD5 ∨ aiAlgid = CALG_SHA) :
    ∃ oid, find_oid aiAlgid aOIDDescriptor = some oid ∧ oid.2.2.length = oid.2.1 ∧
      1 ≤ oid.2.1 ∧ oid.2.1 ≤ 18 ∧ isBytes oid.2.2 := by
  rcases halg with h | h | h | h <;> subst h
  · exact ⟨_, rfl, by decide, by decide, by decide, by decide⟩
  · exact ⟨_, rfl, by decide, by decide, by decide, by decide⟩
  · exact ⟨_, rfl, by decide, by decide, by decide, by decide⟩
  · exact ⟨_, rfl, by decide, by decide, by decide, by decide⟩

theorem bytes_dword_bytes (x : Nat) (h : x < 4294967296) :
    bytes_dword (memmove (heap_block 4) 0 (bytesAt (dword_bytes x) 0 4)) = x := by
  have e : memmove (heap_block 4) 0 (bytesAt (dword_bytes x) 0 4) = dword_bytes x := rfl
  rw [e]
  unfold bytes_dword dword_bytes
  simp only [List.getD_cons_zero, List.getD_cons_succ]
  omega

theorem lookup_object_copy_handle {κ η : Type} (t : HANDLETABLE κ η) (h h' : Nat)
    (tag : OBJECT κ η → Bool) :
    lookup_object (copy_handle t h tag).1 h' = lookup_object t h' := by
  unfold copy_handle
  by_cases h0 : h = 0
  · rw [if_pos h0]
  · rw [if_neg h0]
    rcases hq : t.entries.getD (h - 1) none with _ | ⟨rc, o⟩
    · rfl
    · simp only []
      by_cases ht : tag o = true
      · rw [if_pos ht]
        unfold lookup_object
        by_cases h0' : h' = 0
        · rw [if_pos h0', if_pos h0']
        · rw [if_neg h0', if_neg h0']
          by_cases hh : h - 1 = h' - 1
          · rw [← hh, getD_set_same _ _ _ _ (getD_some_lt _ _ _ hq), hq]
          · rw [getD_set_other _ _ _ _ _ hh]
      · rw [if_neg ht]

theorem copy_handle_key {κ η : Type} (t : HANDLETABLE κ η) (h : Nat) (k : CRYPTKEY κ)
    (hl : lookup_key t h = some k) : (copy_handle t h is_key).2 = h := by
  obtain ⟨h0, rc, he⟩ := lookup_object_some t h _ ((lookup_key_of_object _ _ _).mp hl)
  unfold copy_handle
  rw [if_neg h0, he]
  rfl

theorem is_valid_handle_congr {κ η : Type} (t t' : HANDLETABLE κ η)
    (hfr : ∀ h, lookup_object t' h = lookup_object t h) (h : Nat) (tag : OBJECT κ η → Bool) :
    is_valid_handle t' h tag = is_valid_handle t h tag := by
  unfold is_valid_handle
  rw [hfr]

theorem lookup_key_congr {κ η : Type} (t t' : HANDLETABLE κ η)
    (hfr : ∀ h, lookup_object t' h = lookup_object t h) (h : Nat) :
    lookup_key t' h = lookup_key t h := by
  unfold lookup_key
  rw [hfr]

theorem lookup_hash_congr {κ η : Type} (t t' : HANDLETABLE κ η)
    (hfr : ∀ h, lookup_object t' h = lookup_object t h) (h : Nat) :
    lookup_hash t' h = lookup_hash t h := by
  unfold lookup_hash
  rw [hfr]

/-- CPGetUserKey on a container whose key pair of kind `dwKeySpec` is the key handle `hKey`:
TRUE with `hKey`; no handle names another object afterwards. -/
theorem CPGetUserKey_ok {κ η : Type} (s : CSP κ η) (hProv dwKeySpec hKey : Nat)
    (c : KEYCONTAINER) (k : CRYPTKEY κ)
    (hcont : lookup_container s.handle_table hProv = some c)
    (hspec : (dwKeySpec = AT_KEYEXCHANGE ∧ c.hKeyExchangeKeyPair = hKey) ∨
      (dwKeySpec = AT_SIGNATURE ∧ c.hSignatureKeyPair = hKey))
    (hkey : lookup_key s.handle_table hKey = some k) (hne : hKey ≠ INVALID_HANDLE_VALUE) :
    ∃ t, RSAENH_CPGetUserKey s hProv dwKeySpec = (true, s.withTable t, hKey) ∧
      ∀ h, lookup_object t h = lookup_object s.handle_table h := by
  refine ⟨(copy_handle s.handle_table hKey is_key).1, ?_, fun h =>
    lookup_object_copy_handle _ _ _ _⟩
  unfold RSAENH_CPGetUserKey
  rw [hcont]
  simp only []
  have e : (if dwKeySpec = AT_KEYEXCHANGE then
        copy_handle s.handle_table c.hKeyExchangeKeyPair is_key
      else if dwKeySpec = AT_SIGNATURE then
        copy_handle s.handle_table c.hSignatureKeyPair is_key
      else (s.handle_table, INVALID_HANDLE_VALUE)) = copy_handle s.handle_table hKey is_key := by
    rcases hspec with ⟨h1, h2⟩ | ⟨h1, h2⟩
    · rw [if_pos h1, h2]
    · rw [if_neg (by rw [h1]; decide), if_pos h1, h2]
  rw [e, copy_handle_key _ _ _ hkey, if_neg hne]

/-- The two parameter reads of CPSignHash and CPVerifySignature on a hash object of a plain
hash algorithm that is not Idle: they return the algorithm and the digest, and
leave the object Finished. -/
theorem get_hash_for_signature_ok {κ η : Type} (impl : IMPL κ η) (s : CSP κ η)
    (hProv hHash : Nat) (h : CRYPTHASH η)
    (hprov : is_valid_handle s.handle_table hProv is_container = true)
    (hhash : lookup_hash s.handle_table hHash = some h)
    (halg : h.aiAlgid = CALG_MD2 ∨ h.aiAlgid = CALG_MD4 ∨ h.aiAlgid = CALG_MD5 ∨
      h.aiAlgid = CALG_SHA)
    (hstate : h.dwState ≠ RSAENH_HASHSTATE_IDLE)
    (hsz : h.dwHashSize ≤ RSAENH_MAX_HASH_SIZE) :
    ∃ h1 : CRYPTHASH η,
      get_hash_for_signature impl s hProv hHash
        = some (.ok (s.withTable (store_object s.handle_table hHash (.hash h1)), h.aiAlgid,
            memmove (heap_block RSAENH_MAX_HASH_SIZE) 0 (bytesAt h1.abHashValue 0 h.dwHashSize),
            h.dwHashSize)) ∧
      h1.aiAlgid = h.aiAlgid ∧ h1.dwHashSize = h.dwHashSize ∧
      h1.dwState = RSAENH_HASHSTATE_FINISHED ∧
      (h.dwState = RSAENH_HASHSTATE_FINISHED → h1 = h) ∧
      (isBytes h.abHashValue → isBytes (impl.finalize_hash_impl h.aiAlgid h.context).2.2 →
        isBytes h1.abHashValue) := by
  have h32 : h.aiAlgid < 4294967296 := by
    rcases halg with e | e | e | e <;> rw [e] <;> decide
  have hnprf : h.aiAlgid ≠ CALG_TLS1PRF := by
    rcases halg with e | e | e | e <;> rw [e] <;> decide
  have hnhmac : h.aiAlgid ≠ CALG_HMAC := by
    rcases halg with e | e | e | e <;> rw [e] <;> decide
  have hnmac : h.aiAlgid ≠ CALG_MAC := by
    rcases halg with e | e | e | e <;> rw [e] <;> decide
  have hfin : finalize_hash impl s h = some (s,
      { h with context := (impl.finalize_hash_impl h.aiAlgid h.context).2.1,
               abHashValue := memmove h.abHashValue 0
                 (impl.finalize_hash_impl h.aiAlgid h.context).2.2 }) := by
    unfold finalize_hash
    rw [if_neg hnhmac, if_neg hnmac]
  have hcall1 : RSAENH_CPGetHashParam impl s hProv hHash HP_ALGID (some (heap_block 4)) (some 4) 0
      = some (true, s, some (memmove (heap_block 4) 0 (bytesAt (dword_bytes h.aiAlgid) 0 4)),
          some 4) := by
    unfold RSAENH_CPGetHashParam
    rw [hprov, hhash]
    simp only [not_true_eq_false, if_false, ne_eq, if_true]
    unfold copy_param
    simp only [gt_iff_lt, lt_self_iff_false, if_false]
  by_cases hf : h.dwState = RSAENH_HASHSTATE_FINISHED
  · refine ⟨h, ?_, rfl, rfl, hf, fun _ => rfl, fun hb _ => hb⟩
    unfold get_hash_for_signature
    rw [hcall1]
    simp only []
    unfold RSAENH_CPGetHashParam
    rw [hprov, hhash]
    simp only [not_true_eq_false, if_false, ne_eq, if_true]
    rw [if_neg (show ¬ HP_HASHVAL = HP_ALGID by decide),
      if_neg (show ¬ HP_HASHVAL = HP_HASHSIZE by decide), if_neg hnprf,
      if_neg hstate]
    simp only [hf, not_true_eq_false, and_false, if_false]
    unfold copy_param
    simp only [CSP.withTable]
    rw [if_neg (Nat.not_lt.mpr hsz)]
    simp only [Option.getD_some]
    rw [bytes_dword_bytes _ h32]
  · refine ⟨{ h with context := (impl.finalize_hash_impl h.aiAlgid h.context).2.1,
                     abHashValue := memmove h.abHashValue 0
                       (impl.finalize_hash_impl h.aiAlgid h.context).2.2,
                     dwState := RSAENH_HASHSTATE_FINISHED }, ?_, rfl, rfl, rfl,
      fun e => absurd e hf, fun hb hd => isBytes_memmove 0 hb hd⟩
    unfold get_hash_for_signature
    rw [hcall1]
    simp only []
    unfold RSAENH_CPGetHashParam
    rw [hprov, hhash]
    simp only [not_true_eq_false, if_false, ne_eq, if_true]
    rw [if_neg (show ¬ HP_HASHVAL = HP_ALGID by decide),
      if_neg (show ¬ HP_HASHVAL = HP_HASHSIZE by decide), if_neg hnprf,
      if_neg hstate]
    simp only [hf, not_false_eq_true, and_true, Option.isSome_some, if_true, hfin]
    unfold copy_param
    simp only [CSP.withTable]
    rw [if_neg (Nat.not_lt.mpr hsz)]
    simp only [Option.getD_some]
    rw [bytes_dword_bytes _ h32]

theorem build_hash_signature_ok (buf : List Nat) (dwLen aiAlgid : Nat) (abHashValue : List Nat)
    (dwHashLen dwFlags : Nat) (oid : Nat × Nat × List Nat)
    (hoid : find_oid aiAlgid aOIDDescriptor = some oid) :
    ∃ B, build_hash_signature buf dwLen aiAlgid abHashValue dwHashLen dwFlags = .ok B := by
  unfold build_hash_signature
  rw [hoid]
  simp only []
  by_cases hx : dwFlags &&& CRYPT_X931_FORMAT ≠ 0
  · rw [if_pos hx]; exact ⟨_, rfl⟩
  · rw [if_neg hx]
    by_cases hn : dwFlags &&& CRYPT_NOHASHOID ≠ 0
    · rw [if_pos hn]; exact ⟨_, rfl⟩
    · rw [if_neg hn]; exact ⟨_, rfl⟩

theorem bytesAt_self (l : List Nat) (n : Nat) (h : l.length = n) : bytesAt l 0 n = l := by
  rw [bytesAt_zero, ← h, List.take_length]

/-- CPVerifySignature without a description, once the two parameter reads have given the
algorithm and the digest and build_hash_signature has built the block `B`: the
result is decided by the primitive and the comparison of the buffers. -/
theorem CPVerifySignature_of_hash {κ η : Type} (impl : IMPL κ η) (s s1 : CSP κ η)
    (hProv hHash dwSigLen hPubKey dwFlags : Nat) (k : CRYPTKEY κ)
    (aiAlgid : Nat) (abHashValue : List Nat) (dwHashLen : Nat) (B S : List Nat)
    (hflags : dwFlags &&& (0xffffffff ^^^ (CRYPT_NOHASHOID ||| CRYPT_X931_FORMAT)) = 0)
    (hprov : is_valid_handle s.handle_table hProv is_container = true)
    (hkey : lookup_key s.handle_table hPubKey = some k)
    (hget : get_hash_for_signature impl s hProv hHash
      = some (.ok (s1, aiAlgid, abHashValue, dwHashLen)))
    (hB : build_hash_signature (heap_block dwSigLen) dwSigLen aiAlgid abHashValue dwHashLen
      dwFlags = .ok B) :
    RSAENH_CPVerifySignature impl s hProv hHash S dwSigLen hPubKey none dwFlags
      = match impl.encrypt_block_impl k.aiAlgid k.context (bytesAt S 0 k.dwKeyLen)
          RSAENH_DECRYPT with
        | none => some (false, s1)
        | some d =>
          if memmove (heap_block dwSigLen) 0 d = B then some (true, s1)
          else some (false, SetLastError s1 WINERROR.NTE_BAD_SIGNATURE) := by
  have hBl : B.length = dwSigLen := by
    rw [build_hash_signature_length _ _ _ _ _ _ _ hB]
    exact List.length_replicate _ _
  unfold RSAENH_CPVerifySignature
  rw [if_neg (not_not.mpr hflags), hprov]
  simp only [not_true_eq_false, if_false]
  rw [hkey]
  simp only []
  rw [hget]
  simp only []
  rcases impl.encrypt_block_impl k.aiAlgid k.context (bytesAt S 0 k.dwKeyLen)
    RSAENH_DECRYPT with _ | d
  · rfl
  · simp only []
    rw [hB]
    simp only []
    rw [bytesAt_self _ _ hBl, bytesAt_self _ _
      (by rw [memmove_length]; exact List.length_replicate _ _)]
    by_cases he : memmove (heap_block dwSigLen) 0 d = B
    · rw [if_pos he, if_neg (not_not.mpr he)]
    · rw [if_neg he, if_pos he]

theorem flip_bit_ne (S : List Nat) (bit : Nat) (h : bit < 8 * S.length) : flip_bit S bit ≠ S := by
  intro e
  have hj : bit / 8 < S.length := by omega
  have e1 := congrArg (fun l => l.getD (bit / 8) 0) e
  simp only [flip_bit] at e1
  rw [getD_set_same _ _ _ _ hj] at e1
  have e2 := congrArg (fun x => S.getD (bit / 8) 0 ^^^ x) e1
  simp only [Nat.xor_self] at e2
  rw [← Nat.xor_assoc, Nat.xor_self, Nat.zero_xor] at e2
  exact absurd e2 (Nat.ne_of_gt (Nat.two_pow_pos _))

theorem flip_bit_length (S : List Nat) (bit : Nat) : (flip_bit S bit).length = S.length := by
  unfold flip_bit
  rw [List.length_set]

theorem isBytes_set {l : List Nat} (i v : Nat) (hl : isBytes l) (hv : v < 256) :
    isBytes (l.set i v) := by
  intro b hb
  rcases List.mem_or_eq_of_mem_set hb with h | h
  · exact hl b h
  · rw [h]; exact hv

theorem isBytes_flip_bit (S : List Nat) (bit : Nat) (h : isBytes S) :
    isBytes (flip_bit S bit) := by
  unfold flip_bit
  apply isBytes_set _ _ h
  apply xor_byte_lt (isBytes_getD _ h)
  have : bit % 8 < 8 := Nat.mod_lt _ (by decide)
  calc 2 ^ (bit % 8) < 2 ^ 8 := Nat.pow_lt_pow_right (by decide) this
    _ = 256 := by decide

/-- The block primitive of the small engine is injective in the decrypt direction. -/
theorem toyImpl_BlockInjective (alg ctx n : Nat) : BlockInjective toyImpl alg ctx n := by
  have key : ∀ z : List Nat, isBytes z →
      (((z.reverse.map (fun b => (b + 255 - ctx % 256) % 256)).map
        (fun b => (b + ctx % 256 + 1) % 256)).reverse) = z := by
    intro z hz
    rw [List.map_map, ← List.map_reverse, List.reverse_reverse]
    conv_rhs => rw [← List.map_id z]
    apply List.map_congr_left
    intro b hmem
    have := hz b hmem
    have hc : ctx % 256 < 256 := Nat.mod_lt _ (by decide)
    simp only [Function.comp, id]
    omega
  intro x hx hb
  refine ⟨x.reverse.map (fun b => (b + 255 - ctx % 256) % 256), rfl, ?_, ?_⟩
  · rw [List.length_map, List.length_reverse, hx]
  · intro y _ hyb hy
    have e : y.reverse.map (fun b => (b + 255 - ctx % 256) % 256)
        = x.reverse.map (fun b => (b + 255 - ctx % 256) % 256) := by
      have : some (y.reverse.map (fun b => (b + 255 - ctx % 256) % 256)) = some _ := hy
      injection this
    rw [← key y hyb, e, key x hb]

/-- C4. CPVerifySignature (valid flags, provider and key handle, no description, a hash object
of algorithm MD2, MD4, MD5 or SHA-1 that is not Idle), called with the byte length of the key
as signature length `dwSigLen`, which has room for the padded digest: the two parameter reads
give the algorithm and the digest, build_hash_signature builds from them a block `B` of
`dwSigLen` bytes, and for every signature `S` of `dwSigLen` bytes or more that the RSA
primitive decrypts to a block `D` of `dwSigLen` bytes the call returns TRUE if and only if
`D` equals `B`, byte for byte; for every other decrypted block it returns FALSE with last
error NTE_BAD_SIGNATURE.  In particular, when the primitive is injective on blocks of
`dwSigLen` bytes, flipping any single bit of a signature that verifies gives one that fails
with NTE_BAD_SIGNATURE. -/
theorem verify_signature_exact {κ η : Type} (impl : IMPL κ η) (s : CSP κ η)
    (hProv hHash dwSigLen hPubKey dwFlags : Nat) (k : CRYPTKEY κ) (h : CRYPTHASH η)
    (hflags : dwFlags &&& (0xffffffff ^^^ (CRYPT_NOHASHOID ||| CRYPT_X931_FORMAT)) = 0)
    (hprov : is_valid_handle s.handle_table hProv is_container = true)
    (hkey : lookup_key s.handle_table hPubKey = some k)
    (hhash : lookup_hash s.handle_table hHash = some h)
    (halg : h.aiAlgid = CALG_MD2 ∨ h.aiAlgid = CALG_MD4 ∨ h.aiAlgid = CALG_MD5 ∨
      h.aiAlgid = CALG_SHA)
    (hstate : h.dwState ≠ RSAENH_HASHSTATE_IDLE)
    (hsz : h.dwHashSize ≤ RSAENH_MAX_HASH_SIZE)
    (hkl : k.dwKeyLen = dwSigLen) (_hroom : h.dwHashSize + 21 ≤ dwSigLen) :
    ∃ (s1 : CSP κ η) (aiAlgid : Nat) (abHashValue : List Nat) (dwHashLen : Nat) (B : List Nat),
      get_hash_for_signature impl s hProv hHash
        = some (.ok (s1, aiAlgid, abHashValue, dwHashLen)) ∧
      build_hash_signature (heap_block dwSigLen) dwSigLen aiAlgid abHashValue dwHashLen dwFlags
        = .ok B ∧
      B.length = dwSigLen ∧
      (∀ S D : List Nat, dwSigLen ≤ S.length →
        impl.encrypt_block_impl k.aiAlgid k.context (bytesAt S 0 k.dwKeyLen) RSAENH_DECRYPT
          = some D →
        D.length = dwSigLen →
        (RSAENH_CPVerifySignature impl s hProv hHash S dwSigLen hPubKey none dwFlags
            = some (true, s1) ↔ D = B) ∧
        (D ≠ B →
          RSAENH_CPVerifySignature impl s hProv hHash S dwSigLen hPubKey none dwFlags
            = some (false, SetLastError s1 WINERROR.NTE_BAD_SIGNATURE))) ∧
      (BlockInjective impl k.aiAlgid k.context dwSigLen →
        ∀ (S : List Nat) (bit : Nat), S.length = dwSigLen → isBytes S → bit < 8 * dwSigLen →
          RSAENH_CPVerifySignature impl s hProv hHash S dwSigLen hPubKey none dwFlags
            = some (true, s1) →
          RSAENH_CPVerifySignature impl s hProv hHash (flip_bit S bit) dwSigLen hPubKey none
            dwFlags = some (false, SetLastError s1 WINERROR.NTE_BAD_SIGNATURE)) := by
  obtain ⟨h1, hget, -, -, -, -, -⟩ :=
    get_hash_for_signature_ok impl s hProv hHash h hprov hhash halg hstate hsz
  obtain ⟨oid, hoid, -, -, -, -⟩ := find_oid_known h.aiAlgid halg
  obtain ⟨B, hB⟩ := build_hash_signature_ok (heap_block dwSigLen) dwSigLen h.aiAlgid
    (memmove (heap_block RSAENH_MAX_HASH_SIZE) 0 (bytesAt h1.abHashValue 0 h.dwHashSize))
    h.dwHashSize dwFlags oid hoid
  have hBl : B.length = dwSigLen := by
    rw [build_hash_signature_length _ _ _ _ _ _ _ hB]
    exact List.length_replicate _ _
  have hv := fun S => CPVerifySignature_of_hash impl s _ hProv hHash dwSigLen hPubKey dwFlags k
    _ _ _ B S hflags hprov hkey hget hB
  have part1 : ∀ S D : List Nat, dwSigLen ≤ S.length →
      impl.encrypt_block_impl k.aiAlgid k.context (bytesAt S 0 k.dwKeyLen) RSAENH_DECRYPT
        = some D →
      D.length = dwSigLen →
      (RSAENH_CPVerifySignature impl s hProv hHash S dwSigLen hPubKey none dwFlags
          = some (true, s.withTable (store_object s.handle_table hHash (.hash h1)))
        ↔ D = B) ∧
      (D ≠ B →
        RSAENH_CPVerifySignature impl s hProv hHash S dwSigLen hPubKey none dwFlags
          = some (false, SetLastError (s.withTable (store_object s.handle_table hHash
              (.hash h1))) WINERROR.NTE_BAD_SIGNATURE)) := by
    intro S D _ hD hDl
    rw [hv S, hD]
    simp only []
    have hmem : memmove (heap_block dwSigLen) 0 D = D := by
      rw [memmove_zero _ _ (by rw [hDl]; exact Nat.le_of_eq (List.length_replicate _ _).symm),
        List.drop_of_length_le (by rw [hDl]; exact Nat.le_of_eq (List.length_replicate _ _)),
        List.append_nil]
    rw [hmem]
    by_cases he : D = B
    · rw [if_pos he]
      exact ⟨⟨fun _ => he, fun _ => rfl⟩, fun hne => absurd he hne⟩
    · rw [if_neg he]
      refine ⟨⟨fun hc => ?_, fun e => absurd e he⟩, fun _ => rfl⟩
      injection hc with hc
      injection hc with hc
      cases hc
  refine ⟨_, _, _, _, B, hget, hB, hBl, part1, ?_⟩
  intro hinj S bit hSl hSb hbit hvalid
  have hSl' : 8 * S.length = 8 * dwSigLen := by rw [hSl]
  obtain ⟨d, hd, hdl, -⟩ := hinj S hSl hSb
  obtain ⟨d', hd', hdl', hinj'⟩ := hinj (flip_bit S bit) (by rw [flip_bit_length, hSl])
    (isBytes_flip_bit S bit hSb)
  have eS : bytesAt S 0 k.dwKeyLen = S := bytesAt_self _ _ (by rw [hkl, hSl])
  have eS' : bytesAt (flip_bit S bit) 0 k.dwKeyLen = flip_bit S bit :=
    bytesAt_self _ _ (by rw [hkl, flip_bit_length, hSl])
  have hdB : d = B :=
    ((part1 S d (by rw [hSl]) (by rw [eS]; exact hd) hdl).1).mp hvalid
  apply (part1 (flip_bit S bit) d' (by rw [flip_bit_length, hSl]) (by rw [eS']; exact hd')
    hdl').2
  intro hc
  have hdd : d = d' := by rw [hdB, hc]
  have hflip := hinj' S hSl hSb (by rw [← hdd]; exact hd)
  exact flip_bit_ne S bit (by omega) hflip.symm

/-- Witness for C4: the theorem at the small engine, an MD5 hash object that has absorbed
1, 2, 3, and the RSA key of 48 bytes with the signature length 48. -/
theorem verify_signature_exact_witness :
    ∃ (s1 : CSP Nat (List Nat)) (aiAlgid : Nat) (abHashValue : List Nat) (dwHashLen : Nat)
      (B : List Nat),
      get_hash_for_signature toyImpl
          (toySignState (toyHash CALG_MD5 16 RSAENH_HASHSTATE_HASHING [1, 2, 3])) 1 3
        = some (.ok (s1, aiAlgid, abHashValue, dwHashLen)) ∧
      build_hash_signature (heap_block 48) 48 aiAlgid abHashValue dwHashLen 0 = .ok B ∧
      B.length = 48 ∧
      (∀ S D : List Nat, 48 ≤ S.length →
        toyImpl.encrypt_block_impl toyRsaKey.aiAlgid toyRsaKey.context
          (bytesAt S 0 toyRsaKey.dwKeyLen) RSAENH_DECRYPT = some D →
        D.length = 48 →
        (RSAENH_CPVerifySignature toyImpl
          (toySignState (toyHash CALG_MD5 16 RSAENH_HASHSTATE_HASHING [1, 2, 3])) 1 3 S 48 2
            none 0 = some (true, s1) ↔ D = B) ∧
        (D ≠ B →
          RSAENH_CPVerifySignature toyImpl
          (toySignState (toyHash CALG_MD5 16 RSAENH_HASHSTATE_HASHING [1, 2, 3])) 1 3 S 48 2
            none 0 = some (false, SetLastError s1 WINERROR.NTE_BAD_SIGNATURE))) ∧
      (BlockInjective toyImpl toyRsaKey.aiAlgid toyRsaKey.context 48 →
        ∀ (S : List Nat) (bit : Nat), S.length = 48 → isBytes S → bit < 8 * 48 →
          RSAENH_CPVerifySignature toyImpl
          (toySignState (toyHash CALG_MD5 16 RSAENH_HASHSTATE_HASHING [1, 2, 3])) 1 3 S 48 2
            none 0 = some (true, s1) →
          RSAENH_CPVerifySignature toyImpl
          (toySignState (toyHash CALG_MD5 16 RSAENH_HASHSTATE_HASHING [1, 2, 3])) 1 3
            (flip_bit S bit) 48 2 none 0
            = some (false, SetLastError s1 WINERROR.NTE_BAD_SIGNATURE)) :=
  verify_signature_exact toyImpl
    (toySignState (toyHash CALG_MD5 16 RSAENH_HASHSTATE_HASHING [1, 2, 3])) 1 3 48 2 0 toyRsaKey
    (toyHash CALG_MD5 16 RSAENH_HASHSTATE_HASHING [1, 2, 3])
    (by decide) (by decide) rfl rfl (Or.inr (Or.inr (Or.inl rfl))) (by decide) (by decide)
    rfl (by decide)

theorem lookup_key_store_hash {κ η : Type} (t : HANDLETABLE κ η) (h h' : Nat)
    (x x' : CRYPTHASH η) (k : CRYPTKEY κ) (hh : lookup_hash t h = some x)
    (hk : lookup_key t h' = some k) :
    lookup_key (store_object t h (.hash x')) h' = some k := by
  have hne : h ≠ h' := by
    intro e
    subst e
    rw [lookup_hash_of_object] at hh
    rw [lookup_key_of_object, hh] at hk
    cases hk
  rw [lookup_key_of_object, lookup_object_store_other _ _ _ _ hne, ← lookup_key_of_object]
  exact hk

theorem lookup_hash_store_same {κ η : Type} (t : HANDLETABLE κ η) (h : Nat)
    (x x' : CRYPTHASH η) (hl : lookup_hash t h = some x) :
    lookup_hash (store_object t h (.hash x')) h = some x' := by
  rw [lookup_hash_of_object] at hl ⊢
  exact lookup_object_store_same t h _ _ hl

theorem memmove_self (n : Nat) (x : List Nat) (hx : x.length = n) :
    memmove (heap_block n) 0 x = x := by
  rw [memmove_zero _ _ (by rw [hx]; exact Nat.le_of_eq (List.length_replicate _ _).symm),
    List.drop_of_length_le (by rw [hx]; exact Nat.le_of_eq (List.length_replicate _ _)),
    List.append_nil]

/-- C3. Signature round trip.  The container of `hProv` has the key `k` (handle `hKey`) as its
key pair of kind `dwKeySpec`; the hash object `h` has algorithm MD2, MD4, MD5
or SHA-1 and has hashed data (state Hashing or Finished); the flags are 0,
CRYPT_NOHASHOID or CRYPT_X931_FORMAT; the block primitive of `k` is inverted by
its decrypt direction on byte blocks of the key's byte length, which has room
for the padded digest.  Then CPSignHash (no description) returns TRUE with a
signature of the key's byte length, and CPVerifySignature on that signature,
with the same hash object and flags, no description, the key's byte length as
signature length and a key `kV` of the same algorithm, context and length,
returns TRUE. -/
theorem signature_round_trip {κ η : Type} (impl : IMPL κ η) (s : CSP κ η)
    (hProv hHash dwKeySpec hKey hPubKey dwFlags dwSigLen : Nat) (sig : List Nat)
    (c : KEYCONTAINER) (k kV : CRYPTKEY κ) (h : CRYPTHASH η)
    (hcont : lookup_container s.handle_table hProv = some c)
    (hspec : (dwKeySpec = AT_KEYEXCHANGE ∧ c.hKeyExchangeKeyPair = hKey) ∨
      (dwKeySpec = AT_SIGNATURE ∧ c.hSignatureKeyPair = hKey))
    (hkey : lookup_key s.handle_table hKey = some k) (hne : hKey ≠ INVALID_HANDLE_VALUE)
    (hpub : lookup_key s.handle_table hPubKey = some kV)
    (hsame : kV.aiAlgid = k.aiAlgid ∧ kV.context = k.context ∧ kV.dwKeyLen = k.dwKeyLen)
    (hhash : lookup_hash s.handle_table hHash = some h)
    (halg : h.aiAlgid = CALG_MD2 ∨ h.aiAlgid = CALG_MD4 ∨ h.aiAlgid = CALG_MD5 ∨
      h.aiAlgid = CALG_SHA)
    (hstate : h.dwState = RSAENH_HASHSTATE_HASHING ∨ h.dwState = RSAENH_HASHSTATE_FINISHED)
    (hsz : h.dwHashSize ≤ RSAENH_MAX_HASH_SIZE)
    (hroom : h.dwHashSize + 21 ≤ k.dwKeyLen)
    (hvalb : isBytes h.abHashValue)
    (hdig : isBytes (impl.finalize_hash_impl h.aiAlgid h.context).2.2)
    (hflags : dwFlags = 0 ∨ dwFlags = CRYPT_NOHASHOID ∨ dwFlags = CRYPT_X931_FORMAT)
    (hprim : BlockInverse impl k.aiAlgid k.context k.dwKeyLen)
    (hsiglen : k.dwKeyLen ≤ sig.length) (hSigLen : k.dwKeyLen ≤ dwSigLen) :
    ∃ (sS : CSP κ η) (S : List Nat),
      RSAENH_CPSignHash impl s hProv hHash dwKeySpec none dwFlags (some sig) dwSigLen
        = some (true, sS, some S, k.dwKeyLen) ∧
      ∃ sV : CSP κ η,
        RSAENH_CPVerifySignature impl sS hProv hHash S k.dwKeyLen hPubKey none dwFlags
          = some (true, sV) := by
  have hmask : dwFlags &&& (0xffffffff ^^^ (CRYPT_NOHASHOID ||| CRYPT_X931_FORMAT)) = 0 := by
    rcases hflags with e | e | e <;> rw [e] <;> decide
  have hst : h.dwState ≠ RSAENH_HASHSTATE_IDLE := by
    rcases hstate with e | e <;> rw [e] <;> decide
  have hprov : is_valid_handle s.handle_table hProv is_container = true := by
    unfold is_valid_handle
    rw [(lookup_container_of_object _ _ _).mp hcont]
    rfl
  -- the state after CPGetUserKey
  obtain ⟨t, hu, hfr⟩ := CPGetUserKey_ok s hProv dwKeySpec hKey c k hcont hspec hkey hne
  obtain ⟨s', hs'⟩ : ∃ s', s.withTable t = s' := ⟨_, rfl⟩
  have ht : s'.handle_table = t := by rw [← hs']; rfl
  have hprov' : is_valid_handle s'.handle_table hProv is_container = true := by
    rw [ht, is_valid_handle_congr _ _ hfr]; exact hprov
  have hkey' : lookup_key s'.handle_table hKey = some k := by
    rw [ht, lookup_key_congr _ _ hfr]; exact hkey
  have hpub' : lookup_key s'.handle_table hPubKey = some kV := by
    rw [ht, lookup_key_congr _ _ hfr]; exact hpub
  have hhash' : lookup_hash s'.handle_table hHash = some h := by
    rw [ht, lookup_hash_congr _ _ hfr]; exact hhash
  -- the parameter reads of CPSignHash
  obtain ⟨h1, hget, h1alg, h1sz, h1st, -, h1b⟩ :=
    get_hash_for_signature_ok impl s' hProv hHash h hprov' hhash' halg hst hsz
  obtain ⟨sS, hsS⟩ : ∃ sS, s'.withTable (store_object s'.handle_table hHash (.hash h1)) = sS :=
    ⟨_, rfl⟩
  have htS : sS.handle_table = store_object s'.handle_table hHash (.hash h1) := by
    rw [← hsS]; rfl
  rw [hsS] at hget
  obtain ⟨val, hval⟩ : ∃ v, memmove (heap_block RSAENH_MAX_HASH_SIZE) 0
      (bytesAt h1.abHashValue 0 h.dwHashSize) = v := ⟨_, rfl⟩
  rw [hval] at hget
  have hvall : val.length = RSAENH_MAX_HASH_SIZE := by
    rw [← hval, memmove_length]; exact List.length_replicate _ _
  have hvalbytes : isBytes val := by
    rw [← hval]
    exact isBytes_memmove 0 (isBytes_replicate _ _ (by decide))
      (isBytes_bytesAt _ _ (h1b hvalb hdig))
  -- the block
  obtain ⟨oid, hoid, hol, ho1, ho18, hob⟩ := find_oid_known h.aiAlgid halg
  obtain ⟨block, hbl, hbb, hbuild⟩ := build_hash_signature_block k.dwKeyLen h.aiAlgid val
    h.dwHashSize dwFlags oid hoid hol (by rw [hvall]; exact hsz) (by omega) (by omega)
  obtain ⟨cph, hcph, hcl, hcb, hdec⟩ := hprim block hbl (hbb hvalbytes hob)
  have hblk : bytesAt (block ++ sig.drop k.dwKeyLen) 0 k.dwKeyLen = block := by
    rw [bytesAt_zero, List.take_left' hbl]
  refine ⟨sS, cph ++ sig.drop k.dwKeyLen, ?_, ?_⟩
  · unfold RSAENH_CPSignHash
    rw [if_neg (not_not.mpr hmask), hu, hs']
    simp only [not_true_eq_false, if_false]
    rw [hkey']
    simp only []
    rw [if_neg (Nat.not_lt.mpr hSigLen)]
    rw [hget]
    simp only []
    rw [hbuild sig hsiglen]
    simp only []
    rw [hblk, hcph]
    simp only []
    rw [memmove_zero _ _ (by rw [List.length_append, hcl, hbl]; omega),
      List.drop_append_eq_append_drop, List.drop_of_length_le (by omega), List.nil_append,
      hcl, hbl, Nat.sub_self, List.drop_zero]
  · -- the state after CPSignHash
    have hprovS : is_valid_handle sS.handle_table hProv is_container = true := by
      rw [htS, is_valid_handle_store _ hHash hProv (.hash h) (.hash h1) is_container
        ((lookup_hash_of_object _ _ _).mp hhash') rfl]
      exact hprov'
    have hpubS : lookup_key sS.handle_table hPubKey = some kV := by
      rw [htS]; exact lookup_key_store_hash _ _ _ _ _ _ hhash' hpub'
    have hhashS : lookup_hash sS.handle_table hHash = some h1 := by
      rw [htS]; exact lookup_hash_store_same _ _ _ _ hhash'
    obtain ⟨h2, hget2, -, -, -, h2eq, -⟩ :=
      get_hash_for_signature_ok impl sS hProv hHash h1 hprovS hhashS (by rw [h1alg]; exact halg)
        (by rw [h1st]; decide) (by rw [h1sz]; exact hsz)
    rw [h2eq h1st, h1alg, h1sz, hval] at hget2
    have hB := hbuild (heap_block k.dwKeyLen) (Nat.le_of_eq (List.length_replicate _ _).symm)
    refine ⟨sS.withTable (store_object sS.handle_table hHash (.hash h1)), ?_⟩
    rw [CPVerifySignature_of_hash impl sS _ hProv hHash k.dwKeyLen hPubKey dwFlags kV
      _ _ _ _ _ hmask hprovS hpubS hget2 hB, hsame.1, hsame.2.1, hsame.2.2, bytesAt_zero,
      List.take_left' hcl, hdec]
    simp only []
    rw [if_pos]
    rw [memmove_self _ _ hbl, List.drop_of_length_le
      (show (heap_block k.dwKeyLen).length ≤ k.dwKeyLen from
        Nat.le_of_eq (List.length_replicate _ _)), List.append_nil]

/-- Witness for C3: the round trip at the small engine, an MD5 hash object that has absorbed
1, 2, 3, and the RSA key of 48 bytes as signature key pair. -/
theorem signature_round_trip_witness :
    ∃ (sS : CSP Nat (List Nat)) (S : List Nat),
      RSAENH_CPSignHash toyImpl 
          (toySignState (toyHash CALG_MD5 16 RSAENH_HASHSTATE_HASHING [1, 2, 3])) 1 3 AT_SIGNATURE none 0 (some (List.replicate 48 0)) 48
        = some (true, sS, some S, toyRsaKey.dwKeyLen) ∧
      ∃ sV : CSP Nat (List Nat),
        RSAENH_CPVerifySignature toyImpl sS 1 3 S toyRsaKey.dwKeyLen 2 none 0
          = some (true, sV) :=
  signature_round_trip toyImpl 
          (toySignState (toyHash CALG_MD5 16 RSAENH_HASHSTATE_HASHING [1, 2, 3])) 1 3 AT_SIGNATURE 2 2 0 48 (List.replicate 48 0)
    { toyContainer 0 with hSignatureKeyPair := 2 } toyRsaKey toyRsaKey
    (toyHash CALG_MD5 16 RSAENH_HASHSTATE_HASHING [1, 2, 3])
    rfl (Or.inr ⟨rfl, rfl⟩) rfl (by decide) rfl ⟨rfl, rfl, rfl⟩ rfl
    (Or.inr (Or.inr (Or.inl rfl))) (Or.inl rfl) (by decide) (by decide) (by decide) (by decide)
    (Or.inl rfl) (toyImpl_BlockInverse _ _ _) (by decide) (by decide)

/-! ### Hash objects in the handle table -/

theorem store_object_store {κ η : Type} (t : HANDLETABLE κ η) (h : Nat) (o o1 o2 : OBJECT κ η)
    (hl : lookup_object t h = some o) :
    store_object (store_object t h o1) h o2 = store_object t h o2 := by
  obtain ⟨h0, rc, he⟩ := lookup_object_some t h o hl
  have hlt := getD_some_lt _ _ _ he
  unfold store_object
  simp only [if_neg h0, he, getD_set_same _ _ _ _ hlt, List.set_set]

theorem lookup_container_store_hash {κ η : Type} (t : HANDLETABLE κ η) (h h' : Nat)
    (x x' : CRYPTHASH η) (hh : lookup_hash t h = some x) :
    lookup_container (store_object t h (.hash x')) h' = lookup_container t h' := by
  rw [lookup_hash_of_object] at hh
  unfold lookup_container
  by_cases e : h = h'
  · subst e
    rw [lookup_object_store_same _ _ _ _ hh, hh]
  · rw [lookup_object_store_other _ _ _ _ e]

theorem get_algid_info_store_hash {κ η : Type} (t : HANDLETABLE κ η) (h hProv alg : Nat)
    (x x' : CRYPTHASH η) (hh : lookup_hash t h = some x) :
    get_algid_info (store_object t h (.hash x')) hProv alg = get_algid_info t hProv alg := by
  unfold get_algid_info
  rw [lookup_container_store_hash _ _ _ _ _ hh]

theorem is_valid_handle_store_hash {κ η : Type} (t : HANDLETABLE κ η) (h h' : Nat)
    (x x' : CRYPTHASH η) (tag : OBJECT κ η → Bool) (hh : lookup_hash t h = some x)
    (htag : tag (.hash x') = tag (.hash x)) :
    is_valid_handle (store_object t h (.hash x')) h' tag = is_valid_handle t h' tag :=
  is_valid_handle_store t h h' _ _ tag ((lookup_hash_of_object _ _ _).mp hh) htag

theorem is_valid_handle_container {κ η : Type} (t : HANDLETABLE κ η) (h : Nat)
    (c : KEYCONTAINER) (hc : lookup_container t h = some c) :
    is_valid_handle t h is_container = true := by
  unfold is_valid_handle
  rw [(lookup_container_of_object _ _ _).mp hc]
  rfl

theorem get_algid_info_ok_container {κ η : Type} (t : HANDLETABLE κ η) (hProv alg : Nat)
    (e : PROV_ENUMALGS_EX) (hg : get_algid_info t hProv alg = .ok e) :
    is_valid_handle t hProv is_container = true := by
  unfold get_algid_info at hg
  rcases hq : lookup_container t hProv with _ | c
  · rw [hq] at hg; cases hg
  · exact is_valid_handle_container _ _ _ hq

/-! ### HMAC -/

theorem zipWith_xor_zero : ∀ (l : List Nat),
    List.zipWith (fun a b => a ^^^ b) l (List.replicate l.length 0) = l
  | [] => rfl
  | a :: l => by
    rw [List.length_cons, List.replicate_succ, List.zipWith_cons_cons, zipWith_xor_zero l,
      Nat.xor_zero]

theorem xor_bytes_zipWith : ∀ (n : Nat) (dst src : List Nat), n ≤ dst.length → n ≤ src.length →
    xor_bytes n dst src
      = List.zipWith (fun a b => a ^^^ b) dst (src.take n ++ List.replicate (dst.length - n) 0)
  | 0, dst, src, _, _ => by
    unfold xor_bytes
    rw [List.take_zero, List.nil_append, Nat.sub_zero, zipWith_xor_zero]
  | n + 1, [], _, h, _ => by simp at h
  | n + 1, _ :: _, [], _, h => by simp at h
  | n + 1, d :: dst, a :: src, h1, h2 => by
    unfold xor_bytes
    rw [xor_bytes_zipWith n dst _ (by simpa using h1) (by simpa using h2)]
    simp

theorem hmac_pad_eq (pad : Nat) (k : List Nat) (n : Nat) (h64 : n ≤ 64) (hk : n ≤ k.length) :
    xor_bytes (min n 64) (memmove (heap_block 64) 0 (List.replicate 64 pad)) k
      = hmac_pad pad (bytesAt k 0 n) := by
  have e : memmove (heap_block 64) 0 (List.replicate 64 pad) = List.replicate 64 pad := by
    rw [memmove_self _ _ (List.length_replicate _ _)]
  rw [e, Nat.min_eq_left h64, xor_bytes_zipWith _ _ _ (by simpa using h64) hk]
  unfold hmac_pad
  rw [bytesAt_zero, List.length_replicate, List.length_take, Nat.min_eq_left hk]

theorem hmac_pad_length (pad : Nat) (K : List Nat) (h : K.length ≤ 64) :
    (hmac_pad pad K).length = 64 := by
  unfold hmac_pad
  simp only [List.length_zipWith, List.length_replicate, List.length_append]
  omega

/-- CPSetHashParam(HP_HMAC_INFO) with zero-length pad strings on an HMAC hash object: the
object gets the two pads combined with the key, the digest size of the inner
hash, and a context that has absorbed the inner pad. -/
theorem CPSetHashParam_hmac {κ η : Type} (impl : IMPL κ η) (s : CSP κ η) (hProv hHash alg : Nat)
    (h : CRYPTHASH η) (k : CRYPTKEY κ) (e : PROV_ENUMALGS_EX)
    (hprov : is_valid_handle s.handle_table hProv is_container = true)
    (hhash : lookup_hash s.handle_table hHash = some h) (hh : h.aiAlgid = CALG_HMAC)
    (hkey : lookup_key s.handle_table h.hKey = some k)
    (hklen : k.dwKeyLen ≤ 64) (hkmem : k.dwKeyLen ≤ k.abKeyValue.length)
    (hga : get_algid_info s.handle_table h.hProv alg = .ok e) :
    RSAENH_CPSetHashParam impl s hProv hHash HP_HMAC_INFO
        (.hmac_info (some ⟨alg, [], 0, [], 0⟩)) 0
      = some (true, s.withTable (store_object s.handle_table hHash (.hash
          { h with
            pHMACInfo := some ⟨alg, hmac_pad 0x36 (bytesAt k.abKeyValue 0 k.dwKeyLen), 64,
              hmac_pad 0x5c (bytesAt k.abKeyValue 0 k.dwKeyLen), 64⟩
            dwHashSize := e.dwDefaultLen / 8
            context := (impl.update_hash_impl alg (impl.init_hash_impl alg h.context).2
              (hmac_pad 0x36 (bytesAt k.abKeyValue 0 k.dwKeyLen))).2 }))) := by
  have hK : (bytesAt k.abKeyValue 0 k.dwKeyLen).length ≤ 64 := by
    rw [bytesAt_length _ _ _ (by omega)]; exact hklen
  unfold RSAENH_CPSetHashParam
  rw [hprov, hhash]
  simp only [not_true_eq_false, if_false, ne_eq, if_true]
  unfold copy_hmac_info
  simp only [if_true, ne_eq, not_true_eq_false, if_false, RSAENH_HMAC_DEF_PAD_LEN,
    RSAENH_HMAC_DEF_IPAD_CHAR, RSAENH_HMAC_DEF_OPAD_CHAR]
  rw [hkey]
  simp only []
  rw [hmac_pad_eq _ _ _ hklen hkmem, hmac_pad_eq _ _ _ hklen hkmem]
  unfold init_hash
  simp only [hh, if_true, hga, bytesAt_self _ _ (hmac_pad_length _ _ hK)]

/-- CPHashData on an HMAC hash object (with HMAC info) that is Idle or Hashing: the primitive
absorbs the data, the object is Hashing. -/
theorem CPHashData_hmac {κ η : Type} (impl : IMPL κ η) (s : CSP κ η) (hProv hHash : Nat)
    (h0 x : CRYPTHASH η) (info : HMAC_INFO) (e : PROV_ENUMALGS_EX) (d : List Nat)
    (hhash : lookup_hash s.handle_table hHash = some h0)
    (hga : get_algid_info s.handle_table hProv CALG_HMAC = .ok e)
    (hx : x.aiAlgid = CALG_HMAC) (hi : x.pHMACInfo = some info)
    (hst : x.dwState = RSAENH_HASHSTATE_IDLE ∨ x.dwState = RSAENH_HASHSTATE_HASHING) :
    RSAENH_CPHashData impl (s.withTable (store_object s.handle_table hHash (.hash x))) hProv
        hHash d 0
      = some (true, s.withTable (store_object s.handle_table hHash (.hash
          { x with
            dwState := RSAENH_HASHSTATE_HASHING
            context := (impl.update_hash_impl info.HashAlgid x.context d).2 }))) := by
  have hobj := (lookup_hash_of_object _ _ _).mp hhash
  obtain ⟨a, xk, xp, sz, st, ctx, v, pi, tp⟩ := x
  simp only at hx hi hst
  subst hx hi
  unfold RSAENH_CPHashData
  simp only [CSP.withTable, ne_eq, not_true_eq_false, if_false]
  rw [lookup_hash_store_same _ _ _ _ hhash]
  simp only []
  rw [get_algid_info_store_hash _ _ _ _ _ _ hhash, hga,
    if_neg (show ¬ ((Except.ok e : Except WINERROR PROV_ENUMALGS_EX).toBool = false ∨
      CALG_HMAC = CALG_SSL3_SHAMD5) from fun hc => hc.elim (fun h1 => Bool.noConfusion h1)
        (fun h2 => absurd h2 (by decide)))]
  rcases hst with e1 | e1 <;> subst e1
  · simp only [if_true, not_true_eq_false, if_false]
    unfold update_hash
    simp only [if_true]
    rw [store_object_store _ _ _ _ _ hobj, store_object_store _ _ _ _ _ hobj]
  · rw [if_neg (show ¬ RSAENH_HASHSTATE_HASHING = RSAENH_HASHSTATE_IDLE by decide)]
    simp only [not_true_eq_false, if_false]
    unfold update_hash
    simp only [if_true]
    rw [store_object_store _ _ _ _ _ hobj, store_object_store _ _ _ _ _ hobj]

theorem get_algid_info_hash_algs {κ η : Type} (t : HANDLETABLE κ η) (hProv : Nat)
    (c : KEYCONTAINER) (hc : lookup_container t hProv = some c) (hp : c.dwPersonality ≤ 3) :
    (∃ e, get_algid_info t hProv CALG_HMAC = .ok e) ∧
    (∃ e, get_algid_info t hProv CALG_MD5 = .ok e ∧ e.dwDefaultLen / 8 = 16) ∧
    (∃ e, get_algid_info t hProv CALG_SHA = .ok e ∧ e.dwDefaultLen / 8 = 20) := by
  unfold get_algid_info
  rw [hc]
  simp only []
  obtain ⟨p, hp'⟩ : ∃ p, c.dwPersonality = p := ⟨_, rfl⟩
  rw [hp'] at hp ⊢
  interval_cases p
  · exact ⟨⟨_, rfl⟩, ⟨_, rfl, rfl⟩, ⟨_, rfl, rfl⟩⟩
  · exact ⟨⟨_, rfl⟩, ⟨_, rfl, rfl⟩, ⟨_, rfl, rfl⟩⟩
  · exact ⟨⟨_, rfl⟩, ⟨_, rfl, rfl⟩, ⟨_, rfl, rfl⟩⟩
  · exact ⟨⟨_, rfl⟩, ⟨_, rfl, rfl⟩, ⟨_, rfl, rfl⟩⟩

/-- A sequence of CPHashData calls on an HMAC hash object that is Idle or Hashing: all calls
return TRUE and the context has absorbed the messages in a row. -/
theorem hash_data_seq_hmac {κ η : Type} (impl : IMPL κ η) (s : CSP κ η) (hProv hHash : Nat)
    (h0 : CRYPTHASH η) (info : HMAC_INFO) (e : PROV_ENUMALGS_EX) (H : List Nat → List Nat)
    (msg : η → List Nat)
    (hhash : lookup_hash s.handle_table hHash = some h0)
    (hga : get_algid_info s.handle_table hProv CALG_HMAC = .ok e)
    (hH : HashComputes impl info.HashAlgid H msg) :
    ∀ (ms : List (List Nat)) (x : CRYPTHASH η), x.aiAlgid = CALG_HMAC →
      x.pHMACInfo = some info →
      (x.dwState = RSAENH_HASHSTATE_IDLE ∨ x.dwState = RSAENH_HASHSTATE_HASHING) →
      ∃ (st : Nat) (ctx : η),
        hash_data_seq impl hProv hHash ms
            (s.withTable (store_object s.handle_table hHash (.hash x)))
          = some (true, s.withTable (store_object s.handle_table hHash
              (.hash { x with dwState := st, context := ctx }))) ∧
        msg ctx = msg x.context ++ ms.flatten ∧
        (ms ≠ [] ∨ x.dwState = RSAENH_HASHSTATE_HASHING → st = RSAENH_HASHSTATE_HASHING)
  | [], x, _, _, _ => by
    refine ⟨x.dwState, x.context, ?_, by simp, fun hc => hc.elim (fun h => absurd rfl h) id⟩
    unfold hash_data_seq
    rfl
  | m :: ms, x, hx, hi, hst => by
    obtain ⟨st, ctx, hseq, hmsg, hstH⟩ := hash_data_seq_hmac impl s hProv hHash h0 info e H msg
      hhash hga hH ms
      { x with dwState := RSAENH_HASHSTATE_HASHING
               context := (impl.update_hash_impl info.HashAlgid x.context m).2 }
      hx hi (Or.inr rfl)
    refine ⟨st, ctx, ?_, ?_, fun _ => hstH (Or.inr rfl)⟩
    · unfold hash_data_seq
      rw [CPHashData_hmac impl s hProv hHash h0 x info e m hhash hga hx hi hst]
      simp only []
      rw [hseq]
    · rw [hmsg, hH.2.1, List.flatten_cons, List.append_assoc]

/-- The function finalize_hash on an HMAC hash object whose primitive computes `H`: the first
dwHashSize bytes of the digest array are `H(outer || H(absorbed))`. -/
theorem finalize_hash_hmac {κ η : Type} (impl : IMPL κ η) (s : CSP κ η) (x : CRYPTHASH η)
    (info : HMAC_INFO) (H : List Nat → List Nat) (msg : η → List Nat)
    (hx : x.aiAlgid = CALG_HMAC) (hi : x.pHMACInfo = some info)
    (hH : HashComputes impl info.HashAlgid H msg)
    (hlen : ∀ y, (H y).length = x.dwHashSize) (hval : x.dwHashSize ≤ x.abHashValue.length)
    (hout : info.pbOuterString.length = info.cbOuterString) :
    ∃ (ctx : η) (v : List Nat),
      finalize_hash impl s x = some (s, { x with context := ctx, abHashValue := v }) ∧
      bytesAt v 0 x.dwHashSize = H (info.pbOuterString ++ H (msg x.context)) := by
  obtain ⟨a, xk, xp, sz, st, ctx, v, pi, tp⟩ := x
  simp only at hx hi hlen hval
  subst hx hi
  have hb : ∀ (w y : List Nat), sz ≤ w.length → bytesAt (memmove w 0 (H y)) 0 sz = H y := by
    intro w y hw
    rw [memmove_zero _ _ (by rw [hlen]; exact hw), bytesAt_zero, List.take_left' (hlen y)]
  apply Exists.intro
  apply Exists.intro
  constructor
  · unfold finalize_hash
    simp only [if_true]
    rfl
  · simp only []
    rw [hH.2.2, hH.2.2, hb _ _ hval, hb _ _ (by rw [memmove_length]; exact hval), hH.2.1,
      hH.2.1, hH.1, List.nil_append, bytesAt_self _ _ hout]

/-- A digest read (CPGetHashParam HP_HASHVAL with a buffer) on a hash object in state Hashing
whose finalize_hash returns: the object is Finished and the buffer holds the
first dwHashSize bytes of the digest array. -/
theorem CPGetHashParam_hashval_store {κ η : Type} (impl : IMPL κ η) (s : CSP κ η)
    (hProv hHash n : Nat) (buf : List Nat) (h0 x xf : CRYPTHASH η)
    (hprov : is_valid_handle s.handle_table hProv is_container = true)
    (hhash : lookup_hash s.handle_table hHash = some h0)
    (hnprf : x.aiAlgid ≠ CALG_TLS1PRF) (hst : x.dwState = RSAENH_HASHSTATE_HASHING)
    (hfin : finalize_hash impl (s.withTable (store_object s.handle_table hHash (.hash x))) x
      = some (s.withTable (store_object s.handle_table hHash (.hash x)), xf))
    (hn : xf.dwHashSize ≤ n) :
    RSAENH_CPGetHashParam impl (s.withTable (store_object s.handle_table hHash (.hash x)))
        hProv hHash HP_HASHVAL (some buf) (some n) 0
      = some (true,
          s.withTable (store_object s.handle_table hHash
            (.hash { xf with dwState := RSAENH_HASHSTATE_FINISHED })),
          some (memmove buf 0 (bytesAt xf.abHashValue 0 xf.dwHashSize)), some xf.dwHashSize) := by
  have hobj := (lookup_hash_of_object _ _ _).mp hhash
  unfold RSAENH_CPGetHashParam
  have e1 : (s.withTable (store_object s.handle_table hHash (.hash x))).handle_table
      = store_object s.handle_table hHash (.hash x) := rfl
  rw [e1, is_valid_handle_store_hash _ hHash hProv h0 x is_container hhash rfl, hprov,
    lookup_hash_store_same _ _ _ _ hhash]
  simp only [not_true_eq_false, if_false, ne_eq, if_true]
  rw [if_neg (show ¬ HP_HASHVAL = HP_ALGID by decide),
    if_neg (show ¬ HP_HASHVAL = HP_HASHSIZE by decide), if_neg hnprf,
    if_neg (by rw [hst]; decide)]
  simp only [Option.isSome_some, true_and]
  rw [if_pos (by rw [hst]; decide), hfin]
  simp only []
  unfold copy_param
  simp only [CSP.withTable]
  rw [if_neg (Nat.not_lt.mpr hn), store_object_store _ _ _ _ _ hobj]

/-- C5. HMAC construction.  An Idle HMAC hash object `h` of the provider `hProv` is bound to the
key `k` of at most 64 bytes; the hash primitive of the inner algorithm `alg`
(MD5 or SHA-1) computes `H` over the concatenation of its updates.  Then
CPSetHashParam(HP_HMAC_INFO) with zero-length pad strings, any sequence of one
or more CPHashData calls with the messages `m :: ms`, and a digest read all
return TRUE, and the digest read is
`H((opad xor K) || H((ipad xor K) || m1 || ... || mn))` for the key bytes `K`
zero-extended to 64 bytes. -/
theorem hmac_construction {κ η : Type} (impl : IMPL κ η) (s : CSP κ η)
    (hProv hHash alg n : Nat) (c : KEYCONTAINER) (h : CRYPTHASH η) (k : CRYPTKEY κ)
    (H : List Nat → List Nat) (msg : η → List Nat) (m : List Nat) (ms : List (List Nat))
    (buf : List Nat)
    (hcont : lookup_container s.handle_table hProv = some c) (hpers : c.dwPersonality ≤ 3)
    (hhash : lookup_hash s.handle_table hHash = some h) (hh : h.aiAlgid = CALG_HMAC)
    (hhp : h.hProv = hProv) (hidle : h.dwState = RSAENH_HASHSTATE_IDLE)
    (hvlen : h.abHashValue.length = RSAENH_MAX_HASH_SIZE)
    (hkey : lookup_key s.handle_table h.hKey = some k)
    (hklen : k.dwKeyLen ≤ 64) (hkmem : k.dwKeyLen ≤ k.abKeyValue.length)
    (halg : alg = CALG_MD5 ∨ alg = CALG_SHA)
    (hH : HashComputes impl alg H msg)
    (hlen : ∀ y, (H y).length = if alg = CALG_MD5 then 16 else 20)
    (hn : (if alg = CALG_MD5 then 16 else 20) ≤ n) (hbuf : n ≤ buf.length) :
    ∃ (s1 s2 s3 : CSP κ η) (out : List Nat),
      RSAENH_CPSetHashParam impl s hProv hHash HP_HMAC_INFO
          (.hmac_info (some ⟨alg, [], 0, [], 0⟩)) 0 = some (true, s1) ∧
      hash_data_seq impl hProv hHash (m :: ms) s1 = some (true, s2) ∧
      RSAENH_CPGetHashParam impl s2 hProv hHash HP_HASHVAL (some buf) (some n) 0
        = some (true, s3, some out, some (if alg = CALG_MD5 then 16 else 20)) ∧
      bytesAt out 0 (if alg = CALG_MD5 then 16 else 20)
        = hmac_rfc2104 H (bytesAt k.abKeyValue 0 k.dwKeyLen) (m :: ms).flatten := by
  obtain ⟨dl, hdl⟩ : ∃ dl, (if alg = CALG_MD5 then 16 else 20) = dl := ⟨_, rfl⟩
  rw [hdl] at hn
  simp only [hdl] at hlen ⊢
  have hdl104 : dl ≤ RSAENH_MAX_HASH_SIZE := by
    rw [← hdl]; split <;> decide
  have hprov := is_valid_handle_container _ _ _ hcont
  obtain ⟨⟨eH, hgaH⟩, ⟨e5, hga5, hs5⟩, ⟨eS, hgaS, hsS⟩⟩ :=
    get_algid_info_hash_algs s.handle_table hProv c hcont hpers
  obtain ⟨e, hga, hsz⟩ : ∃ e, get_algid_info s.handle_table h.hProv alg = .ok e ∧
      e.dwDefaultLen / 8 = dl := by
    rw [hhp]
    rcases halg with a | a
    · exact ⟨e5, by rw [a]; exact hga5, by rw [hs5, ← hdl, if_pos a]⟩
    · exact ⟨eS, by rw [a]; exact hgaS, by rw [hsS, ← hdl, if_neg (by rw [a]; decide)]⟩
  obtain ⟨K, hK⟩ : ∃ K, bytesAt k.abKeyValue 0 k.dwKeyLen = K := ⟨_, rfl⟩
  have hKl : K.length ≤ 64 := by
    rw [← hK, bytesAt_length _ _ _ (by omega)]; exact hklen
  have hset := CPSetHashParam_hmac impl s hProv hHash alg h k e hprov hhash hh hkey hklen hkmem
    hga
  rw [hK, hsz] at hset
  obtain ⟨hA, hhA⟩ : ∃ hA : CRYPTHASH η, ({ h with
      pHMACInfo := some ⟨alg, hmac_pad 0x36 K, 64, hmac_pad 0x5c K, 64⟩
      dwHashSize := dl
      context := (impl.update_hash_impl alg (impl.init_hash_impl alg h.context).2
        (hmac_pad 0x36 K)).2 } : CRYPTHASH η) = hA := ⟨_, rfl⟩
  rw [hhA] at hset
  have hAalg : hA.aiAlgid = CALG_HMAC := by rw [← hhA]; exact hh
  have hAinfo : hA.pHMACInfo = some ⟨alg, hmac_pad 0x36 K, 64, hmac_pad 0x5c K, 64⟩ := by
    rw [← hhA]
  have hAst : hA.dwState = RSAENH_HASHSTATE_IDLE := by rw [← hhA]; exact hidle
  have hAmsg : msg hA.context = hmac_pad 0x36 K := by
    rw [← hhA]
    simp only []
    rw [hH.2.1, hH.1, List.nil_append]
  have hAsz : hA.dwHashSize = dl := by rw [← hhA]
  have hAv : hA.abHashValue.length = RSAENH_MAX_HASH_SIZE := by rw [← hhA]; exact hvlen
  obtain ⟨st, ctx, hseq, hmsg, hstH⟩ := hash_data_seq_hmac impl s hProv hHash h
    ⟨alg, hmac_pad 0x36 K, 64, hmac_pad 0x5c K, 64⟩ eH H msg hhash hgaH hH (m :: ms) hA hAalg
    hAinfo (Or.inl hAst)
  have hst := hstH (Or.inl (List.cons_ne_nil _ _))
  subst hst
  obtain ⟨hB, hhB⟩ : ∃ hB : CRYPTHASH η,
      ({ hA with dwState := RSAENH_HASHSTATE_HASHING, context := ctx } : CRYPTHASH η) = hB :=
    ⟨_, rfl⟩
  rw [hhB] at hseq
  have hBalg : hB.aiAlgid = CALG_HMAC := by rw [← hhB]; exact hAalg
  have hBinfo : hB.pHMACInfo = some ⟨alg, hmac_pad 0x36 K, 64, hmac_pad 0x5c K, 64⟩ := by
    rw [← hhB]; exact hAinfo
  have hBsz : hB.dwHashSize = dl := by rw [← hhB]; exact hAsz
  have hBst : hB.dwState = RSAENH_HASHSTATE_HASHING := by rw [← hhB]
  have hBctx : hB.context = ctx := by rw [← hhB]
  have hBv : hB.abHashValue.length = RSAENH_MAX_HASH_SIZE := by rw [← hhB]; exact hAv
  obtain ⟨cf, v, hfin, hv⟩ := finalize_hash_hmac impl
    (s.withTable (store_object s.handle_table hHash (.hash hB))) hB
    ⟨alg, hmac_pad 0x36 K, 64, hmac_pad 0x5c K, 64⟩ H msg hBalg hBinfo hH
    (by intro y; rw [hlen, hBsz]) (by rw [hBsz, hBv]; exact hdl104)
    (hmac_pad_length _ _ hKl)
  have hread := CPGetHashParam_hashval_store impl s hProv hHash n buf h hB
    { hB with context := cf, abHashValue := v } hprov hhash (by rw [hBalg]; decide) hBst hfin
    (by show hB.dwHashSize ≤ n; rw [hBsz]; exact hn)
  simp only [hBsz] at hread hv
  have hvl : (bytesAt v 0 dl).length = dl := by rw [hv, hlen]
  have hout : bytesAt (memmove buf 0 (bytesAt v 0 dl)) 0 dl
      = hmac_rfc2104 H (bytesAt k.abKeyValue 0 k.dwKeyLen) (m :: ms).flatten := by
    rw [memmove_zero _ _ (by rw [hvl]; omega), bytesAt_zero, List.take_left' hvl, hv, hBctx,
      hmsg, hAmsg, hK]
    rfl
  exact ⟨_, _, _, _, hset, hseq, hread, hout⟩

theorem toyImpl_HashComputes (alg : Nat) : HashComputes toyImpl alg (toyDigest alg) id :=
  ⟨fun _ => rfl, fun _ _ => rfl, fun _ => rfl⟩

theorem toyDigest_length (alg : Nat) (y : List Nat) :
    (toyDigest alg y).length = if alg = CALG_SHA then 20 else 16 := by
  unfold toyDigest
  rw [List.length_map, List.length_range]

/-- Witness for C5: HMAC over the MD5 slot of the small engine, a key of 5 bytes and the
messages 1, 2 and 3. -/
theorem hmac_construction_witness :
    ∃ (s1 s2 s3 : CSP Nat (List Nat)) (out : List Nat),
      RSAENH_CPSetHashParam toyImpl 
          (toyState 0 [.key (toySecretKey CALG_RC4 5 0 [1, 2, 3, 4, 5]),
            .hash { toyHash CALG_HMAC 0 RSAENH_HASHSTATE_IDLE [] with hKey := 2 }]) 1 3 HP_HMAC_INFO
          (.hmac_info (some ⟨CALG_MD5, [], 0, [], 0⟩)) 0 = some (true, s1) ∧
      hash_data_seq toyImpl 1 3 ([1, 2] :: [[3]]) s1 = some (true, s2) ∧
      RSAENH_CPGetHashParam toyImpl s2 1 3 HP_HASHVAL (some (List.replicate 16 0)) (some 16) 0
        = some (true, s3, some out, some (if CALG_MD5 = CALG_MD5 then 16 else 20)) ∧
      bytesAt out 0 (if CALG_MD5 = CALG_MD5 then 16 else 20)
        = hmac_rfc2104 (toyDigest CALG_MD5)
            (bytesAt (toySecretKey CALG_RC4 5 0 [1, 2, 3, 4, 5]).abKeyValue 0
              (toySecretKey CALG_RC4 5 0 [1, 2, 3, 4, 5]).dwKeyLen)
            ([1, 2] :: [[3]]).flatten :=
  hmac_construction toyImpl 
          (toyState 0 [.key (toySecretKey CALG_RC4 5 0 [1, 2, 3, 4, 5]),
            .hash { toyHash CALG_HMAC 0 RSAENH_HASHSTATE_IDLE [] with hKey := 2 }]) 1 3 CALG_MD5 16 (toyContainer 0)
    { toyHash CALG_HMAC 0 RSAENH_HASHSTATE_IDLE [] with hKey := 2 }
    (toySecretKey CALG_RC4 5 0 [1, 2, 3, 4, 5]) (toyDigest CALG_MD5) id [1, 2] [[3]]
    (List.replicate 16 0) rfl (by decide) rfl rfl rfl rfl (by decide) rfl (by decide) (by decide)
    (Or.inl rfl) (toyImpl_HashComputes _)
    (fun y => by rw [toyDigest_length]; decide) (by decide) (by decide)

/-! ### new_key and CPDeriveKey -/

theorem lookup_object_new {κ η : Type} (t : HANDLETABLE κ η) (o : OBJECT κ η) :
    lookup_object (new_object t o).1 (new_object t o).2 = some o := by
  unfold new_object lookup_object
  simp only [Nat.add_one_ne_zero, if_false, Nat.add_sub_cancel]
  rw [List.getD_eq_getElem?_getD, List.getElem?_append_right (Nat.le_refl _)]
  simp

theorem lookup_object_new_old {κ η : Type} (t : HANDLETABLE κ η) (o : OBJECT κ η) (h : Nat)
    (hh : h ≤ t.entries.length) :
    lookup_object (new_object t o).1 h = lookup_object t h := by
  unfold new_object lookup_object
  by_cases h0 : h = 0
  · rw [if_pos h0, if_pos h0]
  · rw [if_neg h0, if_neg h0, List.getD_eq_getElem?_getD, List.getD_eq_getElem?_getD,
      List.getElem?_append_left (by omega)]

/-- A key that new_key returns: the handle names it in the new table, the arrays for the raw key
material and the init vector have their full length, and the old handles name
what they named. -/
theorem new_key_some {κ η : Type} (impl : IMPL κ η) (s s1 : CSP κ η)
    (hProv aiAlgid dwFlags hKey : Nat) (k : CRYPTKEY κ)
    (hn : new_key impl s hProv aiAlgid dwFlags = (s1, some (hKey, k))) :
    lookup_key s1.handle_table hKey = some k ∧
    k.abKeyValue = List.replicate RSAENH_MAX_KEY_SIZE 0 ∧
    k.abInitVector = List.replicate RSAENH_MAX_BLOCK_SIZE 0 ∧
    hKey = s.handle_table.entries.length + 1 ∧
    (∀ h, h ≤ s.handle_table.entries.length →
      lookup_object s1.handle_table h = lookup_object s.handle_table h) ∧
    s1.last_error = s.last_error ∧ s1.rand = s.rand := by
  unfold new_key at hn
  rcases hq : get_algid_info s.handle_table hProv aiAlgid with e | pea
  · rw [hq] at hn
    simp only [Prod.mk.injEq] at hn
    exact absurd hn.2 (by simp)
  · rw [hq] at hn
    simp only [] at hn
    rcases hl : new_key_length aiAlgid pea
        (if HIWORD dwFlags = 0 then pea.dwDefaultLen else HIWORD dwFlags) with _ | len
    · rw [hl] at hn
      simp only [Prod.mk.injEq] at hn
      exact absurd hn.2 (by simp)
    · rw [hl] at hn
      simp only [Prod.mk.injEq, Option.some.injEq] at hn
      obtain ⟨hs1, hh, hk⟩ := hn
      subst hs1 hh hk
      refine ⟨?_, rfl, rfl, rfl, fun h hh => lookup_object_new_old _ _ _ hh, rfl, rfl⟩
      rw [lookup_key_of_object]
      exact lookup_object_new _ _

theorem setup_key_fields {κ η : Type} (impl : IMPL κ η) (k : CRYPTKEY κ) :
    (setup_key impl k).abKeyValue = k.abKeyValue ∧
    (setup_key impl k).abInitVector = k.abInitVector ∧
    (setup_key impl k).abChainVector = k.abInitVector ∧
    (setup_key impl k).dwState = RSAENH_KEYSTATE_IDLE ∧
    (setup_key impl k).dwBlockLen = k.dwBlockLen ∧
    (setup_key impl k).dwKeyLen = k.dwKeyLen ∧
    (setup_key impl k).aiAlgid = k.aiAlgid :=
  ⟨rfl, rfl, rfl, rfl, rfl, rfl, rfl⟩

theorem bytesAt_memmove_zeros (z src : List Nat) (n : Nat) (hs : src.length = n)
    (hz : n ≤ z.length) : bytesAt (memmove z 0 src) 0 n = src := by
  rw [memmove_zero _ _ (by omega), bytesAt_zero, List.take_left' hs]

/-- CPDeriveKey for CALG_SCHANNEL_MAC_KEY, when new_key gives a key: the raw key material of the
derived key is the slice of the digest array of the hash object at offset 0,
or at offset `m` when CRYPT_SERVER is set. -/
theorem CPDeriveKey_mac_key {κ η : Type} (impl : IMPL κ η) (s s1 : CSP κ η)
    (hProv hBaseData dwFlags ph hKey : Nat) (h : CRYPTHASH η) (km k : CRYPTKEY κ)
    (hprov : is_valid_handle s.handle_table hProv is_container = true)
    (hhash : lookup_hash s.handle_table hBaseData = some h)
    (hmk : lookup_key s.handle_table h.hKey = some km)
    (hnew : new_key impl s hProv CALG_SCHANNEL_MAC_KEY
      (MAKELONG (LOWORD dwFlags) km.siSChannelInfo.saMACAlg.cBits) = (s1, some (hKey, k)))
    (hvlen : h.abHashValue.length = RSAENH_MAX_HASH_SIZE)
    (hm : km.siSChannelInfo.saMACAlg.cBits / 8 ≤ RSAENH_MAX_KEY_SIZE) :
    ∃ (s' : CSP κ η) (k' : CRYPTKEY κ),
      RSAENH_CPDeriveKey impl s hProv CALG_SCHANNEL_MAC_KEY hBaseData dwFlags (some ph)
        = some (true, s', some hKey) ∧
      lookup_key s'.handle_table hKey = some k' ∧
      bytesAt k'.abKeyValue 0 (km.siSChannelInfo.saMACAlg.cBits / 8)
        = bytesAt h.abHashValue
            ((if dwFlags &&& CRYPT_SERVER ≠ 0 then 1 else 0) *
              (km.siSChannelInfo.saMACAlg.cBits / 8))
            (km.siSChannelInfo.saMACAlg.cBits / 8) := by
  obtain ⟨hk1, hkv, -, -, -, -, -⟩ := new_key_some impl s s1 hProv _ _ hKey k hnew
  obtain ⟨m, hmm⟩ : ∃ m, km.siSChannelInfo.saMACAlg.cBits / 8 = m := ⟨_, rfl⟩
  rw [hmm] at hm ⊢
  have h48 : RSAENH_MAX_KEY_SIZE = 48 := rfl
  have h104 : RSAENH_MAX_HASH_SIZE = 104 := rfl
  refine ⟨s1.withTable (store_object s1.handle_table hKey (.key (setup_key impl
      { k with abKeyValue := memmove k.abKeyValue 0 (bytesAt h.abHashValue
          (if dwFlags &&& CRYPT_SERVER ≠ 0 then m else 0) m) }))), _, ?_,
    lookup_key_store_same _ _ _ _ hk1, ?_⟩
  · unfold RSAENH_CPDeriveKey
    rw [hprov, hhash]
    simp only [not_true_eq_false, if_false, Option.isNone_some, Bool.false_eq_true]
    rw [if_neg (show ¬ GET_ALG_CLASS CALG_SCHANNEL_MAC_KEY = ALG_CLASS_DATA_ENCRYPT by decide),
      if_pos (show GET_ALG_CLASS CALG_SCHANNEL_MAC_KEY = ALG_CLASS_MSG_ENCRYPT by decide), hmk]
    simp only []
    rw [if_neg (show ¬ CALG_SCHANNEL_MAC_KEY = CALG_SCHANNEL_ENC_KEY by decide), if_pos trivial,
      hnew, hmm]
  · rw [(setup_key_fields impl _).1]
    simp only []
    rw [hkv]
    have hsl : ∀ off, off + m ≤ 104 → (bytesAt h.abHashValue off m).length = m :=
      fun off ho => bytesAt_length _ _ _ (by omega)
    by_cases hsrv : dwFlags &&& CRYPT_SERVER ≠ 0
    · rw [if_pos hsrv, if_pos hsrv, Nat.one_mul]
      exact bytesAt_memmove_zeros _ _ _ (hsl _ (by omega)) (by simp; omega)
    · rw [if_neg hsrv, if_neg hsrv, Nat.zero_mul]
      exact bytesAt_memmove_zeros _ _ _ (hsl _ (by omega)) (by simp; omega)

/-- CPDeriveKey for CALG_SCHANNEL_ENC_KEY, when new_key gives a key: the raw key material and
the init vector of the derived key are slices of the digest array of the hash
object; with `m` and `e` the byte lengths of the MAC and the encryption key and
`b` the block length of the derived key, the key is at offset `2m` and the init
vector at offset `2m + 2e`, or at `2m + e` and `2m + 2e + b` when CRYPT_SERVER
is set. -/
theorem CPDeriveKey_enc_key {κ η : Type} (impl : IMPL κ η) (s s1 : CSP κ η)
    (hProv hBaseData dwFlags ph hKey : Nat) (h : CRYPTHASH η) (km k : CRYPTKEY κ)
    (hprov : is_valid_handle s.handle_table hProv is_container = true)
    (hhash : lookup_hash s.handle_table hBaseData = some h)
    (hmk : lookup_key s.handle_table h.hKey = some km)
    (hnew : new_key impl s hProv km.siSChannelInfo.saEncAlg.Algid
      (MAKELONG (LOWORD dwFlags) km.siSChannelInfo.saEncAlg.cBits) = (s1, some (hKey, k)))
    (hvlen : h.abHashValue.length = RSAENH_MAX_HASH_SIZE)
    (he : km.siSChannelInfo.saEncAlg.cBits / 8 ≤ RSAENH_MAX_KEY_SIZE)
    (hb : k.dwBlockLen ≤ RSAENH_MAX_BLOCK_SIZE)
    (hsum : 2 * (km.siSChannelInfo.saMACAlg.cBits / 8) +
      2 * (km.siSChannelInfo.saEncAlg.cBits / 8) + 2 * k.dwBlockLen ≤ RSAENH_MAX_HASH_SIZE) :
    ∃ (s' : CSP κ η) (k' : CRYPTKEY κ),
      RSAENH_CPDeriveKey impl s hProv CALG_SCHANNEL_ENC_KEY hBaseData dwFlags (some ph)
        = some (true, s', some hKey) ∧
      lookup_key s'.handle_table hKey = some k' ∧
      k'.dwBlockLen = k.dwBlockLen ∧
      bytesAt k'.abKeyValue 0 (km.siSChannelInfo.saEncAlg.cBits / 8)
        = bytesAt h.abHashValue
            (2 * (km.siSChannelInfo.saMACAlg.cBits / 8) +
              (if dwFlags &&& CRYPT_SERVER ≠ 0 then 1 else 0) *
                (km.siSChannelInfo.saEncAlg.cBits / 8))
            (km.siSChannelInfo.saEncAlg.cBits / 8) ∧
      bytesAt k'.abInitVector 0 k.dwBlockLen
        = bytesAt h.abHashValue
            (2 * (km.siSChannelInfo.saMACAlg.cBits / 8) +
              2 * (km.siSChannelInfo.saEncAlg.cBits / 8) +
              (if dwFlags &&& CRYPT_SERVER ≠ 0 then 1 else 0) * k.dwBlockLen)
            k.dwBlockLen := by
  obtain ⟨hk1, hkv, hiv, -, -, -, -⟩ := new_key_some impl s s1 hProv _ _ hKey k hnew
  obtain ⟨m, hmm⟩ : ∃ m, km.siSChannelInfo.saMACAlg.cBits / 8 = m := ⟨_, rfl⟩
  obtain ⟨e, hee⟩ : ∃ e, km.siSChannelInfo.saEncAlg.cBits / 8 = e := ⟨_, rfl⟩
  obtain ⟨b, hbb⟩ : ∃ b, k.dwBlockLen = b := ⟨_, rfl⟩
  rw [hmm, hee, hbb] at hsum
  rw [hee] at he
  rw [hbb] at hb
  simp only [hmm, hee, hbb]
  have h48 : RSAENH_MAX_KEY_SIZE = 48 := rfl
  have h24 : RSAENH_MAX_BLOCK_SIZE = 24 := rfl
  have h104 : RSAENH_MAX_HASH_SIZE = 104 := rfl
  refine ⟨s1.withTable (store_object s1.handle_table hKey (.key (setup_key impl
      { k with
        abKeyValue := memmove k.abKeyValue 0 (bytesAt h.abHashValue
          (dwAdd (dwMul 2 m) (if dwFlags &&& CRYPT_SERVER ≠ 0 then e else 0)) e)
        abInitVector := memmove k.abInitVector 0 (bytesAt h.abHashValue
          (dwAdd (dwAdd (dwMul 2 m) (dwMul 2 e))
            (if dwFlags &&& CRYPT_SERVER ≠ 0 then b else 0)) b) }))), _, ?_,
    lookup_key_store_same _ _ _ _ hk1, ?_, ?_, ?_⟩
  · unfold RSAENH_CPDeriveKey
    rw [hprov, hhash]
    simp only [not_true_eq_false, if_false, Option.isNone_some, Bool.false_eq_true]
    rw [if_neg (show ¬ GET_ALG_CLASS CALG_SCHANNEL_ENC_KEY = ALG_CLASS_DATA_ENCRYPT by decide),
      if_pos (show GET_ALG_CLASS CALG_SCHANNEL_ENC_KEY = ALG_CLASS_MSG_ENCRYPT by decide), hmk]
    simp only []
    rw [if_pos trivial, hnew, hmm, hee]
    simp only [hbb]
  · rw [(setup_key_fields impl _).2.2.2.2.1]
    exact hbb
  · rw [(setup_key_fields impl _).1]
    simp only []
    rw [hkv, dwMul_eq _ _ (by omega)]
    have hsl : ∀ off, off + e ≤ 104 → (bytesAt h.abHashValue off e).length = e :=
      fun off ho => bytesAt_length _ _ _ (by omega)
    by_cases hsrv : dwFlags &&& CRYPT_SERVER ≠ 0
    · rw [if_pos hsrv, if_pos hsrv, Nat.one_mul, dwAdd_eq _ _ (by omega)]
      exact bytesAt_memmove_zeros _ _ _ (hsl _ (by omega)) (by simp; omega)
    · rw [if_neg hsrv, if_neg hsrv, Nat.zero_mul, dwAdd_eq _ _ (by omega)]
      exact bytesAt_memmove_zeros _ _ _ (hsl _ (by omega)) (by simp; omega)
  · rw [(setup_key_fields impl _).2.1]
    simp only []
    rw [hiv, dwMul_eq _ _ (by omega), dwMul_eq _ _ (by omega), dwAdd_eq (2 * m) _ (by omega)]
    have hsl : ∀ off, off + b ≤ 104 → (bytesAt h.abHashValue off b).length = b :=
      fun off ho => bytesAt_length _ _ _ (by omega)
    by_cases hsrv : dwFlags &&& CRYPT_SERVER ≠ 0
    · rw [if_pos hsrv, if_pos hsrv, Nat.one_mul, dwAdd_eq _ _ (by omega)]
      exact bytesAt_memmove_zeros _ _ _ (hsl _ (by omega)) (by simp; omega)
    · rw [if_neg hsrv, if_neg hsrv, Nat.zero_mul, dwAdd_eq _ _ (by omega)]
      exact bytesAt_memmove_zeros _ _ _ (hsl _ (by omega)) (by simp; omega)

/-- C8. SChannel sub-key layout.  The hash object `h` (digest array of 104 bytes, the key
expansion block) belongs to the master key `km`; `m` and `e` are the configured
MAC and encryption key bits / 8; new_key gives the key `kM` for the MAC key and
the key `kE` with block length `b` for the encryption key.  Then there is a role
index `r` in {0,1} such that CPDeriveKey(CALG_SCHANNEL_MAC_KEY) returns a key
whose raw material is bytes [r*m, r*m + m) of the block, and
CPDeriveKey(CALG_SCHANNEL_ENC_KEY) returns a key whose raw material is bytes
[2m + r*e, 2m + r*e + e) and whose init vector is bytes
[2m + 2e + r*b, 2m + 2e + r*b + b). -/
theorem schannel_subkey_layout {κ η : Type} (impl : IMPL κ η) (s sM sE : CSP κ η)
    (hProv hBaseData dwFlags ph hKM hKE m e b : Nat) (h : CRYPTHASH η) (km kM kE : CRYPTKEY κ)
    (hprov : is_valid_handle s.handle_table hProv is_container = true)
    (hhash : lookup_hash s.handle_table hBaseData = some h)
    (hmk : lookup_key s.handle_table h.hKey = some km)
    (hm : m = km.siSChannelInfo.saMACAlg.cBits / 8)
    (he : e = km.siSChannelInfo.saEncAlg.cBits / 8)
    (hnewM : new_key impl s hProv CALG_SCHANNEL_MAC_KEY
      (MAKELONG (LOWORD dwFlags) km.siSChannelInfo.saMACAlg.cBits) = (sM, some (hKM, kM)))
    (hnewE : new_key impl s hProv km.siSChannelInfo.saEncAlg.Algid
      (MAKELONG (LOWORD dwFlags) km.siSChannelInfo.saEncAlg.cBits) = (sE, some (hKE, kE)))
    (hb : b = kE.dwBlockLen)
    (hvlen : h.abHashValue.length = RSAENH_MAX_HASH_SIZE)
    (hm48 : m ≤ RSAENH_MAX_KEY_SIZE) (he48 : e ≤ RSAENH_MAX_KEY_SIZE)
    (hb24 : b ≤ RSAENH_MAX_BLOCK_SIZE)
    (hsum : 2 * m + 2 * e + 2 * b ≤ RSAENH_MAX_HASH_SIZE) :
    ∃ r : Nat, r ≤ 1 ∧
      (∃ (s' : CSP κ η) (k' : CRYPTKEY κ),
        RSAENH_CPDeriveKey impl s hProv CALG_SCHANNEL_MAC_KEY hBaseData dwFlags (some ph)
          = some (true, s', some hKM) ∧
        lookup_key s'.handle_table hKM = some k' ∧
        bytesAt k'.abKeyValue 0 m = bytesAt h.abHashValue (r * m) m) ∧
      (∃ (s' : CSP κ η) (k' : CRYPTKEY κ),
        RSAENH_CPDeriveKey impl s hProv CALG_SCHANNEL_ENC_KEY hBaseData dwFlags (some ph)
          = some (true, s', some hKE) ∧
        lookup_key s'.handle_table hKE = some k' ∧
        k'.dwBlockLen = b ∧
        bytesAt k'.abKeyValue 0 e = bytesAt h.abHashValue (2 * m + r * e) e ∧
        bytesAt k'.abInitVector 0 b = bytesAt h.abHashValue (2 * m + 2 * e + r * b) b) := by
  subst hm he hb
  refine ⟨if dwFlags &&& CRYPT_SERVER ≠ 0 then 1 else 0, by split <;> decide, ?_, ?_⟩
  · exact CPDeriveKey_mac_key impl s sM hProv hBaseData dwFlags ph hKM h km kM hprov hhash hmk
      hnewM hvlen hm48
  · exact CPDeriveKey_enc_key impl s sE hProv hBaseData dwFlags ph hKE h km kE hprov hhash hmk
      hnewE hvlen he48 hb24 hsum

/-- Witness for C8: the SChannel state of the small engine, with a MAC key of 16 bytes and DES as
encryption algorithm, and the flag CRYPT_SERVER. -/
theorem schannel_subkey_layout_witness :
    ∃ r : Nat, r ≤ 1 ∧
      (∃ (s' : CSP Nat (List Nat)) (k' : CRYPTKEY Nat),
        RSAENH_CPDeriveKey toyImpl toyDeriveState 1 CALG_SCHANNEL_MAC_KEY 3 CRYPT_SERVER (some 0)
          = some (true, s', some 4) ∧
        lookup_key s'.handle_table 4 = some k' ∧
        bytesAt k'.abKeyValue 0 16 = bytesAt (List.range 104) (r * 16) 16) ∧
      (∃ (s' : CSP Nat (List Nat)) (k' : CRYPTKEY Nat),
        RSAENH_CPDeriveKey toyImpl toyDeriveState 1 CALG_SCHANNEL_ENC_KEY 3 CRYPT_SERVER (some 0)
          = some (true, s', some 4) ∧
        lookup_key s'.handle_table 4 = some k' ∧
        k'.dwBlockLen = 8 ∧
        bytesAt k'.abKeyValue 0 8 = bytesAt (List.range 104) (2 * 16 + r * 8) 8 ∧
        bytesAt k'.abInitVector 0 8 = bytesAt (List.range 104) (2 * 16 + 2 * 8 + r * 8) 8) :=
  schannel_subkey_layout toyImpl toyDeriveState
    (new_key toyImpl toyDeriveState 1 CALG_SCHANNEL_MAC_KEY (MAKELONG (LOWORD CRYPT_SERVER) 128)).1
    (new_key toyImpl toyDeriveState 1 CALG_DES (MAKELONG (LOWORD CRYPT_SERVER) 64)).1
    1 3 CRYPT_SERVER 0 4 4 16 8 8
    { toyHash CALG_SCHANNEL_MASTER_HASH 0 RSAENH_HASHSTATE_IDLE [] with
       hKey := 2, abHashValue := List.range 104 }
    (toyMasterKey RSAENH_KEYSTATE_MASTERKEY CALG_DES 64 128 [])
    (toySecretKey CALG_SCHANNEL_MAC_KEY 16 0 [])
    { toySecretKey CALG_DES 8 0 [] with dwBlockLen := 8, dwMode := CRYPT_MODE_CBC }
    (by decide) rfl rfl rfl rfl (by decide) (by decide) rfl (by decide) (by decide) (by decide)
    (by decide) (by decide)

/-- C9 (counterexample). On the SChannel state of the small engine (MAC key of 16 bytes, key
expansion block 0, 1, ..., 103): with CRYPT_SERVER set the derived MAC key is
bytes [16, 32) of the block, the second slice and not the first; without the
flag (client role) it is bytes [0, 16), the first slice and not the second. -/
theorem schannel_subkey_role_counterexample :
    (RSAENH_CPDeriveKey toyImpl toyDeriveState 1 CALG_SCHANNEL_MAC_KEY 3 CRYPT_SERVER
        (some 0)).map
        (fun r => (r.1, (lookup_key r.2.1.handle_table 4).map (fun k => bytesAt k.abKeyValue 0 16)))
      = some (true, some (bytesAt (List.range 104) (1 * 16) 16)) ∧
    bytesAt (List.range 104) (1 * 16) 16 ≠ bytesAt (List.range 104) (0 * 16) 16 ∧
    (RSAENH_CPDeriveKey toyImpl toyDeriveState 1 CALG_SCHANNEL_MAC_KEY 3 0 (some 0)).map
        (fun r => (r.1, (lookup_key r.2.1.handle_table 4).map (fun k => bytesAt k.abKeyValue 0 16)))
      = some (true, some (bytesAt (List.range 104) (0 * 16) 16)) := by
  decide

/-- C9 (amended). SChannel sub-key role, under the hypotheses of the layout theorem: when
CRYPT_SERVER is set in the flags (server role) CPDeriveKey takes the second of
each doubled slice of the key expansion block (index 1: MAC key at offset `m`,
encryption key at `2m + e`, init vector at `2m + 2e + b`); when it is not set
(client role) it takes the first (index 0: offsets 0, `2m` and `2m + 2e`). -/
theorem schannel_subkey_role {κ η : Type} (impl : IMPL κ η) (s sM sE : CSP κ η)
    (hProv hBaseData dwFlags ph hKM hKE m e b : Nat) (h : CRYPTHASH η) (km kM kE : CRYPTKEY κ)
    (hprov : is_valid_handle s.handle_table hProv is_container = true)
    (hhash : lookup_hash s.handle_table hBaseData = some h)
    (hmk : lookup_key s.handle_table h.hKey = some km)
    (hm : m = km.siSChannelInfo.saMACAlg.cBits / 8)
    (he : e = km.siSChannelInfo.saEncAlg.cBits / 8)
    (hnewM : new_key impl s hProv CALG_SCHANNEL_MAC_KEY
      (MAKELONG (LOWORD dwFlags) km.siSChannelInfo.saMACAlg.cBits) = (sM, some (hKM, kM)))
    (hnewE : new_key impl s hProv km.siSChannelInfo.saEncAlg.Algid
      (MAKELONG (LOWORD dwFlags) km.siSChannelInfo.saEncAlg.cBits) = (sE, some (hKE, kE)))
    (hb : b = kE.dwBlockLen)
    (hvlen : h.abHashValue.length = RSAENH_MAX_HASH_SIZE)
    (hm48 : m ≤ RSAENH_MAX_KEY_SIZE) (he48 : e ≤ RSAENH_MAX_KEY_SIZE)
    (hb24 : b ≤ RSAENH_MAX_BLOCK_SIZE)
    (hsum : 2 * m + 2 * e + 2 * b ≤ RSAENH_MAX_HASH_SIZE) :
    ∃ (s1 s2 : CSP κ η) (k1 k2 : CRYPTKEY κ),
      RSAENH_CPDeriveKey impl s hProv CALG_SCHANNEL_MAC_KEY hBaseData dwFlags (some ph)
        = some (true, s1, some hKM) ∧
      lookup_key s1.handle_table hKM = some k1 ∧
      RSAENH_CPDeriveKey impl s hProv CALG_SCHANNEL_ENC_KEY hBaseData dwFlags (some ph)
        = some (true, s2, some hKE) ∧
      lookup_key s2.handle_table hKE = some k2 ∧
      (dwFlags &&& CRYPT_SERVER ≠ 0 →
        bytesAt k1.abKeyValue 0 m = bytesAt h.abHashValue m m ∧
        bytesAt k2.abKeyValue 0 e = bytesAt h.abHashValue (2 * m + e) e ∧
        bytesAt k2.abInitVector 0 b = bytesAt h.abHashValue (2 * m + 2 * e + b) b) ∧
      (dwFlags &&& CRYPT_SERVER = 0 →
        bytesAt k1.abKeyValue 0 m = bytesAt h.abHashValue 0 m ∧
        bytesAt k2.abKeyValue 0 e = bytesAt h.abHashValue (2 * m) e ∧
        bytesAt k2.abInitVector 0 b = bytesAt h.abHashValue (2 * m + 2 * e) b) := by
  subst hm he hb
  obtain ⟨s1, k1, hd1, hl1, hv1⟩ := CPDeriveKey_mac_key impl s sM hProv hBaseData dwFlags ph hKM
    h km kM hprov hhash hmk hnewM hvlen hm48
  obtain ⟨s2, k2, hd2, hl2, -, hv2, hiv2⟩ := CPDeriveKey_enc_key impl s sE hProv hBaseData
    dwFlags ph hKE h km kE hprov hhash hmk hnewE hvlen he48 hb24 hsum
  refine ⟨s1, s2, k1, k2, hd1, hl1, hd2, hl2, ?_, ?_⟩
  · intro hsrv
    rw [if_pos hsrv, Nat.one_mul] at hv1 hv2 hiv2
    exact ⟨hv1, hv2, hiv2⟩
  · intro hsrv
    rw [if_neg (not_not.mpr hsrv), Nat.zero_mul] at hv1 hv2 hiv2
    exact ⟨hv1, hv2, hiv2⟩

/-- Witness for C9: the amended theorem on the SChannel state of the small engine with
CRYPT_SERVER set. -/
theorem schannel_subkey_role_witness :
    ∃ (s1 s2 : CSP Nat (List Nat)) (k1 k2 : CRYPTKEY Nat),
      RSAENH_CPDeriveKey toyImpl toyDeriveState 1 CALG_SCHANNEL_MAC_KEY 3 CRYPT_SERVER (some 0)
        = some (true, s1, some 4) ∧
      lookup_key s1.handle_table 4 = some k1 ∧
      RSAENH_CPDeriveKey toyImpl toyDeriveState 1 CALG_SCHANNEL_ENC_KEY 3 CRYPT_SERVER (some 0)
        = some (true, s2, some 4) ∧
      lookup_key s2.handle_table 4 = some k2 ∧
      (CRYPT_SERVER &&& CRYPT_SERVER ≠ 0 →
        bytesAt k1.abKeyValue 0 16 = bytesAt (List.range 104) 16 16 ∧
        bytesAt k2.abKeyValue 0 8 = bytesAt (List.range 104) (2 * 16 + 8) 8 ∧
        bytesAt k2.abInitVector 0 8 = bytesAt (List.range 104) (2 * 16 + 2 * 8 + 8) 8) ∧
      (CRYPT_SERVER &&& CRYPT_SERVER = 0 →
        bytesAt k1.abKeyValue 0 16 = bytesAt (List.range 104) 0 16 ∧
        bytesAt k2.abKeyValue 0 8 = bytesAt (List.range 104) (2 * 16) 8 ∧
        bytesAt k2.abInitVector 0 8 = bytesAt (List.range 104) (2 * 16 + 2 * 8) 8) :=
  schannel_subkey_role toyImpl toyDeriveState
    (new_key toyImpl toyDeriveState 1 CALG_SCHANNEL_MAC_KEY (MAKELONG (LOWORD CRYPT_SERVER) 128)).1
    (new_key toyImpl toyDeriveState 1 CALG_DES (MAKELONG (LOWORD CRYPT_SERVER) 64)).1
    1 3 CRYPT_SERVER 0 4 4 16 8 8
    { toyHash CALG_SCHANNEL_MASTER_HASH 0 RSAENH_HASHSTATE_IDLE [] with
       hKey := 2, abHashValue := List.range 104 }
    (toyMasterKey RSAENH_KEYSTATE_MASTERKEY CALG_DES 64 128 [])
    (toySecretKey CALG_SCHANNEL_MAC_KEY 16 0 [])
    { toySecretKey CALG_DES 8 0 [] with dwBlockLen := 8, dwMode := CRYPT_MODE_CBC }
    (by decide) rfl rfl rfl rfl (by decide) (by decide) rfl (by decide) (by decide) (by decide)
    (by decide) (by decide)

/-! ### Re-arming of the key on a final transform -/

theorem lookup_key_store_rearm {κ η : Type} (impl : IMPL κ η) (t : HANDLETABLE κ η) (hKey : Nat)
    (k0 k : CRYPTKEY κ) (hl : lookup_key t hKey = some k0) :
    ∃ k', lookup_key (store_object t hKey (.key (setup_key impl k))) hKey = some k' ∧
      k'.dwState = RSAENH_KEYSTATE_IDLE ∧ k'.abChainVector = k'.abInitVector :=
  ⟨_, lookup_key_store_same _ _ _ _ hl, rfl, rfl⟩

/-- A successful CPEncrypt_transform with Final = TRUE, or on an RSA key, leaves the key object
Idle with the chaining vector equal to the init vector. -/
theorem CPEncrypt_transform_rearm {κ η : Type} (impl : IMPL κ η) (s s' : CSP κ η) (hKey : Nat)
    (k0 k : CRYPTKEY κ) (Final : Bool) (dwFlags : Nat) (pbData buf : List Nat)
    (dwDataLen dwBufLen n : Nat)
    (hl : lookup_key s.handle_table hKey = some k0)
    (hF : Final = true ∨ GET_ALG_TYPE k.aiAlgid = ALG_TYPE_RSA)
    (h : CPEncrypt_transform impl s hKey k Final dwFlags pbData dwDataLen dwBufLen
      = some (true, s', buf, n)) :
    ∃ k', lookup_key s'.handle_table hKey = some k' ∧
      k'.dwState = RSAENH_KEYSTATE_IDLE ∧ k'.abChainVector = k'.abInitVector := by
  unfold CPEncrypt_transform at h
  by_cases hb : GET_ALG_TYPE k.aiAlgid = ALG_TYPE_BLOCK
  · have hFin : Final = true := by
      rcases hF with e | e
      · exact e
      · rw [hb] at e; exact absurd e (by decide)
    subst hFin
    rw [if_pos hb] at h
    simp only [not_true_eq_false, false_and, if_false, if_true] at h
    by_cases hm : dwMul (dwAdd (dwDataLen / k.dwBlockLen) 1) k.dwBlockLen > dwBufLen
    · rw [if_pos hm] at h
      simp only [Option.some.injEq, Prod.mk.injEq] at h
      exact absurd h.1 (by decide)
    · rw [if_neg hm] at h
      rcases hq : block_loop impl false (dwMul (dwAdd (dwDataLen / k.dwBlockLen) 1) k.dwBlockLen)
          (dwMul (dwAdd (dwDataLen / k.dwBlockLen) 1) k.dwBlockLen) k
          (fill_loop (dwSub (dwMul (dwAdd (dwDataLen / k.dwBlockLen) 1) k.dwBlockLen)
            dwDataLen % 256)
            (min (dwMul (dwAdd (dwDataLen / k.dwBlockLen) 1) k.dwBlockLen) dwBufLen - dwDataLen)
            pbData dwDataLen) 0 local_block local_block with _ | ⟨ok, k1, b1⟩
      · rw [hq] at h; cases h
      · rw [hq] at h
        cases ok
        · simp only [Bool.false_eq_true, if_false, Option.some.injEq, Prod.mk.injEq] at h
          exact absurd h.1 (by decide)
        · simp only [if_true, Option.some.injEq, Prod.mk.injEq, true_and] at h
          rw [← h.1]
          exact lookup_key_store_rearm impl _ _ _ _ hl
  · rw [if_neg hb] at h
    by_cases hs : GET_ALG_TYPE k.aiAlgid = ALG_TYPE_STREAM
    · have hFin : Final = true := by
        rcases hF with e | e
        · exact e
        · rw [hs] at e; exact absurd e (by decide)
      subst hFin
      rw [if_pos hs] at h
      simp only [if_true, Option.some.injEq, Prod.mk.injEq, true_and] at h
      rw [← h.1]
      exact lookup_key_store_rearm impl _ _ _ _ hl
    · rw [if_neg hs] at h
      by_cases hr : GET_ALG_TYPE k.aiAlgid = ALG_TYPE_RSA
      · rw [if_pos hr] at h
        by_cases hsg : k.aiAlgid = CALG_RSA_SIGN
        · rw [if_pos hsg] at h
          simp only [Option.some.injEq, Prod.mk.injEq] at h
          exact absurd h.1 (by decide)
        · rw [if_neg hsg] at h
          by_cases hbf : dwBufLen < k.dwBlockLen
          · rw [if_pos hbf] at h
            simp only [Option.some.injEq, Prod.mk.injEq] at h
            exact absurd h.1 (by decide)
          · rw [if_neg hbf] at h
            rcases hq : pad_data s.rand (bytesAt pbData 0 dwDataLen) pbData k.dwBlockLen dwFlags
              with _ | ⟨r, rand1⟩
            · rw [hq] at h; cases h
            · rw [hq] at h
              rcases r with e | b1
              · simp only [Option.some.injEq, Prod.mk.injEq] at h
                exact absurd h.1 (by decide)
              · simp only [Option.some.injEq, Prod.mk.injEq, true_and] at h
                rw [← h.1]
                exact lookup_key_store_rearm impl _ _ _ _ hl
      · rw [if_neg hr] at h
        simp only [Option.some.injEq, Prod.mk.injEq] at h
        exact absurd h.1 (by decide)

theorem lookup_hash_store_key_eq {κ η : Type} (t : HANDLETABLE κ η) (h h' : Nat)
    (k k' : CRYPTKEY κ) (hk : lookup_key t h = some k) :
    lookup_hash (store_object t h (.key k')) h' = lookup_hash t h' := by
  rw [lookup_key_of_object] at hk
  unfold lookup_hash
  by_cases e : h = h'
  · subst e
    rw [lookup_object_store_same _ _ _ _ hk, hk]
  · rw [lookup_object_store_other _ _ _ _ e]

/-- A successful CPDecrypt_transform with Final = TRUE, or on an RSA key, leaves the key object
Idle with the chaining vector equal to the init vector. -/
theorem CPDecrypt_transform_rearm {κ η : Type} (impl : IMPL κ η) (s s' : CSP κ η) (hKey : Nat)
    (k0 k : CRYPTKEY κ) (Final : Bool) (dwFlags : Nat) (pbData buf : List Nat)
    (dwDataLen n : Nat)
    (hl : lookup_key s.handle_table hKey = some k0)
    (hF : Final = true ∨ GET_ALG_TYPE k.aiAlgid = ALG_TYPE_RSA)
    (h : CPDecrypt_transform impl s hKey k Final dwFlags pbData dwDataLen
      = some (true, s', buf, n)) :
    (∃ k', lookup_key s'.handle_table hKey = some k' ∧
      k'.dwState = RSAENH_KEYSTATE_IDLE ∧ k'.abChainVector = k'.abInitVector) ∧
    ∀ hh, lookup_hash s'.handle_table hh = lookup_hash s.handle_table hh := by
  unfold CPDecrypt_transform at h
  by_cases hb : GET_ALG_TYPE k.aiAlgid = ALG_TYPE_BLOCK
  · have hFin : Final = true := by
      rcases hF with e | e
      · exact e
      · rw [hb] at e; exact absurd e (by decide)
    subst hFin
    rw [if_pos hb] at h
    rcases hq : block_loop impl true dwDataLen dwDataLen k pbData 0 local_block local_block
      with _ | ⟨ok, k1, b1⟩
    · rw [hq] at h; cases h
    · rw [hq] at h
      cases ok
      · simp only [Bool.false_eq_true, if_false, Option.some.injEq, Prod.mk.injEq] at h
        exact absurd h.1 (by decide)
      · simp only [if_true, Option.some.injEq, Prod.mk.injEq, true_and] at h
        rw [← h.1]
        exact ⟨lookup_key_store_rearm impl _ _ _ _ hl,
          fun hh => lookup_hash_store_key_eq _ _ _ _ _ hl⟩
  · rw [if_neg hb] at h
    by_cases hs : GET_ALG_TYPE k.aiAlgid = ALG_TYPE_STREAM
    · have hFin : Final = true := by
        rcases hF with e | e
        · exact e
        · rw [hs] at e; exact absurd e (by decide)
      subst hFin
      rw [if_pos hs] at h
      simp only [if_true, Option.some.injEq, Prod.mk.injEq, true_and] at h
      rw [← h.1]
      exact ⟨lookup_key_store_rearm impl _ _ _ _ hl,
        fun hh => lookup_hash_store_key_eq _ _ _ _ _ hl⟩
    · rw [if_neg hs] at h
      by_cases hr : GET_ALG_TYPE k.aiAlgid = ALG_TYPE_RSA
      · rw [if_pos hr] at h
        by_cases hsg : k.aiAlgid = CALG_RSA_SIGN
        · rw [if_pos hsg] at h
          simp only [Option.some.injEq, Prod.mk.injEq] at h
          exact absurd h.1 (by decide)
        · rw [if_neg hsg] at h
          simp only [] at h
          rcases hq : unpad_data
              (call_encrypt_block impl k.aiAlgid k.context (bytesAt pbData 0 k.dwBlockLen) pbData
                RSAENH_DECRYPT) k.dwBlockLen
              (call_encrypt_block impl k.aiAlgid k.context (bytesAt pbData 0 k.dwBlockLen) pbData
                RSAENH_DECRYPT) dwDataLen dwFlags with e | ⟨b1, n1⟩
          · rw [hq] at h
            simp only [Option.some.injEq, Prod.mk.injEq] at h
            exact absurd h.1 (by decide)
          · rw [hq] at h
            simp only [Option.some.injEq, Prod.mk.injEq, true_and] at h
            rw [← h.1]
            exact ⟨lookup_key_store_rearm impl _ _ _ _ hl,
              fun hh => lookup_hash_store_key_eq _ _ _ _ _ hl⟩
      · rw [if_neg hr] at h
        simp only [Option.some.injEq, Prod.mk.injEq] at h
        exact absurd h.1 (by decide)

theorem lookup_key_store_hash_eq {κ η : Type} (t : HANDLETABLE κ η) (h h' : Nat)
    (x x' : CRYPTHASH η) (hh : lookup_hash t h = some x) :
    lookup_key (store_object t h (.hash x')) h' = lookup_key t h' := by
  rw [lookup_hash_of_object] at hh
  unfold lookup_key
  by_cases e : h = h'
  · subst e
    rw [lookup_object_store_same _ _ _ _ hh, hh]
  · rw [lookup_object_store_other _ _ _ _ e]

/-- CPHashData on a hash object that is not a MAC writes no key object. -/
theorem CPHashData_keys {κ η : Type} (impl : IMPL κ η) (s s' : CSP κ η)
    (hProv hHash dwFlags : Nat) (d : List Nat) (x : CRYPTHASH η) (ok : Bool)
    (hh : lookup_hash s.handle_table hHash = some x) (hx : x.aiAlgid ≠ CALG_MAC)
    (h : RSAENH_CPHashData impl s hProv hHash d dwFlags = some (ok, s')) (hK : Nat) :
    lookup_key s'.handle_table hK = lookup_key s.handle_table hK := by
  unfold RSAENH_CPHashData at h
  by_cases hf : dwFlags ≠ 0
  · rw [if_pos hf] at h
    simp only [Option.some.injEq, Prod.mk.injEq] at h
    rw [← h.2]; rfl
  · rw [if_neg hf, hh] at h
    simp only [] at h
    by_cases ha : (get_algid_info s.handle_table hProv x.aiAlgid).toBool = false ∨
        x.aiAlgid = CALG_SSL3_SHAMD5
    · rw [if_pos ha] at h
      simp only [Option.some.injEq, Prod.mk.injEq] at h
      rw [← h.2]; rfl
    · rw [if_neg ha] at h
      obtain ⟨h1, hh1⟩ : ∃ h1, (if x.dwState = RSAENH_HASHSTATE_IDLE then
          ({ x with dwState := RSAENH_HASHSTATE_HASHING } : CRYPTHASH η) else x) = h1 := ⟨_, rfl⟩
      have h1alg : h1.aiAlgid = x.aiAlgid := by
        rw [← hh1]; split <;> rfl
      rw [hh1] at h
      by_cases hst : h1.dwState ≠ RSAENH_HASHSTATE_HASHING
      · rw [if_pos hst] at h
        simp only [Option.some.injEq, Prod.mk.injEq] at h
        rw [← h.2]
        exact lookup_key_store_hash_eq _ _ _ _ _ hh
      · rw [if_neg hst] at h
        have hup : ∃ h2, update_hash impl
            (s.withTable (store_object s.handle_table hHash (.hash h1))) h1 d
            = some (s.withTable (store_object s.handle_table hHash (.hash h1)), h2) := by
          unfold update_hash
          by_cases hm : h1.aiAlgid = CALG_HMAC
          · rw [if_pos hm]
            rcases h1.pHMACInfo with _ | info
            · exact ⟨_, rfl⟩
            · exact ⟨_, rfl⟩
          · rw [if_neg hm, if_neg (by rw [h1alg]; exact hx)]
            exact ⟨_, rfl⟩
        obtain ⟨h2, hup⟩ := hup
        rw [hup] at h
        simp only [Option.some.injEq, Prod.mk.injEq] at h
        rw [← h.2]
        simp only [CSP.withTable]
        rw [lookup_key_store_hash_eq _ _ _ _ _
          (lookup_hash_store_same _ _ _ _ hh), lookup_key_store_hash_eq _ _ _ _ _ hh]

/-- The entry of CPEncrypt and CPDecrypt, when it goes on: the key handle names the key object
with at most its state changed, and the hash handles name what they named. -/
theorem transform_enter_inv {κ η : Type} (s s1 : CSP κ η) (hProv hKey dwFlags newState : Nat)
    (k : CRYPTKEY κ) (hkey : lookup_key s.handle_table hKey = some k)
    (h : transform_enter s hProv hKey dwFlags newState = .ok s1) :
    (∃ k1, lookup_key s1.handle_table hKey = some k1 ∧ k1.aiAlgid = k.aiAlgid) ∧
    ∀ hh, lookup_hash s1.handle_table hh = lookup_hash s.handle_table hh := by
  unfold transform_enter at h
  by_cases hp : ¬ is_valid_handle s.handle_table hProv is_container = true
  · rw [if_pos hp] at h; cases h
  · rw [if_neg hp] at h
    by_cases hf : dwFlags ≠ 0
    · rw [if_pos hf] at h; cases h
    · rw [if_neg hf, hkey] at h
      simp only [] at h
      obtain ⟨k1, hk1⟩ : ∃ k1, (if k.dwState = RSAENH_KEYSTATE_IDLE then
          ({ k with dwState := newState } : CRYPTKEY κ) else k) = k1 := ⟨_, rfl⟩
      have hk1a : k1.aiAlgid = k.aiAlgid := by
        rw [← hk1]; split <;> rfl
      rw [hk1] at h
      by_cases hst : k1.dwState ≠ newState
      · rw [if_pos hst] at h; cases h
      · rw [if_neg hst] at h
        injection h with h
        rw [← h]
        exact ⟨⟨k1, lookup_key_store_same _ _ _ _ hkey, hk1a⟩,
          fun hh => lookup_hash_store_key_eq _ _ _ _ _ hkey⟩

theorem is_valid_handle_hash {κ η : Type} (t : HANDLETABLE κ η) (h : Nat)
    (hv : is_valid_handle t h is_hash = true) : ∃ x, lookup_hash t h = some x := by
  unfold is_valid_handle at hv
  rcases hq : lookup_object t h with _ | o
  · rw [hq] at hv; cases hv
  · rw [hq] at hv
    cases o with
    | hash x => exact ⟨x, (lookup_hash_of_object _ _ _).mpr hq⟩
    | container c => cases hv
    | key k => cases hv

/-- C12 (the code at the failing input). An Idle DES key in CBC mode (handle 2) whose init and
chaining vector are zero: CPSetKeyParam(KP_IV) with the bytes 1..8 returns TRUE
and leaves the key Idle with the new init vector and the old chaining vector;
the CPEncrypt call that follows produces the ciphertext of the zero vector, the
same as without the KP_IV call, and not the ciphertext that a key whose
chaining vector is the new IV produces. -/
theorem set_iv_keeps_chain_vector :
    (RSAENH_CPSetKeyParam
        (toyState 0 [.key (toyDesKey RSAENH_KEYSTATE_IDLE CRYPT_MODE_CBC (List.replicate 24 0))])
        1 2 KP_IV (.bytes [1, 2, 3, 4, 5, 6, 7, 8]) 0).map
        (fun r => (r.1, (lookup_key r.2.handle_table 2).map
          (fun k => (k.dwState, k.abInitVector.take 8, k.abChainVector.take 8))))
      = some (true, some (RSAENH_KEYSTATE_IDLE, [1, 2, 3, 4, 5, 6, 7, 8], List.replicate 8 0)) ∧
    ((RSAENH_CPSetKeyParam
        (toyState 0 [.key (toyDesKey RSAENH_KEYSTATE_IDLE CRYPT_MODE_CBC (List.replicate 24 0))])
        1 2 KP_IV (.bytes [1, 2, 3, 4, 5, 6, 7, 8]) 0).bind
        (fun r => RSAENH_CPEncrypt toyImpl r.2 1 2 0 false 0 (List.replicate 8 0) 8 8)).map
        (fun r => (r.1, r.2.2.1))
      = some (true, [6, 6, 6, 6, 6, 6, 6, 6]) ∧
    (RSAENH_CPEncrypt toyImpl
        (toyState 0 [.key (toyDesKey RSAENH_KEYSTATE_IDLE CRYPT_MODE_CBC (List.replicate 24 0))])
        1 2 0 false 0 (List.replicate 8 0) 8 8).map (fun r => (r.1, r.2.2.1))
      = some (true, [6, 6, 6, 6, 6, 6, 6, 6]) ∧
    (RSAENH_CPEncrypt toyImpl
        (toyState 0 [.key (toyDesKey RSAENH_KEYSTATE_IDLE CRYPT_MODE_CBC
          ([1, 2, 3, 4, 5, 6, 7, 8] ++ List.replicate 16 0))])
        1 2 0 false 0 (List.replicate 8 0) 8 8).map (fun r => (r.1, r.2.2.1))
      = some (true, [14, 13, 12, 11, 10, 9, 8, 7]) := by
  decide

/-- C16 (the code at the failing input). An Idle DES key in CBC mode (handle 2): CPDecrypt with
Final = FALSE and a data length of 7, which is no multiple of the block length
8, returns TRUE with last error untouched, and the buffer holds a decrypted
block of 8 bytes. -/
theorem decrypt_nonfinal_no_length_check :
    (RSAENH_CPDecrypt toyImpl
        (toyState 0 [.key (toyDesKey RSAENH_KEYSTATE_IDLE CRYPT_MODE_CBC (List.replicate 24 0))])
        1 2 0 false 0 [11, 11, 11, 11, 11, 9, 8, 7] 7).map
        (fun r => (r.1, r.2.1.last_error, r.2.2))
      = some (true, WINERROR.ERROR_SUCCESS, [1, 2, 3, 5, 5, 5, 5, 5], 7) ∧
    7 % (toyDesKey RSAENH_KEYSTATE_IDLE CRYPT_MODE_CBC (List.replicate 24 0)).dwBlockLen ≠ 0 ∧
    GET_ALG_TYPE (toyDesKey RSAENH_KEYSTATE_IDLE CRYPT_MODE_CBC (List.replicate 24 0)).aiAlgid
      = ALG_TYPE_BLOCK := by
  decide

/-- C18 (the code at the failing input). An Idle RSA key exchange key with a modulus of 48 bytes
(handle 2): CPEncrypt of 4 bytes with a buffer capacity of 8 returns FALSE with
last error ERROR_MORE_DATA, and the length parameter still holds 4, not the
required size 48. -/
theorem encrypt_rsa_more_data_length :
    (RSAENH_CPEncrypt toyImpl
        (toyState 0 [.key { toyRsaKey with aiAlgid := CALG_RSA_KEYX }])
        1 2 0 true 0 [1, 2, 3, 4, 0, 0, 0, 0] 4 8).map
        (fun r => (r.1, r.2.1.last_error, r.2.2))
      = some (false, WINERROR.ERROR_MORE_DATA, [1, 2, 3, 4, 0, 0, 0, 0], 4) ∧
    ({ toyRsaKey with aiAlgid := CALG_RSA_KEYX } : CRYPTKEY Nat).dwBlockLen = 48 := by
  decide

/-- C17 (the code at the failing input). An Idle DES key in CBC mode (handle 2) and CPDecrypt
with Final = TRUE of one block: when the last decrypted byte is 0 the call returns TRUE and
reports the length 8 (the pad count is 0, not between 1 and 8); when the last decrypted byte
is 200, more than the block length and the data length, the call returns TRUE and reports the
length 2^32 - 192, more than the ciphertext length.  Neither call fails with NTE_BAD_DATA. -/
theorem decrypt_final_no_pad_check :
    (RSAENH_CPDecrypt toyImpl
        (toyState 0 [.key (toyDesKey RSAENH_KEYSTATE_IDLE CRYPT_MODE_CBC (List.replicate 24 0))])
        1 2 0 true 0 [6, 6, 6, 6, 6, 6, 6, 6] 8).map (fun r => (r.1, r.2.2))
      = some (true, [0, 0, 0, 0, 0, 0, 0, 0], 8) ∧
    (RSAENH_CPDecrypt toyImpl
        (toyState 0 [.key (toyDesKey RSAENH_KEYSTATE_IDLE CRYPT_MODE_CBC (List.replicate 24 0))])
        1 2 0 true 0 [206, 6, 6, 6, 6, 6, 6, 6] 8).map (fun r => (r.1, r.2.2))
      = some (true, [0, 0, 0, 0, 0, 0, 0, 200], 4294967104) ∧
    8 < 4294967104 := by
  decide

theorem lookup_container_store_key {κ η : Type} (t : HANDLETABLE κ η) (h h' : Nat)
    (k k' : CRYPTKEY κ) (hk : lookup_key t h = some k) :
    lookup_container (store_object t h (.key k')) h' = lookup_container t h' := by
  rw [lookup_key_of_object] at hk
  unfold lookup_container
  by_cases e : h = h'
  · subst e
    rw [lookup_object_store_same _ _ _ _ hk, hk]
  · rw [lookup_object_store_other _ _ _ _ e]

theorem get_algid_info_store_key {κ η : Type} (t : HANDLETABLE κ η) (h hProv alg : Nat)
    (k k' : CRYPTKEY κ) (hk : lookup_key t h = some k) :
    get_algid_info (store_object t h (.key k')) hProv alg = get_algid_info t hProv alg := by
  unfold get_algid_info
  rw [lookup_container_store_key _ _ _ _ _ hk]

/-- The function update_hash returns on every hash object that is not a MAC. -/
theorem update_hash_nonmac {κ η : Type} (impl : IMPL κ η) (s : CSP κ η) (x : CRYPTHASH η)
    (d : List Nat) (hx : x.aiAlgid ≠ CALG_MAC) :
    ∃ x', update_hash impl s x d = some (s, x') := by
  unfold update_hash
  by_cases h1 : x.aiAlgid = CALG_HMAC
  · rw [if_pos h1]
    rcases x.pHMACInfo with _ | info
    · exact ⟨_, rfl⟩
    · exact ⟨_, rfl⟩
  · rw [if_neg h1, if_neg hx]
    exact ⟨_, rfl⟩

/-- CPHashData on a hash object that is not a MAC returns, and it returns TRUE when the hash
object is Idle or Hashing and its algorithm is one of the container other than
CALG_SSL3_SHAMD5. -/
theorem CPHashData_nonmac {κ η : Type} (impl : IMPL κ η) (s : CSP κ η) (hProv hHash : Nat)
    (d : List Nat) (x : CRYPTHASH η) (hh : lookup_hash s.handle_table hHash = some x)
    (hx : x.aiAlgid ≠ CALG_MAC) :
    ∃ ok s', RSAENH_CPHashData impl s hProv hHash d 0 = some (ok, s') ∧
      ((x.dwState = RSAENH_HASHSTATE_IDLE ∨ x.dwState = RSAENH_HASHSTATE_HASHING) →
        (get_algid_info s.handle_table hProv x.aiAlgid).toBool = true →
        x.aiAlgid ≠ CALG_SSL3_SHAMD5 → ok = true) := by
  unfold RSAENH_CPHashData
  rw [if_neg (by decide), hh]
  simp only []
  by_cases ha : (get_algid_info s.handle_table hProv x.aiAlgid).toBool = false ∨
      x.aiAlgid = CALG_SSL3_SHAMD5
  · rw [if_pos ha]
    refine ⟨_, _, rfl, fun _ h2 h3 => ?_⟩
    rcases ha with ha | ha
    · rw [ha] at h2; cases h2
    · exact absurd ha h3
  · rw [if_neg ha]
    obtain ⟨h1, hh1⟩ : ∃ h1, (if x.dwState = RSAENH_HASHSTATE_IDLE then
        ({ x with dwState := RSAENH_HASHSTATE_HASHING } : CRYPTHASH η) else x) = h1 := ⟨_, rfl⟩
    rw [hh1]
    have h1a : h1.aiAlgid = x.aiAlgid := by
      rw [← hh1]; split <;> rfl
    by_cases hs : h1.dwState ≠ RSAENH_HASHSTATE_HASHING
    · rw [if_pos hs]
      refine ⟨_, _, rfl, fun h2 _ _ => ?_⟩
      exfalso
      apply hs
      rw [← hh1]
      rcases h2 with h2 | h2
      · rw [if_pos h2]
      · by_cases h3 : x.dwState = RSAENH_HASHSTATE_IDLE
        · rw [if_pos h3]
        · rw [if_neg h3]; exact h2
    · rw [if_neg hs]
      obtain ⟨x', hx'⟩ := update_hash_nonmac impl
        (s.withTable (store_object s.handle_table hHash (.hash h1))) h1 d (by rw [h1a]; exact hx)
      rw [hx']
      exact ⟨_, _, rfl, fun _ _ _ => rfl⟩

/-- The length check of the block branch of CPEncrypt. -/
theorem CPEncrypt_transform_bad_length {κ η : Type} (impl : IMPL κ η) (s : CSP κ η) (hKey : Nat)
    (k : CRYPTKEY κ) (dwFlags : Nat) (pbData : List Nat) (dwDataLen dwBufLen : Nat)
    (hblk : GET_ALG_TYPE k.aiAlgid = ALG_TYPE_BLOCK) (hlen : dwDataLen % k.dwBlockLen ≠ 0) :
    CPEncrypt_transform impl s hKey k false dwFlags pbData dwDataLen dwBufLen
      = some (false, SetLastError s WINERROR.NTE_BAD_DATA, pbData, dwDataLen) := by
  unfold CPEncrypt_transform
  rw [if_pos hblk, if_pos ⟨by decide, hlen⟩]

/-- C15. Non-final encryption length check: with a valid provider handle, no flags and
a hash handle that names no MAC hash object, CPEncrypt with Final = FALSE on
a block-cipher key and a data length that is no multiple of the key's block
length returns FALSE and leaves the data buffer and the length as they were;
the last error is NTE_BAD_DATA unless the hash step has failed before (the
hash handle names a hash object that is not Idle or Hashing or whose
algorithm CPHashData rejects). -/
theorem encrypt_nonfinal_length_check {κ η : Type} (impl : IMPL κ η) (s : CSP κ η)
    (hProv hKey hHash dwDataLen dwBufLen : Nat) (pbData : List Nat) (k : CRYPTKEY κ)
    (hprov : is_valid_handle s.handle_table hProv is_container = true)
    (hkey : lookup_key s.handle_table hKey = some k)
    (hblk : GET_ALG_TYPE k.aiAlgid = ALG_TYPE_BLOCK)
    (hlen : dwDataLen % k.dwBlockLen ≠ 0)
    (hmac : ∀ x, lookup_hash s.handle_table hHash = some x → x.aiAlgid ≠ CALG_MAC) :
    ∃ s', RSAENH_CPEncrypt impl s hProv hKey hHash false 0 pbData dwDataLen dwBufLen
        = some (false, s', pbData, dwDataLen) ∧
      ((∀ x, lookup_hash s.handle_table hHash = some x →
          (x.dwState = RSAENH_HASHSTATE_IDLE ∨ x.dwState = RSAENH_HASHSTATE_HASHING) ∧
          (get_algid_info s.handle_table hProv x.aiAlgid).toBool = true ∧
          x.aiAlgid ≠ CALG_SSL3_SHAMD5) →
        s'.last_error = WINERROR.NTE_BAD_DATA) := by
  by_cases hst : k.dwState = RSAENH_KEYSTATE_IDLE ∨ k.dwState = RSAENH_KEYSTATE_ENCRYPTING
  · unfold RSAENH_CPEncrypt
    rw [transform_enter_ok s hProv hKey _ k hprov hkey hst]
    simp only []
    obtain ⟨s1, hs1⟩ : ∃ s1, s.withTable (store_object s.handle_table hKey
        (.key { k with dwState := RSAENH_KEYSTATE_ENCRYPTING })) = s1 := ⟨_, rfl⟩
    rw [hs1]
    have hk1 : lookup_key s1.handle_table hKey
        = some { k with dwState := RSAENH_KEYSTATE_ENCRYPTING } := by
      rw [← hs1]; exact lookup_key_store_same _ _ _ _ hkey
    have hh1 : ∀ h', lookup_hash s1.handle_table h' = lookup_hash s.handle_table h' := by
      intro h'; rw [← hs1]; exact lookup_hash_store_key_eq _ _ _ _ _ hkey
    have hg1 : ∀ a, get_algid_info s1.handle_table hProv a
        = get_algid_info s.handle_table hProv a := by
      intro a; rw [← hs1]; exact get_algid_info_store_key _ _ _ _ _ _ hkey
    by_cases hv : is_valid_handle s1.handle_table hHash is_hash = true
    · rw [if_pos hv]
      obtain ⟨x, hx⟩ := is_valid_handle_hash _ _ hv
      have hx0 : lookup_hash s.handle_table hHash = some x := by rw [← hh1]; exact hx
      obtain ⟨ok, s2, hq, hok⟩ := CPHashData_nonmac impl s1 hProv hHash
        (bytesAt pbData 0 dwDataLen) x hx (hmac x hx0)
      rw [hq]
      cases ok
      · refine ⟨_, rfl, fun hall => ?_⟩
        obtain ⟨a, b, c⟩ := hall x hx0
        exact absurd (hok a (by rw [hg1]; exact b) c) (by decide)
      · simp only []
        rw [CPHashData_keys impl s1 s2 hProv hHash 0 _ x true hx (hmac x hx0) hq hKey, hk1]
        simp only []
        rw [CPEncrypt_transform_bad_length impl s2 hKey
          { k with dwState := RSAENH_KEYSTATE_ENCRYPTING } 0 pbData dwDataLen dwBufLen hblk hlen]
        exact ⟨_, rfl, fun _ => rfl⟩
    · rw [if_neg hv]
      simp only []
      rw [hk1]
      simp only []
      rw [CPEncrypt_transform_bad_length impl s1 hKey
        { k with dwState := RSAENH_KEYSTATE_ENCRYPTING } 0 pbData dwDataLen dwBufLen hblk hlen]
      exact ⟨_, rfl, fun _ => rfl⟩
  · unfold RSAENH_CPEncrypt
    rw [transform_enter_conflict s hProv hKey _ k hprov hkey (fun e => hst (Or.inl e))
      (fun e => hst (Or.inr e))]
    exact ⟨_, rfl, fun _ => rfl⟩

/-- Witness for C15: the theorem at an Idle DES key, a SHA hash object in state Idle and 5 bytes
of data. -/
theorem encrypt_nonfinal_length_check_witness :
    ∃ s', RSAENH_CPEncrypt toyImpl
        (toyState 0 [.key (toyDesKey RSAENH_KEYSTATE_IDLE CRYPT_MODE_CBC (List.replicate 24 0)),
          .hash (toyHash CALG_SHA 20 RSAENH_HASHSTATE_IDLE [])])
        1 2 3 false 0 [1, 2, 3, 4, 5, 0, 0, 0] 5 8
        = some (false, s', [1, 2, 3, 4, 5, 0, 0, 0], 5) ∧
      ((∀ x, lookup_hash (toyState 0 [.key (toyDesKey RSAENH_KEYSTATE_IDLE CRYPT_MODE_CBC
            (List.replicate 24 0)),
            .hash (toyHash CALG_SHA 20 RSAENH_HASHSTATE_IDLE [])]).handle_table 3 = some x →
          (x.dwState = RSAENH_HASHSTATE_IDLE ∨ x.dwState = RSAENH_HASHSTATE_HASHING) ∧
          (get_algid_info (toyState 0 [.key (toyDesKey RSAENH_KEYSTATE_IDLE CRYPT_MODE_CBC
            (List.replicate 24 0)),
            .hash (toyHash CALG_SHA 20 RSAENH_HASHSTATE_IDLE [])]).handle_table 1
              x.aiAlgid).toBool = true ∧
          x.aiAlgid ≠ CALG_SSL3_SHAMD5) →
        s'.last_error = WINERROR.NTE_BAD_DATA) :=
  encrypt_nonfinal_length_check toyImpl
    (toyState 0 [.key (toyDesKey RSAENH_KEYSTATE_IDLE CRYPT_MODE_CBC (List.replicate 24 0)),
      .hash (toyHash CALG_SHA 20 RSAENH_HASHSTATE_IDLE [])])
    1 2 3 5 8 [1, 2, 3, 4, 5, 0, 0, 0]
    (toyDesKey RSAENH_KEYSTATE_IDLE CRYPT_MODE_CBC (List.replicate 24 0))
    (by decide) (by decide) (by decide) (by decide)
    (fun x hx => by
      have e : x = toyHash CALG_SHA 20 RSAENH_HASHSTATE_IDLE [] :=
        (Option.some.inj hx).symm
      rw [e]; decide)

/-- The records of DES, 3DES_112 and 3DES in every row of aProvEnumAlgsEx have the effective key
length as minimum and maximum. -/
theorem des_family_table (p : Nat) (e : PROV_ENUMALGS_EX) :
    (get_algid_info_loop CALG_DES (aProvEnumAlgsEx.getD p []) = some e →
      e.dwMinLen = 56 ∧ e.dwMaxLen = 56) ∧
    (get_algid_info_loop CALG_3DES_112 (aProvEnumAlgsEx.getD p []) = some e →
      e.dwMinLen = 112 ∧ e.dwMaxLen = 112) ∧
    (get_algid_info_loop CALG_3DES (aProvEnumAlgsEx.getD p []) = some e →
      e.dwMinLen = 168 ∧ e.dwMaxLen = 168) := by
  have key : ∀ (alg v : Nat) (q : Nat),
      (match get_algid_info_loop alg (aProvEnumAlgsEx.getD q []) with
        | some x => decide (x.dwMinLen = v ∧ x.dwMaxLen = v)
        | none => true) = true →
      get_algid_info_loop alg (aProvEnumAlgsEx.getD q []) = some e →
      e.dwMinLen = v ∧ e.dwMaxLen = v := by
    intro alg v q h he
    rw [he] at h
    exact of_decide_eq_true h
  rcases p with _ | _ | _ | _ | p
  · exact ⟨key _ _ 0 (by decide), key _ _ 0 (by decide), key _ _ 0 (by decide)⟩
  · exact ⟨key _ _ 1 (by decide), key _ _ 1 (by decide), key _ _ 1 (by decide)⟩
  · exact ⟨key _ _ 2 (by decide), key _ _ 2 (by decide), key _ _ 2 (by decide)⟩
  · exact ⟨key _ _ 3 (by decide), key _ _ 3 (by decide), key _ _ 3 (by decide)⟩
  · have : aProvEnumAlgsEx.getD (p + 1 + 1 + 1 + 1) [] = [] := by
      apply List.getD_eq_default
      show aProvEnumAlgsEx.length ≤ _
      have : aProvEnumAlgsEx.length = 4 := by decide
      omega
    rw [this]
    exact ⟨fun h => (by cases h), fun h => (by cases h), fun h => (by cases h)⟩

/-- C13 (counterexample). In the base personality the record of DES has minimum and
maximum length 56, and new_key for DES with the requested length 64, which
lies outside [56, 56], creates a key object. -/
theorem new_key_capability_gating_counterexample :
    (get_algid_info_loop CALG_DES (aProvEnumAlgsEx.getD RSAENH_PERSONALITY_BASE [])).map
        (fun e => (e.dwMinLen, e.dwMaxLen)) = some (56, 56) ∧
    HIWORD (MAKELONG 0 64) = 64 ∧
    (new_key toyImpl (toyState RSAENH_PERSONALITY_BASE []) 1 CALG_DES (MAKELONG 0 64)).2.map
        (fun r => (r.1, r.2.aiAlgid, r.2.dwKeyLen)) = some (2, CALG_DES, 8) ∧
    (new_key toyImpl (toyState RSAENH_PERSONALITY_BASE []) 1 CALG_DES (MAKELONG 0 64)).1.last_error
      = WINERROR.ERROR_SUCCESS := by
  decide

/-- C13 (amended). Capability gating in new_key, for the container `c` that `hProv` names: an
algorithm id that is absent from the table row of the container's personality
fails with NTE_BAD_ALGID; for an algorithm in the row, a requested key length
(the upper word of dwFlags, when it is not 0) that lies outside the record's
[min, max] or is no multiple of 8 fails with NTE_BAD_FLAGS, unless it is the
storage length 64, 128 or 192 of DES, 3DES_112 or 3DES; in both cases no
key object is created: the result is INVALID_HANDLE_VALUE and only the last
error has changed. -/
theorem new_key_capability_gating {κ η : Type} (impl : IMPL κ η) (s : CSP κ η)
    (hProv aiAlgid dwFlags : Nat) (c : KEYCONTAINER)
    (hc : lookup_container s.handle_table hProv = some c) :
    (get_algid_info_loop aiAlgid (aProvEnumAlgsEx.getD c.dwPersonality []) = none →
      new_key impl s hProv aiAlgid dwFlags = (SetLastError s WINERROR.NTE_BAD_ALGID, none)) ∧
    (∀ e, get_algid_info_loop aiAlgid (aProvEnumAlgsEx.getD c.dwPersonality []) = some e →
      HIWORD dwFlags ≠ 0 →
      (HIWORD dwFlags % 8 ≠ 0 ∨ HIWORD dwFlags > e.dwMaxLen ∨ HIWORD dwFlags < e.dwMinLen) →
      ¬ (aiAlgid = CALG_DES ∧ HIWORD dwFlags = 64) →
      ¬ (aiAlgid = CALG_3DES_112 ∧ HIWORD dwFlags = 128) →
      ¬ (aiAlgid = CALG_3DES ∧ HIWORD dwFlags = 192) →
      new_key impl s hProv aiAlgid dwFlags = (SetLastError s WINERROR.NTE_BAD_FLAGS, none)) := by
  constructor
  · intro h
    unfold new_key get_algid_info
    rw [hc]
    simp only [h]
  · intro e he h0 hout h1 h2 h3
    obtain ⟨t1, t2, t3⟩ := des_family_table c.dwPersonality e
    have hlen : new_key_length aiAlgid e (HIWORD dwFlags) = none := by
      unfold new_key_length
      by_cases a1 : aiAlgid = CALG_DES
      · rw [if_pos a1]
        obtain ⟨m1, m2⟩ := t1 (a1 ▸ he)
        have n56 : HIWORD dwFlags ≠ 56 := by omega
        have n64 : HIWORD dwFlags ≠ 64 := fun x => h1 ⟨a1, x⟩
        simp only [if_neg n56]
        rw [if_pos n64]
      · rw [if_neg a1]
        by_cases a2 : aiAlgid = CALG_3DES_112
        · rw [if_pos a2]
          obtain ⟨m1, m2⟩ := t2 (a2 ▸ he)
          have n56 : HIWORD dwFlags ≠ 112 := by omega
          have n64 : HIWORD dwFlags ≠ 128 := fun x => h2 ⟨a2, x⟩
          simp only [if_neg n56]
          rw [if_pos n64]
        · rw [if_neg a2]
          by_cases a3 : aiAlgid = CALG_3DES
          · rw [if_pos a3]
            obtain ⟨m1, m2⟩ := t3 (a3 ▸ he)
            have n56 : HIWORD dwFlags ≠ 168 := by omega
            have n64 : HIWORD dwFlags ≠ 192 := fun x => h3 ⟨a3, x⟩
            simp only [if_neg n56]
            rw [if_pos n64]
          · rw [if_neg a3, if_pos hout]
    unfold new_key get_algid_info
    rw [hc]
    simp only [he, if_neg h0, hlen]

/-- Witness for C13: the amended theorem at RC2 in the base personality, whose record has the
lengths 40 to 56, with the requested length 44. -/
theorem new_key_capability_gating_witness :
    new_key toyImpl (toyState RSAENH_PERSONALITY_BASE []) 1 CALG_RC2 (MAKELONG 0 44)
      = (SetLastError (toyState RSAENH_PERSONALITY_BASE []) WINERROR.NTE_BAD_FLAGS, none) :=
  (new_key_capability_gating toyImpl (toyState RSAENH_PERSONALITY_BASE []) 1 CALG_RC2
    (MAKELONG 0 44) (toyContainer RSAENH_PERSONALITY_BASE) (by decide)).2
    ⟨CALG_RC2, 40, 40, 56, 0, 4, "RC2", 24, "RSA Data Security\x27s RC2"⟩
    (by decide) (by decide) (by decide) (by decide) (by decide) (by decide)

/-- The bit lengths that the first switch of new_key lets through. -/
theorem new_key_length_facts (aiAlgid : Nat) (e : PROV_ENUMALGS_EX) (req bits : Nat)
    (h : new_key_length aiAlgid e req = some bits) :
    (bits = 64 ∨ bits = 128 ∨ bits = 192) ∨ (bits % 8 = 0 ∧ bits ≤ e.dwMaxLen) := by
  unfold new_key_length at h
  by_cases a1 : aiAlgid = CALG_DES
  · rw [if_pos a1] at h
    simp only [] at h
    by_cases hx : (if req = 56 then 64 else req) ≠ 64
    · rw [if_pos hx] at h; cases h
    · rw [if_neg hx] at h
      injection h with h
      rw [← h]
      left; left
      exact not_not.mp hx
  · rw [if_neg a1] at h
    by_cases a2 : aiAlgid = CALG_3DES_112
    · rw [if_pos a2] at h
      simp only [] at h
      by_cases hx : (if req = 112 then 128 else req) ≠ 128
      · rw [if_pos hx] at h; cases h
      · rw [if_neg hx] at h
        injection h with h
        rw [← h]
        left; right; left
        exact not_not.mp hx
    · rw [if_neg a2] at h
      by_cases a3 : aiAlgid = CALG_3DES
      · rw [if_pos a3] at h
        simp only [] at h
        by_cases hx : (if req = 168 then 192 else req) ≠ 192
        · rw [if_pos hx] at h; cases h
        · rw [if_neg hx] at h
          injection h with h
          rw [← h]
          left; right; right
          exact not_not.mp hx
      · rw [if_neg a3] at h
        split at h
        · cases h
        · rename_i hx
          simp only [Option.some.injEq] at h
          rw [← h]
          right
          constructor
          · by_contra hc; exact hx (Or.inl hc)
          · by_contra hc; exact hx (Or.inr (Or.inl (by omega)))

/-- C14 (counterexample). The key object that new_key returns for CALG_RSA_KEYX with the default
length in the base personality has a key length of 64 bytes, more than
RSAENH_MAX_KEY_SIZE. -/
theorem new_key_storage_counterexample :
    (new_key toyImpl (toyState RSAENH_PERSONALITY_BASE []) 1 CALG_RSA_KEYX 0).2.map
        (fun r => (r.2.dwKeyLen, r.2.dwSaltLen)) = some (64, 0) ∧
    ¬ (64 + 0 ≤ RSAENH_MAX_KEY_SIZE) := by
  decide

/-- C14 (amended). Key storage in new_key, for an algorithm whose record `e` in the capability
table has a maximum length of at most 384 bits: the key object `k` that new_key
returns has a key length of at most 48 bytes (RSAENH_MAX_KEY_SIZE); when no
salt is asked for (CRYPT_CREATE_SALT is clear, and the key is not a 40 bit key
or CRYPT_NO_SALT is set) the salt length is 0 and key and salt together take at
most 48 bytes; when salt is asked for and the key has at most 16 bytes, key and
salt together span exactly 16 bytes. -/
theorem new_key_storage {κ η : Type} (impl : IMPL κ η) (s s1 : CSP κ η)
    (hProv aiAlgid dwFlags h : Nat) (k : CRYPTKEY κ) (e : PROV_ENUMALGS_EX)
    (hg : get_algid_info s.handle_table hProv aiAlgid = .ok e) (hmax : e.dwMaxLen ≤ 384)
    (hn : new_key impl s hProv aiAlgid dwFlags = (s1, some (h, k))) :
    k.dwKeyLen ≤ RSAENH_MAX_KEY_SIZE ∧
    (¬ (dwFlags &&& CRYPT_CREATE_SALT ≠ 0 ∨
        (k.dwKeyLen = 5 ∧ ¬ (dwFlags &&& CRYPT_NO_SALT ≠ 0))) →
      k.dwSaltLen = 0 ∧ k.dwKeyLen + k.dwSaltLen ≤ RSAENH_MAX_KEY_SIZE) ∧
    ((dwFlags &&& CRYPT_CREATE_SALT ≠ 0 ∨
        (k.dwKeyLen = 5 ∧ ¬ (dwFlags &&& CRYPT_NO_SALT ≠ 0))) →
      k.dwKeyLen ≤ 16 → k.dwKeyLen + k.dwSaltLen = 16) := by
  unfold new_key at hn
  rw [hg] at hn
  simp only [] at hn
  rcases hq : new_key_length aiAlgid e
      (if HIWORD dwFlags = 0 then e.dwDefaultLen else HIWORD dwFlags) with _ | bits
  · rw [hq] at hn
    simp only [Prod.mk.injEq] at hn
    exact absurd hn.2 (by simp)
  · rw [hq] at hn
    simp only [Prod.mk.injEq, Option.some.injEq] at hn
    obtain ⟨-, -, hk⟩ := hn
    have hb := new_key_length_facts aiAlgid e _ bits hq
    have hlen : k.dwKeyLen = bits / 8 := by rw [← hk]
    have hsalt : k.dwSaltLen = (if dwFlags &&& CRYPT_CREATE_SALT ≠ 0 ∨
        (bits = 40 ∧ ¬ (dwFlags &&& CRYPT_NO_SALT ≠ 0)) then dwSub 16 (bits / 8) else 0) := by
      rw [← hk]
    have h40 : bits = 40 ↔ bits / 8 = 5 := by
      rcases hb with hb | hb
      · omega
      · omega
    have h48 : bits / 8 ≤ 48 := by
      rcases hb with hb | hb
      · omega
      · omega
    simp only [h40] at hsalt
    rw [hlen]
    refine ⟨h48, fun hno => ?_, fun hyes h16 => ?_⟩
    · rw [if_neg hno] at hsalt
      rw [hsalt]
      exact ⟨rfl, h48⟩
    · rw [if_pos hyes, dwSub_eq _ _ h16] at hsalt
      rw [hsalt]
      omega

/-- Witness for C14: the amended theorem at RC2 in the base personality with the default length
of 40 bits: 5 bytes of key and 11 bytes of salt. -/
theorem new_key_storage_witness :
    (new_key toyImpl (toyState RSAENH_PERSONALITY_BASE []) 1 CALG_RC2 0).2.map
        (fun r => (r.2.dwKeyLen, r.2.dwSaltLen)) = some (5, 11) ∧
    ∀ (s1 : CSP Nat (List Nat)) (h : Nat) (k : CRYPTKEY Nat),
      new_key toyImpl (toyState RSAENH_PERSONALITY_BASE []) 1 CALG_RC2 0 = (s1, some (h, k)) →
      k.dwKeyLen ≤ RSAENH_MAX_KEY_SIZE ∧
      (¬ (0 &&& CRYPT_CREATE_SALT ≠ 0 ∨ (k.dwKeyLen = 5 ∧ ¬ (0 &&& CRYPT_NO_SALT ≠ 0))) →
        k.dwSaltLen = 0 ∧ k.dwKeyLen + k.dwSaltLen ≤ RSAENH_MAX_KEY_SIZE) ∧
      ((0 &&& CRYPT_CREATE_SALT ≠ 0 ∨ (k.dwKeyLen = 5 ∧ ¬ (0 &&& CRYPT_NO_SALT ≠ 0))) →
        k.dwKeyLen ≤ 16 → k.dwKeyLen + k.dwSaltLen = 16) :=
  ⟨by decide, fun s1 h k hn =>
    new_key_storage toyImpl (toyState RSAENH_PERSONALITY_BASE []) s1 1 CALG_RC2 0 h k
      ⟨CALG_RC2, 40, 40, 56, 0, 4, "RC2", 24, "RSA Data Security\x27s RC2"⟩
      (by decide) (by decide) hn⟩

/-- The entry of CPEncrypt and CPDecrypt writes no hash object, whatever its result. -/
theorem transform_enter_hashes {κ η : Type} (s : CSP κ η) (hProv hKey dwFlags newState : Nat)
    (hh : Nat) :
    lookup_hash (match transform_enter s hProv hKey dwFlags newState with
      | .ok s1 => s1 | .error s1 => s1).handle_table hh = lookup_hash s.handle_table hh := by
  unfold transform_enter
  by_cases hp : ¬ is_valid_handle s.handle_table hProv is_container = true
  · rw [if_pos hp]; rfl
  · rw [if_neg hp]
    by_cases hf : dwFlags ≠ 0
    · rw [if_pos hf]; rfl
    · rw [if_neg hf]
      rcases hq : lookup_key s.handle_table hKey with _ | k
      · rfl
      · simp only []
        obtain ⟨k1, hk1⟩ : ∃ k1, (if k.dwState = RSAENH_KEYSTATE_IDLE then
            ({ k with dwState := newState } : CRYPTKEY κ) else k) = k1 := ⟨_, rfl⟩
        rw [hk1]
        by_cases hs : k1.dwState ≠ newState
        · rw [if_pos hs]
          exact lookup_hash_store_key_eq _ _ _ _ _ hq
        · rw [if_neg hs]
          exact lookup_hash_store_key_eq _ _ _ _ _ hq

/-- The part of CPEncrypt after the hash step writes no hash object, whatever its result. -/
theorem CPEncrypt_transform_hashes {κ η : Type} (impl : IMPL κ η) (s : CSP κ η) (hKey : Nat)
    (k0 k : CRYPTKEY κ) (Final : Bool) (dwFlags : Nat) (pbData : List Nat)
    (dwDataLen dwBufLen : Nat) (r : Bool × CSP κ η × List Nat × Nat)
    (hl : lookup_key s.handle_table hKey = some k0)
    (h : CPEncrypt_transform impl s hKey k Final dwFlags pbData dwDataLen dwBufLen = some r)
    (hh : Nat) :
    lookup_hash r.2.1.handle_table hh = lookup_hash s.handle_table hh := by
  have base : ∀ k', lookup_hash (store_object s.handle_table hKey (.key k')) hh
      = lookup_hash s.handle_table hh := fun k' => lookup_hash_store_key_eq _ _ _ _ _ hl
  unfold CPEncrypt_transform at h
  by_cases hb : GET_ALG_TYPE k.aiAlgid = ALG_TYPE_BLOCK
  · rw [if_pos hb] at h
    by_cases hc : ¬ Final = true ∧ dwDataLen % k.dwBlockLen ≠ 0
    · rw [if_pos hc] at h
      injection h with h; rw [← h]; rfl
    · rw [if_neg hc] at h
      simp only [] at h
      by_cases hm : dwMul (dwAdd (dwDataLen / k.dwBlockLen) (if Final = true then 1 else 0))
          k.dwBlockLen > dwBufLen
      · rw [if_pos hm] at h
        injection h with h; rw [← h]; rfl
      · rw [if_neg hm] at h
        rcases hq : block_loop impl false
            (dwMul (dwAdd (dwDataLen / k.dwBlockLen) (if Final = true then 1 else 0)) k.dwBlockLen)
            (dwMul (dwAdd (dwDataLen / k.dwBlockLen) (if Final = true then 1 else 0)) k.dwBlockLen)
            k (fill_loop (dwSub (dwMul (dwAdd (dwDataLen / k.dwBlockLen)
              (if Final = true then 1 else 0)) k.dwBlockLen) dwDataLen % 256)
              (min (dwMul (dwAdd (dwDataLen / k.dwBlockLen) (if Final = true then 1 else 0))
                k.dwBlockLen) dwBufLen - dwDataLen) pbData dwDataLen) 0 local_block local_block
          with _ | ⟨ok, k2, b2⟩
        · rw [hq] at h; cases h
        · rw [hq] at h
          cases ok
          · simp only [Bool.false_eq_true, if_false] at h
            injection h with h; rw [← h]; exact base _
          · simp only [if_true] at h
            injection h with h; rw [← h]; exact base _
  · rw [if_neg hb] at h
    by_cases hs : GET_ALG_TYPE k.aiAlgid = ALG_TYPE_STREAM
    · rw [if_pos hs] at h
      injection h with h; rw [← h]; exact base _
    · rw [if_neg hs] at h
      by_cases hr : GET_ALG_TYPE k.aiAlgid = ALG_TYPE_RSA
      · rw [if_pos hr] at h
        by_cases hg : k.aiAlgid = CALG_RSA_SIGN
        · rw [if_pos hg] at h
          injection h with h; rw [← h]; rfl
        · rw [if_neg hg] at h
          by_cases hl2 : dwBufLen < k.dwBlockLen
          · rw [if_pos hl2] at h
            injection h with h; rw [← h]; rfl
          · rw [if_neg hl2] at h
            rcases hq : pad_data s.rand (bytesAt pbData 0 dwDataLen) pbData k.dwBlockLen dwFlags
              with _ | ⟨e | buf, rand1⟩
            · rw [hq] at h; cases h
            · rw [hq] at h
              injection h with h; rw [← h]; rfl
            · rw [hq] at h
              injection h with h; rw [← h]; exact base _
      · rw [if_neg hr] at h
        injection h with h; rw [← h]; rfl

/-- CPEncrypt for a hash handle that names no hash object writes no hash object. -/
theorem CPEncrypt_nohash_hashes {κ η : Type} (impl : IMPL κ η) (s : CSP κ η) (hProv hKey : Nat)
    (Final : Bool) (dwFlags : Nat) (pbData : List Nat) (dwDataLen dwBufLen : Nat)
    (r : Bool × CSP κ η × List Nat × Nat)
    (h : CPEncrypt_nohash impl s hProv hKey Final dwFlags pbData dwDataLen dwBufLen = some r)
    (hh : Nat) :
    lookup_hash r.2.1.handle_table hh = lookup_hash s.handle_table hh := by
  unfold CPEncrypt_nohash at h
  have h0 := transform_enter_hashes s hProv hKey dwFlags RSAENH_KEYSTATE_ENCRYPTING hh
  rcases hq : transform_enter s hProv hKey dwFlags RSAENH_KEYSTATE_ENCRYPTING with s1 | s1
  · rw [hq] at h h0
    injection h with h
    rw [← h]
    exact h0
  · rw [hq] at h h0
    simp only [] at h h0
    rcases hk : lookup_key s1.handle_table hKey with _ | k
    · rw [hk] at h; cases h
    · rw [hk] at h
      simp only [] at h
      rw [CPEncrypt_transform_hashes impl s1 hKey k k Final dwFlags pbData dwDataLen dwBufLen r
        hk h hh]
      exact h0

/-- The function update_hash writes no hash object of the handle table and leaves the state of
its hash object as it was. -/
theorem update_hash_hashes {κ η : Type} (impl : IMPL κ η) (s s2 : CSP κ η) (x x2 : CRYPTHASH η)
    (d : List Nat) (h : update_hash impl s x d = some (s2, x2)) :
    (∀ hh, lookup_hash s2.handle_table hh = lookup_hash s.handle_table hh) ∧
    x2.dwState = x.dwState := by
  unfold update_hash at h
  by_cases h1 : x.aiAlgid = CALG_HMAC
  · rw [if_pos h1] at h
    rcases hq : x.pHMACInfo with _ | info
    · rw [hq] at h
      simp only [Option.some.injEq, Prod.mk.injEq] at h
      rw [← h.1, ← h.2]
      exact ⟨fun _ => rfl, rfl⟩
    · rw [hq] at h
      simp only [Option.some.injEq, Prod.mk.injEq] at h
      rw [← h.1, ← h.2]
      exact ⟨fun _ => rfl, rfl⟩
  · rw [if_neg h1] at h
    by_cases h2 : x.aiAlgid = CALG_MAC
    · rw [if_pos h2] at h
      rcases hq : CPEncrypt_nohash impl s x.hProv x.hKey false 0 d d.length d.length with _ | r
      · rw [hq] at h; cases h
      · rw [hq] at h
        simp only [Option.some.injEq, Prod.mk.injEq] at h
        rw [← h.1, ← h.2]
        exact ⟨fun hh => CPEncrypt_nohash_hashes impl s _ _ _ _ _ _ _ r hq hh, rfl⟩
    · rw [if_neg h2] at h
      simp only [Option.some.injEq, Prod.mk.injEq] at h
      rw [← h.1, ← h.2]
      exact ⟨fun _ => rfl, rfl⟩

/-- C20 (counterexample). A hash object of algorithm CALG_SSL3_SHAMD5 (handle 2), put in state
Finished by a raw digest override (CPSetHashParam HP_HASHVAL): the CPHashData
call that follows fails with NTE_BAD_ALGID, not NTE_BAD_HASH_STATE. -/
theorem hash_state_machine_counterexample :
    (RSAENH_CPSetHashParam toyImpl
        (toyState 0 [.hash (toyHash CALG_SSL3_SHAMD5 36 RSAENH_HASHSTATE_IDLE [])])
        1 2 HP_HASHVAL (.bytes (List.replicate 36 7)) 0).map
        (fun r => (r.1, (lookup_hash r.2.handle_table 2).map (fun x => x.dwState)))
      = some (true, some RSAENH_HASHSTATE_FINISHED) ∧
    ((RSAENH_CPSetHashParam toyImpl
        (toyState 0 [.hash (toyHash CALG_SSL3_SHAMD5 36 RSAENH_HASHSTATE_IDLE [])])
        1 2 HP_HASHVAL (.bytes (List.replicate 36 7)) 0).bind
        (fun r => RSAENH_CPHashData toyImpl r.2 1 2 [1, 2, 3] 0)).map
        (fun r => (r.1, r.2.last_error))
      = some (false, WINERROR.NTE_BAD_ALGID) ∧
    WINERROR.NTE_BAD_ALGID ≠ WINERROR.NTE_BAD_HASH_STATE := by
  decide

/-- C20 (amended). Hash state machine, for a hash object `x` whose algorithm is one of the
container other than CALG_SSL3_SHAMD5.  When `x` is Idle, every CPHashData
call that returns returns TRUE and leaves the object in state Hashing, and the
call does return when `x` is not a MAC.  When `x` is Finished, CPHashData
returns FALSE with last error NTE_BAD_HASH_STATE and changes nothing but the
last error, so neither the stored digest nor the state; and, for an algorithm
other than CALG_TLS1PRF, a digest read with a buffer of sufficient size, in
every state with the same handle table, returns TRUE with the first dwHashSize
bytes of the stored digest and leaves the state as it is. -/
theorem hash_state_machine {κ η : Type} (impl : IMPL κ η) (s : CSP κ η) (hProv hHash : Nat)
    (d : List Nat) (x : CRYPTHASH η) (e : PROV_ENUMALGS_EX)
    (hh : lookup_hash s.handle_table hHash = some x)
    (hg : get_algid_info s.handle_table hProv x.aiAlgid = .ok e)
    (hssl : x.aiAlgid ≠ CALG_SSL3_SHAMD5) :
    (x.dwState = RSAENH_HASHSTATE_IDLE →
      (∀ (ok : Bool) (s' : CSP κ η),
        RSAENH_CPHashData impl s hProv hHash d 0 = some (ok, s') →
        ok = true ∧ ∃ x', lookup_hash s'.handle_table hHash = some x' ∧
          x'.dwState = RSAENH_HASHSTATE_HASHING) ∧
      (x.aiAlgid ≠ CALG_MAC →
        ∃ s', RSAENH_CPHashData impl s hProv hHash d 0 = some (true, s'))) ∧
    (x.dwState = RSAENH_HASHSTATE_FINISHED →
      RSAENH_CPHashData impl s hProv hHash d 0
        = some (false, SetLastError s WINERROR.NTE_BAD_HASH_STATE) ∧
      (SetLastError s WINERROR.NTE_BAD_HASH_STATE).handle_table = s.handle_table ∧
      (x.aiAlgid ≠ CALG_TLS1PRF →
        ∀ (s0 : CSP κ η) (buf : List Nat) (n : Nat),
          s0.handle_table = s.handle_table → x.dwHashSize ≤ n →
          RSAENH_CPGetHashParam impl s0 hProv hHash HP_HASHVAL (some buf) (some n) 0
            = some (true, s0, some (memmove buf 0 (bytesAt x.abHashValue 0 x.dwHashSize)),
                some x.dwHashSize))) := by
  have hobj := (lookup_hash_of_object _ _ _).mp hh
  have hgb : ¬ ((get_algid_info s.handle_table hProv x.aiAlgid).toBool = false ∨
      x.aiAlgid = CALG_SSL3_SHAMD5) := by
    rw [hg]
    exact fun hc => hc.elim (fun h1 => Bool.noConfusion h1) (fun h2 => hssl h2)
  constructor
  · intro hidle
    have run : RSAENH_CPHashData impl s hProv hHash d 0 =
        match update_hash impl
          (s.withTable (store_object s.handle_table hHash
            (.hash { x with dwState := RSAENH_HASHSTATE_HASHING })))
          { x with dwState := RSAENH_HASHSTATE_HASHING } d with
        | none => none
        | some (s2, h2) =>
          some (true, s2.withTable (store_object s2.handle_table hHash (.hash h2))) := by
      unfold RSAENH_CPHashData
      rw [if_neg (by decide), hh]
      simp only []
      rw [if_neg hgb, if_pos hidle]
      rw [if_neg (by simp)]
    constructor
    · intro ok s' h
      rw [run] at h
      rcases hq : update_hash impl
          (s.withTable (store_object s.handle_table hHash
            (.hash { x with dwState := RSAENH_HASHSTATE_HASHING })))
          { x with dwState := RSAENH_HASHSTATE_HASHING } d with _ | ⟨s2, h2⟩
      · rw [hq] at h; cases h
      · rw [hq] at h
        simp only [Option.some.injEq, Prod.mk.injEq] at h
        obtain ⟨hfr, hst⟩ := update_hash_hashes impl _ s2 _ h2 d hq
        refine ⟨h.1.symm, h2, ?_, hst⟩
        rw [← h.2]
        exact lookup_hash_store_same _ _ _ _
          (show lookup_hash s2.handle_table hHash
              = some { x with dwState := RSAENH_HASHSTATE_HASHING } by
            rw [hfr]; exact lookup_hash_store_same _ _ _ _ hh)
    · intro hmac
      rw [run]
      obtain ⟨x', hx'⟩ := update_hash_nonmac impl
        (s.withTable (store_object s.handle_table hHash
          (.hash { x with dwState := RSAENH_HASHSTATE_HASHING })))
        { x with dwState := RSAENH_HASHSTATE_HASHING } d hmac
      rw [hx']
      exact ⟨_, rfl⟩
  · intro hfin
    refine ⟨?_, rfl, ?_⟩
    · unfold RSAENH_CPHashData
      rw [if_neg (by decide), hh]
      simp only []
      rw [if_neg hgb,
        if_neg (show ¬ x.dwState = RSAENH_HASHSTATE_IDLE by rw [hfin]; decide),
        if_pos (show x.dwState ≠ RSAENH_HASHSTATE_HASHING by rw [hfin]; decide),
        store_object_same _ _ _ hobj]
      rfl
    · intro hprf s0 buf n ht hn
      have hprov := get_algid_info_ok_container _ _ _ _ hg
      unfold RSAENH_CPGetHashParam
      rw [ht, hprov, hh]
      simp only [not_true_eq_false, if_false, ne_eq, if_true]
      rw [if_neg (show ¬ HP_HASHVAL = HP_ALGID by decide),
        if_neg (show ¬ HP_HASHVAL = HP_HASHSIZE by decide), if_neg hprf,
        if_neg (show ¬ x.dwState = RSAENH_HASHSTATE_IDLE by rw [hfin]; decide)]
      simp only [Option.isSome_some, true_and]
      rw [if_neg (show ¬ x.dwState ≠ RSAENH_HASHSTATE_FINISHED from fun hc => hc hfin)]
      simp only []
      have hst : s0.withTable (store_object s0.handle_table hHash (.hash x)) = s0 := by
        rw [ht, store_object_same _ _ _ hobj, ← ht]; rfl
      rw [hst]
      unfold copy_param
      simp only []
      rw [if_neg (Nat.not_lt.mpr hn)]

/-- Witness for C20: the amended theorem at a Finished SHA hash object (handle 2): CPHashData
fails with NTE_BAD_HASH_STATE and a digest read returns the stored digest. -/
theorem hash_state_machine_witness :
    RSAENH_CPHashData toyImpl
        (toyState 0 [.hash (toyHash CALG_SHA 20 RSAENH_HASHSTATE_FINISHED [])]) 1 2 [1, 2, 3] 0
      = some (false,
          SetLastError (toyState 0 [.hash (toyHash CALG_SHA 20 RSAENH_HASHSTATE_FINISHED [])])
            WINERROR.NTE_BAD_HASH_STATE) ∧
    RSAENH_CPGetHashParam toyImpl
        (toyState 0 [.hash (toyHash CALG_SHA 20 RSAENH_HASHSTATE_FINISHED [])]) 1 2 HP_HASHVAL
        (some (List.replicate 20 9)) (some 20) 0
      = some (true, toyState 0 [.hash (toyHash CALG_SHA 20 RSAENH_HASHSTATE_FINISHED [])],
          some (memmove (List.replicate 20 9) 0
            (bytesAt (toyHash CALG_SHA 20 RSAENH_HASHSTATE_FINISHED []).abHashValue 0
              (toyHash CALG_SHA 20 RSAENH_HASHSTATE_FINISHED []).dwHashSize)),
          some (toyHash CALG_SHA 20 RSAENH_HASHSTATE_FINISHED []).dwHashSize) :=
  ⟨((hash_state_machine toyImpl
      (toyState 0 [.hash (toyHash CALG_SHA 20 RSAENH_HASHSTATE_FINISHED [])]) 1 2 [1, 2, 3]
      (toyHash CALG_SHA 20 RSAENH_HASHSTATE_FINISHED [])
      ⟨CALG_SHA, 160, 160, 160, CRYPT_FLAG_SIGNING, 6, "SHA-1", 30,
        "Secure Hash Algorithm (SHA-1)"⟩
      (by decide) (by decide) (by decide)).2 (by decide)).1,
   ((hash_state_machine toyImpl
      (toyState 0 [.hash (toyHash CALG_SHA 20 RSAENH_HASHSTATE_FINISHED [])]) 1 2 [1, 2, 3]
      (toyHash CALG_SHA 20 RSAENH_HASHSTATE_FINISHED [])
      ⟨CALG_SHA, 160, 160, 160, CRYPT_FLAG_SIGNING, 6, "SHA-1", 30,
        "Secure Hash Algorithm (SHA-1)"⟩
      (by decide) (by decide) (by decide)).2 (by decide)).2.2 (by decide)
      (toyState 0 [.hash (toyHash CALG_SHA 20 RSAENH_HASHSTATE_FINISHED [])])
      (List.replicate 20 9) 20 rfl (by decide)⟩

theorem is_valid_handle_of_hash {κ η : Type} (t : HANDLETABLE κ η) (h : Nat) (x : CRYPTHASH η)
    (hh : lookup_hash t h = some x) : is_valid_handle t h is_hash = true := by
  unfold is_valid_handle
  rw [(lookup_hash_of_object _ _ _).mp hh]
  rfl

/-- The entry of CPEncrypt and CPDecrypt writes no container, whatever its result. -/
theorem transform_enter_containers {κ η : Type} (s : CSP κ η)
    (hProv hKey dwFlags newState : Nat) (hh : Nat) :
    lookup_container (match transform_enter s hProv hKey dwFlags newState with
      | .ok s1 => s1 | .error s1 => s1).handle_table hh = lookup_container s.handle_table hh := by
  unfold transform_enter
  by_cases hp : ¬ is_valid_handle s.handle_table hProv is_container = true
  · rw [if_pos hp]; rfl
  · rw [if_neg hp]
    by_cases hf : dwFlags ≠ 0
    · rw [if_pos hf]; rfl
    · rw [if_neg hf]
      rcases hq : lookup_key s.handle_table hKey with _ | k
      · rfl
      · simp only []
        obtain ⟨k1, hk1⟩ : ∃ k1, (if k.dwState = RSAENH_KEYSTATE_IDLE then
            ({ k with dwState := newState } : CRYPTKEY κ) else k) = k1 := ⟨_, rfl⟩
        rw [hk1]
        by_cases hs : k1.dwState ≠ newState
        · rw [if_pos hs]
          exact lookup_container_store_key _ _ _ _ _ hq
        · rw [if_neg hs]
          exact lookup_container_store_key _ _ _ _ _ hq

/-- The part of CPDecrypt before the hash step writes no hash object and no container, whatever
its result. -/
theorem CPDecrypt_transform_frame {κ η : Type} (impl : IMPL κ η) (s : CSP κ η) (hKey : Nat)
    (k0 k : CRYPTKEY κ) (Final : Bool) (dwFlags : Nat) (pbData : List Nat)
    (dwDataLen : Nat) (r : Bool × CSP κ η × List Nat × Nat)
    (hl : lookup_key s.handle_table hKey = some k0)
    (h : CPDecrypt_transform impl s hKey k Final dwFlags pbData dwDataLen = some r)
    (hh : Nat) :
    lookup_hash r.2.1.handle_table hh = lookup_hash s.handle_table hh ∧
    lookup_container r.2.1.handle_table hh = lookup_container s.handle_table hh := by
  have base : ∀ k', lookup_hash (store_object s.handle_table hKey (.key k')) hh
        = lookup_hash s.handle_table hh ∧
      lookup_container (store_object s.handle_table hKey (.key k')) hh
        = lookup_container s.handle_table hh :=
    fun k' => ⟨lookup_hash_store_key_eq _ _ _ _ _ hl, lookup_container_store_key _ _ _ _ _ hl⟩
  unfold CPDecrypt_transform at h
  by_cases hb : GET_ALG_TYPE k.aiAlgid = ALG_TYPE_BLOCK
  · rw [if_pos hb] at h
    rcases hq : block_loop impl true dwDataLen dwDataLen k pbData 0 local_block local_block
      with _ | ⟨ok, k2, b2⟩
    · rw [hq] at h; cases h
    · rw [hq] at h
      cases ok
      · simp only [Bool.false_eq_true, if_false] at h
        injection h with h; rw [← h]; exact base _
      · simp only [if_true] at h
        injection h with h; rw [← h]; exact base _
  · rw [if_neg hb] at h
    by_cases hs : GET_ALG_TYPE k.aiAlgid = ALG_TYPE_STREAM
    · rw [if_pos hs] at h
      injection h with h; rw [← h]; exact base _
    · rw [if_neg hs] at h
      by_cases hr : GET_ALG_TYPE k.aiAlgid = ALG_TYPE_RSA
      · rw [if_pos hr] at h
        by_cases hg : k.aiAlgid = CALG_RSA_SIGN
        · rw [if_pos hg] at h
          injection h with h; rw [← h]; exact ⟨rfl, rfl⟩
        · rw [if_neg hg] at h
          simp only [] at h
          rcases hq : unpad_data
              (call_encrypt_block impl k.aiAlgid k.context (bytesAt pbData 0 k.dwBlockLen) pbData
                RSAENH_DECRYPT) k.dwBlockLen
              (call_encrypt_block impl k.aiAlgid k.context (bytesAt pbData 0 k.dwBlockLen) pbData
                RSAENH_DECRYPT) dwDataLen dwFlags with e | ⟨buf1, n⟩
          · rw [hq] at h
            injection h with h; rw [← h]; exact ⟨rfl, rfl⟩
          · rw [hq] at h
            injection h with h; rw [← h]; exact base _
      · rw [if_neg hr] at h
        injection h with h; rw [← h]; exact ⟨rfl, rfl⟩

/-- A CPHashData call that returns TRUE on a hash object `x` that is not a MAC: `x` was Idle or
Hashing, of an algorithm of the container other than CALG_SSL3_SHAMD5, and the
hash object afterwards is the one that update_hash makes of `x` in state
Hashing and the data. -/
theorem CPHashData_nonmac_true {κ η : Type} (impl : IMPL κ η) (s s' : CSP κ η)
    (hProv hHash : Nat) (d : List Nat) (x : CRYPTHASH η)
    (hh : lookup_hash s.handle_table hHash = some x) (hx : x.aiAlgid ≠ CALG_MAC)
    (h : RSAENH_CPHashData impl s hProv hHash d 0 = some (true, s')) :
    ((x.dwState = RSAENH_HASHSTATE_IDLE ∨ x.dwState = RSAENH_HASHSTATE_HASHING) ∧
      (get_algid_info s.handle_table hProv x.aiAlgid).toBool = true ∧
      x.aiAlgid ≠ CALG_SSL3_SHAMD5) ∧
    ∃ x', lookup_hash s'.handle_table hHash = some x' ∧
      ∀ t : CSP κ η,
        update_hash impl t { x with dwState := RSAENH_HASHSTATE_HASHING } d = some (t, x') := by
  unfold RSAENH_CPHashData at h
  rw [if_neg (by decide), hh] at h
  simp only [] at h
  by_cases ha : (get_algid_info s.handle_table hProv x.aiAlgid).toBool = false ∨
      x.aiAlgid = CALG_SSL3_SHAMD5
  · rw [if_pos ha] at h
    simp only [Option.some.injEq, Prod.mk.injEq] at h
    exact absurd h.1 (by decide)
  · rw [if_neg ha] at h
    obtain ⟨h1, hh1⟩ : ∃ h1, (if x.dwState = RSAENH_HASHSTATE_IDLE then
        ({ x with dwState := RSAENH_HASHSTATE_HASHING } : CRYPTHASH η) else x) = h1 := ⟨_, rfl⟩
    rw [hh1] at h
    by_cases hs : h1.dwState ≠ RSAENH_HASHSTATE_HASHING
    · rw [if_pos hs] at h
      simp only [Option.some.injEq, Prod.mk.injEq] at h
      exact absurd h.1 (by decide)
    · rw [if_neg hs] at h
      have hs' : h1.dwState = RSAENH_HASHSTATE_HASHING := not_not.mp hs
      have hst : x.dwState = RSAENH_HASHSTATE_IDLE ∨ x.dwState = RSAENH_HASHSTATE_HASHING := by
        by_cases hi : x.dwState = RSAENH_HASHSTATE_IDLE
        · exact Or.inl hi
        · rw [if_neg hi] at hh1
          rw [← hh1] at hs'
          exact Or.inr hs'
      have h1e : h1 = { x with dwState := RSAENH_HASHSTATE_HASHING } := by
        by_cases hi : x.dwState = RSAENH_HASHSTATE_IDLE
        · rw [if_pos hi] at hh1; exact hh1.symm
        · rw [if_neg hi] at hh1
          rw [← hh1] at hs' ⊢
          cases x
          simp only [CRYPTHASH.mk.injEq, true_and, and_true] at hs' ⊢
          exact hs'
      have hx1 : h1.aiAlgid ≠ CALG_MAC := by rw [h1e]; exact hx
      obtain ⟨x', hx'⟩ := update_hash_nonmac impl
        (s.withTable (store_object s.handle_table hHash (.hash h1))) h1 d hx1
      rw [hx'] at h
      simp only [Option.some.injEq, Prod.mk.injEq, true_and] at h
      refine ⟨⟨hst, ?_, fun hc => ha (Or.inr hc)⟩, x', ?_, ?_⟩
      · rcases hq : (get_algid_info s.handle_table hProv x.aiAlgid).toBool
        · exact absurd (Or.inl hq) ha
        · rfl
      · rw [← h]
        exact lookup_hash_store_same _ _ _ _ (lookup_hash_store_same _ _ _ _ hh)
      · intro t
        obtain ⟨x'', hx''⟩ := update_hash_nonmac impl t h1 d hx1
        have e : x'' = x' := by
          unfold update_hash at hx' hx''
          by_cases c1 : h1.aiAlgid = CALG_HMAC
          · rw [if_pos c1] at hx' hx''
            rcases hq : h1.pHMACInfo with _ | info
            · rw [hq] at hx' hx''
              simp only [Option.some.injEq, Prod.mk.injEq, true_and] at hx' hx''
              rw [← hx', ← hx'']
            · rw [hq] at hx' hx''
              simp only [Option.some.injEq, Prod.mk.injEq, true_and] at hx' hx''
              rw [← hx', ← hx'']
          · rw [if_neg c1, if_neg hx1] at hx' hx''
            simp only [Option.some.injEq, Prod.mk.injEq, true_and] at hx' hx''
            rw [← hx', ← hx'']
        rw [← h1e, hx'', e]

theorem get_algid_info_congr {κ η : Type} (t t' : HANDLETABLE κ η) (hProv alg : Nat)
    (h : lookup_container t' hProv = lookup_container t hProv) :
    get_algid_info t' hProv alg = get_algid_info t hProv alg := by
  unfold get_algid_info
  rw [h]

/-- A CPEncrypt call that returns TRUE with a hash handle that names the hash object `x`, not a
MAC: `x` was Idle or Hashing, of an algorithm that CPHashData accepts, and
the hash object afterwards is the one that update_hash makes of `x` and the
`dwDataLen` bytes passed in. -/
theorem CPEncrypt_feeds_hash {κ η : Type} (impl : IMPL κ η) (s s' : CSP κ η)
    (hProv hKey hHash : Nat) (Final : Bool) (dwFlags : Nat) (pbData buf : List Nat)
    (dwDataLen dwBufLen n : Nat) (x : CRYPTHASH η)
    (hh : lookup_hash s.handle_table hHash = some x) (hx : x.aiAlgid ≠ CALG_MAC)
    (h : RSAENH_CPEncrypt impl s hProv hKey hHash Final dwFlags pbData dwDataLen dwBufLen
      = some (true, s', buf, n)) :
    ((x.dwState = RSAENH_HASHSTATE_IDLE ∨ x.dwState = RSAENH_HASHSTATE_HASHING) ∧
      (get_algid_info s.handle_table hProv x.aiAlgid).toBool = true ∧
      x.aiAlgid ≠ CALG_SSL3_SHAMD5) ∧
    ∃ x', lookup_hash s'.handle_table hHash = some x' ∧
      ∀ t : CSP κ η,
        update_hash impl t { x with dwState := RSAENH_HASHSTATE_HASHING }
          (bytesAt pbData 0 dwDataLen) = some (t, x') := by
  unfold RSAENH_CPEncrypt at h
  have f1 := transform_enter_hashes s hProv hKey dwFlags RSAENH_KEYSTATE_ENCRYPTING hHash
  have f2 := transform_enter_containers s hProv hKey dwFlags RSAENH_KEYSTATE_ENCRYPTING hProv
  rcases hq : transform_enter s hProv hKey dwFlags RSAENH_KEYSTATE_ENCRYPTING with e1 | s1
  · rw [hq] at h
    simp only [Option.some.injEq, Prod.mk.injEq] at h
    exact absurd h.1 (by decide)
  · rw [hq] at h f1 f2
    simp only [] at h f1 f2
    have hh1 : lookup_hash s1.handle_table hHash = some x := by rw [f1]; exact hh
    rw [if_pos (is_valid_handle_of_hash _ _ _ hh1)] at h
    rcases hq2 : RSAENH_CPHashData impl s1 hProv hHash (bytesAt pbData 0 dwDataLen) 0
      with _ | ⟨okh, s2⟩
    · rw [hq2] at h; cases h
    · rw [hq2] at h
      cases okh
      · simp only [Option.some.injEq, Prod.mk.injEq] at h
        exact absurd h.1 (by decide)
      · simp only [] at h
        obtain ⟨⟨a, b, c⟩, x', hx', hu⟩ := CPHashData_nonmac_true impl s1 s2 hProv hHash _ x hh1
          hx hq2
        rw [get_algid_info_congr _ _ _ _ f2] at b
        refine ⟨⟨a, b, c⟩, x', ?_, hu⟩
        rcases hq3 : lookup_key s2.handle_table hKey with _ | k2
        · rw [hq3] at h; cases h
        · rw [hq3] at h
          simp only [] at h
          rw [← hx']
          exact CPEncrypt_transform_hashes impl s2 hKey k2 k2 Final dwFlags pbData dwDataLen
            dwBufLen (true, s', buf, n) hq3 h hHash

/-- A CPDecrypt call that returns TRUE with a hash handle that names the hash object `x`, not a
MAC: `x` was Idle or Hashing, of an algorithm that CPHashData accepts, and
the hash object afterwards is the one that update_hash makes of `x` and the
`n` bytes that the call returns. -/
theorem CPDecrypt_feeds_hash {κ η : Type} (impl : IMPL κ η) (s s' : CSP κ η)
    (hProv hKey hHash : Nat) (Final : Bool) (dwFlags : Nat) (pbData buf : List Nat)
    (dwDataLen n : Nat) (x : CRYPTHASH η)
    (hh : lookup_hash s.handle_table hHash = some x) (hx : x.aiAlgid ≠ CALG_MAC)
    (h : RSAENH_CPDecrypt impl s hProv hKey hHash Final dwFlags pbData dwDataLen
      = some (true, s', buf, n)) :
    ((x.dwState = RSAENH_HASHSTATE_IDLE ∨ x.dwState = RSAENH_HASHSTATE_HASHING) ∧
      (get_algid_info s.handle_table hProv x.aiAlgid).toBool = true ∧
      x.aiAlgid ≠ CALG_SSL3_SHAMD5) ∧
    ∃ x', lookup_hash s'.handle_table hHash = some x' ∧
      ∀ t : CSP κ η,
        update_hash impl t { x with dwState := RSAENH_HASHSTATE_HASHING }
          (bytesAt buf 0 n) = some (t, x') := by
  unfold RSAENH_CPDecrypt at h
  have f1 := transform_enter_hashes s hProv hKey dwFlags RSAENH_KEYSTATE_DECRYPTING hHash
  have f2 := transform_enter_containers s hProv hKey dwFlags RSAENH_KEYSTATE_DECRYPTING hProv
  rcases hq : transform_enter s hProv hKey dwFlags RSAENH_KEYSTATE_DECRYPTING with e1 | s1
  · rw [hq] at h
    simp only [Option.some.injEq, Prod.mk.injEq] at h
    exact absurd h.1 (by decide)
  · rw [hq] at h f1 f2
    simp only [] at h f1 f2
    rcases hq1 : lookup_key s1.handle_table hKey with _ | k1
    · rw [hq1] at h; cases h
    · rw [hq1] at h
      simp only [] at h
      rcases hq2 : CPDecrypt_transform impl s1 hKey k1 Final dwFlags pbData dwDataLen
        with _ | ⟨okt, s2, b2, n2⟩
      · rw [hq2] at h; cases h
      · rw [hq2] at h
        obtain ⟨g1, -⟩ := CPDecrypt_transform_frame impl s1 hKey k1 k1 Final dwFlags pbData
          dwDataLen _ hq1 hq2 hHash
        obtain ⟨-, g2⟩ := CPDecrypt_transform_frame impl s1 hKey k1 k1 Final dwFlags pbData
          dwDataLen _ hq1 hq2 hProv
        simp only [] at g1 g2
        cases okt
        · simp only [Option.some.injEq, Prod.mk.injEq] at h
          exact absurd h.1 (by decide)
        · simp only [] at h
          have hh2 : lookup_hash s2.handle_table hHash = some x := by rw [g1, f1]; exact hh
          rw [if_pos (is_valid_handle_of_hash _ _ _ hh2)] at h
          by_cases hn : n2 > dwDataLen
          · rw [if_pos hn] at h
            simp only [Option.some.injEq, Prod.mk.injEq] at h
            exact absurd h.1 (by decide)
          · rw [if_neg hn] at h
            rcases hq3 : RSAENH_CPHashData impl s2 hProv hHash (bytesAt b2 0 n2) 0
              with _ | ⟨okh, s3⟩
            · rw [hq3] at h; cases h
            · rw [hq3] at h
              simp only [Option.some.injEq, Prod.mk.injEq] at h
              obtain ⟨e1, e2, e3, e4⟩ := h
              subst e1 e2 e3 e4
              obtain ⟨⟨a, b, c⟩, x', hx', hu⟩ := CPHashData_nonmac_true impl s2 s3 hProv hHash _
                x hh2 hx hq3
              rw [get_algid_info_congr _ _ _ _ (g2.trans f2)] at b
              exact ⟨⟨a, b, c⟩, x', hx', hu⟩

/-- The round trip of CPEncrypt and CPDecrypt with Final = TRUE, with hash objects that are
not MACs and that CPHashData accepts: both calls succeed. -/
theorem round_trip_with_hash {κ η : Type} (impl : IMPL κ η) (sE sD : CSP κ η)
    (hProvE hKeyE hHashE hProvD hKeyD hHashD : Nat) (kE kD : CRYPTKEY κ)
    (xE xD : CRYPTHASH η) (bl : Nat)
    (P tailE tailD : List Nat) (dwBufLen : Nat)
    (hbl : 0 < bl) (hbl24 : bl ≤ RSAENH_MAX_BLOCK_SIZE)
    (hprovE : is_valid_handle sE.handle_table hProvE is_container = true)
    (hprovD : is_valid_handle sD.handle_table hProvD is_container = true)
    (hkeyE : lookup_key sE.handle_table hKeyE = some kE)
    (hkeyD : lookup_key sD.handle_table hKeyD = some kD)
    (hhashE : lookup_hash sE.handle_table hHashE = some xE)
    (hhashD : lookup_hash sD.handle_table hHashD = some xD)
    (hxE : xE.aiAlgid ≠ CALG_MAC) (hxD : xD.aiAlgid ≠ CALG_MAC)
    (hokE : (xE.dwState = RSAENH_HASHSTATE_IDLE ∨ xE.dwState = RSAENH_HASHSTATE_HASHING) ∧
      (get_algid_info sE.handle_table hProvE xE.aiAlgid).toBool = true ∧
      xE.aiAlgid ≠ CALG_SSL3_SHAMD5)
    (hokD : (xD.dwState = RSAENH_HASHSTATE_IDLE ∨ xD.dwState = RSAENH_HASHSTATE_HASHING) ∧
      (get_algid_info sD.handle_table hProvD xD.aiAlgid).toBool = true ∧
      xD.aiAlgid ≠ CALG_SSL3_SHAMD5)
    (htype : GET_ALG_TYPE kE.aiAlgid = ALG_TYPE_BLOCK)
    (hblock : BlockKey kE bl) (hsame : SameCipher kE kD)
    (hidleE : kE.dwState = RSAENH_KEYSTATE_IDLE) (hidleD : kD.dwState = RSAENH_KEYSTATE_IDLE)
    (hprim : BlockInverse impl kE.aiAlgid kE.context bl) (hP : isBytes P)
    (hbuf : (P.length / bl + 1) * bl ≤ dwBufLen) (hbuf32 : dwBufLen < 4294967296)
    (hmem : dwBufLen ≤ (P ++ tailE).length) :
    ∃ sE' C restE,
      RSAENH_CPEncrypt impl sE hProvE hKeyE hHashE true 0 (P ++ tailE) P.length dwBufLen
        = some (true, sE', C ++ restE, (P.length / bl + 1) * bl) ∧
      C.length = (P.length / bl + 1) * bl ∧
      ∃ sD' restP,
        RSAENH_CPDecrypt impl sD hProvD hKeyD hHashD true 0 (C ++ tailD) C.length
          = some (true, sD', P ++ restP, P.length) := by
  have h24 : RSAENH_MAX_BLOCK_SIZE = 24 := rfl
  obtain ⟨hf1, hf2, hf3⟩ := padded_len_facts P.length bl hbl
  obtain ⟨kE1, hkE1⟩ : ∃ k1, ({ kE with dwState := RSAENH_KEYSTATE_ENCRYPTING } : CRYPTKEY κ)
      = k1 := ⟨_, rfl⟩
  obtain ⟨kD1, hkD1⟩ : ∃ k1, ({ kD with dwState := RSAENH_KEYSTATE_DECRYPTING } : CRYPTKEY κ)
      = k1 := ⟨_, rfl⟩
  have hblock1 : BlockKey kE1 bl := by rw [← hkE1]; exact hblock
  have hsame1 : SameCipher kE1 kD1 := by rw [← hkE1, ← hkD1]; exact hsame
  have hprim1 : BlockInverse impl kE1.aiAlgid kE1.context bl := by rw [← hkE1]; exact hprim
  have htypeE1 : GET_ALG_TYPE kE1.aiAlgid = ALG_TYPE_BLOCK := by rw [← hkE1]; exact htype
  have htypeD1 : GET_ALG_TYPE kD1.aiAlgid = ALG_TYPE_BLOCK := by
    rw [← hsame1.1]; exact htypeE1
  obtain ⟨p, hp⟩ : ∃ p, (P.length / bl + 1) * bl - P.length = p := ⟨_, rfl⟩
  have hX : (P ++ List.replicate p p).length = (P.length / bl + 1) * bl := by
    rw [List.length_append, List.length_replicate]; omega
  have hXb : isBytes (P ++ List.replicate p p) :=
    isBytes_append hP (isBytes_replicate _ _ (by omega))
  obtain ⟨C, kE', hloopE, hC, kD', hloopD⟩ := block_loop_round_trip impl bl hbl hbl24
    (P.length / bl + 1) (P ++ List.replicate p p) [] (tailE.drop p) [] tailD kE1 kD1
    local_block local_block local_block local_block ((P.length / bl + 1) * bl)
    ((P.length / bl + 1) * bl) hX hXb hblock1 hsame1 hprim1 rfl rfl rfl rfl hf3 hf3
  simp only [List.length_nil, Nat.zero_add, List.nil_append, List.append_assoc] at hloopE hloopD
  have hobjE := (lookup_key_of_object _ _ _).mp hkeyE
  have hobjD := (lookup_key_of_object _ _ _).mp hkeyD
  -- the encrypting call
  obtain ⟨s1, hs1⟩ : ∃ s1, sE.withTable (store_object sE.handle_table hKeyE (.key kE1)) = s1 :=
    ⟨_, rfl⟩
  have hk1 : lookup_key s1.handle_table hKeyE = some kE1 := by
    rw [← hs1]; exact lookup_key_store_same _ _ _ _ hkeyE
  have hh1 : lookup_hash s1.handle_table hHashE = some xE := by
    rw [← hs1]; exact (lookup_hash_store_key_eq _ _ _ _ _ hkeyE).trans hhashE
  have hg1 : get_algid_info s1.handle_table hProvE xE.aiAlgid
      = get_algid_info sE.handle_table hProvE xE.aiAlgid := by
    rw [← hs1]; exact get_algid_info_store_key _ _ _ _ _ _ hkeyE
  obtain ⟨okE, s2, hq2, hok2⟩ := CPHashData_nonmac impl s1 hProvE hHashE
    (bytesAt (P ++ tailE) 0 P.length) xE hh1 hxE
  have hokE' : okE = true := hok2 hokE.1 (by rw [hg1]; exact hokE.2.1) hokE.2.2
  subst hokE'
  have hk2 : lookup_key s2.handle_table hKeyE = some kE1 := by
    rw [CPHashData_keys impl s1 s2 hProvE hHashE 0 _ xE true hh1 hxE hq2 hKeyE]; exact hk1
  have hE : RSAENH_CPEncrypt impl sE hProvE hKeyE hHashE true 0 (P ++ tailE) P.length
      dwBufLen = some (true,
        s2.withTable (store_object s2.handle_table hKeyE (.key (setup_key impl kE'))),
        C ++ tailE.drop p, (P.length / bl + 1) * bl) := by
    unfold RSAENH_CPEncrypt
    rw [transform_enter_ok sE hProvE hKeyE _ kE hprovE hkeyE (Or.inl hidleE), hkE1, hs1]
    simp only []
    rw [if_pos (is_valid_handle_of_hash _ _ _ hh1), hq2]
    simp only []
    rw [hk2]
    simp only []
    rw [CPEncrypt_transform_block_final impl _ hKeyE kE1 P tailE dwBufLen bl htypeE1 hblock1.1
      hbl (by omega) hbuf hbuf32 hmem, hp, hloopE]
    simp only [if_true]
  -- the decrypting call
  obtain ⟨t2, ht2⟩ : ∃ t2, sD.withTable (store_object
      (store_object sD.handle_table hKeyD (.key kD1)) hKeyD (.key (setup_key impl kD'))) = t2 :=
    ⟨_, rfl⟩
  have hobjD1 : lookup_object (store_object sD.handle_table hKeyD (.key kD1)) hKeyD
      = some (.key kD1) := lookup_object_store_same _ _ _ _ hobjD
  have hkD1' : lookup_key (store_object sD.handle_table hKeyD (.key kD1)) hKeyD = some kD1 :=
    lookup_key_store_same _ _ _ _ hkeyD
  have hth : lookup_hash t2.handle_table hHashD = some xD := by
    rw [← ht2]
    exact ((lookup_hash_store_key_eq _ _ _ _ _ hkD1').trans
      (lookup_hash_store_key_eq _ _ _ _ _ hkeyD)).trans hhashD
  have htg : get_algid_info t2.handle_table hProvD xD.aiAlgid
      = get_algid_info sD.handle_table hProvD xD.aiAlgid := by
    rw [← ht2]
    exact (get_algid_info_store_key _ _ _ _ _ _ hkD1').trans
      (get_algid_info_store_key _ _ _ _ _ _ hkeyD)
  obtain ⟨okD, t3, hq3, hok3⟩ := CPHashData_nonmac impl t2 hProvD hHashD
    (bytesAt (P ++ (List.replicate p p ++ tailD)) 0 P.length) xD hth hxD
  have hokD' : okD = true := hok3 hokD.1 (by rw [htg]; exact hokD.2.1) hokD.2.2
  subst hokD'
  have hD : RSAENH_CPDecrypt impl sD hProvD hKeyD hHashD true 0 (C ++ tailD) C.length
      = some (true, t3, P ++ (List.replicate p p ++ tailD), P.length) := by
    unfold RSAENH_CPDecrypt
    rw [transform_enter_ok sD hProvD hKeyD _ kD hprovD hkeyD (Or.inl hidleD), hkD1]
    simp only [CSP.withTable]
    rw [lookup_key_store_same _ _ _ _ hkeyD]
    simp only []
    unfold CPDecrypt_transform
    rw [if_pos htypeD1, hC, hloopD]
    simp only [if_true]
    rw [dwSub_eq _ 1 (by omega),
      last_pad_byte P tailD p ((P.length / bl + 1) * bl) (by omega) (by omega),
      dwSub_eq _ _ (by omega)]
    have e : (P.length / bl + 1) * bl - p = P.length := by omega
    rw [e]
    have ht2' : ({ sD with handle_table := store_object sD.handle_table hKeyD (.key kD1) } :
        CSP κ η).withTable (store_object (store_object sD.handle_table hKeyD (.key kD1)) hKeyD
          (.key (setup_key impl kD'))) = t2 := by
      rw [← ht2]; rfl
    rw [ht2', if_pos (is_valid_handle_of_hash _ _ _ hth), if_neg (by omega), hq3]
  exact ⟨_, C, tailE.drop p, hE, hC, t3, List.replicate p p ++ tailD, hD⟩

theorem bytesAt_append_left (P tail : List Nat) : bytesAt (P ++ tail) 0 P.length = P := by
  rw [bytesAt_zero, List.take_left' rfl]

/-- C19. Hashing side effect of a transform, for a hash handle that names a hash object `x`
that is not a MAC (`update_hash ... x d` is the hash object that has
absorbed the bytes `d`).  (1) After a CPEncrypt call that returns TRUE the
hash object has absorbed exactly the `dwDataLen` bytes passed in, and after a
CPDecrypt call that returns TRUE exactly the `n` bytes that the call returns.
(2) When CPHashData rejects the hash object (it is not Idle or Hashing, or not
of an algorithm of the container, or a CALG_SSL3_SHAMD5 object), CPEncrypt
returns FALSE with the buffer untouched and CPDecrypt does not return TRUE.
(3) In the setting of the block-cipher round trip (block length `bl`, Idle keys
in the same cipher state, a primitive whose decrypt direction inverts the
encrypt direction) with hash objects that CPHashData accepts, encrypting `P`
with Final = TRUE gives a ciphertext `C`, decrypting `C` with Final = TRUE
gives `P`, and both hash objects have absorbed exactly `P`. -/
theorem transform_hash_side_effect {κ η : Type} (impl : IMPL κ η) :
    (∀ (s s' : CSP κ η) (hProv hKey hHash dwFlags dwDataLen dwBufLen n : Nat) (Final : Bool)
        (pbData buf : List Nat) (x : CRYPTHASH η),
      lookup_hash s.handle_table hHash = some x → x.aiAlgid ≠ CALG_MAC →
      (RSAENH_CPEncrypt impl s hProv hKey hHash Final dwFlags pbData dwDataLen dwBufLen
          = some (true, s', buf, n) →
        ∃ x', lookup_hash s'.handle_table hHash = some x' ∧
          ∀ t : CSP κ η,
            update_hash impl t { x with dwState := RSAENH_HASHSTATE_HASHING }
              (bytesAt pbData 0 dwDataLen) = some (t, x')) ∧
      (RSAENH_CPDecrypt impl s hProv hKey hHash Final dwFlags pbData dwDataLen
          = some (true, s', buf, n) →
        ∃ x', lookup_hash s'.handle_table hHash = some x' ∧
          ∀ t : CSP κ η,
            update_hash impl t { x with dwState := RSAENH_HASHSTATE_HASHING }
              (bytesAt buf 0 n) = some (t, x'))) ∧
    (∀ (s : CSP κ η) (hProv hKey hHash dwFlags dwDataLen dwBufLen : Nat) (Final : Bool)
        (pbData : List Nat) (x : CRYPTHASH η),
      lookup_hash s.handle_table hHash = some x → x.aiAlgid ≠ CALG_MAC →
      ¬ ((x.dwState = RSAENH_HASHSTATE_IDLE ∨ x.dwState = RSAENH_HASHSTATE_HASHING) ∧
        (get_algid_info s.handle_table hProv x.aiAlgid).toBool = true ∧
        x.aiAlgid ≠ CALG_SSL3_SHAMD5) →
      (∃ s', RSAENH_CPEncrypt impl s hProv hKey hHash Final dwFlags pbData dwDataLen dwBufLen
          = some (false, s', pbData, dwDataLen)) ∧
      (∀ r, RSAENH_CPDecrypt impl s hProv hKey hHash Final dwFlags pbData dwDataLen = some r →
        r.1 = false)) ∧
    (∀ (sE sD : CSP κ η) (hProvE hKeyE hHashE hProvD hKeyD hHashD : Nat) (kE kD : CRYPTKEY κ)
        (xE xD : CRYPTHASH η) (bl : Nat) (P tailE tailD : List Nat) (dwBufLen : Nat),
      0 < bl → bl ≤ RSAENH_MAX_BLOCK_SIZE →
      is_valid_handle sE.handle_table hProvE is_container = true →
      is_valid_handle sD.handle_table hProvD is_container = true →
      lookup_key sE.handle_table hKeyE = some kE →
      lookup_key sD.handle_table hKeyD = some kD →
      lookup_hash sE.handle_table hHashE = some xE →
      lookup_hash sD.handle_table hHashD = some xD →
      xE.aiAlgid ≠ CALG_MAC → xD.aiAlgid ≠ CALG_MAC →
      ((xE.dwState = RSAENH_HASHSTATE_IDLE ∨ xE.dwState = RSAENH_HASHSTATE_HASHING) ∧
        (get_algid_info sE.handle_table hProvE xE.aiAlgid).toBool = true ∧
        xE.aiAlgid ≠ CALG_SSL3_SHAMD5) →
      ((xD.dwState = RSAENH_HASHSTATE_IDLE ∨ xD.dwState = RSAENH_HASHSTATE_HASHING) ∧
        (get_algid_info sD.handle_table hProvD xD.aiAlgid).toBool = true ∧
        xD.aiAlgid ≠ CALG_SSL3_SHAMD5) →
      GET_ALG_TYPE kE.aiAlgid = ALG_TYPE_BLOCK →
      BlockKey kE bl → SameCipher kE kD →
      kE.dwState = RSAENH_KEYSTATE_IDLE → kD.dwState = RSAENH_KEYSTATE_IDLE →
      BlockInverse impl kE.aiAlgid kE.context bl → isBytes P →
      (P.length / bl + 1) * bl ≤ dwBufLen → dwBufLen < 4294967296 →
      dwBufLen ≤ (P ++ tailE).length →
      ∃ sE' C restE xE',
        RSAENH_CPEncrypt impl sE hProvE hKeyE hHashE true 0 (P ++ tailE) P.length dwBufLen
          = some (true, sE', C ++ restE, (P.length / bl + 1) * bl) ∧
        C.length = (P.length / bl + 1) * bl ∧
        lookup_hash sE'.handle_table hHashE = some xE' ∧
        (∀ t : CSP κ η,
          update_hash impl t { xE with dwState := RSAENH_HASHSTATE_HASHING } P
            = some (t, xE')) ∧
        ∃ sD' restP xD',
          RSAENH_CPDecrypt impl sD hProvD hKeyD hHashD true 0 (C ++ tailD) C.length
            = some (true, sD', P ++ restP, P.length) ∧
          lookup_hash sD'.handle_table hHashD = some xD' ∧
          ∀ t : CSP κ η,
            update_hash impl t { xD with dwState := RSAENH_HASHSTATE_HASHING } P
              = some (t, xD')) := by
  refine ⟨?_, ?_, ?_⟩
  · intro s s' hProv hKey hHash dwFlags dwDataLen dwBufLen n Final pbData buf x hh hx
    exact ⟨fun h => (CPEncrypt_feeds_hash impl s s' hProv hKey hHash Final dwFlags pbData buf
        dwDataLen dwBufLen n x hh hx h).2,
      fun h => (CPDecrypt_feeds_hash impl s s' hProv hKey hHash Final dwFlags pbData buf
        dwDataLen n x hh hx h).2⟩
  · intro s hProv hKey hHash dwFlags dwDataLen dwBufLen Final pbData x hh hx hbad
    constructor
    · have hno : ∀ s' buf n, RSAENH_CPEncrypt impl s hProv hKey hHash Final dwFlags pbData
          dwDataLen dwBufLen ≠ some (true, s', buf, n) :=
        fun s' buf n h => hbad (CPEncrypt_feeds_hash impl s s' hProv hKey hHash Final dwFlags
          pbData buf dwDataLen dwBufLen n x hh hx h).1
      have f1 := transform_enter_hashes s hProv hKey dwFlags RSAENH_KEYSTATE_ENCRYPTING hHash
      have f2 := transform_enter_containers s hProv hKey dwFlags RSAENH_KEYSTATE_ENCRYPTING
        hProv
      unfold RSAENH_CPEncrypt
      rcases hq : transform_enter s hProv hKey dwFlags RSAENH_KEYSTATE_ENCRYPTING with e1 | s1
      · exact ⟨_, rfl⟩
      · rw [hq] at f1 f2
        simp only [] at f1 f2 ⊢
        have hh1 : lookup_hash s1.handle_table hHash = some x := by rw [f1]; exact hh
        rw [if_pos (is_valid_handle_of_hash _ _ _ hh1)]
        obtain ⟨ok, s2, hq2, -⟩ := CPHashData_nonmac impl s1 hProv hHash
          (bytesAt pbData 0 dwDataLen) x hh1 hx
        rw [hq2]
        cases ok
        · exact ⟨_, rfl⟩
        · exfalso
          obtain ⟨⟨a, b, c⟩, -⟩ := CPHashData_nonmac_true impl s1 s2 hProv hHash _ x hh1 hx hq2
          rw [get_algid_info_congr _ _ _ _ f2] at b
          exact hbad ⟨a, b, c⟩
    · intro r h
      obtain ⟨ok, s', buf, n⟩ := r
      cases ok
      · rfl
      · exact absurd (CPDecrypt_feeds_hash impl s s' hProv hKey hHash Final dwFlags pbData buf
          dwDataLen n x hh hx h).1 hbad
  · intro sE sD hProvE hKeyE hHashE hProvD hKeyD hHashD kE kD xE xD bl P tailE tailD dwBufLen
      hbl hbl24 hprovE hprovD hkeyE hkeyD hhashE hhashD hxE hxD hokE hokD htype hblock hsame
      hidleE hidleD hprim hP hbuf hbuf32 hmem
    obtain ⟨sE', C, restE, hE, hC, sD', restP, hD⟩ := round_trip_with_hash impl sE sD
      hProvE hKeyE hHashE hProvD hKeyD hHashD kE kD xE xD bl P tailE tailD dwBufLen
      hbl hbl24 hprovE hprovD hkeyE hkeyD hhashE hhashD hxE hxD hokE hokD htype hblock hsame
      hidleE hidleD hprim hP hbuf hbuf32 hmem
    obtain ⟨-, xE', hxE', huE⟩ := CPEncrypt_feeds_hash impl sE sE' hProvE hKeyE hHashE true 0
      (P ++ tailE) (C ++ restE) P.length dwBufLen _ xE hhashE hxE hE
    obtain ⟨-, xD', hxD', huD⟩ := CPDecrypt_feeds_hash impl sD sD' hProvD hKeyD hHashD true 0
      (C ++ tailD) (P ++ restP) C.length P.length xD hhashD hxD hD
    rw [bytesAt_append_left] at huE huD
    exact ⟨sE', C, restE, xE', hE, hC, hxE', huE, sD', restP, xD', hD, hxD', huD⟩

/-- Witness for C19: the round trip on a DES key in CBC mode (handle 2) with a SHA hash object
(handle 3) and the plaintext 1, 2, 3: both hash objects absorb 1, 2, 3. -/
theorem transform_hash_side_effect_witness :
    ∃ sE' C restE xE',
      RSAENH_CPEncrypt toyImpl
          (toyState 0 [.key (toyDesKey RSAENH_KEYSTATE_IDLE CRYPT_MODE_CBC (List.replicate 24 0)),
            .hash (toyHash CALG_SHA 20 RSAENH_HASHSTATE_IDLE [])])
          1 2 3 true 0 ([1, 2, 3] ++ List.replicate 13 0) [1, 2, 3].length 16
        = some (true, sE', C ++ restE, ([1, 2, 3].length / 8 + 1) * 8) ∧
      C.length = ([1, 2, 3].length / 8 + 1) * 8 ∧
      lookup_hash sE'.handle_table 3 = some xE' ∧
      (∀ t : CSP Nat (List Nat),
        update_hash toyImpl t
          { toyHash CALG_SHA 20 RSAENH_HASHSTATE_IDLE [] with
            dwState := RSAENH_HASHSTATE_HASHING } [1, 2, 3] = some (t, xE')) ∧
      ∃ sD' restP xD',
        RSAENH_CPDecrypt toyImpl
            (toyState 0 [.key (toyDesKey RSAENH_KEYSTATE_IDLE CRYPT_MODE_CBC
              (List.replicate 24 0)),
              .hash (toyHash CALG_SHA 20 RSAENH_HASHSTATE_IDLE [])])
            1 2 3 true 0 (C ++ []) C.length
          = some (true, sD', [1, 2, 3] ++ restP, [1, 2, 3].length) ∧
        lookup_hash sD'.handle_table 3 = some xD' ∧
        ∀ t : CSP Nat (List Nat),
          update_hash toyImpl t
            { toyHash CALG_SHA 20 RSAENH_HASHSTATE_IDLE [] with
              dwState := RSAENH_HASHSTATE_HASHING } [1, 2, 3] = some (t, xD') :=
  (transform_hash_side_effect toyImpl).2.2
    (toyState 0 [.key (toyDesKey RSAENH_KEYSTATE_IDLE CRYPT_MODE_CBC (List.replicate 24 0)),
      .hash (toyHash CALG_SHA 20 RSAENH_HASHSTATE_IDLE [])])
    (toyState 0 [.key (toyDesKey RSAENH_KEYSTATE_IDLE CRYPT_MODE_CBC (List.replicate 24 0)),
      .hash (toyHash CALG_SHA 20 RSAENH_HASHSTATE_IDLE [])])
    1 2 3 1 2 3
    (toyDesKey RSAENH_KEYSTATE_IDLE CRYPT_MODE_CBC (List.replicate 24 0))
    (toyDesKey RSAENH_KEYSTATE_IDLE CRYPT_MODE_CBC (List.replicate 24 0))
    (toyHash CALG_SHA 20 RSAENH_HASHSTATE_IDLE [])
    (toyHash CALG_SHA 20 RSAENH_HASHSTATE_IDLE [])
    8 [1, 2, 3] (List.replicate 13 0) [] 16
    (by decide) (by decide) (by decide) (by decide) (by decide) (by decide) (by decide)
    (by decide) (by decide) (by decide) (by decide) (by decide)
    (by decide) ⟨rfl, Or.inr (Or.inl rfl), rfl, by decide⟩
    ⟨rfl, rfl, rfl, rfl, rfl⟩ rfl rfl (toyImpl_BlockInverse _ _ _) (by decide) (by decide)
    (by decide) (by decide)

theorem p_hash_blocks_length (H : List Nat → List Nat) (K seed : List Nat) (hs : Nat)
    (hH : ∀ y, (H y).length = hs) : ∀ k, (p_hash_blocks H K seed k).length = k * hs
  | 0 => by simp [p_hash_blocks]
  | k + 1 => by
    unfold p_hash_blocks
    rw [List.length_append, p_hash_blocks_length H K seed hs hH k]
    unfold hmac_rfc2104
    rw [hH, Nat.add_mul, Nat.one_mul]

theorem p_hash_blocks_getD (H : List Nat → List Nat) (K seed : List Nat) (hs : Nat)
    (hH : ∀ y, (H y).length = hs) (hpos : 0 < hs) :
    ∀ k i, i < k * hs →
      (p_hash_blocks H K seed k).getD i 0
        = (hmac_rfc2104 H K (p_hash_A H K seed (i / hs + 1) ++ seed)).getD (i % hs) 0
  | 0, i, h => by simp at h
  | k + 1, i, h => by
    unfold p_hash_blocks
    have hl := p_hash_blocks_length H K seed hs hH k
    by_cases hi : i < k * hs
    · rw [List.getD_eq_getElem?_getD, List.getElem?_append_left (by rw [hl]; exact hi),
        ← List.getD_eq_getElem?_getD]
      exact p_hash_blocks_getD H K seed hs hH hpos k i hi
    · have hge : k * hs ≤ i := Nat.le_of_not_lt hi
      rw [List.getD_eq_getElem?_getD, List.getElem?_append_right (by rw [hl]; exact hge),
        ← List.getD_eq_getElem?_getD, hl]
      have hlt : i - k * hs < hs := by
        rw [Nat.add_mul, Nat.one_mul] at h; omega
      have hdiv : i / hs = k := by
        have e : i = hs * k + (i - k * hs) := by rw [Nat.mul_comm]; omega
        rw [e, Nat.mul_add_div hpos, Nat.div_eq_of_lt hlt, Nat.add_zero]
      have hmod : i % hs = i - k * hs := by
        have e : i = hs * k + (i - k * hs) := by rw [Nat.mul_comm]; omega
        rw [e, Nat.mul_add_mod, Nat.mod_eq_of_lt hlt]
        omega
      rw [hdiv, hmod]

theorem p_hash_length (H : List Nat → List Nat) (K seed : List Nat) (hs n : Nat)
    (hH : ∀ y, (H y).length = hs) (hpos : 0 < hs) : (p_hash H K seed n).length = n := by
  unfold p_hash
  rw [List.length_take, p_hash_blocks_length H K seed hs hH]
  exact Nat.min_eq_left (Nat.le_mul_of_pos_right n hpos)

theorem p_hash_getD (H : List Nat → List Nat) (K seed : List Nat) (hs n i : Nat)
    (hH : ∀ y, (H y).length = hs) (hpos : 0 < hs) (hi : i < n) :
    (p_hash H K seed n).getD i 0
      = (hmac_rfc2104 H K (p_hash_A H K seed (i / hs + 1) ++ seed)).getD (i % hs) 0 := by
  unfold p_hash
  rw [getD_take _ _ _ hi]
  exact p_hash_blocks_getD H K seed hs hH hpos n i
    (Nat.lt_of_lt_of_le hi (Nat.le_mul_of_pos_right n hpos))

/-- The function init_hash on the HMAC object: the digest size is the one of the inner hash and
the context has absorbed the inner pad. -/
theorem init_hash_hmac_object {κ η : Type} (impl : IMPL κ η) (s : CSP κ η) (x : CRYPTHASH η)
    (hp hk alg hs : Nat) (K : List Nat) (e : PROV_ENUMALGS_EX) (H : List Nat → List Nat)
    (msg : η → List Nat) (hx : HmacObject x hp hk alg K)
    (hga : get_algid_info s.handle_table hp alg = .ok e) (he : e.dwDefaultLen / 8 = hs)
    (hH : HashComputes impl alg H msg) (hK : K.length ≤ 64) :
    ∃ x1, init_hash impl s x = (true, s, x1) ∧ HmacObject x1 hp hk alg K ∧ x1.dwHashSize = hs ∧
      msg x1.context = hmac_pad 0x36 K := by
  obtain ⟨a, xk, xp, sz, st, ctx, v, pi, tp⟩ := x
  obtain ⟨h1, h2, h3, h4, h5⟩ := hx
  simp only at h1 h2 h3 h4 h5
  subst h1 h2 h3 h5
  refine ⟨⟨CALG_HMAC, xk, xp, e.dwDefaultLen / 8, st,
    (impl.update_hash_impl alg (impl.init_hash_impl alg ctx).2
      (bytesAt (hmac_pad 0x36 K) 0 64)).2, v,
    some ⟨alg, hmac_pad 0x36 K, 64, hmac_pad 0x5c K, 64⟩, tp⟩, ?_, ⟨rfl, rfl, rfl, h4, rfl⟩, he, ?_⟩
  · unfold init_hash
    simp only [if_true, hga]
  · simp only []
    rw [hH.2.1, hH.1, List.nil_append, bytesAt_self _ _ (hmac_pad_length _ _ hK)]

/-- The function update_hash on the HMAC object: the context absorbs the data. -/
theorem update_hash_hmac_object {κ η : Type} (impl : IMPL κ η) (s : CSP κ η) (x : CRYPTHASH η)
    (hp hk alg : Nat) (K m : List Nat) (H : List Nat → List Nat)
    (msg : η → List Nat) (hx : HmacObject x hp hk alg K)
    (hH : HashComputes impl alg H msg) :
    ∃ x1, update_hash impl s x m = some (s, x1) ∧ HmacObject x1 hp hk alg K ∧
      x1.dwHashSize = x.dwHashSize ∧ msg x1.context = msg x.context ++ m := by
  obtain ⟨a, xk, xp, sz, st, ctx, v, pi, tp⟩ := x
  obtain ⟨h1, h2, h3, h4, h5⟩ := hx
  simp only at h1 h2 h3 h4 h5
  subst h1 h2 h3 h5
  refine ⟨⟨CALG_HMAC, xk, xp, sz, st, (impl.update_hash_impl alg ctx m).2, v,
    some ⟨alg, hmac_pad 0x36 K, 64, hmac_pad 0x5c K, 64⟩, tp⟩, ?_, ⟨rfl, rfl, rfl, h4, rfl⟩, rfl, ?_⟩
  · unfold update_hash
    simp only [if_true]
  · simp only []
    rw [hH.2.1]

/-- The function finalize_hash on the HMAC object: the first bytes of the digest array are
`H(opad || H(absorbed))`. -/
theorem finalize_hash_hmac_object {κ η : Type} (impl : IMPL κ η) (s : CSP κ η)
    (x : CRYPTHASH η) (hp hk alg hs : Nat) (K : List Nat) (H : List Nat → List Nat)
    (msg : η → List Nat) (hx : HmacObject x hp hk alg K) (hsz : x.dwHashSize = hs)
    (hH : HashComputes impl alg H msg) (hlen : ∀ y, (H y).length = hs)
    (hs104 : hs ≤ RSAENH_MAX_HASH_SIZE) (hK : K.length ≤ 64) :
    ∃ x1, finalize_hash impl s x = some (s, x1) ∧ HmacObject x1 hp hk alg K ∧
      x1.dwHashSize = hs ∧
      bytesAt x1.abHashValue 0 hs = H (hmac_pad 0x5c K ++ H (msg x.context)) := by
  obtain ⟨a, xk, xp, sz, st, ctx, v, pi, tp⟩ := x
  obtain ⟨h1, h2, h3, h4, h5⟩ := hx
  simp only at h1 h2 h3 h4 h5 hsz
  subst h1 h2 h3 h5 hsz
  have hb : ∀ (w y : List Nat), sz ≤ w.length → bytesAt (memmove w 0 (H y)) 0 sz = H y := by
    intro w y hw
    rw [memmove_zero _ _ (by rw [hlen]; exact hw), bytesAt_zero, List.take_left' (hlen y)]
  obtain ⟨x1, hx1⟩ : ∃ x1, finalize_hash impl s
      (⟨CALG_HMAC, xk, xp, sz, st, ctx, v,
        some ⟨alg, hmac_pad 0x36 K, 64, hmac_pad 0x5c K, 64⟩, tp⟩ : CRYPTHASH η)
      = some (s, x1) := by
    unfold finalize_hash
    simp only [if_true]
    exact ⟨_, rfl⟩
  have hx1' := hx1
  unfold finalize_hash at hx1'
  simp only [if_true, Option.some.injEq, Prod.mk.injEq, true_and] at hx1'
  refine ⟨x1, hx1, ?_⟩
  rw [← hx1']
  refine ⟨⟨rfl, rfl, rfl, ?_, rfl⟩, rfl, ?_⟩
  · simp only []
    rw [memmove_length, memmove_length]; exact h4
  · simp only []
    rw [hH.2.2, hH.2.2, hb _ _ (by rw [memmove_length, h4]; exact hs104),
      hb _ _ (by rw [h4]; exact hs104), hH.2.1,
      hH.2.1, hH.1, List.nil_append, bytesAt_self _ _ (hmac_pad_length _ _ hK)]

/-- One HMAC computation on the HMAC object, over one piece of data. -/
theorem hmac_object_digest1 {κ η : Type} (impl : IMPL κ η) (s : CSP κ η) (x : CRYPTHASH η)
    (hp hk alg hs : Nat) (K m : List Nat) (e : PROV_ENUMALGS_EX) (H : List Nat → List Nat)
    (msg : η → List Nat) (hx : HmacObject x hp hk alg K)
    (hga : get_algid_info s.handle_table hp alg = .ok e) (he : e.dwDefaultLen / 8 = hs)
    (hH : HashComputes impl alg H msg) (hlen : ∀ y, (H y).length = hs)
    (hs104 : hs ≤ RSAENH_MAX_HASH_SIZE) (hK : K.length ≤ 64) :
    ∃ x1 x2 x3, init_hash impl s x = (true, s, x1) ∧ x1.dwHashSize = hs ∧
      update_hash impl s x1 m = some (s, x2) ∧
      finalize_hash impl s x2 = some (s, x3) ∧ HmacObject x3 hp hk alg K ∧ x3.dwHashSize = hs ∧
      bytesAt x3.abHashValue 0 hs = hmac_rfc2104 H K m := by
  obtain ⟨x1, e1, i1, z1, m1⟩ := init_hash_hmac_object impl s x hp hk alg hs K e H msg hx hga he
    hH hK
  obtain ⟨x2, e2, i2, z2, m2⟩ := update_hash_hmac_object impl s x1 hp hk alg K m H msg i1 hH
  obtain ⟨x3, e3, i3, z3, m3⟩ := finalize_hash_hmac_object impl s x2 hp hk alg hs K H msg i2
    (z2.trans z1) hH hlen hs104 hK
  refine ⟨x1, x2, x3, e1, z1, e2, e3, i3, z3, ?_⟩
  rw [m3, m2, m1]
  rfl

/-- One HMAC computation on the HMAC object, over two pieces of data. -/
theorem hmac_object_digest2 {κ η : Type} (impl : IMPL κ η) (s : CSP κ η) (x : CRYPTHASH η)
    (hp hk alg hs : Nat) (K m m' : List Nat) (e : PROV_ENUMALGS_EX) (H : List Nat → List Nat)
    (msg : η → List Nat) (hx : HmacObject x hp hk alg K)
    (hga : get_algid_info s.handle_table hp alg = .ok e) (he : e.dwDefaultLen / 8 = hs)
    (hH : HashComputes impl alg H msg) (hlen : ∀ y, (H y).length = hs)
    (hs104 : hs ≤ RSAENH_MAX_HASH_SIZE) (hK : K.length ≤ 64) :
    ∃ x1 x2 x3 x4, init_hash impl s x = (true, s, x1) ∧ x1.dwHashSize = hs ∧
      update_hash impl s x1 m = some (s, x2) ∧
      update_hash impl s x2 m' = some (s, x3) ∧
      finalize_hash impl s x3 = some (s, x4) ∧ HmacObject x4 hp hk alg K ∧ x4.dwHashSize = hs ∧
      bytesAt x4.abHashValue 0 hs = hmac_rfc2104 H K (m ++ m') := by
  obtain ⟨x1, e1, i1, z1, m1⟩ := init_hash_hmac_object impl s x hp hk alg hs K e H msg hx hga he
    hH hK
  obtain ⟨x2, e2, i2, z2, m2⟩ := update_hash_hmac_object impl s x1 hp hk alg K m H msg i1 hH
  obtain ⟨x3, e3, i3, z3, m3⟩ := update_hash_hmac_object impl s x2 hp hk alg K m' H msg i2 hH
  obtain ⟨x4, e4, i4, z4, m4⟩ := finalize_hash_hmac_object impl s x3 hp hk alg hs K H msg i3
    ((z3.trans z2).trans z1) hH hlen hs104 hK
  refine ⟨x1, x2, x3, x4, e1, z1, e2, e3, e4, i4, z4, ?_⟩
  rw [m4, m3, m2, m1, List.append_assoc]
  rfl

theorem block_index_mod (q hs t : Nat) (ht : t < hs) : (q * hs + t) % hs = t := by
  rw [Nat.add_comm, Nat.add_mul_mod_self_right]; exact Nat.mod_eq_of_lt ht

theorem block_index_div (q hs t : Nat) (ht : t < hs) : (q * hs + t) / hs = q := by
  have hpos : 0 < hs := Nat.lt_of_le_of_lt (Nat.zero_le _) ht
  rw [Nat.add_comm, Nat.add_mul_div_right _ _ hpos, Nat.div_eq_of_lt ht, Nat.zero_add]

/-- The inner loop of tls1_p from the byte `t` of block `q` on, inside the buffer: it combines
the bytes up to the end of the block or of the buffer with the digest bytes. -/
theorem tls1_p_xor_spec (v : List Nat) (hs n q : Nat) (hpos : 0 < hs) :
    ∀ (f t : Nat) (buf : List Nat), t < hs → hs - t ≤ f → n ≤ buf.length → q * hs + t < n →
      ∃ buf', tls1_p_xor v hs n f (q * hs + t) buf = some (min ((q + 1) * hs) n, buf') ∧
        buf'.length = buf.length ∧
        ∀ k, buf'.getD k 0 =
          if q * hs + t ≤ k ∧ k < min ((q + 1) * hs) n then
            buf.getD k 0 ^^^ v.getD (k - q * hs) 0
          else buf.getD k 0
  | 0, t, buf, ht, hf, _, _ => by omega
  | f + 1, t, buf, ht, hf, hbuf, hlt => by
    have hq1 : (q + 1) * hs = q * hs + hs := by rw [Nat.add_mul, Nat.one_mul]
    obtain ⟨buf1, hbuf1⟩ : ∃ b, buf.set (q * hs + t)
        (buf.getD (q * hs + t) 0 ^^^ v.getD ((q * hs + t) % hs) 0) = b := ⟨_, rfl⟩
    have hlen1 : buf1.length = buf.length := by rw [← hbuf1, List.length_set]
    have hget1 : ∀ k, buf1.getD k 0 =
        if k = q * hs + t then buf.getD k 0 ^^^ v.getD (k - q * hs) 0 else buf.getD k 0 := by
      intro k
      by_cases hk : k = q * hs + t
      · rw [if_pos hk, hk, ← hbuf1, getD_set_same _ _ _ _ (by omega),
          block_index_mod q hs t ht, Nat.add_sub_cancel_left]
      · rw [if_neg hk, ← hbuf1, getD_set_other _ _ _ _ _ (fun e => hk e.symm)]
    unfold tls1_p_xor
    rw [if_neg (by omega), if_neg (by omega), hbuf1]
    by_cases hend : t + 1 < hs
    · have hmod : (q * hs + t + 1) % hs ≠ 0 := by
        rw [Nat.add_assoc, block_index_mod q hs (t + 1) hend]; omega
      simp only []
      rw [if_pos hmod]
      by_cases hn : q * hs + (t + 1) < n
      · obtain ⟨buf', hr, hl, hg⟩ := tls1_p_xor_spec v hs n q hpos f (t + 1) buf1 hend
          (by omega) (by omega) hn
        rw [Nat.add_assoc, hr]
        refine ⟨buf', rfl, hl.trans hlen1, fun k => ?_⟩
        rw [hg k, hget1 k]
        by_cases h1 : k = q * hs + t
        · rw [if_pos h1, if_neg (by omega), if_pos (by omega)]
        · rw [if_neg h1]
          by_cases h2 : q * hs + (t + 1) ≤ k ∧ k < min ((q + 1) * hs) n
          · rw [if_pos h2, if_pos (by omega)]
          · rw [if_neg h2, if_neg (by omega)]
      · have hf1 : ∃ f', f = f' + 1 := ⟨f - 1, by omega⟩
        obtain ⟨f', hf'⟩ := hf1
        subst hf'
        unfold tls1_p_xor
        rw [if_pos (by omega)]
        have hmin : min ((q + 1) * hs) n = q * hs + t + 1 := by omega
        rw [hmin]
        refine ⟨buf1, rfl, hlen1, fun k => ?_⟩
        rw [hget1 k]
        by_cases h1 : k = q * hs + t
        · rw [if_pos h1, if_pos (by omega)]
        · rw [if_neg h1, if_neg (by omega)]
    · have ht1 : t + 1 = hs := by omega
      have hmod : ¬ (q * hs + t + 1) % hs ≠ 0 := by
        rw [Nat.add_assoc, ht1, Nat.add_mod_right, Nat.mul_mod_left]; simp
      simp only []
      rw [if_neg hmod]
      have hmin : min ((q + 1) * hs) n = q * hs + t + 1 := by omega
      rw [hmin]
      refine ⟨buf1, rfl, hlen1, fun k => ?_⟩
      rw [hget1 k]
      by_cases h1 : k = q * hs + t
      · rw [if_pos h1, if_pos (by omega)]
      · rw [if_neg h1, if_neg (by omega)]

/-- The outer loop of tls1_p from block `q` on, with `A(q+1)` in the local array: it combines
the bytes of the buffer from `q * hs` up to `n` with the bytes of the
P_hash stream. -/
theorem tls1_p_loop_spec {κ η : Type} (impl : IMPL κ η) (s : CSP κ η)
    (hp hk alg hs n : Nat) (K seed : List Nat) (e : PROV_ENUMALGS_EX) (H : List Nat → List Nat)
    (msg : η → List Nat)
    (hga : get_algid_info s.handle_table hp alg = .ok e) (he : e.dwDefaultLen / 8 = hs)
    (hH : HashComputes impl alg H msg) (hlen : ∀ y, (H y).length = hs) (hpos : 0 < hs)
    (hs104 : hs ≤ RSAENH_MAX_HASH_SIZE) (hK : K.length ≤ 64) :
    ∀ (f q : Nat) (h : CRYPTHASH η) (abAi buf : List Nat),
      HmacObject h hp hk alg K → abAi.length = RSAENH_MAX_HASH_SIZE →
      bytesAt abAi 0 hs = p_hash_A H K seed (q + 1) → n ≤ buf.length →
      n - q * hs + 1 ≤ f →
      ∃ h' buf', tls1_p_loop impl seed n f s h abAi (q * hs) buf = some (s, h', buf') ∧
        HmacObject h' hp hk alg K ∧ buf'.length = buf.length ∧
        ∀ k, buf'.getD k 0 =
          if q * hs ≤ k ∧ k < n then
            buf.getD k 0 ^^^
              (hmac_rfc2104 H K (p_hash_A H K seed (k / hs + 1) ++ seed)).getD (k % hs) 0
          else buf.getD k 0
  | 0, q, h, abAi, buf, _, _, _, _, hf => by omega
  | f + 1, q, h, abAi, buf, hh, hAl, hA, hbuf, hf => by
    have hq1 : (q + 1) * hs = q * hs + hs := by rw [Nat.add_mul, Nat.one_mul]
    obtain ⟨x1, x2, x3, x4, e1, z1, e2, e3, e4, i4, z4, d4⟩ := hmac_object_digest2 impl s h hp
      hk alg hs K (bytesAt abAi 0 hs) seed e H msg hh hga he hH hlen hs104 hK
    obtain ⟨y1, y2, y3, g1, w1, g2, g3, j3, w3, d3⟩ := hmac_object_digest1 impl s x4 hp
      hk alg hs K (bytesAt abAi 0 hs) e H msg i4 hga he hH hlen hs104 hK
    rw [hA] at d4 d3
    -- the local array after the pass
    obtain ⟨abAi1, hAi1⟩ : ∃ a, memmove abAi 0 (bytesAt y3.abHashValue 0 hs) = a := ⟨_, rfl⟩
    have hAl1 : abAi1.length = RSAENH_MAX_HASH_SIZE := by
      rw [← hAi1, memmove_length]; exact hAl
    have hA1 : bytesAt abAi1 0 hs = p_hash_A H K seed (q + 1 + 1) := by
      rw [← hAi1, d3]
      have hl : (hmac_rfc2104 H K (p_hash_A H K seed (q + 1))).length = hs := hlen _
      rw [memmove_zero _ _ (by rw [hl, hAl]; exact hs104), bytesAt_zero, List.take_left' hl]
      rfl
    -- the digest bytes that the inner loop reads
    have hv : ∀ k, q * hs ≤ k → k < (q + 1) * hs →
        x4.abHashValue.getD (k - q * hs) 0
          = (hmac_rfc2104 H K (p_hash_A H K seed (k / hs + 1) ++ seed)).getD (k % hs) 0 := by
      intro k h1 h2
      have ht : k - q * hs < hs := by omega
      have ek : k = q * hs + (k - q * hs) := by omega
      rw [← getD_take _ hs _ ht, ← bytesAt_zero, d4]
      have e5 : k / hs = q := by rw [ek]; exact block_index_div q hs _ ht
      have e6 : k % hs = k - q * hs := by
        have := block_index_mod q hs _ ht
        rw [← ek] at this
        exact this
      rw [e5, e6]
    unfold tls1_p_loop
    simp only []
    rw [e1]
    simp only []
    rw [z1, e2]
    simp only []
    rw [e3]
    simp only []
    rw [e4]
    simp only []
    rw [z4]
    by_cases hin : q * hs < n
    · obtain ⟨buf1, hx, hl1, hg1⟩ := tls1_p_xor_spec x4.abHashValue hs n q hpos (hs + 1) 0 buf
        hpos (by omega) hbuf (by omega)
      replace hx : tls1_p_xor x4.abHashValue hs n (hs + 1) (q * hs) buf
          = some (min ((q + 1) * hs) n, buf1) := hx
      replace hg1 : ∀ k, buf1.getD k 0 =
          if q * hs ≤ k ∧ k < min ((q + 1) * hs) n then
            buf.getD k 0 ^^^ x4.abHashValue.getD (k - q * hs) 0
          else buf.getD k 0 := hg1
      rw [hx]
      simp only []
      rw [g1]
      simp only []
      rw [w1, g2]
      simp only []
      rw [g3]
      simp only []
      rw [w3, hAi1]
      by_cases hmore : min ((q + 1) * hs) n < n
      · rw [if_pos hmore]
        have hmin : min ((q + 1) * hs) n = (q + 1) * hs := by omega
        rw [hmin]
        obtain ⟨h', buf', hr, hi', hl', hg'⟩ := tls1_p_loop_spec impl s hp hk alg hs n K seed e H
          msg hga he hH hlen hpos hs104 hK f (q + 1) y3 abAi1 buf1 j3 hAl1 hA1
          (by rw [hl1]; exact hbuf) (by omega)
        rw [hr]
        refine ⟨h', buf', rfl, hi', hl'.trans hl1, fun k => ?_⟩
        rw [hg' k, hg1 k, hmin]
        by_cases h1 : (q + 1) * hs ≤ k ∧ k < n
        · rw [if_pos h1, if_neg (by omega), if_pos (by omega)]
        · rw [if_neg h1]
          by_cases h2 : q * hs ≤ k ∧ k < (q + 1) * hs
          · rw [if_pos h2, if_pos (by omega), hv k h2.1 h2.2]
          · rw [if_neg h2, if_neg (by omega)]
      · rw [if_neg hmore]
        have hmin : min ((q + 1) * hs) n = n := by omega
        refine ⟨y3, buf1, rfl, j3, hl1, fun k => ?_⟩
        rw [hg1 k, hmin]
        by_cases h2 : q * hs ≤ k ∧ k < n
        · rw [if_pos h2, if_pos h2, hv k h2.1 (by omega)]
        · rw [if_neg h2, if_neg h2]
    · unfold tls1_p_xor
      rw [if_pos (by omega)]
      simp only []
      rw [g1]
      simp only []
      rw [w1, g2]
      simp only []
      rw [g3]
      simp only []
      rw [if_neg hin]
      refine ⟨y3, buf, rfl, j3, rfl, fun k => ?_⟩
      rw [if_neg (by omega)]

/-- The function tls1_p on the HMAC object of `hHMAC`: it returns TRUE, and the first `n` bytes
of the buffer are combined with the first `n` bytes of the P_hash stream of
the key `K` and the seed. -/
theorem tls1_p_spec {κ η : Type} (impl : IMPL κ η) (s : CSP κ η)
    (hHMAC hp hk alg hs n : Nat) (K seed buf : List Nat) (e : PROV_ENUMALGS_EX)
    (H : List Nat → List Nat) (msg : η → List Nat) (x : CRYPTHASH η)
    (hl : lookup_hash s.handle_table hHMAC = some x) (hx : HmacObject x hp hk alg K)
    (hga : get_algid_info s.handle_table hp alg = .ok e) (he : e.dwDefaultLen / 8 = hs)
    (hH : HashComputes impl alg H msg) (hlen : ∀ y, (H y).length = hs) (hpos : 0 < hs)
    (hs104 : hs ≤ RSAENH_MAX_HASH_SIZE) (hK : K.length ≤ 64) (hbuf : n ≤ buf.length) :
    ∃ x' buf',
      tls1_p impl s hHMAC seed buf n
        = some (true, s.withTable (store_object s.handle_table hHMAC (.hash x')), buf') ∧
      HmacObject x' hp hk alg K ∧ buf'.length = buf.length ∧
      ∀ k, buf'.getD k 0 =
        if k < n then
          buf.getD k 0 ^^^
            (hmac_rfc2104 H K (p_hash_A H K seed (k / hs + 1) ++ seed)).getD (k % hs) 0
        else buf.getD k 0 := by
  obtain ⟨y1, y2, y3, g1, w1, g2, g3, j3, w3, d3⟩ := hmac_object_digest1 impl s x hp
    hk alg hs K seed e H msg hx hga he hH hlen hs104 hK
  obtain ⟨abAi, hAi⟩ : ∃ a, memmove (heap_block RSAENH_MAX_HASH_SIZE) 0
      (bytesAt y3.abHashValue 0 hs) = a := ⟨_, rfl⟩
  have hAl : abAi.length = RSAENH_MAX_HASH_SIZE := by
    rw [← hAi, memmove_length]; exact List.length_replicate _ _
  have hA : bytesAt abAi 0 hs = p_hash_A H K seed (0 + 1) := by
    rw [← hAi, d3]
    have hl' : (hmac_rfc2104 H K seed).length = hs := hlen _
    rw [memmove_zero _ _ (by
      rw [hl']; exact Nat.le_trans hs104 (Nat.le_of_eq (List.length_replicate _ _).symm)),
      bytesAt_zero, List.take_left' hl']
    rfl
  obtain ⟨h', buf', hr, hi', hl', hg'⟩ := tls1_p_loop_spec impl s hp hk alg hs n K seed e H
    msg hga he hH hlen hpos hs104 hK (n + 1) 0 y3 abAi buf j3 hAl hA hbuf (by omega)
  replace hr : tls1_p_loop impl seed n (n + 1) s y3 abAi 0 buf = some (s, h', buf') := by
    rw [Nat.zero_mul] at hr; exact hr
  refine ⟨h', buf', ?_, hi', hl', fun k => ?_⟩
  · unfold tls1_p
    rw [hl]
    simp only []
    rw [g1]
    simp only []
    rw [g2]
    simp only []
    rw [g3]
    simp only []
    rw [w3, hAi, hr]
  · rw [hg' k]
    by_cases hk : k < n
    · rw [if_pos hk, if_pos ⟨by omega, hk⟩]
    · rw [if_neg hk, if_neg (fun hc => hk hc.2)]

/-- Only the table row of the SChannel personality has a record of SSL2_MASTER; its maximum
length is 192 bits. -/
theorem ssl2_master_table (p : Nat) (e : PROV_ENUMALGS_EX)
    (h : get_algid_info_loop CALG_SSL2_MASTER (aProvEnumAlgsEx.getD p []) = some e) :
    p ≤ 3 ∧ e.dwMaxLen = 192 := by
  have key : ∀ (q : Nat),
      (match get_algid_info_loop CALG_SSL2_MASTER (aProvEnumAlgsEx.getD q []) with
        | some x => decide (x.dwMaxLen = 192)
        | none => true) = true →
      get_algid_info_loop CALG_SSL2_MASTER (aProvEnumAlgsEx.getD q []) = some e →
      e.dwMaxLen = 192 := by
    intro q hq he
    rw [he] at hq
    exact of_decide_eq_true hq
  rcases p with _ | _ | _ | _ | p
  · exact ⟨by omega, key 0 (by decide) h⟩
  · exact ⟨by omega, key 1 (by decide) h⟩
  · exact ⟨by omega, key 2 (by decide) h⟩
  · exact ⟨by omega, key 3 (by decide) h⟩
  · have : aProvEnumAlgsEx.getD (p + 1 + 1 + 1 + 1) [] = [] := by
      apply List.getD_eq_default
      show aProvEnumAlgsEx.length ≤ _
      have : aProvEnumAlgsEx.length = 4 := by decide
      omega
    rw [this] at h
    cases h

/-- The half-secret key of tls1_prf, when new_key gives it, for a secret of at most 48 bytes:
the provider handle names a container of a personality of the table, and the
key has at least the bytes of the half secret and at most 48. -/
theorem half_secret_key {κ η : Type} (impl : IMPL κ η) (s s1 : CSP κ η)
    (hProv L hHalf : Nat) (kHalf : CRYPTKEY κ) (hL : L ≤ 48)
    (hnew : new_key impl s hProv CALG_SSL2_MASTER (MAKELONG 0 (dwMul (dwAdd L 1 / 2) 8))
      = (s1, some (hHalf, kHalf))) :
    dwAdd L 1 / 2 = (L + 1) / 2 ∧
    (∃ c, lookup_container s.handle_table hProv = some c ∧ c.dwPersonality ≤ 3) ∧
    (L + 1) / 2 ≤ kHalf.dwKeyLen ∧ kHalf.dwKeyLen ≤ 48 := by
  have hadd : dwAdd L 1 / 2 = (L + 1) / 2 := by rw [dwAdd_eq _ _ (by omega)]
  rw [hadd] at hnew
  refine ⟨hadd, ?_⟩
  have hmul : dwMul ((L + 1) / 2) 8 = (L + 1) / 2 * 8 := dwMul_eq _ _ (by omega)
  have hhi : HIWORD (MAKELONG 0 (dwMul ((L + 1) / 2) 8)) = (L + 1) / 2 * 8 := by
    rw [hmul]
    unfold HIWORD MAKELONG
    omega
  unfold new_key at hnew
  rcases hq : get_algid_info s.handle_table hProv CALG_SSL2_MASTER with e | pea
  · rw [hq] at hnew
    simp only [Prod.mk.injEq] at hnew
    exact absurd hnew.2 (by simp)
  · rw [hq] at hnew
    simp only [] at hnew
    rw [hhi] at hnew
    unfold get_algid_info at hq
    rcases hc : lookup_container s.handle_table hProv with _ | c
    · rw [hc] at hq; cases hq
    · rw [hc] at hq
      simp only [] at hq
      rcases hlp : get_algid_info_loop CALG_SSL2_MASTER
          (aProvEnumAlgsEx.getD c.dwPersonality []) with _ | e
      · rw [hlp] at hq; cases hq
      · rw [hlp] at hq
        injection hq with hq
        subst hq
        obtain ⟨hp3, hmax⟩ := ssl2_master_table _ _ hlp
        refine ⟨⟨c, rfl, hp3⟩, ?_⟩
        rcases hl : new_key_length CALG_SSL2_MASTER e
            (if (L + 1) / 2 * 8 = 0 then e.dwDefaultLen else (L + 1) / 2 * 8) with _ | bits
        · rw [hl] at hnew
          simp only [Prod.mk.injEq] at hnew
          exact absurd hnew.2 (by simp)
        · rw [hl] at hnew
          simp only [Prod.mk.injEq, Option.some.injEq] at hnew
          obtain ⟨-, -, hk⟩ := hnew
          have hlen : kHalf.dwKeyLen = bits / 8 := by rw [← hk]
          have hb := new_key_length_facts CALG_SSL2_MASTER e _ bits hl
          have hreq : bits = (if (L + 1) / 2 * 8 = 0 then e.dwDefaultLen
              else (L + 1) / 2 * 8) := by
            obtain ⟨req, hr⟩ : ∃ r, (if (L + 1) / 2 * 8 = 0 then e.dwDefaultLen
                else (L + 1) / 2 * 8) = r := ⟨_, rfl⟩
            rw [hr] at hl ⊢
            unfold new_key_length at hl
            rw [if_neg (by decide), if_neg (by decide), if_neg (by decide)] at hl
            by_cases hc2 : req % 8 ≠ 0 ∨ req > e.dwMaxLen ∨ req < e.dwMinLen
            · rw [if_pos hc2] at hl; cases hl
            · rw [if_neg hc2] at hl
              injection hl with hl; exact hl.symm
          rw [hlen]
          constructor
          · by_cases h0 : (L + 1) / 2 * 8 = 0
            · omega
            · rw [if_neg h0] at hreq
              omega
          · rcases hb with hb | hb
            · omega
            · omega

theorem hmac_pad_zero_ext (pad m : Nat) (S : List Nat) (h : S.length + m ≤ 64) :
    hmac_pad pad (S ++ List.replicate m 0) = hmac_pad pad S := by
  unfold hmac_pad
  rw [List.append_assoc, List.length_append, List.length_replicate, ← List.replicate_add]
  congr 3
  omega

theorem hmac_rfc2104_zero_ext (H : List Nat → List Nat) (m : Nat) (S d : List Nat)
    (h : S.length + m ≤ 64) :
    hmac_rfc2104 H (S ++ List.replicate m 0) d = hmac_rfc2104 H S d := by
  unfold hmac_rfc2104
  rw [hmac_pad_zero_ext _ _ _ h, hmac_pad_zero_ext _ _ _ h]

theorem p_hash_A_zero_ext (H : List Nat → List Nat) (m : Nat) (S seed : List Nat)
    (h : S.length + m ≤ 64) :
    ∀ i, p_hash_A H (S ++ List.replicate m 0) seed i = p_hash_A H S seed i
  | 0 => rfl
  | i + 1 => by
    unfold p_hash_A
    rw [hmac_rfc2104_zero_ext _ _ _ _ h, p_hash_A_zero_ext H m S seed h i]

/-- The raw key material of the half-secret key, read over the length of the key: the half
secret, followed by zero bytes. -/
theorem half_secret_bytes (S : List Nat) (old : List Nat) (d : Nat)
    (hold : old.length = 48) (hS : S.length ≤ d) (hd : d ≤ 48)
    (hz : ∀ k, S.length ≤ k → old.getD k 0 = 0) :
    bytesAt (memmove old 0 S) 0 d = S ++ List.replicate (d - S.length) 0 := by
  rw [memmove_zero _ _ (by omega), bytesAt_zero]
  apply list_eq_of_getD
  · simp only [List.length_take, List.length_append, List.length_drop, List.length_replicate]
    omega
  · intro i hi
    simp only [List.length_take, List.length_append, List.length_drop] at hi
    rw [getD_take _ _ _ (by omega)]
    by_cases h1 : i < S.length
    · rw [List.getD_eq_getElem?_getD, List.getD_eq_getElem?_getD,
        List.getElem?_append_left h1, List.getElem?_append_left h1]
    · have h2 : S.length ≤ i := Nat.le_of_not_lt h1
      rw [List.getD_eq_getElem?_getD, List.getD_eq_getElem?_getD,
        List.getElem?_append_right h2, List.getElem?_append_right h2,
        ← List.getD_eq_getElem?_getD, ← List.getD_eq_getElem?_getD,
        List.getD_eq_getElem?_getD (List.drop _ _), List.getElem?_drop,
        ← List.getD_eq_getElem?_getD, hz _ (by omega)]
      simp only [List.getD_eq_getElem?_getD, List.getElem?_replicate]
      split <;> rfl

/-- The functions init_hash, update_hash and finalize_hash on the HMAC object return, whatever
the engine computes, and leave an HMAC object of the same kind; init_hash sets
the digest size of the inner hash. -/
theorem hmac_object_ops {κ η : Type} (impl : IMPL κ η) (s : CSP κ η) (x : CRYPTHASH η)
    (hp hk alg : Nat) (K : List Nat) (e : PROV_ENUMALGS_EX) (hx : HmacObject x hp hk alg K)
    (hga : get_algid_info s.handle_table hp alg = .ok e) :
    (∃ x1, init_hash impl s x = (true, s, x1) ∧ HmacObject x1 hp hk alg K ∧
      x1.dwHashSize = e.dwDefaultLen / 8) ∧
    (∀ m, ∃ x1, update_hash impl s x m = some (s, x1) ∧ HmacObject x1 hp hk alg K ∧
      x1.dwHashSize = x.dwHashSize) ∧
    (∃ x1, finalize_hash impl s x = some (s, x1) ∧ HmacObject x1 hp hk alg K ∧
      x1.dwHashSize = x.dwHashSize) := by
  obtain ⟨a, xk, xp, sz, st, ctx, v, pi, tp⟩ := x
  obtain ⟨h1, h2, h3, h4, h5⟩ := hx
  simp only at h1 h2 h3 h4 h5
  subst h1 h2 h3 h5
  refine ⟨?_, fun m => ?_, ?_⟩
  · refine ⟨⟨CALG_HMAC, xk, xp, e.dwDefaultLen / 8, st,
      (impl.update_hash_impl alg (impl.init_hash_impl alg ctx).2
        (bytesAt (hmac_pad 0x36 K) 0 64)).2, v,
      some ⟨alg, hmac_pad 0x36 K, 64, hmac_pad 0x5c K, 64⟩, tp⟩, ?_, ⟨rfl, rfl, rfl, h4, rfl⟩,
      rfl⟩
    unfold init_hash
    simp only [if_true, hga]
  · refine ⟨⟨CALG_HMAC, xk, xp, sz, st, (impl.update_hash_impl alg ctx m).2, v,
      some ⟨alg, hmac_pad 0x36 K, 64, hmac_pad 0x5c K, 64⟩, tp⟩, ?_, ⟨rfl, rfl, rfl, h4, rfl⟩,
      rfl⟩
    unfold update_hash
    simp only [if_true]
  · obtain ⟨x1, hx1⟩ : ∃ x1, finalize_hash impl s
        (⟨CALG_HMAC, xk, xp, sz, st, ctx, v,
          some ⟨alg, hmac_pad 0x36 K, 64, hmac_pad 0x5c K, 64⟩, tp⟩ : CRYPTHASH η)
        = some (s, x1) := by
      unfold finalize_hash
      simp only [if_true]
      exact ⟨_, rfl⟩
    have hx1' := hx1
    unfold finalize_hash at hx1'
    simp only [if_true, Option.some.injEq, Prod.mk.injEq, true_and] at hx1'
    refine ⟨x1, hx1, ?_⟩
    rw [← hx1']
    refine ⟨⟨rfl, rfl, rfl, ?_, rfl⟩, rfl⟩
    simp only []
    rw [memmove_length, memmove_length]; exact h4

/-- The outer loop of tls1_p on the HMAC object returns, whatever the engine computes. -/
theorem tls1_p_loop_total {κ η : Type} (impl : IMPL κ η) (s : CSP κ η)
    (hp hk alg hs n : Nat) (K seed : List Nat) (e : PROV_ENUMALGS_EX)
    (hga : get_algid_info s.handle_table hp alg = .ok e) (he : e.dwDefaultLen / 8 = hs)
    (hpos : 0 < hs) :
    ∀ (f q : Nat) (h : CRYPTHASH η) (abAi buf : List Nat),
      HmacObject h hp hk alg K → n ≤ buf.length → n - q * hs + 1 ≤ f →
      ∃ h' buf', tls1_p_loop impl seed n f s h abAi (q * hs) buf = some (s, h', buf') ∧
        HmacObject h' hp hk alg K ∧ buf'.length = buf.length
  | 0, q, h, abAi, buf, _, _, hf => by omega
  | f + 1, q, h, abAi, buf, hh, hbuf, hf => by
    have hq1 : (q + 1) * hs = q * hs + hs := by rw [Nat.add_mul, Nat.one_mul]
    obtain ⟨⟨x1, e1, i1, z1⟩, -, -⟩ := hmac_object_ops impl s h hp hk alg K e hh hga
    obtain ⟨-, u1, -⟩ := hmac_object_ops impl s x1 hp hk alg K e i1 hga
    obtain ⟨x2, e2, i2, z2⟩ := u1 (bytesAt abAi 0 hs)
    obtain ⟨-, u2, -⟩ := hmac_object_ops impl s x2 hp hk alg K e i2 hga
    obtain ⟨x3, e3, i3, z3⟩ := u2 seed
    obtain ⟨-, -, x4, e4, i4, z4⟩ := hmac_object_ops impl s x3 hp hk alg K e i3 hga
    obtain ⟨⟨y1, g1, j1, w1⟩, -, -⟩ := hmac_object_ops impl s x4 hp hk alg K e i4 hga
    obtain ⟨-, u3, -⟩ := hmac_object_ops impl s y1 hp hk alg K e j1 hga
    obtain ⟨y2, g2, j2, w2⟩ := u3 (bytesAt abAi 0 hs)
    obtain ⟨-, -, y3, g3, j3, w3⟩ := hmac_object_ops impl s y2 hp hk alg K e j2 hga
    rw [he] at z1 w1
    have z4' : x4.dwHashSize = hs := by rw [z4, z3, z2, z1]
    unfold tls1_p_loop
    simp only []
    rw [e1]
    simp only []
    rw [z1, e2]
    simp only []
    rw [e3]
    simp only []
    rw [e4]
    simp only []
    rw [z4']
    by_cases hin : q * hs < n
    · obtain ⟨buf1, hx, hl1, -⟩ := tls1_p_xor_spec x4.abHashValue hs n q hpos (hs + 1) 0 buf
        hpos (by omega) hbuf (by omega)
      replace hx : tls1_p_xor x4.abHashValue hs n (hs + 1) (q * hs) buf
          = some (min ((q + 1) * hs) n, buf1) := hx
      rw [hx]
      simp only []
      rw [g1]
      simp only []
      rw [w1, g2]
      simp only []
      rw [g3]
      simp only []
      by_cases hmore : min ((q + 1) * hs) n < n
      · rw [if_pos hmore]
        have hmin : min ((q + 1) * hs) n = (q + 1) * hs := by omega
        rw [hmin]
        obtain ⟨h', buf', hr, hi', hl'⟩ := tls1_p_loop_total impl s hp hk alg hs n K seed e
          hga he hpos f (q + 1) y3
          (memmove abAi 0 (bytesAt y3.abHashValue 0 y3.dwHashSize)) buf1 j3
          (by rw [hl1]; exact hbuf) (by omega)
        rw [hr]
        exact ⟨h', buf', rfl, hi', hl'.trans hl1⟩
      · rw [if_neg hmore]
        exact ⟨y3, buf1, rfl, j3, hl1⟩
    · unfold tls1_p_xor
      rw [if_pos (by omega)]
      simp only []
      rw [g1]
      simp only []
      rw [w1, g2]
      simp only []
      rw [g3]
      simp only []
      rw [if_neg hin]
      exact ⟨y3, buf, rfl, j3, rfl⟩

/-- The function tls1_p on the HMAC object of `hHMAC` returns TRUE, whatever the engine
computes; when the engine computes the function `H` for the inner hash, the
first `n` bytes of the buffer are combined with the first `n` bytes of the
P_hash stream of the key `K` and the seed. -/
theorem tls1_p_run {κ η : Type} (impl : IMPL κ η) (s : CSP κ η)
    (hHMAC hp hk alg hs n : Nat) (K seed buf : List Nat) (e : PROV_ENUMALGS_EX)
    (x : CRYPTHASH η)
    (hl : lookup_hash s.handle_table hHMAC = some x) (hx : HmacObject x hp hk alg K)
    (hga : get_algid_info s.handle_table hp alg = .ok e) (he : e.dwDefaultLen / 8 = hs)
    (hpos : 0 < hs) (hs104 : hs ≤ RSAENH_MAX_HASH_SIZE) (hK : K.length ≤ 64)
    (hbuf : n ≤ buf.length) :
    ∃ x' buf',
      tls1_p impl s hHMAC seed buf n
        = some (true, s.withTable (store_object s.handle_table hHMAC (.hash x')), buf') ∧
      HmacObject x' hp hk alg K ∧ buf'.length = buf.length ∧
      ∀ (H : List Nat → List Nat) (msg : η → List Nat),
        HashComputes impl alg H msg → (∀ y, (H y).length = hs) →
        ∀ k, buf'.getD k 0 =
          if k < n then
            buf.getD k 0 ^^^
              (hmac_rfc2104 H K (p_hash_A H K seed (k / hs + 1) ++ seed)).getD (k % hs) 0
          else buf.getD k 0 := by
  obtain ⟨⟨x1, e1, i1, z1⟩, -, -⟩ := hmac_object_ops impl s x hp hk alg K e hx hga
  obtain ⟨-, u1, -⟩ := hmac_object_ops impl s x1 hp hk alg K e i1 hga
  obtain ⟨x2, e2, i2, z2⟩ := u1 seed
  obtain ⟨-, -, x3, e3, i3, z3⟩ := hmac_object_ops impl s x2 hp hk alg K e i2 hga
  obtain ⟨h', buf', hr, hi', hl'⟩ := tls1_p_loop_total impl s hp hk alg hs n K seed e
    hga he hpos (n + 1) 0 x3
    (memmove (heap_block RSAENH_MAX_HASH_SIZE) 0 (bytesAt x3.abHashValue 0 x3.dwHashSize)) buf
    i3 hbuf (by omega)
  replace hr : tls1_p_loop impl seed n (n + 1) s x3
      (memmove (heap_block RSAENH_MAX_HASH_SIZE) 0 (bytesAt x3.abHashValue 0 x3.dwHashSize))
      0 buf = some (s, h', buf') := by
    rw [Nat.zero_mul] at hr; exact hr
  have hrun : tls1_p impl s hHMAC seed buf n
      = some (true, s.withTable (store_object s.handle_table hHMAC (.hash h')), buf') := by
    unfold tls1_p
    rw [hl]
    simp only []
    rw [e1]
    simp only []
    rw [e2]
    simp only []
    rw [e3]
    simp only []
    rw [hr]
  refine ⟨h', buf', hrun, hi', hl', fun H msg hH hlen k => ?_⟩
  obtain ⟨x'', buf'', hrun', -, -, hg⟩ := tls1_p_spec impl s hHMAC hp hk alg hs n K seed buf e
    H msg x hl hx hga he hH hlen hpos hs104 hK hbuf
  rw [hrun] at hrun'
  simp only [Option.some.injEq, Prod.mk.injEq, true_and] at hrun'
  rw [hrun'.2]
  exact hg k

theorem lookup_object_le {κ η : Type} (t : HANDLETABLE κ η) (h : Nat) (o : OBJECT κ η)
    (hl : lookup_object t h = some o) : h ≤ t.entries.length := by
  obtain ⟨h0, rc, he⟩ := lookup_object_some t h o hl
  have := getD_some_lt _ _ _ he
  omega

theorem store_object_length {κ η : Type} (t : HANDLETABLE κ η) (h : Nat) (o : OBJECT κ η) :
    (store_object t h o).entries.length = t.entries.length := by
  unfold store_object
  split
  · rfl
  · split
    · simp only [List.length_set]
    · rfl

theorem new_key_table_length {κ η : Type} (impl : IMPL κ η) (s s1 : CSP κ η)
    (hProv aiAlgid dwFlags hKey : Nat) (k : CRYPTKEY κ)
    (hn : new_key impl s hProv aiAlgid dwFlags = (s1, some (hKey, k))) :
    s1.handle_table.entries.length = s.handle_table.entries.length + 1 := by
  unfold new_key at hn
  rcases hq : get_algid_info s.handle_table hProv aiAlgid with e | pea
  · rw [hq] at hn
    simp only [Prod.mk.injEq] at hn
    exact absurd hn.2 (by simp)
  · rw [hq] at hn
    simp only [] at hn
    rcases hl : new_key_length aiAlgid pea
        (if HIWORD dwFlags = 0 then pea.dwDefaultLen else HIWORD dwFlags) with _ | len
    · rw [hl] at hn
      simp only [Prod.mk.injEq] at hn
      exact absurd hn.2 (by simp)
    · rw [hl] at hn
      simp only [Prod.mk.injEq] at hn
      rw [← hn.1]
      unfold new_object CSP.withTable
      simp only [List.length_append, List.length_singleton]

/-- Releasing a handle leaves the objects of the other handles as they are. -/
theorem lookup_object_release_other {κ η : Type} (t : HANDLETABLE κ η) (h h' : Nat)
    (tag : OBJECT κ η → Bool) (hne : h ≠ h') :
    lookup_object (release_handle t h tag).2 h' = lookup_object t h' := by
  unfold release_handle
  by_cases h0 : h = 0
  · rw [if_pos h0]
  · rw [if_neg h0]
    rcases hq : t.entries.getD (h - 1) none with _ | ⟨rc, o⟩
    · rfl
    · simp only []
      by_cases ht : tag o = true
      · rw [if_pos ht]
        unfold lookup_object
        by_cases h0' : h' = 0
        · rw [if_pos h0', if_pos h0']
        · rw [if_neg h0', if_neg h0']
          simp only []
          rw [getD_set_other _ _ _ _ _ (by omega)]
      · rw [if_neg ht]

/-- The exit path of tls1_prf leaves the objects of the handles other than the two that it
releases as they are. -/
theorem tls1_prf_exit_frame {κ η : Type} (s : CSP κ η) (hProv hHalfSecret hHMAC h : Nat)
    (h1 : hHalfSecret ≠ h) (h2 : hHMAC ≠ h) :
    lookup_object (tls1_prf_exit s hProv hHalfSecret hHMAC).handle_table h
      = lookup_object s.handle_table h := by
  unfold tls1_prf_exit
  simp only []
  have e1 : lookup_object
      (s.withTable (release_handle s.handle_table hHalfSecret is_key).2).handle_table h
      = lookup_object s.handle_table h := lookup_object_release_other _ _ _ _ h1
  by_cases hv : hHMAC ≠ INVALID_HANDLE_VALUE
  · rw [if_pos hv]
    unfold RSAENH_CPDestroyHash
    split
    · exact e1
    · simp only []
      split
      · exact e1
      · exact (lookup_object_release_other _ _ _ _ h2).trans e1
  · rw [if_neg hv]
    exact e1

/-- CPCreateHash for CALG_HMAC, with a key handle that names a key: a fresh Idle hash object
without HMAC info, under the next handle. -/
theorem CPCreateHash_hmac {κ η : Type}
    (prf : CSP κ η → Nat → Nat → List Nat → List Nat → List Nat → Nat →
      Option (Bool × CSP κ η × List Nat))
    (impl : IMPL κ η) (s : CSP κ η) (hProv hKey : Nat) (k : CRYPTKEY κ)
    (eH : PROV_ENUMALGS_EX)
    (hga : get_algid_info s.handle_table hProv CALG_HMAC = .ok eH)
    (hkey : lookup_key s.handle_table hKey = some k) :
    CPCreateHash_with prf impl s hProv CALG_HMAC hKey 0
      = some (true,
          s.withTable (new_object s.handle_table (.hash
            ⟨CALG_HMAC, hKey, hProv, eH.dwDefaultLen / 8, RSAENH_HASHSTATE_IDLE,
              impl.fresh_hash_context, heap_block RSAENH_MAX_HASH_SIZE, none, ⟨[], []⟩⟩)).1,
          some (s.handle_table.entries.length + 1)) := by
  unfold CPCreateHash_with
  rw [hga]
  simp only [ne_eq, not_true_eq_false, if_false]
  rw [if_pos (Or.inr (Or.inl trivial)), hkey]
  simp only []
  rw [if_neg (fun hc => absurd hc.1 (by decide)),
    if_neg (fun hc => hc.1.elim (fun h1 => absurd h1 (by decide))
      (fun h1 => absurd h1 (by decide))),
    if_neg (fun hc => absurd hc.1 (by decide))]
  unfold CPCreateHash_new
  simp only []
  rw [if_neg (show ¬ CALG_HMAC = CALG_SCHANNEL_MASTER_HASH by decide)]
  unfold init_hash
  simp only [if_true]
  have := lookup_object_new s.handle_table (.hash
    (⟨CALG_HMAC, hKey, hProv, eH.dwDefaultLen / 8, RSAENH_HASHSTATE_IDLE,
      impl.fresh_hash_context, heap_block RSAENH_MAX_HASH_SIZE, none, ⟨[], []⟩⟩ : CRYPTHASH η))
  simp only [CSP.withTable]
  rw [store_object_same _ _ _ this]
  rfl

theorem getD_zipWith_xor (a b : List Nat) (i : Nat) (ha : i < a.length) (hb : i < b.length) :
    (List.zipWith (fun x y => x ^^^ y) a b).getD i 0 = a.getD i 0 ^^^ b.getD i 0 := by
  rw [List.getD_eq_getElem?_getD, List.getD_eq_getElem?_getD, List.getD_eq_getElem?_getD,
    List.getElem?_zipWith, List.getElem?_eq_getElem ha, List.getElem?_eq_getElem hb]
  rfl

/-- The buffer after `memset(pbBuffer, 0, n)`. -/
theorem memset_zero_getD (buf : List Nat) (n : Nat) (hn : n ≤ buf.length) :
    (memmove buf 0 (List.replicate n 0)).length = buf.length ∧
    ∀ k, k < n → (memmove buf 0 (List.replicate n 0)).getD k 0 = 0 := by
  refine ⟨memmove_length _ _ _, fun k hk => ?_⟩
  rw [memmove_zero _ _ (by rw [List.length_replicate]; exact hn), List.getD_eq_getElem?_getD,
    List.getElem?_append_left (by rw [List.length_replicate]; exact hk),
    List.getElem?_replicate, if_pos hk]
  rfl

theorem memmove_cover (old a b : List Nat) (hab : a.length = b.length)
    (hle : a.length ≤ old.length) :
    memmove (memmove old 0 a) 0 b = memmove old 0 b := by
  have e1 : memmove old 0 a = a ++ old.drop a.length := memmove_zero _ _ hle
  have e2 : memmove (a ++ old.drop a.length) 0 b
      = b ++ (a ++ old.drop a.length).drop b.length :=
    memmove_zero _ _ (by rw [List.length_append, List.length_drop]; omega)
  have e3 : memmove old 0 b = b ++ old.drop b.length := memmove_zero _ _ (by omega)
  rw [e1, e2, e3, ← hab, List.drop_left]

/-- The function tls1_prf for a secret of at most 48 bytes, when new_key gives the half-secret
key, on a buffer of `n` bytes or more: it returns TRUE whatever the engine
computes, the objects of the handles at hand are as before, and when the
engine computes the digest functions `Hmd5` and `Hsha` for CALG_MD5 and
CALG_SHA the first `n` bytes of the buffer are the pseudo random function of
the claim. -/
theorem tls1_prf_run {κ η : Type} (impl : IMPL κ η) (s s1 : CSP κ η)
    (hProv hSecret hHalf n : Nat) (pSecret kHalf : CRYPTKEY κ)
    (label seed pbBuffer : List Nat)
    (hkey : lookup_key s.handle_table hSecret = some pSecret)
    (hL : pSecret.dwKeyLen ≤ 48) (hmem : pSecret.abKeyValue.length = 48)
    (hnew : new_key impl s hProv CALG_SSL2_MASTER
      (MAKELONG 0 (dwMul (dwAdd pSecret.dwKeyLen 1 / 2) 8)) = (s1, some (hHalf, kHalf)))
    (hbuf : n ≤ pbBuffer.length) :
    ∃ s' buf',
      tls1_prf impl s hProv hSecret label seed pbBuffer n = some (true, s', buf') ∧
      buf'.length = pbBuffer.length ∧
      (∀ h, h ≤ s.handle_table.entries.length →
        lookup_object s'.handle_table h = lookup_object s.handle_table h) ∧
      ∀ (Hmd5 Hsha : List Nat → List Nat) (msg5 msgS : η → List Nat),
        HashComputes impl CALG_MD5 Hmd5 msg5 → HashComputes impl CALG_SHA Hsha msgS →
        (∀ y, (Hmd5 y).length = 16) → (∀ y, (Hsha y).length = 20) →
        bytesAt buf' 0 n = tls1_prf_rfc2246 Hmd5 Hsha
          (bytesAt pSecret.abKeyValue 0 pSecret.dwKeyLen) label seed n := by
  obtain ⟨L, hLdef⟩ : ∃ L, pSecret.dwKeyLen = L := ⟨_, rfl⟩
  rw [hLdef] at hL hnew ⊢
  obtain ⟨hadd, ⟨c, hc, hp3⟩, hd1, hd2⟩ := half_secret_key impl s s1 hProv L hHalf kHalf hL hnew
  obtain ⟨hk1, hkv, -, hh, hold1, -, -⟩ := new_key_some impl s s1 hProv _ _ hHalf kHalf hnew
  have hlen1 := new_key_table_length impl s s1 hProv _ _ hHalf kHalf hnew
  obtain ⟨half, hhalf⟩ : ∃ m, (L + 1) / 2 = m := ⟨_, rfl⟩
  rw [hadd, hhalf] at hnew
  rw [hhalf] at hd1
  obtain ⟨S1, hS1⟩ : ∃ S, bytesAt pSecret.abKeyValue 0 half = S := ⟨_, rfl⟩
  obtain ⟨S2, hS2⟩ : ∃ S, bytesAt pSecret.abKeyValue (L / 2) half = S := ⟨_, rfl⟩
  have hS1l : S1.length = half := by rw [← hS1]; exact bytesAt_length _ _ _ (by omega)
  have hS2l : S2.length = half := by rw [← hS2]; exact bytesAt_length _ _ _ (by omega)
  obtain ⟨buf0, hbuf0⟩ : ∃ b, memmove pbBuffer 0 (List.replicate n 0) = b := ⟨_, rfl⟩
  obtain ⟨hb0l, hb0z⟩ := memset_zero_getD pbBuffer n hbuf
  rw [hbuf0] at hb0l hb0z
  -- the half-secret key with the first half
  obtain ⟨half1, hhalf1⟩ : ∃ k1, ({ kHalf with
      abKeyValue := memmove kHalf.abKeyValue 0 S1 } : CRYPTKEY κ) = k1 := ⟨_, rfl⟩
  obtain ⟨s2, hs2⟩ : ∃ s2, s1.withTable (store_object s1.handle_table hHalf (.key half1)) = s2 :=
    ⟨_, rfl⟩
  have hkv48 : kHalf.abKeyValue.length = 48 := by rw [hkv]; exact List.length_replicate _ _
  have hkvz : ∀ k, kHalf.abKeyValue.getD k 0 = 0 := by
    intro k
    rw [hkv, List.getD_eq_getElem?_getD, List.getElem?_replicate]
    split <;> rfl
  have h1k : half1.abKeyValue = memmove kHalf.abKeyValue 0 S1 := by rw [← hhalf1]
  have h1d : half1.dwKeyLen = kHalf.dwKeyLen := by rw [← hhalf1]
  -- the three handles
  have oP : lookup_object s.handle_table hProv = some (.container c) :=
    (lookup_container_of_object _ _ _).mp hc
  have hPle : hProv ≤ s.handle_table.entries.length := lookup_object_le _ _ _ oP
  obtain ⟨len, hlen⟩ : ∃ m, s.handle_table.entries.length = m := ⟨_, rfl⟩
  rw [hlen] at hh hold1 hlen1 hPle ⊢
  -- state s2
  have hlen2 : s2.handle_table.entries.length = len + 1 := by
    rw [← hs2]; exact (store_object_length _ _ _).trans hlen1
  have old2 : ∀ h, h ≤ len → lookup_object s2.handle_table h = lookup_object s.handle_table h := by
    intro h hle
    rw [← hs2]
    exact (lookup_object_store_other _ hHalf h _ (by omega)).trans (hold1 h hle)
  have oK2 : lookup_object s2.handle_table hHalf = some (.key half1) := by
    rw [← hs2]; exact lookup_object_store_same _ _ _ _ ((lookup_key_of_object _ _ _).mp hk1)
  have oP2 : lookup_object s2.handle_table hProv = some (.container c) :=
    (old2 hProv hPle).trans oP
  obtain ⟨⟨eH, hgH⟩, ⟨e5, hg5, he5⟩, ⟨eS, hgS, heS⟩⟩ := get_algid_info_hash_algs
    s2.handle_table hProv c ((lookup_container_of_object _ _ _).mpr oP2) hp3
  have galg : ∀ (t : HANDLETABLE κ η) (a : Nat),
      lookup_object t hProv = some (.container c) →
      get_algid_info t hProv a = get_algid_info s2.handle_table hProv a := by
    intro t a ht
    apply get_algid_info_congr
    rw [(lookup_container_of_object _ _ _).mpr ht, (lookup_container_of_object _ _ _).mpr oP2]
  -- state s3: the HMAC object
  obtain ⟨x0, hx0⟩ : ∃ x, (⟨CALG_HMAC, hHalf, hProv, eH.dwDefaultLen / 8, RSAENH_HASHSTATE_IDLE,
      impl.fresh_hash_context, heap_block RSAENH_MAX_HASH_SIZE, none, ⟨[], []⟩⟩ : CRYPTHASH η)
      = x := ⟨_, rfl⟩
  obtain ⟨hHMAC, hhm⟩ : ∃ m, s2.handle_table.entries.length + 1 = m := ⟨_, rfl⟩
  have hhm2 : hHMAC = len + 2 := by omega
  obtain ⟨s3, hs3⟩ : ∃ s3, s2.withTable (new_object s2.handle_table (.hash x0)).1 = s3 :=
    ⟨_, rfl⟩
  have hcreate : CPCreateHash_with no_prf impl s2 hProv CALG_HMAC hHalf 0
      = some (true, s3, some hHMAC) := by
    rw [← hs3, ← hx0, ← hhm]
    exact CPCreateHash_hmac no_prf impl s2 hProv hHalf half1 eH hgH
      ((lookup_key_of_object _ _ _).mpr oK2)
  have old3 : ∀ h, h ≤ len + 1 →
      lookup_object s3.handle_table h = lookup_object s2.handle_table h := by
    intro h hle
    rw [← hs3]
    exact lookup_object_new_old _ _ h (by omega)
  have oH3 : lookup_object s3.handle_table hHMAC = some (.hash x0) := by
    rw [← hs3, ← hhm]; exact lookup_object_new _ _
  have oK3 : lookup_object s3.handle_table hHalf = some (.key half1) :=
    (old3 hHalf (by omega)).trans oK2
  have oP3 : lookup_object s3.handle_table hProv = some (.container c) :=
    (old3 hProv (by omega)).trans oP2
  have hx0a : x0.aiAlgid = CALG_HMAC := by rw [← hx0]
  have hx0k : x0.hKey = hHalf := by rw [← hx0]
  have hx0p : x0.hProv = hProv := by rw [← hx0]
  -- the two keys of the HMAC
  obtain ⟨K1, hK1⟩ : ∃ K, bytesAt half1.abKeyValue 0 half1.dwKeyLen = K := ⟨_, rfl⟩
  have hK1e : K1 = S1 ++ List.replicate (kHalf.dwKeyLen - half) 0 := by
    rw [← hK1, h1k, h1d, ← hS1l]
    exact half_secret_bytes S1 kHalf.abKeyValue kHalf.dwKeyLen hkv48 (by omega) hd2
      (fun k _ => hkvz k)
  have hK1l : K1.length ≤ 64 := by
    rw [hK1e, List.length_append, List.length_replicate]; omega
  obtain ⟨half2, hhalf2⟩ : ∃ k2, ({ kHalf with
      abKeyValue := memmove (memmove kHalf.abKeyValue 0 S1) 0 S2 } : CRYPTKEY κ) = k2 :=
    ⟨_, rfl⟩
  have h2k : half2.abKeyValue = memmove kHalf.abKeyValue 0 S2 := by
    rw [← hhalf2]
    exact memmove_cover _ _ _ (hS1l.trans hS2l.symm) (by omega)
  have h2d : half2.dwKeyLen = kHalf.dwKeyLen := by rw [← hhalf2]
  obtain ⟨K2, hK2⟩ : ∃ K, bytesAt half2.abKeyValue 0 half2.dwKeyLen = K := ⟨_, rfl⟩
  have hK2e : K2 = S2 ++ List.replicate (kHalf.dwKeyLen - half) 0 := by
    rw [← hK2, h2k, h2d, ← hS2l]
    exact half_secret_bytes S2 kHalf.abKeyValue kHalf.dwKeyLen hkv48 (by omega) hd2
      (fun k _ => hkvz k)
  have hK2l : K2.length ≤ 64 := by
    rw [hK2e, List.length_append, List.length_replicate]; omega
  -- state s4: HMAC-MD5
  obtain ⟨xm, hxm⟩ : ∃ x, ({ x0 with
      pHMACInfo := some ⟨CALG_MD5, hmac_pad 0x36 K1, 64, hmac_pad 0x5c K1, 64⟩
      dwHashSize := e5.dwDefaultLen / 8
      context := (impl.update_hash_impl CALG_MD5 (impl.init_hash_impl CALG_MD5 x0.context).2
        (hmac_pad 0x36 K1)).2 } : CRYPTHASH η) = x := ⟨_, rfl⟩
  obtain ⟨s4, hs4⟩ : ∃ s4, s3.withTable (store_object s3.handle_table hHMAC (.hash xm)) = s4 :=
    ⟨_, rfl⟩
  have hset1 : RSAENH_CPSetHashParam impl s3 hProv hHMAC HP_HMAC_INFO
      (.hmac_info (some ⟨CALG_MD5, [], 0, [], 0⟩)) 0 = some (true, s4) := by
    rw [← hs4, ← hxm, ← hK1]
    exact CPSetHashParam_hmac impl s3 hProv hHMAC CALG_MD5 x0 half1 e5
      (is_valid_handle_container _ _ c ((lookup_container_of_object _ _ _).mpr oP3))
      ((lookup_hash_of_object _ _ _).mpr oH3) hx0a
      (by rw [hx0k]; exact (lookup_key_of_object _ _ _).mpr oK3)
      (by rw [h1d]; omega)
      (by rw [h1d, h1k, memmove_length, hkv48]; exact hd2)
      (by rw [hx0p, galg _ _ oP3]; exact hg5)
  have hxmO : HmacObject xm hProv hHalf CALG_MD5 K1 := by
    rw [← hxm, ← hx0]
    exact ⟨rfl, rfl, rfl, List.length_replicate _ _, rfl⟩
  have oH4 : lookup_object s4.handle_table hHMAC = some (.hash xm) := by
    rw [← hs4]; exact lookup_object_store_same _ _ _ _ oH3
  have oth4 : ∀ h, h ≠ hHMAC →
      lookup_object s4.handle_table h = lookup_object s3.handle_table h := by
    intro h hne; rw [← hs4]; exact lookup_object_store_other _ _ _ _ (fun e => hne e.symm)
  have oP4 := (oth4 hProv (by omega)).trans oP3
  have oK4 := (oth4 hHalf (by omega)).trans oK3
  -- the first pass
  obtain ⟨x5, buf1, hrun1, hx5O, hl1, hv1⟩ := tls1_p_run impl s4 hHMAC hProv hHalf CALG_MD5 16
    n K1 (label ++ seed) buf0 e5 xm ((lookup_hash_of_object _ _ _).mpr oH4) hxmO
    (by rw [galg _ _ oP4]; exact hg5) he5 (by decide) (by decide) hK1l (by omega)
  obtain ⟨s5, hs5⟩ : ∃ s5, s4.withTable (store_object s4.handle_table hHMAC (.hash x5)) = s5 :=
    ⟨_, rfl⟩
  rw [hs5] at hrun1
  have oH5 : lookup_object s5.handle_table hHMAC = some (.hash x5) := by
    rw [← hs5]; exact lookup_object_store_same _ _ _ _ oH4
  have oth5 : ∀ h, h ≠ hHMAC →
      lookup_object s5.handle_table h = lookup_object s4.handle_table h := by
    intro h hne; rw [← hs5]; exact lookup_object_store_other _ _ _ _ (fun e => hne e.symm)
  have oK5 := (oth5 hHalf (by omega)).trans oK4
  -- state s6: the second half
  obtain ⟨s6, hs6⟩ : ∃ s6, s5.withTable (store_object s5.handle_table hHalf (.key half2)) = s6 :=
    ⟨_, rfl⟩
  have oK6 : lookup_object s6.handle_table hHalf = some (.key half2) := by
    rw [← hs6]; exact lookup_object_store_same _ _ _ _ oK5
  have oth6 : ∀ h, h ≠ hHalf →
      lookup_object s6.handle_table h = lookup_object s5.handle_table h := by
    intro h hne; rw [← hs6]; exact lookup_object_store_other _ _ _ _ (fun e => hne e.symm)
  have oH6 := (oth6 hHMAC (by omega)).trans oH5
  have oP6 := ((oth6 hProv (by omega)).trans (oth5 hProv (by omega))).trans oP4
  -- state s7: HMAC-SHA
  obtain ⟨xs, hxs⟩ : ∃ x, ({ x5 with
      pHMACInfo := some ⟨CALG_SHA, hmac_pad 0x36 K2, 64, hmac_pad 0x5c K2, 64⟩
      dwHashSize := eS.dwDefaultLen / 8
      context := (impl.update_hash_impl CALG_SHA (impl.init_hash_impl CALG_SHA x5.context).2
        (hmac_pad 0x36 K2)).2 } : CRYPTHASH η) = x := ⟨_, rfl⟩
  obtain ⟨s7, hs7⟩ : ∃ s7, s6.withTable (store_object s6.handle_table hHMAC (.hash xs)) = s7 :=
    ⟨_, rfl⟩
  obtain ⟨q1, q2, q3, q4, q5⟩ := hx5O
  have hset2 : RSAENH_CPSetHashParam impl s6 hProv hHMAC HP_HMAC_INFO
      (.hmac_info (some ⟨CALG_SHA, [], 0, [], 0⟩)) 0 = some (true, s7) := by
    rw [← hs7, ← hxs, ← hK2]
    exact CPSetHashParam_hmac impl s6 hProv hHMAC CALG_SHA x5 half2 eS
      (is_valid_handle_container _ _ c ((lookup_container_of_object _ _ _).mpr oP6))
      ((lookup_hash_of_object _ _ _).mpr oH6) q1
      (by rw [q5]; exact (lookup_key_of_object _ _ _).mpr oK6)
      (by rw [h2d]; omega)
      (by rw [h2d, h2k, memmove_length, hkv48]; exact hd2)
      (by rw [q3, galg _ _ oP6]; exact hgS)
  have hxsO : HmacObject xs hProv hHalf CALG_SHA K2 := by
    rw [← hxs]
    exact ⟨q1, rfl, q3, q4, q5⟩
  have oH7 : lookup_object s7.handle_table hHMAC = some (.hash xs) := by
    rw [← hs7]; exact lookup_object_store_same _ _ _ _ oH6
  have oth7 : ∀ h, h ≠ hHMAC →
      lookup_object s7.handle_table h = lookup_object s6.handle_table h := by
    intro h hne; rw [← hs7]; exact lookup_object_store_other _ _ _ _ (fun e => hne e.symm)
  have oP7 := (oth7 hProv (by omega)).trans oP6
  -- the second pass
  obtain ⟨x8, buf2, hrun2, -, hl2, hv2⟩ := tls1_p_run impl s7 hHMAC hProv hHalf CALG_SHA 20
    n K2 (label ++ seed) buf1 eS xs ((lookup_hash_of_object _ _ _).mpr oH7) hxsO
    (by rw [galg _ _ oP7]; exact hgS) heS (by decide) (by decide) hK2l (by omega)
  obtain ⟨s8, hs8⟩ : ∃ s8, s7.withTable (store_object s7.handle_table hHMAC (.hash x8)) = s8 :=
    ⟨_, rfl⟩
  rw [hs8] at hrun2
  have oth8 : ∀ h, h ≠ hHMAC →
      lookup_object s8.handle_table h = lookup_object s7.handle_table h := by
    intro h hne; rw [← hs8]; exact lookup_object_store_other _ _ _ _ (fun e => hne e.symm)
  refine ⟨tls1_prf_exit s8 hProv hHalf hHMAC, buf2, ?_, ?_, ?_, ?_⟩
  · unfold tls1_prf
    rw [hkey]
    simp only []
    rw [hLdef, hadd, hhalf, hnew]
    simp only []
    rw [hS1, hS2, hbuf0, hhalf1, hs2, hcreate]
    simp only [Option.getD_some]
    rw [hset1]
    simp only []
    rw [hrun1]
    simp only []
    rw [hhalf2, hs6, hset2]
    simp only []
    rw [hrun2]
  · omega
  · intro h hle
    rw [tls1_prf_exit_frame s8 hProv hHalf hHMAC h (by omega) (by omega),
      oth8 h (by omega), oth7 h (by omega), oth6 h (by omega), oth5 h (by omega),
      oth4 h (by omega), old3 h (by omega), old2 h hle]
  · intro Hmd5 Hsha msg5 msgS hH5 hHS hl5 hlS
    have hsec : (bytesAt pSecret.abKeyValue 0 L).length = L :=
      bytesAt_length _ _ _ (by omega)
    have e1 : (bytesAt pSecret.abKeyValue 0 L).take (((bytesAt pSecret.abKeyValue 0 L).length
        + 1) / 2) = S1 := by
      rw [hsec, hhalf, ← hS1, bytesAt_zero, bytesAt_zero, List.take_take,
        Nat.min_eq_left (by omega)]
    have e2 : (bytesAt pSecret.abKeyValue 0 L).drop ((bytesAt pSecret.abKeyValue 0 L).length / 2)
        = S2 := by
      rw [hsec, ← hS2, bytesAt_zero]
      unfold bytesAt
      rw [List.drop_take]
      congr 1
      omega
    unfold tls1_prf_rfc2246
    rw [e1, e2]
    have p5 := p_hash_length Hmd5 S1 (label ++ seed) 16 n hl5 (by decide)
    have pS := p_hash_length Hsha S2 (label ++ seed) 20 n hlS (by decide)
    apply list_eq_of_getD
    · rw [bytesAt_zero, List.length_take, List.length_zipWith, p5, pS]
      omega
    · intro k hk
      rw [bytesAt_zero, List.length_take] at hk
      have hkn : k < n := by omega
      rw [bytesAt_zero, getD_take _ _ _ hkn, getD_zipWith_xor _ _ _ (by omega) (by omega),
        hv2 Hsha msgS hHS hlS k, if_pos hkn, hv1 Hmd5 msg5 hH5 hl5 k, if_pos hkn,
        hb0z k hkn, Nat.zero_xor,
        p_hash_getD Hmd5 S1 (label ++ seed) 16 n k hl5 (by decide) hkn,
        p_hash_getD Hsha S2 (label ++ seed) 20 n k hlS (by decide) hkn, hK1e, hK2e,
        hmac_rfc2104_zero_ext _ _ _ _ (by omega), hmac_rfc2104_zero_ext _ _ _ _ (by omega),
        p_hash_A_zero_ext _ _ _ _ (by omega), p_hash_A_zero_ext _ _ _ _ (by omega)]

/-- C6. TLS1 pseudo random function.  The secret is the first `dwKeyLen` (at most 48) bytes of
the raw key material of the key object of `hSecret`; new_key gives the helper
half-secret key; the engine computes the digest functions `Hmd5` (16 bytes)
and `Hsha` (20 bytes) for CALG_MD5 and CALG_SHA.  Then for every label, seed
and output length `n`, on a buffer of `n` bytes or more, tls1_prf returns
TRUE and the first `n` bytes of the buffer are
`P_hash[HMAC-MD5, secret[0 .. ceil(L/2))](label || seed) xor
P_hash[HMAC-SHA1, secret[floor(L/2) .. L)](label || seed)`, each stream
truncated to `n` bytes; a call with the same inputs and any other buffer
contents gives the same `n` bytes. -/
theorem tls1_prf_output {κ η : Type} (impl : IMPL κ η) (s s1 : CSP κ η)
    (hProv hSecret hHalf n : Nat) (pSecret kHalf : CRYPTKEY κ)
    (label seed pbBuffer : List Nat)
    (Hmd5 Hsha : List Nat → List Nat) (msg5 msgS : η → List Nat)
    (hkey : lookup_key s.handle_table hSecret = some pSecret)
    (hL : pSecret.dwKeyLen ≤ 48) (hmem : pSecret.abKeyValue.length = 48)
    (hnew : new_key impl s hProv CALG_SSL2_MASTER
      (MAKELONG 0 (dwMul (dwAdd pSecret.dwKeyLen 1 / 2) 8)) = (s1, some (hHalf, kHalf)))
    (hbuf : n ≤ pbBuffer.length)
    (hH5 : HashComputes impl CALG_MD5 Hmd5 msg5) (hHS : HashComputes impl CALG_SHA Hsha msgS)
    (hl5 : ∀ y, (Hmd5 y).length = 16) (hlS : ∀ y, (Hsha y).length = 20) :
    (∃ s' buf',
      tls1_prf impl s hProv hSecret label seed pbBuffer n = some (true, s', buf') ∧
      buf'.length = pbBuffer.length ∧
      bytesAt buf' 0 n = tls1_prf_rfc2246 Hmd5 Hsha
        (bytesAt pSecret.abKeyValue 0 pSecret.dwKeyLen) label seed n) ∧
    ∀ pbBuffer2 : List Nat, n ≤ pbBuffer2.length →
      ∃ s'' buf'',
        tls1_prf impl s hProv hSecret label seed pbBuffer2 n = some (true, s'', buf'') ∧
        bytesAt buf'' 0 n = tls1_prf_rfc2246 Hmd5 Hsha
          (bytesAt pSecret.abKeyValue 0 pSecret.dwKeyLen) label seed n := by
  constructor
  · obtain ⟨s', buf', hr, hl, -, hv⟩ := tls1_prf_run impl s s1 hProv hSecret hHalf n pSecret
      kHalf label seed pbBuffer hkey hL hmem hnew hbuf
    exact ⟨s', buf', hr, hl, hv Hmd5 Hsha msg5 msgS hH5 hHS hl5 hlS⟩
  · intro pbBuffer2 hbuf2
    obtain ⟨s', buf', hr, -, -, hv⟩ := tls1_prf_run impl s s1 hProv hSecret hHalf n pSecret
      kHalf label seed pbBuffer2 hkey hL hmem hnew hbuf2
    exact ⟨s', buf', hr, hv Hmd5 Hsha msg5 msgS hH5 hHS hl5 hlS⟩

/-- Witness for C6: the theorem on the SChannel state of the small engine, the master key of
handle 2 as secret, and an output of 5 bytes. -/
theorem tls1_prf_output_witness :
    (∃ s' buf',
      tls1_prf toyImpl toyDeriveState 1 2 [1, 2] [3] [9, 9, 9, 9, 9, 9] 5
        = some (true, s', buf') ∧
      buf'.length = ([9, 9, 9, 9, 9, 9] : List Nat).length ∧
      bytesAt buf' 0 5 = tls1_prf_rfc2246 (toyDigest CALG_MD5) (toyDigest CALG_SHA)
        (bytesAt (toyMasterKey RSAENH_KEYSTATE_MASTERKEY CALG_DES 64 128 []).abKeyValue 0
          (toyMasterKey RSAENH_KEYSTATE_MASTERKEY CALG_DES 64 128 []).dwKeyLen) [1, 2] [3] 5) ∧
    ∀ pbBuffer2 : List Nat, 5 ≤ pbBuffer2.length →
      ∃ s'' buf'',
        tls1_prf toyImpl toyDeriveState 1 2 [1, 2] [3] pbBuffer2 5 = some (true, s'', buf'') ∧
        bytesAt buf'' 0 5 = tls1_prf_rfc2246 (toyDigest CALG_MD5) (toyDigest CALG_SHA)
          (bytesAt (toyMasterKey RSAENH_KEYSTATE_MASTERKEY CALG_DES 64 128 []).abKeyValue 0
            (toyMasterKey RSAENH_KEYSTATE_MASTERKEY CALG_DES 64 128 []).dwKeyLen) [1, 2] [3] 5 :=
  tls1_prf_output toyImpl toyDeriveState
    (new_key toyImpl toyDeriveState 1 CALG_SSL2_MASTER
      (MAKELONG 0 (dwMul (dwAdd 48 1 / 2) 8))).1
    1 2 4 5 (toyMasterKey RSAENH_KEYSTATE_MASTERKEY CALG_DES 64 128 [])
    (toySecretKey CALG_SSL2_MASTER 24 0 []) [1, 2] [3] [9, 9, 9, 9, 9, 9]
    (toyDigest CALG_MD5) (toyDigest CALG_SHA) id id
    (by decide) (by decide) (by decide) (by decide) (by decide)
    (toyImpl_HashComputes CALG_MD5) (toyImpl_HashComputes CALG_SHA)
    (fun y => by rw [toyDigest_length]; rfl) (fun y => by rw [toyDigest_length]; rfl)

/-- In a container whose table row has a record of CALG_SCHANNEL_MASTER_HASH, new_key gives the
half-secret key of a secret of 48 bytes. -/
theorem new_key_half_secret {κ η : Type} (impl : IMPL κ η) (s : CSP κ η) (hProv : Nat)
    (e : PROV_ENUMALGS_EX)
    (hg : get_algid_info s.handle_table hProv CALG_SCHANNEL_MASTER_HASH = .ok e) :
    ∃ s1 h k, new_key impl s hProv CALG_SSL2_MASTER (MAKELONG 0 (dwMul (dwAdd 48 1 / 2) 8))
      = (s1, some (h, k)) := by
  unfold get_algid_info at hg
  rcases hc : lookup_container s.handle_table hProv with _ | c
  · rw [hc] at hg; cases hg
  · rw [hc] at hg
    simp only [] at hg
    have hrow : get_algid_info_loop CALG_SSL2_MASTER (aProvEnumAlgsEx.getD c.dwPersonality [])
        = some ⟨CALG_SSL2_MASTER, 40, 40, 192, CRYPT_FLAG_SSL2, 12, "SSL2 MASTER", 12,
            "SSL2 Master"⟩ := by
      obtain ⟨p, hp⟩ : ∃ p, c.dwPersonality = p := ⟨_, rfl⟩
      rw [hp] at hg ⊢
      rcases p with _ | _ | _ | _ | p
      · have hn : get_algid_info_loop CALG_SCHANNEL_MASTER_HASH (aProvEnumAlgsEx.getD 0 [])
            = none := by decide
        rw [hn] at hg; cases hg
      · have hn : get_algid_info_loop CALG_SCHANNEL_MASTER_HASH (aProvEnumAlgsEx.getD 1 [])
            = none := by decide
        rw [hn] at hg; cases hg
      · have hn : get_algid_info_loop CALG_SCHANNEL_MASTER_HASH (aProvEnumAlgsEx.getD 2 [])
            = none := by decide
        rw [hn] at hg; cases hg
      · decide
      · have : aProvEnumAlgsEx.getD (p + 1 + 1 + 1 + 1) [] = [] := by
          apply List.getD_eq_default
          show aProvEnumAlgsEx.length ≤ _
          have : aProvEnumAlgsEx.length = 4 := by decide
          omega
        rw [this] at hg
        cases hg
    unfold new_key get_algid_info
    rw [hc]
    simp only [hrow]
    have hlen : new_key_length CALG_SSL2_MASTER
        ⟨CALG_SSL2_MASTER, 40, 40, 192, CRYPT_FLAG_SSL2, 12, "SSL2 MASTER", 12, "SSL2 Master"⟩
        (if HIWORD (MAKELONG 0 (dwMul (dwAdd 48 1 / 2) 8)) = 0 then 40
          else HIWORD (MAKELONG 0 (dwMul (dwAdd 48 1 / 2) 8))) = some 192 := by decide
    rw [hlen]
    exact ⟨_, _, _, rfl⟩

/-- C7. Master-secret derivation is idempotent: on a key object `k` of 48 bytes that is already
in the master-key state, RSAENH_CPCreateHash for CALG_SCHANNEL_MASTER_HASH
returns, whatever the engine computes, and afterwards the key handle names
the same key object `k`: raw key material, state and every other field are
unchanged. -/
theorem master_secret_idempotent {κ η : Type} (impl : IMPL κ η) (s : CSP κ η)
    (hProv hKey dwFlags : Nat) (k : CRYPTKEY κ)
    (hkey : lookup_key s.handle_table hKey = some k)
    (hst : k.dwState = RSAENH_KEYSTATE_MASTERKEY)
    (hlen : k.dwKeyLen = 48) (hmem : k.abKeyValue.length = 48) :
    ∃ ok s' ph,
      RSAENH_CPCreateHash impl s hProv CALG_SCHANNEL_MASTER_HASH hKey dwFlags
        = some (ok, s', ph) ∧
      lookup_key s'.handle_table hKey = some k := by
  unfold RSAENH_CPCreateHash CPCreateHash_with
  rcases hg : get_algid_info s.handle_table hProv CALG_SCHANNEL_MASTER_HASH with e | pea
  · exact ⟨_, _, _, rfl, hkey⟩
  · simp only []
    by_cases hf : dwFlags ≠ 0
    · rw [if_pos hf]
      exact ⟨_, _, _, rfl, hkey⟩
    · rw [if_neg hf, if_pos (Or.inr (Or.inr (Or.inl trivial))), hkey]
      simp only []
      rw [if_neg (fun hc => absurd hc.1 (by decide))]
      by_cases ha : (True ∨
          CALG_SCHANNEL_MASTER_HASH = CALG_TLS1PRF) ∧ k.aiAlgid ≠ CALG_TLS1_MASTER
      · rw [if_pos ha]
        exact ⟨_, _, _, rfl, hkey⟩
      · rw [if_neg ha, if_neg (fun hc => absurd hc.1 (by decide))]
        have hobj := (lookup_key_of_object _ _ _).mp hkey
        have hle := lookup_object_le _ _ _ hobj
        -- the state with the fresh hash object
        obtain ⟨x0, hx0⟩ : ∃ x, (⟨CALG_SCHANNEL_MASTER_HASH, hKey, hProv,
            pea.dwDefaultLen / 8, RSAENH_HASHSTATE_IDLE, impl.fresh_hash_context,
            heap_block RSAENH_MAX_HASH_SIZE, none, ⟨[], []⟩⟩ : CRYPTHASH η) = x := ⟨_, rfl⟩
        obtain ⟨s1, hs1⟩ : ∃ s1, s.withTable (new_object s.handle_table (.hash x0)).1 = s1 :=
          ⟨_, rfl⟩
        have old1 : ∀ h, h ≤ s.handle_table.entries.length →
            lookup_object s1.handle_table h = lookup_object s.handle_table h := by
          intro h hh; rw [← hs1]; exact lookup_object_new_old _ _ h hh
        have hlen1 : s1.handle_table.entries.length = s.handle_table.entries.length + 1 := by
          rw [← hs1]
          unfold new_object CSP.withTable
          simp only [List.length_append, List.length_singleton]
        have hk1 : lookup_key s1.handle_table hKey = some k :=
          (lookup_key_of_object _ _ _).mpr ((old1 hKey hle).trans hobj)
        have hg1 : get_algid_info s1.handle_table hProv CALG_SCHANNEL_MASTER_HASH = .ok pea := by
          rw [← hg]
          apply get_algid_info_congr
          have hP := get_algid_info_ok_container _ _ _ _ hg
          unfold lookup_container
          obtain ⟨o, ho⟩ : ∃ o, lookup_object s.handle_table hProv = some o := by
            unfold is_valid_handle at hP
            rcases hq : lookup_object s.handle_table hProv with _ | o
            · rw [hq] at hP; cases hP
            · exact ⟨o, rfl⟩
          rw [old1 hProv (lookup_object_le _ _ _ ho)]
        obtain ⟨s2, hHalf, kHalf, hnew⟩ := new_key_half_secret impl s1 hProv pea hg1
        obtain ⟨s4, buf4, hrun, -, hold4, -⟩ := tls1_prf_run impl s1 s2 hProv hKey hHalf
          RSAENH_MAX_HASH_SIZE k kHalf key_expansion
          (k.siSChannelInfo.blobServerRandom ++ k.siSChannelInfo.blobClientRandom)
          (heap_block RSAENH_MAX_HASH_SIZE) hk1 (by omega) hmem (by rw [hlen]; exact hnew)
          (Nat.le_of_eq (List.length_replicate _ _).symm)
        unfold CPCreateHash_new
        simp only []
        rw [if_pos trivial, if_neg (fun hc => hc hst), hx0, hs1]
        simp only []
        rw [hrun]
        simp only []
        have hi : ∀ v : List Nat, (init_hash impl s4
            (⟨CALG_SCHANNEL_MASTER_HASH, hKey, hProv, pea.dwDefaultLen / 8,
              RSAENH_HASHSTATE_IDLE, impl.fresh_hash_context, v, none, ⟨[], []⟩⟩ :
              CRYPTHASH η)).2.1 = s4 := by
          intro v
          unfold init_hash
          rw [if_neg (show ¬ CALG_SCHANNEL_MASTER_HASH = CALG_HMAC by decide),
            if_neg (show ¬ CALG_SCHANNEL_MASTER_HASH = CALG_MAC by decide)]
        refine ⟨_, _, _, rfl, ?_⟩
        rw [hi]
        have hne : (new_object s.handle_table (.hash x0)).2 ≠ hKey := by
          show s.handle_table.entries.length + 1 ≠ hKey
          omega
        rw [lookup_key_of_object]
        simp only [CSP.withTable]
        rw [lookup_object_store_other _ _ _ _ hne]
        exact (hold4 hKey (by omega)).trans ((old1 hKey hle).trans hobj)

/-- Witness for C7: the theorem on the SChannel state of the small engine, whose master key
(handle 2) is in the master-key state. -/
theorem master_secret_idempotent_witness :
    ∃ ok s' ph,
      RSAENH_CPCreateHash toyImpl toyDeriveState 1 CALG_SCHANNEL_MASTER_HASH 2 0
        = some (ok, s', ph) ∧
      lookup_key s'.handle_table 2
        = some (toyMasterKey RSAENH_KEYSTATE_MASTERKEY CALG_DES 64 128 []) :=
  master_secret_idempotent toyImpl toyDeriveState 1 2 0
    (toyMasterKey RSAENH_KEYSTATE_MASTERKEY CALG_DES 64 128 [])
    (by decide) (by decide) (by decide) (by decide)

/-- The block of build_hash_signature in the default format with the DigestInfo prefix. -/
theorem build_hash_signature_pkcs1 (dwLen aiAlgid : Nat) (abHashValue buf : List Nat)
    (dwHashLen dwFlags : Nat) (oid : Nat × Nat × List Nat)
    (hoid : find_oid aiAlgid aOIDDescriptor = some oid) (hol : oid.2.2.length = oid.2.1)
    (hh : dwHashLen ≤ abHashValue.length) (h1 : 3 + oid.2.1 + dwHashLen ≤ dwLen)
    (hbuf : dwLen ≤ buf.length)
    (hx : dwFlags &&& CRYPT_X931_FORMAT = 0) (hn : dwFlags &&& CRYPT_NOHASHOID = 0) :
    build_hash_signature buf dwLen aiAlgid abHashValue dwHashLen dwFlags
      = .ok ([0x00, 0x01] ++ List.replicate (dwLen - 3 - oid.2.1 - dwHashLen) 0xff ++ [0x00]
          ++ oid.2.2 ++ abHashValue.take dwHashLen ++ buf.drop dwLen) := by
  obtain ⟨hash, hhash⟩ : ∃ x, bytesAt abHashValue 0 dwHashLen = x := ⟨_, rfl⟩
  have hhl : hash.length = dwHashLen := by
    rw [← hhash]; exact bytesAt_length _ _ _ (by omega)
  have hoidb : bytesAt oid.2.2 0 oid.2.1 = oid.2.2 := by
    rw [bytesAt_zero, ← hol, List.take_length]
  have hx' : ¬ dwFlags &&& CRYPT_X931_FORMAT ≠ 0 := fun h => h hx
  have hn' : ¬ dwFlags &&& CRYPT_NOHASHOID ≠ 0 := fun h => h hn
  obtain ⟨i, hi⟩ : ∃ i, dwLen - 1 - oid.2.1 - dwHashLen = i := ⟨_, rfl⟩
  have hi2 : dwLen - 3 - oid.2.1 - dwHashLen = i - 2 := by omega
  unfold build_hash_signature
  rw [hoid]
  simp only []
  rw [if_neg hx', if_neg hn', dwSub_eq dwLen 1 (by omega),
    dwSub_eq (dwLen - 1) oid.2.1 (by omega),
    dwSub_eq (dwLen - 1 - oid.2.1) dwHashLen (by omega), hi,
    Nat.max_eq_right (by omega), hhash, hoidb, set_zero_prefix _ _ (by omega),
    set_prefix [0x00] buf 1 1 _ rfl rfl (by omega),
    fill_prefix ([0x00] ++ [0x01]) buf 2 2 (i - 2) _ (by decide) rfl (by omega)]
  have e1 : 2 + (i - 2) = i := by omega
  rw [e1, set_prefix _ buf i i _ (by simp; omega) rfl (by omega),
    memmove_prefix _ buf oid.2.2 (i + 1) (i + 1) (by simp; omega) rfl (by omega), hol,
    memmove_prefix _ buf hash (i + 1 + oid.2.1) (i + 1 + oid.2.1) (by simp [hol]; omega)
      rfl (by omega), hhl]
  have e2 : i + 1 + oid.2.1 + dwHashLen = dwLen := by omega
  rw [e2, hi2, ← hhash, bytesAt_zero]
  rfl

/-- The block of build_hash_signature in the default format without the DigestInfo prefix. -/
theorem build_hash_signature_nooid (dwLen aiAlgid : Nat) (abHashValue buf : List Nat)
    (dwHashLen dwFlags : Nat) (oid : Nat × Nat × List Nat)
    (hoid : find_oid aiAlgid aOIDDescriptor = some oid)
    (hh : dwHashLen ≤ abHashValue.length) (h1 : 3 + dwHashLen ≤ dwLen)
    (hbuf : dwLen ≤ buf.length)
    (hx : dwFlags &&& CRYPT_X931_FORMAT = 0) (hn : dwFlags &&& CRYPT_NOHASHOID ≠ 0) :
    build_hash_signature buf dwLen aiAlgid abHashValue dwHashLen dwFlags
      = .ok ([0x00, 0x01] ++ List.replicate (dwLen - 3 - dwHashLen) 0xff ++ [0x00]
          ++ abHashValue.take dwHashLen ++ buf.drop dwLen) := by
  obtain ⟨hash, hhash⟩ : ∃ x, bytesAt abHashValue 0 dwHashLen = x := ⟨_, rfl⟩
  have hhl : hash.length = dwHashLen := by
    rw [← hhash]; exact bytesAt_length _ _ _ (by omega)
  have hx' : ¬ dwFlags &&& CRYPT_X931_FORMAT ≠ 0 := fun h => h hx
  obtain ⟨i, hi⟩ : ∃ i, dwLen - 1 - dwHashLen = i := ⟨_, rfl⟩
  have hi2 : dwLen - 3 - dwHashLen = i - 2 := by omega
  unfold build_hash_signature
  rw [hoid]
  simp only []
  rw [if_neg hx', if_pos hn, dwSub_eq dwLen 1 (by omega),
    dwSub_eq (dwLen - 1) dwHashLen (by omega), hi,
    Nat.max_eq_right (by omega), hhash, set_zero_prefix _ _ (by omega),
    set_prefix [0x00] buf 1 1 _ rfl rfl (by omega),
    fill_prefix ([0x00] ++ [0x01]) buf 2 2 (i - 2) _ (by decide) rfl (by omega)]
  have e1 : 2 + (i - 2) = i := by omega
  rw [e1, set_prefix _ buf i i _ (by simp; omega) rfl (by omega),
    memmove_prefix _ buf hash (i + 1) (i + 1) (by simp; omega) rfl (by omega), hhl]
  have e2 : i + 1 + dwHashLen = dwLen := by omega
  rw [e2, hi2, ← hhash, bytesAt_zero]
  rfl

/-- The block of build_hash_signature in the X9.31 format. -/
theorem build_hash_signature_x931 (dwLen aiAlgid : Nat) (abHashValue buf : List Nat)
    (dwHashLen dwFlags : Nat) (oid : Nat × Nat × List Nat)
    (hoid : find_oid aiAlgid aOIDDescriptor = some oid)
    (hh : dwHashLen ≤ abHashValue.length) (h1 : dwHashLen + 4 ≤ dwLen)
    (hbuf : dwLen ≤ buf.length)
    (hx : dwFlags &&& CRYPT_X931_FORMAT ≠ 0) :
    build_hash_signature buf dwLen aiAlgid abHashValue dwHashLen dwFlags
      = .ok ([0x6b] ++ List.replicate (dwLen - dwHashLen - 4) 0xbb ++ [0xba]
          ++ abHashValue.take dwHashLen ++ [0x33, 0xcc] ++ buf.drop dwLen) := by
  obtain ⟨hash, hhash⟩ : ∃ x, bytesAt abHashValue 0 dwHashLen = x := ⟨_, rfl⟩
  have hhl : hash.length = dwHashLen := by
    rw [← hhash]; exact bytesAt_length _ _ _ (by omega)
  obtain ⟨i, hi⟩ : ∃ i, dwLen - dwHashLen - 3 = i := ⟨_, rfl⟩
  have hi2 : dwLen - dwHashLen - 4 = i - 1 := by omega
  unfold build_hash_signature
  rw [hoid]
  simp only []
  rw [if_pos hx, dwSub_eq dwLen dwHashLen (by omega),
    dwSub_eq (dwLen - dwHashLen) 3 (by omega), hi,
    Nat.max_eq_right (by omega), hhash, set_zero_prefix _ _ (by omega),
    fill_prefix [0x6b] buf 1 1 (i - 1) _ rfl rfl (by omega)]
  have e1 : 1 + (i - 1) = i := by omega
  rw [e1, set_prefix _ buf i i _ (by simp; omega) rfl (by omega),
    memmove_prefix _ buf hash (i + 1) (i + 1) (by simp; omega) rfl (by omega), hhl,
    set_prefix _ buf (i + 1 + dwHashLen) (i + 1 + dwHashLen) _ (by simp [hhl]; omega) rfl
      (by omega),
    set_prefix _ buf (i + 1 + dwHashLen + 1) (i + 1 + dwHashLen + 1) _
      (by simp [hhl]; omega) rfl (by omega)]
  have e2 : i + 1 + dwHashLen + 1 + 1 = dwLen := by omega
  rw [e2, hi2, ← hhash, bytesAt_zero]
  simp

/-- The four algorithms of aOIDDescriptor with the lengths of their DigestInfo prefixes. -/
theorem find_oid_lengths (aiAlgid oidLen : Nat)
    (halg : (aiAlgid, oidLen) ∈ [(CALG_MD2, 18), (CALG_MD4, 18), (CALG_MD5, 18), (CALG_SHA, 15)]) :
    ∃ abOID, find_oid aiAlgid aOIDDescriptor = some (aiAlgid, oidLen, abOID) ∧
      abOID.length = oidLen := by
  simp only [List.mem_cons, Prod.mk.injEq, List.mem_singleton, List.not_mem_nil, or_false] at halg
  rcases halg with ⟨h, h'⟩ | ⟨h, h'⟩ | ⟨h, h'⟩ | ⟨h, h'⟩ <;> subst h <;> subst h'
  · exact ⟨_, rfl, by decide⟩
  · exact ⟨_, rfl, by decide⟩
  · exact ⟨_, rfl, by decide⟩
  · exact ⟨_, rfl, by decide⟩

/-- C21. Default PKCS#1 signature block: for a hash algorithm among MD2, MD4, MD5 and SHA-1,
whose DigestInfo prefix abOID in aOIDDescriptor has oidLen = 18, 18, 18, 15 bytes, a digest of
dwHashLen bytes and dwLen at least 3 + oidLen + dwHashLen, build_hash_signature without
CRYPT_X931_FORMAT returns TRUE and the first dwLen bytes of the buffer are: 0x00, 0x01, then
dwLen - 3 - oidLen - dwHashLen bytes 0xff, then 0x00, then abOID, then the digest; with
CRYPT_NOHASHOID abOID is left out and the 0xff filler is oidLen bytes longer.  The bytes of the
buffer behind the first dwLen are kept, and both blocks have exactly dwLen bytes. -/
theorem pkcs1_signature_block (aiAlgid oidLen dwLen dwHashLen dwFlags : Nat)
    (abHashValue buf : List Nat)
    (halg : (aiAlgid, oidLen) ∈ [(CALG_MD2, 18), (CALG_MD4, 18), (CALG_MD5, 18), (CALG_SHA, 15)])
    (hx : dwFlags &&& CRYPT_X931_FORMAT = 0)
    (hh : dwHashLen ≤ abHashValue.length)
    (hlen : 3 + oidLen + dwHashLen ≤ dwLen) (hbuf : dwLen ≤ buf.length) :
    ∃ abOID, find_oid aiAlgid aOIDDescriptor = some (aiAlgid, oidLen, abOID) ∧
      abOID.length = oidLen ∧
      (dwFlags &&& CRYPT_NOHASHOID = 0 →
        build_hash_signature buf dwLen aiAlgid abHashValue dwHashLen dwFlags
          = .ok ([0x00, 0x01] ++ List.replicate (dwLen - 3 - oidLen - dwHashLen) 0xff ++ [0x00]
              ++ abOID ++ abHashValue.take dwHashLen ++ buf.drop dwLen) ∧
        ([0x00, 0x01] ++ List.replicate (dwLen - 3 - oidLen - dwHashLen) 0xff ++ [0x00]
              ++ abOID ++ abHashValue.take dwHashLen).length = dwLen) ∧
      (dwFlags &&& CRYPT_NOHASHOID ≠ 0 →
        build_hash_signature buf dwLen aiAlgid abHashValue dwHashLen dwFlags
          = .ok ([0x00, 0x01] ++ List.replicate (dwLen - 3 - oidLen - dwHashLen + oidLen) 0xff
              ++ [0x00] ++ abHashValue.take dwHashLen ++ buf.drop dwLen) ∧
        ([0x00, 0x01] ++ List.replicate (dwLen - 3 - oidLen - dwHashLen + oidLen) 0xff
              ++ [0x00] ++ abHashValue.take dwHashLen).length = dwLen) := by
  obtain ⟨abOID, hoid, hol⟩ := find_oid_lengths aiAlgid oidLen halg
  refine ⟨abOID, hoid, hol, ?_, ?_⟩
  · intro hn
    refine ⟨build_hash_signature_pkcs1 dwLen aiAlgid abHashValue buf dwHashLen dwFlags
      (aiAlgid, oidLen, abOID) hoid hol hh hlen hbuf hx hn, ?_⟩
    simp only [List.length_append, List.length_replicate, List.length_cons, List.length_nil,
      List.length_take, hol]
    omega
  · intro hn
    have e : dwLen - 3 - oidLen - dwHashLen + oidLen = dwLen - 3 - dwHashLen := by omega
    rw [e]
    refine ⟨build_hash_signature_nooid dwLen aiAlgid abHashValue buf dwHashLen dwFlags
      (aiAlgid, oidLen, abOID) hoid hh (by omega) hbuf hx hn, ?_⟩
    simp only [List.length_append, List.length_replicate, List.length_cons, List.length_nil,
      List.length_take]
    omega

/-- Witness for C21: SHA-1 with a digest of 20 bytes in a block of 48 bytes. -/
theorem pkcs1_signature_block_witness :
    ∃ abOID, find_oid CALG_SHA aOIDDescriptor = some (CALG_SHA, 15, abOID) ∧
      abOID.length = 15 ∧
      (0 &&& CRYPT_NOHASHOID = 0 →
        build_hash_signature (List.replicate 50 7) 48 CALG_SHA (List.range 104) 20 0
          = .ok ([0x00, 0x01] ++ List.replicate (48 - 3 - 15 - 20) 0xff ++ [0x00]
              ++ abOID ++ (List.range 104).take 20 ++ (List.replicate 50 7).drop 48) ∧
        ([0x00, 0x01] ++ List.replicate (48 - 3 - 15 - 20) 0xff ++ [0x00]
              ++ abOID ++ (List.range 104).take 20).length = 48) ∧
      (0 &&& CRYPT_NOHASHOID ≠ 0 →
        build_hash_signature (List.replicate 50 7) 48 CALG_SHA (List.range 104) 20 0
          = .ok ([0x00, 0x01] ++ List.replicate (48 - 3 - 15 - 20 + 15) 0xff
              ++ [0x00] ++ (List.range 104).take 20 ++ (List.replicate 50 7).drop 48) ∧
        ([0x00, 0x01] ++ List.replicate (48 - 3 - 15 - 20 + 15) 0xff
              ++ [0x00] ++ (List.range 104).take 20).length = 48) :=
  pkcs1_signature_block CALG_SHA 15 48 20 0 (List.range 104) (List.replicate 50 7)
    (by decide) (by decide) (by decide) (by decide) (by decide)

/-- C22. X9.31 signature block: for a hash algorithm among MD2, MD4, MD5 and SHA-1, a digest of
dwHashLen bytes and dwLen at least dwHashLen + 4, build_hash_signature with CRYPT_X931_FORMAT
returns TRUE and the first dwLen bytes of the buffer are: 0x6b, then dwLen - dwHashLen - 4
bytes 0xbb, then 0xba, then the digest, then 0x33, 0xcc.  The bytes of the buffer behind the
first dwLen are kept, and the block has exactly dwLen bytes. -/
theorem x931_signature_block (aiAlgid dwLen dwHashLen dwFlags : Nat)
    (abHashValue buf : List Nat)
    (halg : aiAlgid ∈ [CALG_MD2, CALG_MD4, CALG_MD5, CALG_SHA])
    (hx : dwFlags &&& CRYPT_X931_FORMAT ≠ 0)
    (hh : dwHashLen ≤ abHashValue.length)
    (hlen : dwHashLen + 4 ≤ dwLen) (hbuf : dwLen ≤ buf.length) :
    build_hash_signature buf dwLen aiAlgid abHashValue dwHashLen dwFlags
      = .ok ([0x6b] ++ List.replicate (dwLen - dwHashLen - 4) 0xbb ++ [0xba]
          ++ abHashValue.take dwHashLen ++ [0x33, 0xcc] ++ buf.drop dwLen) ∧
    ([0x6b] ++ List.replicate (dwLen - dwHashLen - 4) 0xbb ++ [0xba]
          ++ abHashValue.take dwHashLen ++ [0x33, 0xcc]).length = dwLen := by
  have hk : aiAlgid = CALG_MD2 ∨ aiAlgid = CALG_MD4 ∨ aiAlgid = CALG_MD5 ∨ aiAlgid = CALG_SHA := by
    simpa using halg
  obtain ⟨oid, hoid, _⟩ := find_oid_known aiAlgid hk
  refine ⟨build_hash_signature_x931 dwLen aiAlgid abHashValue buf dwHashLen dwFlags oid hoid hh
    hlen hbuf hx, ?_⟩
  simp only [List.length_append, List.length_replicate, List.length_cons, List.length_nil,
    List.length_take]
  omega

/-- Witness for C22: MD5 with a digest of 16 bytes in a block of 48 bytes. -/
theorem x931_signature_block_witness :
    build_hash_signature (List.replicate 50 7) 48 CALG_MD5 (List.range 104) 16 CRYPT_X931_FORMAT
      = .ok ([0x6b] ++ List.replicate (48 - 16 - 4) 0xbb ++ [0xba]
          ++ (List.range 104).take 16 ++ [0x33, 0xcc] ++ (List.replicate 50 7).drop 48) ∧
    ([0x6b] ++ List.replicate (48 - 16 - 4) 0xbb ++ [0xba]
          ++ (List.range 104).take 16 ++ [0x33, 0xcc]).length = 48 :=
  x931_signature_block CALG_MD5 48 16 CRYPT_X931_FORMAT (List.range 104) (List.replicate 50 7)
    (by decide) (by decide) (by decide) (by decide) (by decide)

/-! ### unpad_data and pad_data: the exits -/

theorem unpad_scan_first_zero (abData : List Nat) (len z : Nat) (hz : z < len)
    (hzero : abData.getD z 0 = 0) :
    ∀ (fuel i : Nat), i ≤ z → z - i < fuel →
      (∀ j, i ≤ j → j < z → abData.getD j 0 ≠ 0) →
      unpad_scan abData len fuel i = z
  | 0, i, _, hf, _ => by omega
  | fuel + 1, i, hi, hf, hnz => by
    unfold unpad_scan
    rw [if_pos (by omega)]
    by_cases hiz : i = z
    · subst hiz
      rw [if_pos hzero]
    · rw [if_neg (hnz i (le_refl i) (by omega))]
      exact unpad_scan_first_zero abData len z hz hzero fuel (i + 1) (by omega) (by omega)
        (fun j hj hjz => hnz j (by omega) hjz)

theorem unpad_scan_no_zero (abData : List Nat) (len : Nat) :
    ∀ (fuel i : Nat), i ≤ len → len - i ≤ fuel →
      (∀ j, i ≤ j → j < len → abData.getD j 0 ≠ 0) →
      unpad_scan abData len fuel i = len
  | 0, i, hi, hf, _ => by
    have : i = len := by omega
    subst this
    rfl
  | fuel + 1, i, hi, hf, hnz => by
    unfold unpad_scan
    by_cases hil : i < len
    · rw [if_pos hil, if_neg (hnz i (le_refl i) hil)]
      exact unpad_scan_no_zero abData len fuel (i + 1) (by omega) (by omega)
        (fun j hj hjl => hnz j (by omega) hjl)
    · rw [if_neg hil]
      omega

/-- C23. unpad_data on padded data of dwDataLen >= 2 bytes with a destination of capacity cap.
If no index z >= 2 below dwDataLen has abData[z] = 0, the result is FALSE with
NTE_BAD_DATA.  Otherwise let z be the smallest such index: the result is FALSE with
NTE_BAD_DATA if abData[0] is not 0x00, if abData[1] is not 0x02, or if cap is less
than dwDataLen - z - 1; in every other case the result is TRUE, the length
returned is dwDataLen - z - 1 and the destination starts with exactly the
dwDataLen - z - 1 bytes of abData that follow index z. -/
theorem unpad_data_cases (abData abBuffer : List Nat) (dwDataLen cap dwFlags : Nat)
    (h2 : 2 ≤ dwDataLen) (hlen : dwDataLen ≤ abData.length) (hcap : cap ≤ abBuffer.length) :
    ((∀ z, 2 ≤ z → z < dwDataLen → abData.getD z 0 ≠ 0) →
      unpad_data abData dwDataLen abBuffer cap dwFlags = .error WINERROR.NTE_BAD_DATA) ∧
    (∀ z, 2 ≤ z → z < dwDataLen → abData.getD z 0 = 0 →
      (∀ j, 2 ≤ j → j < z → abData.getD j 0 ≠ 0) →
      ((abData.getD 0 0 ≠ 0x00 ∨ abData.getD 1 0 ≠ 0x02 ∨ cap < dwDataLen - z - 1) →
        unpad_data abData dwDataLen abBuffer cap dwFlags = .error WINERROR.NTE_BAD_DATA) ∧
      (abData.getD 0 0 = 0x00 → abData.getD 1 0 = 0x02 → dwDataLen - z - 1 ≤ cap →
        unpad_data abData dwDataLen abBuffer cap dwFlags
          = .ok ((abData.drop (z + 1)).take (dwDataLen - z - 1)
              ++ abBuffer.drop (dwDataLen - z - 1), dwDataLen - z - 1) ∧
        ((abData.drop (z + 1)).take (dwDataLen - z - 1)).length = dwDataLen - z - 1)) := by
  refine ⟨?_, ?_⟩
  · intro hnz
    have hscan : unpad_scan abData dwDataLen dwDataLen 2 = dwDataLen :=
      unpad_scan_no_zero abData dwDataLen dwDataLen 2 h2 (by omega) hnz
    unfold unpad_data
    simp only [hscan]
    rw [if_pos (Or.inl trivial)]
  · intro z hz2 hzl hzero hmin
    have hscan : unpad_scan abData dwDataLen dwDataLen 2 = z :=
      unpad_scan_first_zero abData dwDataLen z hzl hzero dwDataLen 2 hz2 (by omega) hmin
    have e1 : dwSub (dwSub dwDataLen z) 1 = dwDataLen - z - 1 := by
      rw [dwSub_eq dwDataLen z (by omega), dwSub_eq (dwDataLen - z) 1 (by omega)]
    refine ⟨?_, ?_⟩
    · intro hbad
      unfold unpad_data
      simp only [hscan, e1]
      rw [if_pos]
      rcases hbad with h | h | h
      · exact Or.inr (Or.inr (Or.inl h))
      · exact Or.inr (Or.inr (Or.inr h))
      · exact Or.inr (Or.inl h)
    · intro h0 h1 hc
      have hl : ((abData.drop (z + 1)).take (dwDataLen - z - 1)).length = dwDataLen - z - 1 := by
        rw [List.length_take, List.length_drop]
        omega
      refine ⟨?_, hl⟩
      unfold unpad_data
      simp only [hscan, e1]
      rw [if_neg]
      · have hb : bytesAt abData (z + 1) (dwDataLen - z - 1)
            = (abData.drop (z + 1)).take (dwDataLen - z - 1) := rfl
        rw [hb, memmove_inbounds _ _ _ (by rw [hl]; omega)]
        simp only [List.take_zero, List.nil_append, Nat.zero_add, hl]
      · intro hbad
        rcases hbad with h | h | h | h
        · omega
        · omega
        · exact h h0
        · exact h h1

/-- Witness for C23: the padded data 00 02 05 00 07 08 with a destination of ten bytes. -/
theorem unpad_data_cases_witness :
    ((∀ z, 2 ≤ z → z < 6 → [0, 2, 5, 0, 7, 8].getD z 0 ≠ 0) →
      unpad_data [0, 2, 5, 0, 7, 8] 6 (List.replicate 10 1) 10 0
        = .error WINERROR.NTE_BAD_DATA) ∧
    (∀ z, 2 ≤ z → z < 6 → [0, 2, 5, 0, 7, 8].getD z 0 = 0 →
      (∀ j, 2 ≤ j → j < z → [0, 2, 5, 0, 7, 8].getD j 0 ≠ 0) →
      (([0, 2, 5, 0, 7, 8].getD 0 0 ≠ 0x00 ∨ [0, 2, 5, 0, 7, 8].getD 1 0 ≠ 0x02 ∨
          10 < 6 - z - 1) →
        unpad_data [0, 2, 5, 0, 7, 8] 6 (List.replicate 10 1) 10 0
          = .error WINERROR.NTE_BAD_DATA) ∧
      ([0, 2, 5, 0, 7, 8].getD 0 0 = 0x00 → [0, 2, 5, 0, 7, 8].getD 1 0 = 0x02 →
        6 - z - 1 ≤ 10 →
        unpad_data [0, 2, 5, 0, 7, 8] 6 (List.replicate 10 1) 10 0
          = .ok (([0, 2, 5, 0, 7, 8].drop (z + 1)).take (6 - z - 1)
              ++ (List.replicate 10 1).drop (6 - z - 1), 6 - z - 1) ∧
        (([0, 2, 5, 0, 7, 8].drop (z + 1)).take (6 - z - 1)).length = 6 - z - 1)) :=
  unpad_data_cases [0, 2, 5, 0, 7, 8] (List.replicate 10 1) 6 10 0
    (by decide) (by decide) (by decide)

/-- C24. The length check of pad_data at a buffer length below 11: for five bytes of data and
dwBufferLen = 8 the DWORD difference dwBufferLen - 11 wraps, the check
`dwDataLen > dwBufferLen-11` lets the call through, and pad_data returns TRUE with
the block 00 02 00 01 02 03 04 05, which has no padding bytes.  CPExportKey reaches
this call for a SIMPLEBLOB when hPubKey names a DES key (block length 8) and
hKey a 40-bit RC2 key: it returns TRUE with a blob of 20 bytes. -/
theorem pad_data_short_buffer :
    pad_data [] [1, 2, 3, 4, 5] (List.replicate 8 9) 8 0
      = some (.ok [0, 2, 0, 1, 2, 3, 4, 5], []) ∧
    (RSAENH_CPExportKey toyImpl toyRsaImpl
      (toyState 0 [.key (toySecretKey CALG_RC2 5 0 [1, 2, 3, 4, 5]),
        .key (toyDesKey 0 CRYPT_MODE_CBC (List.replicate 24 0))])
      1 2 3 SIMPLEBLOB 0 (some (List.replicate 20 9)) 20).map (fun r => (r.1, r.2.2))
      = some (true,
          some [1, 2, 0, 0, 2, 102, 0, 0, 1, 102, 0, 0, 11, 10, 9, 8, 7, 6, 8, 6], 20) := by
  constructor
  · decide
  · decide

/-! ### Key blobs -/

theorem bytes_dword_dword_bytes (x : Nat) (h : x < 4294967296) :
    bytes_dword (dword_bytes x) = x := by
  unfold bytes_dword dword_bytes
  simp only [List.getD_cons_zero, List.getD_cons_succ]
  omega

theorem private_blob_min_len_bytes (k : Nat) (hk : 16 * k < 4294967296) :
    private_blob_min_len (8 * k) = 20 + 2 * k + 5 * ((k + 1) / 2) := by
  unfold private_blob_min_len sizeof_BLOBHEADER sizeof_RSAPUBKEY
  rw [dwMul_eq 2 (8 * k) (by omega), dwAdd_eq (8 * k) 8 (by omega)]
  have e1 : 2 * (8 * k) / 8 = 2 * k := by omega
  have e2 : (8 * k + 8) / 16 = (k + 1) / 2 := by omega
  rw [e1, e2, dwMul_eq 5 _ (by omega)]

theorem private_blob_len_bytes (k : Nat) (hk : 16 * k < 4294967296) :
    private_blob_len k = 20 + 2 * k + 5 * ((k + 1) / 2) := by
  unfold private_blob_len sizeof_BLOBHEADER sizeof_RSAPUBKEY
  rw [dwMul_eq 2 k (by omega), dwAdd_eq k 1 (by omega), dwMul_eq 5 _ (by omega),
    dwAdd_eq (8 + 12) (2 * k) (by omega), dwAdd_eq _ _ (by omega)]

/-- C25. Key blob header validation.  On a valid container handle CPImportKey returns FALSE with
NTE_BAD_DATA, the handle table and `*phKey` as they were, (1) for every blob with
dwDataLen below sizeof(BLOBHEADER) = 8, with a bVersion other than
CUR_BLOB_VERSION, or with a reserved field other than zero; (2) for every
PUBLICKEYBLOB whose magic is not RSA1 or whose dwDataLen is below 20 + bitlen / 8;
(3) for every PRIVATEKEYBLOB whose magic is not RSA2 or whose dwDataLen is below
the length that the declared bit length requires, private_blob_min_len bitlen,
which for bitlen = 8 * k is 20 + 2 * k + 5 * ceil(k / 2). -/
theorem import_header_validation {κ η : Type} (impl : IMPL κ η) (rsa : RSA_IMPL κ) (s : CSP κ η)
    (hProv : Nat) (pbData : List Nat) (dwDataLen hPubKey dwFlags phKey : Nat)
    (hprov : is_valid_handle s.handle_table hProv is_container = true) :
    ((dwDataLen < 8 ∨ pbData.getD 1 0 ≠ CUR_BLOB_VERSION ∨ read_word pbData 2 ≠ 0) →
      RSAENH_CPImportKey impl rsa s hProv pbData dwDataLen hPubKey dwFlags phKey
        = (false, SetLastError s WINERROR.NTE_BAD_DATA, phKey)) ∧
    (pbData.getD 0 0 = PUBLICKEYBLOB →
      (read_dword pbData 8 ≠ RSAENH_MAGIC_RSA1 ∨ dwDataLen < 20 + read_dword pbData 12 / 8) →
      RSAENH_CPImportKey impl rsa s hProv pbData dwDataLen hPubKey dwFlags phKey
        = (false, SetLastError s WINERROR.NTE_BAD_DATA, phKey)) ∧
    (pbData.getD 0 0 = PRIVATEKEYBLOB →
      (read_dword pbData 8 ≠ RSAENH_MAGIC_RSA2 ∨
        dwDataLen < private_blob_min_len (read_dword pbData 12)) →
      RSAENH_CPImportKey impl rsa s hProv pbData dwDataLen hPubKey dwFlags phKey
        = (false, SetLastError s WINERROR.NTE_BAD_DATA, phKey)) ∧
    (∀ k, 16 * k < 4294967296 →
      private_blob_min_len (8 * k) = 20 + 2 * k + 5 * ((k + 1) / 2)) := by
  have hv : ¬ ¬ is_valid_handle s.handle_table hProv is_container = true := fun h => h hprov
  refine ⟨?_, ?_, ?_, private_blob_min_len_bytes⟩
  · intro hbad
    have hbad' : dwDataLen < sizeof_BLOBHEADER ∨ pbData.getD 1 0 ≠ CUR_BLOB_VERSION ∨
        read_word pbData 2 ≠ 0 := hbad
    unfold RSAENH_CPImportKey
    rw [if_neg hv, if_pos hbad']
  · intro hty hbad
    unfold RSAENH_CPImportKey
    rw [if_neg hv]
    by_cases hh : dwDataLen < sizeof_BLOBHEADER ∨ pbData.getD 1 0 ≠ CUR_BLOB_VERSION ∨
        read_word pbData 2 ≠ 0
    · rw [if_pos hh]
    · rw [if_neg hh]
      simp only []
      rw [if_neg (show ¬ pbData.getD 0 0 = PRIVATEKEYBLOB by rw [hty]; decide), if_pos hty,
        if_pos]
      rcases hbad with h | h
      · exact Or.inr (Or.inl h)
      · exact Or.inr (Or.inr h)
  · intro hty hbad
    unfold RSAENH_CPImportKey
    rw [if_neg hv]
    by_cases hh : dwDataLen < sizeof_BLOBHEADER ∨ pbData.getD 1 0 ≠ CUR_BLOB_VERSION ∨
        read_word pbData 2 ≠ 0
    · rw [if_pos hh]
    · rw [if_neg hh]
      simp only []
      rw [if_pos hty, if_pos]
      rcases hbad with h | h
      · exact Or.inr (Or.inl h)
      · exact Or.inr (Or.inr h)

/-- Witness for C25: a blob of 20 bytes of type PRIVATEKEYBLOB with bVersion 3, on the
container of handle 1. -/
theorem import_header_validation_witness :
    ((20 < 8 ∨ (7 :: 3 :: List.replicate 18 0).getD 1 0 ≠ CUR_BLOB_VERSION ∨
        read_word (7 :: 3 :: List.replicate 18 0) 2 ≠ 0) →
      RSAENH_CPImportKey toyImpl toyRsaImpl (toyState 0 []) 1 (7 :: 3 :: List.replicate 18 0)
          20 0 0 0
        = (false, SetLastError (toyState 0 []) WINERROR.NTE_BAD_DATA, 0)) ∧
    ((7 :: 3 :: List.replicate 18 0).getD 0 0 = PUBLICKEYBLOB →
      (read_dword (7 :: 3 :: List.replicate 18 0) 8 ≠ RSAENH_MAGIC_RSA1 ∨
        20 < 20 + read_dword (7 :: 3 :: List.replicate 18 0) 12 / 8) →
      RSAENH_CPImportKey toyImpl toyRsaImpl (toyState 0 []) 1 (7 :: 3 :: List.replicate 18 0)
          20 0 0 0
        = (false, SetLastError (toyState 0 []) WINERROR.NTE_BAD_DATA, 0)) ∧
    ((7 :: 3 :: List.replicate 18 0).getD 0 0 = PRIVATEKEYBLOB →
      (read_dword (7 :: 3 :: List.replicate 18 0) 8 ≠ RSAENH_MAGIC_RSA2 ∨
        20 < private_blob_min_len (read_dword (7 :: 3 :: List.replicate 18 0) 12)) →
      RSAENH_CPImportKey toyImpl toyRsaImpl (toyState 0 []) 1 (7 :: 3 :: List.replicate 18 0)
          20 0 0 0
        = (false, SetLastError (toyState 0 []) WINERROR.NTE_BAD_DATA, 0)) ∧
    (∀ k, 16 * k < 4294967296 →
      private_blob_min_len (8 * k) = 20 + 2 * k + 5 * ((k + 1) / 2)) :=
  import_header_validation toyImpl toyRsaImpl (toyState 0 []) 1 (7 :: 3 :: List.replicate 18 0)
    20 0 0 0 (by decide)

theorem take_memmove_le (dst : List Nat) (off : Nat) (src : List Nat) (n : Nat)
    (hn : n ≤ off) (hoff : off ≤ dst.length) :
    (memmove dst off src).take n = dst.take n := by
  unfold memmove
  rw [List.take_append_of_le_length (by rw [List.length_take]; omega), List.take_take,
    Nat.min_eq_left hn]

theorem getD_of_take (l : List Nat) (n i : Nat) (h : i < n) :
    l.getD i 0 = (l.take n).getD i 0 := (getD_take l n i h).symm

theorem bytesAt_of_take (l : List Nat) (n off m : Nat) (h : off + m ≤ n) :
    bytesAt l off m = bytesAt (l.take n) off m := by
  unfold bytesAt
  rw [List.drop_take, List.take_take, Nat.min_eq_left (by omega)]

/-- The first 16 bytes of the blob that the case PRIVATEKEYBLOB of CPExportKey writes. -/
theorem private_blob_head (buf H E P : List Nat) (hH : H.length = 16) (hbuf : 20 ≤ buf.length) :
    (memmove (memmove (memmove buf 0 H) 20 E) 16 P).take 16 = H := by
  rw [take_memmove_le _ 16 P 16 (le_refl _) (by rw [memmove_length, memmove_length]; omega),
    take_memmove_le _ 20 E 16 (by omega) (by rw [memmove_length]; omega),
    memmove_inbounds _ _ _ (by omega)]
  simp [hH]

/-- C26. Private-key blob size.  For an RSA key of k = dwKeyLen bytes (16 * k below 2^32; the
keys that new_key creates have at most 2048 bytes) CPExportKey with PRIVATEKEYBLOB
reports, for a NULL buffer and for a buffer that is large enough, the length
L = sizeof(BLOBHEADER) + sizeof(RSAPUBKEY) + 2 * k + 5 * ceil(k / 2), and writes a
blob whose header declares the bit length 8 * k.  L is the length that
CPImportKey demands for the declared bit length 8 * k, and CPImportKey on the
exported blob with dwDataLen = L passes both of its checks: it goes on to
new_key, returns FALSE with INVALID_HANDLE_VALUE when new_key fails, and
otherwise hands the key material to import_private_key_impl. -/
theorem private_blob_size {κ η : Type} (impl : IMPL κ η) (rsa : RSA_IMPL κ) (s : CSP κ η)
    (hProv hKey hPubKey dwFlags dwDataLen : Nat) (k : CRYPTKEY κ) (buf : List Nat)
    (hprov : is_valid_handle s.handle_table hProv is_container = true)
    (hkey : lookup_key s.handle_table hKey = some k)
    (halg : k.aiAlgid = CALG_RSA_KEYX ∨ k.aiAlgid = CALG_RSA_SIGN)
    (hflag : dwFlags &&& CRYPT_SSL2_FALLBACK = 0)
    (hk : 16 * k.dwKeyLen < 4294967296)
    (hlen : 20 + 2 * k.dwKeyLen + 5 * ((k.dwKeyLen + 1) / 2) ≤ dwDataLen)
    (hbuf : dwDataLen ≤ buf.length) :
    RSAENH_CPExportKey impl rsa s hProv hKey hPubKey PRIVATEKEYBLOB dwFlags none dwDataLen
      = some (true, s, none, 20 + 2 * k.dwKeyLen + 5 * ((k.dwKeyLen + 1) / 2)) ∧
    private_blob_min_len (8 * k.dwKeyLen) = 20 + 2 * k.dwKeyLen + 5 * ((k.dwKeyLen + 1) / 2) ∧
    ∃ blob,
      RSAENH_CPExportKey impl rsa s hProv hKey hPubKey PRIVATEKEYBLOB dwFlags (some buf) dwDataLen
        = some (true, s, some blob, 20 + 2 * k.dwKeyLen + 5 * ((k.dwKeyLen + 1) / 2)) ∧
      blob.length = buf.length ∧
      blob.getD 0 0 = PRIVATEKEYBLOB ∧ read_dword blob 4 = k.aiAlgid ∧
      read_dword blob 12 = 8 * k.dwKeyLen ∧
      ∀ (s2 s1 : CSP κ η) (hProv2 hPubKey2 dwFlags2 phKey : Nat),
        is_valid_handle s2.handle_table hProv2 is_container = true →
        (new_key impl s2 hProv2 k.aiAlgid (MAKELONG 0 (8 * k.dwKeyLen)) = (s1, none) →
          RSAENH_CPImportKey impl rsa s2 hProv2 blob
              (20 + 2 * k.dwKeyLen + 5 * ((k.dwKeyLen + 1) / 2)) hPubKey2 dwFlags2 phKey
            = (false, s1, INVALID_HANDLE_VALUE)) ∧
        (∀ (hNew : Nat) (pCryptKey : CRYPTKEY κ),
          new_key impl s2 hProv2 k.aiAlgid (MAKELONG 0 (8 * k.dwKeyLen))
            = (s1, some (hNew, pCryptKey)) →
          RSAENH_CPImportKey impl rsa s2 hProv2 blob
              (20 + 2 * k.dwKeyLen + 5 * ((k.dwKeyLen + 1) / 2)) hPubKey2 dwFlags2 phKey
            = ((rsa.import_private_key_impl (blob.drop 20) (setup_key impl pCryptKey).context
                  (8 * k.dwKeyLen / 8) (read_dword blob 16)).1,
                s1.withTable (store_object s1.handle_table hNew
                  (.key { setup_key impl pCryptKey with
                    context := (rsa.import_private_key_impl (blob.drop 20)
                      (setup_key impl pCryptKey).context (8 * k.dwKeyLen / 8)
                      (read_dword blob 16)).2 })), hNew)) := by
  have hv : ¬ ¬ is_valid_handle s.handle_table hProv is_container = true := fun h => h hprov
  have hL := private_blob_len_bytes k.dwKeyLen hk
  have hM := private_blob_min_len_bytes k.dwKeyLen hk
  have hf : ¬ (dwFlags &&& CRYPT_SSL2_FALLBACK ≠ 0 ∧ k.aiAlgid ≠ CALG_SSL2_MASTER) :=
    fun h => h.1 hflag
  have ha : ¬ (k.aiAlgid ≠ CALG_RSA_KEYX ∧ k.aiAlgid ≠ CALG_RSA_SIGN) := by
    rcases halg with h | h
    · exact fun hh => hh.1 h
    · exact fun hh => hh.2 h
  have halt : k.aiAlgid < 4294967296 := by
    rcases halg with h | h <;> rw [h] <;> decide
  have hexp : ∀ pb : Option (List Nat),
      RSAENH_CPExportKey impl rsa s hProv hKey hPubKey PRIVATEKEYBLOB dwFlags pb dwDataLen
        = (match pb with
          | none => some (true, s, none, private_blob_len k.dwKeyLen)
          | some buf =>
            if dwDataLen < private_blob_len k.dwKeyLen then
              some (false, SetLastError s WINERROR.ERROR_MORE_DATA, some buf,
                private_blob_len k.dwKeyLen)
            else
              some (true, s,
                some (memmove (memmove (memmove buf 0
                  (blob_header PRIVATEKEYBLOB k.aiAlgid ++ dword_bytes RSAENH_MAGIC_RSA2 ++
                    dword_bytes (dwMul k.dwKeyLen 8))) 20
                  (rsa.export_private_key_impl k.context k.dwKeyLen).2.1) 16
                  (dword_bytes (rsa.export_private_key_impl k.context k.dwKeyLen).2.2)),
                private_blob_len k.dwKeyLen)) := by
    intro pb
    unfold RSAENH_CPExportKey
    rw [if_neg hv, hkey]
    simp only []
    rw [if_neg hf, if_neg (show ¬ PRIVATEKEYBLOB % 256 = SIMPLEBLOB by decide),
      if_neg (show ¬ PRIVATEKEYBLOB % 256 = PUBLICKEYBLOB by decide),
      if_pos (show PRIVATEKEYBLOB % 256 = PRIVATEKEYBLOB by decide), if_neg ha]
  refine ⟨?_, hM, ?_⟩
  · rw [hexp none, hL]
  · obtain ⟨H, hH⟩ : ∃ H, blob_header PRIVATEKEYBLOB k.aiAlgid ++ dword_bytes RSAENH_MAGIC_RSA2 ++
        dword_bytes (dwMul k.dwKeyLen 8) = H := ⟨_, rfl⟩
    obtain ⟨blob, hblob⟩ : ∃ blob, memmove (memmove (memmove buf 0 H) 20
        (rsa.export_private_key_impl k.context k.dwKeyLen).2.1) 16
        (dword_bytes (rsa.export_private_key_impl k.context k.dwKeyLen).2.2) = blob := ⟨_, rfl⟩
    have hHl : H.length = 16 := by rw [← hH]; rfl
    have hhead : blob.take 16 = H := by
      rw [← hblob]; exact private_blob_head buf H _ _ hHl (by omega)
    have hbl : blob.length = buf.length := by
      rw [← hblob, memmove_length, memmove_length, memmove_length]
    have hbit : dwMul k.dwKeyLen 8 = 8 * k.dwKeyLen := by
      rw [dwMul_eq _ _ (by omega)]; omega
    have g0 : blob.getD 0 0 = PRIVATEKEYBLOB := by
      rw [getD_of_take blob 16 0 (by omega), hhead, ← hH]; rfl
    have g1 : blob.getD 1 0 = CUR_BLOB_VERSION := by
      rw [getD_of_take blob 16 1 (by omega), hhead, ← hH]; rfl
    have g2 : read_word blob 2 = 0 := by
      unfold read_word
      rw [getD_of_take blob 16 2 (by omega), getD_of_take blob 16 (2 + 1) (by omega), hhead, ← hH]
      rfl
    have g4 : read_dword blob 4 = k.aiAlgid := by
      unfold read_dword
      rw [bytesAt_of_take blob 16 4 4 (by omega), hhead, ← hH]
      exact bytes_dword_dword_bytes _ halt
    have g8 : read_dword blob 8 = RSAENH_MAGIC_RSA2 := by
      unfold read_dword
      rw [bytesAt_of_take blob 16 8 4 (by omega), hhead, ← hH]
      exact bytes_dword_dword_bytes _ (by decide)
    have g12 : read_dword blob 12 = 8 * k.dwKeyLen := by
      unfold read_dword
      rw [bytesAt_of_take blob 16 12 4 (by omega), hhead, ← hH, hbit]
      exact bytes_dword_dword_bytes _ (by omega)
    refine ⟨blob, ?_, hbl, g0, g4, g12, ?_⟩
    · rw [hexp (some buf)]
      simp only []
      rw [hL, if_neg (by omega), hH, hblob]
    · intro s2 s1 hProv2 hPubKey2 dwFlags2 phKey hprov2
      have hv2 : ¬ ¬ is_valid_handle s2.handle_table hProv2 is_container = true :=
        fun h => h hprov2
      have himp : ∀ r, new_key impl s2 hProv2 k.aiAlgid (MAKELONG 0 (8 * k.dwKeyLen)) = r →
          RSAENH_CPImportKey impl rsa s2 hProv2 blob
              (20 + 2 * k.dwKeyLen + 5 * ((k.dwKeyLen + 1) / 2)) hPubKey2 dwFlags2 phKey
            = (match r with
              | (s1, none) => (false, s1, INVALID_HANDLE_VALUE)
              | (s1, some (hKey, pCryptKey)) =>
                ((rsa.import_private_key_impl (blob.drop 20) (setup_key impl pCryptKey).context
                  (8 * k.dwKeyLen / 8) (read_dword blob 16)).1,
                s1.withTable (store_object s1.handle_table hKey
                  (.key { setup_key impl pCryptKey with
                    context := (rsa.import_private_key_impl (blob.drop 20)
                      (setup_key impl pCryptKey).context (8 * k.dwKeyLen / 8)
                      (read_dword blob 16)).2 })), hKey)) := by
        intro r hr
        unfold RSAENH_CPImportKey
        rw [if_neg hv2, if_neg (by rw [g1, g2]; unfold sizeof_BLOBHEADER; simp; omega)]
        simp only []
        rw [if_pos g0, g8, g12, g4, hM,
          if_neg (by unfold sizeof_BLOBHEADER sizeof_RSAPUBKEY; simp; omega), hr]
      refine ⟨fun hn => ?_, fun hNew pCryptKey hn => ?_⟩
      · rw [himp _ hn]
      · rw [himp _ hn]

/-- Witness for C26: the RSA key of 48 bytes at handle 2, exported into a buffer of 240 bytes. -/
theorem private_blob_size_witness :
    RSAENH_CPExportKey toyImpl toyRsaImpl (toySignState (toyHash CALG_SHA 20 0 [])) 1 2 0
        PRIVATEKEYBLOB 0 none 240
      = some (true, toySignState (toyHash CALG_SHA 20 0 []), none,
          20 + 2 * toyRsaKey.dwKeyLen + 5 * ((toyRsaKey.dwKeyLen + 1) / 2)) ∧
    private_blob_min_len (8 * toyRsaKey.dwKeyLen)
      = 20 + 2 * toyRsaKey.dwKeyLen + 5 * ((toyRsaKey.dwKeyLen + 1) / 2) ∧
    ∃ blob,
      RSAENH_CPExportKey toyImpl toyRsaImpl (toySignState (toyHash CALG_SHA 20 0 [])) 1 2 0
          PRIVATEKEYBLOB 0 (some (List.replicate 240 0)) 240
        = some (true, toySignState (toyHash CALG_SHA 20 0 []), some blob,
            20 + 2 * toyRsaKey.dwKeyLen + 5 * ((toyRsaKey.dwKeyLen + 1) / 2)) ∧
      blob.length = (List.replicate 240 0).length ∧
      blob.getD 0 0 = PRIVATEKEYBLOB ∧ read_dword blob 4 = toyRsaKey.aiAlgid ∧
      read_dword blob 12 = 8 * toyRsaKey.dwKeyLen ∧
      ∀ (s2 s1 : CSP Nat (List Nat)) (hProv2 hPubKey2 dwFlags2 phKey : Nat),
        is_valid_handle s2.handle_table hProv2 is_container = true →
        (new_key toyImpl s2 hProv2 toyRsaKey.aiAlgid (MAKELONG 0 (8 * toyRsaKey.dwKeyLen))
            = (s1, none) →
          RSAENH_CPImportKey toyImpl toyRsaImpl s2 hProv2 blob
              (20 + 2 * toyRsaKey.dwKeyLen + 5 * ((toyRsaKey.dwKeyLen + 1) / 2))
              hPubKey2 dwFlags2 phKey
            = (false, s1, INVALID_HANDLE_VALUE)) ∧
        (∀ (hNew : Nat) (pCryptKey : CRYPTKEY Nat),
          new_key toyImpl s2 hProv2 toyRsaKey.aiAlgid (MAKELONG 0 (8 * toyRsaKey.dwKeyLen))
            = (s1, some (hNew, pCryptKey)) →
          RSAENH_CPImportKey toyImpl toyRsaImpl s2 hProv2 blob
              (20 + 2 * toyRsaKey.dwKeyLen + 5 * ((toyRsaKey.dwKeyLen + 1) / 2))
              hPubKey2 dwFlags2 phKey
            = ((toyRsaImpl.import_private_key_impl (blob.drop 20)
                  (setup_key toyImpl pCryptKey).context
                  (8 * toyRsaKey.dwKeyLen / 8) (read_dword blob 16)).1,
                s1.withTable (store_object s1.handle_table hNew
                  (.key { setup_key toyImpl pCryptKey with
                    context := (toyRsaImpl.import_private_key_impl (blob.drop 20)
                      (setup_key toyImpl pCryptKey).context (8 * toyRsaKey.dwKeyLen / 8)
                      (read_dword blob 16)).2 })), hNew)) :=
  private_blob_size toyImpl toyRsaImpl (toySignState (toyHash CALG_SHA 20 0 [])) 1 2 0 0 240
    toyRsaKey (List.replicate 240 0) (by decide) (by decide) (by decide) (by decide)
    (by decide) (by decide) (le_of_eq (List.length_replicate 240 0).symm)

/-! ### The enumeration of the capability table -/

theorem takeWhile_getD {α : Type} (q : α → Bool) (d1 d2 : α) :
    ∀ (l : List α) (i : Nat), i < (l.takeWhile q).length →
      (l.takeWhile q).getD i d1 = l.getD i d2 ∧ q (l.getD i d2) = true
  | [], i, h => by simp at h
  | a :: l, i, h => by
    by_cases ha : q a = true
    · rw [List.takeWhile_cons_of_pos ha] at h ⊢
      cases i with
      | zero => exact ⟨rfl, ha⟩
      | succ i =>
        simp only [List.length_cons, Nat.succ_lt_succ_iff] at h
        simpa using takeWhile_getD q d1 d2 l i (by omega)
    · rw [List.takeWhile_cons_of_neg ha] at h
      simp at h

theorem takeWhile_stop {α : Type} (q : α → Bool) (d : α) (hd : q d = false) :
    ∀ (l : List α), q (l.getD (l.takeWhile q).length d) = false
  | [] => by simpa using hd
  | a :: l => by
    by_cases ha : q a = true
    · rw [List.takeWhile_cons_of_pos ha]
      simpa using takeWhile_stop q d hd l
    · rw [List.takeWhile_cons_of_neg ha]
      simpa using ha

theorem capability_records_at (p i : Nat) (h : i < (capability_records p).length) :
    (capability_records p).getD i enumalgs_end = enumalgs_at p i ∧
      (enumalgs_at p i).aiAlgid ≠ 0 := by
  have := takeWhile_getD (fun e : PROV_ENUMALGS_EX => decide (e.aiAlgid ≠ 0)) enumalgs_end
    ⟨0, 0, 0, 0, 0, 0, "", 0, ""⟩ (aProvEnumAlgsEx.getD p []) i h
  refine ⟨this.1, ?_⟩
  have h2 := this.2
  unfold enumalgs_at
  simpa using h2

theorem capability_records_stop (p : Nat) :
    (enumalgs_at p (capability_records p).length).aiAlgid = 0 := by
  have := takeWhile_stop (fun e : PROV_ENUMALGS_EX => decide (e.aiAlgid ≠ 0))
    ⟨0, 0, 0, 0, 0, 0, "", 0, ""⟩ (by decide) (aProvEnumAlgsEx.getD p [])
  unfold enumalgs_at capability_records
  simpa using this

theorem capability_records_length (p : Nat) (hp : p < 4) :
    1 ≤ (capability_records p).length ∧ (capability_records p).length ≤ 20 := by
  rcases p with _ | _ | _ | _ | p
  · decide
  · decide
  · decide
  · decide
  · omega

theorem char_array_length (n : Nat) (str : String) : (char_array n str).length = n := by
  unfold char_array
  simp

theorem enumalgs_ex_bytes_length (e : PROV_ENUMALGS_EX) :
    (enumalgs_ex_bytes e).length = 88 := by
  unfold enumalgs_ex_bytes
  simp only [List.length_append, char_array_length]
  rfl

/-- One call of CPGetProvParam with PP_ENUMALGS_EX that returns a record. -/
theorem CPGetProvParam_enum_step {κ η : Type} (s : CSP κ η) (hProv : Nat) (c : KEYCONTAINER)
    (buf : List Nat) (len dwFlags ctr : Nat)
    (hc : lookup_container s.handle_table hProv = some c)
    (hlen : 88 ≤ len) (hbuf : len ≤ buf.length)
    (hcase : (dwFlags = CRYPT_FIRST ∧ ctr = 0) ∨
      (dwFlags = 0 ∧ ctr = c.dwEnumAlgsCtr + 1 ∧ c.dwEnumAlgsCtr < 19 ∧
        (enumalgs_at c.dwPersonality (c.dwEnumAlgsCtr + 1)).aiAlgid ≠ 0)) :
    RSAENH_CPGetProvParam s hProv PP_ENUMALGS_EX (some buf) (some len) dwFlags
      = some (true,
          s.withTable (store_object s.handle_table hProv
            (.container { c with dwEnumAlgsCtr := ctr })),
          some (enumalgs_ex_bytes (enumalgs_at c.dwPersonality ctr) ++ buf.drop 88), some 88) := by
  have hcond : ¬ ((c.dwEnumAlgsCtr ≥ RSAENH_MAX_ENUMALGS - 1 ∨
      (enumalgs_at c.dwPersonality (dwAdd c.dwEnumAlgsCtr 1)).aiAlgid = 0) ∧
      dwFlags &&& CRYPT_FIRST ≠ CRYPT_FIRST) := by
    rcases hcase with ⟨hf, _⟩ | ⟨hf, _, h19, hne⟩
    · intro h
      apply h.2
      rw [hf]
      decide
    · intro h
      rw [dwAdd_eq _ _ (by omega)] at h
      rcases h.1 with h1 | h1
      · unfold RSAENH_MAX_ENUMALGS at h1
        omega
      · exact hne h1
  have hctr : (if (some buf).isSome = true ∧ len ≥ sizeof_PROV_ENUMALGS_EX then
      (if dwFlags &&& CRYPT_FIRST = CRYPT_FIRST then 0 else dwAdd c.dwEnumAlgsCtr 1)
      else c.dwEnumAlgsCtr) = ctr := by
    rw [if_pos ⟨rfl, hlen⟩]
    rcases hcase with ⟨hf, h0⟩ | ⟨hf, h1, h19, _⟩
    · rw [hf, h0]
      rfl
    · rw [hf, h1, dwAdd_eq _ _ (by omega)]
      rfl
  unfold RSAENH_CPGetProvParam
  simp only [hc]
  rw [if_neg (show ¬ PP_ENUMALGS_EX = PP_CONTAINER by decide),
    if_neg (show ¬ PP_ENUMALGS_EX = PP_NAME by decide),
    if_neg (show ¬ (PP_ENUMALGS_EX = PP_SIG_KEYSIZE_INC ∨ PP_ENUMALGS_EX = PP_KEYX_KEYSIZE_INC)
      by decide),
    if_neg (show ¬ PP_ENUMALGS_EX = PP_IMPTYPE by decide),
    if_neg (show ¬ PP_ENUMALGS_EX = PP_VERSION by decide),
    if_neg (show ¬ PP_ENUMALGS_EX = PP_ENUMCONTAINERS by decide),
    if_pos (show PP_ENUMALGS_EX = PP_ENUMALGS ∨ True from Or.inr trivial),
    if_neg hcond]
  simp only [if_neg (show ¬ PP_ENUMALGS_EX = PP_ENUMALGS by decide)]
  rw [hctr]
  unfold copy_param
  simp only []
  rw [if_neg (show ¬ sizeof_PROV_ENUMALGS_EX > len by unfold sizeof_PROV_ENUMALGS_EX; omega)]
  have hb : bytesAt (enumalgs_ex_bytes (enumalgs_at c.dwPersonality ctr)) 0
      sizeof_PROV_ENUMALGS_EX = enumalgs_ex_bytes (enumalgs_at c.dwPersonality ctr) :=
    bytesAt_self _ _ (enumalgs_ex_bytes_length _)
  rw [hb, memmove_zero _ _ (by rw [enumalgs_ex_bytes_length]; omega), enumalgs_ex_bytes_length]
  rfl

/-- One call of CPGetProvParam with PP_ENUMALGS_EX behind the last record. -/
theorem CPGetProvParam_enum_end {κ η : Type} (s : CSP κ η) (hProv : Nat) (c : KEYCONTAINER)
    (buf : List Nat) (len : Nat)
    (hc : lookup_container s.handle_table hProv = some c)
    (h19 : c.dwEnumAlgsCtr ≤ 19)
    (hend : c.dwEnumAlgsCtr ≥ 19 ∨
      (enumalgs_at c.dwPersonality (c.dwEnumAlgsCtr + 1)).aiAlgid = 0) :
    RSAENH_CPGetProvParam s hProv PP_ENUMALGS_EX (some buf) (some len) 0
      = some (false, SetLastError s WINERROR.ERROR_NO_MORE_ITEMS, some buf, some len) := by
  have hcond : (c.dwEnumAlgsCtr ≥ RSAENH_MAX_ENUMALGS - 1 ∨
      (enumalgs_at c.dwPersonality (dwAdd c.dwEnumAlgsCtr 1)).aiAlgid = 0) ∧
      0 &&& CRYPT_FIRST ≠ CRYPT_FIRST := by
    refine ⟨?_, by decide⟩
    rw [dwAdd_eq _ _ (by omega)]
    exact hend
  unfold RSAENH_CPGetProvParam
  simp only [hc]
  rw [if_neg (show ¬ PP_ENUMALGS_EX = PP_CONTAINER by decide),
    if_neg (show ¬ PP_ENUMALGS_EX = PP_NAME by decide),
    if_neg (show ¬ (PP_ENUMALGS_EX = PP_SIG_KEYSIZE_INC ∨ PP_ENUMALGS_EX = PP_KEYX_KEYSIZE_INC)
      by decide),
    if_neg (show ¬ PP_ENUMALGS_EX = PP_IMPTYPE by decide),
    if_neg (show ¬ PP_ENUMALGS_EX = PP_VERSION by decide),
    if_neg (show ¬ PP_ENUMALGS_EX = PP_ENUMCONTAINERS by decide),
    if_pos (show PP_ENUMALGS_EX = PP_ENUMALGS ∨ True from Or.inr trivial),
    if_pos hcond]

theorem lookup_container_store_same {κ η : Type} (t : HANDLETABLE κ η) (h : Nat)
    (c c' : KEYCONTAINER) (hl : lookup_container t h = some c) :
    lookup_container (store_object t h (.container c')) h = some c' := by
  rw [lookup_container_of_object] at hl ⊢
  exact lookup_object_store_same t h _ _ hl

/-- The calls of an enumeration in front of the end: call `i` returns record `i` and leaves the
cursor of the container at `i`. -/
theorem enum_algs_ex_call_spec {κ η : Type} (s : CSP κ η) (hProv : Nat) (c : KEYCONTAINER)
    (bufs : Nat → List Nat) (lens : Nat → Nat)
    (hc : lookup_container s.handle_table hProv = some c) (hp : c.dwPersonality < 4)
    (hlens : ∀ i, 88 ≤ lens i ∧ lens i ≤ (bufs i).length) :
    ∀ i, i < (capability_records c.dwPersonality).length →
      ∃ si, enum_algs_ex_call s hProv bufs lens i
          = some (true, si,
              some (enumalgs_ex_bytes (enumalgs_at c.dwPersonality i) ++ (bufs i).drop 88),
              some 88) ∧
        lookup_container si.handle_table hProv = some { c with dwEnumAlgsCtr := i }
  | 0, _ => by
    refine ⟨s.withTable (store_object s.handle_table hProv
      (.container { c with dwEnumAlgsCtr := 0 })), ?_, ?_⟩
    · unfold enum_algs_ex_call
      exact CPGetProvParam_enum_step s hProv c (bufs 0) (lens 0) CRYPT_FIRST 0 hc (hlens 0).1
        (hlens 0).2 (Or.inl ⟨rfl, rfl⟩)
    · exact lookup_container_store_same _ _ _ _ hc
  | i + 1, hi => by
    obtain ⟨si, hcall, hci⟩ := enum_algs_ex_call_spec s hProv c bufs lens hc hp hlens i (by omega)
    have hlen19 := (capability_records_length c.dwPersonality hp).2
    have hne := (capability_records_at c.dwPersonality (i + 1) hi).2
    refine ⟨si.withTable (store_object si.handle_table hProv
      (.container { c with dwEnumAlgsCtr := i + 1 })), ?_, ?_⟩
    · unfold enum_algs_ex_call
      rw [hcall]
      simp only []
      exact CPGetProvParam_enum_step si hProv { c with dwEnumAlgsCtr := i } (bufs (i + 1))
        (lens (i + 1)) 0 (i + 1) hci (hlens (i + 1)).1 (hlens (i + 1)).2
        (Or.inr ⟨rfl, rfl, (by show i < 19; omega), hne⟩)
    · exact lookup_container_store_same _ _ _ _ hci

/-- C27. Capability enumeration.  On a container of one of the four personalities, a sequence of
calls of CPGetProvParam with PP_ENUMALGS_EX, the first with CRYPT_FIRST and the
following without it, each with a buffer of at least sizeof(PROV_ENUMALGS_EX) = 88
bytes: call number i (from 0), for i below the number of records of the
personality's capability table, returns TRUE with the length 88 and record
number i of the table at the front of its buffer, so the records come in table
order, each once; the call after the last record returns FALSE with
ERROR_NO_MORE_ITEMS and leaves its buffer as it was. -/
theorem capability_enumeration {κ η : Type} (s : CSP κ η) (hProv : Nat) (c : KEYCONTAINER)
    (bufs : Nat → List Nat) (lens : Nat → Nat)
    (hc : lookup_container s.handle_table hProv = some c) (hp : c.dwPersonality < 4)
    (hlens : ∀ i, sizeof_PROV_ENUMALGS_EX ≤ lens i ∧ lens i ≤ (bufs i).length) :
    (∀ i, i < (capability_records c.dwPersonality).length →
      ∃ si, enum_algs_ex_call s hProv bufs lens i
        = some (true, si,
            some (enumalgs_ex_bytes ((capability_records c.dwPersonality).getD i enumalgs_end)
              ++ (bufs i).drop sizeof_PROV_ENUMALGS_EX),
            some sizeof_PROV_ENUMALGS_EX)) ∧
    (∃ sn, enum_algs_ex_call s hProv bufs lens (capability_records c.dwPersonality).length
        = some (false, sn, some (bufs (capability_records c.dwPersonality).length),
            some (lens (capability_records c.dwPersonality).length)) ∧
      sn.last_error = WINERROR.ERROR_NO_MORE_ITEMS) := by
  have hlen := capability_records_length c.dwPersonality hp
  refine ⟨?_, ?_⟩
  · intro i hi
    obtain ⟨si, hcall, _⟩ := enum_algs_ex_call_spec s hProv c bufs lens hc hp hlens i hi
    refine ⟨si, ?_⟩
    rw [hcall, (capability_records_at c.dwPersonality i hi).1]
    rfl
  · obtain ⟨n, hn⟩ : ∃ n, (capability_records c.dwPersonality).length = n + 1 :=
      ⟨(capability_records c.dwPersonality).length - 1, by omega⟩
    obtain ⟨si, hcall, hci⟩ := enum_algs_ex_call_spec s hProv c bufs lens hc hp hlens n (by omega)
    have hstop := capability_records_stop c.dwPersonality
    rw [hn] at hstop ⊢
    refine ⟨SetLastError si WINERROR.ERROR_NO_MORE_ITEMS, ?_, rfl⟩
    unfold enum_algs_ex_call
    rw [hcall]
    simp only []
    exact CPGetProvParam_enum_end si hProv { c with dwEnumAlgsCtr := n } (bufs (n + 1))
      (lens (n + 1)) hci (by show n ≤ 19; omega) (Or.inr hstop)

/-- Witness for C27: the enumeration on the container of the base personality at handle 1, every
call with a buffer of 88 bytes. -/
theorem capability_enumeration_witness :
    (∀ i, i < (capability_records (toyContainer 0).dwPersonality).length →
      ∃ si, enum_algs_ex_call (toyState 0 []) 1 (fun _ => List.replicate 88 0) (fun _ => 88) i
        = some (true, si,
            some (enumalgs_ex_bytes
                ((capability_records (toyContainer 0).dwPersonality).getD i enumalgs_end)
              ++ (List.replicate 88 0).drop sizeof_PROV_ENUMALGS_EX),
            some sizeof_PROV_ENUMALGS_EX)) ∧
    (∃ sn, enum_algs_ex_call (toyState 0 []) 1 (fun _ => List.replicate 88 0) (fun _ => 88)
          (capability_records (toyContainer 0).dwPersonality).length
        = some (false, sn, some (List.replicate 88 0), some 88) ∧
      sn.last_error = WINERROR.ERROR_NO_MORE_ITEMS) :=
  capability_enumeration (toyState 0 []) 1 (toyContainer 0) (fun _ => List.replicate 88 0)
    (fun _ => 88) (by decide) (by decide)
    (fun _ => ⟨(by decide : sizeof_PROV_ENUMALGS_EX ≤ 88),
      le_of_eq (List.length_replicate 88 0).symm⟩)

/-! ### CPReleaseContext -/

/-- C28 (counterexample).  On the state whose handle 1 names a container with one reference,
CPReleaseContext with dwFlags = 1 returns FALSE with NTE_BAD_FLAGS, and afterwards
handle 1 names no container: the container has been released. -/
theorem release_context_flags_counterexample :
    lookup_container (toyState 0 ([] : List (OBJECT Nat (List Nat)))).handle_table 1
      = some (toyContainer 0) ∧
    (RSAENH_CPReleaseContext (toyState 0 ([] : List (OBJECT Nat (List Nat)))) 1 1).1 = false ∧
    (RSAENH_CPReleaseContext (toyState 0 ([] : List (OBJECT Nat (List Nat)))) 1 1).2.last_error
      = WINERROR.NTE_BAD_FLAGS ∧
    lookup_container
      (RSAENH_CPReleaseContext (toyState 0 ([] : List (OBJECT Nat (List Nat)))) 1 1).2.handle_table
      1 = none := by
  decide

/-- C28 (amended).  A CPReleaseContext call with non-zero flags on a handle that names a
container (with reference count rc) returns FALSE with NTE_BAD_FLAGS after the
handle has been released: in the state it leaves, the slot of the handle
holds the container with reference count rc - 1, or is free when rc was at
most 1; nothing else of the state differs. -/
theorem release_context_flags {κ η : Type} (s : CSP κ η) (hProv dwFlags rc : Nat)
    (c : KEYCONTAINER) (h0 : hProv ≠ 0)
    (hslot : s.handle_table.entries.getD (hProv - 1) none = some (rc, .container c))
    (hf : dwFlags ≠ 0) :
    RSAENH_CPReleaseContext s hProv dwFlags
      = (false,
          { s with
            handle_table := ⟨s.handle_table.entries.set (hProv - 1)
              (if rc ≤ 1 then none else some (rc - 1, .container c))⟩
            last_error := WINERROR.NTE_BAD_FLAGS }) := by
  have hr : release_handle s.handle_table hProv is_container
      = (true, ⟨s.handle_table.entries.set (hProv - 1)
          (if rc ≤ 1 then none else some (rc - 1, .container c))⟩) := by
    unfold release_handle
    rw [if_neg h0, hslot]
    rfl
  unfold RSAENH_CPReleaseContext
  simp only [hr]
  rw [if_neg (by simp), if_pos hf]
  rfl

/-- Witness for C28: the container of handle 1 with one reference, dwFlags = 1. -/
theorem release_context_flags_witness :
    RSAENH_CPReleaseContext (toyState 0 ([] : List (OBJECT Nat (List Nat)))) 1 1
      = (false,
          { toyState 0 ([] : List (OBJECT Nat (List Nat))) with
            handle_table := ⟨(toyState 0 ([] : List (OBJECT Nat (List Nat)))).handle_table.entries.set
              (1 - 1) (if 1 ≤ 1 then none else some (1 - 1, .container (toyContainer 0)))⟩
            last_error := WINERROR.NTE_BAD_FLAGS }) :=
  release_context_flags (toyState 0 []) 1 1 1 (toyContainer 0) (by decide) (by decide) (by decide)

/-! ### P_hash -/

/-- C29. P_hash (tls1_p).  For an HMAC hash object of key K over a hash algorithm with digest
size hs >= 1, every seed and every output length n within the buffer, tls1_p
returns TRUE, and with A_1 = HMAC(seed), A_(i+1) = HMAC(A_i): byte j of the buffer
afterwards is its byte before the call xor byte (j mod hs) of
HMAC(A_(j / hs + 1) || seed) for every j < n, and the byte before the call for
every j >= n. -/
theorem p_hash_xor {κ η : Type} (impl : IMPL κ η) (s : CSP κ η)
    (hHMAC hp hk alg hs n : Nat) (K seed buf : List Nat)
    (H : List Nat → List Nat) (msg : η → List Nat) (x : CRYPTHASH η)
    (hl : lookup_hash s.handle_table hHMAC = some x) (hx : HmacObject x hp hk alg K)
    (hga : ∃ e, get_algid_info s.handle_table hp alg = .ok e ∧ e.dwDefaultLen / 8 = hs)
    (hH : HashComputes impl alg H msg) (hlen : ∀ y, (H y).length = hs) (hpos : 1 ≤ hs)
    (hs104 : hs ≤ RSAENH_MAX_HASH_SIZE) (hK : K.length ≤ 64) (hbuf : n ≤ buf.length) :
    ∃ s' buf',
      tls1_p impl s hHMAC seed buf n = some (true, s', buf') ∧
      buf'.length = buf.length ∧
      (∀ j, j < n → buf'.getD j 0 =
        buf.getD j 0 ^^^
          (hmac_rfc2104 H K (p_hash_A H K seed (j / hs + 1) ++ seed)).getD (j % hs) 0) ∧
      (∀ j, n ≤ j → buf'.getD j 0 = buf.getD j 0) := by
  obtain ⟨e, hge, he⟩ := hga
  obtain ⟨x', buf', hr, _, hl', hg⟩ := tls1_p_spec impl s hHMAC hp hk alg hs n K seed buf e H msg
    x hl hx hge he hH hlen hpos hs104 hK hbuf
  refine ⟨_, buf', hr, hl', fun j hj => ?_, fun j hj => ?_⟩
  · rw [hg j, if_pos hj]
  · rw [hg j, if_neg (by omega)]

/-- Witness for C29: an HMAC object over the MD5 slot of the small engine with the key 1, 2, 3,
the seed 7 and five bytes of output. -/
theorem p_hash_xor_witness :
    ∃ s' buf',
      tls1_p toyImpl
          (toyState 0 [.hash { toyHash CALG_HMAC 16 RSAENH_HASHSTATE_IDLE [] with
            pHMACInfo := some ⟨CALG_MD5, hmac_pad 0x36 [1, 2, 3], 64,
              hmac_pad 0x5c [1, 2, 3], 64⟩ }])
          2 [7] [9, 9, 9, 9, 9, 9] 5 = some (true, s', buf') ∧
      buf'.length = ([9, 9, 9, 9, 9, 9] : List Nat).length ∧
      (∀ j, j < 5 → buf'.getD j 0 =
        ([9, 9, 9, 9, 9, 9] : List Nat).getD j 0 ^^^
          (hmac_rfc2104 (toyDigest CALG_MD5) [1, 2, 3]
            (p_hash_A (toyDigest CALG_MD5) [1, 2, 3] [7] (j / 16 + 1) ++ [7])).getD (j % 16) 0) ∧
      (∀ j, 5 ≤ j → buf'.getD j 0 = ([9, 9, 9, 9, 9, 9] : List Nat).getD j 0) :=
  p_hash_xor toyImpl
    (toyState 0 [.hash { toyHash CALG_HMAC 16 RSAENH_HASHSTATE_IDLE [] with
      pHMACInfo := some ⟨CALG_MD5, hmac_pad 0x36 [1, 2, 3], 64, hmac_pad 0x5c [1, 2, 3], 64⟩ }])
    2 1 0 CALG_MD5 16 5 [1, 2, 3] [7] [9, 9, 9, 9, 9, 9] (toyDigest CALG_MD5) id
    { toyHash CALG_HMAC 16 RSAENH_HASHSTATE_IDLE [] with
      pHMACInfo := some ⟨CALG_MD5, hmac_pad 0x36 [1, 2, 3], 64, hmac_pad 0x5c [1, 2, 3], 64⟩ }
    rfl ⟨rfl, rfl, rfl, rfl, rfl⟩ ⟨enumalgs_at 0 6, by decide, by decide⟩
    (toyImpl_HashComputes CALG_MD5) (fun y => by rw [toyDigest_length]; rfl)
    (by decide) (by decide) (by decide) (by decide)

/-! ### The SChannel master hash on a key that is not yet a master key -/

theorem memmove_full (dst src : List Nat) (h : src.length = dst.length) :
    memmove dst 0 src = src := by
  rw [memmove_zero _ _ (by omega), List.drop_of_length_le (by omega), List.append_nil]

/-- C30. SChannel master hash creation on a TLS1 master key (48 bytes) that is not yet in the
master-key state, in a container that knows CALG_SCHANNEL_MASTER_HASH, with an
engine that computes the digest functions `Hmd5` (16 bytes) and `Hsha`
(20 bytes): CPCreateHash returns with a new hash handle; afterwards the key
object is in the master-key state, its raw key material is
PRF(pre-master secret, "master secret", clientRandom || serverRandom) of 48
bytes and its other fields are as before; the value of the hash object is
PRF(the new master secret, "key expansion", serverRandom || clientRandom) of
104 bytes. -/
theorem master_hash_creation {κ η : Type} (impl : IMPL κ η) (s : CSP κ η)
    (hProv hKey : Nat) (k : CRYPTKEY κ)
    (Hmd5 Hsha : List Nat → List Nat) (msg5 msgS : η → List Nat)
    (hg : ∃ e, get_algid_info s.handle_table hProv CALG_SCHANNEL_MASTER_HASH = .ok e)
    (hkey : lookup_key s.handle_table hKey = some k)
    (halg : k.aiAlgid = CALG_TLS1_MASTER)
    (hst : k.dwState ≠ RSAENH_KEYSTATE_MASTERKEY)
    (hlen : k.dwKeyLen = 48) (hmem : k.abKeyValue.length = 48)
    (hH5 : HashComputes impl CALG_MD5 Hmd5 msg5) (hHS : HashComputes impl CALG_SHA Hsha msgS)
    (hl5 : ∀ y, (Hmd5 y).length = 16) (hlS : ∀ y, (Hsha y).length = 20) :
    ∃ ok s' hHash x',
      RSAENH_CPCreateHash impl s hProv CALG_SCHANNEL_MASTER_HASH hKey 0
        = some (ok, s', some hHash) ∧
      lookup_key s'.handle_table hKey
        = some { k with
            dwState := RSAENH_KEYSTATE_MASTERKEY
            abKeyValue := tls1_prf_rfc2246 Hmd5 Hsha k.abKeyValue master_secret
              (k.siSChannelInfo.blobClientRandom ++ k.siSChannelInfo.blobServerRandom) 48 } ∧
      lookup_hash s'.handle_table hHash = some x' ∧
      x'.aiAlgid = CALG_SCHANNEL_MASTER_HASH ∧ x'.hKey = hKey ∧
      x'.abHashValue = tls1_prf_rfc2246 Hmd5 Hsha
        (tls1_prf_rfc2246 Hmd5 Hsha k.abKeyValue master_secret
          (k.siSChannelInfo.blobClientRandom ++ k.siSChannelInfo.blobServerRandom) 48)
        key_expansion
        (k.siSChannelInfo.blobServerRandom ++ k.siSChannelInfo.blobClientRandom) 104 ∧
      master_secret.length = 13 ∧ key_expansion.length = 13 := by
  obtain ⟨pea, hg⟩ := hg
  have hobj := (lookup_key_of_object _ _ _).mp hkey
  have hle := lookup_object_le _ _ _ hobj
  -- the state with the fresh hash object
  obtain ⟨x0, hx0⟩ : ∃ x, (⟨CALG_SCHANNEL_MASTER_HASH, hKey, hProv,
      pea.dwDefaultLen / 8, RSAENH_HASHSTATE_IDLE, impl.fresh_hash_context,
      heap_block RSAENH_MAX_HASH_SIZE, none, ⟨[], []⟩⟩ : CRYPTHASH η) = x := ⟨_, rfl⟩
  obtain ⟨s1, hs1⟩ : ∃ s1, s.withTable (new_object s.handle_table (.hash x0)).1 = s1 :=
    ⟨_, rfl⟩
  obtain ⟨hHash, hhHash⟩ : ∃ h, (new_object s.handle_table (.hash x0)).2 = h := ⟨_, rfl⟩
  have hHashv : hHash = s.handle_table.entries.length + 1 := by rw [← hhHash]; rfl
  have old1 : ∀ h, h ≤ s.handle_table.entries.length →
      lookup_object s1.handle_table h = lookup_object s.handle_table h := by
    intro h hh; rw [← hs1]; exact lookup_object_new_old _ _ h hh
  have hnewobj : lookup_object s1.handle_table hHash = some (.hash x0) := by
    rw [← hs1, ← hhHash]; exact lookup_object_new _ _
  have hk1 : lookup_key s1.handle_table hKey = some k :=
    (lookup_key_of_object _ _ _).mpr ((old1 hKey hle).trans hobj)
  obtain ⟨oP, hoP⟩ : ∃ o, lookup_object s.handle_table hProv = some o := by
    have hP := get_algid_info_ok_container _ _ _ _ hg
    unfold is_valid_handle at hP
    rcases hq : lookup_object s.handle_table hProv with _ | o
    · rw [hq] at hP; cases hP
    · exact ⟨o, rfl⟩
  have hPle := lookup_object_le _ _ _ hoP
  have hPK : hProv ≠ hKey := by
    intro h
    have hP := get_algid_info_ok_container _ _ _ _ hg
    unfold is_valid_handle at hP
    rw [h, hobj] at hP
    cases hP
  have hg1 : get_algid_info s1.handle_table hProv CALG_SCHANNEL_MASTER_HASH = .ok pea := by
    rw [← hg]
    apply get_algid_info_congr
    unfold lookup_container
    rw [old1 hProv hPle]
  -- the first run of the pseudo random function
  obtain ⟨s2, hHalf, kHalf, hnew⟩ := new_key_half_secret impl s1 hProv pea hg1
  obtain ⟨sA, bufA, hrunA, hlA, holdA, hvA⟩ := tls1_prf_run impl s1 s2 hProv hKey hHalf
    48 k kHalf master_secret
    (k.siSChannelInfo.blobClientRandom ++ k.siSChannelInfo.blobServerRandom)
    (heap_block 48) hk1 (by omega) hmem (by rw [hlen]; exact hnew)
    (Nat.le_of_eq (List.length_replicate _ _).symm)
  have hbufAl : bufA.length = 48 := by rw [hlA]; exact List.length_replicate _ _
  have hbufA : bytesAt bufA 0 48 = tls1_prf_rfc2246 Hmd5 Hsha k.abKeyValue master_secret
      (k.siSChannelInfo.blobClientRandom ++ k.siSChannelInfo.blobServerRandom) 48 := by
    have := hvA Hmd5 Hsha msg5 msgS hH5 hHS hl5 hlS
    rw [hlen, bytesAt_self k.abKeyValue 48 hmem] at this
    exact this
  obtain ⟨M, hM⟩ : ∃ M, tls1_prf_rfc2246 Hmd5 Hsha k.abKeyValue master_secret
      (k.siSChannelInfo.blobClientRandom ++ k.siSChannelInfo.blobServerRandom) 48 = M :=
    ⟨_, rfl⟩
  rw [hM] at hbufA ⊢
  have hMl : M.length = 48 := by
    rw [← hbufA]; exact bytesAt_length _ _ _ (by omega)
  obtain ⟨k1, hk1def⟩ : ∃ k1, ({ k with
      dwState := RSAENH_KEYSTATE_MASTERKEY
      abKeyValue := memmove k.abKeyValue 0 (bytesAt bufA 0 48) } : CRYPTKEY κ) = k1 := ⟨_, rfl⟩
  have hk1M : k1 = { k with dwState := RSAENH_KEYSTATE_MASTERKEY, abKeyValue := M } := by
    rw [← hk1def, hbufA, memmove_full _ _ (by omega)]
  obtain ⟨s3, hs3⟩ : ∃ s3, sA.withTable (store_object sA.handle_table hKey (.key k1)) = s3 :=
    ⟨_, rfl⟩
  have hs1len : s1.handle_table.entries.length = s.handle_table.entries.length + 1 := by
    rw [← hs1]
    unfold new_object CSP.withTable
    simp only [List.length_append, List.length_singleton]
  have hAkey : lookup_object sA.handle_table hKey = some (.key k) :=
    (holdA hKey (by omega)).trans ((old1 hKey hle).trans hobj)
  have h3key : lookup_key s3.handle_table hKey = some k1 := by
    rw [← hs3, lookup_key_of_object]
    exact lookup_object_store_same _ _ _ _ hAkey
  have hKH : hKey ≠ hHash := by omega
  have h3hash : lookup_object s3.handle_table hHash = some (.hash x0) := by
    rw [← hs3]
    simp only [CSP.withTable]
    rw [lookup_object_store_other _ _ _ _ hKH]
    exact (holdA hHash (by omega)).trans hnewobj
  have h3prov : lookup_object s3.handle_table hProv = lookup_object s.handle_table hProv := by
    rw [← hs3]
    simp only [CSP.withTable]
    rw [lookup_object_store_other _ _ _ _ (Ne.symm hPK)]
    exact (holdA hProv (by omega)).trans (old1 hProv hPle)
  have hg3 : get_algid_info s3.handle_table hProv CALG_SCHANNEL_MASTER_HASH = .ok pea := by
    rw [← hg]
    apply get_algid_info_congr
    unfold lookup_container
    rw [h3prov]
  -- the second run of the pseudo random function
  have hk1len : k1.dwKeyLen = 48 := by rw [hk1M]; exact hlen
  have hk1mem : k1.abKeyValue.length = 48 := by rw [hk1M]; exact hMl
  have hk1val : k1.abKeyValue = M := by rw [hk1M]
  have hk1rand : k1.siSChannelInfo = k.siSChannelInfo := by rw [hk1M]
  obtain ⟨s3', hHalf', kHalf', hnew'⟩ := new_key_half_secret impl s3 hProv pea hg3
  obtain ⟨sB, bufB, hrunB, hlB, holdB, hvB⟩ := tls1_prf_run impl s3 s3' hProv hKey hHalf'
    RSAENH_MAX_HASH_SIZE k1 kHalf' key_expansion
    (k.siSChannelInfo.blobServerRandom ++ k.siSChannelInfo.blobClientRandom)
    (heap_block RSAENH_MAX_HASH_SIZE) h3key (by omega) hk1mem (by rw [hk1len]; exact hnew')
    (Nat.le_of_eq (List.length_replicate _ _).symm)
  have hbufBl : bufB.length = 104 := by rw [hlB]; exact List.length_replicate _ _
  have hbufB : bufB = tls1_prf_rfc2246 Hmd5 Hsha M key_expansion
      (k.siSChannelInfo.blobServerRandom ++ k.siSChannelInfo.blobClientRandom) 104 := by
    have := hvB Hmd5 Hsha msg5 msgS hH5 hHS hl5 hlS
    rw [hk1len, bytesAt_self k1.abKeyValue 48 hk1mem, hk1val,
      bytesAt_self bufB RSAENH_MAX_HASH_SIZE hbufBl] at this
    exact this
  have h3keyobj := (lookup_key_of_object _ _ _).mp h3key
  have hBkey : lookup_object sB.handle_table hKey = some (.key k1) :=
    (holdB hKey (lookup_object_le _ _ _ h3keyobj)).trans h3keyobj
  have hBhash : lookup_object sB.handle_table hHash = some (.hash x0) :=
    (holdB hHash (lookup_object_le _ _ _ h3hash)).trans h3hash
  -- the function
  have hi : ∀ v : List Nat, init_hash impl sB
      (⟨CALG_SCHANNEL_MASTER_HASH, hKey, hProv, pea.dwDefaultLen / 8,
        RSAENH_HASHSTATE_IDLE, impl.fresh_hash_context, v, none, ⟨[], []⟩⟩ : CRYPTHASH η)
      = ((impl.init_hash_impl CALG_SCHANNEL_MASTER_HASH impl.fresh_hash_context).1, sB,
        ⟨CALG_SCHANNEL_MASTER_HASH, hKey, hProv, pea.dwDefaultLen / 8,
          RSAENH_HASHSTATE_IDLE,
          (impl.init_hash_impl CALG_SCHANNEL_MASTER_HASH impl.fresh_hash_context).2,
          v, none, ⟨[], []⟩⟩) := by
    intro v
    unfold init_hash
    rw [if_neg (show ¬ CALG_SCHANNEL_MASTER_HASH = CALG_HMAC by decide),
      if_neg (show ¬ CALG_SCHANNEL_MASTER_HASH = CALG_MAC by decide)]
  refine ⟨(impl.init_hash_impl CALG_SCHANNEL_MASTER_HASH impl.fresh_hash_context).1,
    sB.withTable (store_object sB.handle_table hHash (.hash
      ⟨CALG_SCHANNEL_MASTER_HASH, hKey, hProv, pea.dwDefaultLen / 8,
        RSAENH_HASHSTATE_IDLE,
        (impl.init_hash_impl CALG_SCHANNEL_MASTER_HASH impl.fresh_hash_context).2,
        bufB, none, ⟨[], []⟩⟩)),
    hHash,
    ⟨CALG_SCHANNEL_MASTER_HASH, hKey, hProv, pea.dwDefaultLen / 8,
      RSAENH_HASHSTATE_IDLE,
      (impl.init_hash_impl CALG_SCHANNEL_MASTER_HASH impl.fresh_hash_context).2,
      bufB, none, ⟨[], []⟩⟩, ?_, ?_, ?_, rfl, rfl, hbufB, rfl, rfl⟩
  · unfold RSAENH_CPCreateHash CPCreateHash_with
    rw [hg]
    simp only []
    rw [if_neg (fun h => h rfl), if_pos (Or.inr (Or.inr (Or.inl trivial))), hkey]
    simp only []
    rw [if_neg (fun hc => absurd hc.1 (by decide)), if_neg (fun hc => hc.2 halg),
      if_neg (fun hc => absurd hc.1 (by decide))]
    unfold CPCreateHash_new
    simp only []
    rw [if_pos trivial, if_pos hst, hx0, hs1, hhHash]
    rw [hrunA]
    simp only []
    rw [hk1def, hs3]
    rw [hrunB]
    simp only []
    rw [hi]
  · rw [← hk1M, lookup_key_of_object]
    simp only [CSP.withTable]
    rw [lookup_object_store_other _ _ _ _ (Ne.symm hKH)]
    exact hBkey
  · rw [lookup_hash_of_object]
    simp only [CSP.withTable]
    exact lookup_object_store_same _ _ _ _ hBhash

/-- Witness for C30: the SChannel state of the small engine whose key of handle 2 holds a
pre-master secret. -/
theorem master_hash_creation_witness :
    ∃ ok s' hHash x',
      RSAENH_CPCreateHash toyImpl toyPremasterState 1 CALG_SCHANNEL_MASTER_HASH 2 0
        = some (ok, s', some hHash) ∧
      lookup_key s'.handle_table 2
        = some { toyPremasterKey with
            dwState := RSAENH_KEYSTATE_MASTERKEY
            abKeyValue := tls1_prf_rfc2246 (toyDigest CALG_MD5) (toyDigest CALG_SHA)
              toyPremasterKey.abKeyValue master_secret
              (toyPremasterKey.siSChannelInfo.blobClientRandom ++
                toyPremasterKey.siSChannelInfo.blobServerRandom) 48 } ∧
      lookup_hash s'.handle_table hHash = some x' ∧
      x'.aiAlgid = CALG_SCHANNEL_MASTER_HASH ∧ x'.hKey = 2 ∧
      x'.abHashValue = tls1_prf_rfc2246 (toyDigest CALG_MD5) (toyDigest CALG_SHA)
        (tls1_prf_rfc2246 (toyDigest CALG_MD5) (toyDigest CALG_SHA)
          toyPremasterKey.abKeyValue master_secret
          (toyPremasterKey.siSChannelInfo.blobClientRandom ++
            toyPremasterKey.siSChannelInfo.blobServerRandom) 48)
        key_expansion
        (toyPremasterKey.siSChannelInfo.blobServerRandom ++
          toyPremasterKey.siSChannelInfo.blobClientRandom) 104 ∧
      master_secret.length = 13 ∧ key_expansion.length = 13 :=
  master_hash_creation toyImpl toyPremasterState 1 2 toyPremasterKey
    (toyDigest CALG_MD5) (toyDigest CALG_SHA) id id
    ⟨_, rfl⟩ (by decide) (by decide) (by decide) (by decide) (by decide)
    (toyImpl_HashComputes CALG_MD5) (toyImpl_HashComputes CALG_SHA)
    (fun y => by rw [toyDigest_length]; rfl) (fun y => by rw [toyDigest_length]; rfl)

/-- The default length of the DES family in every row of the capability table: 56, 112 and
168 bits. -/
theorem des_family_default (p : Nat) (e : PROV_ENUMALGS_EX) :
    (get_algid_info_loop CALG_DES (aProvEnumAlgsEx.getD p []) = some e →
      e.dwDefaultLen = 56) ∧
    (get_algid_info_loop CALG_3DES_112 (aProvEnumAlgsEx.getD p []) = some e →
      e.dwDefaultLen = 112) ∧
    (get_algid_info_loop CALG_3DES (aProvEnumAlgsEx.getD p []) = some e →
      e.dwDefaultLen = 168) := by
  have key : ∀ (alg v : Nat) (q : Nat),
      (match get_algid_info_loop alg (aProvEnumAlgsEx.getD q []) with
        | some x => decide (x.dwDefaultLen = v)
        | none => true) = true →
      get_algid_info_loop alg (aProvEnumAlgsEx.getD q []) = some e →
      e.dwDefaultLen = v := by
    intro alg v q h he
    rw [he] at h
    exact of_decide_eq_true h
  rcases p with _ | _ | _ | _ | p
  · exact ⟨key _ _ 0 (by decide), key _ _ 0 (by decide), key _ _ 0 (by decide)⟩
  · exact ⟨key _ _ 1 (by decide), key _ _ 1 (by decide), key _ _ 1 (by decide)⟩
  · exact ⟨key _ _ 2 (by decide), key _ _ 2 (by decide), key _ _ 2 (by decide)⟩
  · exact ⟨key _ _ 3 (by decide), key _ _ 3 (by decide), key _ _ 3 (by decide)⟩
  · have : aProvEnumAlgsEx.getD (p + 1 + 1 + 1 + 1) [] = [] := by
      apply List.getD_eq_default
      show aProvEnumAlgsEx.length ≤ _
      have : aProvEnumAlgsEx.length = 4 := by decide
      omega
    rw [this]
    refine ⟨?_, ?_, ?_⟩ <;> intro h <;> cases h

/-- The length switch of new_key on a member of the DES family with effective length `eff`
and storage length `sto`: the requested lengths `eff` and `sto` give `sto`, every other one
is refused. -/
theorem new_key_length_des (aiAlgid eff bytes : Nat) (e : PROV_ENUMALGS_EX) (req : Nat)
    (hfam : (aiAlgid, eff, bytes) ∈
      [(CALG_DES, 56, 8), (CALG_3DES_112, 112, 16), (CALG_3DES, 168, 24)]) :
    new_key_length aiAlgid e req =
      if req = eff ∨ req = 8 * bytes then some (8 * bytes) else none := by
  simp only [List.mem_cons, Prod.mk.injEq, List.mem_singleton, List.not_mem_nil, or_false] at hfam
  rcases hfam with ⟨rfl, rfl, rfl⟩ | ⟨rfl, rfl, rfl⟩ | ⟨rfl, rfl, rfl⟩
  · unfold new_key_length
    rw [if_pos rfl]
    by_cases h1 : req = 56
    · subst h1; rfl
    · by_cases h2 : req = 64
      · subst h2; rfl
      · simp only [if_neg h1]
        rw [if_pos h2, if_neg (by omega)]
  · unfold new_key_length
    rw [if_neg (by decide), if_pos rfl]
    by_cases h1 : req = 112
    · subst h1; rfl
    · by_cases h2 : req = 128
      · subst h2; rfl
      · simp only [if_neg h1]
        rw [if_pos h2, if_neg (by omega)]
  · unfold new_key_length
    rw [if_neg (by decide), if_neg (by decide), if_pos rfl]
    by_cases h1 : req = 168
    · subst h1; rfl
    · by_cases h2 : req = 192
      · subst h2; rfl
      · simp only [if_neg h1]
        rw [if_pos h2, if_neg (by omega)]

/-- C31. DES-family length normalisation in new_key: for DES, 3DES_112 and 3DES (effective
lengths 56, 112, 168 bits; storage lengths 64, 128, 192 bits = 8, 16, 24 bytes) that the
provider's personality offers, a requested length (high word of the flags) equal to the
effective or to the storage length, or no explicit length (high word 0, the table default),
creates a key object of that algorithm whose key length is 8, 16, 24 bytes; every other
requested length fails with NTE_BAD_FLAGS and creates nothing. -/
theorem des_length_normalisation {κ η : Type} (impl : IMPL κ η) (s : CSP κ η)
    (hProv aiAlgid dwFlags eff bytes : Nat) (e : PROV_ENUMALGS_EX)
    (hfam : (aiAlgid, eff, bytes) ∈
      [(CALG_DES, 56, 8), (CALG_3DES_112, 112, 16), (CALG_3DES, 168, 24)])
    (he : get_algid_info s.handle_table hProv aiAlgid = .ok e) :
    ((HIWORD dwFlags = eff ∨ HIWORD dwFlags = 8 * bytes ∨ HIWORD dwFlags = 0) →
      ∃ s1 hKey k, new_key impl s hProv aiAlgid dwFlags = (s1, some (hKey, k)) ∧
        k.aiAlgid = aiAlgid ∧ k.dwKeyLen = bytes ∧
        lookup_key s1.handle_table hKey = some k) ∧
    (¬ (HIWORD dwFlags = eff ∨ HIWORD dwFlags = 8 * bytes ∨ HIWORD dwFlags = 0) →
      new_key impl s hProv aiAlgid dwFlags =
        (SetLastError s WINERROR.NTE_BAD_FLAGS, none)) := by
  have hdef : e.dwDefaultLen = eff := by
    unfold get_algid_info at he
    rcases hc : lookup_container s.handle_table hProv with _ | c
    · rw [hc] at he; cases he
    · rw [hc] at he
      simp only [] at he
      rcases hl : get_algid_info_loop aiAlgid (aProvEnumAlgsEx.getD c.dwPersonality [])
        with _ | e'
      · rw [hl] at he; cases he
      · rw [hl] at he
        injection he with he
        subst he
        obtain ⟨t1, t2, t3⟩ := des_family_default c.dwPersonality e'
        simp only [List.mem_cons, Prod.mk.injEq, List.mem_singleton, List.not_mem_nil,
          or_false] at hfam
        rcases hfam with ⟨rfl, rfl, rfl⟩ | ⟨rfl, rfl, rfl⟩ | ⟨rfl, rfl, rfl⟩
        · exact t1 hl
        · exact t2 hl
        · exact t3 hl
  have hlen := new_key_length_des aiAlgid eff bytes e
    (if HIWORD dwFlags = 0 then e.dwDefaultLen else HIWORD dwFlags) hfam
  constructor
  · intro hreq
    have hcond : (if HIWORD dwFlags = 0 then e.dwDefaultLen else HIWORD dwFlags) = eff ∨
        (if HIWORD dwFlags = 0 then e.dwDefaultLen else HIWORD dwFlags) = 8 * bytes := by
      by_cases h0 : HIWORD dwFlags = 0
      · rw [if_pos h0]; exact Or.inl hdef
      · rw [if_neg h0]
        rcases hreq with h | h | h
        · exact Or.inl h
        · exact Or.inr h
        · exact absurd h h0
    rw [if_pos hcond] at hlen
    obtain ⟨r, hr⟩ : ∃ r, new_key impl s hProv aiAlgid dwFlags = r := ⟨_, rfl⟩
    have hr' := hr
    unfold new_key at hr'
    rw [he] at hr'
    simp only [hlen] at hr'
    obtain ⟨s1, o⟩ := r
    rcases o with _ | ⟨hKey, k⟩
    · simp only [Prod.mk.injEq] at hr'
      exact absurd hr'.2 (by simp)
    · refine ⟨s1, hKey, k, hr, ?_, ?_, (new_key_some impl s s1 hProv aiAlgid dwFlags hKey k hr).1⟩
      · simp only [Prod.mk.injEq, Option.some.injEq] at hr'
        rw [← hr'.2.2]
      · simp only [Prod.mk.injEq, Option.some.injEq] at hr'
        rw [← hr'.2.2]
        show 8 * bytes / 8 = bytes
        omega
  · intro hreq
    have hcond : ¬ ((if HIWORD dwFlags = 0 then e.dwDefaultLen else HIWORD dwFlags) = eff ∨
        (if HIWORD dwFlags = 0 then e.dwDefaultLen else HIWORD dwFlags) = 8 * bytes) := by
      have h0 : HIWORD dwFlags ≠ 0 := fun h => hreq (Or.inr (Or.inr h))
      rw [if_neg h0]
      intro h
      rcases h with h | h
      · exact hreq (Or.inl h)
      · exact hreq (Or.inr (Or.inl h))
    rw [if_neg hcond] at hlen
    unfold new_key
    rw [he]
    simp only [hlen]

/-- Witness for C31: 3DES in the strong personality with the requested lengths 168 (accepted, 24
bytes) and 160 (refused). -/
theorem des_length_normalisation_witness :
    (∃ s1 hKey k, new_key toyImpl (toyState RSAENH_PERSONALITY_STRONG []) 1 CALG_3DES
        (MAKELONG 0 168) = (s1, some (hKey, k)) ∧
        k.aiAlgid = CALG_3DES ∧ k.dwKeyLen = 24 ∧
        lookup_key s1.handle_table hKey = some k) ∧
    new_key toyImpl (toyState RSAENH_PERSONALITY_STRONG []) 1 CALG_3DES (MAKELONG 0 160) =
      (SetLastError (toyState RSAENH_PERSONALITY_STRONG []) WINERROR.NTE_BAD_FLAGS, none) :=
  ⟨(des_length_normalisation toyImpl (toyState RSAENH_PERSONALITY_STRONG []) 1 CALG_3DES
      (MAKELONG 0 168) 168 24
      ⟨CALG_3DES, 168, 168, 168, 0, 5, "3DES", 21, "Three Key Triple DES"⟩
      (by decide) (by decide)).1 (by decide),
   (des_length_normalisation toyImpl (toyState RSAENH_PERSONALITY_STRONG []) 1 CALG_3DES
      (MAKELONG 0 160) 168 24
      ⟨CALG_3DES, 168, 168, 168, 0, 5, "3DES", 21, "Three Key Triple DES"⟩
      (by decide) (by decide)).2 (by decide)⟩

theorem pad_fallback_length : ∀ (n : Nat) (buf : List Nat) (i : Nat),
    (pad_fallback n buf i).length = buf.length
  | 0, buf, i => rfl
  | n + 1, buf, i => by
    unfold pad_fallback
    rw [pad_fallback_length n, List.length_set]

theorem pad_fallback_getD_other : ∀ (n : Nat) (buf : List Nat) (i j : Nat),
    (j < i ∨ i + n ≤ j) → (pad_fallback n buf i).getD j 0 = buf.getD j 0
  | 0, buf, i, j, _ => rfl
  | n + 1, buf, i, j, h => by
    unfold pad_fallback
    rw [pad_fallback_getD_other n _ (i + 1) j (by omega), getD_set_other _ _ _ _ _ (by omega)]

theorem getD_set_congr (l l' : List Nat) (i j a : Nat) (hl : l.length = l'.length)
    (h : l.getD j 0 = l'.getD j 0) : (l.set i a).getD j 0 = (l'.set i a).getD j 0 := by
  by_cases hij : i = j
  · subst hij
    by_cases hi : i < l.length
    · rw [getD_set_same _ _ _ _ hi, getD_set_same _ _ _ _ (hl ▸ hi)]
    · rw [List.getD_eq_default _ _ (by rw [List.length_set]; omega),
        List.getD_eq_default _ _ (by rw [List.length_set]; omega)]
  · rw [getD_set_other _ _ _ _ _ hij, getD_set_other _ _ _ _ _ hij, h]

/-- The flag CRYPT_SSL2_FALLBACK changes nothing but the last eight filler bytes: from the
same random source the call without the flag returns TRUE too, leaves the same rest of the
source, and its buffer agrees with the buffer of the call with the flag at every index
outside `bufferLen - dataLen - 9 .. bufferLen - dataLen - 2`. -/
theorem pad_data_fallback_diff (rand abData abBuffer : List Nat) (dwBufferLen f g : Nat)
    (buf rand' : List Nat)
    (hlen : abData.length + 11 ≤ dwBufferLen)
    (hf : f &&& CRYPT_SSL2_FALLBACK ≠ 0) (hg : ¬ (g &&& CRYPT_SSL2_FALLBACK ≠ 0))
    (h : pad_data rand abData abBuffer dwBufferLen f = some (.ok buf, rand')) :
    ∃ buf0, pad_data rand abData abBuffer dwBufferLen g = some (.ok buf0, rand') ∧
      ∀ i, ¬ (dwBufferLen - abData.length - 9 ≤ i ∧ i ≤ dwBufferLen - abData.length - 2) →
        buf.getD i 0 = buf0.getD i 0 := by
  unfold pad_data at h ⊢
  simp only [] at h ⊢
  have e11 : dwSub dwBufferLen 11 = dwBufferLen - 11 := dwSub_eq _ _ (by omega)
  have ed : dwSub dwBufferLen abData.length = dwBufferLen - abData.length :=
    dwSub_eq _ _ (by omega)
  have eb : dwSub (dwBufferLen - abData.length) 1 = dwBufferLen - abData.length - 1 :=
    dwSub_eq _ _ (by omega)
  rw [e11, ed, eb, if_neg (by omega)] at h ⊢
  rcases hfill : pad_fill (dwBufferLen - abData.length - 1 - 2) rand
      (((memmove abBuffer (dwBufferLen - abData.length) abData).set 0 0).set 1
        RSAENH_PKC_BLOCKTYPE) 2 with _ | ⟨buf2, rand2⟩
  · rw [hfill] at h
    cases h
  · rw [hfill] at h
    simp only [] at h ⊢
    have hbound : (if 2 < dwBufferLen - abData.length - 1 then dwBufferLen - abData.length - 1
        else 2) = dwBufferLen - abData.length - 1 := by
      rw [if_pos (by omega)]
    have e8 : dwSub (dwBufferLen - abData.length - 1) 8 = dwBufferLen - abData.length - 1 - 8 :=
      dwSub_eq _ _ (by omega)
    rw [hbound, if_pos hf, e8, if_pos (by omega)] at h
    rw [hbound, if_neg hg]
    simp only [Option.some.injEq, Prod.mk.injEq, Except.ok.injEq] at h
    refine ⟨_, by rw [h.2], ?_⟩
    intro i hi
    rw [← h.1]
    apply getD_set_congr _ _ _ _ _ (pad_fallback_length _ _ _)
    apply pad_fallback_getD_other
    omega

/-- C33. The output layout of pad_data: for `dataLen ≤ bufferLen - 11` (and a buffer of at
least `bufferLen` bytes) a call that returns has returned TRUE and the buffer holds 0x00,
0x02, then `bufferLen - dataLen - 3` (at least 8) non-zero filler bytes at the indices
2 .. `bufferLen - dataLen - 2`, 0x00 at index `bufferLen - dataLen - 1`, then the data; the
bytes behind `bufferLen` are untouched.  With CRYPT_SSL2_FALLBACK the last 8 filler bytes
(indices `bufferLen - dataLen - 9` .. `bufferLen - dataLen - 2`) are 0x03 and every other
byte is the one that the call without the flag writes from the same random source.  The call
returns as soon as the random source holds `bufferLen - dataLen - 3` non-zero bytes. -/
theorem pad_data_output_layout (rand abData abBuffer : List Nat) (dwBufferLen dwFlags : Nat)
    (hlen : abData.length + 11 ≤ dwBufferLen) (hbuf : dwBufferLen ≤ abBuffer.length) :
    (∀ r rand', pad_data rand abData abBuffer dwBufferLen dwFlags = some (r, rand') →
      ∃ buf, r = .ok buf ∧ buf.length = abBuffer.length ∧
        buf.getD 0 1 = 0x00 ∧ buf.getD 1 0 = 0x02 ∧
        8 ≤ dwBufferLen - abData.length - 3 ∧
        (∀ i, 2 ≤ i → i ≤ dwBufferLen - abData.length - 2 →
          buf.getD i 0 ≠ 0 ∧ buf.getD i 0 < 256) ∧
        buf.getD (dwBufferLen - abData.length - 1) 1 = 0x00 ∧
        bytesAt buf (dwBufferLen - abData.length) abData.length = abData ∧
        buf.drop dwBufferLen = abBuffer.drop dwBufferLen ∧
        (dwFlags &&& CRYPT_SSL2_FALLBACK ≠ 0 →
          (∀ i, dwBufferLen - abData.length - 9 ≤ i → i ≤ dwBufferLen - abData.length - 2 →
            buf.getD i 0 = 0x03) ∧
          ∀ g, ¬ (g &&& CRYPT_SSL2_FALLBACK ≠ 0) →
            ∃ buf0, pad_data rand abData abBuffer dwBufferLen g = some (.ok buf0, rand') ∧
              ∀ i, ¬ (dwBufferLen - abData.length - 9 ≤ i ∧
                  i ≤ dwBufferLen - abData.length - 2) →
                buf.getD i 0 = buf0.getD i 0)) ∧
    (dwBufferLen - abData.length - 3 ≤ (rand.filter (fun b => b % 256 != 0)).length →
      ∃ r, pad_data rand abData abBuffer dwBufferLen dwFlags = some r) := by
  constructor
  · intro r rand' h
    obtain ⟨F, hF, hnz, hfb, hr⟩ := pad_data_layout _ _ _ _ _ _ _ hlen hbuf h
    subst hr
    have hidx : ∀ i, 2 ≤ i → i ≤ dwBufferLen - abData.length - 2 →
        (0 :: 2 :: (F ++ 0 :: (abData ++ abBuffer.drop dwBufferLen))).getD i 0
          = F.getD (i - 2) 0 ∧ i - 2 < F.length := by
      intro i h2 hi
      obtain ⟨j, rfl⟩ : ∃ j, i = j + 2 := ⟨i - 2, by omega⟩
      have hj : j < F.length := by omega
      refine ⟨?_, by omega⟩
      simp only [List.getD_cons_succ, Nat.add_sub_cancel]
      rw [List.getD_append _ _ _ _ hj]
    refine ⟨_, rfl, ?_, rfl, rfl, by omega, ?_, ?_, ?_, ?_, ?_⟩
    · simp only [List.length_cons, List.length_append, List.length_drop]
      omega
    · intro i h2 hi
      obtain ⟨e, hj⟩ := hidx i h2 hi
      rw [e, List.getD_eq_getElem _ _ hj]
      exact hnz _ (List.getElem_mem hj)
    · obtain ⟨j, hj⟩ : ∃ j, dwBufferLen - abData.length - 1 = j + 2 :=
        ⟨dwBufferLen - abData.length - 1 - 2, by omega⟩
      rw [hj]
      simp only [List.getD_cons_succ]
      have : j = F.length := by omega
      subst this
      rw [List.getD_append_right _ _ _ _ (le_refl _)]
      simp
    · unfold bytesAt
      obtain ⟨j, hj⟩ : ∃ j, dwBufferLen - abData.length = j + 2 :=
        ⟨dwBufferLen - abData.length - 2, by omega⟩
      rw [hj]
      simp only [List.drop_succ_cons]
      have : j = F.length + 1 := by omega
      subst this
      rw [List.drop_append_eq_append_drop]
      have e1 : F.drop (F.length + 1) = [] := List.drop_eq_nil_of_le (by omega)
      rw [e1]
      simp
    · obtain ⟨j, hj⟩ : ∃ j, dwBufferLen = j + 2 := ⟨dwBufferLen - 2, by omega⟩
      nth_rewrite 1 [hj]
      simp only [List.drop_succ_cons]
      rw [List.drop_append_eq_append_drop]
      have e1 : F.drop j = [] := List.drop_eq_nil_of_le (by omega)
      have e2 : j - F.length = abData.length + 1 := by omega
      rw [e1, e2]
      simp
    · intro hfl
      refine ⟨?_, fun g hg => pad_data_fallback_diff _ _ _ _ _ g _ _ hlen hfl hg h⟩
      intro i h9 hi
      obtain ⟨e, hj⟩ := hidx i (by omega) hi
      rw [e, List.getD_eq_getElem _ _ hj]
      apply hfb hfl
      rw [List.mem_iff_getElem]
      refine ⟨i - 2 - (F.length - 8), by rw [List.length_drop]; omega, ?_⟩
      rw [List.getElem_drop]
      congr 1
      omega
  · intro hr
    unfold pad_data
    simp only []
    have e11 : dwSub dwBufferLen 11 = dwBufferLen - 11 := dwSub_eq _ _ (by omega)
    have ed : dwSub dwBufferLen abData.length = dwBufferLen - abData.length :=
      dwSub_eq _ _ (by omega)
    have eb : dwSub (dwBufferLen - abData.length) 1 = dwBufferLen - abData.length - 1 :=
      dwSub_eq _ _ (by omega)
    rw [e11, ed, eb, if_neg (by omega)]
    obtain ⟨⟨b2, r2⟩, hfill⟩ := pad_fill_terminates (dwBufferLen - abData.length - 1 - 2) rand
      (((memmove abBuffer (dwBufferLen - abData.length) abData).set 0 0).set 1
        RSAENH_PKC_BLOCKTYPE) 2 (by omega)
    rw [hfill]
    simp only []
    split <;> exact ⟨_, rfl⟩

/-- Witness for C33: 2 data bytes padded into a 13-byte buffer with CRYPT_SSL2_FALLBACK; the
call returns the block 00 02 03 .. 03 00 aa 00. -/
theorem pad_data_output_layout_witness :
    ([0xaa, 0] : List Nat).length + 11 ≤ 13 ∧
    (pad_data [0, 7, 0, 0, 9, 1, 2, 3, 4, 5, 6, 99] [0xaa, 0] (List.replicate 13 0xee) 13
        CRYPT_SSL2_FALLBACK).map Prod.fst
      = some (.ok [0, 2, 3, 3, 3, 3, 3, 3, 3, 3, 0, 0xaa, 0]) ∧
    (∀ r rand', pad_data [0, 7, 0, 0, 9, 1, 2, 3, 4, 5, 6, 99] [0xaa, 0]
        (List.replicate 13 0xee) 13 CRYPT_SSL2_FALLBACK = some (r, rand') →
      ∃ buf, r = .ok buf ∧ buf.length = (List.replicate 13 0xee).length ∧
        buf.getD 0 1 = 0x00 ∧ buf.getD 1 0 = 0x02 ∧
        8 ≤ 13 - ([0xaa, 0] : List Nat).length - 3 ∧
        (∀ i, 2 ≤ i → i ≤ 13 - ([0xaa, 0] : List Nat).length - 2 →
          buf.getD i 0 ≠ 0 ∧ buf.getD i 0 < 256) ∧
        buf.getD (13 - ([0xaa, 0] : List Nat).length - 1) 1 = 0x00 ∧
        bytesAt buf (13 - ([0xaa, 0] : List Nat).length) ([0xaa, 0] : List Nat).length
          = [0xaa, 0] ∧
        buf.drop 13 = (List.replicate 13 0xee).drop 13 ∧
        (CRYPT_SSL2_FALLBACK &&& CRYPT_SSL2_FALLBACK ≠ 0 →
          (∀ i, 13 - ([0xaa, 0] : List Nat).length - 9 ≤ i →
            i ≤ 13 - ([0xaa, 0] : List Nat).length - 2 → buf.getD i 0 = 0x03) ∧
          ∀ g, ¬ (g &&& CRYPT_SSL2_FALLBACK ≠ 0) →
            ∃ buf0, pad_data [0, 7, 0, 0, 9, 1, 2, 3, 4, 5, 6, 99] [0xaa, 0]
                (List.replicate 13 0xee) 13 g = some (.ok buf0, rand') ∧
              ∀ i, ¬ (13 - ([0xaa, 0] : List Nat).length - 9 ≤ i ∧
                  i ≤ 13 - ([0xaa, 0] : List Nat).length - 2) →
                buf.getD i 0 = buf0.getD i 0)) ∧
    (13 - ([0xaa, 0] : List Nat).length - 3
        ≤ (([0, 7, 0, 0, 9, 1, 2, 3, 4, 5, 6, 99] : List Nat).filter
            (fun b => b % 256 != 0)).length →
      ∃ r, pad_data [0, 7, 0, 0, 9, 1, 2, 3, 4, 5, 6, 99] [0xaa, 0]
        (List.replicate 13 0xee) 13 CRYPT_SSL2_FALLBACK = some r) :=
  ⟨by decide, by decide,
    pad_data_output_layout [0, 7, 0, 0, 9, 1, 2, 3, 4, 5, 6, 99] [0xaa, 0]
      (List.replicate 13 0xee) 13 CRYPT_SSL2_FALLBACK (by decide) (by decide)⟩

/-- The descriptor loop of build_hash_signature finds nothing for an algorithm other than MD2,
MD4, MD5 and SHA-1, and the function returns FALSE with NTE_BAD_ALGID before it writes. -/
theorem build_hash_signature_bad_algid (buf : List Nat) (dwLen a : Nat) (hv : List Nat)
    (hl fl : Nat)
    (ha : a ≠ CALG_MD2 ∧ a ≠ CALG_MD4 ∧ a ≠ CALG_MD5 ∧ a ≠ CALG_SHA) :
    build_hash_signature buf dwLen a hv hl fl = .error WINERROR.NTE_BAD_ALGID := by
  have hf : find_oid a aOIDDescriptor = none := by
    unfold aOIDDescriptor
    unfold find_oid
    rw [if_neg (by decide), if_neg (Ne.symm ha.1)]
    unfold find_oid
    rw [if_neg (by decide), if_neg (Ne.symm ha.2.1)]
    unfold find_oid
    rw [if_neg (by decide), if_neg (Ne.symm ha.2.2.1)]
    unfold find_oid
    rw [if_neg (by decide), if_neg (Ne.symm ha.2.2.2)]
    unfold find_oid
    rw [if_pos rfl]
  unfold build_hash_signature
  rw [hf]

/-- CPGetHashParam(HP_ALGID) with a 4-byte buffer returns, and when it returns TRUE the state is
unchanged and the buffer holds the algorithm id of the hash object. -/
theorem CPGetHashParam_algid {κ η : Type} (impl : IMPL κ η) (s : CSP κ η) (hProv hHash : Nat) :
    ∃ r, RSAENH_CPGetHashParam impl s hProv hHash HP_ALGID (some (heap_block 4)) (some 4) 0
        = some r ∧
      (r.1 = true → r.2.1 = s ∧
        ∀ x, lookup_hash s.handle_table hHash = some x →
          r.2.2.1 = some (memmove (heap_block 4) 0 (bytesAt (dword_bytes x.aiAlgid) 0 4))) := by
  unfold RSAENH_CPGetHashParam
  by_cases hp : ¬ is_valid_handle s.handle_table hProv is_container = true
  · rw [if_pos hp]
    exact ⟨_, rfl, fun h => by cases h⟩
  · rw [if_neg hp, if_neg (by decide)]
    rcases hq : lookup_hash s.handle_table hHash with _ | x
    · exact ⟨_, rfl, fun h => by cases h⟩
    · simp only []
      rw [if_pos trivial]
      refine ⟨_, rfl, fun _ => ⟨rfl, fun x' hx' => ?_⟩⟩
      injection hx' with hx'
      subst hx'
      rfl

/-- CPGetHashParam(HP_HASHVAL) with a buffer returns on a hash object that is neither a MAC nor
a TLS1PRF object. -/
theorem CPGetHashParam_hashval_returns {κ η : Type} (impl : IMPL κ η) (s : CSP κ η)
    (hProv hHash : Nat) (buf : List Nat) (n : Nat)
    (hx : ∀ x, lookup_hash s.handle_table hHash = some x →
      x.aiAlgid ≠ CALG_MAC ∧ x.aiAlgid ≠ CALG_TLS1PRF) :
    ∃ r, RSAENH_CPGetHashParam impl s hProv hHash HP_HASHVAL (some buf) (some n) 0 = some r := by
  unfold RSAENH_CPGetHashParam
  by_cases hp : ¬ is_valid_handle s.handle_table hProv is_container = true
  · rw [if_pos hp]
    exact ⟨_, rfl⟩
  · rw [if_neg hp, if_neg (by decide)]
    rcases hq : lookup_hash s.handle_table hHash with _ | x
    · exact ⟨_, rfl⟩
    · simp only []
      obtain ⟨h1, h2⟩ := hx x hq
      rw [if_pos trivial, if_neg h2]
      by_cases hi : x.dwState = RSAENH_HASHSTATE_IDLE
      · rw [if_pos hi]
        exact ⟨_, rfl⟩
      · rw [if_neg hi]
        by_cases hf : (some buf).isSome = true ∧ x.dwState ≠ RSAENH_HASHSTATE_FINISHED
        · rw [if_pos hf]
          have hfin : ∃ r, finalize_hash impl s x = some r := by
            unfold finalize_hash
            by_cases a1 : x.aiAlgid = CALG_HMAC
            · rw [if_pos a1]
              rcases x.pHMACInfo with _ | info
              · exact ⟨_, rfl⟩
              · exact ⟨_, rfl⟩
            · rw [if_neg a1, if_neg h1]
              exact ⟨_, rfl⟩
          obtain ⟨⟨s1, x1⟩, hfin⟩ := hfin
          rw [hfin]
          exact ⟨_, rfl⟩
        · rw [if_neg hf]
          exact ⟨_, rfl⟩

/-- The algorithm id that get_hash_for_signature hands on is the one of the hash object. -/
theorem get_hash_for_signature_algid {κ η : Type} (impl : IMPL κ η) (s s2 : CSP κ η)
    (hProv hHash a : Nat) (v : List Nat) (l : Nat) (x : CRYPTHASH η)
    (hx : lookup_hash s.handle_table hHash = some x) (h32 : x.aiAlgid < 4294967296)
    (h : get_hash_for_signature impl s hProv hHash = some (.ok (s2, a, v, l))) :
    a = x.aiAlgid := by
  unfold get_hash_for_signature at h
  obtain ⟨⟨ok, s1, pb, len⟩, hr, hrt⟩ := CPGetHashParam_algid impl s hProv hHash
  rw [hr] at h
  cases ok
  · simp only [] at h
    cases h
  · simp only [] at h
    obtain ⟨e1, e2⟩ := hrt rfl
    have e3 := e2 x hx
    simp only [] at e1 e3
    rcases hq : RSAENH_CPGetHashParam impl s1 hProv hHash HP_HASHVAL
        (some (heap_block RSAENH_MAX_HASH_SIZE)) (some RSAENH_MAX_HASH_SIZE) 0
      with _ | ⟨ok2, s3, pb2, len2⟩
    · rw [hq] at h
      cases h
    · rw [hq] at h
      cases ok2
      · simp only [] at h
        cases h
      · simp only [Option.some.injEq, Except.ok.injEq, Prod.mk.injEq] at h
        rw [← h.2.1, e3]
        exact bytes_dword_bytes _ h32

/-- The function get_hash_for_signature returns on a hash object that is neither a MAC nor a
TLS1PRF object. -/
theorem get_hash_for_signature_returns {κ η : Type} (impl : IMPL κ η) (s : CSP κ η)
    (hProv hHash : Nat)
    (hx : ∀ x, lookup_hash s.handle_table hHash = some x →
      x.aiAlgid ≠ CALG_MAC ∧ x.aiAlgid ≠ CALG_TLS1PRF) :
    ∃ r, get_hash_for_signature impl s hProv hHash = some r := by
  unfold get_hash_for_signature
  obtain ⟨⟨ok, s1, pb, len⟩, hr, hrt⟩ := CPGetHashParam_algid impl s hProv hHash
  rw [hr]
  cases ok
  · exact ⟨_, rfl⟩
  · simp only []
    obtain ⟨e1, -⟩ := hrt rfl
    simp only [] at e1
    subst e1
    obtain ⟨⟨ok2, s3, pb2, len2⟩, hq⟩ := CPGetHashParam_hashval_returns impl s1 hProv hHash
      (heap_block RSAENH_MAX_HASH_SIZE) RSAENH_MAX_HASH_SIZE hx
    rw [hq]
    cases ok2
    · exact ⟨_, rfl⟩
    · exact ⟨_, rfl⟩

/-- CPHashData keeps the algorithm id of the hash object it is called for. -/
theorem CPHashData_algid {κ η : Type} (impl : IMPL κ η) (s s' : CSP κ η)
    (hProv hHash fl : Nat) (d : List Nat) (x : CRYPTHASH η)
    (hx : lookup_hash s.handle_table hHash = some x)
    (h : RSAENH_CPHashData impl s hProv hHash d fl = some (true, s')) :
    ∃ x', lookup_hash s'.handle_table hHash = some x' ∧ x'.aiAlgid = x.aiAlgid := by
  unfold RSAENH_CPHashData at h
  by_cases hf : fl ≠ 0
  · rw [if_pos hf] at h
    simp only [Option.some.injEq, Prod.mk.injEq] at h
    exact absurd h.1 (by decide)
  · rw [if_neg hf, hx] at h
    simp only [] at h
    by_cases ha : (get_algid_info s.handle_table hProv x.aiAlgid).toBool = false ∨
        x.aiAlgid = CALG_SSL3_SHAMD5
    · rw [if_pos ha] at h
      simp only [Option.some.injEq, Prod.mk.injEq] at h
      exact absurd h.1 (by decide)
    · rw [if_neg ha] at h
      obtain ⟨h1, hh1⟩ : ∃ h1, (if x.dwState = RSAENH_HASHSTATE_IDLE then
          ({ x with dwState := RSAENH_HASHSTATE_HASHING } : CRYPTHASH η) else x) = h1 := ⟨_, rfl⟩
      rw [hh1] at h
      have h1a : h1.aiAlgid = x.aiAlgid := by
        rw [← hh1]; split <;> rfl
      by_cases hs : h1.dwState ≠ RSAENH_HASHSTATE_HASHING
      · rw [if_pos hs] at h
        simp only [Option.some.injEq, Prod.mk.injEq] at h
        exact absurd h.1 (by decide)
      · rw [if_neg hs] at h
        rcases hu : update_hash impl
            (s.withTable (store_object s.handle_table hHash (.hash h1))) h1 d with _ | ⟨s2, h2⟩
        · rw [hu] at h; cases h
        · rw [hu] at h
          simp only [Option.some.injEq, Prod.mk.injEq, true_and] at h
          have hl1 : lookup_hash (s.withTable (store_object s.handle_table hHash
              (.hash h1))).handle_table hHash = some h1 :=
            lookup_hash_store_same _ _ _ _ hx
          have hl2 : lookup_hash s2.handle_table hHash = some h1 := by
            rw [(update_hash_hashes impl _ _ _ _ _ hu).1 hHash]
            exact hl1
          refine ⟨h2, ?_, ?_⟩
          · rw [← h]
            exact lookup_hash_store_same _ _ _ _ hl2
          · rw [← h1a]
            unfold update_hash at hu
            by_cases a1 : h1.aiAlgid = CALG_HMAC
            · rw [if_pos a1] at hu
              rcases hq : h1.pHMACInfo with _ | info
              · rw [hq] at hu
                simp only [Option.some.injEq, Prod.mk.injEq] at hu
                rw [← hu.2]
              · rw [hq] at hu
                simp only [Option.some.injEq, Prod.mk.injEq] at hu
                rw [← hu.2]
            · rw [if_neg a1] at hu
              by_cases a2 : h1.aiAlgid = CALG_MAC
              · rw [if_pos a2] at hu
                rcases hq : CPEncrypt_nohash impl
                    (s.withTable (store_object s.handle_table hHash (.hash h1))) h1.hProv
                    h1.hKey false 0 d d.length d.length with _ | r
                · rw [hq] at hu; cases hu
                · rw [hq] at hu
                  simp only [Option.some.injEq, Prod.mk.injEq] at hu
                  rw [← hu.2]
              · rw [if_neg a2] at hu
                simp only [Option.some.injEq, Prod.mk.injEq] at hu
                rw [← hu.2]

theorem CPGetUserKey_objects {κ η : Type} (s : CSP κ η) (hProv dwKeySpec h : Nat) :
    lookup_object (RSAENH_CPGetUserKey s hProv dwKeySpec).2.1.handle_table h
      = lookup_object s.handle_table h := by
  unfold RSAENH_CPGetUserKey
  rcases lookup_container s.handle_table hProv with _ | c
  · rfl
  · simp only []
    have e : ∀ r : HANDLETABLE κ η × Nat,
        lookup_object r.1 h = lookup_object s.handle_table h →
        lookup_object (if r.2 = INVALID_HANDLE_VALUE then
          (false, SetLastError (s.withTable r.1) WINERROR.NTE_NO_KEY, INVALID_HANDLE_VALUE)
          else (true, s.withTable r.1, r.2)).2.1.handle_table h
          = lookup_object s.handle_table h := by
      intro r hr
      split <;> exact hr
    apply e
    split
    · exact lookup_object_copy_handle _ _ _ _
    · split
      · exact lookup_object_copy_handle _ _ _ _
      · rfl

/-- CPSignHash with a signature buffer, on a hash object of an algorithm other than MD2, MD4,
MD5 and SHA-1: whenever the call returns it returns FALSE and the buffer is untouched. -/
theorem CPSignHash_bad_algid {κ η : Type} (impl : IMPL κ η) (s : CSP κ η)
    (hProv hHash : Nat) (x : CRYPTHASH η)
    (hx : lookup_hash s.handle_table hHash = some x)
    (ha : x.aiAlgid ≠ CALG_MD2 ∧ x.aiAlgid ≠ CALG_MD4 ∧ x.aiAlgid ≠ CALG_MD5 ∧
      x.aiAlgid ≠ CALG_SHA)
    (h32 : x.aiAlgid < 4294967296)
    (spec : Nat) (desc : Option (List Nat)) (fl : Nat) (sig : List Nat) (len : Nat)
    (r : Bool × CSP κ η × Option (List Nat) × Nat)
    (h : RSAENH_CPSignHash impl s hProv hHash spec desc fl (some sig) len = some r) :
    r.1 = false ∧ r.2.2.1 = some sig := by
  have tail : ∀ (s1 : CSP κ η) (x' : CRYPTHASH η),
      lookup_hash s1.handle_table hHash = some x' → x'.aiAlgid = x.aiAlgid →
      ∀ s2 a' v l, get_hash_for_signature impl s1 hProv hHash = some (.ok (s2, a', v, l)) →
      ∀ buf n f, build_hash_signature buf n a' v l f = .error WINERROR.NTE_BAD_ALGID := by
    intro s1 x' hx' hal s2 a' v l hg buf n f
    have e := get_hash_for_signature_algid impl s1 s2 hProv hHash a' v l x' hx'
      (by rw [hal]; exact h32) hg
    rw [e, hal]
    exact build_hash_signature_bad_algid _ _ _ _ _ _ ha
  unfold RSAENH_CPSignHash at h
  by_cases hf : fl &&& (0xffffffff ^^^ (CRYPT_NOHASHOID ||| CRYPT_X931_FORMAT)) ≠ 0
  · rw [if_pos hf] at h
    injection h with h
    rw [← h]
    exact ⟨rfl, rfl⟩
  · rw [if_neg hf] at h
    simp only [] at h
    have hobj := CPGetUserKey_objects s hProv spec
    obtain ⟨⟨ok, s0, hK⟩, hu⟩ : ∃ u, RSAENH_CPGetUserKey s hProv spec = u := ⟨_, rfl⟩
    rw [hu] at h hobj
    simp only [] at h hobj
    have hx0 : lookup_hash s0.handle_table hHash = some x := by
      rw [lookup_hash_congr _ _ hobj]
      exact hx
    cases ok
    · simp only [Bool.false_eq_true, not_false_eq_true, if_true] at h
      injection h with h
      rw [← h]
      exact ⟨rfl, rfl⟩
    · simp only [not_true_eq_false, if_false] at h
      rcases hk : lookup_key s0.handle_table hK with _ | k
      · rw [hk] at h
        injection h with h
        rw [← h]
        exact ⟨rfl, rfl⟩
      · rw [hk] at h
        simp only [] at h
        by_cases hlen : k.dwKeyLen > len
        · rw [if_pos hlen] at h
          injection h with h
          rw [← h]
          exact ⟨rfl, rfl⟩
        · rw [if_neg hlen] at h
          have fin : ∀ (s1 : CSP κ η) (x' : CRYPTHASH η),
              lookup_hash s1.handle_table hHash = some x' → x'.aiAlgid = x.aiAlgid →
              (match get_hash_for_signature impl s1 hProv hHash with
                | none => none
                | some (.error s2) => some (false, s2, some sig, k.dwKeyLen)
                | some (.ok (s2, aiAlgid, abHashValue, dwHashLen)) =>
                  match build_hash_signature sig k.dwKeyLen aiAlgid abHashValue dwHashLen
                      fl with
                  | .error e => some (false, SetLastError s2 e, some sig, k.dwKeyLen)
                  | .ok built =>
                    match impl.encrypt_block_impl k.aiAlgid k.context
                        (bytesAt built 0 k.dwKeyLen) RSAENH_ENCRYPT with
                    | none => some (false, s2, some built, k.dwKeyLen)
                    | some c => some (true, s2, some (memmove built 0 c), k.dwKeyLen))
                = some r → r.1 = false ∧ r.2.2.1 = some sig := by
            intro s1 x' hx' hal hr
            rcases hg : get_hash_for_signature impl s1 hProv hHash with
              _ | (s2 | ⟨s2, a', v, l⟩)
            · rw [hg] at hr; cases hr
            · rw [hg] at hr
              injection hr with hr
              rw [← hr]
              exact ⟨rfl, rfl⟩
            · rw [hg] at hr
              simp only [] at hr
              rw [tail s1 x' hx' hal s2 a' v l hg] at hr
              injection hr with hr
              rw [← hr]
              exact ⟨rfl, rfl⟩
          cases desc with
          | none =>
            simp only [] at h
            exact fin s0 x hx0 rfl h
          | some d =>
            simp only [] at h
            rcases hq : RSAENH_CPHashData impl s0 hProv hHash d 0 with _ | ⟨ok, s1⟩
            · rw [hq] at h; cases h
            · rw [hq] at h
              cases ok
              · injection h with h
                rw [← h]
                exact ⟨rfl, rfl⟩
              · obtain ⟨x', hx', hal⟩ := CPHashData_algid impl s0 s1 hProv hHash 0 d x hx0 hq
                exact fin s1 x' hx' hal h

/-- CPVerifySignature on a hash object of an algorithm other than MD2, MD4, MD5 and SHA-1:
whenever the call returns it returns FALSE. -/
theorem CPVerifySignature_bad_algid {κ η : Type} (impl : IMPL κ η) (s : CSP κ η)
    (hProv hHash : Nat) (x : CRYPTHASH η)
    (hx : lookup_hash s.handle_table hHash = some x)
    (ha : x.aiAlgid ≠ CALG_MD2 ∧ x.aiAlgid ≠ CALG_MD4 ∧ x.aiAlgid ≠ CALG_MD5 ∧
      x.aiAlgid ≠ CALG_SHA)
    (h32 : x.aiAlgid < 4294967296)
    (sig : List Nat) (len hPub : Nat) (desc : Option (List Nat)) (fl : Nat)
    (r : Bool × CSP κ η)
    (h : RSAENH_CPVerifySignature impl s hProv hHash sig len hPub desc fl = some r) :
    r.1 = false := by
  unfold RSAENH_CPVerifySignature at h
  by_cases hf : fl &&& (0xffffffff ^^^ (CRYPT_NOHASHOID ||| CRYPT_X931_FORMAT)) ≠ 0
  · rw [if_pos hf] at h
    injection h with h
    rw [← h]
  · rw [if_neg hf] at h
    by_cases hp : ¬ is_valid_handle s.handle_table hProv is_container = true
    · rw [if_pos hp] at h
      injection h with h
      rw [← h]
    · rw [if_neg hp] at h
      rcases hk : lookup_key s.handle_table hPub with _ | k
      · rw [hk] at h
        injection h with h
        rw [← h]
      · rw [hk] at h
        simp only [] at h
        have fin : ∀ (s1 : CSP κ η) (x' : CRYPTHASH η),
            lookup_hash s1.handle_table hHash = some x' → x'.aiAlgid = x.aiAlgid →
            (match get_hash_for_signature impl s1 hProv hHash with
              | none => none
              | some (.error s2) => some (false, s2)
              | some (.ok (s2, aiAlgid, abHashValue, dwHashLen)) =>
                match impl.encrypt_block_impl k.aiAlgid k.context
                    (bytesAt sig 0 k.dwKeyLen) RSAENH_DECRYPT with
                | none => some (false, s2)
                | some d =>
                  match build_hash_signature (heap_block len) len aiAlgid abHashValue
                      dwHashLen fl with
                  | .error e => some (false, SetLastError s2 e)
                  | .ok pbConstructed =>
                    if bytesAt (memmove (heap_block len) 0 d) 0 len
                        ≠ bytesAt pbConstructed 0 len then
                      some (false, SetLastError s2 WINERROR.NTE_BAD_SIGNATURE)
                    else some (true, s2))
              = some r → r.1 = false := by
          intro s1 x' hx' hal hr
          rcases hg : get_hash_for_signature impl s1 hProv hHash with
            _ | (s2 | ⟨s2, a', v, l⟩)
          · rw [hg] at hr; cases hr
          · rw [hg] at hr
            injection hr with hr
            rw [← hr]
          · rw [hg] at hr
            simp only [] at hr
            have e := get_hash_for_signature_algid impl s1 s2 hProv hHash a' v l x' hx'
              (by rw [hal]; exact h32) hg
            rw [e, hal, build_hash_signature_bad_algid _ _ _ _ _ _ ha] at hr
            rcases hd : impl.encrypt_block_impl k.aiAlgid k.context (bytesAt sig 0 k.dwKeyLen)
              RSAENH_DECRYPT with _ | d
            · rw [hd] at hr
              injection hr with hr
              rw [← hr]
            · rw [hd] at hr
              injection hr with hr
              rw [← hr]
        cases desc with
        | none =>
          simp only [] at h
          exact fin s x hx rfl h
        | some d =>
          simp only [] at h
          rcases hq : RSAENH_CPHashData impl s hProv hHash d 0 with _ | ⟨ok, s1⟩
          · rw [hq] at h; cases h
          · rw [hq] at h
            cases ok
            · injection h with h
              rw [← h]
            · obtain ⟨x', hx', hal⟩ := CPHashData_algid impl s s1 hProv hHash 0 d x hx hq
              exact fin s1 x' hx' hal h

/-- CPSignHash with a signature buffer returns when the hash object is neither a MAC nor a
TLS1PRF object. -/
theorem CPSignHash_returns {κ η : Type} (impl : IMPL κ η) (s : CSP κ η)
    (hProv hHash : Nat) (x : CRYPTHASH η)
    (hx : lookup_hash s.handle_table hHash = some x)
    (h1 : x.aiAlgid ≠ CALG_MAC) (h2 : x.aiAlgid ≠ CALG_TLS1PRF)
    (spec : Nat) (desc : Option (List Nat)) (fl : Nat) (sig : List Nat) (len : Nat) :
    ∃ r, RSAENH_CPSignHash impl s hProv hHash spec desc fl (some sig) len = some r := by
  unfold RSAENH_CPSignHash
  by_cases hf : fl &&& (0xffffffff ^^^ (CRYPT_NOHASHOID ||| CRYPT_X931_FORMAT)) ≠ 0
  · rw [if_pos hf]
    exact ⟨_, rfl⟩
  · rw [if_neg hf]
    simp only []
    have hobj := CPGetUserKey_objects s hProv spec
    obtain ⟨⟨ok, s0, hK⟩, hu⟩ : ∃ u, RSAENH_CPGetUserKey s hProv spec = u := ⟨_, rfl⟩
    rw [hu] at hobj ⊢
    simp only [] at hobj ⊢
    have hx0 : lookup_hash s0.handle_table hHash = some x := by
      rw [lookup_hash_congr _ _ hobj]
      exact hx
    cases ok
    · simp only [Bool.false_eq_true, not_false_eq_true, if_true]
      exact ⟨_, rfl⟩
    · simp only [not_true_eq_false, if_false]
      rcases hk : lookup_key s0.handle_table hK with _ | k
      · exact ⟨_, rfl⟩
      · simp only []
        by_cases hlen : k.dwKeyLen > len
        · rw [if_pos hlen]
          exact ⟨_, rfl⟩
        · rw [if_neg hlen]
          have fin : ∀ (s1 : CSP κ η) (x' : CRYPTHASH η),
              lookup_hash s1.handle_table hHash = some x' → x'.aiAlgid = x.aiAlgid →
              ∃ r, (match get_hash_for_signature impl s1 hProv hHash with
                | none => none
                | some (.error s2) => some (false, s2, some sig, k.dwKeyLen)
                | some (.ok (s2, aiAlgid, abHashValue, dwHashLen)) =>
                  match build_hash_signature sig k.dwKeyLen aiAlgid abHashValue dwHashLen
                      fl with
                  | .error e => some (false, SetLastError s2 e, some sig, k.dwKeyLen)
                  | .ok built =>
                    match impl.encrypt_block_impl k.aiAlgid k.context
                        (bytesAt built 0 k.dwKeyLen) RSAENH_ENCRYPT with
                    | none => some (false, s2, some built, k.dwKeyLen)
                    | some c => some (true, s2, some (memmove built 0 c), k.dwKeyLen))
                = some r := by
            intro s1 x' hx' hal
            obtain ⟨g, hg⟩ := get_hash_for_signature_returns impl s1 hProv hHash
              (fun y hy => by
                rw [hx'] at hy
                injection hy with hy
                subst hy
                rw [hal]
                exact ⟨h1, h2⟩)
            rw [hg]
            rcases g with s2 | ⟨s2, a', v, l⟩
            · exact ⟨_, rfl⟩
            · simp only []
              rcases build_hash_signature sig k.dwKeyLen a' v l fl with e | built
              · exact ⟨_, rfl⟩
              · simp only []
                rcases impl.encrypt_block_impl k.aiAlgid k.context
                  (bytesAt built 0 k.dwKeyLen) RSAENH_ENCRYPT with _ | c
                · exact ⟨_, rfl⟩
                · exact ⟨_, rfl⟩
          cases desc with
          | none =>
            simp only []
            exact fin s0 x hx0 rfl
          | some d =>
            simp only []
            obtain ⟨ok, s1, hq, -⟩ := CPHashData_nonmac impl s0 hProv hHash d x hx0 h1
            rw [hq]
            cases ok
            · exact ⟨_, rfl⟩
            · obtain ⟨x', hx', hal⟩ := CPHashData_algid impl s0 s1 hProv hHash 0 d x hx0 hq
              exact fin s1 x' hx' hal

/-- CPVerifySignature returns when the hash object is neither a MAC nor a TLS1PRF object. -/
theorem CPVerifySignature_returns {κ η : Type} (impl : IMPL κ η) (s : CSP κ η)
    (hProv hHash : Nat) (x : CRYPTHASH η)
    (hx : lookup_hash s.handle_table hHash = some x)
    (h1 : x.aiAlgid ≠ CALG_MAC) (h2 : x.aiAlgid ≠ CALG_TLS1PRF)
    (sig : List Nat) (len hPub : Nat) (desc : Option (List Nat)) (fl : Nat) :
    ∃ r, RSAENH_CPVerifySignature impl s hProv hHash sig len hPub desc fl = some r := by
  unfold RSAENH_CPVerifySignature
  by_cases hf : fl &&& (0xffffffff ^^^ (CRYPT_NOHASHOID ||| CRYPT_X931_FORMAT)) ≠ 0
  · rw [if_pos hf]
    exact ⟨_, rfl⟩
  · rw [if_neg hf]
    by_cases hp : ¬ is_valid_handle s.handle_table hProv is_container = true
    · rw [if_pos hp]
      exact ⟨_, rfl⟩
    · rw [if_neg hp]
      rcases hk : lookup_key s.handle_table hPub with _ | k
      · exact ⟨_, rfl⟩
      · simp only []
        have fin : ∀ (s1 : CSP κ η) (x' : CRYPTHASH η),
            lookup_hash s1.handle_table hHash = some x' → x'.aiAlgid = x.aiAlgid →
            ∃ r, (match get_hash_for_signature impl s1 hProv hHash with
              | none => none
              | some (.error s2) => some (false, s2)
              | some (.ok (s2, aiAlgid, abHashValue, dwHashLen)) =>
                match impl.encrypt_block_impl k.aiAlgid k.context
                    (bytesAt sig 0 k.dwKeyLen) RSAENH_DECRYPT with
                | none => some (false, s2)
                | some d =>
                  match build_hash_signature (heap_block len) len aiAlgid abHashValue
                      dwHashLen fl with
                  | .error e => some (false, SetLastError s2 e)
                  | .ok pbConstructed =>
                    if bytesAt (memmove (heap_block len) 0 d) 0 len
                        ≠ bytesAt pbConstructed 0 len then
                      some (false, SetLastError s2 WINERROR.NTE_BAD_SIGNATURE)
                    else some (true, s2))
              = some r := by
          intro s1 x' hx' hal
          obtain ⟨g, hg⟩ := get_hash_for_signature_returns impl s1 hProv hHash
            (fun y hy => by
              rw [hx'] at hy
              injection hy with hy
              subst hy
              rw [hal]
              exact ⟨h1, h2⟩)
          rw [hg]
          rcases g with s2 | ⟨s2, a', v, l⟩
          · exact ⟨_, rfl⟩
          · simp only []
            rcases impl.encrypt_block_impl k.aiAlgid k.context (bytesAt sig 0 k.dwKeyLen)
              RSAENH_DECRYPT with _ | d
            · exact ⟨_, rfl⟩
            · simp only []
              rcases build_hash_signature (heap_block len) len a' v l fl with e | built
              · exact ⟨_, rfl⟩
              · simp only []
                split <;> exact ⟨_, rfl⟩
        cases desc with
        | none =>
          simp only []
          exact fin s x hx rfl
        | some d =>
          simp only []
          obtain ⟨ok, s1, hq, -⟩ := CPHashData_nonmac impl s hProv hHash d x hx h1
          rw [hq]
          cases ok
          · exact ⟨_, rfl⟩
          · obtain ⟨x', hx', hal⟩ := CPHashData_algid impl s s1 hProv hHash 0 d x hx hq
            exact fin s1 x' hx' hal

/-- C39. The function build_hash_signature fails with NTE_BAD_ALGID, writing nothing, for every
hash algorithm id other than MD2, MD4, MD5 and SHA-1, under every flag word (with or without
CRYPT_NOHASHOID and CRYPT_X931_FORMAT).  Hence for a hash object of such an algorithm (a 32-bit
id) CPSignHash, called with a signature buffer, and CPVerifySignature return FALSE whenever
they return, whatever the flags, the key, the description and the signature; CPSignHash
leaves the buffer untouched.  Both calls do return when the hash object is neither a MAC nor
a TLS1PRF object (for instance SSL3 SHAMD5). -/
theorem signature_bad_algid {κ η : Type} (impl : IMPL κ η) (a : Nat)
    (ha : a ≠ CALG_MD2 ∧ a ≠ CALG_MD4 ∧ a ≠ CALG_MD5 ∧ a ≠ CALG_SHA) :
    (∀ (buf : List Nat) (dwLen : Nat) (hv : List Nat) (hl fl : Nat),
      build_hash_signature buf dwLen a hv hl fl = .error WINERROR.NTE_BAD_ALGID) ∧
    (∀ (s : CSP κ η) (hProv hHash : Nat) (x : CRYPTHASH η),
      lookup_hash s.handle_table hHash = some x → x.aiAlgid = a → a < 4294967296 →
      (∀ spec desc fl sig len r,
        RSAENH_CPSignHash impl s hProv hHash spec desc fl (some sig) len = some r →
        r.1 = false ∧ r.2.2.1 = some sig) ∧
      (∀ sig len hPub desc fl r,
        RSAENH_CPVerifySignature impl s hProv hHash sig len hPub desc fl = some r →
        r.1 = false) ∧
      (a ≠ CALG_MAC → a ≠ CALG_TLS1PRF →
        (∀ spec desc fl sig len,
          ∃ r, RSAENH_CPSignHash impl s hProv hHash spec desc fl (some sig) len = some r) ∧
        (∀ sig len hPub desc fl,
          ∃ r, RSAENH_CPVerifySignature impl s hProv hHash sig len hPub desc fl = some r))) := by
  refine ⟨fun buf dwLen hv hl fl => build_hash_signature_bad_algid _ _ _ _ _ _ ha, ?_⟩
  intro s hProv hHash x hx hxa h32
  subst hxa
  refine ⟨?_, ?_, ?_⟩
  · intro spec desc fl sig len r h
    exact CPSignHash_bad_algid impl s hProv hHash x hx ha h32 spec desc fl sig len r h
  · intro sig len hPub desc fl r h
    exact CPVerifySignature_bad_algid impl s hProv hHash x hx ha h32 sig len hPub desc fl r h
  · intro h1 h2
    exact ⟨fun spec desc fl sig len =>
        CPSignHash_returns impl s hProv hHash x hx h1 h2 spec desc fl sig len,
      fun sig len hPub desc fl =>
        CPVerifySignature_returns impl s hProv hHash x hx h1 h2 sig len hPub desc fl⟩

/-- Witness for C39: a Finished SSL3 SHAMD5 hash object; CPSignHash with CRYPT_NOHASHOID and a
48-byte buffer returns FALSE with NTE_BAD_ALGID. -/
theorem signature_bad_algid_witness :
    (RSAENH_CPSignHash toyImpl
        (toySignState (toyHash CALG_SSL3_SHAMD5 36 RSAENH_HASHSTATE_FINISHED [1, 2, 3]))
        1 3 AT_SIGNATURE none CRYPT_NOHASHOID (some (heap_block 48)) 48).map
      (fun r => (r.1, r.2.1.last_error, r.2.2.1))
      = some (false, WINERROR.NTE_BAD_ALGID, some (heap_block 48)) ∧
    (∀ (buf : List Nat) (dwLen : Nat) (hv : List Nat) (hl fl : Nat),
      build_hash_signature buf dwLen CALG_SSL3_SHAMD5 hv hl fl
        = .error WINERROR.NTE_BAD_ALGID) ∧
    (∀ spec desc fl sig len r,
      RSAENH_CPSignHash toyImpl
        (toySignState (toyHash CALG_SSL3_SHAMD5 36 RSAENH_HASHSTATE_FINISHED [1, 2, 3]))
        1 3 spec desc fl (some sig) len = some r →
      r.1 = false ∧ r.2.2.1 = some sig) :=
  ⟨by decide,
    (signature_bad_algid toyImpl CALG_SSL3_SHAMD5 (by decide)).1,
    ((signature_bad_algid toyImpl CALG_SSL3_SHAMD5 (by decide)).2
      (toySignState (toyHash CALG_SSL3_SHAMD5 36 RSAENH_HASHSTATE_FINISHED [1, 2, 3]))
      1 3 (toyHash CALG_SSL3_SHAMD5 36 RSAENH_HASHSTATE_FINISHED [1, 2, 3])
      (by decide) rfl (by decide)).1⟩

theorem ceil_div_step (m hs : Nat) (hpos : 0 < hs) (hm : 0 < m) :
    (m + hs + hs - 1) / hs = (m + hs - 1) / hs + 1 ∧ 1 ≤ (m + hs - 1) / hs := by
  constructor
  · have e : m + hs + hs - 1 = (m + hs - 1) + hs := by omega
    rw [e, Nat.add_div_right _ hpos]
  · exact Nat.div_pos (by omega) hpos

theorem ceil_div_one (d hs : Nat) (hd : 0 < d) (hle : d ≤ hs) : (d + hs - 1) / hs = 1 := by
  apply Nat.div_eq_of_lt_le <;> omega

theorem tls1_p_xor_index_le (v : List Nat) (hs n : Nat) :
    ∀ (f i : Nat) (buf : List Nat) (r : Nat × List Nat),
      tls1_p_xor v hs n f i buf = some r → i ≤ r.1
  | 0, i, buf, r, h => by unfold tls1_p_xor at h; cases h
  | f + 1, i, buf, r, h => by
    unfold tls1_p_xor at h
    by_cases h1 : i ≥ n
    · rw [if_pos h1] at h
      injection h with h
      rw [← h]
    · rw [if_neg h1] at h
      by_cases h2 : hs = 0
      · rw [if_pos h2] at h; cases h
      · rw [if_neg h2] at h
        simp only [] at h
        by_cases h3 : (i + 1) % hs ≠ 0
        · rw [if_pos h3] at h
          have := tls1_p_xor_index_le v hs n f (i + 1) _ r h
          omega
        · rw [if_neg h3] at h
          injection h with h
          rw [← h]
          exact Nat.le_succ i

/-- The counter of tls1_p_xor_count changes nothing, and it advances with the index: without
it the function is tls1_p_xor, and the statement is executed once for each step of `i`. -/
theorem tls1_p_xor_count_eq (v : List Nat) (hs n : Nat) :
    ∀ (f i : Nat) (buf : List Nat) (c : Nat),
      tls1_p_xor_count v hs n f i buf c
        = (tls1_p_xor v hs n f i buf).map (fun r => (r.1, r.2, c + (r.1 - i)))
  | 0, i, buf, c => rfl
  | f + 1, i, buf, c => by
    unfold tls1_p_xor_count tls1_p_xor
    by_cases h1 : i ≥ n
    · rw [if_pos h1, if_pos h1]
      simp
    · rw [if_neg h1, if_neg h1]
      by_cases h2 : hs = 0
      · rw [if_pos h2, if_pos h2]; rfl
      · rw [if_neg h2, if_neg h2]
        simp only []
        by_cases h3 : (i + 1) % hs ≠ 0
        · rw [if_pos h3, if_pos h3, tls1_p_xor_count_eq v hs n f (i + 1) _ (c + 1)]
          rcases hq : tls1_p_xor v hs n f (i + 1)
            (buf.set i (buf.getD i 0 ^^^ v.getD (i % hs) 0)) with _ | r
          · rfl
          · have := tls1_p_xor_index_le v hs n f (i + 1) _ r hq
            simp only [Option.map_some', Option.some.injEq, Prod.mk.injEq, true_and]
            omega
        · rw [if_neg h3, if_neg h3]
          simp

/-- The counters change nothing: without them tls1_p_loop_count is tls1_p_loop. -/
theorem tls1_p_loop_count_erase {κ η : Type} (impl : IMPL κ η) (seed : List Nat) (n : Nat) :
    ∀ (f : Nat) (s : CSP κ η) (h : CRYPTHASH η) (abAi : List Nat) (i : Nat) (buf : List Nat)
      (it xo : Nat),
      (tls1_p_loop_count impl seed n f s h abAi i buf it xo).map
          (fun r => (r.1, r.2.1, r.2.2.1))
        = tls1_p_loop impl seed n f s h abAi i buf
  | 0, s, h, abAi, i, buf, it, xo => rfl
  | f + 1, s, h, abAi, i, buf, it, xo => by
    unfold tls1_p_loop_count tls1_p_loop
    simp only []
    rcases update_hash impl (init_hash impl s h).2.1 (init_hash impl s h).2.2
      (bytesAt abAi 0 (init_hash impl s h).2.2.dwHashSize) with _ | ⟨s2, h2⟩
    · rfl
    · simp only []
      rcases update_hash impl s2 h2 seed with _ | ⟨s3, h3⟩
      · rfl
      · simp only []
        rcases finalize_hash impl s3 h3 with _ | ⟨s4, h4⟩
        · rfl
        · simp only []
          rw [tls1_p_xor_count_eq]
          rcases tls1_p_xor h4.abHashValue h4.dwHashSize n (h4.dwHashSize + 1) i buf
            with _ | ⟨i1, buf1⟩
          · rfl
          · simp only [Option.map_some']
            rcases update_hash impl (init_hash impl s4 h4).2.1 (init_hash impl s4 h4).2.2
              (bytesAt abAi 0 (init_hash impl s4 h4).2.2.dwHashSize) with _ | ⟨s6, h6⟩
            · rfl
            · simp only []
              rcases finalize_hash impl s6 h6 with _ | ⟨s7, h7⟩
              · rfl
              · simp only []
                by_cases hlt : i1 < n
                · rw [if_pos hlt, if_pos hlt]
                  exact tls1_p_loop_count_erase impl seed n f s7 h7 _ i1 buf1 _ _
                · rw [if_neg hlt, if_neg hlt]
                  rfl

/-- The counters change nothing: without them tls1_p_count is tls1_p. -/
theorem tls1_p_count_erase {κ η : Type} (impl : IMPL κ η) (s : CSP κ η) (hHMAC : Nat)
    (seed buf : List Nat) (n : Nat) :
    (tls1_p_count impl s hHMAC seed buf n).map (fun r => (r.1, r.2.1, r.2.2.1))
      = tls1_p impl s hHMAC seed buf n := by
  unfold tls1_p_count tls1_p
  rcases lookup_hash s.handle_table hHMAC with _ | x
  · rfl
  · simp only []
    rcases update_hash impl (init_hash impl s x).2.1 (init_hash impl s x).2.2 seed
      with _ | ⟨s2, h2⟩
    · rfl
    · simp only []
      rcases finalize_hash impl s2 h2 with _ | ⟨s3, h3⟩
      · rfl
      · simp only []
        rw [← tls1_p_loop_count_erase impl seed n (n + 1) s3 h3 _ 0 buf 0 0]
        rcases tls1_p_loop_count impl seed n (n + 1) s3 h3
          (memmove (heap_block RSAENH_MAX_HASH_SIZE) 0 (bytesAt h3.abHashValue 0 h3.dwHashSize))
          0 buf 0 0 with _ | ⟨s4, h4, b, it, xo⟩
        · rfl
        · rfl

/-- The outer loop of tls1_p on the HMAC object, from block `q` on: it returns after
max(1, ceil((n - q*hs) / hs)) passes and `n - q*hs` combined bytes. -/
theorem tls1_p_loop_count_spec {κ η : Type} (impl : IMPL κ η) (s : CSP κ η)
    (hp hk alg hs n : Nat) (K seed : List Nat) (e : PROV_ENUMALGS_EX)
    (hga : get_algid_info s.handle_table hp alg = .ok e) (he : e.dwDefaultLen / 8 = hs)
    (hpos : 0 < hs) :
    ∀ (f q : Nat) (h : CRYPTHASH η) (abAi buf : List Nat) (it xo : Nat),
      HmacObject h hp hk alg K → n ≤ buf.length → n - q * hs + 1 ≤ f →
      ∃ h' buf', tls1_p_loop_count impl seed n f s h abAi (q * hs) buf it xo
          = some (s, h', buf', it + max 1 ((n - q * hs + hs - 1) / hs), xo + (n - q * hs)) ∧
        HmacObject h' hp hk alg K ∧ buf'.length = buf.length
  | 0, q, h, abAi, buf, it, xo, _, _, hf => by omega
  | f + 1, q, h, abAi, buf, it, xo, hh, hbuf, hf => by
    have hq1 : (q + 1) * hs = q * hs + hs := by rw [Nat.add_mul, Nat.one_mul]
    obtain ⟨⟨x1, e1, i1, z1⟩, -, -⟩ := hmac_object_ops impl s h hp hk alg K e hh hga
    obtain ⟨-, u1, -⟩ := hmac_object_ops impl s x1 hp hk alg K e i1 hga
    obtain ⟨x2, e2, i2, z2⟩ := u1 (bytesAt abAi 0 hs)
    obtain ⟨-, u2, -⟩ := hmac_object_ops impl s x2 hp hk alg K e i2 hga
    obtain ⟨x3, e3, i3, z3⟩ := u2 seed
    obtain ⟨-, -, x4, e4, i4, z4⟩ := hmac_object_ops impl s x3 hp hk alg K e i3 hga
    obtain ⟨⟨y1, g1, j1, w1⟩, -, -⟩ := hmac_object_ops impl s x4 hp hk alg K e i4 hga
    obtain ⟨-, u3, -⟩ := hmac_object_ops impl s y1 hp hk alg K e j1 hga
    obtain ⟨y2, g2, j2, w2⟩ := u3 (bytesAt abAi 0 hs)
    obtain ⟨-, -, y3, g3, j3, w3⟩ := hmac_object_ops impl s y2 hp hk alg K e j2 hga
    rw [he] at z1 w1
    have z4' : x4.dwHashSize = hs := by rw [z4, z3, z2, z1]
    unfold tls1_p_loop_count
    simp only []
    rw [e1]
    simp only []
    rw [z1, e2]
    simp only []
    rw [e3]
    simp only []
    rw [e4]
    simp only []
    rw [z4', tls1_p_xor_count_eq]
    by_cases hin : q * hs < n
    · obtain ⟨buf1, hx, hl1, -⟩ := tls1_p_xor_spec x4.abHashValue hs n q hpos (hs + 1) 0 buf
        hpos (by omega) hbuf (by omega)
      replace hx : tls1_p_xor x4.abHashValue hs n (hs + 1) (q * hs) buf
          = some (min ((q + 1) * hs) n, buf1) := hx
      rw [hx]
      simp only [Option.map_some']
      rw [g1]
      simp only []
      rw [w1, g2]
      simp only []
      rw [g3]
      simp only []
      by_cases hmore : min ((q + 1) * hs) n < n
      · rw [if_pos hmore]
        have hmin : min ((q + 1) * hs) n = (q + 1) * hs := by omega
        rw [hmin]
        obtain ⟨h', buf', hr, hi', hl'⟩ := tls1_p_loop_count_spec impl s hp hk alg hs n K seed e
          hga he hpos f (q + 1) y3
          (memmove abAi 0 (bytesAt y3.abHashValue 0 y3.dwHashSize)) buf1 (it + 1)
          (xo + ((q + 1) * hs - q * hs)) j3
          (by rw [hl1]; exact hbuf) (by omega)
        rw [hr]
        refine ⟨h', buf', ?_, hi', hl'.trans hl1⟩
        obtain ⟨c1, c2⟩ := ceil_div_step (n - (q + 1) * hs) hs hpos (by omega)
        have e5 : n - q * hs + hs - 1 = n - (q + 1) * hs + hs + hs - 1 := by omega
        rw [e5, c1, Nat.max_eq_right c2, Nat.max_eq_right (by omega)]
        have e6 : it + 1 + (n - (q + 1) * hs + hs - 1) / hs
            = it + ((n - (q + 1) * hs + hs - 1) / hs + 1) := by omega
        have e7 : xo + ((q + 1) * hs - q * hs) + (n - (q + 1) * hs) = xo + (n - q * hs) := by
          omega
        rw [e6, e7]
      · rw [if_neg hmore]
        refine ⟨y3, buf1, ?_, j3, hl1⟩
        have hmin : min ((q + 1) * hs) n = n := by omega
        rw [hmin, ceil_div_one (n - q * hs) hs (by omega) (by omega)]
        rfl
    · unfold tls1_p_xor
      rw [if_pos (by omega)]
      simp only [Option.map_some']
      rw [g1]
      simp only []
      rw [w1, g2]
      simp only []
      rw [g3]
      simp only []
      rw [if_neg hin]
      refine ⟨y3, buf, ?_, j3, rfl⟩
      have e0 : n - q * hs = 0 := by omega
      have e1 : (0 + hs - 1) / hs = 0 := Nat.div_eq_of_lt (by omega)
      rw [e0, e1, Nat.sub_self]
      rfl

/-- C40. Termination of tls1_p: for an HMAC hash object over a hash algorithm with digest size
hs >= 1, every seed and every requested output length n within the buffer, n = 0 included,
tls1_p returns (TRUE); its outer loop makes max(1, ceil(n / hs)) passes and the statement
`pbBuffer[i] ^= abHashValue[i % dwHashSize]` that combines a buffer byte with a digest byte
is executed exactly n times in total.  The two numbers are the counters of tls1_p_count, which
is tls1_p with a counter at the head of the outer loop and one at that statement, and returns
what tls1_p returns. -/
theorem tls1_p_terminates {κ η : Type} (impl : IMPL κ η) (s : CSP κ η)
    (hHMAC hp hk alg hs n : Nat) (K seed buf : List Nat) (x : CRYPTHASH η)
    (hl : lookup_hash s.handle_table hHMAC = some x) (hx : HmacObject x hp hk alg K)
    (hga : ∃ e, get_algid_info s.handle_table hp alg = .ok e ∧ e.dwDefaultLen / 8 = hs)
    (hpos : 1 ≤ hs) (hbuf : n ≤ buf.length) :
    ∃ s' buf',
      tls1_p impl s hHMAC seed buf n = some (true, s', buf') ∧
      buf'.length = buf.length ∧
      tls1_p_count impl s hHMAC seed buf n
        = some (true, s', buf', max 1 ((n + hs - 1) / hs), n) := by
  obtain ⟨e, hga, he⟩ := hga
  obtain ⟨⟨x1, e1, i1, z1⟩, -, -⟩ := hmac_object_ops impl s x hp hk alg K e hx hga
  obtain ⟨-, u1, -⟩ := hmac_object_ops impl s x1 hp hk alg K e i1 hga
  obtain ⟨x2, e2, i2, z2⟩ := u1 seed
  obtain ⟨-, -, x3, e3, i3, z3⟩ := hmac_object_ops impl s x2 hp hk alg K e i2 hga
  obtain ⟨h', buf', hr, hi', hl'⟩ := tls1_p_loop_count_spec impl s hp hk alg hs n K seed e
    hga he hpos (n + 1) 0 x3
    (memmove (heap_block RSAENH_MAX_HASH_SIZE) 0 (bytesAt x3.abHashValue 0 x3.dwHashSize)) buf
    0 0 i3 hbuf (by omega)
  replace hr : tls1_p_loop_count impl seed n (n + 1) s x3
      (memmove (heap_block RSAENH_MAX_HASH_SIZE) 0 (bytesAt x3.abHashValue 0 x3.dwHashSize))
      0 buf 0 0 = some (s, h', buf', max 1 ((n + hs - 1) / hs), n) := by
    rw [Nat.zero_mul, Nat.sub_zero, Nat.zero_add, Nat.zero_add] at hr; exact hr
  have hrun : tls1_p_count impl s hHMAC seed buf n
      = some (true, s.withTable (store_object s.handle_table hHMAC (.hash h')), buf',
          max 1 ((n + hs - 1) / hs), n) := by
    unfold tls1_p_count
    rw [hl]
    simp only []
    rw [e1]
    simp only []
    rw [e2]
    simp only []
    rw [e3]
    simp only []
    rw [hr]
  refine ⟨_, buf', ?_, hl', hrun⟩
  rw [← tls1_p_count_erase, hrun]
  rfl

/-- Witness for C40: an HMAC object over the MD5 slot of the small engine (digest size 16).
With the requested length 40 the outer loop makes 3 passes (16, 16 and 8 bytes) and the
statement is executed 40 times; with the requested length 0 it makes one pass and the
statement is never executed. -/
theorem tls1_p_terminates_witness :
    (tls1_p_count toyImpl
        (toyState 0 [.hash { toyHash CALG_HMAC 16 RSAENH_HASHSTATE_IDLE [] with
          pHMACInfo := some ⟨CALG_MD5, hmac_pad 0x36 [1, 2, 3], 64,
            hmac_pad 0x5c [1, 2, 3], 64⟩ }])
        2 [7] (List.replicate 40 9) 40).map (fun r => (r.1, r.2.2.2)) = some (true, 3, 40) ∧
    max 1 ((40 + 16 - 1) / 16) = 3 ∧
    (∃ s' buf',
      tls1_p toyImpl
          (toyState 0 [.hash { toyHash CALG_HMAC 16 RSAENH_HASHSTATE_IDLE [] with
            pHMACInfo := some ⟨CALG_MD5, hmac_pad 0x36 [1, 2, 3], 64,
              hmac_pad 0x5c [1, 2, 3], 64⟩ }])
          2 [7] (List.replicate 40 9) 40 = some (true, s', buf') ∧
      buf'.length = (List.replicate 40 9).length ∧
      tls1_p_count toyImpl
          (toyState 0 [.hash { toyHash CALG_HMAC 16 RSAENH_HASHSTATE_IDLE [] with
            pHMACInfo := some ⟨CALG_MD5, hmac_pad 0x36 [1, 2, 3], 64,
              hmac_pad 0x5c [1, 2, 3], 64⟩ }])
          2 [7] (List.replicate 40 9) 40
        = some (true, s', buf', max 1 ((40 + 16 - 1) / 16), 40)) ∧
    ∃ s' buf',
      tls1_p toyImpl
          (toyState 0 [.hash { toyHash CALG_HMAC 16 RSAENH_HASHSTATE_IDLE [] with
            pHMACInfo := some ⟨CALG_MD5, hmac_pad 0x36 [1, 2, 3], 64,
              hmac_pad 0x5c [1, 2, 3], 64⟩ }])
          2 [7] [9, 9, 9] 0 = some (true, s', buf') ∧
      buf'.length = ([9, 9, 9] : List Nat).length ∧
      tls1_p_count toyImpl
          (toyState 0 [.hash { toyHash CALG_HMAC 16 RSAENH_HASHSTATE_IDLE [] with
            pHMACInfo := some ⟨CALG_MD5, hmac_pad 0x36 [1, 2, 3], 64,
              hmac_pad 0x5c [1, 2, 3], 64⟩ }])
          2 [7] [9, 9, 9] 0 = some (true, s', buf', max 1 ((0 + 16 - 1) / 16), 0) :=
  ⟨by decide, by decide,
    tls1_p_terminates toyImpl
      (toyState 0 [.hash { toyHash CALG_HMAC 16 RSAENH_HASHSTATE_IDLE [] with
        pHMACInfo := some ⟨CALG_MD5, hmac_pad 0x36 [1, 2, 3], 64, hmac_pad 0x5c [1, 2, 3], 64⟩ }])
      2 1 0 CALG_MD5 16 40 [1, 2, 3] [7] (List.replicate 40 9)
      { toyHash CALG_HMAC 16 RSAENH_HASHSTATE_IDLE [] with
        pHMACInfo := some ⟨CALG_MD5, hmac_pad 0x36 [1, 2, 3], 64, hmac_pad 0x5c [1, 2, 3], 64⟩ }
      rfl ⟨rfl, rfl, rfl, rfl, rfl⟩ ⟨enumalgs_at 0 6, by decide, by decide⟩
      (by decide) (by decide),
    tls1_p_terminates toyImpl
      (toyState 0 [.hash { toyHash CALG_HMAC 16 RSAENH_HASHSTATE_IDLE [] with
        pHMACInfo := some ⟨CALG_MD5, hmac_pad 0x36 [1, 2, 3], 64, hmac_pad 0x5c [1, 2, 3], 64⟩ }])
      2 1 0 CALG_MD5 16 0 [1, 2, 3] [7] [9, 9, 9]
      { toyHash CALG_HMAC 16 RSAENH_HASHSTATE_IDLE [] with
        pHMACInfo := some ⟨CALG_MD5, hmac_pad 0x36 [1, 2, 3], 64, hmac_pad 0x5c [1, 2, 3], 64⟩ }
      rfl ⟨rfl, rfl, rfl, rfl, rfl⟩ ⟨enumalgs_at 0 6, by decide, by decide⟩
      (by decide) (by decide)⟩

/-- CPHashData on a hash object that is not a MAC, Idle or Hashing, of an algorithm of the
container other than CALG_SSL3_SHAMD5: TRUE, and the state afterwards differs from the one
before in the hash object only, which is the one that update_hash makes. -/
theorem CPHashData_nonmac_state {κ η : Type} (impl : IMPL κ η) (s : CSP κ η)
    (hProv hHash : Nat) (d : List Nat) (x : CRYPTHASH η)
    (hh : lookup_hash s.handle_table hHash = some x) (hx : x.aiAlgid ≠ CALG_MAC)
    (hst : x.dwState = RSAENH_HASHSTATE_IDLE ∨ x.dwState = RSAENH_HASHSTATE_HASHING)
    (hal : (get_algid_info s.handle_table hProv x.aiAlgid).toBool = true)
    (hsm : x.aiAlgid ≠ CALG_SSL3_SHAMD5) :
    ∃ x', (∀ t : CSP κ η,
        update_hash impl t { x with dwState := RSAENH_HASHSTATE_HASHING } d = some (t, x')) ∧
      RSAENH_CPHashData impl s hProv hHash d 0
        = some (true, s.withTable (store_object s.handle_table hHash (.hash x'))) := by
  have h1e : (if x.dwState = RSAENH_HASHSTATE_IDLE then
      ({ x with dwState := RSAENH_HASHSTATE_HASHING } : CRYPTHASH η) else x)
      = { x with dwState := RSAENH_HASHSTATE_HASHING } := by
    by_cases hi : x.dwState = RSAENH_HASHSTATE_IDLE
    · rw [if_pos hi]
    · rw [if_neg hi]
      rcases hst with h | h
      · exact absurd h hi
      · cases x
        simp only [] at h
        subst h
        rfl
  have hup : ∃ x', ∀ t : CSP κ η,
      update_hash impl t { x with dwState := RSAENH_HASHSTATE_HASHING } d = some (t, x') := by
    unfold update_hash
    simp only []
    by_cases a1 : x.aiAlgid = CALG_HMAC
    · simp only [if_pos a1]
      rcases x.pHMACInfo with _ | info
      · exact ⟨_, fun t => rfl⟩
      · exact ⟨_, fun t => rfl⟩
    · simp only [if_neg a1, if_neg hx]
      exact ⟨_, fun t => rfl⟩
  obtain ⟨x', hx'⟩ := hup
  refine ⟨x', hx', ?_⟩
  unfold RSAENH_CPHashData
  rw [if_neg (by decide), hh]
  simp only []
  rw [if_neg (by
    intro h
    rcases h with h | h
    · rw [h] at hal; cases hal
    · exact hsm h), h1e]
  rw [if_neg (by simp), hx']
  simp only []
  have e : (s.withTable (store_object s.handle_table hHash
      (.hash { x with dwState := RSAENH_HASHSTATE_HASHING }))).withTable
      (store_object (s.withTable (store_object s.handle_table hHash
        (.hash { x with dwState := RSAENH_HASHSTATE_HASHING }))).handle_table hHash (.hash x'))
      = s.withTable (store_object s.handle_table hHash (.hash x')) := by
    show s.withTable (store_object (store_object s.handle_table hHash _) hHash _) = _
    rw [store_object_store _ _ _ _ _ ((lookup_hash_of_object _ _ _).mp hh)]
  rw [e]

/-- A CPEncrypt call with Final = TRUE that returns TRUE leaves the key object Idle, with the
chaining vector equal to the init vector (the hash handle names no MAC). -/
theorem CPEncrypt_final_rearm {κ η : Type} (impl : IMPL κ η) (t t' : CSP κ η)
    (hProv hKey hHash fl : Nat) (data buf : List Nat) (len bl m : Nat) (k0 : CRYPTKEY κ)
    (hkey : lookup_key t.handle_table hKey = some k0)
    (hH : ∀ x, lookup_hash t.handle_table hHash = some x → x.aiAlgid ≠ CALG_MAC)
    (h : RSAENH_CPEncrypt impl t hProv hKey hHash true fl data len bl = some (true, t', buf, m)) :
    ∃ k', lookup_key t'.handle_table hKey = some k' ∧
      k'.dwState = RSAENH_KEYSTATE_IDLE ∧ k'.abChainVector = k'.abInitVector := by
  unfold RSAENH_CPEncrypt at h
  rcases hq : transform_enter t hProv hKey fl RSAENH_KEYSTATE_ENCRYPTING with s1 | s1
  · rw [hq] at h
    simp only [Option.some.injEq, Prod.mk.injEq] at h
    exact absurd h.1 (by decide)
  · rw [hq] at h
    simp only [] at h
    obtain ⟨⟨k1, hk1, -⟩, hhs⟩ := transform_enter_inv t s1 hProv hKey fl _ k0 hkey hq
    have fin : ∀ s2 : CSP κ η, lookup_key s2.handle_table hKey = some k1 →
        (match lookup_key s2.handle_table hKey with
          | none => none
          | some k => CPEncrypt_transform impl s2 hKey k true fl data len bl)
          = some (true, t', buf, m) →
        ∃ k', lookup_key t'.handle_table hKey = some k' ∧
          k'.dwState = RSAENH_KEYSTATE_IDLE ∧ k'.abChainVector = k'.abInitVector := by
      intro s2 hk2 hr
      rw [hk2] at hr
      exact CPEncrypt_transform_rearm impl s2 t' hKey k1 k1 true fl data buf len bl m hk2
        (Or.inl rfl) hr
    by_cases hv : is_valid_handle s1.handle_table hHash is_hash = true
    · rw [if_pos hv] at h
      obtain ⟨x, hx⟩ := is_valid_handle_hash _ _ hv
      have hxm : x.aiAlgid ≠ CALG_MAC := hH x (by rw [← hhs hHash]; exact hx)
      rcases hd : RSAENH_CPHashData impl s1 hProv hHash (bytesAt data 0 len) 0
        with _ | ⟨ok, s2⟩
      · rw [hd] at h; cases h
      · rw [hd] at h
        cases ok
        · simp only [Option.some.injEq, Prod.mk.injEq] at h
          exact absurd h.1 (by decide)
        · simp only [] at h
          have hk2 := CPHashData_keys impl s1 s2 hProv hHash 0 _ x true hx hxm hd hKey
          exact fin s2 (by rw [hk2]; exact hk1) h
    · rw [if_neg hv] at h
      simp only [] at h
      exact fin s1 hk1 h

/-- The state that a CPEncrypt call on an Idle block-cipher key leaves behind when it fails at
the length check (NTE_BAD_DATA) or at the buffer check (ERROR_MORE_DATA): the key object is
Encrypting, the container handle is still valid, and a hash object of the call (not a MAC,
Idle or Hashing, of an accepted algorithm) has absorbed the `dwDataLen` bytes. -/
theorem CPEncrypt_fail_state {κ η : Type} (impl : IMPL κ η) (s : CSP κ η)
    (hProv hKey hHash : Nat) (Final : Bool) (pbData : List Nat) (dwDataLen dwBufLen : Nat)
    (k : CRYPTKEY κ)
    (hprov : is_valid_handle s.handle_table hProv is_container = true)
    (hkey : lookup_key s.handle_table hKey = some k)
    (hblk : GET_ALG_TYPE k.aiAlgid = ALG_TYPE_BLOCK)
    (hidle : k.dwState = RSAENH_KEYSTATE_IDLE)
    (hH : ∀ x, lookup_hash s.handle_table hHash = some x →
      x.aiAlgid ≠ CALG_MAC ∧
      (x.dwState = RSAENH_HASHSTATE_IDLE ∨ x.dwState = RSAENH_HASHSTATE_HASHING) ∧
      (get_algid_info s.handle_table hProv x.aiAlgid).toBool = true ∧
      x.aiAlgid ≠ CALG_SSL3_SHAMD5)
    (err : WINERROR)
    (hfail : (err = WINERROR.NTE_BAD_DATA ∧ Final = false ∧ dwDataLen % k.dwBlockLen ≠ 0) ∨
      (err = WINERROR.ERROR_MORE_DATA ∧ ¬ (Final = false ∧ dwDataLen % k.dwBlockLen ≠ 0) ∧
        dwMul (dwAdd (dwDataLen / k.dwBlockLen) (if Final then 1 else 0)) k.dwBlockLen
          > dwBufLen)) :
    ∃ s' buf n,
      RSAENH_CPEncrypt impl s hProv hKey hHash Final 0 pbData dwDataLen dwBufLen
        = some (false, s', buf, n) ∧
      s'.last_error = err ∧
      lookup_key s'.handle_table hKey
        = some { k with dwState := RSAENH_KEYSTATE_ENCRYPTING } ∧
      is_valid_handle s'.handle_table hProv is_container = true ∧
      ∀ x, lookup_hash s.handle_table hHash = some x →
        ∃ x', lookup_hash s'.handle_table hHash = some x' ∧
          ∀ t : CSP κ η,
            update_hash impl t { x with dwState := RSAENH_HASHSTATE_HASHING }
              (bytesAt pbData 0 dwDataLen) = some (t, x') := by
  have hobj := (lookup_key_of_object _ _ _).mp hkey
  have henter := transform_enter_ok s hProv hKey RSAENH_KEYSTATE_ENCRYPTING k hprov hkey
    (Or.inl hidle)
  obtain ⟨k1, hk1⟩ : ∃ k1 : CRYPTKEY κ, { k with dwState := RSAENH_KEYSTATE_ENCRYPTING } = k1 :=
    ⟨_, rfl⟩
  rw [hk1] at henter ⊢
  have k1alg : k1.aiAlgid = k.aiAlgid := by rw [← hk1]
  have k1bl : k1.dwBlockLen = k.dwBlockLen := by rw [← hk1]
  obtain ⟨s1, hs1⟩ : ∃ s1, s.withTable (store_object s.handle_table hKey (.key k1)) = s1 :=
    ⟨_, rfl⟩
  rw [hs1] at henter
  have hs1t : s1.handle_table = store_object s.handle_table hKey (.key k1) := by
    rw [← hs1]; rfl
  have hkey1 : lookup_key s1.handle_table hKey = some k1 := by
    rw [hs1t]; exact lookup_key_store_same _ _ _ _ hkey
  have hprov1 : is_valid_handle s1.handle_table hProv is_container = true := by
    rw [hs1t, is_valid_handle_store _ _ hProv (.key k) (.key k1) is_container hobj rfl]; exact hprov
  have hhash1 : ∀ hh, lookup_hash s1.handle_table hh = lookup_hash s.handle_table hh := by
    intro hh
    rw [hs1t]; exact lookup_hash_store_key_eq _ _ _ _ _ hkey
  have hga1 : ∀ a, get_algid_info s1.handle_table hProv a = get_algid_info s.handle_table hProv a := by
    intro a
    rw [hs1t]; exact get_algid_info_store_key _ _ _ _ _ _ hkey
  -- the transform at the end of the call
  have htr : ∀ s2 : CSP κ η, ∃ buf n,
      CPEncrypt_transform impl s2 hKey k1 Final 0 pbData dwDataLen dwBufLen
        = some (false, SetLastError s2 err, buf, n) := by
    intro s2
    unfold CPEncrypt_transform
    rw [k1alg, k1bl, if_pos hblk]
    rcases hfail with ⟨he, hF, hlen⟩ | ⟨he, hnot, hgt⟩
    · rw [if_pos ⟨by rw [hF]; decide, hlen⟩, he]
      exact ⟨_, _, rfl⟩
    · rw [if_neg (by
        intro h
        apply hnot
        refine ⟨?_, h.2⟩
        cases Final
        · rfl
        · exact absurd rfl h.1)]
      simp only []
      rw [if_pos hgt, he]
      exact ⟨_, _, rfl⟩
  unfold RSAENH_CPEncrypt
  rw [henter]
  simp only []
  rcases hq : lookup_hash s.handle_table hHash with _ | x
  · have hv : ¬ is_valid_handle s1.handle_table hHash is_hash = true := by
      intro hv
      obtain ⟨x, hx⟩ := is_valid_handle_hash _ _ hv
      rw [hhash1, hq] at hx
      cases hx
    rw [if_neg hv]
    simp only []
    rw [hkey1]
    simp only []
    obtain ⟨buf, n, hr⟩ := htr s1
    rw [hr]
    exact ⟨_, buf, n, rfl, rfl, hkey1, hprov1, fun x hx => by cases hx⟩
  · obtain ⟨g1, g2, g3, g4⟩ := hH x hq
    have hx1 : lookup_hash s1.handle_table hHash = some x := by rw [hhash1]; exact hq
    rw [if_pos (is_valid_handle_of_hash _ _ _ hx1)]
    obtain ⟨x', hup, hd⟩ := CPHashData_nonmac_state impl s1 hProv hHash
      (bytesAt pbData 0 dwDataLen) x hx1 g1 g2 (by rw [hga1]; exact g3) g4
    rw [hd]
    simp only []
    obtain ⟨s2, hs2⟩ : ∃ s2, s1.withTable (store_object s1.handle_table hHash (.hash x')) = s2 :=
      ⟨_, rfl⟩
    rw [hs2]
    have hs2t : s2.handle_table = store_object s1.handle_table hHash (.hash x') := by
      rw [← hs2]; rfl
    have hkey2 : lookup_key s2.handle_table hKey = some k1 := by
      rw [hs2t, lookup_key_store_hash_eq _ _ _ _ _ hx1]; exact hkey1
    have hprov2 : is_valid_handle s2.handle_table hProv is_container = true := by
      rw [hs2t, is_valid_handle_store_hash _ _ hProv x x' is_container hx1 rfl]; exact hprov1
    rw [hkey2]
    simp only []
    obtain ⟨buf, n, hr⟩ := htr s2
    rw [hr]
    refine ⟨_, buf, n, rfl, rfl, hkey2, hprov2, fun y hy => ?_⟩
    injection hy with hy
    subst hy
    refine ⟨x', ?_, hup⟩
    show lookup_hash s2.handle_table hHash = some x'
    rw [hs2t]
    exact lookup_hash_store_same _ _ _ _ hx1

/-- C36. A failed encryption still moves the key out of Idle.  A CPEncrypt call (valid provider
handle, no flags) on an Idle block-cipher key that fails at the length check (Final = FALSE
and a length that is no multiple of the block length: NTE_BAD_DATA) or at the buffer check
(encrypted length above dwBufLen: ERROR_MORE_DATA) returns FALSE with that error and leaves
the key object Encrypting, its other fields as before; a hash object passed to the call (not
a MAC, Idle or Hashing, of an accepted algorithm) has absorbed the `dwDataLen` plaintext
bytes.  Consequently every following CPDecrypt call on that key returns FALSE (NTE_BAD_DATA)
and changes no object, so the key stays Encrypting, while a CPEncrypt call with Final = TRUE
that returns TRUE leaves the key Idle again. -/
theorem failed_encrypt_leaves_encrypting {κ η : Type} (impl : IMPL κ η) (s : CSP κ η)
    (hProv hKey hHash : Nat) (Final : Bool) (pbData : List Nat) (dwDataLen dwBufLen : Nat)
    (k : CRYPTKEY κ)
    (hprov : is_valid_handle s.handle_table hProv is_container = true)
    (hkey : lookup_key s.handle_table hKey = some k)
    (hblk : GET_ALG_TYPE k.aiAlgid = ALG_TYPE_BLOCK)
    (hidle : k.dwState = RSAENH_KEYSTATE_IDLE)
    (hH : ∀ x, lookup_hash s.handle_table hHash = some x →
      x.aiAlgid ≠ CALG_MAC ∧
      (x.dwState = RSAENH_HASHSTATE_IDLE ∨ x.dwState = RSAENH_HASHSTATE_HASHING) ∧
      (get_algid_info s.handle_table hProv x.aiAlgid).toBool = true ∧
      x.aiAlgid ≠ CALG_SSL3_SHAMD5)
    (err : WINERROR)
    (hfail : (err = WINERROR.NTE_BAD_DATA ∧ Final = false ∧ dwDataLen % k.dwBlockLen ≠ 0) ∨
      (err = WINERROR.ERROR_MORE_DATA ∧ ¬ (Final = false ∧ dwDataLen % k.dwBlockLen ≠ 0) ∧
        dwMul (dwAdd (dwDataLen / k.dwBlockLen) (if Final then 1 else 0)) k.dwBlockLen
          > dwBufLen)) :
    ∃ s' buf n,
      RSAENH_CPEncrypt impl s hProv hKey hHash Final 0 pbData dwDataLen dwBufLen
        = some (false, s', buf, n) ∧
      s'.last_error = err ∧
      lookup_key s'.handle_table hKey
        = some { k with dwState := RSAENH_KEYSTATE_ENCRYPTING } ∧
      (∀ x, lookup_hash s.handle_table hHash = some x →
        ∃ x', lookup_hash s'.handle_table hHash = some x' ∧
          ∀ t : CSP κ η,
            update_hash impl t { x with dwState := RSAENH_HASHSTATE_HASHING }
              (bytesAt pbData 0 dwDataLen) = some (t, x')) ∧
      (∀ (hHash2 : Nat) (Final2 : Bool) (data2 : List Nat) (len2 : Nat),
        RSAENH_CPDecrypt impl s' hProv hKey hHash2 Final2 0 data2 len2
          = some (false, SetLastError s' WINERROR.NTE_BAD_DATA, data2, len2)) ∧
      (∀ (hHash3 fl : Nat) (data3 buf3 : List Nat) (len3 bl3 m : Nat) (t' : CSP κ η),
        (∀ x, lookup_hash s'.handle_table hHash3 = some x → x.aiAlgid ≠ CALG_MAC) →
        RSAENH_CPEncrypt impl s' hProv hKey hHash3 true fl data3 len3 bl3
          = some (true, t', buf3, m) →
        ∃ k', lookup_key t'.handle_table hKey = some k' ∧
          k'.dwState = RSAENH_KEYSTATE_IDLE) := by
  obtain ⟨s', buf, n, hr, he, hk, hp, hx⟩ := CPEncrypt_fail_state impl s hProv hKey hHash Final
    pbData dwDataLen dwBufLen k hprov hkey hblk hidle hH err hfail
  refine ⟨s', buf, n, hr, he, hk, hx, ?_, ?_⟩
  · intro hHash2 Final2 data2 len2
    unfold RSAENH_CPDecrypt
    rw [transform_enter_conflict s' hProv hKey _ _ hp hk
      (show RSAENH_KEYSTATE_ENCRYPTING ≠ RSAENH_KEYSTATE_IDLE by decide)
      (show RSAENH_KEYSTATE_ENCRYPTING ≠ RSAENH_KEYSTATE_DECRYPTING by decide)]
  · intro hHash3 fl data3 buf3 len3 bl3 m t' hm h
    obtain ⟨k', h1, h2, -⟩ := CPEncrypt_final_rearm impl s' t' hProv hKey hHash3 fl data3 buf3
      len3 bl3 m _ hk hm h
    exact ⟨k', h1, h2⟩

/-- Witness for C36: an Idle DES key (handle 2) and an Idle MD5 hash object (handle 3);
CPEncrypt with Final = FALSE and 5 bytes fails with NTE_BAD_DATA. -/
theorem failed_encrypt_leaves_encrypting_witness :
    (RSAENH_CPEncrypt toyImpl
        (toyState 0 [.key (toyDesKey RSAENH_KEYSTATE_IDLE CRYPT_MODE_CBC (List.replicate 24 0)),
          .hash (toyHash CALG_MD5 16 RSAENH_HASHSTATE_IDLE [])])
        1 2 3 false 0 [1, 2, 3, 4, 5, 0, 0, 0] 5 8).map
      (fun r => (r.1, r.2.1.last_error,
        (lookup_key r.2.1.handle_table 2).map (fun k => k.dwState),
        (lookup_hash r.2.1.handle_table 3).map (fun x => x.context)))
      = some (false, WINERROR.NTE_BAD_DATA, some RSAENH_KEYSTATE_ENCRYPTING,
          some [1, 2, 3, 4, 5]) ∧
    ∃ s' buf n,
      RSAENH_CPEncrypt toyImpl
        (toyState 0 [.key (toyDesKey RSAENH_KEYSTATE_IDLE CRYPT_MODE_CBC (List.replicate 24 0)),
          .hash (toyHash CALG_MD5 16 RSAENH_HASHSTATE_IDLE [])])
        1 2 3 false 0 [1, 2, 3, 4, 5, 0, 0, 0] 5 8 = some (false, s', buf, n) ∧
      s'.last_error = WINERROR.NTE_BAD_DATA ∧
      lookup_key s'.handle_table 2
        = some { toyDesKey RSAENH_KEYSTATE_IDLE CRYPT_MODE_CBC (List.replicate 24 0) with
            dwState := RSAENH_KEYSTATE_ENCRYPTING } ∧
      (∀ x, lookup_hash (toyState 0 [.key (toyDesKey RSAENH_KEYSTATE_IDLE CRYPT_MODE_CBC
            (List.replicate 24 0)),
          .hash (toyHash CALG_MD5 16 RSAENH_HASHSTATE_IDLE [])]).handle_table 3 = some x →
        ∃ x', lookup_hash s'.handle_table 3 = some x' ∧
          ∀ t : CSP Nat (List Nat),
            update_hash toyImpl t { x with dwState := RSAENH_HASHSTATE_HASHING }
              (bytesAt [1, 2, 3, 4, 5, 0, 0, 0] 0 5) = some (t, x')) ∧
      (∀ (hHash2 : Nat) (Final2 : Bool) (data2 : List Nat) (len2 : Nat),
        RSAENH_CPDecrypt toyImpl s' 1 2 hHash2 Final2 0 data2 len2
          = some (false, SetLastError s' WINERROR.NTE_BAD_DATA, data2, len2)) ∧
      (∀ (hHash3 fl : Nat) (data3 buf3 : List Nat) (len3 bl3 m : Nat)
          (t' : CSP Nat (List Nat)),
        (∀ x, lookup_hash s'.handle_table hHash3 = some x → x.aiAlgid ≠ CALG_MAC) →
        RSAENH_CPEncrypt toyImpl s' 1 2 hHash3 true fl data3 len3 bl3
          = some (true, t', buf3, m) →
        ∃ k', lookup_key t'.handle_table 2 = some k' ∧
          k'.dwState = RSAENH_KEYSTATE_IDLE) :=
  ⟨by decide,
    failed_encrypt_leaves_encrypting toyImpl
      (toyState 0 [.key (toyDesKey RSAENH_KEYSTATE_IDLE CRYPT_MODE_CBC (List.replicate 24 0)),
        .hash (toyHash CALG_MD5 16 RSAENH_HASHSTATE_IDLE [])])
      1 2 3 false [1, 2, 3, 4, 5, 0, 0, 0] 5 8
      (toyDesKey RSAENH_KEYSTATE_IDLE CRYPT_MODE_CBC (List.replicate 24 0))
      (by decide) rfl (by decide) rfl
      (fun x hx => by
        have e : some (toyHash CALG_MD5 16 RSAENH_HASHSTATE_IDLE []) = some x := hx
        injection e with e
        subst e
        exact ⟨by decide, Or.inl rfl, by decide, by decide⟩)
      WINERROR.NTE_BAD_DATA (Or.inl ⟨rfl, rfl, by decide⟩)⟩

/-- CPEncrypt for the MAC (no hash handle, Final = FALSE, no flags) on a block-cipher key with
data whose length is no multiple of the block length: FALSE with NTE_BAD_DATA; the key
object is as before but for the state, which goes from Idle to Encrypting. -/
theorem CPEncrypt_nohash_unaligned {κ η : Type} (impl : IMPL κ η) (s : CSP κ η)
    (hProv hKey : Nat) (d : List Nat) (n bl : Nat) (k : CRYPTKEY κ)
    (hprov : is_valid_handle s.handle_table hProv is_container = true)
    (hkey : lookup_key s.handle_table hKey = some k)
    (hblk : GET_ALG_TYPE k.aiAlgid = ALG_TYPE_BLOCK)
    (hlen : n % k.dwBlockLen ≠ 0) :
    CPEncrypt_nohash impl s hProv hKey false 0 d n bl
      = some (false,
          SetLastError (s.withTable (store_object s.handle_table hKey
            (.key (if k.dwState = RSAENH_KEYSTATE_IDLE then
              { k with dwState := RSAENH_KEYSTATE_ENCRYPTING } else k))))
            WINERROR.NTE_BAD_DATA, d, n) := by
  unfold CPEncrypt_nohash
  by_cases hi : k.dwState = RSAENH_KEYSTATE_IDLE
  · rw [if_pos hi, transform_enter_ok s hProv hKey _ k hprov hkey (Or.inl hi)]
    simp only []
    have hk1 : lookup_key (s.withTable (store_object s.handle_table hKey
        (.key { k with dwState := RSAENH_KEYSTATE_ENCRYPTING }))).handle_table hKey
        = some { k with dwState := RSAENH_KEYSTATE_ENCRYPTING } :=
      lookup_key_store_same _ _ _ _ hkey
    rw [hk1]
    simp only []
    exact CPEncrypt_transform_bad_length impl _ hKey _ 0 d n bl hblk hlen
  · rw [if_neg hi]
    by_cases he : k.dwState = RSAENH_KEYSTATE_ENCRYPTING
    · have hke : ({ k with dwState := RSAENH_KEYSTATE_ENCRYPTING } : CRYPTKEY κ) = k := by
        cases k
        simp only [] at he
        subst he
        rfl
      rw [transform_enter_ok s hProv hKey _ k hprov hkey (Or.inr he), hke]
      simp only []
      have hk1 : lookup_key (s.withTable (store_object s.handle_table hKey
          (.key k))).handle_table hKey = some k :=
        lookup_key_store_same _ _ _ _ hkey
      rw [hk1]
      simp only []
      rw [CPEncrypt_transform_bad_length impl _ hKey _ 0 d n bl hblk hlen]
    · rw [transform_enter_conflict s hProv hKey _ k hprov hkey hi he]
      simp only []
      rw [store_object_same _ _ _ ((lookup_key_of_object _ _ _).mp hkey)]
      rfl

/-- CPEncrypt for the MAC (no hash handle, Final = FALSE, no flags) on a block-cipher key that
is Idle or Encrypting, with no data: TRUE; the key object is as before but for the state. -/
theorem CPEncrypt_nohash_empty {κ η : Type} (impl : IMPL κ η) (s : CSP κ η)
    (hProv hKey : Nat) (k : CRYPTKEY κ)
    (hprov : is_valid_handle s.handle_table hProv is_container = true)
    (hkey : lookup_key s.handle_table hKey = some k)
    (hblk : GET_ALG_TYPE k.aiAlgid = ALG_TYPE_BLOCK)
    (hst : k.dwState = RSAENH_KEYSTATE_IDLE ∨ k.dwState = RSAENH_KEYSTATE_ENCRYPTING) :
    CPEncrypt_nohash impl s hProv hKey false 0 [] 0 0
      = some (true,
          s.withTable (store_object s.handle_table hKey
            (.key { k with dwState := RSAENH_KEYSTATE_ENCRYPTING })), [], 0) := by
  unfold CPEncrypt_nohash
  rw [transform_enter_ok s hProv hKey _ k hprov hkey hst]
  simp only []
  have hk1 : lookup_key (s.withTable (store_object s.handle_table hKey
      (.key { k with dwState := RSAENH_KEYSTATE_ENCRYPTING }))).handle_table hKey
      = some { k with dwState := RSAENH_KEYSTATE_ENCRYPTING } :=
    lookup_key_store_same _ _ _ _ hkey
  rw [hk1]
  simp only []
  unfold CPEncrypt_transform
  simp only []
  rw [if_pos hblk, if_neg (by simp)]
  have e0 : dwMul (dwAdd (0 / k.dwBlockLen) (if false = true then 1 else 0)) k.dwBlockLen = 0 := by
    simp [dwMul, dwAdd]
  rw [e0, if_neg (by decide)]
  have e1 : fill_loop (dwSub 0 0 % 256) (min 0 0 - 0) ([] : List Nat) 0 = [] := rfl
  rw [e1]
  have e2 : block_loop impl false 0 0
      ({ k with dwState := RSAENH_KEYSTATE_ENCRYPTING } : CRYPTKEY κ) [] 0 local_block
      local_block = some (true, { k with dwState := RSAENH_KEYSTATE_ENCRYPTING }, []) := rfl
  rw [e2]
  simp only [if_true, Bool.false_eq_true, if_false]
  have e3 : (s.withTable (store_object s.handle_table hKey
      (.key { k with dwState := RSAENH_KEYSTATE_ENCRYPTING }))).withTable
      (store_object (s.withTable (store_object s.handle_table hKey
        (.key { k with dwState := RSAENH_KEYSTATE_ENCRYPTING }))).handle_table hKey
        (.key { k with dwState := RSAENH_KEYSTATE_ENCRYPTING }))
      = s.withTable (store_object s.handle_table hKey
        (.key { k with dwState := RSAENH_KEYSTATE_ENCRYPTING })) := by
    show s.withTable (store_object (store_object s.handle_table hKey _) hKey _) = _
    rw [store_object_store _ _ _ _ _ ((lookup_key_of_object _ _ _).mp hkey)]
  rw [e3]

/-- CPHashData on a MAC hash object, Idle or Hashing, in a container that knows CALG_MAC, when
the inner CPEncrypt call returns the state `s2`: TRUE in the state `s2` with the hash object
stored again. -/
theorem CPHashData_mac {κ η : Type} (impl : IMPL κ η) (s s2 : CSP κ η)
    (hProv hHash : Nat) (d : List Nat) (x : CRYPTHASH η) (ok : Bool) (b : List Nat) (m : Nat)
    (hh : lookup_hash s.handle_table hHash = some x) (hmac : x.aiAlgid = CALG_MAC)
    (hst : x.dwState = RSAENH_HASHSTATE_IDLE ∨ x.dwState = RSAENH_HASHSTATE_HASHING)
    (hal : (get_algid_info s.handle_table hProv CALG_MAC).toBool = true)
    (henc : CPEncrypt_nohash impl
      (s.withTable (store_object s.handle_table hHash
        (.hash { x with dwState := RSAENH_HASHSTATE_HASHING })))
      x.hProv x.hKey false 0 d d.length d.length = some (ok, s2, b, m)) :
    RSAENH_CPHashData impl s hProv hHash d 0
      = some (true, s2.withTable (store_object s2.handle_table hHash
          (.hash { x with dwState := RSAENH_HASHSTATE_HASHING }))) := by
  have h1e : (if x.dwState = RSAENH_HASHSTATE_IDLE then
      ({ x with dwState := RSAENH_HASHSTATE_HASHING } : CRYPTHASH η) else x)
      = { x with dwState := RSAENH_HASHSTATE_HASHING } := by
    by_cases hi : x.dwState = RSAENH_HASHSTATE_IDLE
    · rw [if_pos hi]
    · rw [if_neg hi]
      rcases hst with h | h
      · exact absurd h hi
      · cases x
        simp only [] at h
        subst h
        rfl
  unfold RSAENH_CPHashData
  rw [if_neg (by decide), hh]
  simp only []
  rw [if_neg (by
    intro h
    rcases h with h | h
    · rw [hmac] at h
      rw [h] at hal
      cases hal
    · rw [hmac] at h; revert h; decide), h1e]
  rw [if_neg (by simp)]
  unfold update_hash
  simp only []
  rw [if_neg (by rw [hmac]; decide), if_pos hmac, henc]

/-- C38. MAC update with unaligned data.  For a MAC hash object (Idle or Hashing, in a container
that knows CALG_MAC) bound to a block-cipher key, CPHashData with data whose length is no
multiple of the block length returns TRUE although the non-final encrypt pass was rejected
(the last error is NTE_BAD_DATA).  The key object afterwards is the one before but for its
state (Idle becomes Encrypting): chaining vector and key context are unchanged; the hash
object is the one before in state Hashing; no other object changes.  So the data contributes
nothing to the MAC value: when the key is Idle or Encrypting, every object afterwards is what
the same call with no data at all leaves behind. -/
theorem mac_update_unaligned {κ η : Type} (impl : IMPL κ η) (s : CSP κ η)
    (hProv hHash : Nat) (d : List Nat) (x : CRYPTHASH η) (k : CRYPTKEY κ)
    (hh : lookup_hash s.handle_table hHash = some x) (hmac : x.aiAlgid = CALG_MAC)
    (hst : x.dwState = RSAENH_HASHSTATE_IDLE ∨ x.dwState = RSAENH_HASHSTATE_HASHING)
    (hal : (get_algid_info s.handle_table hProv CALG_MAC).toBool = true)
    (hp : is_valid_handle s.handle_table x.hProv is_container = true)
    (hk : lookup_key s.handle_table x.hKey = some k)
    (hblk : GET_ALG_TYPE k.aiAlgid = ALG_TYPE_BLOCK)
    (hlen : d.length % k.dwBlockLen ≠ 0) :
    ∃ s', RSAENH_CPHashData impl s hProv hHash d 0 = some (true, s') ∧
      s'.last_error = WINERROR.NTE_BAD_DATA ∧
      lookup_key s'.handle_table x.hKey
        = some (if k.dwState = RSAENH_KEYSTATE_IDLE then
            { k with dwState := RSAENH_KEYSTATE_ENCRYPTING } else k) ∧
      lookup_hash s'.handle_table hHash
        = some { x with dwState := RSAENH_HASHSTATE_HASHING } ∧
      (∀ h, h ≠ x.hKey → h ≠ hHash →
        lookup_object s'.handle_table h = lookup_object s.handle_table h) ∧
      (k.dwState = RSAENH_KEYSTATE_IDLE ∨ k.dwState = RSAENH_KEYSTATE_ENCRYPTING →
        ∃ s0, RSAENH_CPHashData impl s hProv hHash [] 0 = some (true, s0) ∧
          s0.handle_table = s'.handle_table ∧ s0.rand = s'.rand) := by
  obtain ⟨h1, hh1⟩ : ∃ h1 : CRYPTHASH η, { x with dwState := RSAENH_HASHSTATE_HASHING } = h1 :=
    ⟨_, rfl⟩
  obtain ⟨k1, hk1⟩ : ∃ k1 : CRYPTKEY κ, (if k.dwState = RSAENH_KEYSTATE_IDLE then
      { k with dwState := RSAENH_KEYSTATE_ENCRYPTING } else k) = k1 := ⟨_, rfl⟩
  have hobj := (lookup_hash_of_object _ _ _).mp hh
  obtain ⟨s1, hs1⟩ : ∃ s1, s.withTable (store_object s.handle_table hHash (.hash h1)) = s1 :=
    ⟨_, rfl⟩
  have hs1t : s1.handle_table = store_object s.handle_table hHash (.hash h1) := by
    rw [← hs1]; rfl
  have hp1 : is_valid_handle s1.handle_table x.hProv is_container = true := by
    rw [hs1t, is_valid_handle_store_hash _ _ x.hProv x h1 is_container hh rfl]; exact hp
  have hk1s : lookup_key s1.handle_table x.hKey = some k := by
    rw [hs1t, lookup_key_store_hash_eq _ _ _ _ _ hh]; exact hk
  have hh1s : lookup_hash s1.handle_table hHash = some h1 := by
    rw [hs1t]; exact lookup_hash_store_same _ _ _ _ hh
  have hne : x.hKey ≠ hHash := by
    intro e
    rw [e, lookup_key_of_object, hobj] at hk
    cases hk
  have henc := CPEncrypt_nohash_unaligned impl s1 x.hProv x.hKey d d.length d.length k hp1 hk1s
    hblk hlen
  rw [hk1] at henc ⊢
  have hrun := CPHashData_mac impl s _ hProv hHash d x false d d.length hh hmac hst hal
    (by rw [hh1, hs1]; exact henc)
  rw [hh1] at hrun ⊢
  refine ⟨_, hrun, rfl, ?_, ?_, ?_, ?_⟩
  · show lookup_key (store_object (store_object s1.handle_table x.hKey (.key k1)) hHash
      (.hash h1)) x.hKey = some k1
    rw [lookup_key_of_object, lookup_object_store_other _ _ _ _ (Ne.symm hne),
      ← lookup_key_of_object]
    exact lookup_key_store_same _ _ _ _ hk1s
  · show lookup_hash (store_object (store_object s1.handle_table x.hKey (.key k1)) hHash
      (.hash h1)) hHash = some h1
    apply lookup_hash_store_same _ _ h1
    rw [lookup_hash_store_key_eq _ _ _ _ _ hk1s]
    exact hh1s
  · intro h n1 n2
    show lookup_object (store_object (store_object s1.handle_table x.hKey (.key k1)) hHash
      (.hash h1)) h = _
    rw [lookup_object_store_other _ _ _ _ (Ne.symm n2),
      lookup_object_store_other _ _ _ _ (Ne.symm n1), hs1t,
      lookup_object_store_other _ _ _ _ (Ne.symm n2)]
  · intro hks
    have hk1e : k1 = { k with dwState := RSAENH_KEYSTATE_ENCRYPTING } := by
      rw [← hk1]
      by_cases hi : k.dwState = RSAENH_KEYSTATE_IDLE
      · rw [if_pos hi]
      · rw [if_neg hi]
        rcases hks with h | h
        · exact absurd h hi
        · cases k
          simp only [] at h
          subst h
          rfl
    have henc0 := CPEncrypt_nohash_empty impl s1 x.hProv x.hKey k hp1 hk1s hblk hks
    rw [← hk1e] at henc0
    have hrun0 := CPHashData_mac impl s _ hProv hHash [] x true [] 0 hh hmac hst hal
      (by rw [hh1, hs1]; exact henc0)
    rw [hh1] at hrun0
    exact ⟨_, hrun0, rfl, rfl⟩

/-- Witness for C38: an Idle DES key in CBC mode (handle 2) and an Idle MAC hash object bound to
it (handle 3); CPHashData with 5 bytes returns TRUE and the chaining vector of the key is
what it was. -/
theorem mac_update_unaligned_witness :
    (RSAENH_CPHashData toyImpl
        (toyState 0 [.key (toyDesKey RSAENH_KEYSTATE_IDLE CRYPT_MODE_CBC (List.replicate 24 0)),
          .hash { toyHash CALG_MAC 8 RSAENH_HASHSTATE_IDLE [] with hKey := 2 }])
        1 3 [1, 2, 3, 4, 5] 0).map
      (fun r => (r.1, r.2.last_error,
        (lookup_key r.2.handle_table 2).map (fun k => (k.dwState, k.abChainVector))))
      = some (true, WINERROR.NTE_BAD_DATA,
          some (RSAENH_KEYSTATE_ENCRYPTING, List.replicate 24 0)) ∧
    ∃ s', RSAENH_CPHashData toyImpl
        (toyState 0 [.key (toyDesKey RSAENH_KEYSTATE_IDLE CRYPT_MODE_CBC (List.replicate 24 0)),
          .hash { toyHash CALG_MAC 8 RSAENH_HASHSTATE_IDLE [] with hKey := 2 }])
        1 3 [1, 2, 3, 4, 5] 0 = some (true, s') ∧
      s'.last_error = WINERROR.NTE_BAD_DATA ∧
      lookup_key s'.handle_table
          ({ toyHash CALG_MAC 8 RSAENH_HASHSTATE_IDLE [] with hKey := 2 } :
            CRYPTHASH (List Nat)).hKey
        = some (if (toyDesKey RSAENH_KEYSTATE_IDLE CRYPT_MODE_CBC
              (List.replicate 24 0)).dwState = RSAENH_KEYSTATE_IDLE then
            { toyDesKey RSAENH_KEYSTATE_IDLE CRYPT_MODE_CBC (List.replicate 24 0) with
              dwState := RSAENH_KEYSTATE_ENCRYPTING }
            else toyDesKey RSAENH_KEYSTATE_IDLE CRYPT_MODE_CBC (List.replicate 24 0)) ∧
      lookup_hash s'.handle_table 3
        = some { ({ toyHash CALG_MAC 8 RSAENH_HASHSTATE_IDLE [] with hKey := 2 } :
            CRYPTHASH (List Nat)) with dwState := RSAENH_HASHSTATE_HASHING } ∧
      (∀ h, h ≠ ({ toyHash CALG_MAC 8 RSAENH_HASHSTATE_IDLE [] with hKey := 2 } :
            CRYPTHASH (List Nat)).hKey → h ≠ 3 →
        lookup_object s'.handle_table h = lookup_object
          (toyState 0 [.key (toyDesKey RSAENH_KEYSTATE_IDLE CRYPT_MODE_CBC
            (List.replicate 24 0)),
            .hash { toyHash CALG_MAC 8 RSAENH_HASHSTATE_IDLE [] with hKey := 2 }]).handle_table
          h) ∧
      ((toyDesKey RSAENH_KEYSTATE_IDLE CRYPT_MODE_CBC (List.replicate 24 0)).dwState
          = RSAENH_KEYSTATE_IDLE ∨
        (toyDesKey RSAENH_KEYSTATE_IDLE CRYPT_MODE_CBC (List.replicate 24 0)).dwState
          = RSAENH_KEYSTATE_ENCRYPTING →
        ∃ s0, RSAENH_CPHashData toyImpl
            (toyState 0 [.key (toyDesKey RSAENH_KEYSTATE_IDLE CRYPT_MODE_CBC
              (List.replicate 24 0)),
              .hash { toyHash CALG_MAC 8 RSAENH_HASHSTATE_IDLE [] with hKey := 2 }])
            1 3 [] 0 = some (true, s0) ∧
          s0.handle_table = s'.handle_table ∧ s0.rand = s'.rand) :=
  ⟨by decide,
    mac_update_unaligned toyImpl
      (toyState 0 [.key (toyDesKey RSAENH_KEYSTATE_IDLE CRYPT_MODE_CBC (List.replicate 24 0)),
        .hash { toyHash CALG_MAC 8 RSAENH_HASHSTATE_IDLE [] with hKey := 2 }])
      1 3 [1, 2, 3, 4, 5] { toyHash CALG_MAC 8 RSAENH_HASHSTATE_IDLE [] with hKey := 2 }
      (toyDesKey RSAENH_KEYSTATE_IDLE CRYPT_MODE_CBC (List.replicate 24 0))
      rfl rfl (Or.inl rfl) (by decide) (by decide) rfl (by decide) (by decide)⟩

/-- C37. SChannel sub-key derivation at a MAC length of 1024 bits.  On a master key of the
SChannel personality CPSetKeyParam(KP_SCHANNEL_ALG) stores the MAC algorithm record with
cBits = 1024 and returns TRUE; CPDeriveKey(CALG_SCHANNEL_MAC_KEY) with CRYPT_SERVER on the
master hash then returns TRUE with a key object of 128 bytes (new_key accepts the length),
and its memcpy reads 128 bytes at offset 128 of the digest array of 104 bytes into the key
array of 48 bytes: the slice ends at 256 > 104 and its length is 128 > 48. -/
theorem schannel_derive_out_of_bounds :
    RSAENH_CPSetKeyParam toyDeriveState 1 2 KP_SCHANNEL_ALG
        (.schannel_alg ⟨SCHANNEL_MAC_KEY, CALG_SHA, 1024, 0, 0⟩) 0
      = some (true, toyState RSAENH_PERSONALITY_SCHANNEL
          [.key (toyMasterKey RSAENH_KEYSTATE_MASTERKEY CALG_DES 64 1024 []),
           .hash { toyHash CALG_SCHANNEL_MASTER_HASH 0 RSAENH_HASHSTATE_IDLE [] with
             hKey := 2, abHashValue := List.range 104 }]) ∧
    (RSAENH_CPDeriveKey toyImpl
        (toyState RSAENH_PERSONALITY_SCHANNEL
          [.key (toyMasterKey RSAENH_KEYSTATE_MASTERKEY CALG_DES 64 1024 []),
           .hash { toyHash CALG_SCHANNEL_MASTER_HASH 0 RSAENH_HASHSTATE_IDLE [] with
             hKey := 2, abHashValue := List.range 104 }])
        1 CALG_SCHANNEL_MAC_KEY 3 CRYPT_SERVER (some 0)).map
      (fun d => (d.1, d.2.2, (lookup_key d.2.1.handle_table 4).map (fun k => k.dwKeyLen)))
      = some (true, some 4, some 128) ∧
    derive_schannel_copies CALG_SCHANNEL_MAC_KEY CRYPT_SERVER
        (toyMasterKey RSAENH_KEYSTATE_MASTERKEY CALG_DES 64 1024 [])
        (toySecretKey CALG_SCHANNEL_MAC_KEY 128 0 [])
      = [(128, 128, RSAENH_MAX_KEY_SIZE)] ∧
    RSAENH_MAX_HASH_SIZE < 128 + 128 ∧ RSAENH_MAX_KEY_SIZE < 128 := by
  refine ⟨by decide, by decide, by decide, by decide, by decide⟩

theorem cfb_loop_chain_length {κ η : Type} (impl : IMPL κ η) (alg : Nat) (ctx : κ) (bl : Nat)
    (dec : Bool) (inp : List Nat) : ∀ (n j : Nat) (chain out o : List Nat),
    (cfb_loop impl alg ctx bl dec inp n j chain out o).1.length = chain.length
  | 0, _, _, _, _ => rfl
  | n + 1, j, chain, out, o => by
    simp only [cfb_loop]
    rw [cfb_loop_chain_length impl alg ctx bl dec inp n (j + 1), cfb_shift_length]

/-- One block in CFB mode: the chaining vector and the bytes written do not depend on what the
locals `out` and `o` hold on entry. -/
theorem cfb_loop_det {κ η : Type} (impl : IMPL κ η) (alg : Nat) (ctx : κ) (bl : Nat)
    (inp : List Nat) (hprim : BlockTotal impl alg ctx bl) (hbl : 0 < bl) :
    ∀ (n j : Nat) (chain out o out2 o2 : List Nat),
    j + n ≤ bl → bl ≤ out.length → bl ≤ out2.length → bl ≤ o.length → bl ≤ o2.length →
    bl ≤ chain.length →
    (cfb_loop impl alg ctx bl false inp n j chain out o).1
        = (cfb_loop impl alg ctx bl false inp n j chain out2 o2).1 ∧
      ∀ j', j ≤ j' → j' < j + n →
        (cfb_loop impl alg ctx bl false inp n j chain out o).2.1.getD j' 0
          = (cfb_loop impl alg ctx bl false inp n j chain out2 o2).2.1.getD j' 0
  | 0, j, chain, out, o, out2, o2, _, _, _, _, _, _ => by
    refine ⟨rfl, ?_⟩
    intro j' h1 h2; omega
  | n + 1, j, chain, out, o, out2, o2, hj, ho, ho2, hoo, hoo2, hcl => by
    obtain ⟨c, hE, hclen⟩ := hprim (bytesAt chain 0 bl) (bytesAt_length _ _ _ (by omega))
    have e1 : call_encrypt_block impl alg ctx (bytesAt chain 0 bl) o RSAENH_ENCRYPT
        = c ++ o.drop c.length := call_encrypt_block_some _ _ _ _ _ _ _ hE (by omega)
    have e2 : call_encrypt_block impl alg ctx (bytesAt chain 0 bl) o2 RSAENH_ENCRYPT
        = c ++ o2.drop c.length := call_encrypt_block_some _ _ _ _ _ _ _ hE (by omega)
    simp only [cfb_loop]
    rw [e1, e2, getD_zero_append _ _ (by omega), getD_zero_append _ _ (by omega)]
    simp only [Bool.false_eq_true, if_false]
    obtain ⟨ih1, ih2⟩ := cfb_loop_det impl alg ctx bl inp hprim hbl n (j + 1)
      (cfb_shift chain bl (inp.getD j 0 ^^^ c.getD 0 0))
      (out.set j (inp.getD j 0 ^^^ c.getD 0 0)) (c ++ o.drop c.length)
      (out2.set j (inp.getD j 0 ^^^ c.getD 0 0)) (c ++ o2.drop c.length)
      (by omega) (by simp; omega) (by simp; omega) (by simp; omega) (by simp; omega)
      (by rw [cfb_shift_length]; omega)
    refine ⟨ih1, ?_⟩
    intro j' h1 h2
    by_cases hjj : j' = j
    · subst hjj
      rw [cfb_loop_out_frame _ _ _ _ _ _ _ _ _ _ _ j' (by omega),
        cfb_loop_out_frame _ _ _ _ _ _ _ _ _ _ _ j' (by omega),
        getD_set_same _ _ _ _ (by omega), getD_set_same _ _ _ _ (by omega)]
    · exact ih2 j' (by omega) (by omega)

/-- One pass of the block loop of CPEncrypt under a total block primitive: the key object
afterwards and the block written do not depend on what the locals `out` and `o` hold. -/
theorem encrypt_block_step_det {κ η : Type} (impl : IMPL κ η) (k : CRYPTKEY κ) (bl : Nat)
    (inp : List Nat) (hkey : BlockShape k bl)
    (hprim : BlockTotal impl k.aiAlgid k.context bl) (hbl : 0 < bl)
    (hbl24 : bl ≤ RSAENH_MAX_BLOCK_SIZE) (hinp : inp.length = bl) :
    ∃ (k1 : CRYPTKEY κ) (c : List Nat), c.length = bl ∧ BlockShape k1 bl ∧
      k1.aiAlgid = k.aiAlgid ∧ k1.context = k.context ∧
      k1 = { k with abChainVector := k1.abChainVector } ∧
      ∀ out o : List Nat, out.length = RSAENH_MAX_BLOCK_SIZE →
        o.length = RSAENH_MAX_BLOCK_SIZE →
        ∃ out1 o1, encrypt_block_step impl k inp out o = some (k1, out1, o1) ∧
          out1.length = RSAENH_MAX_BLOCK_SIZE ∧ o1.length = RSAENH_MAX_BLOCK_SIZE ∧
          bytesAt out1 0 bl = c := by
  obtain ⟨hkbl, hmode, hclen⟩ := hkey
  rcases hmode with hm | hm | hm
  · -- ECB
    obtain ⟨c, hE, hcl⟩ := hprim inp hinp
    refine ⟨k, c, hcl, ⟨hkbl, Or.inl hm, hclen⟩, rfl, rfl, rfl, ?_⟩
    intro out o ho hoo
    have e1 := call_encrypt_block_some impl k.aiAlgid k.context inp out c RSAENH_ENCRYPT hE
      (by omega)
    refine ⟨c ++ out.drop c.length, o, ?_, by simp; omega, hoo, ?_⟩
    · unfold encrypt_block_step
      rw [if_pos hm, e1]
    · rw [hcl]; exact take_append_drop_self c out bl hcl
  · -- CBC
    have hne : k.dwMode ≠ CRYPT_MODE_ECB := by rw [hm]; decide
    have hxl : (xor_bytes bl inp k.abChainVector).length = bl := by
      rw [xor_bytes_length, hinp]
    obtain ⟨c, hE, hcl⟩ := hprim (xor_bytes bl inp k.abChainVector) hxl
    refine ⟨{ k with abChainVector := memmove k.abChainVector 0 c }, c, hcl,
      ⟨hkbl, Or.inr (Or.inl hm), ?_⟩, rfl, rfl, rfl, ?_⟩
    · show (memmove k.abChainVector 0 c).length = _
      rw [memmove_length]; exact hclen
    · intro out o ho hoo
      have e1 := call_encrypt_block_some impl k.aiAlgid k.context _ out c RSAENH_ENCRYPT hE
        (by omega)
      refine ⟨c ++ out.drop c.length, o, ?_, by simp; omega, hoo, ?_⟩
      · unfold encrypt_block_step
        rw [if_neg hne, if_pos hm]
        simp only [hkbl]
        rw [e1, hcl, take_append_drop_self c out bl hcl]
      · rw [hcl]; exact take_append_drop_self c out bl hcl
  · -- CFB
    have hne1 : k.dwMode ≠ CRYPT_MODE_ECB := by rw [hm]; decide
    have hne2 : k.dwMode ≠ CRYPT_MODE_CBC := by rw [hm]; decide
    obtain ⟨r0, hr0⟩ : ∃ r, cfb_loop impl k.aiAlgid k.context bl false inp bl 0
        k.abChainVector local_block local_block = r := ⟨_, rfl⟩
    have hlb : local_block.length = RSAENH_MAX_BLOCK_SIZE := List.length_replicate _ _
    refine ⟨{ k with abChainVector := r0.1 }, bytesAt r0.2.1 0 bl, ?_,
      ⟨hkbl, Or.inr (Or.inr hm), ?_⟩, rfl, rfl, rfl, ?_⟩
    · apply bytesAt_length
      rw [← hr0, cfb_loop_out_length, hlb]; omega
    · show r0.1.length = _
      rw [← hr0, cfb_loop_chain_length]; exact hclen
    · intro out o ho hoo
      obtain ⟨r, hr⟩ : ∃ r, cfb_loop impl k.aiAlgid k.context bl false inp bl 0
          k.abChainVector out o = r := ⟨_, rfl⟩
      have hd := cfb_loop_det impl k.aiAlgid k.context bl inp hprim hbl bl 0 k.abChainVector
        out o local_block local_block (by omega) (by omega) (by omega) (by omega) (by omega)
        (by omega)
      rw [hr, hr0] at hd
      obtain ⟨d1, d2⟩ := hd
      have hl : r.2.1.length = RSAENH_MAX_BLOCK_SIZE := by
        rw [← hr, cfb_loop_out_length]; exact ho
      have hl0 : r0.2.1.length = RSAENH_MAX_BLOCK_SIZE := by
        rw [← hr0, cfb_loop_out_length]; exact hlb
      refine ⟨r.2.1, r.2.2, ?_, hl, by rw [← hr, cfb_loop_o_length]; exact hoo, ?_⟩
      · unfold encrypt_block_step
        rw [if_neg hne1, if_neg hne2, if_pos hm, hkbl, hr]
        simp only []
        rw [d1]
      · apply list_eq_of_getD
        · rw [bytesAt_length _ _ _ (by omega), bytesAt_length _ _ _ (by omega)]
        · intro i hi
          rw [bytesAt_length _ _ _ (by omega)] at hi
          rw [bytesAt_zero, bytesAt_zero, getD_take _ _ _ hi, getD_take _ _ _ hi]
          exact d2 i (by omega) (by omega)

theorem block_loop_done {κ η : Type} (impl : IMPL κ η) (dec : Bool) (len fuel : Nat)
    (k : CRYPTKEY κ) (buf : List Nat) (i : Nat) (out o : List Nat) (h : ¬ i < len) :
    block_loop impl dec len fuel k buf i out o = some (true, k, buf) := by
  cases fuel with
  | zero => unfold block_loop; rw [if_neg h]
  | succ f => unfold block_loop; rw [if_neg h]

/-- The block loop of CPEncrypt over `m` blocks `X` under a total block primitive: the `m`
passes replace `X` by a ciphertext `C` and leave a key object `k'`; neither depends on the
rest of the buffer, on the locals `out` and `o`, on the bound of the loop or on the fuel. -/
theorem block_loop_blocks {κ η : Type} (impl : IMPL κ η) (bl : Nat) (hbl : 0 < bl)
    (hbl24 : bl ≤ RSAENH_MAX_BLOCK_SIZE) :
    ∀ (m : Nat) (X : List Nat) (k : CRYPTKEY κ),
    X.length = m * bl → BlockShape k bl → BlockTotal impl k.aiAlgid k.context bl →
    ∃ (C : List Nat) (k' : CRYPTKEY κ), C.length = m * bl ∧ BlockShape k' bl ∧
      k'.aiAlgid = k.aiAlgid ∧ k'.context = k.context ∧
      k' = { k with abChainVector := k'.abChainVector } ∧
      ∀ (pre rest out o : List Nat) (fuel len : Nat),
        out.length = RSAENH_MAX_BLOCK_SIZE → o.length = RSAENH_MAX_BLOCK_SIZE →
        pre.length + m * bl ≤ len →
        ∃ out1 o1, out1.length = RSAENH_MAX_BLOCK_SIZE ∧ o1.length = RSAENH_MAX_BLOCK_SIZE ∧
          block_loop impl false len (fuel + m) k (pre ++ (X ++ rest)) pre.length out o
            = block_loop impl false len fuel k' (pre ++ (C ++ rest)) (pre.length + m * bl)
                out1 o1
  | 0, X, k, hX, hkey, _ => by
    have hX0 : X = [] := List.length_eq_zero.mp (by rw [hX]; simp)
    subst hX0
    refine ⟨[], k, by simp, hkey, rfl, rfl, rfl, ?_⟩
    intro pre rest out o fuel len ho hoo _
    exact ⟨out, o, ho, hoo, by simp⟩
  | m + 1, X, k, hX, hkey, hprim => by
    have hmul : (m + 1) * bl = bl + m * bl := by rw [Nat.succ_mul]; omega
    obtain ⟨x, X', rfl, hx, hX'⟩ : ∃ x X', X = x ++ X' ∧ x.length = bl ∧ X'.length = m * bl :=
      ⟨X.take bl, X.drop bl, (List.take_append_drop _ _).symm,
        by rw [List.length_take]; omega, by rw [List.length_drop]; omega⟩
    obtain ⟨k1, c, hcl, hkey1, ha1, hc1, hk1, hstep⟩ :=
      encrypt_block_step_det impl k bl x hkey hprim hbl hbl24 hx
    obtain ⟨C', k', hC', hkey', ha', hc', hk', hrest⟩ :=
      block_loop_blocks impl bl hbl hbl24 m X' k1 hX' hkey1 (by rw [ha1, hc1]; exact hprim)
    refine ⟨c ++ C', k', by rw [List.length_append, hcl, hC', hmul], hkey',
      by rw [ha', ha1], by rw [hc', hc1], ?_, ?_⟩
    · rw [hk', hk1]
    · intro pre rest out o fuel len ho hoo hlen
      obtain ⟨out1, o1, hs, ho1, hoo1, hb⟩ := hstep out o ho hoo
      obtain ⟨out2, o2, ho2, hoo2, hrun⟩ := hrest (pre ++ c) rest out1 o1 fuel len ho1 hoo1
        (by rw [List.length_append, hcl]; omega)
      refine ⟨out2, o2, ho2, hoo2, ?_⟩
      have hf : fuel + (m + 1) = (fuel + m) + 1 := by omega
      rw [hf]
      conv_lhs => unfold block_loop
      rw [if_pos (by omega)]
      simp only [Bool.false_eq_true, if_false]
      have hin : bytesAt (pre ++ (x ++ X' ++ rest)) pre.length k.dwBlockLen = x := by
        rw [hkey.1, List.append_assoc]
        exact bytesAt_append_mid pre x (X' ++ rest) _ _ rfl hx.symm
      rw [hin, hs]
      simp only []
      rw [hkey1.1, hb]
      have hmm : memmove (pre ++ (x ++ X' ++ rest)) pre.length c
          = (pre ++ c) ++ (X' ++ rest) := by
        rw [List.append_assoc x, memmove_mid pre x (X' ++ rest) c _ rfl (by rw [hcl, hx]),
          List.append_assoc]
      rw [hmm]
      have hi : pre.length + bl = (pre ++ c).length := by
        rw [List.length_append, hcl]
      rw [hi, hrun]
      have e1 : (pre ++ c) ++ (C' ++ rest) = pre ++ (c ++ C' ++ rest) := by
        simp only [List.append_assoc]
      have e2 : (pre ++ c).length + m * bl = pre.length + (m + 1) * bl := by
        rw [List.length_append, hcl, hmul]; omega
      rw [e1, e2]

/-- The part of CPEncrypt after the hash step with Final = FALSE on a block-cipher key and a
length that is a multiple of the block length: no byte is added, the block loop runs over
the `n` bytes. -/
theorem CPEncrypt_transform_block_nonfinal {κ η : Type} (impl : IMPL κ η) (s : CSP κ η)
    (hKey : Nat) (k k' : CRYPTKEY κ) (buf B : List Nat) (n dwBufLen bl : Nat)
    (htype : GET_ALG_TYPE k.aiAlgid = ALG_TYPE_BLOCK) (hkbl : k.dwBlockLen = bl)
    (hal : n % bl = 0) (hbuf : n ≤ dwBufLen) (hn32 : n < 4294967296)
    (hloop : block_loop impl false n n k buf 0 local_block local_block = some (true, k', B)) :
    CPEncrypt_transform impl s hKey k false 0 buf n dwBufLen
      = some (true, s.withTable (store_object s.handle_table hKey (.key k')), B, n) := by
  have hdm : n / bl * bl = n := Nat.div_mul_cancel (Nat.dvd_of_mod_eq_zero hal)
  have hle : n / bl ≤ n := Nat.div_le_self _ _
  have eA : dwAdd (n / bl) 0 = n / bl := dwAdd_eq _ _ (by omega)
  have eM : dwMul (n / bl) bl = n := by rw [dwMul_eq _ _ (by omega), hdm]
  unfold CPEncrypt_transform
  rw [if_pos htype, hkbl]
  simp only [Bool.false_eq_true, if_false]
  rw [if_neg (by simp [hal]), eA, eM, if_neg (by omega)]
  have eF : fill_loop (dwSub n n % 256) (min n dwBufLen - n) buf n = buf := by
    rw [Nat.min_eq_left hbuf, Nat.sub_self]
    rfl
  rw [eF, hloop]
  simp only [if_true]

/-- The part of CPEncrypt after the hash step with Final = TRUE on a block-cipher key and a
buffer that holds the padded data, when the block loop returns TRUE. -/
theorem CPEncrypt_transform_block_final_run {κ η : Type} (impl : IMPL κ η) (s : CSP κ η)
    (hKey : Nat) (k k' : CRYPTKEY κ) (P tail B : List Nat) (dwBufLen bl : Nat)
    (htype : GET_ALG_TYPE k.aiAlgid = ALG_TYPE_BLOCK) (hkbl : k.dwBlockLen = bl) (hbl : 0 < bl)
    (hbl256 : bl < 256)
    (hbuf : (P.length / bl + 1) * bl ≤ dwBufLen) (hbuf32 : dwBufLen < 4294967296)
    (hmem : dwBufLen ≤ (P ++ tail).length)
    (hloop : block_loop impl false ((P.length / bl + 1) * bl) ((P.length / bl + 1) * bl) k
      (P ++ (List.replicate ((P.length / bl + 1) * bl - P.length)
          ((P.length / bl + 1) * bl - P.length)
        ++ tail.drop ((P.length / bl + 1) * bl - P.length))) 0 local_block local_block
      = some (true, k', B)) :
    CPEncrypt_transform impl s hKey k true 0 (P ++ tail) P.length dwBufLen
      = some (true, s.withTable (store_object s.handle_table hKey
          (.key (setup_key impl k'))), B, (P.length / bl + 1) * bl) := by
  rw [CPEncrypt_transform_block_final impl s hKey k P tail dwBufLen bl htype hkbl hbl hbl256
    hbuf hbuf32 hmem, hloop]
  simp only [if_true]

/-- The function RSAENH_CPEncrypt on a block-cipher key that is Idle or Encrypting, without a
hash object and with Final = FALSE on a length that is a multiple of the block length, in
terms of the block loop. -/
theorem CPEncrypt_nonfinal_run {κ η : Type} (impl : IMPL κ η) (s : CSP κ η)
    (hProv hKey hHash : Nat) (k k' : CRYPTKEY κ) (buf B : List Nat) (n dwBufLen bl : Nat)
    (hprov : is_valid_handle s.handle_table hProv is_container = true)
    (hkey : lookup_key s.handle_table hKey = some k)
    (hst : k.dwState = RSAENH_KEYSTATE_IDLE ∨ k.dwState = RSAENH_KEYSTATE_ENCRYPTING)
    (hnh : is_valid_handle s.handle_table hHash is_hash = false)
    (htype : GET_ALG_TYPE k.aiAlgid = ALG_TYPE_BLOCK) (hkbl : k.dwBlockLen = bl)
    (hal : n % bl = 0) (hbuf : n ≤ dwBufLen) (hn32 : n < 4294967296)
    (hloop : block_loop impl false n n { k with dwState := RSAENH_KEYSTATE_ENCRYPTING } buf 0
      local_block local_block = some (true, k', B)) :
    RSAENH_CPEncrypt impl s hProv hKey hHash false 0 buf n dwBufLen
      = some (true, s.withTable (store_object s.handle_table hKey (.key k')), B, n) := by
  have hobj := (lookup_key_of_object _ _ _).mp hkey
  unfold RSAENH_CPEncrypt
  rw [transform_enter_ok s hProv hKey _ k hprov hkey hst]
  simp only []
  have hv : is_valid_handle (s.withTable (store_object s.handle_table hKey
      (.key { k with dwState := RSAENH_KEYSTATE_ENCRYPTING }))).handle_table hHash is_hash
      = false := by
    exact (is_valid_handle_store s.handle_table hKey hHash (.key k)
      (.key { k with dwState := RSAENH_KEYSTATE_ENCRYPTING }) is_hash hobj rfl).trans hnh
  rw [hv]
  simp only [Bool.false_eq_true, if_false]
  have hk1 : lookup_key (s.withTable (store_object s.handle_table hKey
      (.key { k with dwState := RSAENH_KEYSTATE_ENCRYPTING }))).handle_table hKey
      = some { k with dwState := RSAENH_KEYSTATE_ENCRYPTING } :=
    lookup_key_store_same _ _ _ _ hkey
  rw [hk1]
  simp only []
  rw [CPEncrypt_transform_block_nonfinal impl _ hKey
    { k with dwState := RSAENH_KEYSTATE_ENCRYPTING } k' buf B n dwBufLen bl htype hkbl hal hbuf
    hn32 hloop]
  have e3 : (s.withTable (store_object s.handle_table hKey
      (.key { k with dwState := RSAENH_KEYSTATE_ENCRYPTING }))).withTable
      (store_object (s.withTable (store_object s.handle_table hKey
        (.key { k with dwState := RSAENH_KEYSTATE_ENCRYPTING }))).handle_table hKey
        (.key k'))
      = s.withTable (store_object s.handle_table hKey (.key k')) := by
    show s.withTable (store_object (store_object s.handle_table hKey _) hKey _) = _
    rw [store_object_store _ _ _ _ _ hobj]
  rw [e3]

/-- The function RSAENH_CPEncrypt on a block-cipher key that is Idle or Encrypting, without a
hash object and with Final = TRUE and a buffer that holds the padded data, in terms of the
block loop. -/
theorem CPEncrypt_final_run {κ η : Type} (impl : IMPL κ η) (s : CSP κ η)
    (hProv hKey hHash : Nat) (k k' : CRYPTKEY κ) (P tail B : List Nat) (dwBufLen bl : Nat)
    (hprov : is_valid_handle s.handle_table hProv is_container = true)
    (hkey : lookup_key s.handle_table hKey = some k)
    (hst : k.dwState = RSAENH_KEYSTATE_IDLE ∨ k.dwState = RSAENH_KEYSTATE_ENCRYPTING)
    (hnh : is_valid_handle s.handle_table hHash is_hash = false)
    (htype : GET_ALG_TYPE k.aiAlgid = ALG_TYPE_BLOCK) (hkbl : k.dwBlockLen = bl)
    (hbl : 0 < bl) (hbl256 : bl < 256)
    (hbuf : (P.length / bl + 1) * bl ≤ dwBufLen) (hbuf32 : dwBufLen < 4294967296)
    (hmem : dwBufLen ≤ (P ++ tail).length)
    (hloop : block_loop impl false ((P.length / bl + 1) * bl) ((P.length / bl + 1) * bl)
      { k with dwState := RSAENH_KEYSTATE_ENCRYPTING }
      (P ++ (List.replicate ((P.length / bl + 1) * bl - P.length)
          ((P.length / bl + 1) * bl - P.length)
        ++ tail.drop ((P.length / bl + 1) * bl - P.length))) 0 local_block local_block
      = some (true, k', B)) :
    RSAENH_CPEncrypt impl s hProv hKey hHash true 0 (P ++ tail) P.length dwBufLen
      = some (true, s.withTable (store_object s.handle_table hKey
          (.key (setup_key impl k'))), B, (P.length / bl + 1) * bl) := by
  have hobj := (lookup_key_of_object _ _ _).mp hkey
  unfold RSAENH_CPEncrypt
  rw [transform_enter_ok s hProv hKey _ k hprov hkey hst]
  simp only []
  have hv : is_valid_handle (s.withTable (store_object s.handle_table hKey
      (.key { k with dwState := RSAENH_KEYSTATE_ENCRYPTING }))).handle_table hHash is_hash
      = false := by
    exact (is_valid_handle_store s.handle_table hKey hHash (.key k)
      (.key { k with dwState := RSAENH_KEYSTATE_ENCRYPTING }) is_hash hobj rfl).trans hnh
  rw [hv]
  simp only [Bool.false_eq_true, if_false]
  have hk1 : lookup_key (s.withTable (store_object s.handle_table hKey
      (.key { k with dwState := RSAENH_KEYSTATE_ENCRYPTING }))).handle_table hKey
      = some { k with dwState := RSAENH_KEYSTATE_ENCRYPTING } :=
    lookup_key_store_same _ _ _ _ hkey
  rw [hk1]
  simp only []
  rw [CPEncrypt_transform_block_final_run impl _ hKey
    { k with dwState := RSAENH_KEYSTATE_ENCRYPTING } k' P tail B dwBufLen bl htype hkbl hbl
    hbl256 hbuf hbuf32 hmem hloop]
  have e3 : (s.withTable (store_object s.handle_table hKey
      (.key { k with dwState := RSAENH_KEYSTATE_ENCRYPTING }))).withTable
      (store_object (s.withTable (store_object s.handle_table hKey
        (.key { k with dwState := RSAENH_KEYSTATE_ENCRYPTING }))).handle_table hKey
        (.key (setup_key impl k')))
      = s.withTable (store_object s.handle_table hKey (.key (setup_key impl k'))) := by
    show s.withTable (store_object (store_object s.handle_table hKey _) hKey _) = _
    rw [store_object_store _ _ _ _ _ hobj]
  rw [e3]

/-- One pass of the block loop of CPEncrypt in one of the modes ECB, CBC and CFB gives a key
object that differs from the one before in the chaining vector at most, and keeps the
length of the local `out`. -/
theorem encrypt_block_step_shape {κ η : Type} (impl : IMPL κ η) (k : CRYPTKEY κ)
    (inp out o : List Nat)
    (hmode : k.dwMode = CRYPT_MODE_ECB ∨ k.dwMode = CRYPT_MODE_CBC ∨
      k.dwMode = CRYPT_MODE_CFB) :
    ∃ k1 out1 o1, encrypt_block_step impl k inp out o = some (k1, out1, o1) ∧
      out1.length = out.length ∧ k1 = { k with abChainVector := k1.abChainVector } := by
  unfold encrypt_block_step
  rcases hmode with hm | hm | hm
  · rw [if_pos hm]
    exact ⟨_, _, _, rfl, call_encrypt_block_length _ _ _ _ _ _, rfl⟩
  · rw [if_neg (by rw [hm]; decide), if_pos hm]
    exact ⟨_, _, _, rfl, call_encrypt_block_length _ _ _ _ _ _, rfl⟩
  · rw [if_neg (by rw [hm]; decide), if_neg (by rw [hm]; decide), if_pos hm]
    exact ⟨_, _, _, rfl, cfb_loop_out_length _ _ _ _ _ _ _ _ _ _ _, rfl⟩

/-- The block loop of CPEncrypt over `m` blocks in one of the modes ECB, CBC and CFB returns
TRUE; it replaces the `m` blocks and nothing else, and changes the chaining vector of the
key object at most. -/
theorem block_loop_shape {κ η : Type} (impl : IMPL κ η) (bl : Nat) (hbl : 0 < bl) :
    ∀ (m : Nat) (X pre rest : List Nat) (k : CRYPTKEY κ) (out o : List Nat) (fuel : Nat),
    X.length = m * bl → k.dwBlockLen = bl →
    (k.dwMode = CRYPT_MODE_ECB ∨ k.dwMode = CRYPT_MODE_CBC ∨ k.dwMode = CRYPT_MODE_CFB) →
    bl ≤ out.length → m ≤ fuel →
    ∃ C k', block_loop impl false (pre.length + m * bl) fuel k (pre ++ (X ++ rest))
          pre.length out o = some (true, k', pre ++ (C ++ rest)) ∧
      C.length = m * bl ∧ k' = { k with abChainVector := k'.abChainVector }
  | 0, X, pre, rest, k, out, o, fuel, hX, _, _, _, _ => by
    have hX0 : X = [] := List.length_eq_zero.mp (by rw [hX]; simp)
    subst hX0
    refine ⟨[], k, ?_, by simp, rfl⟩
    exact block_loop_done impl false _ fuel k _ _ out o (by omega)
  | m + 1, X, pre, rest, k, out, o, fuel, hX, hkbl, hmode, hout, hf => by
    obtain ⟨f, rfl⟩ : ∃ f, fuel = f + 1 := ⟨fuel - 1, by omega⟩
    have hmul : (m + 1) * bl = bl + m * bl := by rw [Nat.succ_mul]; omega
    obtain ⟨x, X', rfl, hx, hX'⟩ : ∃ x X', X = x ++ X' ∧ x.length = bl ∧ X'.length = m * bl :=
      ⟨X.take bl, X.drop bl, (List.take_append_drop _ _).symm,
        by rw [List.length_take]; omega, by rw [List.length_drop]; omega⟩
    obtain ⟨k1, out1, o1, hs, hl1, hk1⟩ := encrypt_block_step_shape impl k x out o hmode
    have hk1bl : k1.dwBlockLen = bl := by rw [hk1]; exact hkbl
    have hk1m : k1.dwMode = k.dwMode := by rw [hk1]
    obtain ⟨c, hc⟩ : ∃ c, bytesAt out1 0 bl = c := ⟨_, rfl⟩
    have hcl : c.length = bl := by
      rw [← hc]; exact bytesAt_length _ _ _ (by omega)
    obtain ⟨C', k', hrun, hC', hk'⟩ := block_loop_shape impl bl hbl m X' (pre ++ c) rest k1
      out1 o1 f hX' hk1bl (by rw [hk1m]; exact hmode) (by omega) (by omega)
    refine ⟨c ++ C', k', ?_, by rw [List.length_append, hcl, hC', hmul], ?_⟩
    · conv_lhs => unfold block_loop
      rw [if_pos (by omega)]
      simp only [Bool.false_eq_true, if_false]
      have hin : bytesAt (pre ++ (x ++ X' ++ rest)) pre.length k.dwBlockLen = x := by
        rw [hkbl, List.append_assoc]
        exact bytesAt_append_mid pre x (X' ++ rest) _ _ rfl hx.symm
      rw [hin, hs]
      simp only []
      rw [hk1bl, hc]
      have hmm : memmove (pre ++ (x ++ X' ++ rest)) pre.length c
          = (pre ++ c) ++ (X' ++ rest) := by
        rw [List.append_assoc x, memmove_mid pre x (X' ++ rest) c _ rfl (by rw [hcl, hx]),
          List.append_assoc]
      rw [hmm]
      have hi : pre.length + bl = (pre ++ c).length := by
        rw [List.length_append, hcl]
      have e2 : pre.length + (m + 1) * bl = (pre ++ c).length + m * bl := by
        rw [List.length_append, hcl, hmul]; omega
      rw [hi, e2, hrun]
      simp only [List.append_assoc]
    · rw [hk', hk1]

/-- C32. Final-block padding.  On a block-cipher key (block length B, mode ECB, CBC or CFB; Idle
or Encrypting), with a valid provider handle, no flags and no hash object: (1) the length
E = (floor(n/B) + 1) * B is the smallest multiple of B strictly greater than n, and
p = E - n satisfies 1 <= p <= B; (2) with Final = TRUE and a buffer of at least E bytes
CPEncrypt returns TRUE with the output length E and a ciphertext C of E bytes, and C is the
ciphertext that the call with Final = FALSE gives for the E bytes made of the n input bytes
followed by p bytes of value p (the key object then differs by the re-arming of the final
call only); (3) with Final = FALSE and n a multiple of B, CPEncrypt returns TRUE with the
output length n, the n bytes replaced and the rest of the buffer untouched. -/
theorem final_block_padding {κ η : Type} (impl : IMPL κ η) (s : CSP κ η)
    (hProv hKey hHash : Nat) (k : CRYPTKEY κ) (bl : Nat) (P tail : List Nat) (dwBufLen : Nat)
    (hprov : is_valid_handle s.handle_table hProv is_container = true)
    (hkey : lookup_key s.handle_table hKey = some k)
    (hst : k.dwState = RSAENH_KEYSTATE_IDLE ∨ k.dwState = RSAENH_KEYSTATE_ENCRYPTING)
    (hnh : is_valid_handle s.handle_table hHash is_hash = false)
    (htype : GET_ALG_TYPE k.aiAlgid = ALG_TYPE_BLOCK) (hkbl : k.dwBlockLen = bl)
    (hmode : k.dwMode = CRYPT_MODE_ECB ∨ k.dwMode = CRYPT_MODE_CBC ∨
      k.dwMode = CRYPT_MODE_CFB)
    (hbl : 0 < bl) (hbl24 : bl ≤ RSAENH_MAX_BLOCK_SIZE)
    (hbuf32 : dwBufLen < 4294967296) (hmem : dwBufLen ≤ (P ++ tail).length) :
    (P.length < (P.length / bl + 1) * bl ∧
      (∀ m, P.length < m * bl → (P.length / bl + 1) * bl ≤ m * bl) ∧
      1 ≤ (P.length / bl + 1) * bl - P.length ∧ (P.length / bl + 1) * bl - P.length ≤ bl) ∧
    ((P.length / bl + 1) * bl ≤ dwBufLen →
      ∃ (C : List Nat) (s1 s2 : CSP κ η), C.length = (P.length / bl + 1) * bl ∧
        RSAENH_CPEncrypt impl s hProv hKey hHash true 0 (P ++ tail) P.length dwBufLen
          = some (true, s1, C ++ tail.drop ((P.length / bl + 1) * bl - P.length),
              (P.length / bl + 1) * bl) ∧
        RSAENH_CPEncrypt impl s hProv hKey hHash false 0
            ((P ++ List.replicate ((P.length / bl + 1) * bl - P.length)
                ((P.length / bl + 1) * bl - P.length))
              ++ tail.drop ((P.length / bl + 1) * bl - P.length))
            ((P.length / bl + 1) * bl) dwBufLen
          = some (true, s2, C ++ tail.drop ((P.length / bl + 1) * bl - P.length),
              (P.length / bl + 1) * bl) ∧
        lookup_key s1.handle_table hKey
          = (lookup_key s2.handle_table hKey).map (setup_key impl)) ∧
    (P.length % bl = 0 → P.length ≤ dwBufLen →
      ∃ (C : List Nat) (s1 : CSP κ η), C.length = P.length ∧
        RSAENH_CPEncrypt impl s hProv hKey hHash false 0 (P ++ tail) P.length dwBufLen
          = some (true, s1, C ++ tail, P.length)) := by
  obtain ⟨hf1, hf2, hf3⟩ := padded_len_facts P.length bl hbl
  have hlb : local_block.length = RSAENH_MAX_BLOCK_SIZE := List.length_replicate _ _
  have h24 : RSAENH_MAX_BLOCK_SIZE = 24 := rfl
  refine ⟨⟨hf1, ?_, by omega, by omega⟩, ?_, ?_⟩
  · intro m hm
    have h1 : P.length / bl < m := (Nat.div_lt_iff_lt_mul hbl).mpr hm
    exact Nat.mul_le_mul_right bl h1
  · intro hbuf
    obtain ⟨E, hE⟩ : ∃ E, (P.length / bl + 1) * bl = E := ⟨_, rfl⟩
    rw [hE] at hf1 hf2 hf3 hbuf ⊢
    have hXl : (P ++ List.replicate (E - P.length) (E - P.length)).length
        = (P.length / bl + 1) * bl := by
      rw [List.length_append, List.length_replicate, hE]; omega
    obtain ⟨C, k', hrun, hC, -⟩ := block_loop_shape impl bl hbl (P.length / bl + 1)
      (P ++ List.replicate (E - P.length) (E - P.length)) [] (tail.drop (E - P.length))
      { k with dwState := RSAENH_KEYSTATE_ENCRYPTING } local_block local_block E hXl hkbl hmode
      (by rw [hlb]; omega) (by omega)
    rw [hE] at hrun hC
    simp only [List.length_nil, Nat.zero_add, List.nil_append] at hrun
    have hobj := (lookup_key_of_object _ _ _).mp hkey
    refine ⟨C, s.withTable (store_object s.handle_table hKey (.key (setup_key impl k'))),
      s.withTable (store_object s.handle_table hKey (.key k')), hC, ?_, ?_, ?_⟩
    · have h := CPEncrypt_final_run impl s hProv hKey hHash k k' P tail
        (C ++ tail.drop (E - P.length)) dwBufLen bl hprov hkey hst hnh htype hkbl hbl
        (by omega) (by rw [hE]; exact hbuf) hbuf32 hmem
        (by rw [hE, ← List.append_assoc]; exact hrun)
      rw [hE] at h
      exact h
    · exact CPEncrypt_nonfinal_run impl s hProv hKey hHash k k' _ _ E dwBufLen bl hprov hkey hst
        hnh htype hkbl (by rw [← hE]; exact Nat.mul_mod_left _ _) hbuf (by omega) hrun
    · show lookup_key (store_object s.handle_table hKey (.key (setup_key impl k'))) hKey
        = (lookup_key (store_object s.handle_table hKey (.key k')) hKey).map (setup_key impl)
      rw [lookup_key_store_same _ _ _ _ hkey, lookup_key_store_same _ _ _ _ hkey]
      rfl
  · intro hal hbuf
    have hdm : P.length / bl * bl = P.length :=
      Nat.div_mul_cancel (Nat.dvd_of_mod_eq_zero hal)
    have hmle : P.length / bl ≤ P.length := Nat.div_le_self _ _
    obtain ⟨C, k', hrun, hC, -⟩ := block_loop_shape impl bl hbl (P.length / bl) P [] tail
      { k with dwState := RSAENH_KEYSTATE_ENCRYPTING } local_block local_block P.length
      hdm.symm hkbl hmode (by rw [hlb]; omega) hmle
    rw [hdm] at hrun hC
    simp only [List.length_nil, Nat.zero_add, List.nil_append] at hrun
    exact ⟨C, s.withTable (store_object s.handle_table hKey (.key k')), hC,
      CPEncrypt_nonfinal_run impl s hProv hKey hHash k k' _ _ P.length dwBufLen bl
      hprov hkey hst hnh htype hkbl hal hbuf (by
        have : P.length ≤ (P ++ tail).length := by rw [List.length_append]; omega
        omega) hrun⟩

/-- Witness for C32: an Idle DES key in CBC mode (block length 8), 5 bytes of data in a buffer
of 16 bytes: the padded length is 8 and the pad is 3 bytes of value 3. -/
theorem final_block_padding_witness :
    (RSAENH_CPEncrypt toyImpl (toyState 0 [.key (toyDesKey RSAENH_KEYSTATE_IDLE CRYPT_MODE_CBC (List.replicate 24 0))]) 1 2 0 true 0
        (([1, 2, 3, 4, 5] : List Nat) ++ (List.replicate 11 0)) 5 16).map (fun r => (r.1, r.2.2.2))
      = some (true, 8) ∧
    (([1, 2, 3, 4, 5] : List Nat).length < (([1, 2, 3, 4, 5] : List Nat).length / 8 + 1) * 8 ∧
      (∀ m, ([1, 2, 3, 4, 5] : List Nat).length < m * 8 → (([1, 2, 3, 4, 5] : List Nat).length / 8 + 1) * 8 ≤ m * 8) ∧
      1 ≤ (([1, 2, 3, 4, 5] : List Nat).length / 8 + 1) * 8 - ([1, 2, 3, 4, 5] : List Nat).length ∧
      (([1, 2, 3, 4, 5] : List Nat).length / 8 + 1) * 8 - ([1, 2, 3, 4, 5] : List Nat).length ≤ 8) ∧
    ∃ (C : List Nat) (s1 s2 : CSP Nat (List Nat)), C.length = (([1, 2, 3, 4, 5] : List Nat).length / 8 + 1) * 8 ∧
      RSAENH_CPEncrypt toyImpl (toyState 0 [.key (toyDesKey RSAENH_KEYSTATE_IDLE CRYPT_MODE_CBC (List.replicate 24 0))]) 1 2 0 true 0 (([1, 2, 3, 4, 5] : List Nat) ++ (List.replicate 11 0)) ([1, 2, 3, 4, 5] : List Nat).length 16
        = some (true, s1, C ++ (List.replicate 11 0).drop ((([1, 2, 3, 4, 5] : List Nat).length / 8 + 1) * 8 - ([1, 2, 3, 4, 5] : List Nat).length),
            (([1, 2, 3, 4, 5] : List Nat).length / 8 + 1) * 8) ∧
      RSAENH_CPEncrypt toyImpl (toyState 0 [.key (toyDesKey RSAENH_KEYSTATE_IDLE CRYPT_MODE_CBC (List.replicate 24 0))]) 1 2 0 false 0
          ((([1, 2, 3, 4, 5] : List Nat) ++ List.replicate ((([1, 2, 3, 4, 5] : List Nat).length / 8 + 1) * 8 - ([1, 2, 3, 4, 5] : List Nat).length)
              ((([1, 2, 3, 4, 5] : List Nat).length / 8 + 1) * 8 - ([1, 2, 3, 4, 5] : List Nat).length))
            ++ (List.replicate 11 0).drop ((([1, 2, 3, 4, 5] : List Nat).length / 8 + 1) * 8 - ([1, 2, 3, 4, 5] : List Nat).length))
          ((([1, 2, 3, 4, 5] : List Nat).length / 8 + 1) * 8) 16
        = some (true, s2, C ++ (List.replicate 11 0).drop ((([1, 2, 3, 4, 5] : List Nat).length / 8 + 1) * 8 - ([1, 2, 3, 4, 5] : List Nat).length),
            (([1, 2, 3, 4, 5] : List Nat).length / 8 + 1) * 8) ∧
      lookup_key s1.handle_table 2 = (lookup_key s2.handle_table 2).map (setup_key toyImpl) :=
  ⟨by decide,
    (final_block_padding toyImpl (toyState 0 [.key (toyDesKey RSAENH_KEYSTATE_IDLE CRYPT_MODE_CBC (List.replicate 24 0))]) 1 2 0
      (toyDesKey RSAENH_KEYSTATE_IDLE CRYPT_MODE_CBC (List.replicate 24 0)) 8
      ([1, 2, 3, 4, 5] : List Nat) (List.replicate 11 0) 16
      (by decide) rfl (Or.inl rfl) (by decide) (by decide) rfl (Or.inr (Or.inl rfl))
      (by decide) (by decide) (by decide) (by decide)).1,
    (final_block_padding toyImpl (toyState 0 [.key (toyDesKey RSAENH_KEYSTATE_IDLE CRYPT_MODE_CBC (List.replicate 24 0))]) 1 2 0
      (toyDesKey RSAENH_KEYSTATE_IDLE CRYPT_MODE_CBC (List.replicate 24 0)) 8
      ([1, 2, 3, 4, 5] : List Nat) (List.replicate 11 0) 16
      (by decide) rfl (Or.inl rfl) (by decide) (by decide) rfl (Or.inr (Or.inl rfl))
      (by decide) (by decide) (by decide) (by decide)).2.1 (by decide)⟩

/-- C35. Chunking invariance of block encryption.  On a block-cipher key in one of the modes
ECB, CBC and CFB (block length `bl`, Idle or Encrypting) whose block primitive encrypts every
block, with a valid provider handle, no flags, no hash object and buffers that hold the
output: for every P1 of `m1` whole blocks and every P2, the call with Final = FALSE on P1
followed by the call with Final = TRUE on P2 returns TRUE twice with ciphertexts C1 and C2,
and the single call with Final = TRUE on P1 || P2 from the same initial state returns TRUE
with the ciphertext C1 || C2 and ends in the same provider state (so the same key state) as
the two calls. -/
theorem chunking_invariance {κ η : Type} (impl : IMPL κ η) (s : CSP κ η)
    (hProv hKey hHash : Nat) (k : CRYPTKEY κ) (bl m1 : Nat)
    (P1 P2 tailA tailB tailC : List Nat) (lenA lenB lenC : Nat)
    (hprov : is_valid_handle s.handle_table hProv is_container = true)
    (hkey : lookup_key s.handle_table hKey = some k)
    (hst : k.dwState = RSAENH_KEYSTATE_IDLE ∨ k.dwState = RSAENH_KEYSTATE_ENCRYPTING)
    (hnh : is_valid_handle s.handle_table hHash is_hash = false)
    (htype : GET_ALG_TYPE k.aiAlgid = ALG_TYPE_BLOCK) (hshape : BlockShape k bl)
    (hprim : BlockTotal impl k.aiAlgid k.context bl)
    (hbl : 0 < bl) (hbl24 : bl ≤ RSAENH_MAX_BLOCK_SIZE)
    (hP1 : P1.length = m1 * bl)
    (hA : P1.length ≤ lenA) (hA32 : P1.length < 4294967296)
    (hB : (P2.length / bl + 1) * bl ≤ lenB) (hB32 : lenB < 4294967296)
    (hBm : lenB ≤ (P2 ++ tailB).length)
    (hC : P1.length + (P2.length / bl + 1) * bl ≤ lenC) (hC32 : lenC < 4294967296)
    (hCm : lenC ≤ ((P1 ++ P2) ++ tailC).length) :
    ∃ (C1 C2 : List Nat) (sA sF : CSP κ η),
      C1.length = P1.length ∧ C2.length = (P2.length / bl + 1) * bl ∧
      RSAENH_CPEncrypt impl s hProv hKey hHash false 0 (P1 ++ tailA) P1.length lenA
        = some (true, sA, C1 ++ tailA, P1.length) ∧
      RSAENH_CPEncrypt impl sA hProv hKey hHash true 0 (P2 ++ tailB) P2.length lenB
        = some (true, sF, C2 ++ tailB.drop ((P2.length / bl + 1) * bl - P2.length),
            (P2.length / bl + 1) * bl) ∧
      RSAENH_CPEncrypt impl s hProv hKey hHash true 0 ((P1 ++ P2) ++ tailC)
          (P1 ++ P2).length lenC
        = some (true, sF,
            (C1 ++ C2) ++ tailC.drop ((P2.length / bl + 1) * bl - P2.length),
            P1.length + (P2.length / bl + 1) * bl) := by
  have hlb : local_block.length = RSAENH_MAX_BLOCK_SIZE := List.length_replicate _ _
  have h24 : RSAENH_MAX_BLOCK_SIZE = 24 := rfl
  have hobj := (lookup_key_of_object _ _ _).mp hkey
  obtain ⟨hkbl, hmode, hclen⟩ := hshape
  obtain ⟨hf1, hf2, hf3⟩ := padded_len_facts P2.length bl hbl
  obtain ⟨m2, hm2⟩ : ∃ m2, P2.length / bl + 1 = m2 := ⟨_, rfl⟩
  obtain ⟨E2, hE2⟩ : ∃ E2, m2 * bl = E2 := ⟨_, rfl⟩
  rw [hm2] at hf1 hf2 hf3 hB hC ⊢
  rw [hE2] at hf1 hf2 hf3 hB hC ⊢
  obtain ⟨n1, hn1⟩ : ∃ n1, P1.length = n1 := ⟨_, rfl⟩
  have hm1le : m1 ≤ n1 := by
    rw [← hn1, hP1]; exact Nat.le_mul_of_pos_right _ hbl
  -- the key object after the entry of the first call
  obtain ⟨k0, hk0⟩ : ∃ k0 : CRYPTKEY κ, { k with dwState := RSAENH_KEYSTATE_ENCRYPTING } = k0 :=
    ⟨_, rfl⟩
  have hk0a : k0.aiAlgid = k.aiAlgid := by rw [← hk0]
  have hk0c : k0.context = k.context := by rw [← hk0]
  have hk0s : BlockShape k0 bl := by
    rw [← hk0]; exact ⟨hkbl, hmode, hclen⟩
  -- the two runs of blocks
  obtain ⟨C1, k1, hC1, hsh1, ha1, hc1, hk1, H1⟩ := block_loop_blocks impl bl hbl hbl24 m1 P1 k0
    hP1 hk0s (by rw [hk0a, hk0c]; exact hprim)
  have hX2 : (P2 ++ List.replicate (E2 - P2.length) (E2 - P2.length)).length = m2 * bl := by
    rw [List.length_append, List.length_replicate, hE2]; omega
  obtain ⟨C2, k2, hC2, hsh2, ha2, hc2, hk2, H2⟩ := block_loop_blocks impl bl hbl hbl24 m2
    (P2 ++ List.replicate (E2 - P2.length) (E2 - P2.length)) k1 hX2 hsh1
    (by rw [ha1, hc1, hk0a, hk0c]; exact hprim)
  rw [hE2] at hC2
  rw [← hP1, hn1] at hC1
  rw [hn1] at hA hA32 hC ⊢
  have hk1st : k1.dwState = RSAENH_KEYSTATE_ENCRYPTING := by
    rw [hk1, ← hk0]
  have hk1e : ({ k1 with dwState := RSAENH_KEYSTATE_ENCRYPTING } : CRYPTKEY κ) = k1 := by
    cases k1
    simp only [] at hk1st
    subst hk1st
    rfl
  -- the loop of the first call
  have hloopA : block_loop impl false n1 n1 k0 (P1 ++ tailA) 0 local_block local_block
      = some (true, k1, C1 ++ tailA) := by
    obtain ⟨out1, o1, -, -, hr⟩ := H1 [] tailA local_block local_block (n1 - m1) n1 hlb hlb
      (by rw [List.length_nil, ← hP1, hn1]; omega)
    simp only [List.length_nil, Nat.zero_add, List.nil_append] at hr
    rw [Nat.sub_add_cancel hm1le] at hr
    rw [hr]
    exact block_loop_done impl false _ _ _ _ _ _ _ (by rw [← hP1, hn1]; omega)
  -- the loop of the second call
  have hloopB : block_loop impl false E2 E2 k1
      (P2 ++ (List.replicate (E2 - P2.length) (E2 - P2.length) ++ tailB.drop (E2 - P2.length)))
      0 local_block local_block
      = some (true, k2, C2 ++ tailB.drop (E2 - P2.length)) := by
    obtain ⟨out1, o1, -, -, hr⟩ := H2 [] (tailB.drop (E2 - P2.length)) local_block local_block
      (E2 - m2) E2 hlb hlb (by rw [List.length_nil, hE2]; omega)
    simp only [List.length_nil, Nat.zero_add, List.nil_append] at hr
    rw [Nat.sub_add_cancel (by omega)] at hr
    rw [← List.append_assoc, hr]
    exact block_loop_done impl false _ _ _ _ _ _ _ (by rw [hE2]; omega)
  -- the loop of the single call
  have hloopC : block_loop impl false (n1 + E2) (n1 + E2) k0
      ((P1 ++ P2) ++ (List.replicate (E2 - P2.length) (E2 - P2.length)
        ++ tailC.drop (E2 - P2.length)))
      0 local_block local_block
      = some (true, k2, (C1 ++ C2) ++ tailC.drop (E2 - P2.length)) := by
    obtain ⟨out1, o1, ho1, hoo1, hr1⟩ := H1 []
      ((P2 ++ List.replicate (E2 - P2.length) (E2 - P2.length))
        ++ tailC.drop (E2 - P2.length))
      local_block local_block (n1 + E2 - m1) (n1 + E2) hlb hlb
      (by rw [List.length_nil, ← hP1, hn1]; omega)
    obtain ⟨out2, o2, -, -, hr2⟩ := H2 C1 (tailC.drop (E2 - P2.length)) out1 o1
      (n1 + E2 - m1 - m2) (n1 + E2) ho1 hoo1 (by rw [hC1, hE2])
    simp only [List.length_nil, Nat.zero_add, List.nil_append] at hr1
    rw [Nat.sub_add_cancel (by omega)] at hr1
    rw [Nat.sub_add_cancel (by omega), hC1] at hr2
    have e1 : (P1 ++ P2) ++ (List.replicate (E2 - P2.length) (E2 - P2.length)
        ++ tailC.drop (E2 - P2.length))
        = P1 ++ ((P2 ++ List.replicate (E2 - P2.length) (E2 - P2.length))
          ++ tailC.drop (E2 - P2.length)) := by
      simp only [List.append_assoc]
    rw [e1, hr1, ← hP1, hn1, hr2, hE2, List.append_assoc]
    exact block_loop_done impl false _ _ _ _ _ _ _ (by omega)
  -- the three calls
  have hk0bl : k0.dwBlockLen = bl := hk0s.1
  have hal1 : n1 % bl = 0 := by rw [← hn1, hP1]; exact Nat.mul_mod_left _ _
  have hcallA := CPEncrypt_nonfinal_run impl s hProv hKey hHash k k1 (P1 ++ tailA) (C1 ++ tailA)
    n1 lenA bl hprov hkey hst hnh htype hkbl hal1 hA hA32 (by rw [hk0]; exact hloopA)
  obtain ⟨sA, hsA⟩ : ∃ sA, s.withTable (store_object s.handle_table hKey (.key k1)) = sA :=
    ⟨_, rfl⟩
  rw [hsA] at hcallA
  have hsAt : sA.handle_table = store_object s.handle_table hKey (.key k1) := by
    rw [← hsA]; rfl
  have hprovA : is_valid_handle sA.handle_table hProv is_container = true := by
    rw [hsAt]
    exact (is_valid_handle_store s.handle_table hKey hProv (.key k) (.key k1) is_container
      hobj rfl).trans hprov
  have hnhA : is_valid_handle sA.handle_table hHash is_hash = false := by
    rw [hsAt]
    exact (is_valid_handle_store s.handle_table hKey hHash (.key k) (.key k1) is_hash
      hobj rfl).trans hnh
  have hkeyA : lookup_key sA.handle_table hKey = some k1 := by
    rw [hsAt]; exact lookup_key_store_same _ _ _ _ hkey
  have hcallB := CPEncrypt_final_run impl sA hProv hKey hHash k1 k2 P2 tailB
    (C2 ++ tailB.drop (E2 - P2.length)) lenB bl hprovA hkeyA (Or.inr hk1st) hnhA
    (by rw [ha1, hk0a]; exact htype) hsh1.1 hbl (by omega)
    (by rw [hm2, hE2]; exact hB) hB32 hBm
    (by rw [hm2, hE2, hk1e]; exact hloopB)
  rw [hm2, hE2] at hcallB
  have hsF : sA.withTable (store_object sA.handle_table hKey (.key (setup_key impl k2)))
      = s.withTable (store_object s.handle_table hKey (.key (setup_key impl k2))) := by
    rw [hsAt, store_object_store _ _ _ _ _ hobj, ← hsA]
    rfl
  rw [hsF] at hcallB
  have hdiv : (P1 ++ P2).length / bl + 1 = m1 + m2 := by
    rw [List.length_append, hP1, Nat.mul_comm m1 bl, Nat.mul_add_div hbl, ← hm2]
    omega
  have hEC : ((P1 ++ P2).length / bl + 1) * bl = n1 + E2 := by
    rw [hdiv, Nat.add_mul, hE2, ← hP1, hn1]
  have hpC : n1 + E2 - (P1 ++ P2).length = E2 - P2.length := by
    rw [List.length_append, hn1]; omega
  have hcallC := CPEncrypt_final_run impl s hProv hKey hHash k k2 (P1 ++ P2) tailC
    ((C1 ++ C2) ++ tailC.drop (E2 - P2.length)) lenC bl hprov hkey hst hnh htype hkbl hbl
    (by omega) (by rw [hEC]; exact hC) hC32 hCm
    (by rw [hEC, hpC, hk0]; exact hloopC)
  rw [hEC] at hcallC
  exact ⟨C1, C2, sA, _, hC1, hC2, hcallA, hcallB, hcallC⟩

theorem toyImpl_BlockTotal (alg ctx bl : Nat) : BlockTotal toyImpl alg ctx bl := by
  intro x hx
  refine ⟨(x.map (fun b => (b + ctx % 256 + 1) % 256)).reverse, ?_, ?_⟩
  · rfl
  · rw [List.length_reverse, List.length_map, hx]

/-- Witness for C35: an Idle DES key in CBC mode over the small engine, P1 of one block and P2 of
three bytes. -/
theorem chunking_invariance_witness :
    ∃ (C1 C2 : List Nat) (sA sF : CSP Nat (List Nat)),
      C1.length = ([1, 2, 3, 4, 5, 6, 7, 8] : List Nat).length ∧ C2.length = (([9, 10, 11] : List Nat).length / 8 + 1) * 8 ∧
      RSAENH_CPEncrypt toyImpl (toyState 0 [.key (toyDesKey RSAENH_KEYSTATE_IDLE CRYPT_MODE_CBC (List.replicate 24 0))]) 1 2 0 false 0 (([1, 2, 3, 4, 5, 6, 7, 8] : List Nat) ++ []) ([1, 2, 3, 4, 5, 6, 7, 8] : List Nat).length 8
        = some (true, sA, C1 ++ [], ([1, 2, 3, 4, 5, 6, 7, 8] : List Nat).length) ∧
      RSAENH_CPEncrypt toyImpl sA 1 2 0 true 0 (([9, 10, 11] : List Nat) ++ (List.replicate 5 0)) ([9, 10, 11] : List Nat).length 8
        = some (true, sF, C2 ++ (List.replicate 5 0).drop ((([9, 10, 11] : List Nat).length / 8 + 1) * 8 - ([9, 10, 11] : List Nat).length),
            (([9, 10, 11] : List Nat).length / 8 + 1) * 8) ∧
      RSAENH_CPEncrypt toyImpl (toyState 0 [.key (toyDesKey RSAENH_KEYSTATE_IDLE CRYPT_MODE_CBC (List.replicate 24 0))]) 1 2 0 true 0 ((([1, 2, 3, 4, 5, 6, 7, 8] : List Nat) ++ ([9, 10, 11] : List Nat)) ++ (List.replicate 5 0))
          (([1, 2, 3, 4, 5, 6, 7, 8] : List Nat) ++ ([9, 10, 11] : List Nat)).length 16
        = some (true, sF,
            (C1 ++ C2) ++ (List.replicate 5 0).drop ((([9, 10, 11] : List Nat).length / 8 + 1) * 8 - ([9, 10, 11] : List Nat).length),
            ([1, 2, 3, 4, 5, 6, 7, 8] : List Nat).length + (([9, 10, 11] : List Nat).length / 8 + 1) * 8) :=
  chunking_invariance toyImpl (toyState 0 [.key (toyDesKey RSAENH_KEYSTATE_IDLE CRYPT_MODE_CBC (List.replicate 24 0))]) 1 2 0
    (toyDesKey RSAENH_KEYSTATE_IDLE CRYPT_MODE_CBC (List.replicate 24 0)) 8 1
    ([1, 2, 3, 4, 5, 6, 7, 8] : List Nat) ([9, 10, 11] : List Nat) [] (List.replicate 5 0) (List.replicate 5 0) 8 8 16
    (by decide) rfl (Or.inl rfl) (by decide) (by decide)
    ⟨rfl, Or.inr (Or.inl rfl), by decide⟩ (toyImpl_BlockTotal _ _ _)
    (by decide) (by decide) (by decide) (by decide) (by decide) (by decide) (by decide)
    (by decide) (by decide) (by decide) (by decide)

theorem pad_data_returns (rand abData abBuffer : List Nat) (dwBufferLen dwFlags : Nat)
    (hlen : abData.length + 11 ≤ dwBufferLen)
    (hr : dwBufferLen - abData.length - 3 ≤ (rand.filter (fun b => b % 256 != 0)).length) :
    ∃ r rand', pad_data rand abData abBuffer dwBufferLen dwFlags = some (r, rand') := by
  unfold pad_data
  simp only []
  have e11 : dwSub dwBufferLen 11 = dwBufferLen - 11 := dwSub_eq _ _ (by omega)
  have ed : dwSub dwBufferLen abData.length = dwBufferLen - abData.length :=
    dwSub_eq _ _ (by omega)
  have eb : dwSub (dwBufferLen - abData.length) 1 = dwBufferLen - abData.length - 1 :=
    dwSub_eq _ _ (by omega)
  rw [e11, ed, eb, if_neg (by omega)]
  obtain ⟨⟨b2, r2⟩, hfill⟩ := pad_fill_terminates (dwBufferLen - abData.length - 1 - 2) rand
    (((memmove abBuffer (dwBufferLen - abData.length) abData).set 0 0).set 1
      RSAENH_PKC_BLOCKTYPE) 2 (by omega)
  rw [hfill]
  simp only []
  split <;> exact ⟨_, _, rfl⟩

/-- unpad_data on a buffer of the layout that pad_data produces, with a destination that holds
the data. -/
theorem unpad_data_layout_le (F abData T out : List Nat) (len cap dwFlags : Nat)
    (hnz : ∀ b ∈ F, b ≠ 0) (hlen : len = 3 + F.length + abData.length)
    (hcap : abData.length ≤ cap) (hout : abData.length ≤ out.length) :
    unpad_data (0 :: 2 :: (F ++ 0 :: (abData ++ T))) len out cap dwFlags
      = .ok (abData ++ out.drop abData.length, abData.length) := by
  have hscan : unpad_scan (0 :: 2 :: (F ++ 0 :: (abData ++ T))) len len 2 = 2 + F.length := by
    have := unpad_scan_spec F [0, 2] (abData ++ T) len len hnz (by omega) (by simp; omega)
    simpa using this
  unfold unpad_data
  simp only [hscan]
  have e1 : dwSub len (2 + F.length) = len - (2 + F.length) := dwSub_eq _ _ (by omega)
  have e2 : dwSub (len - (2 + F.length)) 1 = abData.length := by
    rw [dwSub_eq _ _ (by omega)]; omega
  rw [e1, e2]
  have hc : ¬ (2 + F.length = len ∨ cap < abData.length ∨
      (0 :: 2 :: (F ++ 0 :: (abData ++ T))).getD 0 0 ≠ 0 ∨
      (0 :: 2 :: (F ++ 0 :: (abData ++ T))).getD 1 0 ≠ RSAENH_PKC_BLOCKTYPE) := by
    simp [RSAENH_PKC_BLOCKTYPE]; omega
  rw [if_neg hc]
  have hb : bytesAt (0 :: 2 :: (F ++ 0 :: (abData ++ T))) (2 + F.length + 1) abData.length
      = abData := by
    unfold bytesAt
    have : (0 :: 2 :: (F ++ 0 :: (abData ++ T))) = (0 :: 2 :: (F ++ [0])) ++ (abData ++ T) := by
      simp
    rw [this, List.drop_left' (by simp; omega)]
    simp
  rw [hb, memmove_inbounds _ _ _ (by simp; omega)]
  simp

/-- The flags word `dwKeyLen << 19` that the case SIMPLEBLOB of CPImportKey passes to new_key:
its high word is the key length in bits, and no salt flag is set. -/
theorem import_flags_word (n : Nat) (hn : n ≤ 48) :
    HIWORD (dwMul n 524288) = 8 * n ∧ dwMul n 524288 &&& CRYPT_CREATE_SALT = 0 ∧
      dwMul n 524288 &&& CRYPT_NO_SALT = 0 := by
  interval_cases n <;> decide

/-- The header fields that CPImportKey reads from a SIMPLEBLOB as CPExportKey writes it. -/
theorem simple_blob_header_fields (a p : Nat) (c T : List Nat) (ha : a < 4294967296) :
    ((blob_header SIMPLEBLOB a ++ dword_bytes p) ++ (c ++ T)).getD 0 0 = SIMPLEBLOB ∧
    ((blob_header SIMPLEBLOB a ++ dword_bytes p) ++ (c ++ T)).getD 1 0 = CUR_BLOB_VERSION ∧
    read_word ((blob_header SIMPLEBLOB a ++ dword_bytes p) ++ (c ++ T)) 2 = 0 ∧
    read_dword ((blob_header SIMPLEBLOB a ++ dword_bytes p) ++ (c ++ T)) 4 = a ∧
    bytesAt ((blob_header SIMPLEBLOB a ++ dword_bytes p) ++ (c ++ T)) 12 c.length = c := by
  refine ⟨rfl, rfl, rfl, ?_, ?_⟩
  · have : bytesAt ((blob_header SIMPLEBLOB a ++ dword_bytes p) ++ (c ++ T)) 4 4
        = dword_bytes a := rfl
    unfold read_dword
    rw [this]
    exact bytes_dword_dword_bytes a ha
  · exact bytesAt_append_mid _ c T 12 c.length rfl rfl

/-- The key object that new_key creates for the flags word of the case SIMPLEBLOB of
CPImportKey, when the capability table accepts the length. -/
theorem new_key_import {κ η : Type} (impl : IMPL κ η) (s : CSP κ η) (hProv a n : Nat)
    (e : PROV_ENUMALGS_EX) (hn : n ≤ 48)
    (he : get_algid_info s.handle_table hProv a = .ok e)
    (hlen : new_key_length a e (if 8 * n = 0 then e.dwDefaultLen else 8 * n) = some (8 * n)) :
    ∃ s1 hKey k, new_key impl s hProv a (dwMul n 524288) = (s1, some (hKey, k)) ∧
      lookup_key s1.handle_table hKey = some k ∧ k.aiAlgid = a ∧ k.dwKeyLen = n ∧
      k.dwSaltLen = (if n = 5 then 11 else 0) ∧ k.context = impl.fresh_key_context ∧
      k.abKeyValue = List.replicate RSAENH_MAX_KEY_SIZE 0 := by
  obtain ⟨h1, h2, h3⟩ := import_flags_word n hn
  obtain ⟨r, hr⟩ : ∃ r, new_key impl s hProv a (dwMul n 524288) = r := ⟨_, rfl⟩
  have hr' := hr
  unfold new_key at hr'
  rw [he] at hr'
  simp only [h1, hlen, h2, h3] at hr'
  obtain ⟨s1, o⟩ := r
  rcases o with _ | ⟨hKey, k⟩
  · simp only [Prod.mk.injEq] at hr'
    exact absurd hr'.2 (by simp)
  · have hk := new_key_some impl s s1 hProv a (dwMul n 524288) hKey k hr
    simp only [Prod.mk.injEq, Option.some.injEq] at hr'
    refine ⟨s1, hKey, k, hr, hk.1, ?_, ?_, ?_, ?_, hk.2.1⟩
    · rw [← hr'.2.2]
    · rw [← hr'.2.2]
      show 8 * n / 8 = n
      omega
    · rw [← hr'.2.2]
      by_cases h5 : n = 5
      · subst h5; rfl
      · rw [if_neg h5]
        show (if _ then _ else _) = 0
        rw [if_neg (by omega)]
    · rw [← hr'.2.2]

/-- The case SIMPLEBLOB of CPExportKey with a buffer that holds the blob: the blob is the
header, the algorithm id of the exchange key and the encrypted PKCS#1 block of the key
bytes. -/
theorem CPExportKey_simple_blob {κ η : Type} (impl : IMPL κ η) (rsa : RSA_IMPL κ)
    (s : CSP κ η) (hProv hKey hPubKey dwFlags dwDataLen : Nat) (buf : List Nat)
    (K pub : CRYPTKEY κ)
    (hprov : is_valid_handle s.handle_table hProv is_container = true)
    (hkey : lookup_key s.handle_table hKey = some K)
    (hpub : lookup_key s.handle_table hPubKey = some pub)
    (hcls : GET_ALG_CLASS K.aiAlgid &&& (ALG_CLASS_DATA_ENCRYPT ||| ALG_CLASS_MSG_ENCRYPT) ≠ 0)
    (hfl : dwFlags &&& CRYPT_SSL2_FALLBACK ≠ 0 → K.aiAlgid = CALG_SSL2_MASTER)
    (hKv : K.dwKeyLen ≤ K.abKeyValue.length) (hKb : isBytes K.abKeyValue)
    (hKl : K.dwKeyLen + 11 ≤ pub.dwBlockLen)
    (hd : 12 + pub.dwBlockLen ≤ dwDataLen) (hmem : 12 + pub.dwBlockLen ≤ buf.length)
    (h32 : 12 + pub.dwBlockLen < 4294967296)
    (hinv : BlockInverse impl pub.aiAlgid pub.context pub.dwBlockLen)
    (hrand : pub.dwBlockLen - K.dwKeyLen - 3 ≤
      (s.rand.filter (fun b => b % 256 != 0)).length) :
    ∃ F c T rand1, pub.dwBlockLen = 3 + F.length + K.dwKeyLen ∧ (∀ b ∈ F, b ≠ 0) ∧
      c.length = pub.dwBlockLen ∧
      impl.encrypt_block_impl pub.aiAlgid pub.context c RSAENH_DECRYPT =
        some (0 :: 2 :: (F ++ 0 :: bytesAt K.abKeyValue 0 K.dwKeyLen)) ∧
      RSAENH_CPExportKey impl rsa s hProv hKey hPubKey SIMPLEBLOB dwFlags (some buf) dwDataLen =
        some (true, { s with rand := rand1 },
          some ((blob_header SIMPLEBLOB K.aiAlgid ++ dword_bytes pub.aiAlgid) ++ (c ++ T)),
          12 + pub.dwBlockLen) := by
  have hkl : (bytesAt K.abKeyValue 0 K.dwKeyLen).length = K.dwKeyLen :=
    bytesAt_length _ _ _ (by omega)
  have hH : (blob_header SIMPLEBLOB K.aiAlgid ++ dword_bytes pub.aiAlgid).length = 12 := rfl
  have hb1 : memmove buf 0 (blob_header SIMPLEBLOB K.aiAlgid ++ dword_bytes pub.aiAlgid)
      = (blob_header SIMPLEBLOB K.aiAlgid ++ dword_bytes pub.aiAlgid) ++ buf.drop 12 := by
    rw [memmove_zero _ _ (by rw [hH]; omega), hH]
  have hdrop : ((blob_header SIMPLEBLOB K.aiAlgid ++ dword_bytes pub.aiAlgid) ++
      buf.drop 12).drop 12 = buf.drop 12 := List.drop_left' hH
  have htake : ((blob_header SIMPLEBLOB K.aiAlgid ++ dword_bytes pub.aiAlgid) ++
      buf.drop 12).take 12 = blob_header SIMPLEBLOB K.aiAlgid ++ dword_bytes pub.aiAlgid :=
    List.take_left' hH
  obtain ⟨r, rand1, hpad⟩ := pad_data_returns s.rand (bytesAt K.abKeyValue 0 K.dwKeyLen)
    (buf.drop 12) pub.dwBlockLen dwFlags (by rw [hkl]; exact hKl) (by rw [hkl]; exact hrand)
  obtain ⟨F, hF, hnz, _, hr⟩ := pad_data_layout _ _ _ _ _ _ _ (by rw [hkl]; exact hKl)
    (by rw [List.length_drop]; omega) hpad
  rw [hkl] at hF
  subst hr
  have hPlen : (0 :: 2 :: (F ++ 0 :: bytesAt K.abKeyValue 0 K.dwKeyLen)).length
      = pub.dwBlockLen := by
    simp only [List.length_cons, List.length_append, hkl, hF]; omega
  have hPb : isBytes (0 :: 2 :: (F ++ 0 :: bytesAt K.abKeyValue 0 K.dwKeyLen)) :=
    isBytes_cons (by decide) (isBytes_cons (by decide)
      (isBytes_append (fun b hb => (hnz b hb).2)
        (isBytes_cons (by decide) (isBytes_bytesAt 0 _ hKb))))
  obtain ⟨c, hc, hcl, _, hdec⟩ := hinv _ hPlen hPb
  have hsplit : (0 :: 2 :: (F ++ 0 :: (bytesAt K.abKeyValue 0 K.dwKeyLen ++
      (buf.drop 12).drop pub.dwBlockLen))) =
      (0 :: 2 :: (F ++ 0 :: bytesAt K.abKeyValue 0 K.dwKeyLen)) ++
        (buf.drop 12).drop pub.dwBlockLen := by simp
  have hblock : bytesAt (0 :: 2 :: (F ++ 0 :: (bytesAt K.abKeyValue 0 K.dwKeyLen ++
      (buf.drop 12).drop pub.dwBlockLen))) 0 pub.dwBlockLen =
      0 :: 2 :: (F ++ 0 :: bytesAt K.abKeyValue 0 K.dwKeyLen) := by
    rw [hsplit, bytesAt_zero, List.take_left' hPlen]
  have hcall : call_encrypt_block impl pub.aiAlgid pub.context
      (0 :: 2 :: (F ++ 0 :: bytesAt K.abKeyValue 0 K.dwKeyLen))
      (0 :: 2 :: (F ++ 0 :: (bytesAt K.abKeyValue 0 K.dwKeyLen ++
        (buf.drop 12).drop pub.dwBlockLen))) RSAENH_ENCRYPT =
      c ++ (buf.drop 12).drop pub.dwBlockLen := by
    rw [call_encrypt_block_some impl _ _ _ _ c _ hc
      (by rw [hsplit, List.length_append, hPlen, hcl]; omega), hsplit,
      List.drop_left' (by rw [hPlen, hcl])]
  refine ⟨F, c, (buf.drop 12).drop pub.dwBlockLen, rand1, by omega,
    fun b hb => (hnz b hb).1, hcl, hdec, ?_⟩
  unfold RSAENH_CPExportKey
  rw [if_neg (by rw [hprov]; simp), hkey]
  simp only []
  rw [if_neg (fun h => h.2 (hfl h.1)), if_pos (by decide), hpub]
  simp only []
  rw [if_neg hcls]
  have hlen : dwAdd (sizeof_BLOBHEADER + sizeof_ALG_ID) pub.dwBlockLen = 12 + pub.dwBlockLen :=
    dwAdd_eq _ _ h32
  rw [hlen, if_neg (by omega), hb1, hdrop, hpad]
  simp only []
  rw [hblock, hcall, htake]

/-- The case SIMPLEBLOB of CPImportKey on a blob whose encrypted block decrypts to a PKCS#1
block of type 2 with the data `kb`. -/
theorem CPImportKey_simple_blob {κ η : Type} (impl : IMPL κ η) (rsa : RSA_IMPL κ)
    (s : CSP κ η) (hProv hPubKey dwFlags dwDataLen ph a p : Nat) (F kb c T : List Nat)
    (pub : CRYPTKEY κ) (e : PROV_ENUMALGS_EX)
    (hprov : is_valid_handle s.handle_table hProv is_container = true)
    (hpub : lookup_key s.handle_table hPubKey = some pub)
    (hpa : pub.aiAlgid = CALG_RSA_KEYX) (ha : a < 4294967296)
    (hcl : c.length = pub.dwBlockLen)
    (hdec : impl.encrypt_block_impl pub.aiAlgid pub.context c RSAENH_DECRYPT =
      some (0 :: 2 :: (F ++ 0 :: kb)))
    (hnz : ∀ b ∈ F, b ≠ 0) (hB : pub.dwBlockLen = 3 + F.length + kb.length)
    (hk48 : kb.length ≤ 48) (hd : 12 + pub.dwBlockLen ≤ dwDataLen)
    (he : get_algid_info s.handle_table hProv a = .ok e)
    (hlen : new_key_length a e (if 8 * kb.length = 0 then e.dwDefaultLen else 8 * kb.length)
      = some (8 * kb.length)) :
    ∃ s2 hNew k, RSAENH_CPImportKey impl rsa s hProv
        ((blob_header SIMPLEBLOB a ++ dword_bytes p) ++ (c ++ T)) dwDataLen hPubKey dwFlags ph
        = (true, s2, hNew) ∧
      lookup_key s2.handle_table hNew = some k ∧ k.aiAlgid = a ∧ k.dwKeyLen = kb.length ∧
      k.dwSaltLen = (if kb.length = 5 then 11 else 0) ∧
      k.abKeyValue = kb ++ List.replicate (RSAENH_MAX_KEY_SIZE - kb.length) 0 ∧
      k.context = (impl.setup_key_impl a impl.fresh_key_context kb.length
        (if kb.length = 5 then 11 else 0)
        (kb ++ List.replicate (RSAENH_MAX_KEY_SIZE - kb.length) 0)).2 ∧
      k.dwState = RSAENH_KEYSTATE_IDLE := by
  obtain ⟨f0, f1, f2, f4, f12⟩ := simple_blob_header_fields a p c T ha
  have hPlen : (0 :: 2 :: (F ++ 0 :: kb)).length = pub.dwBlockLen := by
    simp only [List.length_cons, List.length_append]; omega
  have hcall : call_encrypt_block impl pub.aiAlgid pub.context c (heap_block pub.dwBlockLen)
      RSAENH_DECRYPT = 0 :: 2 :: (F ++ 0 :: (kb ++ [])) := by
    unfold call_encrypt_block
    rw [hdec]
    simp only []
    rw [memmove_self _ _ hPlen, List.append_nil]
  have hun : unpad_data (0 :: 2 :: (F ++ 0 :: (kb ++ []))) pub.dwBlockLen
      (0 :: 2 :: (F ++ 0 :: (kb ++ []))) RSAENH_MAX_KEY_SIZE dwFlags =
      .ok (kb ++ (0 :: 2 :: (F ++ 0 :: (kb ++ []))).drop kb.length, kb.length) :=
    unpad_data_layout_le F kb [] _ pub.dwBlockLen RSAENH_MAX_KEY_SIZE dwFlags hnz hB hk48
      (by simp only [List.length_cons, List.length_append]; omega)
  obtain ⟨s1, hKey, k, hnew, hlk, hka, hkl, hks, hkc, hkv⟩ :=
    new_key_import impl s hProv a kb.length e hk48 he hlen
  have hmv : memmove k.abKeyValue 0
      (bytesAt (kb ++ (0 :: 2 :: (F ++ 0 :: (kb ++ []))).drop kb.length) 0 kb.length) =
      kb ++ List.replicate (RSAENH_MAX_KEY_SIZE - kb.length) 0 := by
    rw [bytesAt_zero, List.take_left' rfl, hkv,
      memmove_zero _ _ (by rw [List.length_replicate]; exact hk48), List.drop_replicate]
  refine ⟨s1.withTable (store_object s1.handle_table hKey (.key (setup_key impl
    { k with abKeyValue := kb ++ List.replicate (RSAENH_MAX_KEY_SIZE - kb.length) 0 }))),
    hKey, setup_key impl
    { k with abKeyValue := kb ++ List.replicate (RSAENH_MAX_KEY_SIZE - kb.length) 0 }, ?_,
    lookup_key_store_same _ _ _ _ hlk, hka, hkl, hks, rfl, ?_, rfl⟩
  · unfold RSAENH_CPImportKey
    rw [if_neg (by rw [hprov]; simp), f1, f2, if_neg (by simp [sizeof_BLOBHEADER]; omega)]
    simp only [f0, f4]
    rw [if_neg (by decide), if_neg (by decide), if_pos trivial, hpub]
    simp only []
    rw [if_neg (by rw [hpa]; simp), if_neg (by simp [sizeof_BLOBHEADER, sizeof_ALG_ID]; omega),
      ← hcl, f12, hcl, hcall, hun]
    simp only []
    rw [hnew]
    simp only []
    rw [hmv]
  · show (impl.setup_key_impl k.aiAlgid k.context k.dwKeyLen k.dwSaltLen _).2 = _
    rw [hka, hkc, hkl, hks]

/-- C34 (counterexample). The simple-blob round trip does not keep the salt.  With an RSA
key-exchange key of 48 bytes whose decrypt direction inverts its encrypt direction: (1) the
40-bit RC2 key with the bytes 1..5 and salt length 0 (a key created with CRYPT_NO_SALT) comes
back with salt length 11; (2) the 40-bit RC2 key with the bytes 1..5, salt length 11 and the
salt bytes 9 (CPGenKey fills the salt with random bytes) comes back with salt length 11 and
the salt bytes 0, so its key-plus-salt bytes differ. -/
theorem simple_blob_salt_lost :
    (toySecretKey CALG_RC2 5 0 [1, 2, 3, 4, 5]).dwSaltLen = 0 ∧
    (toyBlobRoundTrip (toySecretKey CALG_RC2 5 0 [1, 2, 3, 4, 5])).map
      (fun k => (k.aiAlgid, k.dwKeyLen, k.dwSaltLen)) = some (CALG_RC2, 5, 11) ∧
    bytesAt ({ toySecretKey CALG_RC2 5 0 [1, 2, 3, 4, 5, 9, 9, 9, 9, 9, 9, 9, 9, 9, 9, 9] with
      dwSaltLen := 11 } : CRYPTKEY Nat).abKeyValue 0 16
      = [1, 2, 3, 4, 5, 9, 9, 9, 9, 9, 9, 9, 9, 9, 9, 9] ∧
    (toyBlobRoundTrip
      { toySecretKey CALG_RC2 5 0 [1, 2, 3, 4, 5, 9, 9, 9, 9, 9, 9, 9, 9, 9, 9, 9] with
        dwSaltLen := 11 }).map
      (fun k => (k.aiAlgid, k.dwKeyLen, k.dwSaltLen, bytesAt k.abKeyValue 0 16)) =
      some (CALG_RC2, 5, 11, [1, 2, 3, 4, 5, 0, 0, 0, 0, 0, 0, 0, 0, 0, 0, 0]) := by
  decide

/-- C34 (amended). Simple-blob round trip.  `K` is a key of class DATA_ENCRYPT or MSG_ENCRYPT
(handle `hKey`, raw key array of 48 bytes, key length at most 48 and at most the block length
of the exchange key minus 11) whose algorithm and length the capability table of the provider
accepts, `pub` (handle `hPubKey`) an RSA key-exchange key whose primitive decrypt direction
inverts its encrypt direction; the buffer holds the blob and the random source has enough
non-zero bytes for the padding.  Then CPExportKey with SIMPLEBLOB returns TRUE with a blob of
12 + block length bytes, and CPImportKey on that blob returns TRUE with a handle to a key
object that has the algorithm id, the key length and the key bytes of `K`; its salt length is
the one new_key gives when no salt flag is set (11 for a key of 5 bytes, 0 otherwise), the
bytes behind its key bytes are zero, and its key schedule is what setup_key_impl makes of
these values.  So it has the salt length and the raw key array of `K` whenever `K` has that
salt length and zero bytes behind its key bytes. -/
theorem simple_blob_round_trip {κ η : Type} (impl : IMPL κ η) (rsa : RSA_IMPL κ)
    (s : CSP κ η) (hProv hKey hPubKey dwFlags dwFlags' dwDataLen ph : Nat) (buf : List Nat)
    (K pub : CRYPTKEY κ) (e : PROV_ENUMALGS_EX)
    (hprov : is_valid_handle s.handle_table hProv is_container = true)
    (hkey : lookup_key s.handle_table hKey = some K)
    (hpub : lookup_key s.handle_table hPubKey = some pub)
    (hpa : pub.aiAlgid = CALG_RSA_KEYX)
    (hcls : GET_ALG_CLASS K.aiAlgid &&& (ALG_CLASS_DATA_ENCRYPT ||| ALG_CLASS_MSG_ENCRYPT) ≠ 0)
    (hfl : dwFlags &&& CRYPT_SSL2_FALLBACK ≠ 0 → K.aiAlgid = CALG_SSL2_MASTER)
    (hK32 : K.aiAlgid < 4294967296)
    (hKv : K.abKeyValue.length = RSAENH_MAX_KEY_SIZE) (hKb : isBytes K.abKeyValue)
    (hK48 : K.dwKeyLen ≤ RSAENH_MAX_KEY_SIZE)
    (hKl : K.dwKeyLen + 11 ≤ pub.dwBlockLen)
    (hd : 12 + pub.dwBlockLen ≤ dwDataLen) (hmem : 12 + pub.dwBlockLen ≤ buf.length)
    (h32 : 12 + pub.dwBlockLen < 4294967296)
    (hinv : BlockInverse impl pub.aiAlgid pub.context pub.dwBlockLen)
    (hrand : pub.dwBlockLen - K.dwKeyLen - 3 ≤
      (s.rand.filter (fun b => b % 256 != 0)).length)
    (he : get_algid_info s.handle_table hProv K.aiAlgid = .ok e)
    (hlen : new_key_length K.aiAlgid e
      (if 8 * K.dwKeyLen = 0 then e.dwDefaultLen else 8 * K.dwKeyLen) = some (8 * K.dwKeyLen)) :
    ∃ blob s1 s2 hNew k,
      RSAENH_CPExportKey impl rsa s hProv hKey hPubKey SIMPLEBLOB dwFlags (some buf) dwDataLen =
        some (true, s1, some blob, 12 + pub.dwBlockLen) ∧
      RSAENH_CPImportKey impl rsa s1 hProv blob (12 + pub.dwBlockLen) hPubKey dwFlags' ph =
        (true, s2, hNew) ∧
      lookup_key s2.handle_table hNew = some k ∧
      k.aiAlgid = K.aiAlgid ∧ k.dwKeyLen = K.dwKeyLen ∧
      bytesAt k.abKeyValue 0 K.dwKeyLen = bytesAt K.abKeyValue 0 K.dwKeyLen ∧
      k.dwSaltLen = (if K.dwKeyLen = 5 then 11 else 0) ∧
      k.abKeyValue.drop K.dwKeyLen = List.replicate (RSAENH_MAX_KEY_SIZE - K.dwKeyLen) 0 ∧
      k.context = (impl.setup_key_impl k.aiAlgid impl.fresh_key_context k.dwKeyLen k.dwSaltLen
        k.abKeyValue).2 ∧
      (K.dwSaltLen = (if K.dwKeyLen = 5 then 11 else 0) →
        K.abKeyValue.drop K.dwKeyLen = List.replicate (RSAENH_MAX_KEY_SIZE - K.dwKeyLen) 0 →
        k.dwSaltLen = K.dwSaltLen ∧ k.abKeyValue = K.abKeyValue) := by
  have hkl : (bytesAt K.abKeyValue 0 K.dwKeyLen).length = K.dwKeyLen :=
    bytesAt_length _ _ _ (by omega)
  obtain ⟨F, c, T, rand1, hB, hnz, hcl, hdec, hexp⟩ :=
    CPExportKey_simple_blob impl rsa s hProv hKey hPubKey dwFlags dwDataLen buf K pub hprov hkey
      hpub hcls hfl (by omega) hKb hKl hd hmem h32 hinv hrand
  obtain ⟨s2, hNew, k, himp, hlk, hka, hkn, hks, hkv, hkc, _⟩ :=
    CPImportKey_simple_blob impl rsa { s with rand := rand1 } hProv hPubKey dwFlags'
      (12 + pub.dwBlockLen) ph K.aiAlgid pub.aiAlgid F (bytesAt K.abKeyValue 0 K.dwKeyLen) c T
      pub e hprov hpub hpa hK32 hcl hdec hnz (by rw [hkl]; exact hB) (by rw [hkl]; exact hK48)
      (le_refl _) he (by rw [hkl]; exact hlen)
  rw [hkl] at hkn hks hkv hkc
  have hdrop : k.abKeyValue.drop K.dwKeyLen =
      List.replicate (RSAENH_MAX_KEY_SIZE - K.dwKeyLen) 0 := by
    rw [hkv, List.drop_left' hkl]
  refine ⟨_, _, s2, hNew, k, hexp, himp, hlk, hka, hkn, ?_, hks, hdrop, ?_, ?_⟩
  · rw [hkv, bytesAt_zero, List.take_left' hkl]
  · rw [hkc, hka, hkn, hks, hkv]
  · intro hs hz
    refine ⟨by rw [hks, hs], ?_⟩
    rw [hkv, ← hz, bytesAt_zero, List.take_append_drop]

/-- Witness for C34: the 128-bit RC4 key with the bytes 0..15 and no salt, exported for an RSA
key-exchange key of 48 bytes and read back with it, in the enhanced personality. -/
theorem simple_blob_round_trip_witness :
    ∃ blob s1 s2 hNew k,
      RSAENH_CPExportKey toyImpl toyRsaImpl
        (toyBlobState (toySecretKey CALG_RC4 16 0 (List.range 16))) 1 2 3 SIMPLEBLOB 0
        (some (List.replicate 60 0)) 60 = some (true, s1, some blob, 12 + 48) ∧
      RSAENH_CPImportKey toyImpl toyRsaImpl s1 1 blob (12 + 48) 3 0 0 = (true, s2, hNew) ∧
      lookup_key s2.handle_table hNew = some k ∧
      k.aiAlgid = CALG_RC4 ∧ k.dwKeyLen = 16 ∧ k.dwSaltLen = 0 ∧
      k.abKeyValue = (toySecretKey CALG_RC4 16 0 (List.range 16)).abKeyValue := by
  obtain ⟨blob, s1, s2, hNew, k, h1, h2, h3, h4, h5, _, h7, _, _, h10⟩ :=
    simple_blob_round_trip toyImpl toyRsaImpl
      (toyBlobState (toySecretKey CALG_RC4 16 0 (List.range 16))) 1 2 3 0 0 60 0
      (List.replicate 60 0) (toySecretKey CALG_RC4 16 0 (List.range 16))
      { toyRsaKey with aiAlgid := CALG_RSA_KEYX }
      ⟨CALG_RC4, 128, 40, 128, 0, 4, "RC4", 24, "RSA Data Security\x27s RC4"⟩
      (by decide) (by decide) (by decide) (by decide) (by decide) (by decide) (by decide)
      (by decide) (by decide) (by decide) (by decide) (by decide) (by decide) (by decide)
      (toyImpl_BlockInverse _ _ _) (by decide) (by decide) (by decide)
  exact ⟨blob, s1, s2, hNew, k, h1, h2, h3, h4, h5, h7, (h10 (by decide) (by decide)).2⟩

theorem KeyFrame_refl {κ η : Type} (t : HANDLETABLE κ η) (hKey : Nat) : KeyFrame t t hKey :=
  ⟨fun _ _ => rfl, fun k hk => ⟨k, hk, rfl⟩⟩

theorem KeyFrame_of_eq {κ η : Type} (t t' : HANDLETABLE κ η) (hKey : Nat)
    (h : ∀ hK, lookup_key t' hK = lookup_key t hK) : KeyFrame t t' hKey :=
  ⟨fun hK _ => h hK, fun k hk => ⟨k, by rw [h]; exact hk, rfl⟩⟩

theorem KeyFrame_trans {κ η : Type} (t t' t'' : HANDLETABLE κ η) (hKey : Nat)
    (h1 : KeyFrame t t' hKey) (h2 : KeyFrame t' t'' hKey) : KeyFrame t t'' hKey := by
  refine ⟨fun hK hne => by rw [h2.1 hK hne, h1.1 hK hne], fun k hk => ?_⟩
  obtain ⟨k', hk', ha'⟩ := h1.2 k hk
  obtain ⟨k'', hk'', ha''⟩ := h2.2 k' hk'
  exact ⟨k'', hk'', by rw [ha'', ha']⟩

theorem KeyFrame_store {κ η : Type} (t : HANDLETABLE κ η) (hKey : Nat) (k k' : CRYPTKEY κ)
    (hl : lookup_key t hKey = some k) (ha : k'.aiAlgid = k.aiAlgid) :
    KeyFrame t (store_object t hKey (.key k')) hKey := by
  refine ⟨fun hK hne => ?_, fun k0 hk0 => ?_⟩
  · unfold lookup_key
    rw [lookup_object_store_other _ _ _ _ (fun e => hne e.symm)]
  · rw [hl] at hk0
    injection hk0 with hk0
    exact ⟨k', lookup_key_store_same _ _ _ _ hl, by rw [ha, hk0]⟩

theorem encrypt_block_step_algid {κ η : Type} (impl : IMPL κ η) (k k1 : CRYPTKEY κ)
    (inp out o out1 o1 : List Nat)
    (h : encrypt_block_step impl k inp out o = some (k1, out1, o1)) :
    k1.aiAlgid = k.aiAlgid := by
  unfold encrypt_block_step at h
  by_cases h1 : k.dwMode = CRYPT_MODE_ECB
  · rw [if_pos h1] at h
    simp only [Option.some.injEq, Prod.mk.injEq] at h
    rw [← h.1]
  · rw [if_neg h1] at h
    by_cases h2 : k.dwMode = CRYPT_MODE_CBC
    · rw [if_pos h2] at h
      simp only [Option.some.injEq, Prod.mk.injEq] at h
      rw [← h.1]
    · rw [if_neg h2] at h
      by_cases h3 : k.dwMode = CRYPT_MODE_CFB
      · rw [if_pos h3] at h
        simp only [Option.some.injEq, Prod.mk.injEq] at h
        rw [← h.1]
      · rw [if_neg h3] at h; cases h

/-- The block loop of CPEncrypt leaves the algorithm of the key object as it is. -/
theorem block_loop_encrypt_algid {κ η : Type} (impl : IMPL κ η) (len : Nat) :
    ∀ (fuel : Nat) (k : CRYPTKEY κ) (buf : List Nat) (i : Nat) (out o : List Nat) (ok : Bool)
      (k' : CRYPTKEY κ) (buf' : List Nat),
      block_loop impl false len fuel k buf i out o = some (ok, k', buf') →
      k'.aiAlgid = k.aiAlgid
  | 0, k, buf, i, out, o, ok, k', buf', h => by
    unfold block_loop at h
    by_cases hi : i < len
    · rw [if_pos hi] at h; cases h
    · rw [if_neg hi] at h
      simp only [Option.some.injEq, Prod.mk.injEq] at h
      rw [← h.2.1]
  | fuel + 1, k, buf, i, out, o, ok, k', buf', h => by
    unfold block_loop at h
    by_cases hi : i < len
    · rw [if_pos hi] at h
      simp only [Bool.false_eq_true, if_false] at h
      rcases hq : encrypt_block_step impl k (bytesAt buf i k.dwBlockLen) out o
        with _ | ⟨k1, out1, o1⟩
      · rw [hq] at h
        simp only [Option.some.injEq, Prod.mk.injEq] at h
        rw [← h.2.1]
      · rw [hq] at h
        simp only [] at h
        rw [block_loop_encrypt_algid impl len fuel k1 _ _ out1 o1 ok k' buf' h]
        exact encrypt_block_step_algid impl k k1 _ out o out1 o1 hq
    · rw [if_neg hi] at h
      simp only [Option.some.injEq, Prod.mk.injEq] at h
      rw [← h.2.1]

/-- The part of CPEncrypt after the hash step writes at most the key object of `hKey`, which
keeps its algorithm. -/
theorem CPEncrypt_transform_key_frame {κ η : Type} (impl : IMPL κ η) (s : CSP κ η)
    (hKey : Nat) (k : CRYPTKEY κ) (Final : Bool) (dwFlags : Nat) (pbData : List Nat)
    (dwDataLen dwBufLen : Nat) (r : Bool × CSP κ η × List Nat × Nat)
    (hl : lookup_key s.handle_table hKey = some k)
    (h : CPEncrypt_transform impl s hKey k Final dwFlags pbData dwDataLen dwBufLen = some r) :
    KeyFrame s.handle_table r.2.1.handle_table hKey := by
  have base : ∀ k', k'.aiAlgid = k.aiAlgid →
      KeyFrame s.handle_table (store_object s.handle_table hKey (.key k')) hKey :=
    fun k' ha => KeyFrame_store _ _ k k' hl ha
  have same : KeyFrame s.handle_table s.handle_table hKey := KeyFrame_refl _ _
  unfold CPEncrypt_transform at h
  by_cases hb : GET_ALG_TYPE k.aiAlgid = ALG_TYPE_BLOCK
  · rw [if_pos hb] at h
    by_cases hc : ¬ Final = true ∧ dwDataLen % k.dwBlockLen ≠ 0
    · rw [if_pos hc] at h
      injection h with h; rw [← h]; exact same
    · rw [if_neg hc] at h
      simp only [] at h
      by_cases hm : dwMul (dwAdd (dwDataLen / k.dwBlockLen) (if Final = true then 1 else 0))
          k.dwBlockLen > dwBufLen
      · rw [if_pos hm] at h
        injection h with h; rw [← h]; exact same
      · rw [if_neg hm] at h
        rcases hq : block_loop impl false
            (dwMul (dwAdd (dwDataLen / k.dwBlockLen) (if Final = true then 1 else 0)) k.dwBlockLen)
            (dwMul (dwAdd (dwDataLen / k.dwBlockLen) (if Final = true then 1 else 0)) k.dwBlockLen)
            k (fill_loop (dwSub (dwMul (dwAdd (dwDataLen / k.dwBlockLen)
              (if Final = true then 1 else 0)) k.dwBlockLen) dwDataLen % 256)
              (min (dwMul (dwAdd (dwDataLen / k.dwBlockLen) (if Final = true then 1 else 0))
                k.dwBlockLen) dwBufLen - dwDataLen) pbData dwDataLen) 0 local_block local_block
          with _ | ⟨ok, k2, b2⟩
        · rw [hq] at h; cases h
        · rw [hq] at h
          have ha := block_loop_encrypt_algid impl _ _ _ _ _ _ _ _ _ _ hq
          cases ok
          · simp only [Bool.false_eq_true, if_false] at h
            injection h with h; rw [← h]; exact base _ ha
          · simp only [if_true] at h
            injection h with h; rw [← h]
            refine base _ ?_
            cases Final
            · exact ha
            · exact ha
  · rw [if_neg hb] at h
    by_cases hs : GET_ALG_TYPE k.aiAlgid = ALG_TYPE_STREAM
    · rw [if_pos hs] at h
      injection h with h; rw [← h]
      refine base _ ?_
      cases Final <;> rfl
    · rw [if_neg hs] at h
      by_cases hr : GET_ALG_TYPE k.aiAlgid = ALG_TYPE_RSA
      · rw [if_pos hr] at h
        by_cases hg : k.aiAlgid = CALG_RSA_SIGN
        · rw [if_pos hg] at h
          injection h with h; rw [← h]; exact same
        · rw [if_neg hg] at h
          by_cases hl2 : dwBufLen < k.dwBlockLen
          · rw [if_pos hl2] at h
            injection h with h; rw [← h]; exact same
          · rw [if_neg hl2] at h
            rcases hq : pad_data s.rand (bytesAt pbData 0 dwDataLen) pbData k.dwBlockLen dwFlags
              with _ | ⟨e | buf, rand1⟩
            · rw [hq] at h; cases h
            · rw [hq] at h
              injection h with h; rw [← h]; exact same
            · rw [hq] at h
              injection h with h; rw [← h]; exact base _ rfl
      · rw [if_neg hr] at h
        injection h with h; rw [← h]; exact same

/-- The entry of CPEncrypt and CPDecrypt writes at most the key object of `hKey`, which keeps
its algorithm, whatever its result. -/
theorem transform_enter_key_frame {κ η : Type} (s : CSP κ η)
    (hProv hKey dwFlags newState : Nat) :
    KeyFrame s.handle_table (match transform_enter s hProv hKey dwFlags newState with
      | .ok s1 => s1 | .error s1 => s1).handle_table hKey := by
  unfold transform_enter
  by_cases hp : ¬ is_valid_handle s.handle_table hProv is_container = true
  · rw [if_pos hp]; exact KeyFrame_refl _ _
  · rw [if_neg hp]
    by_cases hf : dwFlags ≠ 0
    · rw [if_pos hf]; exact KeyFrame_refl _ _
    · rw [if_neg hf]
      rcases hq : lookup_key s.handle_table hKey with _ | k
      · exact KeyFrame_refl _ _
      · simp only []
        have hst : KeyFrame s.handle_table (store_object s.handle_table hKey
            (.key (if k.dwState = RSAENH_KEYSTATE_IDLE then
              ({ k with dwState := newState } : CRYPTKEY κ) else k))) hKey :=
          KeyFrame_store _ _ k _ hq (by split <;> rfl)
        by_cases hne : (if k.dwState = RSAENH_KEYSTATE_IDLE then
            ({ k with dwState := newState } : CRYPTKEY κ) else k).dwState ≠ newState
        · rw [if_pos hne]; exact hst
        · rw [if_neg hne]; exact hst

/-- CPEncrypt for a hash handle that names no hash object writes at most the key object of
`hKey`, which keeps its algorithm. -/
theorem CPEncrypt_nohash_key_frame {κ η : Type} (impl : IMPL κ η) (s : CSP κ η)
    (hProv hKey : Nat) (Final : Bool) (dwFlags : Nat) (pbData : List Nat)
    (dwDataLen dwBufLen : Nat) (r : Bool × CSP κ η × List Nat × Nat)
    (h : CPEncrypt_nohash impl s hProv hKey Final dwFlags pbData dwDataLen dwBufLen = some r) :
    KeyFrame s.handle_table r.2.1.handle_table hKey := by
  unfold CPEncrypt_nohash at h
  have h0 := transform_enter_key_frame s hProv hKey dwFlags RSAENH_KEYSTATE_ENCRYPTING
  rcases hq : transform_enter s hProv hKey dwFlags RSAENH_KEYSTATE_ENCRYPTING with s1 | s1
  · rw [hq] at h h0
    injection h with h
    rw [← h]
    exact h0
  · rw [hq] at h h0
    simp only [] at h h0
    rcases hk : lookup_key s1.handle_table hKey with _ | k
    · rw [hk] at h; cases h
    · rw [hk] at h
      simp only [] at h
      exact KeyFrame_trans _ _ _ _ h0
        (CPEncrypt_transform_key_frame impl s1 hKey k Final dwFlags pbData dwDataLen dwBufLen r
          hk h)

/-- CPHashData writes at most one key object, the one that the hash object is bound to (which a
MAC encrypts with), and that key object keeps its algorithm. -/
theorem CPHashData_key_frame {κ η : Type} (impl : IMPL κ η) (s s' : CSP κ η)
    (hProv hHash dwFlags : Nat) (d : List Nat) (x : CRYPTHASH η) (ok : Bool)
    (hh : lookup_hash s.handle_table hHash = some x)
    (h : RSAENH_CPHashData impl s hProv hHash d dwFlags = some (ok, s')) :
    KeyFrame s.handle_table s'.handle_table x.hKey := by
  by_cases hx : x.aiAlgid ≠ CALG_MAC
  · exact KeyFrame_of_eq _ _ _
      (fun hK => CPHashData_keys impl s s' hProv hHash dwFlags d x ok hh hx h hK)
  · have hmac : x.aiAlgid = CALG_MAC := not_not.mp hx
    unfold RSAENH_CPHashData at h
    by_cases hf : dwFlags ≠ 0
    · rw [if_pos hf] at h
      simp only [Option.some.injEq, Prod.mk.injEq] at h
      rw [← h.2]; exact KeyFrame_refl _ _
    · rw [if_neg hf, hh] at h
      simp only [] at h
      by_cases ha : (get_algid_info s.handle_table hProv x.aiAlgid).toBool = false ∨
          x.aiAlgid = CALG_SSL3_SHAMD5
      · rw [if_pos ha] at h
        simp only [Option.some.injEq, Prod.mk.injEq] at h
        rw [← h.2]; exact KeyFrame_refl _ _
      · rw [if_neg ha] at h
        obtain ⟨h1, hh1⟩ : ∃ h1, (if x.dwState = RSAENH_HASHSTATE_IDLE then
            ({ x with dwState := RSAENH_HASHSTATE_HASHING } : CRYPTHASH η) else x) = h1 :=
          ⟨_, rfl⟩
        have h1alg : h1.aiAlgid = x.aiAlgid := by
          rw [← hh1]; split <;> rfl
        have h1key : h1.hKey = x.hKey := by
          rw [← hh1]; split <;> rfl
        rw [hh1] at h
        have f1 : KeyFrame s.handle_table (store_object s.handle_table hHash (.hash h1)) x.hKey :=
          KeyFrame_of_eq _ _ _ (fun hK => lookup_key_store_hash_eq _ _ _ _ _ hh)
        by_cases hst : h1.dwState ≠ RSAENH_HASHSTATE_HASHING
        · rw [if_pos hst] at h
          simp only [Option.some.injEq, Prod.mk.injEq] at h
          rw [← h.2]
          exact f1
        · rw [if_neg hst] at h
          unfold update_hash at h
          rw [if_neg (by rw [h1alg, hmac]; decide), if_pos (by rw [h1alg]; exact hmac)] at h
          rcases hq : CPEncrypt_nohash impl
              (s.withTable (store_object s.handle_table hHash (.hash h1))) h1.hProv h1.hKey
              false 0 d d.length d.length with _ | r
          · rw [hq] at h; cases h
          · rw [hq] at h
            simp only [Option.some.injEq, Prod.mk.injEq] at h
            rw [← h.2]
            have f2 := CPEncrypt_nohash_key_frame impl _ _ _ _ _ _ _ _ r hq
            rw [h1key] at f2
            have hh2 : lookup_hash r.2.1.handle_table hHash = some h1 := by
              rw [CPEncrypt_nohash_hashes impl _ _ _ _ _ _ _ _ r hq hHash]
              exact lookup_hash_store_same _ _ _ _ hh
            have f3 : KeyFrame r.2.1.handle_table
                (store_object r.2.1.handle_table hHash (.hash h1)) x.hKey :=
              KeyFrame_of_eq _ _ _ (fun hK => lookup_key_store_hash_eq _ _ _ _ _ hh2)
            exact KeyFrame_trans _ _ _ _ f1 (KeyFrame_trans _ _ _ _ f2 f3)

/-- C11 (counterexample). A DES key (handle 2) and a MAC hash object bound to that key
(handle 3): CPDecrypt with Final = TRUE and the hash handle returns TRUE, and
the key object is then in state Encrypting, not Idle (the hash step, which
comes after setup_key, encrypts with the key). -/
theorem final_rearms_key_counterexample :
    (RSAENH_CPDecrypt toyImpl
        (toyState 0 [.key (toyDesKey RSAENH_KEYSTATE_IDLE CRYPT_MODE_CBC (List.replicate 24 0)),
          .hash { toyHash CALG_MAC 8 RSAENH_HASHSTATE_IDLE [] with hKey := 2 }])
        1 2 3 true 0 [11, 11, 11, 11, 11, 9, 8, 7] 8).map
        (fun r => (r.1, (lookup_key r.2.1.handle_table 2).map (fun k => k.dwState)))
      = some (true, some RSAENH_KEYSTATE_ENCRYPTING) ∧
    RSAENH_KEYSTATE_ENCRYPTING ≠ RSAENH_KEYSTATE_IDLE := by
  decide

theorem KeyFrame_algid {κ η : Type} (t t' : HANDLETABLE κ η) (hK0 h : Nat) (k : CRYPTKEY κ)
    (hf : KeyFrame t t' hK0) (hl : lookup_key t h = some k) :
    ∃ k', lookup_key t' h = some k' ∧ k'.aiAlgid = k.aiAlgid := by
  by_cases e : h = hK0
  · subst e
    exact hf.2 k hl
  · exact ⟨k, by rw [hf.1 h e]; exact hl, rfl⟩

/-- C11 (amended). Re-arming on final, for the key object `k` of `hKey`: after every successful
CPEncrypt call with Final = TRUE or on an RSA key, whatever the hash handle names, the key
object is Idle and its chaining vector equals its init vector; the same holds after every
successful CPDecrypt call with Final = TRUE or on an RSA key, unless the hash handle names a
MAC hash object that is bound to the key of `hKey` itself. -/
theorem final_rearms_key {κ η : Type} (impl : IMPL κ η) (s : CSP κ η)
    (hProv hKey hHash dwFlags dwDataLen dwBufLen : Nat) (Final : Bool) (pbData : List Nat)
    (k : CRYPTKEY κ) (hkey : lookup_key s.handle_table hKey = some k)
    (hF : Final = true ∨ GET_ALG_TYPE k.aiAlgid = ALG_TYPE_RSA) :
    (∀ (s' : CSP κ η) (buf : List Nat) (n : Nat),
      RSAENH_CPEncrypt impl s hProv hKey hHash Final dwFlags pbData dwDataLen dwBufLen
        = some (true, s', buf, n) →
      ∃ k', lookup_key s'.handle_table hKey = some k' ∧
        k'.dwState = RSAENH_KEYSTATE_IDLE ∧ k'.abChainVector = k'.abInitVector) ∧
    ((∀ x, lookup_hash s.handle_table hHash = some x → x.aiAlgid = CALG_MAC → x.hKey ≠ hKey) →
      ∀ (s' : CSP κ η) (buf : List Nat) (n : Nat),
        RSAENH_CPDecrypt impl s hProv hKey hHash Final dwFlags pbData dwDataLen
          = some (true, s', buf, n) →
        ∃ k', lookup_key s'.handle_table hKey = some k' ∧
          k'.dwState = RSAENH_KEYSTATE_IDLE ∧ k'.abChainVector = k'.abInitVector) := by
  constructor
  · intro s' buf n h
    unfold RSAENH_CPEncrypt at h
    rcases hq : transform_enter s hProv hKey dwFlags RSAENH_KEYSTATE_ENCRYPTING with e1 | s1
    · rw [hq] at h
      simp only [Option.some.injEq, Prod.mk.injEq] at h
      exact absurd h.1 (by decide)
    · rw [hq] at h
      simp only [] at h
      obtain ⟨⟨k1, hk1, hk1a⟩, hfr1⟩ := transform_enter_inv s s1 hProv hKey dwFlags _ k hkey hq
      rcases hq2 : (if is_valid_handle s1.handle_table hHash is_hash = true then
          RSAENH_CPHashData impl s1 hProv hHash (bytesAt pbData 0 dwDataLen) 0
        else some (true, s1)) with _ | ⟨okh, s2⟩
      · rw [hq2] at h; cases h
      · rw [hq2] at h
        cases okh
        · simp only [Option.some.injEq, Prod.mk.injEq] at h
          exact absurd h.1 (by decide)
        · simp only [] at h
          rcases hq3 : lookup_key s2.handle_table hKey with _ | k2
          · rw [hq3] at h; cases h
          · rw [hq3] at h
            simp only [] at h
            refine CPEncrypt_transform_rearm impl s2 s' hKey k2 k2 Final dwFlags pbData buf
              dwDataLen dwBufLen n hq3 ?_ h
            rcases hF with hF | hrsa
            · exact Or.inl hF
            · right
              have hk2 : ∃ k', lookup_key s2.handle_table hKey = some k' ∧
                  k'.aiAlgid = k1.aiAlgid := by
                by_cases hv : is_valid_handle s1.handle_table hHash is_hash = true
                · rw [if_pos hv] at hq2
                  obtain ⟨x, hx⟩ := is_valid_handle_hash _ _ hv
                  exact KeyFrame_algid _ _ x.hKey hKey k1
                    (CPHashData_key_frame impl s1 s2 hProv hHash 0 _ x true hx hq2) hk1
                · rw [if_neg hv] at hq2
                  injection hq2 with hq2
                  injection hq2 with _ hq2
                  rw [← hq2]
                  exact ⟨k1, hk1, rfl⟩
              obtain ⟨k', hk', ha'⟩ := hk2
              rw [hq3] at hk'
              injection hk' with hk'
              rw [hk', ha', hk1a]
              exact hrsa
  · intro hmac s' buf n h
    unfold RSAENH_CPDecrypt at h
    rcases hq : transform_enter s hProv hKey dwFlags RSAENH_KEYSTATE_DECRYPTING with e1 | s1
    · rw [hq] at h
      simp only [Option.some.injEq, Prod.mk.injEq] at h
      exact absurd h.1 (by decide)
    · rw [hq] at h
      simp only [] at h
      obtain ⟨⟨k1, hk1, hk1a⟩, hfr1⟩ := transform_enter_inv s s1 hProv hKey dwFlags _ k hkey hq
      rw [hk1] at h
      simp only [] at h
      rcases hq2 : CPDecrypt_transform impl s1 hKey k1 Final dwFlags pbData dwDataLen
        with _ | ⟨okt, s2, b2, n2⟩
      · rw [hq2] at h; cases h
      · rw [hq2] at h
        cases okt
        · simp only [Option.some.injEq, Prod.mk.injEq] at h
          exact absurd h.1 (by decide)
        · simp only [] at h
          obtain ⟨⟨k', hk', hidle, hchain⟩, hfr2⟩ := CPDecrypt_transform_rearm impl s1 s2 hKey
            k1 k1 Final dwFlags pbData b2 dwDataLen n2 hk1 (by rw [hk1a]; exact hF) hq2
          by_cases hv : is_valid_handle s2.handle_table hHash is_hash = true
          · rw [if_pos hv] at h
            by_cases hn : n2 > dwDataLen
            · rw [if_pos hn] at h
              simp only [Option.some.injEq, Prod.mk.injEq] at h
              exact absurd h.1 (by decide)
            · rw [if_neg hn] at h
              rcases hq3 : RSAENH_CPHashData impl s2 hProv hHash (bytesAt b2 0 n2) 0
                with _ | ⟨okh, s3⟩
              · rw [hq3] at h; cases h
              · rw [hq3] at h
                simp only [Option.some.injEq, Prod.mk.injEq] at h
                obtain ⟨x, hx⟩ := is_valid_handle_hash _ _ hv
                have hx0 : lookup_hash s.handle_table hHash = some x := by
                  rw [← hfr1, ← hfr2]; exact hx
                have hk3 : lookup_key s3.handle_table hKey = lookup_key s2.handle_table hKey := by
                  by_cases hm : x.aiAlgid = CALG_MAC
                  · exact (CPHashData_key_frame impl s2 s3 hProv hHash 0 _ x okh hx hq3).1 hKey
                      (fun e => hmac x hx0 hm e.symm)
                  · exact CPHashData_keys impl s2 s3 hProv hHash 0 _ x okh hx hm hq3 hKey
                rw [← h.2.1, hk3]
                exact ⟨k', hk', hidle, hchain⟩
          · rw [if_neg hv] at h
            simp only [Option.some.injEq, Prod.mk.injEq, true_and] at h
            rw [← h.1]
            exact ⟨k', hk', hidle, hchain⟩

/-- Witness for C11: the amended theorem at two final calls on an Idle DES key (handle 2) that
succeed.  CPEncrypt with a MAC hash object bound to that key: the key is Idle afterwards.
CPDecrypt with a MAC hash object bound to another DES key (handle 3): the key is Idle
afterwards. -/
theorem final_rearms_key_witness :
    (∃ s' buf n,
      RSAENH_CPEncrypt toyImpl
        (toyState 0 [.key (toyDesKey RSAENH_KEYSTATE_IDLE CRYPT_MODE_CBC (List.replicate 24 0)),
          .hash { toyHash CALG_MAC 8 RSAENH_HASHSTATE_IDLE [] with hKey := 2 }])
        1 2 3 true 0 ([1, 2, 3, 4, 5, 6, 7, 8] ++ List.replicate 8 0) 8 16
        = some (true, s', buf, n) ∧
      ∃ k', lookup_key s'.handle_table 2 = some k' ∧
        k'.dwState = RSAENH_KEYSTATE_IDLE ∧ k'.abChainVector = k'.abInitVector) ∧
    ∃ s' buf n,
      RSAENH_CPDecrypt toyImpl
        (toyState 0 [.key (toyDesKey RSAENH_KEYSTATE_IDLE CRYPT_MODE_CBC (List.replicate 24 0)),
          .key (toyDesKey RSAENH_KEYSTATE_IDLE CRYPT_MODE_CBC (List.replicate 24 0)),
          .hash { toyHash CALG_MAC 8 RSAENH_HASHSTATE_IDLE [] with hKey := 3 }])
        1 2 4 true 0 [11, 11, 11, 11, 11, 9, 8, 7] 8 = some (true, s', buf, n) ∧
      ∃ k', lookup_key s'.handle_table 2 = some k' ∧
        k'.dwState = RSAENH_KEYSTATE_IDLE ∧ k'.abChainVector = k'.abInitVector := by
  constructor
  · obtain ⟨r, hr⟩ : ∃ r, RSAENH_CPEncrypt toyImpl
        (toyState 0 [.key (toyDesKey RSAENH_KEYSTATE_IDLE CRYPT_MODE_CBC (List.replicate 24 0)),
          .hash { toyHash CALG_MAC 8 RSAENH_HASHSTATE_IDLE [] with hKey := 2 }])
        1 2 3 true 0 ([1, 2, 3, 4, 5, 6, 7, 8] ++ List.replicate 8 0) 8 16 = some r :=
      Option.isSome_iff_exists.mp (by decide)
    have h1 : (RSAENH_CPEncrypt toyImpl
        (toyState 0 [.key (toyDesKey RSAENH_KEYSTATE_IDLE CRYPT_MODE_CBC (List.replicate 24 0)),
          .hash { toyHash CALG_MAC 8 RSAENH_HASHSTATE_IDLE [] with hKey := 2 }])
        1 2 3 true 0 ([1, 2, 3, 4, 5, 6, 7, 8] ++ List.replicate 8 0) 8 16).map (fun r => r.1)
        = some true := by decide
    rw [hr] at h1
    obtain ⟨b, s', buf, n⟩ := r
    simp only [Option.map_some', Option.some.injEq] at h1
    subst h1
    exact ⟨s', buf, n, hr,
      (final_rearms_key toyImpl _ 1 2 3 0 8 16 true _
        (toyDesKey RSAENH_KEYSTATE_IDLE CRYPT_MODE_CBC (List.replicate 24 0)) (by decide)
        (Or.inl rfl)).1 s' buf n hr⟩
  · obtain ⟨r, hr⟩ : ∃ r, RSAENH_CPDecrypt toyImpl
        (toyState 0 [.key (toyDesKey RSAENH_KEYSTATE_IDLE CRYPT_MODE_CBC (List.replicate 24 0)),
          .key (toyDesKey RSAENH_KEYSTATE_IDLE CRYPT_MODE_CBC (List.replicate 24 0)),
          .hash { toyHash CALG_MAC 8 RSAENH_HASHSTATE_IDLE [] with hKey := 3 }])
        1 2 4 true 0 [11, 11, 11, 11, 11, 9, 8, 7] 8 = some r :=
      Option.isSome_iff_exists.mp (by decide)
    have h1 : (RSAENH_CPDecrypt toyImpl
        (toyState 0 [.key (toyDesKey RSAENH_KEYSTATE_IDLE CRYPT_MODE_CBC (List.replicate 24 0)),
          .key (toyDesKey RSAENH_KEYSTATE_IDLE CRYPT_MODE_CBC (List.replicate 24 0)),
          .hash { toyHash CALG_MAC 8 RSAENH_HASHSTATE_IDLE [] with hKey := 3 }])
        1 2 4 true 0 [11, 11, 11, 11, 11, 9, 8, 7] 8).map (fun r => r.1) = some true := by
      decide
    rw [hr] at h1
    obtain ⟨b, s', buf, n⟩ := r
    simp only [Option.map_some', Option.some.injEq] at h1
    subst h1
    exact ⟨s', buf, n, hr,
      (final_rearms_key toyImpl _ 1 2 4 0 8 8 true _
        (toyDesKey RSAENH_KEYSTATE_IDLE CRYPT_MODE_CBC (List.replicate 24 0)) (by decide)
        (Or.inl rfl)).2
        (fun x hx _ => by
          have e : x = { toyHash CALG_MAC 8 RSAENH_HASHSTATE_IDLE [] with hKey := 3 } := by
            have h0 : lookup_hash (toyState 0
                [.key (toyDesKey RSAENH_KEYSTATE_IDLE CRYPT_MODE_CBC (List.replicate 24 0)),
                 .key (toyDesKey RSAENH_KEYSTATE_IDLE CRYPT_MODE_CBC (List.replicate 24 0)),
                 .hash { toyHash CALG_MAC 8 RSAENH_HASHSTATE_IDLE [] with hKey := 3 }]
                : CSP Nat (List Nat)).handle_table 4
                = some { toyHash CALG_MAC 8 RSAENH_HASHSTATE_IDLE [] with hKey := 3 } := rfl
            rw [h0] at hx
            injection hx with hx
            exact hx.symm
          rw [e]
          decide)
        s' buf n hr⟩

end Rsaenh
